import Mathlib

/-!
# RFIDSIM: the discrete-event kernel and the wireless signal model

A shallow embedding of the simulator kernel (`simulator.hpp`, `simulator.cpp`,
`event.hpp`, `timer.hpp`), of the physical layer's interference bookkeeping
(`physical_layer.cpp`) and of the channel manager (`wireless_channel_manager.cpp`).

Modelling conventions.
* `SimTime` and every `double` are exact rationals; a division by zero, which
  the sources never perform on the paths modelled here, yields `0` as in `ℚ`.
* A `boost::shared_ptr` is the identity of the object it points to (a natural
  number); the objects themselves live in a table indexed by that identity.
* A failing `assert` aborts the program; operations that contain assertions
  return `Except Fault _`, the fault naming the assertion that failed.
* `std::multiset`, `std::map` and `std::multimap` are the lists of their
  elements in iteration order.
* A virtual method whose overrides are outside the modelled sources is a
  parameter: the handler of an event is an `Execute`, the propagation model of
  a channel is a `Medium`.
* The objects that the channel manager reaches through pointers (physical
  layers, signals, signal-end events) are the tables of a `World`.
-/

namespace RFIDSIM

/-! ## sim_time.hpp, event.hpp -/

/-- Simulated time in seconds (`SimTime::m_time`). -/
abbrev SimTime := ℚ

/-- Identity of an `Event` object (the value of an `EventPtr`). -/
abbrev EventId := ℕ

/-- Identity of a `SimulationEndListener`. -/
abbrev ListenerId := ℕ

/-- The data members of `class Event`. -/
structure Event where
  m_timeToFire : SimTime
  m_inEventQueue : Bool
deriving DecidableEq

/-- Modelled from the spec: the constructor `Event::Event()` is declared in
`event.hpp` but its body is not part of the sources; a new event is not queued. -/
def Event.create : Event :=
  { m_timeToFire := 0, m_inEventQueue := false }

def Event.getFireTime (e : Event) : SimTime := e.m_timeToFire

def Event.inEventQueue (e : Event) : Bool := e.m_inEventQueue

def Event.setFireTime (e : Event) (newFireTime : SimTime) : Event :=
  { e with m_timeToFire := newFireTime }

def Event.setInEventQueue (e : Event) (inEventQueue : Bool) : Event :=
  { e with m_inEventQueue := inEventQueue }

/-- The comparison `Event::operator<`: by fire time only. -/
def Event.lt (e1 e2 : Event) : Bool := decide (e1.m_timeToFire < e2.m_timeToFire)

/-- The assertions of the modelled code. -/
inductive Fault where
  /-- `assert(!eventToSchedule->inEventQueue())` in `scheduleEvent`. -/
  | scheduleQueuedEvent
  /-- `assert(eventDelay >= 0.0)` in `scheduleEvent`. -/
  | scheduleNegativeDelay
  /-- `assert(m_clock <= fireTime)` in `dispatchEvent`. -/
  | dispatchClockAhead
  /-- `assert(wasFound)` in `getPendingSignalStrength`. -/
  | pendingSignalNotFound
  /-- `assert(wasFound)` and `assert(!wasFound)` in `getChannelId`. -/
  | channelIdNotUnique
  /-- `assert(txPower > 0.0)` in `setCurrentTxPower`. -/
  | txPowerNotPositive
  /-- `assert(didSchedule)` and `assert(didRemove)` in `unitTestEventQueue`. -/
  | unitTestAssertion
  /-- `assert(timeLeft.isValid())` in `Timer::timeRemaining`. -/
  | timeLeftInvalid
  /-- `assert(m_packetToTransmit.get() == 0)` in the MAC classes. -/
  | packetToTransmitPending
  /-- `assert(m_cycleTimer->isRunning())` in `RfidReaderMac::beginSlotEvent`. -/
  | cycleTimerNotRunning
  /-- `assert(!inContentionCycle())` in `RfidReaderMac::endRequestCycleEvent`. -/
  | inContentionCycle
  /-- `assert(m_currentAppReadPacket.get() != 0)` and its converse in the reader MAC. -/
  | currentAppReadPacket
  /-- `assert(m_slotTimer.get() != 0 && m_slotTimer->isRunning())`, in the tag MAC
  together with `inContentionCycle()`. -/
  | slotTimerNotRunning
  /-- `assert(m_nextCycleNumberOfSlots >= 4)` and `assert(m_numberOfSlots >= 4)`. -/
  | numberOfSlotsTooSmall
  /-- `assert(!getQueueIsBlocked())` in `RfidReaderMac::beginSlotEvent`. -/
  | queueIsBlocked
  /-- `assert(txPower >= 0.0)` in `Packet::setTxPower`. -/
  | txPowerNegative
  /-- `assert(dataRate > 0.0)` in `Packet::setDataRate`. -/
  | dataRateNotPositive
  /-- `assert(powerValue != 0.0)` in `powerToDecibels`. -/
  | powerIsZero
  /-- `assert(!m_sendTimer->isRunning())` in `MacProtocol::startSendTimer`. -/
  | sendTimerRunning
  /-- `assert(!m_sender->m_transmittingTimer->isRunning())` in
  `SignalRecvEvent::execute`. -/
  | transmittingTimerRunning
  /-- `assert(macData->getReceiverId() == NodeId::broadcastDestination())` in
  `RfidTagMac::handleRecvdMacPacket`. -/
  | requestNotBroadcast
  /-- `assert(direction == CommunicationLayer::Directions_Upper)` in
  `PhysicalLayer::recvFromLayer`. -/
  | wrongDirection
  /-- `assert(m_numPowerControlLevels > 0)` in `RfidReaderApp::doReadProcess`. -/
  | noPowerControlLevels
  /-- `assert(m_wavelength > 0.0)` and `assert(m_transmitterGain > 0.0)` in the
  constructor of `WirelessCommSignal`. -/
  | signalParameters
  /-- `assert(sizeof(t_uint) <= byteCount)` in `NodeId::writeToByteArray`. -/
  | byteArrayTooShort
  /-- `assert(i < byteCount)` in `NodeId::writeToByteArray`. -/
  | byteIndexOutOfRange
  /-- `assert(byteArray[i] == 0)` in the constructor of `NodeId` from a byte array. -/
  | idByteNotZero
  /-- `assert(p.second)` in `RfidReaderApp::handleRecvdPacket`. -/
  | tagIdNotInserted
  /-- `assert(m_packetQueue.size() <= m_maxQueueLength)` in `queueIsFull`. -/
  | queueTooLong
  /-- `assert(recvingLayerIdx < numberOfLayers(direction))` in `sendToLayer`. -/
  | noSuchLayer
  /-- `assert(maxQueueLength > 0)` in `setMaxQueueLength`. -/
  | maxQueueLengthZero
deriving DecidableEq, Repr

/-! ## simulator.hpp, simulator.cpp -/

/-- The data members of `class Simulator` together with the `Event` objects
that its queue and its clients point to. -/
structure Simulator where
  m_clock : SimTime
  /-- The `multiset<EventPtr,EventPtrComparator>` in iteration order. -/
  m_eventPtrQueue : List EventId
  m_simulationEndListeners : List ListenerId
  /-- The `Event` object behind each pointer. -/
  events : EventId → Event

/-- The simulator as constructed: clock at `m_SIM_START_TIME`, empty queue, and
every event as its constructor leaves it. -/
def Simulator.instance : Simulator :=
  { m_clock := 0, m_eventPtrQueue := [], m_simulationEndListeners := [],
    events := fun _ => Event.create }

def Simulator.currentTime (s : Simulator) : SimTime := s.m_clock

/-- The comparator `EventPtrComparator::operator()`: dereference, then `<`. -/
def Simulator.eventPtrLt (s : Simulator) (event1 event2 : EventId) : Bool :=
  (s.events event1).lt (s.events event2)

/-- Replace the object behind one pointer. -/
def setEvent (events : EventId → Event) (e : EventId) (v : Event) : EventId → Event :=
  fun i => if i = e then v else events i

/-- The insertion `multiset::insert(value)`: the new element goes to the upper
bound of its key, that is before the first element that compares greater. -/
def multisetInsert (lt : EventId → EventId → Bool) (x : EventId) :
    List EventId → List EventId
  | [] => [x]
  | y :: ys => if lt x y then x :: y :: ys else y :: multisetInsert lt x ys

/-- The method `Simulator::scheduleEvent`.  The iterator returned by
`multiset::insert` always designates the new element, so `didInsert` is true. -/
def Simulator.scheduleEvent (s : Simulator) (eventToSchedule : EventId)
    (eventDelay : SimTime) : Except Fault (Bool × Simulator) :=
  if (s.events eventToSchedule).inEventQueue then .error .scheduleQueuedEvent
  else if ¬ (eventDelay ≥ 0) then .error .scheduleNegativeDelay
  else
    let s1 : Simulator := { s with
      events := setEvent s.events eventToSchedule
        ((s.events eventToSchedule).setFireTime (s.currentTime + eventDelay)) }
    let s2 : Simulator := { s1 with
      m_eventPtrQueue := multisetInsert s1.eventPtrLt eventToSchedule s1.m_eventPtrQueue }
    let didInsert := true
    let s3 : Simulator := { s2 with
      events := setEvent s2.events eventToSchedule
        ((s2.events eventToSchedule).setInEventQueue true) }
    .ok (didInsert, if didInsert then s3 else s2)

/-- The elements in front of `multiset::equal_range(x).first`. -/
def beforeEqualRange (lt : EventId → EventId → Bool) (x : EventId)
    (q : List EventId) : List EventId :=
  q.takeWhile (fun y => lt y x)

/-- The elements of `multiset::equal_range(x)`: equivalent to `x` under `lt`. -/
def equalRange (lt : EventId → EventId → Bool) (x : EventId)
    (q : List EventId) : List EventId :=
  (q.dropWhile (fun y => lt y x)).takeWhile (fun y => !lt x y)

/-- The elements from `multiset::equal_range(x).second` on. -/
def afterEqualRange (lt : EventId → EventId → Bool) (x : EventId)
    (q : List EventId) : List EventId :=
  (q.dropWhile (fun y => lt y x)).dropWhile (fun y => !lt x y)

/-- The method `Simulator::cancelEvent`: scan the equal range of the event's
fire time for the pointer itself and erase that one element. -/
def Simulator.cancelEvent (s : Simulator) (eventToCancel : EventId) :
    Bool × Simulator :=
  let range := equalRange s.eventPtrLt eventToCancel s.m_eventPtrQueue
  if eventToCancel ∈ range then
    (true, { s with
      m_eventPtrQueue :=
        beforeEqualRange s.eventPtrLt eventToCancel s.m_eventPtrQueue
          ++ range.erase eventToCancel
          ++ afterEqualRange s.eventPtrLt eventToCancel s.m_eventPtrQueue
      events := setEvent s.events eventToCancel
        ((s.events eventToCancel).setInEventQueue false) })
  else (false, s)

/-- The method `Simulator::getNextEvent`, called on a non-empty queue only. -/
def Simulator.getNextEvent (s : Simulator) (nextEvent : EventId)
    (rest : List EventId) : EventId × Simulator :=
  (nextEvent, { s with
    m_eventPtrQueue := rest
    events := setEvent s.events nextEvent ((s.events nextEvent).setInEventQueue false) })

/-- The method `Simulator::reset`: clear the queue, put the clock back. -/
def Simulator.reset (s : Simulator) : Simulator :=
  { s with m_eventPtrQueue := [], m_clock := 0 }

def Simulator.addSimulationEndListener (s : Simulator) (listener : ListenerId) :
    Simulator :=
  { s with m_simulationEndListeners := s.m_simulationEndListeners ++ [listener] }

/-- A call that the body of `Event::execute` makes on the simulator. -/
inductive KernelCall where
  | scheduleEvent (e : EventId) (eventDelay : SimTime)
  | cancelEvent (e : EventId)

/-- The virtual method `Event::execute` of every event: from the event, the
simulator it sees and the rest of the program state `σ`, the new program state
and the kernel calls it makes, in order.  Since the kernel is deterministic this
covers every handler that talks to the kernel through `scheduleEvent` and
`cancelEvent`. -/
abbrev Execute (σ : Type) := EventId → Simulator → σ → σ × List KernelCall

def Simulator.call (s : Simulator) : KernelCall → Except Fault Simulator
  | .scheduleEvent e d => (s.scheduleEvent e d).map Prod.snd
  | .cancelEvent e => .ok (s.cancelEvent e).2

def Simulator.calls (s : Simulator) : List KernelCall → Except Fault Simulator
  | [] => .ok s
  | c :: cs =>
    match s.call c with
    | .error f => .error f
    | .ok s1 => s1.calls cs

/-- One invocation of `execute`: which event, its fire time, and the clock that
the handler observes. -/
structure Dispatch where
  event : EventId
  fireTime : SimTime
  clock : SimTime
deriving DecidableEq

/-- How a (partial) run ends. -/
inductive Outcome (σ : Type) where
  /-- The call returned. -/
  | returned (s : Simulator) (w : σ) (notified : List ListenerId)
  /-- An assertion failed. -/
  | aborted (f : Fault)
  /-- The loop is still running after the given number of iterations. -/
  | running (s : Simulator) (w : σ)

/-- The method `Simulator::dispatchEvent`, with the invocation of `execute` it
makes recorded. -/
def Simulator.dispatchEvent {σ : Type} (exec : Execute σ) (s : Simulator)
    (event : EventId) (w : σ) : List Dispatch × Except Fault (Simulator × σ) :=
  let fireTime := (s.events event).getFireTime
  if ¬ (s.m_clock ≤ fireTime) then ([], .error .dispatchClockAhead)
  else
    let s1 : Simulator := { s with m_clock := fireTime }
    let r := exec event s1 w
    ([{ event := event, fireTime := fireTime, clock := s1.m_clock }],
      (s1.calls r.2).map (fun s2 => (s2, r.1)))

/-- The `while` loop of `Simulator::runSimulation`, at most `fuel` iterations. -/
def Simulator.runLoop {σ : Type} (exec : Execute σ) (stopTime : SimTime) :
    ℕ → Simulator → σ → List Dispatch × Outcome σ
  | 0, s, w => ([], .running s w)
  | fuel + 1, s, w =>
    match s.m_eventPtrQueue with
    | [] => ([], .returned s w [])
    | e :: rest =>
      let (nextEvent, s1) := s.getNextEvent e rest
      if (s1.events nextEvent).getFireTime > stopTime then ([], .returned s1 w [])
      else
        match s1.dispatchEvent exec nextEvent w with
        | (ds, .error f) => (ds, .aborted f)
        | (ds, .ok (s2, w2)) =>
          let r := Simulator.runLoop exec stopTime fuel s2 w2
          (ds ++ r.1, r.2)

/-- The method `Simulator::runSimulation`: the loop, then the clock is set to
the stop time and the listeners are notified in order. -/
def Simulator.runSimulation {σ : Type} (exec : Execute σ) (stopTime : SimTime)
    (fuel : ℕ) (s : Simulator) (w : σ) : List Dispatch × Outcome σ :=
  match Simulator.runLoop exec stopTime fuel s w with
  | (ds, .returned s1 w1 _) =>
    (ds, .returned { s1 with m_clock := stopTime } w1 s1.m_simulationEndListeners)
  | r => r

/-- The key the queue is ordered by. -/
def Simulator.fire (s : Simulator) (e : EventId) : SimTime := (s.events e).m_timeToFire

/-- Representation invariant of the event queue: it is ordered by fire time (as
any `multiset` is by its comparator), holds no pointer twice, and every queued
event carries the in-queue flag. -/
structure Simulator.WF (s : Simulator) : Prop where
  sorted : s.m_eventPtrQueue.Pairwise (fun a b => s.fire a ≤ s.fire b)
  nodup : s.m_eventPtrQueue.Nodup
  flagged : ∀ e ∈ s.m_eventPtrQueue, (s.events e).m_inEventQueue = true

/-- No queued event lies in the past. -/
def Simulator.Future (s : Simulator) : Prop :=
  ∀ e ∈ s.m_eventPtrQueue, s.m_clock ≤ s.fire e

/-- The events that were handed to `execute`, in order. -/
def dispatched (ds : List Dispatch) : List EventId := ds.map Dispatch.event

/-- A property of the simulator an outcome carries, if it carries one. -/
def Outcome.Holds {σ : Type} (P : Simulator → Prop) : Outcome σ → Prop
  | .returned s _ _ => P s
  | .aborted _ => True
  | .running s _ => P s

/-- The faults a handler can cause through its kernel calls. -/
def Outcome.NoClockFault {σ : Type} : Outcome σ → Prop
  | .aborted f => f = .scheduleQueuedEvent ∨ f = .scheduleNegativeDelay
  | _ => True

/-- The state of `unitTestEventQueue` (main.cpp) after its first four
`scheduleEvent` calls: events 0 to 3 with delays 0, 2, 5 and 1.5 at clock 0. -/
def unitTestPrefix : Simulator :=
  { m_clock := 0
    m_eventPtrQueue := [0, 3, 1, 2]
    m_simulationEndListeners := []
    events := fun i =>
      if i = 0 then { m_timeToFire := 0, m_inEventQueue := true }
      else if i = 1 then { m_timeToFire := 2, m_inEventQueue := true }
      else if i = 2 then { m_timeToFire := 5, m_inEventQueue := true }
      else if i = 3 then { m_timeToFire := 3 / 2, m_inEventQueue := true }
      else Event.create }

/-- The handler of `DummyEvent`: `execute` does nothing. -/
def dummyExecute : Execute Unit := fun _ _ w => (w, [])


/-! ## timer.hpp -/

/-- The data member `m_eventOnFire` of `class Timer`; the owner node forwards
`scheduleEvent` and `cancelEvent` to the simulator (node.cpp). -/
structure Timer where
  m_eventOnFire : EventId

def Timer.isRunning (t : Timer) (s : Simulator) : Bool :=
  (s.events t.m_eventOnFire).inEventQueue

def Timer.start (t : Timer) (s : Simulator) (delay : SimTime) :
    Except Fault (Bool × Simulator) :=
  if !t.isRunning s then s.scheduleEvent t.m_eventOnFire delay
  else .ok (false, s)

def Timer.stop (t : Timer) (s : Simulator) : Bool × Simulator :=
  if t.isRunning s then s.cancelEvent t.m_eventOnFire
  else (false, s)

/-! ## location.hpp, packet.hpp, packet.cpp, wireless_comm_signal.cpp -/

/-- The members of `class Location` (metres). -/
structure Location where
  m_xCoordinate : ℚ
  m_yCoordinate : ℚ
  m_zCoordinate : ℚ
deriving DecidableEq

/-- The function `Location::distance`; the square root of the C library is a
parameter. -/
def Location.distance (sqrt : ℚ → ℚ) (loc1 loc2 : Location) : ℚ :=
  let xDiff := loc1.m_xCoordinate - loc2.m_xCoordinate
  let yDiff := loc1.m_yCoordinate - loc2.m_yCoordinate
  let zDiff := loc1.m_zCoordinate - loc2.m_zCoordinate
  sqrt (xDiff ^ 2 + yDiff ^ 2 + zDiff ^ 2)

/-- The constant `SPEED_OF_LIGHT` (utility.hpp). -/
def SPEED_OF_LIGHT : ℚ := 299792458

/-- The enumeration `Packet::DataTypes`, in its declaration order. -/
inductive DataTypes where
  | Physical
  | Link
  | Network
  | Transport
  | Application
deriving DecidableEq, Repr

/-- The numeric value of a `NodeId` (node.hpp).  Writing an id into the byte
array of a header (`writeToByteArray`) and reading it back (the constructor from
a byte array) gives the id again, so headers hold the value itself. -/
abbrev NodeId := ℕ

/-- The value `NodeId::broadcastDestination()`: the largest `unsigned int`. -/
def NodeId.broadcastDestination : NodeId := 2 ^ 32 - 1

/-- The enumeration `RfidReaderMacData::Types`. -/
inductive RfidReaderMacData.Types where
  | Generic
  | Request
  | Ack
  | Select
deriving DecidableEq, Repr

/-- The data members of `class RfidReaderMacData` (rfid_reader_mac.hpp). -/
structure RfidReaderMacData where
  m_senderId : NodeId
  m_receiverId : NodeId
  m_numberOfSlots : ℕ
  m_type : RfidReaderMacData.Types
deriving DecidableEq

/-- The constructor `RfidReaderMacData::RfidReaderMacData()`. -/
def RfidReaderMacData.create : RfidReaderMacData :=
  { m_senderId := 0, m_receiverId := 0, m_numberOfSlots := 0, m_type := .Generic }

/-- The setter `setNumberOfSlots(t_uchar)`: the argument is converted to one byte. -/
def RfidReaderMacData.setNumberOfSlots (d : RfidReaderMacData) (numberOfSlots : ℕ) :
    RfidReaderMacData :=
  { d with m_numberOfSlots := numberOfSlots % 256 }

def RfidReaderMacData.getSizeInBytes (d : RfidReaderMacData) : ℕ :=
  match d.m_type with
  | .Request => 4 + 12 + 1 + 1
  | _ => 4 + 12 + 1

/-- The enumeration `RfidTagMacData::Types`. -/
inductive RfidTagMacData.Types where
  | Generic
  | Reply
deriving DecidableEq, Repr

/-- The data members of `class RfidTagMacData` (rfid_tag_mac.hpp). -/
structure RfidTagMacData where
  m_senderId : NodeId
  m_receiverId : NodeId
  m_type : RfidTagMacData.Types
deriving DecidableEq

/-- The constructor `RfidTagMacData::RfidTagMacData()`. -/
def RfidTagMacData.create : RfidTagMacData :=
  { m_senderId := 0, m_receiverId := 0, m_type := .Generic }

def RfidTagMacData.getSizeInBytes (_d : RfidTagMacData) : ℕ := 12 + 4 + 1

/-- The enumeration `RfidReaderAppData::Types`. -/
inductive RfidReaderAppData.Types where
  | NoType
  | Read
  | Reset
deriving DecidableEq, Repr

/-- The data members of `class RfidReaderAppData` (rfid_reader_app.hpp). -/
structure RfidReaderAppData where
  m_nodeId : NodeId
  m_type : RfidReaderAppData.Types
  m_doEntireReadCycle : Bool
deriving DecidableEq

/-- The constructor `RfidReaderAppData::RfidReaderAppData()`. -/
def RfidReaderAppData.create : RfidReaderAppData :=
  { m_nodeId := 0, m_type := .NoType, m_doEntireReadCycle := false }

def RfidReaderAppData.getSizeInBytes (_d : RfidReaderAppData) : ℕ := 4 + 1

/-- The enumeration `RfidTagAppData::Types`. -/
inductive RfidTagAppData.Types where
  | NoType
  | Reply
deriving DecidableEq, Repr

/-- The data members of `class RfidTagAppData` (rfid_tag_app.hpp). -/
structure RfidTagAppData where
  m_nodeId : NodeId
  m_type : RfidTagAppData.Types
deriving DecidableEq

/-- The constructor `RfidTagAppData::RfidTagAppData()`. -/
def RfidTagAppData.create : RfidTagAppData :=
  { m_nodeId := 0, m_type := .NoType }

def RfidTagAppData.getSizeInBytes (_d : RfidTagAppData) : ℕ := 12 + 1

/-- The dynamic type of a `PacketData` object with the members of its subclass:
what `dynamic_pointer_cast` tells apart. -/
inductive Header where
  | plain
  | readerMac (d : RfidReaderMacData)
  | tagMac (d : RfidTagMacData)
  | readerApp (d : RfidReaderAppData)
  | tagApp (d : RfidTagAppData)
deriving DecidableEq

/-- A per-layer payload: the value of the virtual `PacketData::getSizeInBytes`
and the object's dynamic type with its members. -/
structure PacketData where
  sizeInBytes : ℕ
  header : Header := Header.plain
deriving DecidableEq

/-- The base-class object `PacketData::create()`: 32 bytes. -/
def PacketData.create : PacketData := { sizeInBytes := 32 }

def RfidReaderMacData.toPacketData (d : RfidReaderMacData) : PacketData :=
  { sizeInBytes := d.getSizeInBytes, header := .readerMac d }

def RfidTagMacData.toPacketData (d : RfidTagMacData) : PacketData :=
  { sizeInBytes := d.getSizeInBytes, header := .tagMac d }

def RfidReaderAppData.toPacketData (d : RfidReaderAppData) : PacketData :=
  { sizeInBytes := d.getSizeInBytes, header := .readerApp d }

def RfidTagAppData.toPacketData (d : RfidTagAppData) : PacketData :=
  { sizeInBytes := d.getSizeInBytes, header := .tagApp d }

/-- The data members of `class Packet`; `m_data` is the `map` in key order. -/
structure Packet where
  m_dataRate : ℚ
  m_txPower : ℚ
  m_doMaxTxPower : Bool
  m_hasError : Bool
  m_data : List (DataTypes × PacketData)
  m_destination : ℕ
  m_uniqueId : ℕ
deriving DecidableEq

/-- The copy constructor `Packet::Packet(const Packet&)`.  Its initialiser list
names every member but `m_doMaxTxPower`, which is left with an indeterminate
value: the parameter `indeterminate`. -/
def Packet.copy (rhs : Packet) (indeterminate : Bool) : Packet :=
  { m_dataRate := rhs.m_dataRate
    m_txPower := rhs.m_txPower
    m_doMaxTxPower := indeterminate
    m_hasError := rhs.m_hasError
    m_data := rhs.m_data
    m_destination := rhs.m_destination
    m_uniqueId := rhs.m_uniqueId }

def Packet.setHasError (p : Packet) (hasError : Bool) : Packet :=
  { p with m_hasError := hasError }

def Packet.getHasError (p : Packet) : Bool := p.m_hasError

/-- The method `Packet::removeData`: erase the key from the map. -/
def Packet.removeData (p : Packet) (dataType : DataTypes) : Packet :=
  { p with m_data := p.m_data.filter (fun kv => kv.1 ≠ dataType) }

/-- The method `Packet::getSizeInBytes`, in `unsigned int` arithmetic. -/
def Packet.getSizeInBytes (p : Packet) : ℕ :=
  match p.m_data with
  | [] => 512
  | kv :: rest => ((kv :: rest).foldl (fun acc d => (acc + d.2.sizeInBytes) % 2 ^ 32) 0)

def Packet.getSizeInBits (p : Packet) : ℕ := (p.getSizeInBytes * 8) % 2 ^ 32

def Packet.getDuration (p : Packet) : SimTime := (p.getSizeInBits : ℚ) / p.m_dataRate

/-- The data members of `class WirelessCommSignal` and of its base `Signal`. -/
structure WirelessCommSignal where
  m_location : Location
  m_dbStrength : ℚ
  m_packetPtr : Packet
  m_wavelength : ℚ
  m_transmitterGain : ℚ
  m_channelId : ℕ
deriving DecidableEq

/-- The deep copy `WirelessCommSignal::create(const WirelessCommSignal&)`. -/
def WirelessCommSignal.copy (rhs : WirelessCommSignal) (indeterminate : Bool) :
    WirelessCommSignal :=
  { rhs with m_packetPtr := rhs.m_packetPtr.copy indeterminate }

def WirelessCommSignal.getDuration (sig : WirelessCommSignal) : SimTime :=
  sig.m_packetPtr.getDuration

def WirelessCommSignal.setChannelId (sig : WirelessCommSignal) (channelId : ℕ) :
    WirelessCommSignal :=
  { sig with m_channelId := channelId }

/-! ## physical_layer.hpp, physical_layer.cpp -/

/-- Identity of a `WirelessCommSignal` object (a `WirelessCommSignalPtr`). -/
abbrev SignalId := ℕ

/-- The type `map<WirelessCommSignalPtr,double>`: its entries in key order. -/
abbrev SignalStrengthMap := List (SignalId × ℚ)

/-- The lookup `map::find`. -/
def mapFind : SignalStrengthMap → SignalId → Option ℚ
  | [], _ => none
  | (k', v) :: rest, k => if k' = k then some v else mapFind rest k

/-- The removal `map::erase(key)`. -/
def mapErase (m : SignalStrengthMap) (k : SignalId) : SignalStrengthMap :=
  m.filter (fun kv => kv.1 ≠ k)

/-- The insertion `map::insert(make_pair(k, v))`: nothing if the key is there,
else the pair goes to its place in key order. -/
def mapInsert : SignalStrengthMap → SignalId → ℚ → SignalStrengthMap
  | [], k, v => [(k, v)]
  | (k', v') :: rest, k, v =>
    if k = k' then (k', v') :: rest
    else if k < k' then (k, v) :: (k', v') :: rest
    else (k', v') :: mapInsert rest k v

/-- The fields of `RfidTagPhy` and `RfidReaderPhy` beyond the base class. -/
inductive PhySubclass where
  | reader (m_regularChannelIsValid : Bool) (m_regularChannel : ℕ)
      (m_allSendersChannelIsValid : Bool) (m_allSendersChannel : ℕ)
  | tag (m_sendingChannelIsValid : Bool) (m_sendingChannel : ℕ)
      (m_allListenersChannelIsValid : Bool) (m_allListenersChannel : ℕ)
deriving DecidableEq

/-- The data members of `class PhysicalLayer`, the location of its node, and
the members of the subclass the object belongs to. -/
structure PhysicalLayer where
  m_currentTxPower : ℚ
  m_maxTxPower : ℚ
  m_rxThreshold : ℚ
  m_csThreshold : ℚ
  m_captureThreshold : ℚ
  m_minimumSignalStrength : ℚ
  m_dataRate : ℚ
  m_bandwidth : ℚ
  m_pendingRecvSignalError : Bool
  m_signalStrengths : SignalStrengthMap
  m_pendingRecvSignal : Option SignalId
  m_signalSendingDelay : SimTime
  location : Location
  subclass : PhySubclass

def m_RADIO_TEMPERATURE : ℚ := 290

def m_RADIO_NOISE_FACTOR : ℚ := 10

def m_BOLTZMANNS_CONSTANT : ℚ := 13806503 / 10 ^ 30

/-- The constructor `PhysicalLayer::PhysicalLayer` with the defaults of
physical_layer.cpp. -/
def PhysicalLayer.create (location : Location) (subclass : PhySubclass) : PhysicalLayer :=
  { m_currentTxPower := 1
    m_maxTxPower := 1
    m_rxThreshold := 100 / 10 ^ 6
    m_csThreshold := 5 / 10 ^ 6
    m_captureThreshold := 10
    m_minimumSignalStrength := 794 / 10 ^ 14
    m_dataRate := 128000
    m_bandwidth := 960000000
    m_pendingRecvSignalError := false
    m_signalStrengths := []
    m_pendingRecvSignal := none
    m_signalSendingDelay := 0
    location := location
    subclass := subclass }

def PhysicalLayer.getRxThreshold (L : PhysicalLayer) : ℚ := L.m_rxThreshold

def PhysicalLayer.getCsThreshold (L : PhysicalLayer) : ℚ := L.m_csThreshold

def PhysicalLayer.getCaptureThreshold (L : PhysicalLayer) : ℚ := L.m_captureThreshold

def PhysicalLayer.getMinimumSignalStrength (L : PhysicalLayer) : ℚ :=
  L.m_minimumSignalStrength

def PhysicalLayer.getBandwidth (L : PhysicalLayer) : ℚ := L.m_bandwidth

def PhysicalLayer.getNoiseFloor (L : PhysicalLayer) : ℚ :=
  m_RADIO_NOISE_FACTOR * m_BOLTZMANNS_CONSTANT * m_RADIO_TEMPERATURE * L.getBandwidth

/-- The method `PhysicalLayer::getCulmulativeSignalStrength`: the loop over the
map, adding up the second components. -/
def PhysicalLayer.getCulmulativeSignalStrength (L : PhysicalLayer) : ℚ :=
  L.m_signalStrengths.foldl (fun culmulativeStrength kv => culmulativeStrength + kv.2) 0

/-- The method `PhysicalLayer::captureSignal`. -/
def PhysicalLayer.captureSignal (L : PhysicalLayer) (signalStrength : ℚ) : Bool :=
  let isSufficientlyStrong := decide (signalStrength > L.getRxThreshold)
  if isSufficientlyStrong then
    let interferenceFloor := L.getCulmulativeSignalStrength + L.getNoiseFloor
    let sinr := signalStrength / interferenceFloor
    isSufficientlyStrong && decide (sinr > L.getCaptureThreshold)
  else isSufficientlyStrong

/-- The method `PhysicalLayer::addSignal`. -/
def PhysicalLayer.addSignal (L : PhysicalLayer) (signal : SignalId)
    (signalStrength : ℚ) : PhysicalLayer :=
  if signalStrength > L.getMinimumSignalStrength then
    let wasFound := (mapFind L.m_signalStrengths signal).isSome
    let erased := if wasFound then mapErase L.m_signalStrengths signal
      else L.m_signalStrengths
    { L with m_signalStrengths := mapInsert erased signal signalStrength }
  else L

/-- The method `PhysicalLayer::removeSignal`. -/
def PhysicalLayer.removeSignal (L : PhysicalLayer) (signal : SignalId) : PhysicalLayer :=
  { L with m_signalStrengths := mapErase L.m_signalStrengths signal }

def PhysicalLayer.setPendingSignal (L : PhysicalLayer) (signal : SignalId) :
    PhysicalLayer :=
  { L with m_pendingRecvSignal := some signal }

def PhysicalLayer.getPendingSignal (L : PhysicalLayer) : Option SignalId :=
  L.m_pendingRecvSignal

def PhysicalLayer.setPendingSignalError (L : PhysicalLayer) (hasError : Bool) :
    PhysicalLayer :=
  { L with m_pendingRecvSignalError := hasError }

def PhysicalLayer.getPendingSignalError (L : PhysicalLayer) : Bool :=
  L.m_pendingRecvSignalError

/-- The method `PhysicalLayer::getPendingSignalStrength`; it asserts that the
pending signal is a key of the map. -/
def PhysicalLayer.getPendingSignalStrength (L : PhysicalLayer) : Except Fault ℚ :=
  match L.m_pendingRecvSignal with
  | none => .ok 0
  | some pending =>
    match mapFind L.m_signalStrengths pending with
    | none => .error .pendingSignalNotFound
    | some signalStrength => .ok signalStrength

/-- The method `PhysicalLayer::getPendingSignalSinr`. -/
def PhysicalLayer.getPendingSignalSinr (L : PhysicalLayer) : Except Fault ℚ :=
  match L.m_pendingRecvSignal with
  | none => .ok 0
  | some _ =>
    match L.getPendingSignalStrength with
    | .error f => .error f
    | .ok pendingSignalStrength =>
      let interferenceFloor :=
        (L.getCulmulativeSignalStrength - pendingSignalStrength) + L.getNoiseFloor
      .ok (pendingSignalStrength / interferenceFloor)

/-- The method `PhysicalLayer::pendingSignalIsWeak`. -/
def PhysicalLayer.pendingSignalIsWeak (L : PhysicalLayer) : Except Fault Bool :=
  match L.getPendingSignalStrength with
  | .error f => .error f
  | .ok strength =>
    let isWeak := decide (strength ≤ L.getRxThreshold)
    match L.m_pendingRecvSignal with
    | none => .ok isWeak
    | some _ =>
      match L.getPendingSignalSinr with
      | .error f => .error f
      | .ok sinr => .ok (isWeak || decide (sinr ≤ L.getCaptureThreshold))

def PhysicalLayer.resetPendingSignal (L : PhysicalLayer) : PhysicalLayer :=
  { L with m_pendingRecvSignalError := false, m_pendingRecvSignal := none }

/-- The method `PhysicalLayer::resetRecvSignals`.  Its second statement,
`m_signalStrengths.empty()`, is a query and leaves the map as it is. -/
def PhysicalLayer.resetRecvSignals (L : PhysicalLayer) : PhysicalLayer :=
  L.resetPendingSignal

def PhysicalLayer.channelCarrierSensedBusy (L : PhysicalLayer) : Bool :=
  decide (L.getCulmulativeSignalStrength > L.getCsThreshold)

/-- A call of `addSignal` or `removeSignal`. -/
inductive SignalCall where
  | addSignal (signal : SignalId) (signalStrength : ℚ)
  | removeSignal (signal : SignalId)

def PhysicalLayer.signalCall (L : PhysicalLayer) : SignalCall → PhysicalLayer
  | .addSignal signal signalStrength => L.addSignal signal signalStrength
  | .removeSignal signal => L.removeSignal signal

def PhysicalLayer.signalCalls (L : PhysicalLayer) (calls : List SignalCall) :
    PhysicalLayer :=
  calls.foldl PhysicalLayer.signalCall L

/-- The interference set in the words of the specification, one call further:
a signal is stored with a strength only if that strength exceeds the minimum,
a stored signal that is added again has its strength replaced, and a removed
signal is no longer stored. -/
def interferenceSpecStep (minimum : ℚ) (stored : SignalId → Option ℚ) :
    SignalCall → SignalId → Option ℚ
  | .addSignal signal signalStrength => fun k =>
    if k = signal ∧ signalStrength > minimum then some signalStrength else stored k
  | .removeSignal signal => fun k => if k = signal then none else stored k

/-- The interference set in the words of the specification, after a sequence of
calls from the empty set. -/
def interferenceSpec (minimum : ℚ) (calls : List SignalCall) : SignalId → Option ℚ :=
  calls.foldl (interferenceSpecStep minimum) (fun _ => none)

/-- The keys of a map. -/
def mapKeys (m : SignalStrengthMap) : List SignalId := m.map Prod.fst

/-- The link between the map of a layer and the interference set of the
specification. -/
structure InterferenceRel (minimum : ℚ) (L : PhysicalLayer)
    (stored : SignalId → Option ℚ) : Prop where
  sorted : (mapKeys L.m_signalStrengths).Pairwise (fun a b => a < b)
  find : ∀ k, mapFind L.m_signalStrengths k = stored k
  above : ∀ k x, stored k = some x → x > minimum
  minimum_eq : L.m_minimumSignalStrength = minimum


/-! ## wireless_channel_manager.cpp, wireless_channel.cpp, channel.cpp, rfid_tag_phy.cpp -/

/-- Identity of a `PhysicalLayer` object (a `PhysicalLayerPtr`). -/
abbrev PhyId := ℕ

/-- Identity of a `WirelessChannel` object (a `WirelessChannelPtr`). -/
abbrev ChannelPtr := ℕ

/-- The virtual and the numeric parts of the channels, taken as given: the
received strength `WirelessChannel::getRecvdStrength` (path loss times fading, for
a signal at a receiver at the current time), the error model
`WirelessChannel::signalHasError`, and the square root used by
`Location::distance`. -/
structure Medium where
  getRecvdStrength : ChannelPtr → WirelessCommSignal → PhyId → PhysicalLayer → SimTime → ℚ
  signalHasError : ChannelPtr → ℚ → WirelessCommSignal → Bool
  sqrt : ℚ → ℚ

/-- The method `WirelessChannel::signalHasError` of the sources: a placeholder
that reports no error. -/
def WirelessChannel.signalHasError (_signalSinr : ℚ) (_signal : WirelessCommSignal) : Bool :=
  false

/-- The data members of `class WirelessChannelManager`: the `map` and the two
`multimap`s, each as the list of its entries in iteration order. -/
structure WirelessChannelManager where
  m_channels : List (ℕ × ChannelPtr)
  m_listeners : List (ChannelPtr × PhyId)
  m_senders : List (PhyId × ChannelPtr)

/-- The loop of `WirelessChannelManager::getChannelId`. -/
def getChannelIdLoop (channel : ChannelPtr) :
    List (ℕ × ChannelPtr) → Bool → ℕ → Except Fault (Bool × ℕ)
  | [], wasFound, channelId => .ok (wasFound, channelId)
  | p :: rest, wasFound, channelId =>
    if p.2 = channel then
      if wasFound then .error .channelIdNotUnique
      else getChannelIdLoop channel rest true p.1
    else getChannelIdLoop channel rest wasFound channelId

/-- The method `WirelessChannelManager::getChannelId`. -/
def WirelessChannelManager.getChannelId (m : WirelessChannelManager)
    (channel : ChannelPtr) : Except Fault ℕ :=
  match getChannelIdLoop channel m.m_channels false 0 with
  | .error f => .error f
  | .ok (wasFound, channelId) =>
    if wasFound then .ok channelId else .error .channelIdNotUnique

/-- The lookup `m_channels.find(channelId)`. -/
def WirelessChannelManager.findChannel (m : WirelessChannelManager) (channelId : ℕ) :
    Option ChannelPtr :=
  (m.m_channels.find? (fun p => p.1 = channelId)).map Prod.snd

/-- The insertion `multimap::insert`: behind the entries whose key is not
greater. -/
def multimapInsert {β : Type} (k : ℕ) (v : β) : List (ℕ × β) → List (ℕ × β)
  | [] => [(k, v)]
  | p :: rest => if k < p.1 then (k, v) :: p :: rest else p :: multimapInsert k v rest

/-- The method `WirelessChannelManager::attachAsSender`. -/
def WirelessChannelManager.attachAsSender (m : WirelessChannelManager)
    (physicalLayer : PhyId) (channelId : ℕ) : Bool × WirelessChannelManager :=
  match m.findChannel channelId with
  | some channel =>
    (true, { m with m_senders := multimapInsert physicalLayer channel m.m_senders })
  | none => (false, m)

/-- The method `WirelessChannelManager::attachAsListener`. -/
def WirelessChannelManager.attachAsListener (m : WirelessChannelManager)
    (physicalLayer : PhyId) (channelId : ℕ) : Bool × WirelessChannelManager :=
  match m.findChannel channelId with
  | some channel =>
    (true, { m with m_listeners := multimapInsert channel physicalLayer m.m_listeners })
  | none => (false, m)

/-- The method `WirelessChannelManager::detachAsSender`: the first entry of the
layer that names the channel is erased. -/
def WirelessChannelManager.detachAsSender (m : WirelessChannelManager)
    (physicalLayer : PhyId) (channelId : ℕ) : Bool × WirelessChannelManager :=
  match m.findChannel channelId with
  | some channel =>
    if (physicalLayer, channel) ∈ m.m_senders then
      (true, { m with m_senders := m.m_senders.erase (physicalLayer, channel) })
    else (false, m)
  | none => (false, m)

/-- The entries of `m_senders.equal_range(sender)`: the channels of a sender. -/
def WirelessChannelManager.channelsOf (m : WirelessChannelManager) (sender : PhyId) :
    List ChannelPtr :=
  (m.m_senders.filter (fun p => p.1 = sender)).map Prod.snd

/-- The entries of `m_listeners.equal_range(channel)`: the listeners of a
channel. -/
def WirelessChannelManager.listenersOf (m : WirelessChannelManager)
    (channel : ChannelPtr) : List PhyId :=
  (m.m_listeners.filter (fun p => p.1 = channel)).map Prod.snd

/-- The objects of a simulation that the channel manager works on: the kernel,
the manager, the physical layers and the signals behind their pointers, the
`SignalEndEvent` objects (receiver and signal) behind their pointers, the next
address that `new` hands out for an event, and the packets that physical layers
have handed to `sendToLayer(Directions_Upper, ...)`. -/
structure World where
  sim : Simulator
  manager : WirelessChannelManager
  layers : PhyId → PhysicalLayer
  signals : SignalId → WirelessCommSignal
  signalEndEvents : EventId → Option (PhyId × SignalId)
  nextEventPtr : EventId
  sentUpward : List (PhyId × Packet)

/-- Replace the object behind one pointer. -/
def setAt {α : Type} (f : ℕ → α) (i : ℕ) (v : α) : ℕ → α :=
  fun j => if j = i then v else f j

/-- The method `Channel::propagationDelay`. -/
def World.propagationDelay (env : Medium) (w : World) (sender receiver : PhyId) : SimTime :=
  let distanceInMeters :=
    Location.distance env.sqrt (w.layers sender).location (w.layers receiver).location
  distanceInMeters / SPEED_OF_LIGHT

/-- What the body of the listener loop of `sendSignalOnChannel` does to the
listener, from `captureSignal` to `setPendingSignalError`; `hasError sinr p` is
the verdict of the channel on the pending signal `p`. -/
def PhysicalLayer.listenerUpdate (L : PhysicalLayer) (hasError : ℚ → SignalId → Bool)
    (signal : SignalId) (signalStrength : ℚ) : Except Fault PhysicalLayer :=
  let L1 := if L.captureSignal signalStrength then L.setPendingSignal signal else L
  let L2 := L1.addSignal signal signalStrength
  let r3 : Except Fault PhysicalLayer :=
    if L2.getPendingSignal ≠ some signal then
      match L2.pendingSignalIsWeak with
      | .error f => .error f
      | .ok isWeak => .ok (if isWeak then L2.resetPendingSignal else L2)
    else .ok L2
  match r3 with
  | .error f => .error f
  | .ok L3 =>
    match L3.getPendingSignal with
    | some pending =>
      if !L3.getPendingSignalError then
        match L3.getPendingSignalSinr with
        | .error f => .error f
        | .ok sinr => .ok (L3.setPendingSignalError (hasError sinr pending))
      else .ok L3
    | none => .ok L3

/-- The statement `new SignalEndEvent(shared_from_this(), listener, signal)`. -/
def World.newSignalEndEvent (w : World) (receiver : PhyId) (signal : SignalId) :
    EventId × World :=
  (w.nextEventPtr, { w with
    nextEventPtr := w.nextEventPtr + 1
    signalEndEvents := setAt w.signalEndEvents w.nextEventPtr (some (receiver, signal))
    sim := { w.sim with events := setEvent w.sim.events w.nextEventPtr Event.create } })

/-- The body of the listener loop of `sendSignalOnChannel` for one listener. -/
def World.sendSignalToListener (env : Medium) (w : World) (sender : PhyId)
    (signal : SignalId) (channel : ChannelPtr) (signalEndTime : SimTime)
    (listener : PhyId) : Except Fault World :=
  if listener ≠ sender then
    let signalStrength := env.getRecvdStrength channel (w.signals signal) listener
      (w.layers listener) w.sim.currentTime
    match (w.layers listener).listenerUpdate
        (fun sinr pending => env.signalHasError channel sinr (w.signals pending))
        signal signalStrength with
    | .error f => .error f
    | .ok L =>
      let w1 : World := { w with layers := setAt w.layers listener L }
      let (signalEnd, w2) := w1.newSignalEndEvent listener signal
      let recvTime := signalEndTime + w2.propagationDelay env sender listener
      match w2.sim.scheduleEvent signalEnd recvTime with
      | .error f => .error f
      | .ok (_, sim) => .ok { w2 with sim := sim }
  else .ok w

/-- The listener loop of `sendSignalOnChannel`. -/
def World.sendSignalToListeners (env : Medium) (sender : PhyId) (signal : SignalId)
    (channel : ChannelPtr) (signalEndTime : SimTime) :
    List PhyId → World → Except Fault World
  | [], w => .ok w
  | listener :: rest, w =>
    match w.sendSignalToListener env sender signal channel signalEndTime listener with
    | .error f => .error f
    | .ok w1 => World.sendSignalToListeners env sender signal channel signalEndTime rest w1

/-- The method `WirelessChannelManager::sendSignalOnChannel`. -/
def World.sendSignalOnChannel (env : Medium) (w : World) (sender : PhyId)
    (signal : SignalId) (channel : ChannelPtr) : Except Fault World :=
  let listeners := w.manager.listenersOf channel
  let signalEndTime := (w.signals signal).getDuration
  match w.manager.getChannelId channel with
  | .error f => .error f
  | .ok channelId =>
    let w1 : World := { w with
      signals := setAt w.signals signal ((w.signals signal).setChannelId channelId) }
    World.sendSignalToListeners env sender signal channel signalEndTime listeners w1

/-- The channel loop of `recvSignal`. -/
def World.sendSignalOnChannels (env : Medium) (sender : PhyId) (signal : SignalId) :
    List ChannelPtr → World → Except Fault World
  | [], w => .ok w
  | channel :: rest, w =>
    match w.sendSignalOnChannel env sender signal channel with
    | .error f => .error f
    | .ok w1 => World.sendSignalOnChannels env sender signal rest w1

/-- The method `WirelessChannelManager::recvSignal`. -/
def World.recvSignal (env : Medium) (w : World) (sender : PhyId) (signal : SignalId) :
    Except Fault World :=
  World.sendSignalOnChannels env sender signal (w.manager.channelsOf sender) w

/-- The method `RfidTagPhy::setSendingChannel` (with `resetSendingChannel`), on
the tag's own fields and on the manager. -/
def World.setSendingChannel (w : World) (tag : PhyId) (channelId : ℕ) : World :=
  match (w.layers tag).subclass with
  | .tag sendingChannelIsValid sendingChannel lv lc =>
    let m1 := if sendingChannelIsValid then (w.manager.detachAsSender tag sendingChannel).2
      else w.manager
    let r := m1.attachAsSender tag channelId
    { w with
      manager := r.2
      layers := setAt w.layers tag
        { w.layers tag with subclass := .tag r.1 channelId lv lc } }
  | .reader _ _ _ _ => w

/-- The virtual method `recvdErrorFreeSignal`: nothing in the base class and in
the reader; the tag locks onto the channel of the signal and takes the received
strength as its transmit power (`setCurrentTxPower` asserts that it is
positive). -/
def World.recvdErrorFreeSignal (w : World) (receiver : PhyId)
    (signal : WirelessCommSignal) (recvdSignalStrength : ℚ) : Except Fault World :=
  match (w.layers receiver).subclass with
  | .reader _ _ _ _ => .ok w
  | .tag _ _ _ _ =>
    let w1 := w.setSendingChannel receiver signal.m_channelId
    if ¬ (recvdSignalStrength > 0) then .error .txPowerNotPositive
    else .ok { w1 with
      layers := setAt w1.layers receiver
        { w1.layers receiver with m_currentTxPower := recvdSignalStrength } }

/-- The method `PhysicalLayer::recvPendingSignal`; `sendToLayer` towards the
upper layer first strips the physical-layer data (`removeLayerData`) and then
hands the packet on, which is recorded in `sentUpward`. -/
def World.recvPendingSignal (w : World) (receiver : PhyId)
    (signal : WirelessCommSignal) (recvdSignalStrength : ℚ) : Except Fault World :=
  let packet := signal.m_packetPtr.setHasError (w.layers receiver).m_pendingRecvSignalError
  if !packet.getHasError then
    match w.recvdErrorFreeSignal receiver signal recvdSignalStrength with
    | .error f => .error f
    | .ok w1 =>
      .ok { w1 with
        sentUpward := w1.sentUpward ++ [(receiver, packet.removeData .Physical)] }
  else .ok w

/-- The method `WirelessChannelManager::passSignalToReceiver`, the action of a
`SignalEndEvent`; `indeterminate` is the value of the member that the copy
constructor of `Packet` leaves unset. -/
def World.passSignalToReceiver (w : World) (receiver : PhyId) (signal : SignalId)
    (indeterminate : Bool) : Except Fault World :=
  let r1 : Except Fault World :=
    if some signal = (w.layers receiver).getPendingSignal then
      let signalDeepCopy := (w.signals signal).copy indeterminate
      match (w.layers receiver).getPendingSignalStrength with
      | .error f => .error f
      | .ok recvdSignalStrength =>
        match w.recvPendingSignal receiver signalDeepCopy recvdSignalStrength with
        | .error f => .error f
        | .ok w1 =>
          .ok { w1 with
            layers := setAt w1.layers receiver (w1.layers receiver).resetPendingSignal }
    else .ok w
  match r1 with
  | .error f => .error f
  | .ok w2 =>
    .ok { w2 with
      layers := setAt w2.layers receiver ((w2.layers receiver).removeSignal signal) }

/-- The pending captured signal, if there is one, is a key of the interference
set: the condition under which `assert(wasFound)` holds. -/
def PhysicalLayer.PendingFound (L : PhysicalLayer) : Prop :=
  ∀ p, L.m_pendingRecvSignal = some p → (mapFind L.m_signalStrengths p).isSome = true

/-- What the bookkeeping of a layer relies on: the pending signal is in the
interference set, the minimum strength is positive and not above the receive
threshold, and every stored strength exceeds the minimum. -/
structure PhysicalLayer.Sound (L : PhysicalLayer) : Prop where
  found : L.PendingFound
  minimum_pos : 0 < L.m_minimumSignalStrength
  minimum_le : L.m_minimumSignalStrength ≤ L.m_rxThreshold
  above : ∀ k y, mapFind L.m_signalStrengths k = some y → L.m_minimumSignalStrength < y

def World.Sound (w : World) : Prop := ∀ L, (w.layers L).Sound

/-- The worlds that `recvSignal` and `passSignalToReceiver` lead to from `w0`. -/
inductive World.Reachable (env : Medium) (w0 : World) : World → Prop where
  | start : World.Reachable env w0 w0
  | recvSignal {w w' : World} (sender : PhyId) (signal : SignalId) :
    World.Reachable env w0 w → w.recvSignal env sender signal = .ok w' →
    World.Reachable env w0 w'
  | passSignalToReceiver {w w' : World} (receiver : PhyId) (signal : SignalId)
    (indeterminate : Bool) :
    World.Reachable env w0 w → w.passSignalToReceiver receiver signal indeterminate = .ok w' →
    World.Reachable env w0 w'

/-- The world `w'` arises from `w` by scheduling one `SignalEndEvent` for
`signal` at each of `targets`, in this order, `t` after the propagation delay
from the sender has passed, and by nothing else that the kernel or the sender
could notice. -/
structure World.Scheduled (env : Medium) (sender : PhyId) (signal : SignalId)
    (t : SimTime) (w w' : World) (targets : List PhyId) : Prop where
  next : w'.nextEventPtr = w.nextEventPtr + targets.length
  records : (List.range' w.nextEventPtr targets.length).map
      (fun e => (w'.signalEndEvents e, w'.sim.events e))
    = targets.map (fun L => (some (L, signal),
        ({ m_timeToFire := w.sim.m_clock + (t + w.propagationDelay env sender L),
           m_inEventQueue := true } : Event)))
  below : ∀ e, e < w.nextEventPtr →
    w'.signalEndEvents e = w.signalEndEvents e ∧ w'.sim.events e = w.sim.events e
  queue : w'.sim.m_eventPtrQueue.Perm
    (w.sim.m_eventPtrQueue ++ List.range' w.nextEventPtr targets.length)
  clock : w'.sim.m_clock = w.sim.m_clock
  manager : w'.manager = w.manager
  sentUpward : w'.sentUpward = w.sentUpward
  duration : ∀ i, (w'.signals i).getDuration = (w.signals i).getDuration
  sender_eq : w'.layers sender = w.layers sender
  locations : ∀ L, (w'.layers L).location = (w.layers L).location
  sound : w'.Sound

/-- The receivers for which `recvSignal` schedules a signal end: for each
channel entry of the sender, in order, each listener entry of that channel that
is not the sender. -/
def World.signalEndTargets (w : World) (sender : PhyId) : List PhyId :=
  (w.manager.channelsOf sender).flatMap
    (fun channel => (w.manager.listenersOf channel).filter (fun L => L ≠ sender))

/-- A result that is a world with the property `P`, or a fault other than the
failure of `assert(wasFound)`. -/
def FoundOr (P : World → Prop) : Except Fault World → Prop
  | .ok w => P w
  | .error f => f ≠ .pendingSignalNotFound

/-! ## Example scenarios -/

/-- A REQUEST-sized frame: 18 bytes of link-layer data at the default rate. -/
def examplePacket : Packet :=
  { m_dataRate := 128000, m_txPower := 0, m_doMaxTxPower := false, m_hasError := false,
    m_data := [(DataTypes.Link, { sizeInBytes := 18 })], m_destination := 0, m_uniqueId := 1 }

def exampleSignal : WirelessCommSignal :=
  { m_location := { m_xCoordinate := 0, m_yCoordinate := 0, m_zCoordinate := 0 }
    m_dbStrength := 0
    m_packetPtr := examplePacket
    m_wavelength := SPEED_OF_LIGHT / 960000000
    m_transmitterGain := 1
    m_channelId := 0 }

/-- The channel layout of the RFID model: reader 0 sends on the channel of all
readers (id 0, object 10) and on its own channel (id 1, object 11), tag 1
listens on the former, the reader on the latter. -/
def exampleManager : WirelessChannelManager :=
  { m_channels := [(0, 10), (1, 11)]
    m_listeners := [(10, 1), (11, 0)]
    m_senders := [(0, 10), (0, 11)] }

/-- A reader at the origin and a tag one metre away that is receiving signal 5
with strength 0.001 and has captured it. -/
def exampleWorld : World :=
  { sim := Simulator.instance
    manager := exampleManager
    layers := fun i =>
      if i = 1 then
        { PhysicalLayer.create { m_xCoordinate := 1, m_yCoordinate := 0, m_zCoordinate := 0 }
            (PhySubclass.tag false 0 true 0) with
          m_signalStrengths := [(5, 1 / 1000)], m_pendingRecvSignal := some 5 }
      else
        PhysicalLayer.create { m_xCoordinate := 0, m_yCoordinate := 0, m_zCoordinate := 0 }
          (PhySubclass.reader true 1 true 0)
    signals := fun _ => exampleSignal
    signalEndEvents := fun _ => none
    nextEventPtr := 0
    sentUpward := [] }

/-- A medium in which every signal arrives with the same strength, no signal is
in error (as in the sources), and the square root is the integer one. -/
def constantMedium (strength : ℚ) : Medium :=
  { getRecvdStrength := fun _ _ _ _ _ => strength
    signalHasError := fun _ sinr signal => WirelessChannel.signalHasError sinr signal
    sqrt := fun q => (Nat.sqrt ⌊q⌋₊ : ℚ) }

/-- The example scenario before any signal, with a tag whose receive threshold
(1) lies below its minimum signal strength (5). -/
def lowThresholdWorld : World :=
  { exampleWorld with
    layers := fun i =>
      if i = 1 then
        { PhysicalLayer.create { m_xCoordinate := 1, m_yCoordinate := 0, m_zCoordinate := 0 }
            (PhySubclass.tag false 0 true 0) with
          m_rxThreshold := 1, m_minimumSignalStrength := 5 }
      else
        PhysicalLayer.create { m_xCoordinate := 0, m_yCoordinate := 0, m_zCoordinate := 0 }
          (PhySubclass.reader true 1 true 0) }

/-- The example scenario before any signal has been received. -/
def idleWorld : World :=
  { exampleWorld with
    layers := fun i =>
      { exampleWorld.layers i with m_signalStrengths := [], m_pendingRecvSignal := none } }

/-- Every event that carries the in-queue flag is in the queue. -/
def Simulator.FlagsExact (s : Simulator) : Prop :=
  ∀ e, (s.events e).m_inEventQueue = true → e ∈ s.m_eventPtrQueue

/-! ## main.cpp -/

/-- The first loop of `unitTestEventQueue`: a new `DummyEvent` per time value,
scheduled with that delay; `assert(didSchedule)`. -/
def scheduleAll : List SimTime → EventId → Simulator → Except Fault Simulator
  | [], _, s => .ok s
  | t :: ts, e, s =>
    match s.scheduleEvent e t with
    | .error f => .error f
    | .ok (didSchedule, s1) =>
      if didSchedule then scheduleAll ts (e + 1) s1 else .error .unitTestAssertion

/-- The time values of `unitTestEventQueue`. -/
def timeVals : List SimTime := [0, 2, 5, 3 / 2, 3 / 2, 3 / 2, 5, 10, 1]

/-- The function `unitTestEventQueue` up to its call of `runSimulation`, on a
simulator as constructed; `i` and `j` are the two indices that its random number
generator draws.  The result is the sequence of the events dispatched. -/
def unitTestEventQueue (i j : EventId) (fuel : ℕ) : Except Fault (List EventId) :=
  match scheduleAll timeVals 0 Simulator.instance with
  | .error f => .error f
  | .ok s =>
    let r1 := s.cancelEvent i
    if !r1.1 then .error .unitTestAssertion
    else
      let r2 := r1.2.cancelEvent j
      if !r2.1 then .error .unitTestAssertion
      else .ok (dispatched (Simulator.runSimulation dummyExecute 100 fuel r2.2 ()).1)

/-! ## packet.hpp (continued), timer.hpp (continued) -/

/-- The constructor `Packet::Packet()` followed by the assignment of the unique
id in `Packet::create()`. -/
def Packet.create (uniqueId : ℕ) : Packet :=
  { m_dataRate := 10 ^ 6, m_txPower := 0, m_doMaxTxPower := false, m_hasError := false,
    m_data := [], m_destination := 0, m_uniqueId := uniqueId }

/-- The position of a value in the enumeration `Packet::DataTypes`: the order of
the keys of `m_data`. -/
def DataTypes.toNat : DataTypes → ℕ
  | .Physical => 0
  | .Link => 1
  | .Network => 2
  | .Transport => 3
  | .Application => 4

/-- The assignment `m_data[dataType] = deepCopy` on the map in key order. -/
def dataInsert (dataType : DataTypes) (data : PacketData) :
    List (DataTypes × PacketData) → List (DataTypes × PacketData)
  | [] => [(dataType, data)]
  | kv :: rest =>
    if kv.1 = dataType then (dataType, data) :: rest
    else if dataType.toNat < kv.1.toNat then (dataType, data) :: kv :: rest
    else kv :: dataInsert dataType data rest

/-- The method `Packet::addData`. -/
def Packet.addData (p : Packet) (dataType : DataTypes) (data : PacketData) : Packet :=
  { p with m_data := dataInsert dataType data p.m_data }

/-- The method `Packet::getData`: `none` is the empty pointer. -/
def Packet.getData (p : Packet) (dataType : DataTypes) : Option PacketData :=
  (p.m_data.find? (fun kv => kv.1 = dataType)).map Prod.snd

/-- The method `Packet::setTxPower` with its assertion. -/
def Packet.setTxPower (p : Packet) (txPower : ℚ) : Except Fault Packet :=
  if txPower ≥ 0 then .ok { p with m_txPower := txPower } else .error .txPowerNegative

def Packet.getTxPower (p : Packet) : ℚ := p.m_txPower

def Packet.setDoMaxTxPower (p : Packet) (doMaxTxPower : Bool) : Packet :=
  { p with m_doMaxTxPower := doMaxTxPower }

def Packet.getDoMaxTxPower (p : Packet) : Bool := p.m_doMaxTxPower

def Packet.setDestination (p : Packet) (destination : NodeId) : Packet :=
  { p with m_destination := destination }

def Packet.getDestination (p : Packet) : NodeId := p.m_destination

/-- The method `Packet::setDataRate` with its assertion. -/
def Packet.setDataRate (p : Packet) (dataRate : ℚ) : Except Fault Packet :=
  if dataRate > 0 then .ok { p with m_dataRate := dataRate } else .error .dataRateNotPositive

def Packet.getDataRate (p : Packet) : ℚ := p.m_dataRate

/-- The method `Timer::reschedule`. -/
def Timer.reschedule (t : Timer) (s : Simulator) (delay : SimTime) :
    Except Fault (Bool × Simulator) :=
  let r1 : Bool × Simulator := if t.isRunning s then t.stop s else (true, s)
  match t.start r1.2 delay with
  | .error f => .error f
  | .ok (didSchedule, s2) => .ok (r1.1 && didSchedule, s2)

/-- The method `Timer::timeRemaining`; `SimTime::isValid` is `m_time >= 0.0`. -/
def Timer.timeRemaining (t : Timer) (s : Simulator) : Except Fault SimTime :=
  if t.isRunning s then
    let timeLeft := (s.events t.m_eventOnFire).getFireTime - s.currentTime
    if timeLeft ≥ 0 then .ok timeLeft else .error .timeLeftInvalid
  else .ok 0

/-! ## communication_layer.hpp, mac_protocol.hpp, mac_protocol.cpp, link_layer.cpp -/

/-- The enumeration `CommunicationLayer::Directions`. -/
inductive Directions where
  | Lower
  | Upper
deriving DecidableEq, Repr

/-- Identity of a `Packet` object (the value of a `PacketPtr`). -/
abbrev PacketPtr := ℕ

/-- The calls that a MAC object makes on its link layer and on the application
it was created with.  The link layer and the application are outside the MAC:
a handler of the MAC yields these calls in the order in which it makes them. -/
inductive MacCall where
  | blockUpperQueues
  | unblockUpperQueues
  | recvFromMacProtocol (direction : Directions) (packet : PacketPtr)
  | signalReadEnd
deriving DecidableEq

/-- The objects around a MAC: the kernel, the packets behind their pointers (with
the next address of `new` and the counter `Packet::m_nextUniqueId`), the
`SendToLinkLayerEvent` objects behind their pointers, the physical layer below
the link layer, the flag `m_queueIsBlocked` of the link layer, and the calls made
so far on the link layer and the application. -/
structure MacWorld where
  sim : Simulator
  packets : PacketPtr → Packet
  nextPacketPtr : PacketPtr
  nextUniqueId : ℕ
  sendEvents : EventId → Option (Directions × PacketPtr)
  nextEventPtr : EventId
  phy : PhysicalLayer
  linkQueueIsBlocked : Bool
  calls : List MacCall

/-- The factory `Packet::create()`: a new object with the next unique id. -/
def MacWorld.newPacket (w : MacWorld) : PacketPtr × MacWorld :=
  (w.nextPacketPtr, { w with
    packets := setAt w.packets w.nextPacketPtr (Packet.create w.nextUniqueId)
    nextPacketPtr := w.nextPacketPtr + 1
    nextUniqueId := w.nextUniqueId + 1 })

/-- Replace the packet behind a pointer. -/
def MacWorld.setPacket (w : MacWorld) (packet : PacketPtr) (v : Packet) : MacWorld :=
  { w with packets := setAt w.packets packet v }

def MacWorld.call (w : MacWorld) (c : MacCall) : MacWorld :=
  { w with calls := w.calls ++ [c] }

/-- The method `MacProtocol::blockUpperQueues`: forwarded to the link layer. -/
def MacWorld.blockUpperQueues (w : MacWorld) : MacWorld := w.call .blockUpperQueues

/-- The method `MacProtocol::unblockUpperQueues`: forwarded to the link layer. -/
def MacWorld.unblockUpperQueues (w : MacWorld) : MacWorld := w.call .unblockUpperQueues

/-- The method `MacProtocol::getQueueIsBlocked`: the flag of the link layer. -/
def MacWorld.getQueueIsBlocked (w : MacWorld) : Bool := w.linkQueueIsBlocked

/-- The method `LinkLayer::channelIsBusy`: the carrier sense of the physical
layer below. -/
def MacWorld.channelIsBusy (w : MacWorld) : Bool := w.phy.channelCarrierSensedBusy

/-- The call `LinkLayer::recvFromMacProtocol`: `sendToLayer` returns what
`scheduleEvent` returns, which is `true` whenever it returns. -/
def MacWorld.recvFromMacProtocol (w : MacWorld) (direction : Directions)
    (packet : PacketPtr) : Bool × MacWorld :=
  (true, w.call (.recvFromMacProtocol direction packet))

/-- The statement `SendToLinkLayerEvent::create(thisMacProtocol(), direction,
packet)`. -/
def MacWorld.newSendEvent (w : MacWorld) (direction : Directions) (packet : PacketPtr) :
    EventId × MacWorld :=
  (w.nextEventPtr, { w with
    nextEventPtr := w.nextEventPtr + 1
    sendEvents := setAt w.sendEvents w.nextEventPtr (some (direction, packet))
    sim := { w.sim with events := setEvent w.sim.events w.nextEventPtr Event.create } })

/-- The constant `SlottedMac::m_DEFAULT_SLOT_TIME`. -/
def m_DEFAULT_SLOT_TIME : ℚ := 2 / 1000

/-- The data members of `class SlottedMac` and of its base `MacProtocol`; `nodeId`
is `getNode()->getNodeId()`. -/
structure SlottedMac where
  nodeId : NodeId
  m_sendTimer : Option Timer
  m_slotTimer : Timer
  m_currentSlotNumber : ℕ
  m_txSlotNumber : ℕ
  m_numberOfSlots : ℕ
  m_packetToTransmit : Option PacketPtr
  m_slotTime : SimTime

def SlottedMac.getSlotTime (mac : SlottedMac) : SimTime := mac.m_slotTime

def SlottedMac.inContentionCycle (mac : SlottedMac) : Bool :=
  decide (mac.m_currentSlotNumber < mac.m_numberOfSlots)

def SlottedMac.stopContentionCycle (mac : SlottedMac) : SlottedMac :=
  { mac with m_currentSlotNumber := 0, m_numberOfSlots := 0 }

/-- The method `MacProtocol::startSendTimer`. -/
def SlottedMac.startSendTimer (mac : SlottedMac) (w : MacWorld) (direction : Directions)
    (packet : PacketPtr) (delay : SimTime) : Except Fault (Bool × SlottedMac × MacWorld) :=
  let running : Bool :=
    match mac.m_sendTimer with
    | some t => t.isRunning w.sim
    | none => false
  if running then .error .sendTimerRunning
  else
    let (sendEvent, w1) := w.newSendEvent direction packet
    let timer : Timer := { m_eventOnFire := sendEvent }
    match timer.start w1.sim delay with
    | .error f => .error f
    | .ok (wasSuccessful, sim) =>
      .ok (wasSuccessful, { mac with m_sendTimer := some timer }, { w1 with sim := sim })

/-- The method `MacProtocol::sendToLinkLayer`; the two virtual handlers are
parameters. -/
def MacProtocol.sendToLinkLayer {μ : Type}
    (handleChannelBusy handlePacketSent : PacketPtr → μ → MacWorld → Except Fault (μ × MacWorld))
    (mac : μ) (w : MacWorld) (direction : Directions) (packet : PacketPtr) :
    Except Fault (Bool × μ × MacWorld) :=
  if direction = .Lower ∧ w.channelIsBusy = true then
    match handleChannelBusy packet mac w with
    | .error f => .error f
    | .ok (mac1, w1) => .ok (false, mac1, w1)
  else
    match handlePacketSent packet mac w with
    | .error f => .error f
    | .ok (mac1, w1) =>
      let r := w1.recvFromMacProtocol direction packet
      .ok (r.1, mac1, r.2)

/-! ## rfid_reader_mac.hpp, rfid_reader_mac.cpp -/

def m_READER_IFS : ℚ := 10 / 10 ^ 6

def m_DEFAULT_NUMBER_OF_SLOTS : ℕ := 10

def m_DEFAULT_CYCLE_TIME : ℚ := 525 / 100

def m_MISSED_READ_THRESHOLD : ℕ := 3

/-- The data members of `class RfidReaderMac` on top of `SlottedMac`. -/
structure RfidReaderMac extends SlottedMac where
  m_doResetSlot : Bool
  m_resetSlotNumber : ℕ
  m_doEntireReadCycle : Bool
  m_missedReadCount : ℕ
  m_cycleTimer : Timer
  m_currentAppReadPacket : Option PacketPtr
  m_nextCycleNumberOfSlots : ℕ
  m_nextCycleTime : SimTime
  m_winningSlotNumbers : List (NodeId × ℕ)
  m_missedReads : List ℕ

/-- The constructor `RfidReaderMac::RfidReaderMac` with the two timers that
`RfidReaderMac::create` makes (before the slot timer is started). -/
def RfidReaderMac.create (nodeId : NodeId) (slotEvent cycleEvent : EventId) : RfidReaderMac :=
  { nodeId := nodeId, m_sendTimer := none, m_slotTimer := { m_eventOnFire := slotEvent },
    m_currentSlotNumber := 0, m_txSlotNumber := 0, m_numberOfSlots := 0,
    m_packetToTransmit := none, m_slotTime := m_DEFAULT_SLOT_TIME,
    m_doResetSlot := false, m_resetSlotNumber := 0, m_doEntireReadCycle := false,
    m_missedReadCount := 0, m_cycleTimer := { m_eventOnFire := cycleEvent },
    m_currentAppReadPacket := none, m_nextCycleNumberOfSlots := m_DEFAULT_NUMBER_OF_SLOTS,
    m_nextCycleTime := m_DEFAULT_CYCLE_TIME, m_winningSlotNumbers := [], m_missedReads := [] }

/-- The method `RfidReaderMac::isEnoughTimeForContentionCycle`; the sum is an
`unsigned int`. -/
def RfidReaderMac.isEnoughTimeForContentionCycle (mac : RfidReaderMac) (w : MacWorld) :
    Except Fault Bool :=
  let nextContentionCycleTime : ℚ :=
    (((mac.m_nextCycleNumberOfSlots + 1) % 2 ^ 32 : ℕ) : ℚ) * m_DEFAULT_SLOT_TIME
  match mac.m_cycleTimer.timeRemaining w.sim with
  | .error f => .error f
  | .ok timeRemaining => .ok (decide (nextContentionCycleTime < timeRemaining))

/-- The method `RfidReaderMac::isPacketType`. -/
def RfidReaderMac.isPacketType (w : MacWorld) (packet : PacketPtr)
    (type : RfidReaderMacData.Types) : Bool :=
  match (w.packets packet).getData .Link with
  | some { header := .readerMac macData, .. } => decide (macData.m_type = type)
  | _ => false

/-- The method `RfidReaderMac::packetIsForMe`. -/
def RfidReaderMac.packetIsForMe (mac : RfidReaderMac) (macData : RfidTagMacData) : Bool :=
  decide (macData.m_receiverId = mac.nodeId)
    || decide (macData.m_receiverId = NodeId.broadcastDestination)

/-- The method `RfidReaderMac::createRequestPacket`. -/
def RfidReaderMac.createRequestPacket (mac : RfidReaderMac) (w : MacWorld) :
    Except Fault (PacketPtr × MacWorld) :=
  let macData : RfidReaderMacData :=
    { RfidReaderMacData.create with
      m_type := .Request, m_senderId := mac.nodeId,
      m_receiverId := NodeId.broadcastDestination }
  if ¬ (mac.m_nextCycleNumberOfSlots ≥ 4) then .error .numberOfSlotsTooSmall
  else
    let macData := macData.setNumberOfSlots mac.m_nextCycleNumberOfSlots
    let (packet, w1) := w.newPacket
    match mac.m_currentAppReadPacket with
    | none => .error .currentAppReadPacket
    | some appPacket =>
      match (w1.packets packet).setTxPower (w1.packets appPacket).getTxPower with
      | .error f => .error f
      | .ok p => .ok (packet, w1.setPacket packet (p.addData .Link macData.toPacketData))

/-- The method `RfidReaderMac::createAckPacket`. -/
def RfidReaderMac.createAckPacket (mac : RfidReaderMac) (w : MacWorld) (destination : NodeId) :
    PacketPtr × MacWorld :=
  let macData : RfidReaderMacData :=
    { RfidReaderMacData.create with
      m_type := .Ack, m_senderId := mac.nodeId, m_receiverId := destination }
  let (packet, w1) := w.newPacket
  (packet, w1.setPacket packet
    (((w1.packets packet).setDoMaxTxPower true).addData .Link macData.toPacketData))

/-- The method `RfidReaderMac::addGenericHeader`. -/
def RfidReaderMac.addGenericHeader (mac : RfidReaderMac) (w : MacWorld) (packet : PacketPtr)
    (receiverId : NodeId) : MacWorld :=
  let macData : RfidReaderMacData :=
    { RfidReaderMacData.create with
      m_type := .Generic, m_senderId := mac.nodeId, m_receiverId := receiverId }
  w.setPacket packet ((w.packets packet).addData .Link macData.toPacketData)

/-- The method `RfidReaderMac::addSelectHeader`. -/
def RfidReaderMac.addSelectHeader (mac : RfidReaderMac) (w : MacWorld) (packet : PacketPtr)
    (receiverId : NodeId) : MacWorld :=
  let macData : RfidReaderMacData :=
    { RfidReaderMacData.create with
      m_type := .Select, m_senderId := mac.nodeId, m_receiverId := receiverId }
  w.setPacket packet
    (((w.packets packet).setDoMaxTxPower true).addData .Link macData.toPacketData)

/-- The method `RfidReaderMac::endRequestCycleEvent`. -/
def RfidReaderMac.endRequestCycleEvent (mac : RfidReaderMac) (w : MacWorld) :
    Except Fault (RfidReaderMac × MacWorld) :=
  if mac.inContentionCycle then .error .inContentionCycle
  else
    .ok ({ mac with m_currentAppReadPacket := none },
      (w.unblockUpperQueues).call .signalReadEnd)

/-- The method `RfidReaderMac::startNextContentionCycle`. -/
def RfidReaderMac.startNextContentionCycle (mac : RfidReaderMac) (w : MacWorld) :
    Except Fault (RfidReaderMac × MacWorld) :=
  if mac.m_packetToTransmit ≠ none then .error .packetToTransmitPending
  else
    match mac.createRequestPacket w with
    | .error f => .error f
    | .ok (packet, w1) =>
      let mac1 : RfidReaderMac :=
        { mac with
          m_packetToTransmit := some packet, m_missedReadCount := 0, m_doResetSlot := false }
      let mac2 : RfidReaderMac := { mac1 with toSlottedMac := mac1.stopContentionCycle }
      .ok ({ mac2 with m_txSlotNumber := mac2.m_currentSlotNumber }, w1)

/-- The method `RfidReaderMac::handleChannelBusy`. -/
def RfidReaderMac.handleChannelBusy (packet : PacketPtr) (mac : RfidReaderMac) (w : MacWorld) :
    Except Fault (RfidReaderMac × MacWorld) :=
  if !RfidReaderMac.isPacketType w packet .Request
      && !RfidReaderMac.isPacketType w packet .Select then
    .ok (mac, w.unblockUpperQueues)
  else .ok (mac, w)

/-- The method `RfidReaderMac::handlePacketSent`. -/
def RfidReaderMac.handlePacketSent (packet : PacketPtr) (mac : RfidReaderMac) (w : MacWorld) :
    Except Fault (RfidReaderMac × MacWorld) :=
  if RfidReaderMac.isPacketType w packet .Request then
    match (w.packets packet).getData .Link with
    | some { header := .readerMac macData, .. } =>
      .ok ({ mac with m_currentSlotNumber := 0, m_numberOfSlots := macData.m_numberOfSlots }, w)
    | _ => .ok ({ mac with m_currentSlotNumber := 0 }, w)
  else if RfidReaderMac.isPacketType w packet .Select then
    .ok ({ mac with
      m_doResetSlot := true
      m_resetSlotNumber := (mac.m_currentSlotNumber + 1) % 2 ^ 32 }, w)
  else if RfidReaderMac.isPacketType w packet .Ack then
    match mac.isEnoughTimeForContentionCycle w with
    | .error f => .error f
    | .ok true => mac.startNextContentionCycle w
    | .ok false => .ok (mac, w)
  else .ok (mac, w.unblockUpperQueues)

/-- The method `MacProtocol::sendToLinkLayer` on a reader MAC. -/
def RfidReaderMac.sendToLinkLayer (mac : RfidReaderMac) (w : MacWorld)
    (direction : Directions) (packet : PacketPtr) :
    Except Fault (Bool × RfidReaderMac × MacWorld) :=
  MacProtocol.sendToLinkLayer RfidReaderMac.handleChannelBusy RfidReaderMac.handlePacketSent
    mac w direction packet

/-- The end-of-cycle branch of `RfidReaderMac::beginSlotEvent`.  The debug line
of the sources evaluates `isEnoughTimeForContentionCycle()` first. -/
def RfidReaderMac.endOfContentionCycle (mac : RfidReaderMac) (w : MacWorld) :
    Except Fault (RfidReaderMac × MacWorld) :=
  if mac.m_packetToTransmit ≠ none then .error .packetToTransmitPending
  else
    match mac.isEnoughTimeForContentionCycle w with
    | .error f => .error f
    | .ok _ =>
      let mac1 : RfidReaderMac :=
        if !mac.m_doEntireReadCycle && mac.m_cycleTimer.isRunning w.sim then
          { mac with
            m_missedReads := mac.m_missedReads ++ [mac.m_currentSlotNumber]
            m_missedReadCount := (mac.m_missedReadCount + 1) % 2 ^ 32 }
        else { mac with m_missedReadCount := 0 }
      let mac2 : RfidReaderMac := { mac1 with m_doResetSlot := false }
      let mac3 : RfidReaderMac := { mac2 with toSlottedMac := mac2.stopContentionCycle }
      if !mac3.m_doEntireReadCycle && mac3.m_missedReadCount = m_MISSED_READ_THRESHOLD then
        if !mac3.m_cycleTimer.isRunning w.sim then .error .cycleTimerNotRunning
        else
          let r := mac3.m_cycleTimer.stop w.sim
          mac3.endRequestCycleEvent { w with sim := r.2 }
      else
        match mac3.isEnoughTimeForContentionCycle w with
        | .error f => .error f
        | .ok true =>
          match mac3.createRequestPacket w with
          | .error f => .error f
          | .ok (packet, w1) =>
            .ok ({ mac3 with
              m_packetToTransmit := some packet
              m_txSlotNumber := (mac3.m_currentSlotNumber + 1) % 2 ^ 32 }, w1)
        | .ok false =>
          if !mac3.m_cycleTimer.isRunning w.sim && w.getQueueIsBlocked then
            .error .queueIsBlocked
          else .ok (mac3, w)

/-- The method `RfidReaderMac::beginSlotEvent`. -/
def RfidReaderMac.beginSlotEvent (mac : RfidReaderMac) (w : MacWorld) :
    Except Fault (RfidReaderMac × MacWorld) :=
  let r1 : Except Fault (RfidReaderMac × MacWorld) :=
    if mac.m_currentSlotNumber = mac.m_txSlotNumber then
      match mac.m_packetToTransmit with
      | some packet =>
        match mac.startSendTimer w .Lower packet m_READER_IFS with
        | .error f => .error f
        | .ok (_, base, w1) =>
          .ok ({ mac with toSlottedMac := { base with m_packetToTransmit := none } }, w1)
      | none => .ok (mac, w)
    else if mac.m_numberOfSlots = 0 ∨ mac.m_currentSlotNumber ≥ mac.m_numberOfSlots
        ∨ (mac.m_doResetSlot = true ∧ mac.m_currentSlotNumber = mac.m_resetSlotNumber) then
      mac.endOfContentionCycle w
    else .ok (mac, w)
  match r1 with
  | .error f => .error f
  | .ok (mac1, w1) =>
    let mac2 : RfidReaderMac :=
      { mac1 with m_currentSlotNumber := (mac1.m_currentSlotNumber + 1) % 2 ^ 32 }
    match mac2.m_slotTimer.reschedule w1.sim mac2.getSlotTime with
    | .error f => .error f
    | .ok (_, sim) => .ok (mac2, { w1 with sim := sim })

/-- The method `RfidReaderMac::handleRecvdMacPacket`. -/
def RfidReaderMac.handleRecvdMacPacket (mac : RfidReaderMac) (w : MacWorld)
    (packet : PacketPtr) : Except Fault (Bool × RfidReaderMac × MacWorld) :=
  match (w.packets packet).getData .Link with
  | some { header := .tagMac macData, .. } =>
    if mac.packetIsForMe macData then
      match macData.m_type with
      | .Reply =>
        if mac.m_cycleTimer.isRunning w.sim then
          match mac.m_packetToTransmit with
          | none =>
            match mac.m_currentAppReadPacket with
            | none => .error .currentAppReadPacket
            | some appPacket =>
              let w1 := mac.addSelectHeader w appPacket macData.m_senderId
              if !mac.m_slotTimer.isRunning w1.sim then .error .slotTimerNotRunning
              else
                .ok (true, { mac with
                  m_packetToTransmit := some appPacket
                  m_txSlotNumber := mac.m_currentSlotNumber }, w1)
          | some _ => .ok (true, mac, w)
        else .ok (true, mac, w)
      | .Generic =>
        let mac1 : RfidReaderMac :=
          { mac with
            m_winningSlotNumbers := mac.m_winningSlotNumbers ++
              [(macData.m_senderId, (mac.m_currentSlotNumber + (2 ^ 32 - 3)) % 2 ^ 32)] }
        match mac1.sendToLinkLayer w .Upper packet with
        | .error f => .error f
        | .ok (wasSuccessful, mac2, w2) =>
          let (ack, w3) := mac2.createAckPacket w2 macData.m_senderId
          if !mac2.m_slotTimer.isRunning w3.sim then .error .slotTimerNotRunning
          else
            .ok (wasSuccessful, { mac2 with
              m_packetToTransmit := some ack
              m_txSlotNumber := mac2.m_currentSlotNumber }, w3)
    else .ok (true, mac, w)
  | _ => .ok (true, mac, w)

/-! ## Example scenarios of the MAC layer -/

/-- A kernel at time 0 with the slot event (0) due at 2 ms and the cycle event
(1) due at 5.25 s. -/
def exampleMacSim : Simulator :=
  { m_clock := 0
    m_eventPtrQueue := [0, 1]
    m_simulationEndListeners := []
    events := fun e =>
      if e = 0 then { m_timeToFire := 2 / 1000, m_inEventQueue := true }
      else if e = 1 then { m_timeToFire := 525 / 100, m_inEventQueue := true }
      else Event.create }

/-- The READ packet of reader 7 at full power 1, not for the entire cycle. -/
def exampleReadPacket : Packet :=
  ({ Packet.create 1 with m_txPower := 1, m_destination := NodeId.broadcastDestination }).addData
    .Application
    ({ RfidReaderAppData.create with m_type := .Read, m_nodeId := 7 }).toPacketData

/-- The surroundings of the reader MAC of node 7 during a read: packet 0 is the
READ packet, the channel is idle. -/
def exampleReaderWorld : MacWorld :=
  { sim := exampleMacSim
    packets := fun _ => exampleReadPacket
    nextPacketPtr := 1
    nextUniqueId := 2
    sendEvents := fun _ => none
    nextEventPtr := 2
    phy := PhysicalLayer.create { m_xCoordinate := 0, m_yCoordinate := 0, m_zCoordinate := 0 }
      (PhySubclass.reader true 1 true 0)
    linkQueueIsBlocked := false
    calls := [] }

/-- The reader MAC of node 7 as constructed, working on the READ packet 0. -/
def exampleReaderMac : RfidReaderMac :=
  { RfidReaderMac.create 7 0 1 with m_currentAppReadPacket := some 0 }

/-- The kernel while the slot event (0) of the reader runs at 22 ms: only the
cycle event (1) is queued. -/
def exampleSlotSim : Simulator :=
  { m_clock := 22 / 1000
    m_eventPtrQueue := [1]
    m_simulationEndListeners := []
    events := fun e =>
      if e = 1 then { m_timeToFire := 525 / 100, m_inEventQueue := true }
      else { m_timeToFire := 22 / 1000, m_inEventQueue := false } }

def exampleSlotWorld : MacWorld := { exampleReaderWorld with sim := exampleSlotSim }

/-- The reader MAC at the slot after a contention cycle of 10 slots in which no
tag was read, after `count` such cycles. -/
def exampleMissMac (count : ℕ) : RfidReaderMac :=
  { exampleReaderMac with
    m_currentSlotNumber := 10, m_numberOfSlots := 10, m_missedReadCount := count }

/-- A REPLY of tag 9 to reader 7. -/
def exampleReplyPacket : Packet :=
  (Packet.create 2).addData .Link
    ({ RfidTagMacData.create with
      m_type := .Reply, m_senderId := 9, m_receiverId := 7 }).toPacketData

/-- The surroundings of the reader MAC with the REPLY as packet 1. -/
def exampleReplyWorld : MacWorld :=
  { exampleReaderWorld with
    packets := fun p => if p = 1 then exampleReplyPacket else exampleReadPacket
    nextPacketPtr := 2
    nextUniqueId := 3 }

/-- The reader MAC with a cycle timer (event 5) that is not running. -/
def exampleIdleReaderMac : RfidReaderMac :=
  { exampleReaderMac with m_cycleTimer := { m_eventOnFire := 5 } }

/-- The identity frame of tag 9 for reader 7. -/
def exampleGenericPacket : Packet :=
  (({ Packet.create 2 with m_destination := 7 }).addData .Application
      ({ RfidTagAppData.create with m_nodeId := 9 }).toPacketData).addData .Link
    ({ RfidTagMacData.create with
      m_type := .Generic, m_senderId := 9, m_receiverId := 7 }).toPacketData

/-- The surroundings of the reader MAC with the identity frame as packet 1. -/
def exampleGenericWorld : MacWorld :=
  { exampleReaderWorld with
    packets := fun p => if p = 1 then exampleGenericPacket else exampleReadPacket
    nextPacketPtr := 2
    nextUniqueId := 3 }

/-- The reader MAC in slot 3 of a contention cycle of 10 slots, after it sent
its SELECT in slot 1. -/
def exampleSelectedMac : RfidReaderMac :=
  { exampleReaderMac with
    m_currentSlotNumber := 3, m_txSlotNumber := 1, m_numberOfSlots := 10,
    m_doResetSlot := true, m_resetSlotNumber := 3 }

/-- The surroundings of the reader MAC while its physical layer receives a
signal of strength 1/1000, above the carrier-sense threshold of 5/1000000. -/
def exampleBusyWorld : MacWorld :=
  { exampleReplyWorld with
    phy := { exampleReplyWorld.phy with m_signalStrengths := [(5, 1 / 1000)] } }

/-! ## physical_layer.cpp: the sending path -/

def PhysicalLayer.getDataRate (L : PhysicalLayer) : ℚ := L.m_dataRate

def PhysicalLayer.getMaxTxPower (L : PhysicalLayer) : ℚ := L.m_maxTxPower

def PhysicalLayer.getCurrentTxPower (L : PhysicalLayer) : ℚ := L.m_currentTxPower

/-- The method `PhysicalLayer::getGain`: a placeholder in the sources. -/
def PhysicalLayer.getGain (_L : PhysicalLayer) : ℚ := 1

def PhysicalLayer.getWavelength (L : PhysicalLayer) : ℚ := SPEED_OF_LIGHT / L.m_bandwidth

def PhysicalLayer.getSignalSendingDelay (L : PhysicalLayer) : SimTime := L.m_signalSendingDelay

/-- The function `powerToDecibels` (utility.hpp); the logarithm of the C library
is a parameter. -/
def powerToDecibels (log10 : ℚ → ℚ) (powerValue : ℚ) : Except Fault ℚ :=
  if powerValue ≠ 0 then .ok (10 * log10 (powerValue / 1)) else .error .powerIsZero

/-- The transmit power that `PhysicalLayer::recvFromLayer` chooses for a packet. -/
def PhysicalLayer.signalTxPower (L : PhysicalLayer) (packet : Packet) : ℚ :=
  if packet.getDoMaxTxPower then L.m_maxTxPower
  else if packet.getTxPower > 0 then packet.getTxPower
  else L.m_currentTxPower

/-- The constructor of `WirelessCommSignal` with its assertions. -/
def WirelessCommSignal.create (location : Location) (dbStrength wavelength transmitterGain : ℚ)
    (packet : Packet) : Except Fault WirelessCommSignal :=
  if wavelength > 0 ∧ transmitterGain > 0 then
    .ok { m_location := location, m_dbStrength := dbStrength, m_packetPtr := packet,
          m_wavelength := wavelength, m_transmitterGain := transmitterGain, m_channelId := 0 }
  else .error .signalParameters

/-- The method `PhysicalLayer::recvFromLayer` with `sendSignal` and
`scheduleSignal`: the packet gets the data rate of the layer, a signal is made
for it, and a `SignalRecvEvent` (the new event object `recvEvent`) is scheduled
after the sending delay.  The result holds the packet as it is afterwards and
the signal. -/
def PhysicalLayer.recvFromLayer (L : PhysicalLayer) (log10 : ℚ → ℚ) (s : Simulator)
    (recvEvent : EventId) (direction : Directions) (packet : Packet) :
    Except Fault (Bool × Packet × WirelessCommSignal × Simulator) :=
  if direction ≠ .Upper then .error .wrongDirection
  else
    match packet.setDataRate L.getDataRate with
    | .error f => .error f
    | .ok packet1 =>
      match powerToDecibels log10 (L.signalTxPower packet1) with
      | .error f => .error f
      | .ok dbStrength =>
        match WirelessCommSignal.create L.location dbStrength L.getWavelength L.getGain
            packet1 with
        | .error f => .error f
        | .ok signal =>
          let s1 : Simulator := { s with events := setEvent s.events recvEvent Event.create }
          match s1.scheduleEvent recvEvent L.getSignalSendingDelay with
          | .error f => .error f
          | .ok (wasScheduled, s2) => .ok (wasScheduled, packet1, signal, s2)

/-- A stand-in for the logarithm to base 10 that is exact at 1. -/
def exampleLog10 : ℚ → ℚ := fun x => x - 1

/-- The physical layer of a reader at the origin, as constructed. -/
def exampleReaderPhy : PhysicalLayer :=
  PhysicalLayer.create { m_xCoordinate := 0, m_yCoordinate := 0, m_zCoordinate := 0 }
    (PhySubclass.reader true 1 true 0)

/-! ## rfid_reader_app.hpp, rfid_reader_app.cpp -/

/-- The members of `class ReadTagData`. -/
structure ReadTagData where
  m_readTagId : NodeId
  m_timeRead : SimTime
  m_timeReadSent : SimTime
deriving DecidableEq

/-- The data members of `class RfidReaderApp` and the flag `m_isRunning` of its
base `ApplicationLayer`; `nodeId` is `getNodeId()`, the `multimap` and the `set`
are the lists of their elements. -/
structure RfidReaderApp where
  nodeId : NodeId
  m_isRunning : Bool
  m_firstReadSentTime : SimTime
  m_previousReadSentTime : SimTime
  m_readTags : List (ℕ × ReadTagData)
  m_lastTagRead : ℕ × ReadTagData
  m_readTagIds : List NodeId
  m_readTimer : Timer
  m_readPeriod : SimTime
  m_doRepeatedReads : Bool
  m_doReset : Bool
  m_numPowerControlLevels : ℕ
  m_maxTxPower : ℚ
  m_currentTxPowerLevel : ℕ

/-- The constructor `RfidReaderApp::RfidReaderApp` with the timer that
`RfidReaderApp::create` makes. -/
def RfidReaderApp.create (nodeId : NodeId) (readEvent : EventId) : RfidReaderApp :=
  { nodeId := nodeId, m_isRunning := false, m_firstReadSentTime := 0,
    m_previousReadSentTime := 0, m_readTags := [],
    m_lastTagRead := (0, { m_readTagId := 0, m_timeRead := 0, m_timeReadSent := 0 }),
    m_readTagIds := [], m_readTimer := { m_eventOnFire := readEvent }, m_readPeriod := 60,
    m_doRepeatedReads := false, m_doReset := true, m_numPowerControlLevels := 1,
    m_maxTxPower := 0, m_currentTxPowerLevel := 1 }

/-- The objects around an application: the kernel, the packets behind their
pointers, and the packets that the application has handed to `sendToQueue`, in
order. -/
structure AppWorld where
  sim : Simulator
  packets : PacketPtr → Packet
  nextPacketPtr : PacketPtr
  nextUniqueId : ℕ
  sentToQueue : List PacketPtr

/-- The factory `Packet::create()`. -/
def AppWorld.newPacket (w : AppWorld) : PacketPtr × AppWorld :=
  (w.nextPacketPtr, { w with
    packets := setAt w.packets w.nextPacketPtr (Packet.create w.nextUniqueId)
    nextPacketPtr := w.nextPacketPtr + 1
    nextUniqueId := w.nextUniqueId + 1 })

/-- The call `sendToQueue(packet)` of an application on itself. -/
def AppWorld.sendToQueue (w : AppWorld) (packet : PacketPtr) : AppWorld :=
  { w with sentToQueue := w.sentToQueue ++ [packet] }

/-- The method `RfidReaderApp::sendReadPacket`. -/
def RfidReaderApp.sendReadPacket (app : RfidReaderApp) (w : AppWorld) (txPower : ℚ) :
    Except Fault AppWorld :=
  let (packetToSend, w1) := w.newPacket
  match (w1.packets packetToSend).setTxPower txPower with
  | .error f => .error f
  | .ok p1 =>
    let p2 := p1.setDestination NodeId.broadcastDestination
    let appData : RfidReaderAppData :=
      { RfidReaderAppData.create with m_type := .Read, m_nodeId := app.nodeId }
    let appData : RfidReaderAppData :=
      if p2.getTxPower = app.m_maxTxPower then { appData with m_doEntireReadCycle := true }
      else { appData with m_doEntireReadCycle := false }
    let p3 := p2.addData .Application appData.toPacketData
    .ok (({ w1 with packets := setAt w1.packets packetToSend p3 } : AppWorld).sendToQueue
      packetToSend)

/-- The method `RfidReaderApp::sendResetPacket`. -/
def RfidReaderApp.sendResetPacket (app : RfidReaderApp) (w : AppWorld) : AppWorld :=
  let (packetToSend, w1) := w.newPacket
  let p1 := (w1.packets packetToSend).setDestination NodeId.broadcastDestination
  let appData : RfidReaderAppData :=
    { RfidReaderAppData.create with m_type := .Reset, m_nodeId := app.nodeId }
  let p2 := p1.addData .Application appData.toPacketData
  ({ w1 with packets := setAt w1.packets packetToSend p2 } : AppWorld).sendToQueue packetToSend

/-- The method `RfidReaderApp::doNextRead`; `pow(x, 2)` is the square, the sum
`m_currentTxPowerLevel + 1` is an `unsigned int`. -/
def RfidReaderApp.doNextRead (app : RfidReaderApp) (w : AppWorld) :
    Except Fault (RfidReaderApp × AppWorld) :=
  if app.m_currentTxPowerLevel < app.m_numPowerControlLevels then
    let nextTxPower : ℚ :=
      app.m_maxTxPower *
        ((((app.m_currentTxPowerLevel + 1) % 2 ^ 32 : ℕ) : ℚ)
          / (app.m_numPowerControlLevels : ℚ)) ^ 2
    let app1 : RfidReaderApp := { app with m_previousReadSentTime := w.sim.currentTime }
    match app1.sendReadPacket w nextTxPower with
    | .error f => .error f
    | .ok w1 => .ok (app1, w1)
  else if app.m_doRepeatedReads then
    match app.m_readTimer.reschedule w.sim app.m_readPeriod with
    | .error f => .error f
    | .ok (_, sim) => .ok (app, { w with sim := sim })
  else .ok (app, w)

/-- The method `RfidReaderApp::signalReadEnd`. -/
def RfidReaderApp.signalReadEnd (app : RfidReaderApp) (w : AppWorld) :
    Except Fault (RfidReaderApp × AppWorld) :=
  ({ app with m_currentTxPowerLevel := (app.m_currentTxPowerLevel + 1) % 2 ^ 32 }
    : RfidReaderApp).doNextRead w

/-- The method `RfidReaderApp::doReadProcess`. -/
def RfidReaderApp.doReadProcess (app : RfidReaderApp) (w : AppWorld) :
    Except Fault (RfidReaderApp × AppWorld) :=
  let w1 := if app.m_doReset then app.sendResetPacket w else w
  if ¬ (app.m_numPowerControlLevels > 0) then .error .noPowerControlLevels
  else
    ({ app with
      m_firstReadSentTime := w1.sim.currentTime
      m_currentTxPowerLevel := 0 } : RfidReaderApp).doNextRead w1

/-- The method `RfidReaderApp::startHandler`; `maxTxPower` is
`m_physicalLayer->getMaxTxPower()`. -/
def RfidReaderApp.startHandler (app : RfidReaderApp) (w : AppWorld) (maxTxPower : ℚ) :
    Except Fault (RfidReaderApp × AppWorld) :=
  ({ app with m_maxTxPower := maxTxPower } : RfidReaderApp).doReadProcess w

/-- The application of reader 7 with two power levels and full power 1, at the
given level. -/
def exampleReaderApp (level : ℕ) : RfidReaderApp :=
  { RfidReaderApp.create 7 3 with
    m_isRunning := true, m_numPowerControlLevels := 2, m_maxTxPower := 1,
    m_currentTxPowerLevel := level }

/-- The surroundings of an application before it has made any packet. -/
def exampleAppWorld : AppWorld :=
  { sim := Simulator.instance
    packets := fun _ => Packet.create 0
    nextPacketPtr := 0
    nextUniqueId := 1
    sentToQueue := [] }

/-! ## Example scenarios of the channel model -/

/-- The manager after `addChannel(0, ...)` for the channel of all readers (object
10) and `addChannel(1, ...)` for a regular channel (object 11). -/
def baseManager : WirelessChannelManager :=
  { m_channels := [(0, 10), (1, 11)], m_listeners := [], m_senders := [] }

/-- Reader 0 calls `setRegularChannel(1)` and then `setAllSendersChannel(0)`, the
reverse of the order of main.cpp; tag 1 calls `setAllListenersChannel(0)`. -/
def reverseOrderManager : WirelessChannelManager :=
  let m1 := (baseManager.attachAsListener 0 1).2
  let m2 := (m1.attachAsSender 0 1).2
  let m3 := (m2.attachAsSender 0 0).2
  (m3.attachAsListener 1 0).2

/-- Reader 0 calls `setAllSendersChannel(0)` and then `setRegularChannel(1)`, as
in main.cpp; tag 1 calls `setAllListenersChannel(0)`. -/
def mainOrderManager : WirelessChannelManager :=
  let m1 := (baseManager.attachAsSender 0 0).2
  let m2 := (m1.attachAsListener 0 1).2
  let m3 := (m2.attachAsSender 0 1).2
  (m3.attachAsListener 1 0).2

/-- The idle example scenario with the reader attached in the reverse order. -/
def reverseOrderWorld : World := { idleWorld with manager := reverseOrderManager }

/-- The idle example scenario with the reader attached as in main.cpp. -/
def mainOrderWorld : World := { idleWorld with manager := mainOrderManager }

/-! ## simulator.cpp (continued): the end of a run, calls from outside the handlers -/

/-- The statements of `runSimulation` behind its loop: the clock is set to the
stop time, then `simulationEndHandler` is called on the listeners in the order
of the vector; each call is recorded with the clock that the listener finds. -/
def Simulator.endSimulation (s : Simulator) (stopTime : SimTime) :
    Simulator × List (ListenerId × SimTime) :=
  let s1 : Simulator := { s with m_clock := stopTime }
  (s1, s1.m_simulationEndListeners.map (fun listener => (listener, s1.currentTime)))

/-- A call that the program makes on the simulator from outside of any handler. -/
inductive ClientCall where
  | scheduleEvent (e : EventId) (eventDelay : SimTime)
  | cancelEvent (e : EventId)
  /-- The call `runSimulation(stopTime)`; `fuel` bounds the iterations of its loop. -/
  | runSimulation (stopTime : SimTime) (fuel : ℕ)

/-- One client call: the clock values that handlers find during the call, and
the state in which the call returns, if it returns. -/
def Simulator.clientCall {σ : Type} (exec : Execute σ) (s : Simulator) (w : σ) :
    ClientCall → List SimTime × Option (Simulator × σ)
  | .scheduleEvent e d =>
    ([], match s.scheduleEvent e d with
      | .ok r => some (r.2, w)
      | .error _ => none)
  | .cancelEvent e => ([], some ((s.cancelEvent e).2, w))
  | .runSimulation stopTime fuel =>
    ((Simulator.runSimulation exec stopTime fuel s w).1.map Dispatch.clock,
      match (Simulator.runSimulation exec stopTime fuel s w).2 with
      | .returned s1 w1 _ => some (s1, w1)
      | _ => none)

/-- The clock values along a sequence of client calls, in the order in which
they occur: the value before each call, the values that handlers find during
it, and the value after the last call; the sequence ends with a call that does
not return. -/
def Simulator.clockTrace {σ : Type} (exec : Execute σ) :
    List ClientCall → Simulator → σ → List SimTime
  | [], s, _ => [s.currentTime]
  | c :: cs, s, w =>
    s.currentTime :: ((s.clientCall exec w c).1 ++
      match (s.clientCall exec w c).2 with
      | some r => Simulator.clockTrace exec cs r.1 r.2
      | none => [])

/-- Every `runSimulation` of the sequence is called with a stop time that is not
before the clock at the call. -/
def Simulator.StopsAhead {σ : Type} (exec : Execute σ) :
    List ClientCall → Simulator → σ → Prop
  | [], _, _ => True
  | c :: cs, s, w =>
    (match c with
      | .runSimulation stopTime _ => s.currentTime ≤ stopTime
      | _ => True) ∧
    match (s.clientCall exec w c).2 with
    | some r => Simulator.StopsAhead exec cs r.1 r.2
    | none => True

/-- The unit-test queue with two listeners registered, 7 and then 3. -/
def exampleListenerSim : Simulator :=
  (unitTestPrefix.addSimulationEndListener 7).addSimulationEndListener 3

/-! ## node.hpp: node identifiers as byte arrays -/

/-- The expression `byteArray[i] << (8 * i)` as it is added to the `t_uint`
member.  From `i = 4` on the shift count is not smaller than the width of `int`,
where the language leaves the result open: `wideShift` stands for what the
machine does then. -/
def NodeId.shiftByte (wideShift : ℕ → ℕ → ℕ) (byte i : ℕ) : ℕ :=
  if 8 * i < 32 then (byte * 2 ^ (8 * i)) % 2 ^ 32 else wideShift byte (8 * i) % 2 ^ 32

/-- The loop of the constructor `NodeId(const t_uchar*, t_uint)`: `remaining`
bytes are left to read from index `i` on. -/
def NodeId.readLoop (wideShift : ℕ → ℕ → ℕ) (byteArray : List ℕ) :
    ℕ → ℕ → ℕ → Except Fault ℕ
  | 0, _, value => .ok value
  | remaining + 1, i, value =>
    if i > 4 ∧ byteArray.getD i 0 ≠ 0 then .error .idByteNotZero
    else NodeId.readLoop wideShift byteArray remaining (i + 1)
      ((value + NodeId.shiftByte wideShift (byteArray.getD i 0) i) % 2 ^ 32)

/-- The constructor `NodeId(const t_uchar* byteArray, t_uint byteCount)`; the
zero-th byte is the least significant one. -/
def NodeId.ofByteArray (wideShift : ℕ → ℕ → ℕ) (byteArray : List ℕ) (byteCount : ℕ) :
    Except Fault NodeId :=
  NodeId.readLoop wideShift byteArray byteCount 0 0

/-- The `while` loop of `NodeId::writeToByteArray`. -/
def NodeId.writeLoop (byteCount : ℕ) (id i : ℕ) (byteArray : List ℕ) :
    Except Fault (List ℕ) :=
  if h : id > 0 then
    if i < byteCount then
      NodeId.writeLoop byteCount (id / 256) (i + 1) (byteArray.set i (id % 256))
    else .error .byteIndexOutOfRange
  else .ok byteArray
termination_by id
decreasing_by exact Nat.div_lt_self h (by decide)

/-- The method `NodeId::writeToByteArray`, on the memory that starts at
`byteArray`: the first `byteCount` bytes are filled with zero, then the loop
writes the bytes of the identifier. -/
def NodeId.writeToByteArray (nodeId : NodeId) (byteArray : List ℕ) (byteCount : ℕ) :
    Except Fault (List ℕ) :=
  if ¬ (4 ≤ byteCount) then .error .byteArrayTooShort
  else
    NodeId.writeLoop byteCount nodeId 0
      (List.replicate (min byteCount byteArray.length) 0 ++ byteArray.drop byteCount)

/-- What an x86 processor does with a shift count of 32 or more: it takes the
count modulo 32. -/
def maskedShift (byte count : ℕ) : ℕ := byte * 2 ^ (count % 32)

/-! ## packet.hpp (continued): sizes -/

/-- The five values of `Packet::DataTypes`, in the order of the enumeration. -/
def DataTypes.all : List DataTypes :=
  [.Physical, .Link, .Network, .Transport, .Application]

/-- The size of the payload that a packet holds for one layer kind; nothing for
a kind without payload. -/
def Packet.payloadSize (p : Packet) (dataType : DataTypes) : ℕ :=
  ((p.getData dataType).map PacketData.sizeInBytes).getD 0

/-- The REQUEST of reader 9 for a cycle of 10 slots as the physical layer sends
it: the link header is its only payload, the data rate is that of the layer. -/
def exampleRequestPacket : Packet :=
  { (Packet.create 1).addData .Link
      ({ RfidReaderMacData.create with
          m_senderId := 9, m_receiverId := NodeId.broadcastDestination,
          m_numberOfSlots := 10, m_type := .Request } : RfidReaderMacData).toPacketData with
    m_dataRate := 128000 }

/-! ## packet.cpp: packets and their payloads as objects

In the sources `m_data` maps a layer kind to a pointer to the payload object;
the copy constructor and `addData` clone the payload objects.  `PacketHeap`
keeps the packet objects and the payload objects behind their pointers;
`PacketHeap.value` is the `Packet` of the other sections, with the payloads in
place of the pointers. -/

/-- Identity of a `PacketData` object (the value of a `PacketDataPtr`). -/
abbrev PacketDataPtr := ℕ

/-- The data members of `class Packet`, `m_data` as the
`map<DataTypes,PacketDataPtr>` in key order. -/
structure PacketObject where
  m_dataRate : ℚ
  m_txPower : ℚ
  m_doMaxTxPower : Bool
  m_hasError : Bool
  m_data : List (DataTypes × PacketDataPtr)
  m_destination : ℕ
  m_uniqueId : ℕ

/-- The packet objects and the payload objects of a program, the next addresses
that `new` hands out for them, and the static counter `Packet::m_nextUniqueId`. -/
structure PacketHeap where
  packets : PacketPtr → PacketObject
  payloads : PacketDataPtr → PacketData
  nextPacketPtr : PacketPtr
  nextPacketDataPtr : PacketDataPtr
  m_nextUniqueId : ℕ

/-- The assignment `m_data[dataType] = value` on a map in key order. -/
def mapAssign {β : Type} (dataType : DataTypes) (value : β) :
    List (DataTypes × β) → List (DataTypes × β)
  | [] => [(dataType, value)]
  | kv :: rest =>
    if kv.1 = dataType then (dataType, value) :: rest
    else if dataType.toNat < kv.1.toNat then (dataType, value) :: kv :: rest
    else kv :: mapAssign dataType value rest

/-- The call `PacketData::create(rhs)`, which is `rhs.clone()`: a new object of
the dynamic type of `rhs` whose copy constructor copies every member. -/
def PacketHeap.clone (h : PacketHeap) (rhs : PacketData) : PacketDataPtr × PacketHeap :=
  (h.nextPacketDataPtr,
    { h with
      payloads := setAt h.payloads h.nextPacketDataPtr rhs
      nextPacketDataPtr := h.nextPacketDataPtr + 1 })

/-- The loop in the body of the copy constructor `Packet::Packet(const Packet&)`
over the entries of `rhs.m_data`; `data` is the map under construction. -/
def PacketHeap.copyData :
    List (DataTypes × PacketDataPtr) → List (DataTypes × PacketDataPtr) → PacketHeap →
      List (DataTypes × PacketDataPtr) × PacketHeap
  | [], data, h => (data, h)
  | kv :: rest, data, h =>
    let r := h.clone (h.payloads kv.2)
    PacketHeap.copyData rest (mapAssign kv.1 r.1 data) r.2

/-- The factory `Packet::create(const Packet& rhs)`, which is `rhs.clone()`, which
is `new Packet(*this)`.  The initialiser list of the copy constructor names every
scalar member but `m_doMaxTxPower` (the parameter `indeterminate`). -/
def PacketHeap.createCopy (h : PacketHeap) (rhs : PacketPtr) (indeterminate : Bool) :
    PacketPtr × PacketHeap :=
  let r := PacketHeap.copyData (h.packets rhs).m_data [] h
  (r.2.nextPacketPtr,
    { r.2 with
      packets := setAt r.2.packets r.2.nextPacketPtr
        { m_dataRate := (h.packets rhs).m_dataRate
          m_txPower := (h.packets rhs).m_txPower
          m_doMaxTxPower := indeterminate
          m_hasError := (h.packets rhs).m_hasError
          m_data := r.1
          m_destination := (h.packets rhs).m_destination
          m_uniqueId := (h.packets rhs).m_uniqueId }
      nextPacketPtr := r.2.nextPacketPtr + 1 })

/-- The factory `Packet::create()`: the constructor, then the unique id from the
static counter (`t_ulong`). -/
def PacketHeap.create (h : PacketHeap) : PacketPtr × PacketHeap :=
  (h.nextPacketPtr,
    { h with
      packets := setAt h.packets h.nextPacketPtr
        { m_dataRate := 10 ^ 6, m_txPower := 0, m_doMaxTxPower := false, m_hasError := false,
          m_data := [], m_destination := 0, m_uniqueId := h.m_nextUniqueId }
      nextPacketPtr := h.nextPacketPtr + 1
      m_nextUniqueId := (h.m_nextUniqueId + 1) % 2 ^ 64 })

/-- The method `Packet::addData` on the packet behind `packet`: a deep copy of
`data` is stored. -/
def PacketHeap.addData (h : PacketHeap) (packet : PacketPtr) (dataType : DataTypes)
    (data : PacketData) : PacketHeap :=
  let r := h.clone data
  { r.2 with
    packets := setAt r.2.packets packet
      { r.2.packets packet with m_data := mapAssign dataType r.1 (r.2.packets packet).m_data } }

/-- The method `Packet::removeData` on the packet behind `packet`. -/
def PacketHeap.removeData (h : PacketHeap) (packet : PacketPtr) (dataType : DataTypes) :
    Bool × PacketHeap :=
  let kept := (h.packets packet).m_data.filter (fun kv => kv.1 ≠ dataType)
  (decide (kept.length < (h.packets packet).m_data.length),
    { h with packets := setAt h.packets packet { h.packets packet with m_data := kept } })

/-- The method `Packet::getData`: the pointer stored for the layer kind, `none`
for the empty pointer. -/
def PacketHeap.getData (h : PacketHeap) (packet : PacketPtr) (dataType : DataTypes) :
    Option PacketDataPtr :=
  ((h.packets packet).m_data.find? (fun kv => kv.1 = dataType)).map Prod.snd

/-- The method `Packet::getSizeInBytes` on the packet behind `packet`. -/
def PacketHeap.getSizeInBytes (h : PacketHeap) (packet : PacketPtr) : ℕ :=
  match (h.packets packet).m_data with
  | [] => 512
  | kv :: rest =>
    (kv :: rest).foldl (fun acc d => (acc + (h.payloads d.2).sizeInBytes) % 2 ^ 32) 0

def PacketHeap.getUniqueId (h : PacketHeap) (packet : PacketPtr) : ℕ :=
  (h.packets packet).m_uniqueId

/-- A write to the payload object behind a pointer, as any setter of a payload
class performs it on the pointer that `getData` returns. -/
def PacketHeap.writePayload (h : PacketHeap) (data : PacketDataPtr) (value : PacketData) :
    PacketHeap :=
  { h with payloads := setAt h.payloads data value }

/-- The packet behind a pointer as a value: every payload pointer replaced by
the object it points to. -/
def PacketHeap.value (h : PacketHeap) (packet : PacketPtr) : Packet :=
  { m_dataRate := (h.packets packet).m_dataRate
    m_txPower := (h.packets packet).m_txPower
    m_doMaxTxPower := (h.packets packet).m_doMaxTxPower
    m_hasError := (h.packets packet).m_hasError
    m_data := (h.packets packet).m_data.map (fun kv => (kv.1, h.payloads kv.2))
    m_destination := (h.packets packet).m_destination
    m_uniqueId := (h.packets packet).m_uniqueId }

/-- Every payload pointer that a packet holds has been handed out by `new`. -/
def PacketHeap.Allocated (h : PacketHeap) : Prop :=
  ∀ packet, ∀ kv ∈ (h.packets packet).m_data, kv.2 < h.nextPacketDataPtr

/-- The entries of a `map<DataTypes,...>` stand in the order of their keys, each
key once. -/
def KeyOrdered {β : Type} (data : List (DataTypes × β)) : Prop :=
  data.Pairwise (fun a b => a.1.toNat < b.1.toNat)

/-- A heap with one packet: the REQUEST of `createRequestPacket` with its link
header. -/
def exampleHeap : PacketHeap :=
  (PacketHeap.create
    { packets := fun _ =>
        { m_dataRate := 10 ^ 6, m_txPower := 0, m_doMaxTxPower := false, m_hasError := false,
          m_data := [], m_destination := 0, m_uniqueId := 0 }
      payloads := fun _ => PacketData.create
      nextPacketPtr := 0
      nextPacketDataPtr := 0
      m_nextUniqueId := 1 }).2.addData 0 .Link
    ({ RfidReaderMacData.create with
        m_senderId := 9, m_receiverId := NodeId.broadcastDestination,
        m_numberOfSlots := 10, m_type := .Request } : RfidReaderMacData).toPacketData

/-! ## rfid_reader_app.cpp (continued): the table of the tags read -/

/-- The insertion `set<NodeId>::insert(value)` on the set in order, with the
second component of the pair that it returns: whether the value was inserted. -/
def setInsert (x : NodeId) : List NodeId → List NodeId × Bool
  | [] => ([x], true)
  | y :: ys =>
    if x = y then (y :: ys, false)
    else if x < y then (x :: y :: ys, true)
    else ((y :: (setInsert x ys).1), (setInsert x ys).2)

/-- The method `RfidReaderApp::handleRecvdPacket`; the clock is that of the
simulator of `w`, the packet the one behind the pointer. -/
def RfidReaderApp.handleRecvdPacket (app : RfidReaderApp) (w : AppWorld) (packet : PacketPtr) :
    Except Fault (Bool × RfidReaderApp) :=
  if !app.m_isRunning then .ok (false, app)
  else
    match ((w.packets packet).getData .Application).map PacketData.header with
    | some (.tagApp tagData) =>
      let readTagId := tagData.m_nodeId
      let isNewTagId := decide (readTagId ∉ app.m_readTagIds)
      if isNewTagId then
        let timeRead := w.sim.currentTime
        let lastTagRead : ℕ × ReadTagData :=
          (app.m_currentTxPowerLevel,
            { m_readTagId := readTagId, m_timeRead := timeRead,
              m_timeReadSent := app.m_previousReadSentTime })
        let p := setInsert readTagId app.m_readTagIds
        if p.2 then
          .ok (true, { app with
            m_lastTagRead := lastTagRead
            m_readTags := multimapInsert lastTagRead.1 lastTagRead.2 app.m_readTags
            m_readTagIds := p.1 })
        else .error .tagIdNotInserted
      else .ok (true, app)
    | some (.readerApp _) => .ok (true, app)
    | _ => .ok (false, app)

/-- One delivery of a packet to the application: the surroundings at that
moment (clock and packets), the packet, and the power level and the time of the
current READ that the application has reached by then through `signalReadEnd`
and `doNextRead`, which do not touch the tables. -/
structure Delivery where
  world : AppWorld
  packet : PacketPtr
  level : ℕ
  readSentTime : SimTime

/-- The tag identifier that a delivery carries, if the application data of its
packet is a tag's. -/
def Delivery.tagId (d : Delivery) : Option NodeId :=
  match ((d.world.packets d.packet).getData .Application).map PacketData.header with
  | some (.tagApp tagData) => some tagData.m_nodeId
  | _ => none

/-- A sequence of deliveries, with the values that `handleRecvdPacket` returns. -/
def RfidReaderApp.deliver : List Delivery → RfidReaderApp →
    Except Fault (List Bool × RfidReaderApp)
  | [], app => .ok ([], app)
  | d :: ds, app =>
    match RfidReaderApp.handleRecvdPacket
        { app with m_currentTxPowerLevel := d.level, m_previousReadSentTime := d.readSentTime }
        d.world d.packet with
    | .error f => .error f
    | .ok r =>
      match RfidReaderApp.deliver ds r.2 with
      | .error f => .error f
      | .ok rs => .ok (r.1 :: rs.1, rs.2)

/-- The two tables of the application agree: the tag identifiers of the records
are the elements of the set, each once. -/
def RfidReaderApp.TablesAgree (app : RfidReaderApp) : Prop :=
  (app.m_readTags.map (fun r => r.2.m_readTagId)).Perm app.m_readTagIds ∧
    app.m_readTagIds.Nodup

/-- A packet whose application data is the identity of tag `tagId`. -/
def exampleIdPacket (tagId : NodeId) : Packet :=
  (Packet.create 1).addData .Application
    ({ m_nodeId := tagId, m_type := .Reply } : RfidTagAppData).toPacketData

/-- Surroundings at time `t` in which packet 0 is the identity packet of tag
`tagId`. -/
def exampleIdWorld (t : SimTime) (tagId : NodeId) : AppWorld :=
  { exampleAppWorld with
    sim := { Simulator.instance with m_clock := t }
    packets := fun _ => exampleIdPacket tagId }

/-- Three deliveries to the reader application: the identity of tag 5 at time 1,
of tag 6 at time 2, and of tag 5 once more at time 3, all at power level 0 for a
READ sent at time 1/2. -/
def exampleDeliveries : List Delivery :=
  [{ world := exampleIdWorld 1 5, packet := 0, level := 0, readSentTime := 1 / 2 },
   { world := exampleIdWorld 2 6, packet := 0, level := 0, readSentTime := 1 / 2 },
   { world := exampleIdWorld 3 5, packet := 0, level := 0, readSentTime := 1 / 2 }]

/-! ## communication_layer.hpp, communication_layer.cpp: the packet queue of a layer -/

/-- A call that a layer makes on one of its upper layers. -/
inductive UpperCall where
  /-- The call `m_upperLayers[i]->blockQueue()`. -/
  | blockQueue (i : ℕ)
  /-- The call `m_upperLayers[i]->unblockQueue()`. -/
  | unblockQueue (i : ℕ)
deriving DecidableEq

/-- The data members of `class CommunicationLayer` that its queue works with.
The neighbouring layers are other objects: the vectors `m_lowerLayers` and
`m_upperLayers` are represented by their sizes, the calls on upper layers are
recorded in `upperCalls`, and every `LayerRecvEvent` that `sendToLayer` schedules
for a lower layer is recorded in `sentLower` (for an upper layer in `sentUpper`),
in order.  A neighbour reached by such a call or event does not call back into
this layer before the call returns: it reaches other layers through
`sendToLayer`, which only schedules an event. -/
structure CommunicationLayer where
  m_lowerLayerRecvEventPending : Bool
  m_lowerLayerDelay : SimTime
  m_upperLayerDelay : SimTime
  numberOfLowerLayers : ℕ
  numberOfUpperLayers : ℕ
  m_defaultLowerLayerIdx : ℕ
  m_defaultUpperLayerIdx : ℕ
  m_maxQueueLength : ℕ
  m_packetQueue : List (PacketPtr × ℕ)
  m_queueIsBlocked : Bool
  sentLower : List (PacketPtr × ℕ)
  sentUpper : List (PacketPtr × ℕ)
  upperCalls : List UpperCall

def m_DEFAULT_MAX_QUEUE_LENGTH : ℕ := 50

/-- The constructor `CommunicationLayer::CommunicationLayer`. -/
def CommunicationLayer.create : CommunicationLayer :=
  { m_lowerLayerRecvEventPending := false, m_lowerLayerDelay := 0, m_upperLayerDelay := 0,
    numberOfLowerLayers := 0, numberOfUpperLayers := 0, m_defaultLowerLayerIdx := 0,
    m_defaultUpperLayerIdx := 0, m_maxQueueLength := m_DEFAULT_MAX_QUEUE_LENGTH,
    m_packetQueue := [], m_queueIsBlocked := false, sentLower := [], sentUpper := [],
    upperCalls := [] }

def CommunicationLayer.numberOfLayers (L : CommunicationLayer) : Directions → ℕ
  | .Lower => L.numberOfLowerLayers
  | .Upper => L.numberOfUpperLayers

def CommunicationLayer.getDefaultLayer (L : CommunicationLayer) : Directions → ℕ
  | .Lower => L.m_defaultLowerLayerIdx
  | .Upper => L.m_defaultUpperLayerIdx

def CommunicationLayer.getLayerDelay (L : CommunicationLayer) : Directions → SimTime
  | .Lower => L.m_lowerLayerDelay
  | .Upper => L.m_upperLayerDelay

/-- The method `CommunicationLayer::queueIsFull` with its assertion. -/
def CommunicationLayer.queueIsFull (L : CommunicationLayer) : Except Fault Bool :=
  if ¬ (L.m_packetQueue.length ≤ L.m_maxQueueLength) then .error .queueTooLong
  else .ok (decide (L.m_packetQueue.length = L.m_maxQueueLength))

/-- The method `CommunicationLayer::setMaxQueueLength`. -/
def CommunicationLayer.setMaxQueueLength (L : CommunicationLayer) (maxQueueLength : ℕ) :
    Except Fault CommunicationLayer :=
  if ¬ (maxQueueLength > 0) then .error .maxQueueLengthZero
  else .ok { L with m_maxQueueLength := maxQueueLength }

/-- The method `CommunicationLayer::blockUpperQueues`. -/
def CommunicationLayer.blockUpperQueues (L : CommunicationLayer) : CommunicationLayer :=
  { L with
    upperCalls := L.upperCalls ++ (List.range L.numberOfUpperLayers).map UpperCall.blockQueue }

/-- The loop of `CommunicationLayer::unblockUpperQueues` from index `i` on, with
`remaining` upper layers left; the condition calls `queueIsFull()` first. -/
def CommunicationLayer.unblockUpperLoop (L : CommunicationLayer) :
    ℕ → ℕ → Except Fault CommunicationLayer
  | 0, _ => (L.queueIsFull).map (fun _ => L)
  | remaining + 1, i =>
    match L.queueIsFull with
    | .error f => .error f
    | .ok full =>
      if !full then
        CommunicationLayer.unblockUpperLoop
          { L with upperCalls := L.upperCalls ++ [UpperCall.unblockQueue i] } remaining (i + 1)
      else .ok L

/-- The method `CommunicationLayer::unblockUpperQueues`. -/
def CommunicationLayer.unblockUpperQueues (L : CommunicationLayer) :
    Except Fault CommunicationLayer :=
  L.unblockUpperLoop L.numberOfUpperLayers 0

/-- The method `CommunicationLayer::sendToLayer(direction, packet,
recvingLayerIdx)`: the `LayerRecvEvent` is new, so of the assertions of
`scheduleEvent` only the one on the delay can fail.  For a lower layer the flag
`m_lowerLayerRecvEventPending` is set; it was false or stays true, so
`setLowerLayerRecvEventPending(true)` does not send from the queue. -/
def CommunicationLayer.sendToLayer (L : CommunicationLayer) (direction : Directions)
    (packet : PacketPtr) (recvingLayerIdx : ℕ) : Except Fault (Bool × CommunicationLayer) :=
  if ¬ (recvingLayerIdx < L.numberOfLayers direction) then .error .noSuchLayer
  else if ¬ (L.getLayerDelay direction ≥ 0) then .error .scheduleNegativeDelay
  else
    match direction with
    | .Lower =>
      .ok (true, { L with
        sentLower := L.sentLower ++ [(packet, recvingLayerIdx)]
        m_lowerLayerRecvEventPending := true })
    | .Upper => .ok (true, { L with sentUpper := L.sentUpper ++ [(packet, recvingLayerIdx)] })

/-- The `while` loop of `CommunicationLayer::sendFromQueue` on the queue
`queue`. -/
def CommunicationLayer.sendFromQueueLoop (L : CommunicationLayer) :
    List (PacketPtr × ℕ) → Except Fault CommunicationLayer
  | [] => .ok { L with m_packetQueue := [] }
  | queueElement :: rest =>
    if !L.m_lowerLayerRecvEventPending && !L.m_queueIsBlocked then
      match CommunicationLayer.sendToLayer { L with m_packetQueue := rest } .Lower
          queueElement.1 queueElement.2 with
      | .error f => .error f
      | .ok r => CommunicationLayer.sendFromQueueLoop r.2 rest
    else .ok { L with m_packetQueue := queueElement :: rest }

/-- The method `CommunicationLayer::sendFromQueue`. -/
def CommunicationLayer.sendFromQueue (L : CommunicationLayer) :
    Except Fault CommunicationLayer :=
  match L.sendFromQueueLoop L.m_packetQueue with
  | .error f => .error f
  | .ok L1 =>
    match L1.queueIsFull with
    | .error f => .error f
    | .ok full => if !full then L1.unblockUpperQueues else .ok L1

/-- The method `CommunicationLayer::sendToQueue(packet, lowerLayerIdx)`. -/
def CommunicationLayer.sendToQueue (L : CommunicationLayer) (packet : PacketPtr)
    (lowerLayerIdx : ℕ) : Except Fault (Bool × CommunicationLayer) :=
  match L.queueIsFull with
  | .error f => .error f
  | .ok full =>
    let r : Except Fault (Bool × CommunicationLayer) :=
      if !full then
        (CommunicationLayer.sendFromQueue
          { L with m_packetQueue := L.m_packetQueue ++ [(packet, lowerLayerIdx)] }).map
          (fun L1 => (true, L1))
      else .ok (false, L)
    match r with
    | .error f => .error f
    | .ok (wasSuccessful, L1) =>
      match L1.queueIsFull with
      | .error f => .error f
      | .ok full1 => .ok (wasSuccessful, if full1 then L1.blockUpperQueues else L1)

/-- The method `CommunicationLayer::blockQueue`. -/
def CommunicationLayer.blockQueue (L : CommunicationLayer) : CommunicationLayer :=
  { L with m_queueIsBlocked := true }

/-- The method `CommunicationLayer::unblockQueue`. -/
def CommunicationLayer.unblockQueue (L : CommunicationLayer) :
    Except Fault CommunicationLayer :=
  CommunicationLayer.sendFromQueue { L with m_queueIsBlocked := false }

/-- The method `CommunicationLayer::setLowerLayerRecvEventPending`. -/
def CommunicationLayer.setLowerLayerRecvEventPending (L : CommunicationLayer)
    (isPending : Bool) : Except Fault CommunicationLayer :=
  let previousValue := L.m_lowerLayerRecvEventPending
  let L1 : CommunicationLayer := { L with m_lowerLayerRecvEventPending := isPending }
  if previousValue && !L1.m_lowerLayerRecvEventPending then L1.sendFromQueue else .ok L1

/-- What happens to the queue of a layer from outside. -/
inductive QueueOp where
  | sendToQueue (packet : PacketPtr) (lowerLayerIdx : ℕ)
  | blockQueue
  | unblockQueue
  /-- The end of `LayerRecvEvent::execute` for a packet that this layer sent
  down: `setLowerLayerRecvEventPending(false)`. -/
  | layerRecvDone
deriving DecidableEq

/-- One operation on the queue; with the layer it returns the queue element
that `sendToQueue` accepted, if it is one and it accepted. -/
def CommunicationLayer.queueOp (L : CommunicationLayer) :
    QueueOp → Except Fault (List (PacketPtr × ℕ) × CommunicationLayer)
  | .sendToQueue packet lowerLayerIdx =>
    (L.sendToQueue packet lowerLayerIdx).map
      (fun r => (if r.1 then [(packet, lowerLayerIdx)] else [], r.2))
  | .blockQueue => .ok ([], L.blockQueue)
  | .unblockQueue => (L.unblockQueue).map (fun L1 => ([], L1))
  | .layerRecvDone => (L.setLowerLayerRecvEventPending false).map (fun L1 => ([], L1))

/-- A sequence of operations on the queue, with the queue elements accepted, in
order. -/
def CommunicationLayer.queueOps :
    List QueueOp → CommunicationLayer → Except Fault (List (PacketPtr × ℕ) × CommunicationLayer)
  | [], L => .ok ([], L)
  | op :: ops, L =>
    match L.queueOp op with
    | .error f => .error f
    | .ok r =>
      match CommunicationLayer.queueOps ops r.2 with
      | .error f => .error f
      | .ok rs => .ok (r.1 ++ rs.1, rs.2)

/-- The queue is not longer than its maximum. -/
def CommunicationLayer.QueueBounded (L : CommunicationLayer) : Prop :=
  L.m_packetQueue.length ≤ L.m_maxQueueLength

/-- The assertions of `sendToLayer` hold for what the queue sends down: the
delay is not negative, and the queued packets are for lower layers that exist. -/
def CommunicationLayer.QueueValid (L : CommunicationLayer) : Prop :=
  0 ≤ L.m_lowerLayerDelay ∧ ∀ queueElement ∈ L.m_packetQueue,
    queueElement.2 < L.numberOfLowerLayers

/-- The lower layer index of an operation, if it has one, is that of a layer
that exists. -/
def QueueOp.Valid (L : CommunicationLayer) : QueueOp → Prop
  | .sendToQueue _ lowerLayerIdx => lowerLayerIdx < L.numberOfLowerLayers
  | _ => True

/-- An application layer above one lower layer, with room for two packets. -/
def exampleLayer : CommunicationLayer :=
  { CommunicationLayer.create with numberOfLowerLayers := 1, m_maxQueueLength := 2 }

/-- The same layer, blocked, with the packets 1 and 2 in its queue: it is full. -/
def exampleFullLayer : CommunicationLayer :=
  { exampleLayer with m_packetQueue := [(1, 0), (2, 0)], m_queueIsBlocked := true }

/-- Four packets for the layer, the completion of the first layer-receive event,
and a fifth packet. -/
def exampleQueueOps : List QueueOp :=
  [.sendToQueue 1 0, .sendToQueue 2 0, .sendToQueue 3 0, .sendToQueue 4 0, .layerRecvDone,
    .sendToQueue 5 0]

/-! ## rfid_tag_app.hpp, rfid_tag_app.cpp, rfid_tag_mac.hpp, rfid_tag_mac.cpp -/

/-- The data members of `class RfidTagApp` and the flag `m_isRunning` of its base
`ApplicationLayer`; `nodeId` is `getNodeId()`, and `sentToQueue` records the
packets that the application has handed to `sendToQueue`, in order. -/
structure RfidTagApp where
  nodeId : NodeId
  m_isRunning : Bool
  m_replyToReads : Bool
  sentToQueue : List PacketPtr

/-- The constructor `RfidTagApp::RfidTagApp`. -/
def RfidTagApp.create (nodeId : NodeId) : RfidTagApp :=
  { nodeId := nodeId, m_isRunning := false, m_replyToReads := true, sentToQueue := [] }

def RfidTagApp.getReplyToReads (app : RfidTagApp) : Bool := app.m_replyToReads

def RfidTagApp.setReplyToReads (app : RfidTagApp) (replyToReads : Bool) : RfidTagApp :=
  { app with m_replyToReads := replyToReads }

/-- The method `RfidTagApp::sendIdPacket`. -/
def RfidTagApp.sendIdPacket (app : RfidTagApp) (w : MacWorld) (destination : NodeId) :
    RfidTagApp × MacWorld :=
  let (packetToSend, w1) := w.newPacket
  let appData : RfidTagAppData := { RfidTagAppData.create with m_nodeId := app.nodeId }
  ({ app with sentToQueue := app.sentToQueue ++ [packetToSend] },
    w1.setPacket packetToSend
      (((w1.packets packetToSend).setDestination destination).addData .Application
        appData.toPacketData))

/-- The method `RfidTagApp::handleRecvdPacket`. -/
def RfidTagApp.handleRecvdPacket (app : RfidTagApp) (w : MacWorld) (packet : PacketPtr) :
    Bool × RfidTagApp × MacWorld :=
  if !app.m_isRunning then (false, app, w)
  else
    match ((w.packets packet).getData .Application).map PacketData.header with
    | some (.readerApp readerData) =>
      match readerData.m_type with
      | .Read =>
        if app.m_replyToReads then
          let r := app.sendIdPacket w readerData.m_nodeId
          (true, r.1, r.2)
        else (true, app, w)
      | .Reset => (true, { app with m_replyToReads := true }, w)
      | .NoType => (false, app, w)
    | _ => (false, app, w)

def m_TAG_GENERIC_IFS : ℚ := 15 / 10 ^ 6

def m_TAG_REPLY_IFS : ℚ := 20 / 10 ^ 6

/-- The data members of `class RfidTagMac`: those of `SlottedMac` and the
application object behind the pointer `m_tagApp`. -/
structure RfidTagMac extends SlottedMac where
  m_tagApp : RfidTagApp

/-- The constructor `RfidTagMac::RfidTagMac` with the slot timer that
`RfidTagMac::create` makes. -/
def RfidTagMac.create (nodeId : NodeId) (slotEvent : EventId) (tagApp : RfidTagApp) :
    RfidTagMac :=
  { nodeId := nodeId, m_sendTimer := none, m_slotTimer := { m_eventOnFire := slotEvent },
    m_currentSlotNumber := 0, m_txSlotNumber := 0, m_numberOfSlots := 0,
    m_packetToTransmit := none, m_slotTime := m_DEFAULT_SLOT_TIME, m_tagApp := tagApp }

/-- The method `RfidTagMac::isPacketType`. -/
def RfidTagMac.isPacketType (w : MacWorld) (packet : PacketPtr)
    (type : RfidTagMacData.Types) : Bool :=
  match ((w.packets packet).getData .Link).map PacketData.header with
  | some (.tagMac macData) => decide (macData.m_type = type)
  | _ => false

/-- The method `RfidTagMac::packetIsForMe`. -/
def RfidTagMac.packetIsForMe (mac : RfidTagMac) (macData : RfidReaderMacData) : Bool :=
  decide (macData.m_receiverId = mac.nodeId)
    || decide (macData.m_receiverId = NodeId.broadcastDestination)

/-- The method `RfidTagMac::createReplyPacket`. -/
def RfidTagMac.createReplyPacket (mac : RfidTagMac) (w : MacWorld) (receiverId : NodeId) :
    PacketPtr × MacWorld :=
  let macData : RfidTagMacData :=
    { RfidTagMacData.create with
      m_type := .Reply, m_senderId := mac.nodeId, m_receiverId := receiverId }
  let (packet, w1) := w.newPacket
  (packet, w1.setPacket packet ((w1.packets packet).addData .Link macData.toPacketData))

/-- The method `RfidTagMac::handleRequestPacket`.  The call
`rand->uniformInt(0, m_numberOfSlots - 4)` goes to the boost library: `uniformInt`
stands for what it returns. -/
def RfidTagMac.handleRequestPacket (uniformInt : ℕ → ℕ → ℕ) (mac : RfidTagMac) (w : MacWorld)
    (macData : RfidReaderMacData) : Except Fault (Bool × RfidTagMac × MacWorld) :=
  if !mac.inContentionCycle then
    let mac1 : RfidTagMac :=
      { mac with m_currentSlotNumber := 0, m_numberOfSlots := macData.m_numberOfSlots }
    if ¬ (mac1.m_numberOfSlots ≥ 4) then .error .numberOfSlotsTooSmall
    else if mac1.m_numberOfSlots > 0 then
      let mac2 : RfidTagMac :=
        { mac1 with m_txSlotNumber := uniformInt 0 (mac1.m_numberOfSlots - 4) % 2 ^ 32 }
      if mac2.m_packetToTransmit ≠ none then .error .packetToTransmitPending
      else if mac2.m_tagApp.getReplyToReads then
        let r := mac2.createReplyPacket w macData.m_senderId
        .ok (true, { mac2 with m_packetToTransmit := some r.1 }, r.2)
      else .ok (true, mac2, w)
    else .ok (true, mac1, w)
  else .ok (true, mac, w)

/-- The method `RfidTagMac::handleChannelBusy`. -/
def RfidTagMac.handleChannelBusy (packet : PacketPtr) (mac : RfidTagMac) (w : MacWorld) :
    Except Fault (RfidTagMac × MacWorld) :=
  let mac1 : RfidTagMac :=
    if RfidTagMac.isPacketType w packet .Reply then
      { mac with toSlottedMac := mac.stopContentionCycle }
    else mac
  .ok (mac1, w.unblockUpperQueues)

/-- The method `RfidTagMac::handlePacketSent`. -/
def RfidTagMac.handlePacketSent (packet : PacketPtr) (mac : RfidTagMac) (w : MacWorld) :
    Except Fault (RfidTagMac × MacWorld) :=
  if RfidTagMac.isPacketType w packet .Generic then
    .ok ({ mac with toSlottedMac := mac.stopContentionCycle }, w.unblockUpperQueues)
  else .ok (mac, w)

/-- The method `MacProtocol::sendToLinkLayer` on a tag MAC. -/
def RfidTagMac.sendToLinkLayer (mac : RfidTagMac) (w : MacWorld)
    (direction : Directions) (packet : PacketPtr) :
    Except Fault (Bool × RfidTagMac × MacWorld) :=
  MacProtocol.sendToLinkLayer RfidTagMac.handleChannelBusy RfidTagMac.handlePacketSent
    mac w direction packet

/-- The method `RfidTagMac::handleRecvdMacPacket`. -/
def RfidTagMac.handleRecvdMacPacket (uniformInt : ℕ → ℕ → ℕ) (mac : RfidTagMac) (w : MacWorld)
    (packet : PacketPtr) : Except Fault (Bool × RfidTagMac × MacWorld) :=
  match ((w.packets packet).getData .Link).map PacketData.header with
  | some (.readerMac macData) =>
    match macData.m_type with
    | .Request =>
      if ¬ (macData.m_receiverId = NodeId.broadcastDestination) then .error .requestNotBroadcast
      else mac.handleRequestPacket uniformInt w macData
    | .Select =>
      if macData.m_receiverId = mac.nodeId then mac.sendToLinkLayer w .Upper packet
      else
        .ok (true,
          { mac with toSlottedMac := { mac.stopContentionCycle with m_packetToTransmit := none } },
          w.unblockUpperQueues)
    | .Generic =>
      if mac.packetIsForMe macData then mac.sendToLinkLayer w .Upper packet
      else .ok (true, mac, w)
    | .Ack =>
      if mac.packetIsForMe macData then
        .ok (true, { mac with m_tagApp := mac.m_tagApp.setReplyToReads false }, w)
      else .ok (true, mac, w)
  | _ => .ok (true, mac, w)

/-- The method `RfidTagMac::addGenericHeader`. -/
def RfidTagMac.addGenericHeader (mac : RfidTagMac) (w : MacWorld) (packet : PacketPtr)
    (receiverId : NodeId) : MacWorld :=
  let macData : RfidTagMacData :=
    { RfidTagMacData.create with
      m_type := .Generic, m_senderId := mac.nodeId, m_receiverId := receiverId }
  w.setPacket packet ((w.packets packet).addData .Link macData.toPacketData)

/-- The method `RfidTagMac::handleRecvdUpperLayerPacket`; `wasSuccessful` is
never set, the method returns false. -/
def RfidTagMac.handleRecvdUpperLayerPacket (mac : RfidTagMac) (w : MacWorld)
    (packet : PacketPtr) : Except Fault (Bool × RfidTagMac × MacWorld) :=
  match ((w.packets packet).getData .Application).map PacketData.header with
  | some (.tagApp _) =>
    let w1 := w.blockUpperQueues
    if mac.m_packetToTransmit ≠ none then .error .packetToTransmitPending
    else
      let w2 := mac.addGenericHeader w1 packet (w1.packets packet).getDestination
      let mac1 : RfidTagMac :=
        { mac with m_packetToTransmit := some packet, m_txSlotNumber := mac.m_currentSlotNumber }
      if !(mac1.m_slotTimer.isRunning w2.sim && mac1.inContentionCycle) then
        .error .slotTimerNotRunning
      else .ok (false, mac1, w2)
  | _ => .ok (false, mac, w)

/-- The method `RfidTagMac::beginSlotEvent`. -/
def RfidTagMac.beginSlotEvent (mac : RfidTagMac) (w : MacWorld) :
    Except Fault (RfidTagMac × MacWorld) :=
  let r1 : Except Fault (RfidTagMac × MacWorld) :=
    if mac.m_currentSlotNumber = mac.m_txSlotNumber then
      match mac.m_packetToTransmit with
      | some packet =>
        let ifsDelay : ℚ :=
          if RfidTagMac.isPacketType w packet .Reply then m_TAG_REPLY_IFS else m_TAG_GENERIC_IFS
        match mac.startSendTimer w .Lower packet ifsDelay with
        | .error f => .error f
        | .ok (_, base, w1) =>
          .ok ({ mac with toSlottedMac := { base with m_packetToTransmit := none } }, w1)
      | none => .ok (mac, w)
    else if mac.m_numberOfSlots = 0 ∨ mac.m_currentSlotNumber ≥ mac.m_numberOfSlots - 1 then
      if mac.m_packetToTransmit ≠ none then .error .packetToTransmitPending
      else .ok ({ mac with toSlottedMac := mac.stopContentionCycle }, w.unblockUpperQueues)
    else .ok (mac, w)
  match r1 with
  | .error f => .error f
  | .ok (mac1, w1) =>
    let mac2 : RfidTagMac :=
      { mac1 with m_currentSlotNumber := (mac1.m_currentSlotNumber + 1) % 2 ^ 32 }
    match mac2.m_slotTimer.reschedule w1.sim mac2.getSlotTime with
    | .error f => .error f
    | .ok (_, sim) => .ok (mac2, { w1 with sim := sim })

/-- What can happen to a tag (its MAC and the application behind `m_tagApp`). -/
inductive TagOp where
  /-- A packet from the physical layer: `handleRecvdMacPacket`. -/
  | macPacket (packet : PacketPtr)
  /-- A packet from the application: `handleRecvdUpperLayerPacket`. -/
  | upperLayerPacket (packet : PacketPtr)
  /-- The slot timer fires: `beginSlotEvent`. -/
  | beginSlot
  /-- The send timer fires: `sendToLinkLayer(direction, packet)`. -/
  | sendEvent (direction : Directions) (packet : PacketPtr)
  /-- A packet reaches the application: `RfidTagApp::handleRecvdPacket`. -/
  | appPacket (packet : PacketPtr)
  /-- The application is started or stopped (`m_isRunning`). -/
  | setRunning (isRunning : Bool)
  /-- Time passes and other objects act: the kernel, the packets, the layers
  around the tag change. -/
  | environment (w : MacWorld)

/-- The operation is a step of the tag itself. -/
def TagOp.isTagStep : TagOp → Bool
  | .environment _ => false
  | _ => true

/-- One operation on a tag. -/
def RfidTagMac.tagOp (uniformInt : ℕ → ℕ → ℕ) (mac : RfidTagMac) (w : MacWorld) :
    TagOp → Except Fault (RfidTagMac × MacWorld)
  | .macPacket packet => (mac.handleRecvdMacPacket uniformInt w packet).map Prod.snd
  | .upperLayerPacket packet => (mac.handleRecvdUpperLayerPacket w packet).map Prod.snd
  | .beginSlot => mac.beginSlotEvent w
  | .sendEvent direction packet => (mac.sendToLinkLayer w direction packet).map Prod.snd
  | .appPacket packet =>
    let r := mac.m_tagApp.handleRecvdPacket w packet
    .ok ({ mac with m_tagApp := r.2.1 }, r.2.2)
  | .setRunning isRunning =>
    .ok ({ mac with m_tagApp := { mac.m_tagApp with m_isRunning := isRunning } }, w)
  | .environment w1 => .ok (mac, w1)

/-- The operation is a RESET that the running application processes. -/
def TagOp.IsReset (mac : RfidTagMac) (w : MacWorld) : TagOp → Prop
  | .appPacket packet =>
    mac.m_tagApp.m_isRunning = true ∧
      ∃ readerData, ((w.packets packet).getData .Application).map PacketData.header
          = some (.readerApp readerData) ∧ readerData.m_type = .Reset
  | _ => False

/-- Along the sequence of operations, for as long as it runs: no operation is a
RESET that the running application processes. -/
def RfidTagMac.NoReset (uniformInt : ℕ → ℕ → ℕ) :
    List TagOp → RfidTagMac → MacWorld → Prop
  | [], _, _ => True
  | op :: ops, mac, w =>
    ¬ op.IsReset mac w ∧
      match mac.tagOp uniformInt w op with
      | .ok r => RfidTagMac.NoReset uniformInt ops r.1 r.2
      | .error _ => True

/-- Along the sequence of operations, for as long as it runs: the tag does not
reply to reads, no step of the tag creates a packet, and the application hands
no packet to its queue. -/
def RfidTagMac.Inhibited (uniformInt : ℕ → ℕ → ℕ) :
    List TagOp → RfidTagMac → MacWorld → Prop
  | [], mac, _ => mac.m_tagApp.m_replyToReads = false
  | op :: ops, mac, w =>
    mac.m_tagApp.m_replyToReads = false ∧
      match mac.tagOp uniformInt w op with
      | .ok r =>
        (op.isTagStep = true → r.2.nextPacketPtr = w.nextPacketPtr) ∧
          r.1.m_tagApp.sentToQueue = mac.m_tagApp.sentToQueue ∧
          RfidTagMac.Inhibited uniformInt ops r.1 r.2
      | .error _ => True

/-- The sequence of operations on a tag, for as long as it runs. -/
def RfidTagMac.tagOps (uniformInt : ℕ → ℕ → ℕ) :
    List TagOp → RfidTagMac → MacWorld → Except Fault (RfidTagMac × MacWorld)
  | [], mac, w => .ok (mac, w)
  | op :: ops, mac, w =>
    match mac.tagOp uniformInt w op with
    | .ok r => RfidTagMac.tagOps uniformInt ops r.1 r.2
    | .error f => .error f

/-! ## Example scenario of the tag -/

/-- The ACK of reader 9 for tag 12. -/
def exampleAckPacket : Packet :=
  (Packet.create 2).addData .Link
    ({ RfidReaderMacData.create with
        m_senderId := 9, m_receiverId := 12, m_type := .Ack } : RfidReaderMacData).toPacketData

/-- The READ of reader 9 under the SELECT header for tag 12. -/
def exampleSelectPacket : Packet :=
  ((Packet.create 3).addData .Application
    ({ RfidReaderAppData.create with m_type := .Read, m_nodeId := 9 }).toPacketData).addData .Link
    ({ RfidReaderMacData.create with
        m_senderId := 9, m_receiverId := 12, m_type := .Select } : RfidReaderMacData).toPacketData

/-- The RESET of reader 9 under a broadcast header. -/
def exampleResetPacket : Packet :=
  ((Packet.create 4).addData .Application
    ({ RfidReaderAppData.create with m_type := .Reset, m_nodeId := 9 }).toPacketData).addData .Link
    ({ RfidReaderMacData.create with
        m_senderId := 9, m_receiverId := NodeId.broadcastDestination,
        m_type := .Generic } : RfidReaderMacData).toPacketData

/-- The surroundings of tag 12: packet 0 is the REQUEST of reader 9 for 10
slots, packet 1 the ACK, packet 2 the READ under its SELECT header, packet 3 the
RESET; the channel is idle. -/
def exampleTagWorld : MacWorld :=
  { exampleReaderWorld with
    packets := fun p =>
      if p = 0 then exampleRequestPacket
      else if p = 1 then exampleAckPacket
      else if p = 2 then exampleSelectPacket
      else exampleResetPacket
    nextPacketPtr := 4
    nextUniqueId := 5 }

/-- The MAC of tag 12 as constructed, its application running. -/
def exampleTagMac : RfidTagMac :=
  RfidTagMac.create 12 0 { RfidTagApp.create 12 with m_isRunning := true }

/-- A draw of the random number generator: the middle of the range. -/
def exampleUniformInt : ℕ → ℕ → ℕ := fun lo hi => (lo + hi) / 2

/-- After its ACK the tag hears a REQUEST and is handed a READ. -/
def exampleTagOps : List TagOp := [.macPacket 0, .appPacket 2]

/-! ## rfid_reader_mac.cpp: packets from the application -/

/-- The method `RfidReaderMac::handleRecvdUpperLayerPacket`. -/
def RfidReaderMac.handleRecvdUpperLayerPacket (mac : RfidReaderMac) (w : MacWorld)
    (packet : PacketPtr) : Except Fault (Bool × RfidReaderMac × MacWorld) :=
  match (w.packets packet).getData .Application with
  | some { header := .readerApp appData, .. } =>
    let r : Except Fault (Bool × RfidReaderMac × MacWorld) :=
      match appData.m_type with
      | .Read =>
        let w1 := w.blockUpperQueues
        if mac.m_currentAppReadPacket ≠ none then .error .currentAppReadPacket
        else
          let mac1 : RfidReaderMac :=
            { mac with
              m_currentAppReadPacket := some packet
              m_doEntireReadCycle := appData.m_doEntireReadCycle }
          match mac1.m_cycleTimer.start w1.sim mac1.m_nextCycleTime with
          | .error f => .error f
          | .ok (_, sim) =>
            let w2 : MacWorld := { w1 with sim := sim }
            match mac1.isEnoughTimeForContentionCycle w2 with
            | .error f => .error f
            | .ok true =>
              match mac1.startNextContentionCycle w2 with
              | .error f => .error f
              | .ok (mac2, w3) => .ok (true, mac2, w3)
            | .ok false => .ok (true, mac1, w2)
      | .Reset =>
        let w1 := w.blockUpperQueues
        if mac.m_packetToTransmit ≠ none then .error .packetToTransmitPending
        else
          let w2 := mac.addGenericHeader w1 packet NodeId.broadcastDestination
          .ok (true,
            { mac with
              m_packetToTransmit := some packet
              m_txSlotNumber := mac.m_currentSlotNumber }, w2)
      | .NoType => .ok (false, mac, w)
    match r with
    | .error f => .error f
    | .ok (wasSuccessful, mac1, w1) =>
      if !mac1.m_slotTimer.isRunning w1.sim then .error .slotTimerNotRunning
      else .ok (wasSuccessful, mac1, w1)
  | _ => .ok (false, mac, w)

/-- The flag `m_queueIsBlocked` of the application layer above the link layer
after the calls that the MAC made: `LinkLayer::blockUpperQueues` sets it,
`LinkLayer::unblockUpperQueues` clears it (the packet queue of the link layer
itself is never used, so it is not full). -/
def upperQueueIsBlocked (isBlocked : Bool) : List MacCall → Bool
  | [] => isBlocked
  | .blockUpperQueues :: calls => upperQueueIsBlocked true calls
  | .unblockUpperQueues :: calls => upperQueueIsBlocked false calls
  | _ :: calls => upperQueueIsBlocked isBlocked calls

/-! ## wireless_channel_manager.cpp: the captured signal stays strong -/

/-- The factory `RfidReaderMac::create`: the constructor, a new slot event with
its timer, started with delay 0, a new cycle event with its timer, and the
registration as a listener for the end of the simulation. -/
def RfidReaderMac.createInWorld (nodeId : NodeId) (listener : ListenerId) (w : MacWorld) :
    Except Fault (RfidReaderMac × MacWorld) :=
  let slotEvent := w.nextEventPtr
  let w1 : MacWorld := { w with
    nextEventPtr := slotEvent + 1
    sim := { w.sim with events := setEvent w.sim.events slotEvent Event.create } }
  let slotTimer : Timer := { m_eventOnFire := slotEvent }
  match slotTimer.start w1.sim 0 with
  | .error f => .error f
  | .ok (_, sim) =>
    let cycleEvent := w1.nextEventPtr
    let w2 : MacWorld := { w1 with
      nextEventPtr := cycleEvent + 1
      sim := ({ sim with events := setEvent sim.events cycleEvent Event.create } :
        Simulator).addSimulationEndListener listener }
    .ok (RfidReaderMac.create nodeId slotEvent cycleEvent, w2)

/-- What the event of another object does to the reader MAC when it is executed:
it hands over a packet from the application (`recvFromLinkLayer` with
`Directions_Upper`), a packet from the physical layer (`Directions_Lower`), or
it does not concern the MAC. -/
inductive ReaderInput where
  | upperLayerPacket (packet : PacketPtr)
  | macPacket (packet : PacketPtr)
  | nothing

/-- The call `event->execute()` of `Simulator::dispatchEvent`, as far as the
reader MAC is concerned: `SlottedMacSlotEvent`, `RfidMacCycleEvent` and
`SendToLinkLayerEvent` call the MAC; for any other event `input` says what it
does. -/
def RfidReaderMac.execute (mac : RfidReaderMac) (w : MacWorld) (event : EventId)
    (input : ReaderInput) : Except Fault (RfidReaderMac × MacWorld) :=
  if event = mac.m_slotTimer.m_eventOnFire then mac.beginSlotEvent w
  else if event = mac.m_cycleTimer.m_eventOnFire then mac.endRequestCycleEvent w
  else
    match w.sendEvents event with
    | some (direction, packet) => (mac.sendToLinkLayer w direction packet).map Prod.snd
    | none =>
      match input with
      | .upperLayerPacket packet => (mac.handleRecvdUpperLayerPacket w packet).map Prod.snd
      | .macPacket packet => (mac.handleRecvdMacPacket w packet).map Prod.snd
      | .nothing => .ok (mac, w)

/-- A step of the simulation around a reader MAC. -/
inductive ReaderOp where
  /-- One iteration of the loop of `runSimulation`: `getNextEvent`, then
  `dispatchEvent`; nothing if the queue is empty. -/
  | dispatch (input : ReaderInput)
  /-- Another object creates an event and schedules it. -/
  | schedule (delay : SimTime)
  /-- Another object creates a packet. -/
  | newPacket (packet : Packet)
  /-- The physical layer and the flag of the link layer's queue change. -/
  | physicalLayer (phy : PhysicalLayer) (linkQueueIsBlocked : Bool)

/-- One step of the simulation around a reader MAC. -/
def RfidReaderMac.readerOp (mac : RfidReaderMac) (w : MacWorld) :
    ReaderOp → Except Fault (RfidReaderMac × MacWorld)
  | .dispatch input =>
    match w.sim.m_eventPtrQueue with
    | [] => .ok (mac, w)
    | e :: rest =>
      let r := w.sim.getNextEvent e rest
      let fireTime := (r.2.events r.1).getFireTime
      if ¬ (r.2.m_clock ≤ fireTime) then .error .dispatchClockAhead
      else mac.execute { w with sim := { r.2 with m_clock := fireTime } } r.1 input
  | .schedule delay =>
    let event := w.nextEventPtr
    let w1 : MacWorld := { w with
      nextEventPtr := event + 1
      sim := { w.sim with events := setEvent w.sim.events event Event.create } }
    match w1.sim.scheduleEvent event delay with
    | .error f => .error f
    | .ok (_, sim) => .ok (mac, { w1 with sim := sim })
  | .newPacket packet =>
    .ok (mac, { w with
      packets := setAt w.packets w.nextPacketPtr packet
      nextPacketPtr := w.nextPacketPtr + 1
      nextUniqueId := w.nextUniqueId + 1 })
  | .physicalLayer phy linkQueueIsBlocked =>
    .ok (mac, { w with phy := phy, linkQueueIsBlocked := linkQueueIsBlocked })

/-- The steps of a simulation around a reader MAC, for as long as no assertion
fails. -/
def RfidReaderMac.readerOps :
    List ReaderOp → RfidReaderMac → MacWorld → Except Fault (RfidReaderMac × MacWorld)
  | [], mac, w => .ok (mac, w)
  | op :: ops, mac, w =>
    match mac.readerOp w op with
    | .error f => .error f
    | .ok r => RfidReaderMac.readerOps ops r.1 r.2

/-- The number of slots in the link header of a packet that is a REQUEST of a
reader: what `handlePacketSent` reads from the packet when it starts a
contention cycle. -/
def MacWorld.requestSlots (w : MacWorld) (packet : PacketPtr) : Option ℕ :=
  match (w.packets packet).getData .Link with
  | some { header := .readerMac macData, .. } =>
    if macData.m_type = .Request then some macData.m_numberOfSlots else none
  | _ => none

/-- What holds of a reader MAC and the kernel between events.

The queue of the kernel is well formed; the events of the MAC have been
allocated and are told apart; the cycle parameters are the defaults, for which
the class has no setters.  The cycle timer runs exactly while the MAC holds a
READ of the application.  The slot timer runs, and the next slot begins at most
one slot time from now; a send timer fires before the next slot begins, it is
the one send timer of the MAC, and while it holds a REQUEST no other REQUEST
waits.  A
REQUEST that waits in `m_packetToTransmit` or in the send timer was created with
enough time left in the read: counted from the next slot, the contention cycle
that it starts ends before the cycle timer fires, and so does the contention
cycle that the MAC is in. -/
structure ReaderInv (mac : RfidReaderMac) (w : MacWorld) : Prop where
  wf : w.sim.WF
  future : w.sim.Future
  flags : w.sim.FlagsExact
  queued_lt : ∀ e ∈ w.sim.m_eventPtrQueue, e < w.nextEventPtr
  slot_ne_cycle : mac.m_slotTimer.m_eventOnFire ≠ mac.m_cycleTimer.m_eventOnFire
  slot_lt : mac.m_slotTimer.m_eventOnFire < w.nextEventPtr
  cycle_lt : mac.m_cycleTimer.m_eventOnFire < w.nextEventPtr
  send_lt : ∀ e, w.sendEvents e ≠ none → e < w.nextEventPtr
  slot_not_send : w.sendEvents mac.m_slotTimer.m_eventOnFire = none
  cycle_not_send : w.sendEvents mac.m_cycleTimer.m_eventOnFire = none
  slots_default : mac.m_nextCycleNumberOfSlots = m_DEFAULT_NUMBER_OF_SLOTS
  cycle_default : mac.m_nextCycleTime = m_DEFAULT_CYCLE_TIME
  slot_default : mac.m_slotTime = m_DEFAULT_SLOT_TIME
  read_iff : mac.m_cycleTimer.isRunning w.sim = true ↔ mac.m_currentAppReadPacket ≠ none
  slot_running : mac.m_slotTimer.isRunning w.sim = true
  slot_soon : w.sim.fire mac.m_slotTimer.m_eventOnFire ≤ w.sim.m_clock + m_DEFAULT_SLOT_TIME
  send_before_slot : ∀ e, w.sendEvents e ≠ none → e ∈ w.sim.m_eventPtrQueue →
    w.sim.fire e < w.sim.fire mac.m_slotTimer.m_eventOnFire
  send_timer : ∀ e, w.sendEvents e ≠ none → e ∈ w.sim.m_eventPtrQueue →
    mac.m_sendTimer = some { m_eventOnFire := e }
  armed_alone : ∀ e d p n q, w.sendEvents e = some (d, p) → e ∈ w.sim.m_eventPtrQueue →
    w.requestSlots p = some n → mac.m_packetToTransmit = some q → w.requestSlots q = none
  pending_lt : ∀ p, mac.m_packetToTransmit = some p → p < w.nextPacketPtr
  armed_lt : ∀ e d p, w.sendEvents e = some (d, p) → p < w.nextPacketPtr
  app_lt : ∀ p, mac.m_currentAppReadPacket = some p → p < w.nextPacketPtr
  pending_request : ∀ p n, mac.m_packetToTransmit = some p → w.requestSlots p = some n →
    mac.m_cycleTimer.isRunning w.sim = true ∧
      mac.m_txSlotNumber = mac.m_currentSlotNumber ∧ n = m_DEFAULT_NUMBER_OF_SLOTS ∧
      w.sim.fire mac.m_slotTimer.m_eventOnFire + (n : ℚ) * m_DEFAULT_SLOT_TIME
        < w.sim.fire mac.m_cycleTimer.m_eventOnFire
  armed_request : ∀ e d p n, w.sendEvents e = some (d, p) → e ∈ w.sim.m_eventPtrQueue →
    w.requestSlots p = some n →
    mac.m_cycleTimer.isRunning w.sim = true ∧ n = m_DEFAULT_NUMBER_OF_SLOTS ∧
      w.sim.fire mac.m_slotTimer.m_eventOnFire + ((n : ℚ) - 1) * m_DEFAULT_SLOT_TIME
        < w.sim.fire mac.m_cycleTimer.m_eventOnFire
  in_cycle : mac.m_cycleTimer.isRunning w.sim = true →
    mac.m_currentSlotNumber < mac.m_numberOfSlots →
    w.sim.fire mac.m_slotTimer.m_eventOnFire
        + ((mac.m_numberOfSlots : ℚ) - (mac.m_currentSlotNumber : ℚ) - 1) * m_DEFAULT_SLOT_TIME
      < w.sim.fire mac.m_cycleTimer.m_eventOnFire
  slot_count : mac.m_cycleTimer.isRunning w.sim = true →
    (mac.m_currentSlotNumber : ℚ) * m_DEFAULT_SLOT_TIME
      ≤ w.sim.fire mac.m_slotTimer.m_eventOnFire
        - w.sim.fire mac.m_cycleTimer.m_eventOnFire + m_DEFAULT_CYCLE_TIME
  read_recent : mac.m_cycleTimer.isRunning w.sim = true →
    w.sim.fire mac.m_cycleTimer.m_eventOnFire ≤ w.sim.m_clock + m_DEFAULT_CYCLE_TIME

/-- What holds of a reader MAC and the kernel inside `beginSlotEvent`, after the
slot number has been incremented and before the slot timer is rescheduled: as
`ReaderInv`, with the slot timer stopped and the next slot one slot time from
now. -/
structure ReaderSlotInv (mac : RfidReaderMac) (w : MacWorld) : Prop where
  wf : w.sim.WF
  future : w.sim.Future
  flags : w.sim.FlagsExact
  queued_lt : ∀ e ∈ w.sim.m_eventPtrQueue, e < w.nextEventPtr
  slot_ne_cycle : mac.m_slotTimer.m_eventOnFire ≠ mac.m_cycleTimer.m_eventOnFire
  slot_lt : mac.m_slotTimer.m_eventOnFire < w.nextEventPtr
  cycle_lt : mac.m_cycleTimer.m_eventOnFire < w.nextEventPtr
  send_lt : ∀ e, w.sendEvents e ≠ none → e < w.nextEventPtr
  slot_not_send : w.sendEvents mac.m_slotTimer.m_eventOnFire = none
  cycle_not_send : w.sendEvents mac.m_cycleTimer.m_eventOnFire = none
  slots_default : mac.m_nextCycleNumberOfSlots = m_DEFAULT_NUMBER_OF_SLOTS
  cycle_default : mac.m_nextCycleTime = m_DEFAULT_CYCLE_TIME
  slot_default : mac.m_slotTime = m_DEFAULT_SLOT_TIME
  read_iff : mac.m_cycleTimer.isRunning w.sim = true ↔ mac.m_currentAppReadPacket ≠ none
  slot_stopped : mac.m_slotTimer.isRunning w.sim = false
  send_before_slot : ∀ e, w.sendEvents e ≠ none → e ∈ w.sim.m_eventPtrQueue →
    w.sim.fire e < (w.sim.m_clock + m_DEFAULT_SLOT_TIME)
  send_timer : ∀ e, w.sendEvents e ≠ none → e ∈ w.sim.m_eventPtrQueue →
    mac.m_sendTimer = some { m_eventOnFire := e }
  armed_alone : ∀ e d p n q, w.sendEvents e = some (d, p) → e ∈ w.sim.m_eventPtrQueue →
    w.requestSlots p = some n → mac.m_packetToTransmit = some q → w.requestSlots q = none
  pending_lt : ∀ p, mac.m_packetToTransmit = some p → p < w.nextPacketPtr
  armed_lt : ∀ e d p, w.sendEvents e = some (d, p) → p < w.nextPacketPtr
  app_lt : ∀ p, mac.m_currentAppReadPacket = some p → p < w.nextPacketPtr
  pending_request : ∀ p n, mac.m_packetToTransmit = some p → w.requestSlots p = some n →
    mac.m_cycleTimer.isRunning w.sim = true ∧
      mac.m_txSlotNumber = mac.m_currentSlotNumber ∧ n = m_DEFAULT_NUMBER_OF_SLOTS ∧
      (w.sim.m_clock + m_DEFAULT_SLOT_TIME) + (n : ℚ) * m_DEFAULT_SLOT_TIME
        < w.sim.fire mac.m_cycleTimer.m_eventOnFire
  armed_request : ∀ e d p n, w.sendEvents e = some (d, p) → e ∈ w.sim.m_eventPtrQueue →
    w.requestSlots p = some n →
    mac.m_cycleTimer.isRunning w.sim = true ∧ n = m_DEFAULT_NUMBER_OF_SLOTS ∧
      (w.sim.m_clock + m_DEFAULT_SLOT_TIME) + ((n : ℚ) - 1) * m_DEFAULT_SLOT_TIME
        < w.sim.fire mac.m_cycleTimer.m_eventOnFire
  in_cycle : mac.m_cycleTimer.isRunning w.sim = true →
    mac.m_currentSlotNumber < mac.m_numberOfSlots →
    (w.sim.m_clock + m_DEFAULT_SLOT_TIME)
        + ((mac.m_numberOfSlots : ℚ) - (mac.m_currentSlotNumber : ℚ) - 1) * m_DEFAULT_SLOT_TIME
      < w.sim.fire mac.m_cycleTimer.m_eventOnFire
  slot_count : mac.m_cycleTimer.isRunning w.sim = true →
    (mac.m_currentSlotNumber : ℚ) * m_DEFAULT_SLOT_TIME
      ≤ (w.sim.m_clock + m_DEFAULT_SLOT_TIME)
        - w.sim.fire mac.m_cycleTimer.m_eventOnFire + m_DEFAULT_CYCLE_TIME
  read_recent : mac.m_cycleTimer.isRunning w.sim = true →
    w.sim.fire mac.m_cycleTimer.m_eventOnFire ≤ w.sim.m_clock + m_DEFAULT_CYCLE_TIME

/-- The packet that an event hands to the MAC has been created. -/
def ReaderOp.Valid (w : MacWorld) : ReaderOp → Prop
  | .dispatch (.upperLayerPacket packet) => packet < w.nextPacketPtr
  | .dispatch (.macPacket packet) => packet < w.nextPacketPtr
  | _ => True

/-- Every step of the run is valid in the state in which it is made. -/
def RfidReaderMac.ValidOps : List ReaderOp → RfidReaderMac → MacWorld → Prop
  | [], _, _ => True
  | op :: ops, mac, w =>
    op.Valid w ∧
      match mac.readerOp w op with
      | .error _ => True
      | .ok r => RfidReaderMac.ValidOps ops r.1 r.2

/-- The world in which a reader MAC is created: the queue of the kernel is well
formed, its events have been allocated, and no `SendToLinkLayerEvent` of the MAC
exists yet. -/
structure MacWorld.BeforeCreate (w : MacWorld) : Prop where
  wf : w.sim.WF
  future : w.sim.Future
  flags : w.sim.FlagsExact
  queued_lt : ∀ e ∈ w.sim.m_eventPtrQueue, e < w.nextEventPtr
  no_send : ∀ e, w.sendEvents e = none

/-- A world at time 0 with the simulator as constructed: no event, no packet. -/
def exampleStartWorld : MacWorld :=
  { sim := Simulator.instance
    packets := fun _ => Packet.create 0
    nextPacketPtr := 0
    nextUniqueId := 0
    sendEvents := fun _ => none
    nextEventPtr := 0
    phy := exampleReaderPhy
    linkQueueIsBlocked := false
    calls := [] }

/-- A run around the reader MAC of node 7: the application creates a READ packet
(packet 0) and the link layer schedules its hand-over after 1 ms; the slot event
of time 0 runs; the READ is handed to the MAC, which starts the cycle timer and
creates a REQUEST; the slot event of 2 ms starts the send timer; the send timer
fires and the REQUEST is sent, which starts a contention cycle of 10 slots. -/
def exampleReaderOps : List ReaderOp :=
  [.newPacket exampleReadPacket, .schedule (1 / 1000), .dispatch .nothing,
    .dispatch (.upperLayerPacket 0), .dispatch .nothing, .dispatch .nothing]

/-- The reader MAC in slot 2 of a contention cycle of 10 slots, while the SELECT
that it scheduled for slot 1 is sent. -/
def exampleSelectingMac : RfidReaderMac :=
  { exampleReaderMac with m_currentSlotNumber := 2, m_txSlotNumber := 1, m_numberOfSlots := 10 }

/-! ## The sending path of a node: link_layer.cpp, communication_layer.cpp,
physical_layer.cpp, physical_layer.hpp -/

/-- The objects below a MAC on the way to the channel: the `LayerRecvEvent`s that
the link layer has created for packets on their way down and the
`SignalRecvEvent`s of the physical layer, each with the packet it holds, the
timer `m_transmittingTimer` of the physical layer, and the delay
`m_lowerLayerDelay` of the link layer. -/
structure SendPath where
  layerEvents : EventId → Option PacketPtr
  signalEvents : EventId → Option PacketPtr
  m_transmittingTimer : Timer
  m_lowerLayerDelay : SimTime

/-- The constructors of the link layer and of the physical layer, as far as the
sending path goes: the delay of the link layer is 0, and the physical layer
creates a `DummyEvent` with the timer `m_transmittingTimer` for it. -/
def SendPath.createInWorld (w : MacWorld) : SendPath × MacWorld :=
  let dummyEvent := w.nextEventPtr
  ({ layerEvents := fun _ => none
     signalEvents := fun _ => none
     m_transmittingTimer := { m_eventOnFire := dummyEvent }
     m_lowerLayerDelay := 0 },
   { w with
     nextEventPtr := dummyEvent + 1
     sim := { w.sim with events := setEvent w.sim.events dummyEvent Event.create } })

/-- The call `LinkLayer::recvFromMacProtocol(Directions_Lower, packet)`, which is
`CommunicationLayer::sendToLayer`: a new `LayerRecvEvent` for the packet is
scheduled after the delay of the layer. -/
def SendPath.sendToLayer (tx : SendPath) (w : MacWorld) (packet : PacketPtr) :
    Except Fault (Bool × SendPath × MacWorld) :=
  let recvEvent := w.nextEventPtr
  let w1 : MacWorld := { w with
    nextEventPtr := recvEvent + 1
    sim := { w.sim with events := setEvent w.sim.events recvEvent Event.create } }
  match w1.sim.scheduleEvent recvEvent tx.m_lowerLayerDelay with
  | .error f => .error f
  | .ok (wasScheduled, sim) =>
    .ok (wasScheduled, { tx with layerEvents := setAt tx.layerEvents recvEvent (some packet) },
      { w1 with sim := sim })

/-- The method `LayerRecvEvent::execute` for a packet on its way down to the
physical layer: `PhysicalLayer::recvFromLayer` writes the data rate of the layer
into the packet and schedules a new `SignalRecvEvent` for the signal that holds
the packet. -/
def SendPath.layerRecvEvent (tx : SendPath) (log10 : ℚ → ℚ) (w : MacWorld)
    (packet : PacketPtr) : Except Fault (SendPath × MacWorld) :=
  let recvEvent := w.nextEventPtr
  match w.phy.recvFromLayer log10 w.sim recvEvent .Upper (w.packets packet) with
  | .error f => .error f
  | .ok (_, packet1, _, sim) =>
    .ok ({ tx with signalEvents := setAt tx.signalEvents recvEvent (some packet) },
      { w with
        packets := setAt w.packets packet packet1
        nextEventPtr := recvEvent + 1
        sim := sim })

/-- The method `SignalRecvEvent::execute`, as far as the sender goes: the
assertion that the transmitting timer is not running, and the timer rescheduled
for the duration of the signal, which is that of its packet.  The call
`recvSignal` hands the signal to the channels and the other nodes. -/
def SendPath.signalRecvEvent (tx : SendPath) (w : MacWorld) (packet : PacketPtr) :
    Except Fault MacWorld :=
  if tx.m_transmittingTimer.isRunning w.sim then .error .transmittingTimerRunning
  else
    match tx.m_transmittingTimer.reschedule w.sim (w.packets packet).getDuration with
    | .error f => .error f
    | .ok (_, sim) => .ok { w with sim := sim }

/-- What the event of another object does to the MAC of the node when it is
executed: `MacProtocol::recvFromLinkLayer` with a packet from the application
(`Directions_Upper`) or from the physical layer (`Directions_Lower`), or nothing.
A packet from the physical layer is the deep copy that
`WirelessChannelManager::passSignalToReceiver` makes of the signal, so what the
layers do to it on its way up (`removeLayerData`) reaches no packet that the
node sends. -/
inductive NodeInput where
  | upperLayerPacket (packet : PacketPtr)
  | macPacket (packet : PacketPtr)
  | nothing

/-- The methods of a slotted MAC that the events of its node call: the slot
timer, `beginSlotEvent` of the slot event, `sendToLinkLayer` of a
`SendToLinkLayerEvent`, and what any other event does to the MAC. -/
structure SlottedMacEvents (μ : Type) where
  slotTimer : μ → Timer
  beginSlotEvent : μ → MacWorld → Except Fault (μ × MacWorld)
  sendToLinkLayer : μ → MacWorld → Directions → PacketPtr → Except Fault (Bool × μ × MacWorld)
  otherEvent : μ → MacWorld → EventId → NodeInput → Except Fault (μ × MacWorld)

/-- The call `event->execute()` of `Simulator::dispatchEvent` in a node: the
`DummyEvent` of the transmitting timer does nothing, a `SignalRecvEvent` and a
`LayerRecvEvent` of the sending path act on the physical layer, the slot event
and the `SendToLinkLayerEvent`s call the MAC, and a packet that the MAC sends
down goes to the link layer. -/
def SendPath.execute {μ : Type} (m : SlottedMacEvents μ) (log10 : ℚ → ℚ) (mac : μ)
    (tx : SendPath) (w : MacWorld) (event : EventId) (input : NodeInput) :
    Except Fault (μ × SendPath × MacWorld) :=
  if event = tx.m_transmittingTimer.m_eventOnFire then .ok (mac, tx, w)
  else
    match tx.signalEvents event with
    | some packet =>
      match tx.signalRecvEvent w packet with
      | .error f => .error f
      | .ok w1 => .ok (mac, tx, w1)
    | none =>
      match tx.layerEvents event with
      | some packet =>
        match tx.layerRecvEvent log10 w packet with
        | .error f => .error f
        | .ok (tx1, w1) => .ok (mac, tx1, w1)
      | none =>
        if event = (m.slotTimer mac).m_eventOnFire then
          match m.beginSlotEvent mac w with
          | .error f => .error f
          | .ok (mac1, w1) => .ok (mac1, tx, w1)
        else
          match w.sendEvents event with
          | some (direction, packet) =>
            match m.sendToLinkLayer mac w direction packet with
            | .error f => .error f
            | .ok (wasSuccessful, mac1, w1) =>
              if direction = .Lower ∧ wasSuccessful = true then
                match tx.sendToLayer w1 packet with
                | .error f => .error f
                | .ok (_, tx1, w2) => .ok (mac1, tx1, w2)
              else .ok (mac1, tx, w1)
          | none =>
            match m.otherEvent mac w event input with
            | .error f => .error f
            | .ok (mac1, w1) => .ok (mac1, tx, w1)

/-- A step of the simulation around a node. -/
inductive NodeOp where
  /-- One iteration of the loop of `runSimulation`: `getNextEvent`, then
  `dispatchEvent`; nothing if the queue is empty. -/
  | dispatch (input : NodeInput)
  /-- Another object creates an event and schedules it. -/
  | schedule (delay : SimTime)
  /-- Another object creates a packet. -/
  | newPacket (packet : Packet)
  /-- The signals at the physical layer and the flag of the link layer's queue
  change. -/
  | physicalLayer (phy : PhysicalLayer) (linkQueueIsBlocked : Bool)

/-- One step of the simulation around a node. -/
def SendPath.nodeOp {μ : Type} (m : SlottedMacEvents μ) (log10 : ℚ → ℚ) (mac : μ)
    (tx : SendPath) (w : MacWorld) : NodeOp → Except Fault (μ × SendPath × MacWorld)
  | .dispatch input =>
    match w.sim.m_eventPtrQueue with
    | [] => .ok (mac, tx, w)
    | e :: rest =>
      let r := w.sim.getNextEvent e rest
      let fireTime := (r.2.events r.1).getFireTime
      if ¬ (r.2.m_clock ≤ fireTime) then .error .dispatchClockAhead
      else SendPath.execute m log10 mac tx { w with sim := { r.2 with m_clock := fireTime } }
        r.1 input
  | .schedule delay =>
    let event := w.nextEventPtr
    let w1 : MacWorld := { w with
      nextEventPtr := event + 1
      sim := { w.sim with events := setEvent w.sim.events event Event.create } }
    match w1.sim.scheduleEvent event delay with
    | .error f => .error f
    | .ok (_, sim) => .ok (mac, tx, { w1 with sim := sim })
  | .newPacket packet =>
    .ok (mac, tx, { w with
      packets := setAt w.packets w.nextPacketPtr packet
      nextPacketPtr := w.nextPacketPtr + 1
      nextUniqueId := w.nextUniqueId + 1 })
  | .physicalLayer phy linkQueueIsBlocked =>
    .ok (mac, tx, { w with phy := phy, linkQueueIsBlocked := linkQueueIsBlocked })

/-- The steps of a simulation around a node, for as long as no assertion
fails. -/
def SendPath.nodeOps {μ : Type} (m : SlottedMacEvents μ) (log10 : ℚ → ℚ) :
    List NodeOp → μ → SendPath → MacWorld → Except Fault (μ × SendPath × MacWorld)
  | [], mac, tx, w => .ok (mac, tx, w)
  | op :: ops, mac, tx, w =>
    match SendPath.nodeOp m log10 mac tx w op with
    | .error f => .error f
    | .ok r => SendPath.nodeOps m log10 ops r.1 r.2.1 r.2.2

/-- The method `MacProtocol::recvFromLinkLayer` on a reader MAC. -/
def RfidReaderMac.recvFromLinkLayer (mac : RfidReaderMac) (w : MacWorld) :
    NodeInput → Except Fault (RfidReaderMac × MacWorld)
  | .upperLayerPacket packet => (mac.handleRecvdUpperLayerPacket w packet).map Prod.snd
  | .macPacket packet => (mac.handleRecvdMacPacket w packet).map Prod.snd
  | .nothing => .ok (mac, w)

/-- The events of the node of a reader: the `RfidMacCycleEvent` of the cycle
timer calls `endRequestCycleEvent`. -/
def RfidReaderMac.nodeEvents : SlottedMacEvents RfidReaderMac where
  slotTimer := fun mac => mac.m_slotTimer
  beginSlotEvent := RfidReaderMac.beginSlotEvent
  sendToLinkLayer := RfidReaderMac.sendToLinkLayer
  otherEvent := fun mac w event input =>
    if event = mac.m_cycleTimer.m_eventOnFire then mac.endRequestCycleEvent w
    else mac.recvFromLinkLayer w input

/-- The node of a reader is created: the layers of the sending path, then the
MAC. -/
def RfidReaderMac.createNode (nodeId : NodeId) (listener : ListenerId) (w : MacWorld) :
    Except Fault (RfidReaderMac × SendPath × MacWorld) :=
  let r := SendPath.createInWorld w
  match RfidReaderMac.createInWorld nodeId listener r.2 with
  | .error f => .error f
  | .ok (mac, w1) => .ok (mac, r.1, w1)

/-- The factory `RfidTagMac::create`: the constructor, a new slot event with its
timer, started with delay 0, and the registration as a listener for the end of
the simulation. -/
def RfidTagMac.createInWorld (nodeId : NodeId) (tagApp : RfidTagApp) (listener : ListenerId)
    (w : MacWorld) : Except Fault (RfidTagMac × MacWorld) :=
  let slotEvent := w.nextEventPtr
  let w1 : MacWorld := { w with
    nextEventPtr := slotEvent + 1
    sim := { w.sim with events := setEvent w.sim.events slotEvent Event.create } }
  let slotTimer : Timer := { m_eventOnFire := slotEvent }
  match slotTimer.start w1.sim 0 with
  | .error f => .error f
  | .ok (_, sim) =>
    .ok (RfidTagMac.create nodeId slotEvent tagApp,
      { w1 with sim := sim.addSimulationEndListener listener })

/-- The method `MacProtocol::recvFromLinkLayer` on a tag MAC. -/
def RfidTagMac.recvFromLinkLayer (uniformInt : ℕ → ℕ → ℕ) (mac : RfidTagMac) (w : MacWorld) :
    NodeInput → Except Fault (RfidTagMac × MacWorld)
  | .upperLayerPacket packet => (mac.handleRecvdUpperLayerPacket w packet).map Prod.snd
  | .macPacket packet => (mac.handleRecvdMacPacket uniformInt w packet).map Prod.snd
  | .nothing => .ok (mac, w)

/-- The events of the node of a tag. -/
def RfidTagMac.nodeEvents (uniformInt : ℕ → ℕ → ℕ) : SlottedMacEvents RfidTagMac where
  slotTimer := fun mac => mac.m_slotTimer
  beginSlotEvent := RfidTagMac.beginSlotEvent
  sendToLinkLayer := RfidTagMac.sendToLinkLayer
  otherEvent := fun mac w _ input => mac.recvFromLinkLayer uniformInt w input

/-- The node of a tag is created: the layers of the sending path, then the MAC. -/
def RfidTagMac.createNode (nodeId : NodeId) (tagApp : RfidTagApp) (listener : ListenerId)
    (w : MacWorld) : Except Fault (RfidTagMac × SendPath × MacWorld) :=
  let r := SendPath.createInWorld w
  match RfidTagMac.createInWorld nodeId tagApp listener r.2 with
  | .error f => .error f
  | .ok (mac, w1) => .ok (mac, r.1, w1)

/-! ## Frames and the sending path: what holds between events -/

/-- The keys of `m_data` are in the order of the map, the payloads of the layers
other than the link layer take at most 13 bytes together (the size of
`RfidTagAppData`; `RfidReaderAppData` has 5), and a link header takes at most 18
bytes (the REQUEST header of a reader; the other headers have 17). -/
structure Packet.Sized (p : Packet) : Prop where
  keys : (p.m_data.map (fun kv => kv.1.toNat)).Pairwise (fun a b => a < b)
  upper : p.payloadSize .Physical + p.payloadSize .Network + p.payloadSize .Transport
    + p.payloadSize .Application ≤ 13
  link : p.payloadSize .Link ≤ 18

/-- A packet with a link header: what a MAC hands to its send timer. -/
def Packet.IsFrame (p : Packet) : Prop := p.Sized ∧ p.getData .Link ≠ none

/-- Every packet that has been created has the sizes of `Packet.Sized`. -/
def MacWorld.Sized (w : MacWorld) : Prop := ∀ p, p < w.nextPacketPtr → (w.packets p).Sized

/-- The packet that an event of the sending path holds: a `SignalRecvEvent`, a
`LayerRecvEvent` of the link layer, or a `SendToLinkLayerEvent` of the MAC. -/
def SendPath.inFlight (tx : SendPath) (w : MacWorld) (e : EventId) : Option PacketPtr :=
  match tx.signalEvents e with
  | some p => some p
  | none =>
    match tx.layerEvents e with
    | some p => some p
    | none => (w.sendEvents e).map Prod.snd

/-- The kernel after a step that schedules and cancels only events of `own`:
the queue stays well formed, the clock stays, and every other event is as
before. -/
structure KernelStep (own : EventId → Prop) (s s' : Simulator) : Prop where
  wf : s'.WF
  future : s'.Future
  flags : s'.FlagsExact
  clock : s'.m_clock = s.m_clock
  events : ∀ x, ¬ own x → s'.events x = s.events x
  queue : ∀ x, ¬ own x → (x ∈ s'.m_eventPtrQueue ↔ x ∈ s.m_eventPtrQueue)

/-- The packets after a step of a MAC: created packets stay created, keep the
sizes of `Packet.Sized`, and frames stay frames. -/
structure HeapStep (w w' : MacWorld) : Prop where
  next : w.nextPacketPtr ≤ w'.nextPacketPtr
  sized : w.Sized → w'.Sized
  frame : ∀ p, p < w.nextPacketPtr → (w.packets p).IsFrame → (w'.packets p).IsFrame

/-- The world after a handler of a MAC other than `beginSlotEvent`: it creates no
event, touches only the events of `own`, leaves the physical layer alone and
writes no data rate. -/
structure MacStep (own : EventId → Prop) (w w' : MacWorld) : Prop where
  kernel : KernelStep own w.sim w'.sim
  sendEvents : w'.sendEvents = w.sendEvents
  nextEventPtr : w'.nextEventPtr = w.nextEventPtr
  phy : w'.phy = w.phy
  heap : HeapStep w w'
  rate : ∀ p, p < w.nextPacketPtr → (w'.packets p).m_dataRate = (w.packets p).m_dataRate

/-- The world after `beginSlotEvent`, called when the slot event has been taken
from the queue: the slot timer runs again for one slot time, and at most one
`SendToLinkLayerEvent` has been created, for a frame, with a delay of at most
20 us. -/
structure SlotStep (slot : EventId) (own : EventId → Prop) (w w' : MacWorld) : Prop where
  kernel : KernelStep (fun x => own x ∨ x = slot ∨ w.nextEventPtr ≤ x) w.sim w'.sim
  slot_queued : slot ∈ w'.sim.m_eventPtrQueue
  slot_fire : w'.sim.fire slot = w.sim.m_clock + m_DEFAULT_SLOT_TIME
  queued_lt : ∀ x ∈ w'.sim.m_eventPtrQueue, x < w'.nextEventPtr
  armed : (w'.nextEventPtr = w.nextEventPtr ∧ w'.sendEvents = w.sendEvents) ∨
    ∃ p ifs, w'.nextEventPtr = w.nextEventPtr + 1 ∧
      w'.sendEvents = setAt w.sendEvents w.nextEventPtr (some (Directions.Lower, p)) ∧
      w'.sim.fire w.nextEventPtr = w.sim.m_clock + ifs ∧ 0 ≤ ifs ∧ ifs ≤ 20 / 10 ^ 6 ∧
      p < w.nextPacketPtr ∧ (w'.packets p).IsFrame
  phy : w'.phy = w.phy
  heap : HeapStep w w'
  rate : ∀ p, p < w.nextPacketPtr → (w'.packets p).m_dataRate = (w.packets p).m_dataRate

/-- The packet that an event hands to the MAC has been created. -/
def NodeInput.Valid (w : MacWorld) : NodeInput → Prop
  | .upperLayerPacket packet => packet < w.nextPacketPtr
  | .macPacket packet => packet < w.nextPacketPtr
  | .nothing => True

/-- What the sending path needs of a MAC: `RP` holds of the MAC between events
and depends on the packets only; the handlers keep it; `beginSlotEvent` is a
`SlotStep` and the other handlers are `MacStep`s that leave the slot timer and
the events `own` of the MAC as they are. -/
structure MacSpec {μ : Type} (m : SlottedMacEvents μ) (own : μ → EventId → Prop)
    (RP : μ → MacWorld → Prop) : Prop where
  stable : ∀ mac w w', RP mac w → HeapStep w w' → RP mac w'
  other : ∀ mac w e input mac' w', RP mac w → w.Sized → w.sim.WF → w.sim.Future →
    w.sim.FlagsExact → input.Valid w → m.otherEvent mac w e input = .ok (mac', w') →
    MacStep (own mac) w w' ∧ RP mac' w' ∧ m.slotTimer mac' = m.slotTimer mac ∧
      own mac' = own mac
  send : ∀ mac w d p b mac' w', RP mac w → w.Sized → w.sim.WF → w.sim.Future →
    w.sim.FlagsExact → m.sendToLinkLayer mac w d p = .ok (b, mac', w') →
    MacStep (own mac) w w' ∧ RP mac' w' ∧ m.slotTimer mac' = m.slotTimer mac ∧
      own mac' = own mac
  slot : ∀ mac w mac' w', RP mac w → w.Sized → w.sim.WF → w.sim.Future →
    w.sim.FlagsExact → (∀ x ∈ w.sim.m_eventPtrQueue, x < w.nextEventPtr) →
    (m.slotTimer mac).m_eventOnFire ∉ w.sim.m_eventPtrQueue →
    (m.slotTimer mac).m_eventOnFire < w.nextEventPtr →
    (∀ x, own mac x → x < w.nextEventPtr) →
    ¬ own mac (m.slotTimer mac).m_eventOnFire →
    m.beginSlotEvent mac w = .ok (mac', w') →
    SlotStep (m.slotTimer mac).m_eventOnFire (own mac) w w' ∧ RP mac' w' ∧
      m.slotTimer mac' = m.slotTimer mac ∧ own mac' = own mac

/-- What holds of the kernel, the events and the packets of a node at any time:
the queue is well formed, the events of the slot timer, of the transmitting
timer, of the sending path and of the MAC are different objects that have been
created, the delays and the data rate are those of the constructors, and the
packets have the sizes of `Packet.Sized`. -/
structure NodeBase (slot : Timer) (own : EventId → Prop) (tx : SendPath) (w : MacWorld) :
    Prop where
  wf : w.sim.WF
  future : w.sim.Future
  flags : w.sim.FlagsExact
  queued_lt : ∀ e ∈ w.sim.m_eventPtrQueue, e < w.nextEventPtr
  slot_lt : slot.m_eventOnFire < w.nextEventPtr
  own_lt : ∀ x, own x → x < w.nextEventPtr
  timer_lt : tx.m_transmittingTimer.m_eventOnFire < w.nextEventPtr
  flight_lt : ∀ e, tx.inFlight w e ≠ none → e < w.nextEventPtr
  slot_not_own : ¬ own slot.m_eventOnFire
  timer_not_own : ¬ own tx.m_transmittingTimer.m_eventOnFire
  flight_not_own : ∀ e, tx.inFlight w e ≠ none → ¬ own e
  slot_ne_timer : slot.m_eventOnFire ≠ tx.m_transmittingTimer.m_eventOnFire
  slot_not_flight : tx.inFlight w slot.m_eventOnFire = none
  timer_not_flight : tx.inFlight w tx.m_transmittingTimer.m_eventOnFire = none
  layer_delay : tx.m_lowerLayerDelay = 0
  signal_delay : w.phy.m_signalSendingDelay = 0
  data_rate : w.phy.m_dataRate = 128000
  sized : w.Sized

/-- No event of the sending path is queued and the transmitting timer is not
running. -/
def SendPath.Quiet (tx : SendPath) (w : MacWorld) : Prop :=
  (∀ x ∈ w.sim.m_eventPtrQueue, tx.inFlight w x = none) ∧
    tx.m_transmittingTimer.isRunning w.sim = false

/-- What holds of the sending path of a node between events.  An event of the
sending path that is queued holds a frame, fires more than the duration of 31
bytes at 128000 bit/s before the next slot event, is the only such event, and
the transmitting timer is not running then; a transmitting timer that runs
fires before the next slot event. -/
structure NodeInv (slot : Timer) (own : EventId → Prop) (tx : SendPath) (w : MacWorld)
    extends NodeBase slot own tx w : Prop where
  slot_running : slot.m_eventOnFire ∈ w.sim.m_eventPtrQueue
  flight_frame : ∀ e ∈ w.sim.m_eventPtrQueue, ∀ p, tx.inFlight w e = some p →
    p < w.nextPacketPtr ∧ (w.packets p).IsFrame
  flight_time : ∀ e ∈ w.sim.m_eventPtrQueue, tx.inFlight w e ≠ none →
    w.sim.fire e + 31 * 8 / 128000 < w.sim.fire slot.m_eventOnFire
  flight_idle : ∀ e ∈ w.sim.m_eventPtrQueue, tx.inFlight w e ≠ none →
    tx.m_transmittingTimer.isRunning w.sim = false
  flight_alone : ∀ e ∈ w.sim.m_eventPtrQueue, ∀ e' ∈ w.sim.m_eventPtrQueue,
    tx.inFlight w e ≠ none → tx.inFlight w e' ≠ none → e = e'
  signal_rate : ∀ e ∈ w.sim.m_eventPtrQueue, ∀ p, tx.signalEvents e = some p →
    (w.packets p).m_dataRate = 128000
  timer_time : tx.m_transmittingTimer.isRunning w.sim = true →
    w.sim.fire tx.m_transmittingTimer.m_eventOnFire < w.sim.fire slot.m_eventOnFire

/-- The step is one that the sources can make: a packet that an event hands to
the MAC has been created, a packet that another object creates has the sizes of
`Packet.Sized`, and the data rate and the sending delay of the physical layer,
which have no caller of their setters, stay. -/
def NodeOp.Valid (w : MacWorld) : NodeOp → Prop
  | .dispatch input => input.Valid w
  | .schedule _ => True
  | .newPacket packet => packet.Sized
  | .physicalLayer phy _ =>
    phy.m_dataRate = w.phy.m_dataRate ∧ phy.m_signalSendingDelay = w.phy.m_signalSendingDelay

/-- Every step of the run is valid in the state in which it is made. -/
def SendPath.ValidOps {μ : Type} (m : SlottedMacEvents μ) (log10 : ℚ → ℚ) :
    List NodeOp → μ → SendPath → MacWorld → Prop
  | [], _, _, _ => True
  | op :: ops, mac, tx, w =>
    op.Valid w ∧
      match SendPath.nodeOp m log10 mac tx w op with
      | .error _ => True
      | .ok r => SendPath.ValidOps m log10 ops r.1 r.2.1 r.2.2

/-- The world in which a node is created: that of `MacWorld.BeforeCreate` with a
physical layer that has the data rate and the sending delay of its constructor,
and packets with the sizes of `Packet.Sized`. -/
structure MacWorld.BeforeNode (w : MacWorld) : Prop where
  before : w.BeforeCreate
  signal_delay : w.phy.m_signalSendingDelay = 0
  data_rate : w.phy.m_dataRate = 128000
  sized : w.Sized

/-- What holds of a reader MAC between events, as far as its packets go: the
packet to transmit is a frame, the packets the MAC points to have been created,
and the slot time is that of the constructor. -/
structure RfidReaderMac.Frames (mac : RfidReaderMac) (w : MacWorld) : Prop where
  pending : ∀ p, mac.m_packetToTransmit = some p →
    p < w.nextPacketPtr ∧ (w.packets p).IsFrame
  app : ∀ p, mac.m_currentAppReadPacket = some p → p < w.nextPacketPtr
  slot_time : mac.m_slotTime = m_DEFAULT_SLOT_TIME

/-- What holds of a tag MAC between events, as far as its packets go. -/
structure RfidTagMac.Frames (mac : RfidTagMac) (w : MacWorld) : Prop where
  pending : ∀ p, mac.m_packetToTransmit = some p →
    p < w.nextPacketPtr ∧ (w.packets p).IsFrame
  slot_time : mac.m_slotTime = m_DEFAULT_SLOT_TIME

/-- The events of a reader MAC besides the slot event and the send events: the
event of the cycle timer. -/
def RfidReaderMac.own (mac : RfidReaderMac) : EventId → Prop :=
  fun x => x = mac.m_cycleTimer.m_eventOnFire

/-- A tag MAC has no event besides the slot event and the send events. -/
def RfidTagMac.own (_mac : RfidTagMac) : EventId → Prop := fun _ => False

/-- The reader MAC and the world after a handler other than `beginSlotEvent`. -/
structure RfidReaderMac.Step (mac : RfidReaderMac) (w : MacWorld) (mac' : RfidReaderMac)
    (w' : MacWorld) : Prop where
  step : MacStep mac.own w w'
  frames : mac'.Frames w'
  slotTimer : mac'.m_slotTimer = mac.m_slotTimer
  cycleTimer : mac'.m_cycleTimer = mac.m_cycleTimer

/-- The tag MAC and the world after a handler other than `beginSlotEvent`. -/
structure RfidTagMac.Step (mac : RfidTagMac) (w : MacWorld) (mac' : RfidTagMac)
    (w' : MacWorld) : Prop where
  step : MacStep mac.own w w'
  frames : mac'.Frames w'
  slotTimer : mac'.m_slotTimer = mac.m_slotTimer

/-- The methods of a MAC do not fail with the assertion of
`SignalRecvEvent::execute`, which is not in their code. -/
structure MacFaults {μ : Type} (m : SlottedMacEvents μ) : Prop where
  other : ∀ mac w e input, m.otherEvent mac w e input ≠ .error .transmittingTimerRunning
  send : ∀ mac w d p, m.sendToLinkLayer mac w d p ≠ .error .transmittingTimerRunning
  slot : ∀ mac w, m.beginSlotEvent mac w ≠ .error .transmittingTimerRunning

/-! ## Example runs of a node -/

/-- A run around the node of reader 7: the application creates a READ packet
(packet 0) and the link layer schedules its hand-over after 1 ms; the slot event
of time 0 runs; the READ is handed to the MAC, which creates a REQUEST; the slot
event of 2 ms starts the send timer; the send timer fires and the REQUEST goes
to the link layer; the `LayerRecvEvent` hands it to the physical layer, which
schedules a `SignalRecvEvent` for it. -/
def exampleReaderNodeOps : List NodeOp :=
  [.newPacket exampleReadPacket, .schedule (1 / 1000), .dispatch .nothing,
    .dispatch (.upperLayerPacket 0), .dispatch .nothing, .dispatch .nothing,
    .dispatch .nothing]

/-- A world at time 0 with the simulator as constructed and the physical layer
of a tag as constructed. -/
def exampleTagStartWorld : MacWorld :=
  { exampleStartWorld with
    phy := PhysicalLayer.create { m_xCoordinate := 1, m_yCoordinate := 0, m_zCoordinate := 0 }
      (PhySubclass.tag false 0 true 0) }

/-- A draw of the random number generator: the lower end of the range. -/
def exampleFirstSlot : ℕ → ℕ → ℕ := fun lo _ => lo

/-- A run around the node of tag 12: the REQUEST of reader 9 (packet 0) arrives
and the physical layer schedules its hand-over after 1 ms; the slot event of
time 0 runs; the REQUEST is handed to the MAC, which draws slot 0 and creates a
REPLY; the slot event of 2 ms starts the send timer; the send timer fires and
the REPLY goes to the link layer; the `LayerRecvEvent` hands it to the physical
layer, which schedules a `SignalRecvEvent` for it. -/
def exampleTagNodeOps : List NodeOp :=
  [.newPacket exampleRequestPacket, .schedule (1 / 1000), .dispatch .nothing,
    .dispatch (.macPacket 0), .dispatch .nothing, .dispatch .nothing, .dispatch .nothing]
/-! ## Lemmas on the queue -/

section QueueLemmas

variable {lt : EventId → EventId → Bool} {x y a : EventId} {q : List EventId}

theorem mem_multisetInsert : y ∈ multisetInsert lt x q ↔ y = x ∨ y ∈ q := by
  induction q with
  | nil => simp [multisetInsert]
  | cons z zs ih =>
    unfold multisetInsert
    split
    · simp
    · simp only [List.mem_cons, ih]; tauto

theorem multisetInsert_perm : (multisetInsert lt x q).Perm (x :: q) := by
  induction q with
  | nil => simp [multisetInsert]
  | cons z zs ih =>
    unfold multisetInsert
    split
    · exact List.Perm.refl _
    · exact (List.Perm.cons z ih).trans (List.Perm.swap x z zs)

theorem multisetInsert_erase (h : x ∉ q) : (multisetInsert lt x q).erase x = q := by
  induction q with
  | nil => simp [multisetInsert]
  | cons z zs ih =>
    have hz : z ≠ x := fun e => h (by simp [e])
    have hx : x ∉ zs := fun e => h (by simp [e])
    unfold multisetInsert
    split
    · simp
    · rw [List.erase_cons_tail (by simpa using hz), ih hx]

theorem multisetInsert_length : (multisetInsert lt x q).length = q.length + 1 := by
  simpa using (@multisetInsert_perm lt x q).length_eq

theorem multisetInsert_sorted (f : EventId → SimTime)
    (hlt : ∀ u v, lt u v = decide (f u < f v))
    (h : q.Pairwise (fun u v => f u ≤ f v)) :
    (multisetInsert lt x q).Pairwise (fun u v => f u ≤ f v) := by
  induction q with
  | nil => simp [multisetInsert]
  | cons z zs ih =>
    rw [List.pairwise_cons] at h
    unfold multisetInsert
    split
    · rename_i hxz
      rw [hlt] at hxz
      have hxz' : f x < f z := by simpa using hxz
      refine List.Pairwise.cons ?_ (List.Pairwise.cons h.1 h.2)
      intro u hu
      rcases List.mem_cons.1 hu with rfl | hu
      · exact le_of_lt hxz'
      · exact le_trans (le_of_lt hxz') (h.1 u hu)
    · rename_i hxz
      rw [hlt] at hxz
      have hxz' : f z ≤ f x := by simpa using hxz
      refine List.Pairwise.cons ?_ (ih h.2)
      intro u hu
      rcases mem_multisetInsert.1 hu with rfl | hu
      · exact hxz'
      · exact h.1 u hu

theorem equalRange_split :
    beforeEqualRange lt x q ++ equalRange lt x q ++ afterEqualRange lt x q = q := by
  unfold beforeEqualRange equalRange afterEqualRange
  rw [List.append_assoc, List.takeWhile_append_dropWhile, List.takeWhile_append_dropWhile]

theorem not_mem_beforeEqualRange (hirr : lt x x = false) :
    x ∉ beforeEqualRange lt x q := by
  intro h
  have := List.mem_takeWhile_imp h
  simp [hirr] at this

theorem mem_equalRange (f : EventId → SimTime)
    (hlt : ∀ u v, lt u v = decide (f u < f v))
    (h : q.Pairwise (fun u v => f u ≤ f v)) (hx : x ∈ q) :
    x ∈ equalRange lt x q := by
  induction q with
  | nil => simp at hx
  | cons z zs ih =>
    rw [List.pairwise_cons] at h
    unfold equalRange
    by_cases hzx : f z < f x
    · have hne : x ≠ z := fun e => by rw [e] at hzx; exact lt_irrefl _ hzx
      have hx' : x ∈ zs := by
        rcases List.mem_cons.1 hx with e | e
        · exact absurd e hne
        · exact e
      have : lt z x = true := by rw [hlt]; simpa using hzx
      have e1 : (z :: zs).dropWhile (fun y => lt y x) = zs.dropWhile (fun y => lt y x) := by
        simp [List.dropWhile_cons, this]
      rw [e1]
      exact ih h.2 hx'
    · have hn : lt z x = false := by rw [hlt]; simpa using hzx
      have e1 : (z :: zs).dropWhile (fun y => lt y x) = z :: zs := by
        simp [List.dropWhile_cons, hn]
      rw [e1]
      -- every element in front of `x` fires no later than `x`
      have key : ∀ (l : List EventId), l.Pairwise (fun u v => f u ≤ f v) → x ∈ l →
          x ∈ l.takeWhile (fun y => !lt x y) := by
        intro l hl hxl
        induction l with
        | nil => simp at hxl
        | cons w ws ihw =>
          rw [List.pairwise_cons] at hl
          have hwx : f w ≤ f x := by
            rcases List.mem_cons.1 hxl with e | e
            · rw [e]
            · exact hl.1 x e
          have hw : (!lt x w) = true := by rw [hlt]; simpa using hwx
          have e2 : (w :: ws).takeWhile (fun y => !lt x y)
              = w :: ws.takeWhile (fun y => !lt x y) := by
            simp only [List.takeWhile_cons, hw, if_true]
          rw [e2]
          rcases List.mem_cons.1 hxl with e | e
          · simp [e]
          · exact List.mem_cons_of_mem _ (ihw hl.2 e)
      exact key (z :: zs) (List.pairwise_cons.2 h) hx

theorem cancel_queue_eq_erase (f : EventId → SimTime)
    (hlt : ∀ u v, lt u v = decide (f u < f v)) (hx : x ∈ equalRange lt x q) :
    beforeEqualRange lt x q ++ (equalRange lt x q).erase x ++ afterEqualRange lt x q
      = q.erase x := by
  have hirr : lt x x = false := by rw [hlt]; simp
  conv_rhs => rw [← @equalRange_split lt x q]
  rw [List.append_assoc, List.append_assoc,
    List.erase_append_right _ (not_mem_beforeEqualRange hirr),
    List.erase_append_left _ hx]

end QueueLemmas

/-! ## Lemmas on the kernel operations -/

section KernelLemmas

theorem setEvent_same (events : EventId → Event) (e : EventId) (v : Event) :
    setEvent events e v e = v := by
  simp [setEvent]

theorem setEvent_other (events : EventId → Event) {e i : EventId} (v : Event)
    (h : i ≠ e) : setEvent events e v i = events i := by
  simp [setEvent, h]

theorem eventPtrLt_eq (s : Simulator) (u v : EventId) :
    s.eventPtrLt u v = decide (s.fire u < s.fire v) := rfl

theorem wf_not_mem_of_flag {s : Simulator} (h : s.WF) {e : EventId}
    (hq : (s.events e).m_inEventQueue = false) : e ∉ s.m_eventPtrQueue := by
  intro he
  have := h.flagged e he
  rw [hq] at this
  exact Bool.false_ne_true this

theorem scheduleEvent_error_queued (s : Simulator) (e : EventId) (d : SimTime)
    (hq : (s.events e).m_inEventQueue = true) :
    s.scheduleEvent e d = .error .scheduleQueuedEvent := by
  simp [Simulator.scheduleEvent, Event.inEventQueue, hq]

theorem scheduleEvent_error_delay (s : Simulator) (e : EventId) (d : SimTime)
    (hq : (s.events e).m_inEventQueue = false) (hd : d < 0) :
    s.scheduleEvent e d = .error .scheduleNegativeDelay := by
  simp [Simulator.scheduleEvent, Event.inEventQueue, hq, hd]

/-- Whenever `scheduleEvent` returns, its preconditions held. -/
theorem scheduleEvent_ok_inv {s : Simulator} {e : EventId} {d : SimTime}
    {r : Bool × Simulator} (h : s.scheduleEvent e d = .ok r) :
    (s.events e).m_inEventQueue = false ∧ 0 ≤ d := by
  by_cases hq : (s.events e).m_inEventQueue = true
  · rw [scheduleEvent_error_queued s e d hq] at h
    cases h
  · have hq' : (s.events e).m_inEventQueue = false := by simpa using hq
    by_cases hd : d < 0
    · rw [scheduleEvent_error_delay s e d hq' hd] at h
      cases h
    · exact ⟨hq', not_lt.1 hd⟩

theorem scheduleEvent_isOk (s : Simulator) (e : EventId) (d : SimTime)
    (hq : (s.events e).m_inEventQueue = false) (hd : 0 ≤ d) :
    ∃ s', s.scheduleEvent e d = .ok (true, s') := by
  unfold Simulator.scheduleEvent
  simp only [Event.inEventQueue, hq, Bool.false_eq_true, if_false, ge_iff_le, hd,
    not_true_eq_false, if_true]
  exact ⟨_, rfl⟩

/-- What a `scheduleEvent` that returns has done to the state. -/
theorem scheduleEvent_props {s s' : Simulator} {e : EventId} {d : SimTime} {b : Bool}
    (h : s.scheduleEvent e d = .ok (b, s')) :
    b = true ∧
      s'.m_clock = s.m_clock ∧
      s'.m_simulationEndListeners = s.m_simulationEndListeners ∧
      s'.events e = { m_timeToFire := s.m_clock + d, m_inEventQueue := true } ∧
      (∀ i, i ≠ e → s'.events i = s.events i) ∧
      s'.m_eventPtrQueue = multisetInsert s'.eventPtrLt e s.m_eventPtrQueue := by
  obtain ⟨hq, hd⟩ := scheduleEvent_ok_inv h
  unfold Simulator.scheduleEvent at h
  simp only [Event.inEventQueue, hq, Bool.false_eq_true, if_false, ge_iff_le, hd,
    not_true_eq_false, if_true] at h
  obtain ⟨rfl, rfl⟩ := Prod.mk.inj (Except.ok.inj h)
  refine ⟨rfl, rfl, rfl, ?_, ?_, ?_⟩
  · simp [setEvent, Event.setInEventQueue, Event.setFireTime, Simulator.currentTime]
  · intro i hi
    simp [setEvent, hi]
  · simp only
    congr 1
    funext u v
    simp only [Simulator.eventPtrLt, Event.lt, setEvent, Event.setInEventQueue,
      Event.setFireTime]
    by_cases hu : u = e <;> by_cases hv : v = e <;> simp [hu, hv]

theorem fire_congr {s s' : Simulator} {i : EventId} (h : s'.events i = s.events i) :
    s'.fire i = s.fire i := by
  simp [Simulator.fire, h]

theorem wf_scheduleEvent {s s' : Simulator} {e : EventId} {d : SimTime} {b : Bool}
    (h : s.WF) (hs : s.scheduleEvent e d = .ok (b, s')) : s'.WF := by
  obtain ⟨hq, hd⟩ := scheduleEvent_ok_inv hs
  obtain ⟨-, -, -, he, hoth, hqueue⟩ := scheduleEvent_props hs
  have hne : e ∉ s.m_eventPtrQueue := wf_not_mem_of_flag h hq
  have hmem : ∀ i ∈ s.m_eventPtrQueue, i ≠ e := fun i hi hie => hne (hie ▸ hi)
  refine ⟨?_, ?_, ?_⟩
  · rw [hqueue]
    refine multisetInsert_sorted s'.fire (eventPtrLt_eq s') ?_
    refine h.sorted.imp_of_mem ?_
    intro u v hu hv huv
    rw [fire_congr (hoth u (hmem u hu)), fire_congr (hoth v (hmem v hv))]
    exact huv
  · rw [hqueue]
    exact (multisetInsert_perm.nodup_iff).2 (List.nodup_cons.2 ⟨hne, h.nodup⟩)
  · intro i hi
    rw [hqueue] at hi
    rcases mem_multisetInsert.1 hi with rfl | hi
    · rw [he]
    · rw [hoth i (hmem i hi)]
      exact h.flagged i hi

theorem future_scheduleEvent {s s' : Simulator} {e : EventId} {d : SimTime} {b : Bool}
    (h : s.WF) (hf : s.Future) (hs : s.scheduleEvent e d = .ok (b, s')) : s'.Future := by
  obtain ⟨hq, hd⟩ := scheduleEvent_ok_inv hs
  obtain ⟨-, hclock, -, he, hoth, hqueue⟩ := scheduleEvent_props hs
  have hne : e ∉ s.m_eventPtrQueue := wf_not_mem_of_flag h hq
  intro i hi
  rw [hqueue] at hi
  rw [hclock]
  rcases mem_multisetInsert.1 hi with rfl | hi
  · simp only [Simulator.fire, he]
    linarith
  · have hie : i ≠ e := fun hie => hne (hie ▸ hi)
    rw [fire_congr (hoth i hie)]
    exact hf i hi

theorem equalRange_subset {lt : EventId → EventId → Bool} {x y : EventId}
    {q : List EventId} (h : y ∈ equalRange lt x q) : y ∈ q := by
  unfold equalRange at h
  exact (List.dropWhile_sublist _).subset ((List.takeWhile_sublist _).subset h)

/-- What `cancelEvent` does when the event is queued. -/
theorem cancelEvent_spec_mem (s : Simulator) (e : EventId) (h : s.WF)
    (he : e ∈ s.m_eventPtrQueue) :
    (s.cancelEvent e).1 = true ∧
      (s.cancelEvent e).2.m_clock = s.m_clock ∧
      (s.cancelEvent e).2.m_simulationEndListeners = s.m_simulationEndListeners ∧
      (s.cancelEvent e).2.events e
        = { m_timeToFire := s.fire e, m_inEventQueue := false } ∧
      (∀ i, i ≠ e → (s.cancelEvent e).2.events i = s.events i) ∧
      (s.cancelEvent e).2.m_eventPtrQueue = s.m_eventPtrQueue.erase e := by
  have hr : e ∈ equalRange s.eventPtrLt e s.m_eventPtrQueue :=
    mem_equalRange s.fire (eventPtrLt_eq s) h.sorted he
  unfold Simulator.cancelEvent
  simp only [hr, if_true, true_and]
  refine ⟨?_, ?_, ?_⟩
  · simp [setEvent, Event.setInEventQueue, Simulator.fire]
  · intro i hi
    simp [setEvent, hi]
  · exact cancel_queue_eq_erase s.fire (eventPtrLt_eq s) hr

/-- What `cancelEvent` does when the event is not queued: nothing. -/
theorem cancelEvent_spec_not_mem (s : Simulator) (e : EventId)
    (he : e ∉ s.m_eventPtrQueue) : s.cancelEvent e = (false, s) := by
  have hr : e ∉ equalRange s.eventPtrLt e s.m_eventPtrQueue :=
    fun hr => he (equalRange_subset hr)
  unfold Simulator.cancelEvent
  simp only [hr, if_false]

theorem fire_setInEventQueue (s : Simulator) (e i : EventId) (b : Bool) :
    (setEvent s.events e ((s.events e).setInEventQueue b) i).m_timeToFire
      = (s.events i).m_timeToFire := by
  by_cases h : i = e
  · subst h; simp [setEvent, Event.setInEventQueue]
  · simp [setEvent, h]

theorem cancelEvent_fire (s : Simulator) (e i : EventId) :
    (s.cancelEvent e).2.fire i = s.fire i := by
  unfold Simulator.cancelEvent
  simp only
  split
  · exact fire_setInEventQueue s e i false
  · rfl

theorem cancelEvent_clock (s : Simulator) (e : EventId) :
    (s.cancelEvent e).2.m_clock = s.m_clock := by
  unfold Simulator.cancelEvent
  simp only
  split <;> rfl

theorem cancelEvent_queue (s : Simulator) (e : EventId) (h : s.WF) :
    (s.cancelEvent e).2.m_eventPtrQueue = s.m_eventPtrQueue.erase e := by
  by_cases he : e ∈ s.m_eventPtrQueue
  · exact (cancelEvent_spec_mem s e h he).2.2.2.2.2
  · rw [cancelEvent_spec_not_mem s e he, List.erase_of_not_mem he]

theorem wf_cancelEvent {s : Simulator} (h : s.WF) (e : EventId) :
    (s.cancelEvent e).2.WF := by
  by_cases he : e ∈ s.m_eventPtrQueue
  · obtain ⟨-, -, -, -, hoth, hq⟩ := cancelEvent_spec_mem s e h he
    have hfire : ∀ i, (s.cancelEvent e).2.fire i = s.fire i := cancelEvent_fire s e
    refine ⟨?_, ?_, ?_⟩
    · rw [hq]
      have : (s.m_eventPtrQueue.erase e).Pairwise (fun a b => s.fire a ≤ s.fire b) :=
        h.sorted.sublist (List.erase_sublist _ _)
      simpa [hfire] using this
    · rw [hq]; exact h.nodup.erase e
    · intro i hi
      rw [hq] at hi
      have hie : i ≠ e := fun hie => by
        rw [hie] at hi
        exact (h.nodup.not_mem_erase) hi
      rw [hoth i hie]
      exact h.flagged i (List.mem_of_mem_erase hi)
  · rw [cancelEvent_spec_not_mem s e he]
    exact h

theorem future_cancelEvent {s : Simulator} (h : s.WF) (hf : s.Future) (e : EventId) :
    (s.cancelEvent e).2.Future := by
  intro i hi
  rw [cancelEvent_queue s e h] at hi
  rw [cancelEvent_clock, cancelEvent_fire]
  exact hf i (List.mem_of_mem_erase hi)

theorem wf_getNextEvent {s : Simulator} (h : s.WF) {e : EventId} {rest : List EventId}
    (hq : s.m_eventPtrQueue = e :: rest) : (s.getNextEvent e rest).2.WF := by
  have hs := h.sorted
  have hn := h.nodup
  rw [hq] at hs hn
  rw [List.pairwise_cons] at hs
  rw [List.nodup_cons] at hn
  refine ⟨?_, hn.2, ?_⟩
  · simp only [Simulator.getNextEvent, Simulator.fire, fire_setInEventQueue]
    exact hs.2
  · intro i hi
    have hie : i ≠ e := fun hie => hn.1 (hie ▸ hi)
    simp only [Simulator.getNextEvent] at hi ⊢
    rw [setEvent_other _ _ hie]
    exact h.flagged i (by rw [hq]; exact List.mem_cons_of_mem _ hi)

theorem getNextEvent_fire (s : Simulator) (e i : EventId) (rest : List EventId) :
    (s.getNextEvent e rest).2.fire i = s.fire i := by
  simp only [Simulator.getNextEvent, Simulator.fire, fire_setInEventQueue]

theorem call_ok_cases {s s' : Simulator} {c : KernelCall} (hc : s.call c = .ok s') :
    (∃ e d b, c = .scheduleEvent e d ∧ s.scheduleEvent e d = .ok (b, s')) ∨
    (∃ e, c = .cancelEvent e ∧ s' = (s.cancelEvent e).2) := by
  cases c with
  | scheduleEvent e d =>
    left
    simp only [Simulator.call] at hc
    cases hr : s.scheduleEvent e d with
    | error f => rw [hr] at hc; cases hc
    | ok r =>
      rw [hr] at hc
      obtain ⟨b, s''⟩ := r
      have : s'' = s' := by simpa [Except.map] using hc
      exact ⟨e, d, b, rfl, by rw [hr, this]⟩
  | cancelEvent e =>
    right
    simp only [Simulator.call] at hc
    exact ⟨e, rfl, (Except.ok.inj hc).symm⟩

theorem call_error_cases {s : Simulator} {c : KernelCall} {f : Fault}
    (hc : s.call c = .error f) :
    f = .scheduleQueuedEvent ∨ f = .scheduleNegativeDelay := by
  cases c with
  | scheduleEvent e d =>
    simp only [Simulator.call] at hc
    by_cases hq : (s.events e).m_inEventQueue = true
    · rw [scheduleEvent_error_queued s e d hq] at hc
      left; simpa [Except.map] using hc.symm
    · have hq' : (s.events e).m_inEventQueue = false := by simpa using hq
      by_cases hd : d < 0
      · rw [scheduleEvent_error_delay s e d hq' hd] at hc
        right; simpa [Except.map] using hc.symm
      · obtain ⟨s', hs⟩ := scheduleEvent_isOk s e d hq' (not_lt.1 hd)
        rw [hs] at hc
        simp [Except.map] at hc
  | cancelEvent e =>
    simp [Simulator.call] at hc

theorem call_inv {s s' : Simulator} {c : KernelCall} (h : s.WF) (hf : s.Future)
    (hc : s.call c = .ok s') : s'.WF ∧ s'.Future ∧ s'.m_clock = s.m_clock := by
  rcases call_ok_cases hc with ⟨e, d, b, -, hs⟩ | ⟨e, -, rfl⟩
  · exact ⟨wf_scheduleEvent h hs, future_scheduleEvent h hf hs,
      (scheduleEvent_props hs).2.1⟩
  · exact ⟨wf_cancelEvent h e, future_cancelEvent h hf e, cancelEvent_clock s e⟩

theorem calls_inv {cs : List KernelCall} : ∀ {s s' : Simulator}, s.WF → s.Future →
    s.calls cs = .ok s' → s'.WF ∧ s'.Future ∧ s'.m_clock = s.m_clock := by
  induction cs with
  | nil =>
    intro s s' h hf hc
    simp only [Simulator.calls] at hc
    cases hc
    exact ⟨h, hf, rfl⟩
  | cons c cs ih =>
    intro s s' h hf hc
    simp only [Simulator.calls] at hc
    cases h1 : s.call c with
    | error f => rw [h1] at hc; cases hc
    | ok s1 =>
      rw [h1] at hc
      obtain ⟨w1, f1, c1⟩ := call_inv h hf h1
      obtain ⟨w2, f2, c2⟩ := ih w1 f1 hc
      exact ⟨w2, f2, c2.trans c1⟩

theorem calls_error_cases {cs : List KernelCall} : ∀ {s : Simulator} {f : Fault},
    s.calls cs = .error f → f = .scheduleQueuedEvent ∨ f = .scheduleNegativeDelay := by
  induction cs with
  | nil => intro s f hc; simp [Simulator.calls] at hc
  | cons c cs ih =>
    intro s f hc
    simp only [Simulator.calls] at hc
    cases h1 : s.call c with
    | error g =>
      rw [h1] at hc
      have : g = f := by simpa using hc
      exact this ▸ call_error_cases h1
    | ok s1 =>
      rw [h1] at hc
      exact ih hc

/-- The state in which `dispatchEvent` calls `execute`. -/
theorem dispatchEvent_eq {σ : Type} (exec : Execute σ) (s : Simulator) (e : EventId)
    (w : σ) (hle : s.m_clock ≤ s.fire e) :
    s.dispatchEvent exec e w =
      ([{ event := e, fireTime := s.fire e, clock := s.fire e }],
        (({ s with m_clock := s.fire e } : Simulator).calls
          (exec e { s with m_clock := s.fire e } w).2).map
          (fun s2 => (s2, (exec e { s with m_clock := s.fire e } w).1))) := by
  unfold Simulator.dispatchEvent
  simp only [Event.getFireTime]
  have : s.m_clock ≤ (s.events e).m_timeToFire := hle
  simp only [this, not_true_eq_false, if_false]
  rfl

theorem wf_setClock {s : Simulator} (h : s.WF) (t : SimTime) :
    ({ s with m_clock := t } : Simulator).WF :=
  ⟨h.sorted, h.nodup, h.flagged⟩

/-- One iteration of the loop on a non-empty queue whose head is due. -/
theorem runLoop_step {σ : Type} (exec : Execute σ) (stop : SimTime) (fuel : ℕ)
    (s : Simulator) (w : σ) (e : EventId) (rest : List EventId)
    (hq : s.m_eventPtrQueue = e :: rest) (hdue : ¬ (s.fire e > stop))
    (hle : s.m_clock ≤ s.fire e) :
    Simulator.runLoop exec stop (fuel + 1) s w =
      match (({ (s.getNextEvent e rest).2 with m_clock := s.fire e } : Simulator).calls
          (exec e { (s.getNextEvent e rest).2 with m_clock := s.fire e } w).2) with
      | .error f => ([{ event := e, fireTime := s.fire e, clock := s.fire e }], .aborted f)
      | .ok s2 =>
        ({ event := e, fireTime := s.fire e, clock := s.fire e } ::
          (Simulator.runLoop exec stop fuel s2
            (exec e { (s.getNextEvent e rest).2 with m_clock := s.fire e } w).1).1,
          (Simulator.runLoop exec stop fuel s2
            (exec e { (s.getNextEvent e rest).2 with m_clock := s.fire e } w).1).2) := by
  have hf : (s.getNextEvent e rest).2.fire e = s.fire e := getNextEvent_fire s e e rest
  have h1 : (s.getNextEvent e rest).1 = e := rfl
  have hdue' : ¬ (((s.getNextEvent e rest).2.events e).getFireTime > stop) := by
    have : ((s.getNextEvent e rest).2.events e).getFireTime = s.fire e := hf
    rw [this]; exact hdue
  have hle' : (s.getNextEvent e rest).2.m_clock ≤ (s.getNextEvent e rest).2.fire e := by
    rw [hf]; exact hle
  rw [Simulator.runLoop, hq]
  simp only [h1]
  rw [if_neg hdue', dispatchEvent_eq exec _ e w hle', hf]
  cases (({ (s.getNextEvent e rest).2 with m_clock := s.fire e } : Simulator).calls
          (exec e { (s.getNextEvent e rest).2 with m_clock := s.fire e } w).2) with
  | error f => rfl
  | ok s2 => rfl

theorem runLoop_nil {σ : Type} (exec : Execute σ) (stop : SimTime) (fuel : ℕ)
    (s : Simulator) (w : σ) (hq : s.m_eventPtrQueue = []) :
    Simulator.runLoop exec stop (fuel + 1) s w = ([], .returned s w []) := by
  rw [Simulator.runLoop, hq]

theorem runLoop_notDue {σ : Type} (exec : Execute σ) (stop : SimTime) (fuel : ℕ)
    (s : Simulator) (w : σ) (e : EventId) (rest : List EventId)
    (hq : s.m_eventPtrQueue = e :: rest) (hlate : s.fire e > stop) :
    Simulator.runLoop exec stop (fuel + 1) s w
      = ([], .returned (s.getNextEvent e rest).2 w []) := by
  have hf : (s.getNextEvent e rest).2.fire e = s.fire e := getNextEvent_fire s e e rest
  have h1 : (s.getNextEvent e rest).1 = e := rfl
  have hlate' : ((s.getNextEvent e rest).2.events e).getFireTime > stop := by
    have : ((s.getNextEvent e rest).2.events e).getFireTime = s.fire e := hf
    rw [this]; exact hlate
  rw [Simulator.runLoop, hq]
  simp only [h1]
  rw [if_pos hlate']

/-- The state in which the handler of the head event runs keeps the invariants. -/
theorem dispatch_state_inv {s : Simulator} (h : s.WF) {e : EventId}
    {rest : List EventId} (hq : s.m_eventPtrQueue = e :: rest) :
    ({ (s.getNextEvent e rest).2 with m_clock := s.fire e } : Simulator).WF ∧
    ({ (s.getNextEvent e rest).2 with m_clock := s.fire e } : Simulator).Future := by
  refine ⟨wf_setClock (wf_getNextEvent h hq) _, ?_⟩
  intro i hi
  have hs := h.sorted
  rw [hq, List.pairwise_cons] at hs
  have : ({ (s.getNextEvent e rest).2 with m_clock := s.fire e } : Simulator).fire i
      = s.fire i := getNextEvent_fire s e i rest
  rw [this]
  exact hs.1 i hi

/-- The loop invariant: fire times never go down along the dispatches, every
handler sees the clock at its own fire time, the clock assertion holds, and the
queue stays well formed. -/
theorem runLoop_inv {σ : Type} (exec : Execute σ) (stop : SimTime) :
    ∀ (fuel : ℕ) (s : Simulator) (w : σ), s.WF → s.Future →
      (Simulator.runLoop exec stop fuel s w).1.Pairwise
        (fun d1 d2 => d1.fireTime ≤ d2.fireTime) ∧
      (∀ d ∈ (Simulator.runLoop exec stop fuel s w).1,
        d.clock = d.fireTime ∧ s.m_clock ≤ d.fireTime) ∧
      (Simulator.runLoop exec stop fuel s w).2.NoClockFault ∧
      (Simulator.runLoop exec stop fuel s w).2.Holds Simulator.WF := by
  intro fuel
  induction fuel with
  | zero =>
    intro s w h _
    simp [Simulator.runLoop, Outcome.NoClockFault, Outcome.Holds, h]
  | succ fuel ih =>
    intro s w h hf
    cases hq : s.m_eventPtrQueue with
    | nil =>
      rw [runLoop_nil exec stop fuel s w hq]
      simp [Outcome.NoClockFault, Outcome.Holds, h]
    | cons e rest =>
      by_cases hlate : s.fire e > stop
      · rw [runLoop_notDue exec stop fuel s w e rest hq hlate]
        simp [Outcome.NoClockFault, Outcome.Holds, wf_getNextEvent h hq]
      · have hle : s.m_clock ≤ s.fire e := hf e (by rw [hq]; exact List.mem_cons_self _ _)
        rw [runLoop_step exec stop fuel s w e rest hq hlate hle]
        obtain ⟨hw1, hf1⟩ := dispatch_state_inv h hq
        cases hc : (({ (s.getNextEvent e rest).2 with m_clock := s.fire e } :
            Simulator).calls
            (exec e { (s.getNextEvent e rest).2 with m_clock := s.fire e } w).2) with
        | error f =>
          simp only [List.pairwise_cons, List.mem_singleton, List.not_mem_nil,
            false_implies, implies_true, List.Pairwise.nil, and_self, forall_eq, true_and,
            Outcome.NoClockFault, Outcome.Holds, and_true]
          exact ⟨hle, calls_error_cases hc⟩
        | ok s2 =>
          obtain ⟨hw2, hf2, hc2⟩ := calls_inv hw1 hf1 hc
          obtain ⟨i1, i2, i3, i4⟩ :=
            ih s2 (exec e { (s.getNextEvent e rest).2 with m_clock := s.fire e } w).1 hw2 hf2
          have hc2' : s2.m_clock = s.fire e := hc2
          refine ⟨?_, ?_, i3, i4⟩
          · refine List.Pairwise.cons ?_ i1
            intro d hd
            have := (i2 d hd).2
            rw [hc2'] at this
            exact this
          · intro d hd
            rcases List.mem_cons.1 hd with rfl | hd
            · exact ⟨rfl, hle⟩
            · have := i2 d hd
              rw [hc2'] at this
              exact ⟨this.1, le_trans hle this.2⟩

theorem runLoop_clockFault {σ : Type} (exec : Execute σ) (stop : SimTime) (fuel : ℕ)
    (s : Simulator) (w : σ) (e : EventId) (rest : List EventId)
    (hq : s.m_eventPtrQueue = e :: rest) (hdue : ¬ (s.fire e > stop))
    (hgt : ¬ (s.m_clock ≤ s.fire e)) :
    Simulator.runLoop exec stop (fuel + 1) s w = ([], .aborted .dispatchClockAhead) := by
  have hf : (s.getNextEvent e rest).2.fire e = s.fire e := getNextEvent_fire s e e rest
  have h1 : (s.getNextEvent e rest).1 = e := rfl
  have hdue' : ¬ (((s.getNextEvent e rest).2.events e).getFireTime > stop) := by
    have : ((s.getNextEvent e rest).2.events e).getFireTime = s.fire e := hf
    rw [this]; exact hdue
  have hgt' : ¬ ((s.getNextEvent e rest).2.m_clock
      ≤ ((s.getNextEvent e rest).2.events e).getFireTime) := by
    have : ((s.getNextEvent e rest).2.events e).getFireTime = s.fire e := hf
    rw [this]; exact hgt
  rw [Simulator.runLoop, hq]
  simp only [h1]
  rw [if_neg hdue']
  unfold Simulator.dispatchEvent
  simp only [hgt', not_false_eq_true, if_true]

theorem runSimulation_trace {σ : Type} (exec : Execute σ) (stop : SimTime) (fuel : ℕ)
    (s : Simulator) (w : σ) :
    (Simulator.runSimulation exec stop fuel s w).1
      = (Simulator.runLoop exec stop fuel s w).1 := by
  unfold Simulator.runSimulation
  rcases h : Simulator.runLoop exec stop fuel s w with ⟨ds, o⟩
  cases o <;> rfl

theorem runSimulation_aborted {σ : Type} (exec : Execute σ) (stop : SimTime) (fuel : ℕ)
    (s : Simulator) (w : σ) (f : Fault)
    (h : (Simulator.runSimulation exec stop fuel s w).2 = .aborted f) :
    (Simulator.runLoop exec stop fuel s w).2 = .aborted f := by
  unfold Simulator.runSimulation at h
  rcases h' : Simulator.runLoop exec stop fuel s w with ⟨ds, o⟩
  rw [h'] at h
  cases o with
  | returned s1 w1 n => simp at h
  | aborted g => exact h
  | running s1 w1 => simp at h

theorem calls_WF {cs : List KernelCall} : ∀ {s s' : Simulator}, s.WF →
    s.calls cs = .ok s' → s'.WF := by
  induction cs with
  | nil =>
    intro s s' h hc
    simp only [Simulator.calls] at hc
    cases hc
    exact h
  | cons c cs ih =>
    intro s s' h hc
    simp only [Simulator.calls] at hc
    cases h1 : s.call c with
    | error f => rw [h1] at hc; cases hc
    | ok s1 =>
      rw [h1] at hc
      have hw1 : s1.WF := by
        rcases call_ok_cases h1 with ⟨e, d, b, -, hs⟩ | ⟨e, -, rfl⟩
        · exact wf_scheduleEvent h hs
        · exact wf_cancelEvent h e
      exact ih hw1 hc

/-- Kernel calls that do not schedule `e` do not bring it into the queue. -/
theorem calls_not_mem {cs : List KernelCall} {x : EventId} :
    ∀ {s s' : Simulator}, s.WF → s.calls cs = .ok s' → x ∉ s.m_eventPtrQueue →
      (∀ c ∈ cs, ∀ d, c ≠ .scheduleEvent x d) → x ∉ s'.m_eventPtrQueue := by
  induction cs with
  | nil =>
    intro s s' _ hc hx _
    simp only [Simulator.calls] at hc
    cases hc
    exact hx
  | cons c cs ih =>
    intro s s' h hc hx ht
    simp only [Simulator.calls] at hc
    cases h1 : s.call c with
    | error f => rw [h1] at hc; cases hc
    | ok s1 =>
      rw [h1] at hc
      have hw1 : s1.WF ∧ x ∉ s1.m_eventPtrQueue := by
        rcases call_ok_cases h1 with ⟨e, d, b, rfl, hs⟩ | ⟨e, -, rfl⟩
        · refine ⟨wf_scheduleEvent h hs, ?_⟩
          rw [(scheduleEvent_props hs).2.2.2.2.2]
          intro hm
          rcases mem_multisetInsert.1 hm with rfl | hm
          · exact ht _ (List.mem_cons_self _ _) d rfl
          · exact hx hm
        · refine ⟨wf_cancelEvent h e, ?_⟩
          rw [cancelEvent_queue s e h]
          exact fun hm => hx (List.mem_of_mem_erase hm)
      exact ih hw1.1 hc hw1.2 (fun c' hc' => ht c' (List.mem_cons_of_mem _ hc'))

/-- The shapes one iteration of the loop can give to the list of dispatches. -/
theorem runLoop_cases {σ : Type} (exec : Execute σ) (stop : SimTime) (fuel : ℕ)
    (s : Simulator) (w : σ) :
    dispatched (Simulator.runLoop exec stop (fuel + 1) s w).1 = [] ∨
    ∃ e rest, s.m_eventPtrQueue = e :: rest ∧
      (dispatched (Simulator.runLoop exec stop (fuel + 1) s w).1 = [e] ∨
       ∃ s2, ({ (s.getNextEvent e rest).2 with m_clock := s.fire e } : Simulator).calls
              (exec e { (s.getNextEvent e rest).2 with m_clock := s.fire e } w).2 = .ok s2 ∧
          dispatched (Simulator.runLoop exec stop (fuel + 1) s w).1
            = e :: dispatched (Simulator.runLoop exec stop fuel s2
                (exec e { (s.getNextEvent e rest).2 with m_clock := s.fire e } w).1).1) := by
  cases hq : s.m_eventPtrQueue with
  | nil => left; rw [runLoop_nil exec stop fuel s w hq]; rfl
  | cons e rest =>
    by_cases hlate : s.fire e > stop
    · left; rw [runLoop_notDue exec stop fuel s w e rest hq hlate]; rfl
    · by_cases hle : s.m_clock ≤ s.fire e
      · right
        refine ⟨e, rest, rfl, ?_⟩
        rw [runLoop_step exec stop fuel s w e rest hq hlate hle]
        cases hc : (({ (s.getNextEvent e rest).2 with m_clock := s.fire e } :
            Simulator).calls
            (exec e { (s.getNextEvent e rest).2 with m_clock := s.fire e } w).2) with
        | error f => left; rfl
        | ok s2 => right; exact ⟨s2, rfl, rfl⟩
      · left; rw [runLoop_clockFault exec stop fuel s w e rest hq hlate hle]; rfl

/-- An event that is not queued and that no handler schedules is never dispatched. -/
theorem runLoop_not_dispatched {σ : Type} (exec : Execute σ) (stop : SimTime)
    (x : EventId)
    (hexec : ∀ e s w, ∀ c ∈ (exec e s w).2, ∀ d, c ≠ .scheduleEvent x d) :
    ∀ (fuel : ℕ) (s : Simulator) (w : σ), s.WF → x ∉ s.m_eventPtrQueue →
      x ∉ dispatched (Simulator.runLoop exec stop fuel s w).1 := by
  intro fuel
  induction fuel with
  | zero => intro s w _ _; simp [Simulator.runLoop, dispatched]
  | succ fuel ih =>
    intro s w h hx
    rcases runLoop_cases exec stop fuel s w with h0 | ⟨e, rest, hq, h1 | ⟨s2, hc, h2⟩⟩
    · rw [h0]; simp
    · rw [h1]
      have : x ≠ e := fun hxe => hx (by rw [hq, hxe]; exact List.mem_cons_self _ _)
      simpa using this
    · rw [h2]
      have hne : x ≠ e := fun hxe => hx (by rw [hq, hxe]; exact List.mem_cons_self _ _)
      have hxr : x ∉ rest := fun hm => hx (by rw [hq]; exact List.mem_cons_of_mem _ hm)
      have hw1 := (dispatch_state_inv h hq).1
      have hx2 : x ∉ s2.m_eventPtrQueue :=
        calls_not_mem hw1 hc hxr (hexec e _ w)
      simp only [List.mem_cons, not_or]
      exact ⟨hne, ih s2 _ (calls_WF hw1 hc) hx2⟩

end KernelLemmas

/-! ## The kernel claims -/

theorem unitTestPrefix_WF : unitTestPrefix.WF := by
  refine ⟨?_, ?_, ?_⟩
  · simp only [unitTestPrefix, Simulator.fire]
    norm_num
  · simp [unitTestPrefix]
  · intro e he
    simp only [unitTestPrefix, List.mem_cons, List.mem_singleton, List.not_mem_nil,
      or_false] at he
    rcases he with rfl | rfl | rfl | rfl <;> simp [unitTestPrefix]

theorem unitTestPrefix_Future : unitTestPrefix.Future := by
  intro e he
  simp only [unitTestPrefix, List.mem_cons, List.mem_singleton, List.not_mem_nil,
    or_false] at he
  rcases he with rfl | rfl | rfl | rfl <;> norm_num [unitTestPrefix, Simulator.fire]

/-- C1: within one call of `runSimulation`, started from a well-formed queue
none of whose events lies before the clock, the fire times of consecutively
dispatched events never decrease, every handler runs with the clock equal to
its own event's fire time, and the run never aborts on the assertion
`m_clock <= fireTime` of `dispatchEvent`.  The handlers are arbitrary: one that
schedules with a negative delay trips the assertion of `scheduleEvent` instead,
which ends the run. -/
theorem runSimulation_clock_monotone {σ : Type} (exec : Execute σ) (stopTime : SimTime)
    (fuel : ℕ) (s : Simulator) (w : σ) (hwf : s.WF) (hfuture : s.Future) :
    (Simulator.runSimulation exec stopTime fuel s w).1.Chain'
        (fun e1 e2 => e1.fireTime ≤ e2.fireTime) ∧
      (∀ d ∈ (Simulator.runSimulation exec stopTime fuel s w).1,
        d.clock = d.fireTime) ∧
      (Simulator.runSimulation exec stopTime fuel s w).2
        ≠ Outcome.aborted Fault.dispatchClockAhead := by
  obtain ⟨h1, h2, h3, -⟩ := runLoop_inv exec stopTime fuel s w hwf hfuture
  rw [runSimulation_trace]
  refine ⟨List.Pairwise.chain' h1, fun d hd => (h2 d hd).1, ?_⟩
  intro h
  have h' := runSimulation_aborted exec stopTime fuel s w _ h
  rw [h'] at h3
  simp [Outcome.NoClockFault] at h3

/-- Witness for C1: the run of the unit-test queue up to time 100. -/
theorem runSimulation_clock_monotone_witness :
    unitTestPrefix.WF ∧ unitTestPrefix.Future ∧
      ((Simulator.runSimulation dummyExecute 100 10 unitTestPrefix ()).1.Chain'
          (fun e1 e2 => e1.fireTime ≤ e2.fireTime) ∧
        (∀ d ∈ (Simulator.runSimulation dummyExecute 100 10 unitTestPrefix ()).1,
          d.clock = d.fireTime) ∧
        (Simulator.runSimulation dummyExecute 100 10 unitTestPrefix ()).2
          ≠ Outcome.aborted Fault.dispatchClockAhead) :=
  ⟨unitTestPrefix_WF, unitTestPrefix_Future,
    runSimulation_clock_monotone dummyExecute 100 10 unitTestPrefix ()
      unitTestPrefix_WF unitTestPrefix_Future⟩

/-- C3: `cancelEvent` on a queued event returns true, takes exactly that event
out of the queue (the others keep their relative order), clears its in-queue
flag, leaves the clock and every other event alone, and the event is not
dispatched by any later run as long as nobody schedules it again. -/
theorem cancelEvent_queued (s : Simulator) (e : EventId) (hwf : s.WF)
    (he : e ∈ s.m_eventPtrQueue) :
    (s.cancelEvent e).1 = true ∧
      (s.cancelEvent e).2.m_eventPtrQueue = s.m_eventPtrQueue.filter (fun i => i ≠ e) ∧
      (s.cancelEvent e).2.m_eventPtrQueue.length + 1 = s.m_eventPtrQueue.length ∧
      ((s.cancelEvent e).2.events e).inEventQueue = false ∧
      (∀ i, i ≠ e → (s.cancelEvent e).2.events i = s.events i) ∧
      (s.cancelEvent e).2.currentTime = s.currentTime ∧
      ∀ (σ : Type) (exec : Execute σ) (later : List KernelCall) (s2 : Simulator),
        (∀ e' s' w, ∀ c ∈ (exec e' s' w).2, ∀ d, c ≠ .scheduleEvent e d) →
        (∀ c ∈ later, ∀ d, c ≠ .scheduleEvent e d) →
        (s.cancelEvent e).2.calls later = .ok s2 →
        ∀ (stopTime : SimTime) (fuel : ℕ) (w : σ),
          e ∉ dispatched (Simulator.runSimulation exec stopTime fuel s2 w).1 := by
  obtain ⟨h1, h2, -, h4, h5, h6⟩ := cancelEvent_spec_mem s e hwf he
  have hnot : e ∉ (s.cancelEvent e).2.m_eventPtrQueue := by
    rw [h6]; exact hwf.nodup.not_mem_erase
  refine ⟨h1, ?_, ?_, ?_, h5, h2, ?_⟩
  · rw [h6, hwf.nodup.erase_eq_filter]
    congr 1
    funext i
    by_cases hi : i = e <;> simp [hi]
  · rw [h6, List.length_erase_of_mem he]
    have : 0 < s.m_eventPtrQueue.length := List.length_pos_of_mem he
    omega
  · rw [h4]; rfl
  · intro σ exec later s2 hexec hlater hcalls stopTime fuel w
    rw [runSimulation_trace]
    have hw1 : (s.cancelEvent e).2.WF := wf_cancelEvent hwf e
    exact runLoop_not_dispatched exec stopTime e hexec fuel s2 w (calls_WF hw1 hcalls)
      (calls_not_mem hw1 hcalls hnot hlater)

/-- Witness for C3: cancelling event 3 of the unit-test queue. -/
theorem cancelEvent_queued_witness :
    unitTestPrefix.WF ∧ 3 ∈ unitTestPrefix.m_eventPtrQueue ∧
      (unitTestPrefix.cancelEvent 3).1 = true ∧
      (unitTestPrefix.cancelEvent 3).2.m_eventPtrQueue
        = unitTestPrefix.m_eventPtrQueue.filter (fun i => i ≠ 3) ∧
      ((unitTestPrefix.cancelEvent 3).2.events 3).inEventQueue = false :=
  have h1 : (3 : EventId) ∈ unitTestPrefix.m_eventPtrQueue := by simp [unitTestPrefix]
  have h := cancelEvent_queued unitTestPrefix 3 unitTestPrefix_WF h1
  ⟨unitTestPrefix_WF, h1, h.1, h.2.1, h.2.2.2.1⟩

/-- C4: `scheduleEvent` on an event that is not queued, with a delay that is
not negative, returns true, sets the fire time to now plus the delay and the
in-queue flag, puts the event into the queue (once, the queue staying ordered),
and changes neither the clock nor any other event nor the order of the events
that were queued. -/
theorem scheduleEvent_not_queued (s : Simulator) (e : EventId) (delay : SimTime)
    (hwf : s.WF) (hq : (s.events e).inEventQueue = false) (hd : 0 ≤ delay) :
    ∃ s', s.scheduleEvent e delay = .ok (true, s') ∧
      (s'.events e).getFireTime = s.currentTime + delay ∧
      (s'.events e).inEventQueue = true ∧
      e ∈ s'.m_eventPtrQueue ∧
      s'.m_eventPtrQueue.filter (fun i => i ≠ e) = s.m_eventPtrQueue ∧
      s'.m_eventPtrQueue.length = s.m_eventPtrQueue.length + 1 ∧
      s'.WF ∧
      s'.currentTime = s.currentTime ∧
      (∀ i, i ≠ e → s'.events i = s.events i) := by
  obtain ⟨s', hs⟩ := scheduleEvent_isOk s e delay hq hd
  obtain ⟨-, hclock, -, he, hoth, hqueue⟩ := scheduleEvent_props hs
  have hne : e ∉ s.m_eventPtrQueue := wf_not_mem_of_flag hwf hq
  have hw' : s'.WF := wf_scheduleEvent hwf hs
  refine ⟨s', hs, ?_, ?_, ?_, ?_, ?_, hw', hclock, hoth⟩
  · rw [he]; rfl
  · rw [he]; rfl
  · rw [hqueue]; exact mem_multisetInsert.2 (Or.inl rfl)
  · have : s'.m_eventPtrQueue.erase e = s.m_eventPtrQueue := by
      rw [hqueue]; exact multisetInsert_erase hne
    rw [← this, hw'.nodup.erase_eq_filter]
    congr 1
    funext i
    by_cases hi : i = e <;> simp [hi]
  · rw [hqueue]; exact multisetInsert_length

/-- Witness for C4: scheduling the fresh event 4 on the unit-test queue. -/
theorem scheduleEvent_not_queued_witness :
    unitTestPrefix.WF ∧ (unitTestPrefix.events 4).inEventQueue = false ∧
      (0 : SimTime) ≤ 3 / 2 ∧
      ∃ s', unitTestPrefix.scheduleEvent 4 (3 / 2) = .ok (true, s') ∧
        (s'.events 4).getFireTime = unitTestPrefix.currentTime + 3 / 2 ∧
        (s'.events 4).inEventQueue = true ∧
        4 ∈ s'.m_eventPtrQueue :=
  have h2 : (unitTestPrefix.events 4).inEventQueue = false := by
    simp [unitTestPrefix, Event.inEventQueue, Event.create]
  have h3 : (0 : SimTime) ≤ 3 / 2 := by norm_num
  ⟨unitTestPrefix_WF, h2, h3,
    (scheduleEvent_not_queued unitTestPrefix 4 (3 / 2) unitTestPrefix_WF h2 h3).imp
      (fun _ h => ⟨h.1, h.2.1, h.2.2.1, h.2.2.2.1⟩)⟩


/-! ## Lemmas on the interference set -/

section MapLemmas

theorem mapFind_eq_none_iff (m : SignalStrengthMap) (k : SignalId) :
    mapFind m k = none ↔ k ∉ mapKeys m := by
  induction m with
  | nil => simp [mapFind, mapKeys]
  | cons kv rest ih =>
    obtain ⟨k', v⟩ := kv
    unfold mapFind
    by_cases h : k' = k
    · simp [h, mapKeys]
    · have h' : k ≠ k' := fun e => h e.symm
      simp only [h, if_false, ih, mapKeys, List.map_cons, List.mem_cons, not_or]
      exact ⟨fun hx => ⟨h', hx⟩, fun hx => hx.2⟩

theorem mapFind_mapErase (m : SignalStrengthMap) (k k' : SignalId) :
    mapFind (mapErase m k) k' = if k' = k then none else mapFind m k' := by
  induction m with
  | nil => simp [mapFind, mapErase]
  | cons kv rest ih =>
    obtain ⟨k0, v⟩ := kv
    unfold mapErase at ih ⊢
    by_cases h0 : k0 = k
    · subst h0
      simp only [List.filter_cons, ne_eq, not_true_eq_false, decide_False, Bool.false_eq_true,
        if_false, ih]
      by_cases h1 : k' = k0
      · simp [h1]
      · have : ¬ k0 = k' := fun e => h1 e.symm
        simp [h1, mapFind, this]
    · simp only [List.filter_cons, ne_eq, h0, not_false_eq_true, decide_True, if_true, mapFind]
      by_cases h1 : k0 = k'
      · subst h1
        simp [h0]
      · simp only [h1, if_false, ih]

theorem mapKeys_mapErase (m : SignalStrengthMap) (k : SignalId) :
    mapKeys (mapErase m k) = (mapKeys m).filter (fun i => i ≠ k) := by
  induction m with
  | nil => simp [mapKeys, mapErase]
  | cons kv rest ih =>
    obtain ⟨k0, v⟩ := kv
    unfold mapErase mapKeys at ih ⊢
    by_cases h0 : k0 = k
    · simp only [List.filter_cons, ne_eq, h0, not_true_eq_false, decide_False,
        Bool.false_eq_true, if_false, List.map_cons]
      exact ih
    · simp only [List.filter_cons, ne_eq, h0, not_false_eq_true, decide_True, if_true,
        List.map_cons]
      rw [ih]

theorem mapErase_sorted (m : SignalStrengthMap) (k : SignalId)
    (h : (mapKeys m).Pairwise (fun a b => a < b)) :
    (mapKeys (mapErase m k)).Pairwise (fun a b => a < b) := by
  rw [mapKeys_mapErase]
  exact h.sublist (List.filter_sublist _)

theorem not_mem_mapKeys_mapErase (m : SignalStrengthMap) (k : SignalId) :
    k ∉ mapKeys (mapErase m k) := by
  rw [mapKeys_mapErase]
  simp

theorem mapFind_mapInsert (m : SignalStrengthMap) (k k' : SignalId) (v : ℚ)
    (hk : k ∉ mapKeys m) :
    mapFind (mapInsert m k v) k' = if k' = k then some v else mapFind m k' := by
  induction m with
  | nil =>
    by_cases h : k = k'
    · simp [mapInsert, mapFind, h]
    · have : ¬ k' = k := fun e => h e.symm
      simp [mapInsert, mapFind, h, this]
  | cons kv rest ih =>
    obtain ⟨k0, v0⟩ := kv
    have hk0 : k ≠ k0 := fun e => hk (by simp [mapKeys, e])
    have hkr : k ∉ mapKeys rest := fun e => hk (by
      simp only [mapKeys, List.map_cons, List.mem_cons]
      exact Or.inr e)
    unfold mapInsert
    simp only [hk0, if_false]
    by_cases hlt : k < k0
    · simp only [hlt, if_true]
      by_cases h : k = k'
      · simp [mapFind, h]
      · have : ¬ k' = k := fun e => h e.symm
        simp [mapFind, h, this]
    · simp only [hlt, if_false, mapFind, ih hkr]
      by_cases h0 : k0 = k'
      · have : ¬ k' = k := fun e => hk0 (e.symm.trans h0.symm)
        simp [h0, this]
      · simp [h0]

theorem mapKeys_mapInsert_perm (m : SignalStrengthMap) (k : SignalId) (v : ℚ)
    (hk : k ∉ mapKeys m) : (mapInsert m k v).Perm ((k, v) :: m) := by
  induction m with
  | nil => simp [mapInsert]
  | cons kv rest ih =>
    obtain ⟨k0, v0⟩ := kv
    have hk0 : k ≠ k0 := fun e => hk (by simp [mapKeys, e])
    have hkr : k ∉ mapKeys rest := fun e => hk (by
      simp only [mapKeys, List.map_cons, List.mem_cons]
      exact Or.inr e)
    unfold mapInsert
    simp only [hk0, if_false]
    by_cases hlt : k < k0
    · simp [hlt]
    · simp only [hlt, if_false]
      exact (List.Perm.cons _ (ih hkr)).trans (List.Perm.swap _ _ _)

theorem mapInsert_sorted (m : SignalStrengthMap) (k : SignalId) (v : ℚ)
    (hk : k ∉ mapKeys m) (h : (mapKeys m).Pairwise (fun a b => a < b)) :
    (mapKeys (mapInsert m k v)).Pairwise (fun a b => a < b) := by
  induction m with
  | nil => simp [mapInsert, mapKeys]
  | cons kv rest ih =>
    obtain ⟨k0, v0⟩ := kv
    have hk0 : k ≠ k0 := fun e => hk (by simp [mapKeys, e])
    have hkr : k ∉ mapKeys rest := fun e => hk (by
      simp only [mapKeys, List.map_cons, List.mem_cons]
      exact Or.inr e)
    have h' := h
    simp only [mapKeys, List.map_cons, List.pairwise_cons] at h'
    unfold mapInsert
    simp only [hk0, if_false]
    by_cases hlt : k < k0
    · simp only [hlt, if_true, mapKeys, List.map_cons]
      refine List.Pairwise.cons ?_ h
      intro a ha
      rcases List.mem_cons.1 ha with rfl | ha
      · exact hlt
      · exact lt_trans hlt (h'.1 a ha)
    · simp only [hlt, if_false]
      have ih' := ih hkr h'.2
      have hgt : k0 < k := lt_of_le_of_ne (not_lt.1 hlt) (fun e => hk0 e.symm)
      show (k0 :: mapKeys (mapInsert rest k v)).Pairwise (fun a b => a < b)
      refine List.Pairwise.cons ?_ ih'
      intro a ha
      have hperm := (mapKeys_mapInsert_perm rest k v hkr).map Prod.fst
      have : a ∈ k :: mapKeys rest := hperm.subset ha
      rcases List.mem_cons.1 this with rfl | ha'
      · exact hgt
      · exact h'.1 a ha'

theorem culmulative_eq_sum (L : PhysicalLayer) :
    L.getCulmulativeSignalStrength = (L.m_signalStrengths.map Prod.snd).sum := by
  unfold PhysicalLayer.getCulmulativeSignalStrength
  have : ∀ (m : SignalStrengthMap) (acc : ℚ),
      m.foldl (fun c kv => c + kv.2) acc = acc + (m.map Prod.snd).sum := by
    intro m
    induction m with
    | nil => intro acc; simp
    | cons kv rest ih =>
      intro acc
      simp only [List.foldl_cons, ih, List.map_cons, List.sum_cons]
      ring
  rw [this]
  simp

/-- With distinct keys, the sum of the stored strengths is the sum over the
keys of what `find` returns. -/
theorem sum_eq_sum_find (m : SignalStrengthMap) (h : (mapKeys m).Nodup) :
    (m.map Prod.snd).sum = ((mapKeys m).map (fun k => (mapFind m k).getD 0)).sum := by
  induction m with
  | nil => simp [mapKeys]
  | cons kv rest ih =>
    obtain ⟨k0, v0⟩ := kv
    simp only [mapKeys, List.map_cons, List.nodup_cons] at h
    have hrest : (mapKeys rest).map (fun k => (mapFind ((k0, v0) :: rest) k).getD 0)
        = (mapKeys rest).map (fun k => (mapFind rest k).getD 0) := by
      apply List.map_congr_left
      intro k hk
      have : k0 ≠ k := fun e => h.1 (e ▸ hk)
      simp [mapFind, this]
    have ih' := ih h.2
    simp only [mapKeys, List.map_cons, List.sum_cons] at hrest ih' ⊢
    rw [hrest, ← ih']
    simp [mapFind]

end MapLemmas

/-! ## The claims on the kernel state and on the interference set -/

/-- C5, evaluated on the calls `main` makes (main.cpp): an event is scheduled
with delay 2 and the simulator is reset.  Afterwards the queue is empty, yet the
event still carries the in-queue flag: a timer on it reports that it is running,
`start` does not schedule it and `stop` finds nothing to cancel. -/
theorem reset_keeps_inEventQueue_flag :
    ∃ s, Simulator.instance.scheduleEvent 1 2 = .ok (true, s) ∧
      s.reset.m_eventPtrQueue = [] ∧
      (s.reset.events 1).inEventQueue = true ∧
      Timer.isRunning { m_eventOnFire := 1 } s.reset = true ∧
      Timer.start { m_eventOnFire := 1 } s.reset 2 = .ok (false, s.reset) ∧
      (Timer.stop { m_eventOnFire := 1 } s.reset).1 = false := by
  have hq : (Simulator.instance.events 1).m_inEventQueue = false := rfl
  obtain ⟨s, hs⟩ := scheduleEvent_isOk Simulator.instance 1 2 hq (by norm_num)
  obtain ⟨-, -, -, he, -, -⟩ := scheduleEvent_props hs
  have hflag : (s.reset.events 1).inEventQueue = true := by
    show (s.events 1).m_inEventQueue = true
    rw [he]
  have hrun : Timer.isRunning { m_eventOnFire := 1 } s.reset = true := hflag
  refine ⟨s, hs, rfl, hflag, hrun, ?_, ?_⟩
  · simp [Timer.start, hrun]
  · have : (1 : EventId) ∉ s.reset.m_eventPtrQueue := by simp [Simulator.reset]
    simp [Timer.stop, hrun, cancelEvent_spec_not_mem s.reset 1 this]

/-- C6: `captureSignal` is true exactly when the strength exceeds the receive
threshold and the ratio of the strength to cumulative strength plus noise floor
exceeds the capture threshold; a strength equal to the receive threshold does
not capture, nor does a ratio equal to the capture threshold. -/
theorem captureSignal_iff (L : PhysicalLayer) (s : ℚ) :
    (L.captureSignal s = true ↔
      (s > L.getRxThreshold ∧
        s / (L.getCulmulativeSignalStrength + L.getNoiseFloor) > L.getCaptureThreshold)) ∧
    ({ L with m_rxThreshold := s } : PhysicalLayer).captureSignal s = false ∧
    ({ L with m_captureThreshold :=
        s / (L.getCulmulativeSignalStrength + L.getNoiseFloor) } :
      PhysicalLayer).captureSignal s = false := by
  refine ⟨?_, ?_, ?_⟩
  · unfold PhysicalLayer.captureSignal
    by_cases h : s > L.getRxThreshold
    · simp [h]
    · simp [h]
  · simp [PhysicalLayer.captureSignal, PhysicalLayer.getRxThreshold]
  · simp [PhysicalLayer.captureSignal, PhysicalLayer.getCaptureThreshold,
      PhysicalLayer.getCulmulativeSignalStrength, PhysicalLayer.getNoiseFloor,
      PhysicalLayer.getBandwidth]

theorem interferenceRel_step (minimum : ℚ) (L : PhysicalLayer)
    (stored : SignalId → Option ℚ) (h : InterferenceRel minimum L stored)
    (c : SignalCall) :
    InterferenceRel minimum (L.signalCall c) (interferenceSpecStep minimum stored c) := by
  cases c with
  | addSignal signal x =>
    simp only [PhysicalLayer.signalCall, interferenceSpecStep, PhysicalLayer.addSignal,
      PhysicalLayer.getMinimumSignalStrength, h.minimum_eq]
    by_cases hx : x > minimum
    · simp only [hx, if_true, and_true]
      -- the map with the old entry of the signal, if any, erased
      have herase : ∀ m : SignalStrengthMap,
          m = (if (mapFind L.m_signalStrengths signal).isSome
            then mapErase L.m_signalStrengths signal else L.m_signalStrengths) →
          signal ∉ mapKeys m ∧ (mapKeys m).Pairwise (fun a b => a < b) ∧
          ∀ k, mapFind m k = if k = signal then none else stored k := by
        intro m hm
        by_cases hf : (mapFind L.m_signalStrengths signal).isSome
        · rw [if_pos hf] at hm
          subst hm
          refine ⟨not_mem_mapKeys_mapErase _ _, mapErase_sorted _ _ h.sorted, ?_⟩
          intro k
          rw [mapFind_mapErase, h.find]
        · rw [if_neg hf] at hm
          subst hm
          have hnone : mapFind L.m_signalStrengths signal = none := by
            simpa using hf
          refine ⟨(mapFind_eq_none_iff _ _).1 hnone, h.sorted, ?_⟩
          intro k
          by_cases hk : k = signal
          · rw [hk, hnone]; simp
          · simp [hk, h.find]
      obtain ⟨h1, h2, h3⟩ := herase _ rfl
      refine ⟨mapInsert_sorted _ _ _ h1 h2, ?_, ?_, rfl⟩
      · intro k
        rw [mapFind_mapInsert _ _ _ _ h1, h3]
        by_cases hk : k = signal <;> simp [hk]
      · intro k y hy
        by_cases hk : k = signal
        · simp only [hk, if_true, Option.some.injEq] at hy
          rw [← hy]; exact hx
        · simp only [hk, if_false] at hy
          exact h.above k y hy
    · simp only [hx, if_false, and_false]
      exact h
  | removeSignal signal =>
    simp only [PhysicalLayer.signalCall, interferenceSpecStep, PhysicalLayer.removeSignal]
    refine ⟨mapErase_sorted _ _ h.sorted, ?_, ?_, h.minimum_eq⟩
    · intro k
      rw [mapFind_mapErase, h.find]
    · intro k y hy
      by_cases hk : k = signal
      · simp [hk] at hy
      · simp only [hk, if_false] at hy
        exact h.above k y hy

theorem interferenceRel_calls (minimum : ℚ) (calls : List SignalCall) :
    ∀ (L : PhysicalLayer) (stored : SignalId → Option ℚ),
      InterferenceRel minimum L stored →
      InterferenceRel minimum (L.signalCalls calls)
        (calls.foldl (interferenceSpecStep minimum) stored) := by
  induction calls with
  | nil => intro L stored h; exact h
  | cons c cs ih =>
    intro L stored h
    exact ih _ _ (interferenceRel_step minimum L stored h c)

theorem interferenceSpec_removed (minimum : ℚ) (signal : SignalId)
    (later : List SignalCall) (hlater : ∀ c ∈ later, ∀ x, c ≠ .addSignal signal x) :
    ∀ stored : SignalId → Option ℚ, stored signal = none →
      later.foldl (interferenceSpecStep minimum) stored signal = none := by
  induction later with
  | nil => intro stored h; exact h
  | cons c cs ih =>
    intro stored h
    refine ih (fun c' hc' => hlater c' (List.mem_cons_of_mem _ hc')) _ ?_
    cases c with
    | addSignal sig x =>
      have hne : signal ≠ sig := fun e =>
        hlater (.addSignal sig x) (List.mem_cons_self _ _) x (by rw [e])
      simp [interferenceSpecStep, hne, h]
    | removeSignal sig =>
      by_cases hk : signal = sig <;> simp [interferenceSpecStep, hk, h]



theorem interferenceRel_init (L : PhysicalLayer) :
    InterferenceRel L.m_minimumSignalStrength
      ({ L with m_signalStrengths := [] } : PhysicalLayer) (fun _ => none) :=
  ⟨by simp [mapKeys], fun _ => rfl, fun _ _ h => (by cases h), rfl⟩

/-- C7: after any sequence of `addSignal` and `removeSignal` calls on a layer
that starts with an empty interference set, the map of the layer holds exactly
what the specification says is stored (a strength above the minimum, the last
one added since the last removal), no signal twice, and
`getCulmulativeSignalStrength` is the sum of the stored strengths; a signal that
has been removed is stored with no strength until it is added again. -/
theorem culmulative_strength_accounting (L : PhysicalLayer) (calls : List SignalCall) :
    (∀ k, mapFind (({ L with m_signalStrengths := [] } : PhysicalLayer).signalCalls
        calls).m_signalStrengths k = interferenceSpec L.m_minimumSignalStrength calls k) ∧
    (mapKeys (({ L with m_signalStrengths := [] } : PhysicalLayer).signalCalls
        calls).m_signalStrengths).Nodup ∧
    (∀ k, k ∈ mapKeys (({ L with m_signalStrengths := [] } : PhysicalLayer).signalCalls
        calls).m_signalStrengths ↔
      (interferenceSpec L.m_minimumSignalStrength calls k).isSome = true) ∧
    (({ L with m_signalStrengths := [] } : PhysicalLayer).signalCalls
        calls).getCulmulativeSignalStrength =
      ((mapKeys (({ L with m_signalStrengths := [] } : PhysicalLayer).signalCalls
          calls).m_signalStrengths).map
        (fun k => (interferenceSpec L.m_minimumSignalStrength calls k).getD 0)).sum ∧
    (∀ k x, interferenceSpec L.m_minimumSignalStrength calls k = some x →
      x > L.m_minimumSignalStrength) ∧
    (∀ (signal : SignalId) (later : List SignalCall),
      (∀ c ∈ later, ∀ x, c ≠ .addSignal signal x) →
      mapFind (({ L with m_signalStrengths := [] } : PhysicalLayer).signalCalls
        (calls ++ .removeSignal signal :: later)).m_signalStrengths signal = none) := by
  have hrel := interferenceRel_calls L.m_minimumSignalStrength calls _ _
    (interferenceRel_init L)
  have hnodup : (mapKeys (({ L with m_signalStrengths := [] } :
      PhysicalLayer).signalCalls calls).m_signalStrengths).Nodup :=
    hrel.sorted.imp (fun h => ne_of_lt h)
  refine ⟨hrel.find, hnodup, ?_, ?_, hrel.above, ?_⟩
  · intro k
    have h1 := mapFind_eq_none_iff (({ L with m_signalStrengths := [] } :
      PhysicalLayer).signalCalls calls).m_signalStrengths k
    rw [hrel.find k] at h1
    unfold interferenceSpec
    cases hs : List.foldl (interferenceSpecStep L.m_minimumSignalStrength)
        (fun _ => none) calls k with
    | none =>
      rw [hs] at h1
      simp [h1.1 rfl]
    | some x =>
      rw [hs] at h1
      simp only [Option.isSome_some, iff_true]
      by_contra hk
      have := h1.2 hk
      cases this
  · rw [culmulative_eq_sum, sum_eq_sum_find _ hnodup]
    congr 1
    apply List.map_congr_left
    intro k _
    rw [hrel.find k]
    rfl
  · intro signal later hlater
    have hrel2 := interferenceRel_calls L.m_minimumSignalStrength
      (calls ++ .removeSignal signal :: later) _ _ (interferenceRel_init L)
    rw [hrel2.find signal, List.foldl_append, List.foldl_cons]
    refine interferenceSpec_removed _ signal later hlater _ ?_
    simp [interferenceSpecStep]

/-! ## Lemmas on the pending signal -/

section PendingLemmas

theorem mapFind_addSignal (L : PhysicalLayer) (signal k : SignalId) (x : ℚ) :
    mapFind (L.addSignal signal x).m_signalStrengths k =
      if k = signal ∧ x > L.m_minimumSignalStrength then some x
      else mapFind L.m_signalStrengths k := by
  unfold PhysicalLayer.addSignal
  simp only [PhysicalLayer.getMinimumSignalStrength]
  by_cases hx : x > L.m_minimumSignalStrength
  · simp only [hx, if_true, and_true]
    by_cases hf : (mapFind L.m_signalStrengths signal).isSome
    · simp only [hf, if_true]
      rw [mapFind_mapInsert _ _ _ _ (not_mem_mapKeys_mapErase _ _), mapFind_mapErase]
      by_cases hk : k = signal <;> simp [hk]
    · have hnone : mapFind L.m_signalStrengths signal = none := by simpa using hf
      simp only [hnone, Option.isSome_none, Bool.false_eq_true, if_false]
      rw [mapFind_mapInsert _ _ _ _ ((mapFind_eq_none_iff _ _).1 hnone)]
  · simp only [hx, if_false, and_false]

theorem addSignal_fields (L : PhysicalLayer) (signal : SignalId) (x : ℚ) :
    (L.addSignal signal x).m_pendingRecvSignal = L.m_pendingRecvSignal ∧
    (L.addSignal signal x).m_pendingRecvSignalError = L.m_pendingRecvSignalError ∧
    (L.addSignal signal x).m_rxThreshold = L.m_rxThreshold ∧
    (L.addSignal signal x).m_minimumSignalStrength = L.m_minimumSignalStrength ∧
    (L.addSignal signal x).m_captureThreshold = L.m_captureThreshold ∧
    (L.addSignal signal x).subclass = L.subclass := by
  unfold PhysicalLayer.addSignal
  split <;> exact ⟨rfl, rfl, rfl, rfl, rfl, rfl⟩

theorem getPendingSignalStrength_ok (L : PhysicalLayer) (h : L.PendingFound) :
    ∃ x, L.getPendingSignalStrength = .ok x := by
  unfold PhysicalLayer.getPendingSignalStrength
  cases hp : L.m_pendingRecvSignal with
  | none => exact ⟨0, rfl⟩
  | some p =>
    have := h p hp
    cases hf : mapFind L.m_signalStrengths p with
    | none => rw [hf] at this; cases this
    | some x => exact ⟨x, by simp only [hf]⟩

theorem getPendingSignalSinr_ok (L : PhysicalLayer) (h : L.PendingFound) :
    ∃ x, L.getPendingSignalSinr = .ok x := by
  unfold PhysicalLayer.getPendingSignalSinr
  obtain ⟨y, hy⟩ := getPendingSignalStrength_ok L h
  cases hp : L.m_pendingRecvSignal with
  | none => exact ⟨0, rfl⟩
  | some p =>
    simp only [hy]
    exact ⟨_, rfl⟩

theorem pendingSignalIsWeak_ok (L : PhysicalLayer) (h : L.PendingFound) :
    ∃ b, L.pendingSignalIsWeak = .ok b := by
  unfold PhysicalLayer.pendingSignalIsWeak
  obtain ⟨y, hy⟩ := getPendingSignalStrength_ok L h
  obtain ⟨z, hz⟩ := getPendingSignalSinr_ok L h
  simp only [hy, hz]
  cases L.m_pendingRecvSignal with
  | none => exact ⟨_, rfl⟩
  | some p => exact ⟨_, rfl⟩

theorem addSignal_setPendingSignal (L : PhysicalLayer) (p signal : SignalId) (x : ℚ) :
    ((L.setPendingSignal p).addSignal signal x).m_signalStrengths
      = (L.addSignal signal x).m_signalStrengths := by
  unfold PhysicalLayer.addSignal
  simp only [PhysicalLayer.setPendingSignal, PhysicalLayer.getMinimumSignalStrength]
  split <;> rfl

/-- With the receive threshold not below the minimum strength, the update of a
listener whose pending signal is in its interference set does not fail, keeps
the pending signal in the interference set, and leaves the thresholds alone; the
interference set becomes what `addSignal` makes of it, and the signal becomes
the pending one only if `captureSignal` accepted it. -/
theorem listenerUpdate_ok (L : PhysicalLayer) (hasError : ℚ → SignalId → Bool)
    (signal : SignalId) (x : ℚ) (h : L.PendingFound)
    (hthr : L.m_minimumSignalStrength ≤ L.m_rxThreshold) :
    ∃ L', L.listenerUpdate hasError signal x = .ok L' ∧ L'.PendingFound ∧
      L'.m_rxThreshold = L.m_rxThreshold ∧
      L'.m_minimumSignalStrength = L.m_minimumSignalStrength ∧
      L'.location = L.location ∧
      L'.m_signalStrengths = (L.addSignal signal x).m_signalStrengths ∧
      (L'.m_pendingRecvSignal = some signal → L.m_pendingRecvSignal ≠ some signal →
        L.captureSignal x = true) := by
  -- the layer after `setPendingSignal` and `addSignal`
  have h2 : ∀ L2 : PhysicalLayer,
      L2 = ((if L.captureSignal x then L.setPendingSignal signal else L).addSignal signal x) →
      L2.PendingFound ∧ L2.m_rxThreshold = L.m_rxThreshold ∧
      L2.m_minimumSignalStrength = L.m_minimumSignalStrength ∧ L2.location = L.location ∧
      L2.m_signalStrengths = (L.addSignal signal x).m_signalStrengths ∧
      (L2.m_pendingRecvSignal = some signal → L.m_pendingRecvSignal ≠ some signal →
        L.captureSignal x = true) := by
    intro L2 hL2
    subst hL2
    by_cases hc : L.captureSignal x = true
    · simp only [hc, if_true]
      obtain ⟨f1, -, f3, f4, -, -⟩ := addSignal_fields (L.setPendingSignal signal) signal x
      refine ⟨?_, f3, f4, ?_, addSignal_setPendingSignal L signal signal x,
        fun _ _ => trivial⟩
      · intro p hp
        rw [f1] at hp
        have hps : p = signal := by
          simp only [PhysicalLayer.setPendingSignal, Option.some.injEq] at hp
          exact hp.symm
        have hgt : x > L.m_rxThreshold := ((captureSignal_iff L x).1.1 hc).1
        have hmin : x > (L.setPendingSignal signal).m_minimumSignalStrength :=
          lt_of_le_of_lt hthr hgt
        rw [mapFind_addSignal, hps]
        simp [hmin]
      · unfold PhysicalLayer.addSignal
        split <;> rfl
    · simp only [hc, Bool.false_eq_true, if_false]
      obtain ⟨f1, -, f3, f4, -, -⟩ := addSignal_fields L signal x
      refine ⟨?_, f3, f4, ?_, trivial, ?_⟩
      · intro p hp
        rw [f1] at hp
        rw [mapFind_addSignal]
        split
        · rfl
        · exact h p hp
      · unfold PhysicalLayer.addSignal
        split <;> rfl
      · intro hp hn
        rw [f1] at hp
        exact absurd hp hn
  obtain ⟨i1, i2, i3, i4, i5, i6⟩ := h2 _ rfl
  unfold PhysicalLayer.listenerUpdate
  simp only
  generalize ((if L.captureSignal x then L.setPendingSignal signal else L).addSignal
    signal x) = L2 at i1 i2 i3 i4 i5 i6 ⊢
  -- the layer after the weakness test
  have h3 : ∃ L3, (if L2.getPendingSignal ≠ some signal then
        match L2.pendingSignalIsWeak with
        | .error f => (.error f : Except Fault PhysicalLayer)
        | .ok isWeak => .ok (if isWeak then L2.resetPendingSignal else L2)
      else .ok L2) = .ok L3 ∧ L3.PendingFound ∧ L3.m_rxThreshold = L2.m_rxThreshold ∧
      L3.m_minimumSignalStrength = L2.m_minimumSignalStrength ∧
      L3.location = L2.location ∧ L3.m_signalStrengths = L2.m_signalStrengths ∧
      (L3.m_pendingRecvSignal = some signal → L2.m_pendingRecvSignal = some signal) := by
    by_cases hne : L2.getPendingSignal ≠ some signal
    · obtain ⟨b, hb⟩ := pendingSignalIsWeak_ok L2 i1
      rw [if_pos hne, hb]
      simp only
      cases b with
      | true =>
        refine ⟨_, rfl, ?_, rfl, rfl, rfl, rfl, ?_⟩
        · intro p hp
          simp [PhysicalLayer.resetPendingSignal] at hp
        · intro hp
          simp [PhysicalLayer.resetPendingSignal] at hp
      | false => exact ⟨_, rfl, i1, rfl, rfl, rfl, rfl, fun hp => hp⟩
    · rw [if_neg hne]
      exact ⟨_, rfl, i1, rfl, rfl, rfl, rfl, fun hp => hp⟩
  obtain ⟨L3, e3, j1, j2, j3, j4, j5, j6⟩ := h3
  rw [e3]
  simp only
  cases hp3 : L3.getPendingSignal with
  | none =>
    refine ⟨L3, rfl, j1, j2.trans i2, j3.trans i3, j4.trans i4, j5.trans i5, ?_⟩
    intro hp hn
    exact i6 (j6 hp) hn
  | some pending =>
    by_cases herr : L3.getPendingSignalError = true
    · simp only [herr, Bool.not_true, Bool.false_eq_true, if_false]
      refine ⟨L3, rfl, j1, j2.trans i2, j3.trans i3, j4.trans i4, j5.trans i5, ?_⟩
      intro hp hn
      exact i6 (j6 hp) hn
    · obtain ⟨sinr, hs⟩ := getPendingSignalSinr_ok L3 j1
      have herr' : L3.getPendingSignalError = false := by simpa using herr
      simp only [herr', Bool.not_false, if_true, hs]
      refine ⟨_, rfl, j1, j2.trans i2, j3.trans i3, j4.trans i4, j5.trans i5, ?_⟩
      intro hp hn
      exact i6 (j6 hp) hn

end PendingLemmas

/-! ## The claims on the channel manager -/

section ManagerLemmas

theorem setAt_same {α : Type} (f : ℕ → α) (i : ℕ) (v : α) : setAt f i v i = v := by
  simp [setAt]

theorem setAt_other {α : Type} (f : ℕ → α) {i j : ℕ} (v : α) (h : j ≠ i) :
    setAt f i v j = f j := by
  simp [setAt, h]

/-- What `recvdErrorFreeSignal` leaves alone: everything the signal bookkeeping
of the layers consists of, and the packets already sent upward. -/
theorem recvdErrorFreeSignal_spec (w : World) (receiver : PhyId)
    (signal : WirelessCommSignal) (x : ℚ) (hx : 0 < x) :
    ∃ w', w.recvdErrorFreeSignal receiver signal x = .ok w' ∧
      w'.sentUpward = w.sentUpward ∧ w'.signals = w.signals ∧ w'.sim = w.sim ∧
      (∀ L, (w'.layers L).m_signalStrengths = (w.layers L).m_signalStrengths ∧
        (w'.layers L).m_pendingRecvSignal = (w.layers L).m_pendingRecvSignal ∧
        (w'.layers L).m_pendingRecvSignalError = (w.layers L).m_pendingRecvSignalError ∧
        (w'.layers L).m_rxThreshold = (w.layers L).m_rxThreshold ∧
        (w'.layers L).m_minimumSignalStrength = (w.layers L).m_minimumSignalStrength) := by
  unfold World.recvdErrorFreeSignal
  cases hsub : (w.layers receiver).subclass with
  | reader a b c d =>
    exact ⟨w, rfl, rfl, rfl, rfl, fun L => ⟨rfl, rfl, rfl, rfl, rfl⟩⟩
  | tag a b c d =>
    simp only [gt_iff_lt, hx, not_true_eq_false, if_false]
    refine ⟨_, rfl, ?_, ?_, ?_, ?_⟩
    · simp [World.setSendingChannel, hsub]
    · simp [World.setSendingChannel, hsub]
    · simp [World.setSendingChannel, hsub]
    · intro L
      by_cases hL : L = receiver
      · subst hL
        simp [World.setSendingChannel, hsub, setAt]
      · simp [World.setSendingChannel, hsub, setAt, hL]

/-- What `passSignalToReceiver` does, when the assertions on its way hold. -/
theorem passSignalToReceiver_spec (w : World) (receiver : PhyId) (signal : SignalId)
    (indeterminate : Bool) (hfound : (w.layers receiver).PendingFound)
    (hpos : ∀ x, mapFind (w.layers receiver).m_signalStrengths signal = some x → 0 < x) :
    ∃ w', w.passSignalToReceiver receiver signal indeterminate = .ok w' ∧
      w'.sentUpward = w.sentUpward ++
        (if (w.layers receiver).m_pendingRecvSignal = some signal ∧
            (w.layers receiver).m_pendingRecvSignalError = false
          then [(receiver, (((w.signals signal).m_packetPtr.copy indeterminate).setHasError
            false).removeData .Physical)]
          else []) ∧
      (w'.layers receiver).m_signalStrengths
        = mapErase (w.layers receiver).m_signalStrengths signal ∧
      (w'.layers receiver).m_pendingRecvSignal
        = (if (w.layers receiver).m_pendingRecvSignal = some signal then none
          else (w.layers receiver).m_pendingRecvSignal) ∧
      (w'.layers receiver).m_pendingRecvSignalError
        = (if (w.layers receiver).m_pendingRecvSignal = some signal then false
          else (w.layers receiver).m_pendingRecvSignalError) ∧
      (∀ L, (w'.layers L).m_rxThreshold = (w.layers L).m_rxThreshold ∧
        (w'.layers L).m_minimumSignalStrength = (w.layers L).m_minimumSignalStrength) ∧
      (∀ L, L ≠ receiver →
        (w'.layers L).m_signalStrengths = (w.layers L).m_signalStrengths ∧
        (w'.layers L).m_pendingRecvSignal = (w.layers L).m_pendingRecvSignal ∧
        (w'.layers L).m_pendingRecvSignalError = (w.layers L).m_pendingRecvSignalError) := by
  unfold World.passSignalToReceiver
  by_cases hp : (w.layers receiver).m_pendingRecvSignal = some signal
  · have hp' : some signal = (w.layers receiver).getPendingSignal := hp.symm
    obtain ⟨x, hx⟩ := getPendingSignalStrength_ok _ hfound
    have hxpos : 0 < x := by
      apply hpos
      unfold PhysicalLayer.getPendingSignalStrength at hx
      rw [hp] at hx
      simp only at hx
      cases hf : mapFind (w.layers receiver).m_signalStrengths signal with
      | none => rw [hf] at hx; cases hx
      | some y =>
        rw [hf] at hx
        simp only [Except.ok.injEq] at hx
        rw [hx]
    rw [if_pos hp']
    simp only [hx]
    unfold World.recvPendingSignal
    by_cases herr : (w.layers receiver).m_pendingRecvSignalError = true
    · simp only [Packet.getHasError, Packet.setHasError, herr, Bool.not_true,
        Bool.false_eq_true, if_false]
      refine ⟨_, rfl, ?_, ?_, ?_, ?_, ?_, ?_⟩
      · simp [hp, herr]
      · simp [setAt, PhysicalLayer.removeSignal, PhysicalLayer.resetPendingSignal]
      · simp [setAt, PhysicalLayer.removeSignal, PhysicalLayer.resetPendingSignal, hp]
      · simp [setAt, PhysicalLayer.removeSignal, PhysicalLayer.resetPendingSignal, hp]
      · intro L
        by_cases hL : L = receiver
        · subst hL
          simp [setAt, PhysicalLayer.removeSignal, PhysicalLayer.resetPendingSignal]
        · simp [setAt, hL]
      · intro L hL
        simp [setAt, hL]
    · have herr' : (w.layers receiver).m_pendingRecvSignalError = false := by
        simpa using herr
      obtain ⟨w1, e1, s1, -, -, l1⟩ := recvdErrorFreeSignal_spec w receiver
        ((w.signals signal).copy indeterminate) x hxpos
      simp only [Packet.getHasError, Packet.setHasError, herr', Bool.not_false, if_true, e1]
      refine ⟨_, rfl, ?_, ?_, ?_, ?_, ?_, ?_⟩
      · simp [hp, s1, WirelessCommSignal.copy, Packet.setHasError]
      · simp [setAt, PhysicalLayer.removeSignal, PhysicalLayer.resetPendingSignal,
          (l1 receiver).1]
      · simp [setAt, PhysicalLayer.removeSignal, PhysicalLayer.resetPendingSignal, hp]
      · simp [setAt, PhysicalLayer.removeSignal, PhysicalLayer.resetPendingSignal, hp]
      · intro L
        by_cases hL : L = receiver
        · subst hL
          simp [setAt, PhysicalLayer.removeSignal, PhysicalLayer.resetPendingSignal,
            (l1 L).2.2.2]
        · simp [setAt, hL, (l1 L).2.2.2]
      · intro L hL
        simp [setAt, hL, (l1 L).1, (l1 L).2.1, (l1 L).2.2.1]
  · have hp' : ¬ (some signal = (w.layers receiver).getPendingSignal) :=
      fun e => hp e.symm
    rw [if_neg hp']
    refine ⟨_, rfl, ?_, ?_, ?_, ?_, ?_, ?_⟩
    · simp [hp]
    · simp [setAt, PhysicalLayer.removeSignal]
    · simp [setAt, PhysicalLayer.removeSignal, hp]
    · simp [setAt, PhysicalLayer.removeSignal, hp]
    · intro L
      by_cases hL : L = receiver
      · subst hL
        simp [setAt, PhysicalLayer.removeSignal]
      · simp [setAt, hL]
    · intro L hL
      simp [setAt, hL]

end ManagerLemmas

section WorldLemmas

theorem listenerUpdate_sound (L : PhysicalLayer) (hasError : ℚ → SignalId → Bool)
    (signal : SignalId) (x : ℚ) (h : L.Sound) :
    ∃ L', L.listenerUpdate hasError signal x = .ok L' ∧ L'.Sound ∧
      L'.location = L.location := by
  obtain ⟨L', e, f1, f2, f3, f4, f5, -⟩ :=
    listenerUpdate_ok L hasError signal x h.found h.minimum_le
  refine ⟨L', e, ⟨f1, ?_, ?_, ?_⟩, f4⟩
  · rw [f3]; exact h.minimum_pos
  · rw [f3, f2]; exact h.minimum_le
  · intro k y hy
    rw [f5, mapFind_addSignal] at hy
    rw [f3]
    split at hy
    · rename_i hc
      simp only [Option.some.injEq] at hy
      rw [← hy]; exact hc.2
    · exact h.above k y hy

theorem propagationDelay_congr (env : Medium) (w w' : World) (sender receiver : PhyId)
    (h : ∀ L, (w'.layers L).location = (w.layers L).location) :
    w'.propagationDelay env sender receiver = w.propagationDelay env sender receiver := by
  simp [World.propagationDelay, h]

theorem propagationDelay_nonneg (env : Medium) (w : World) (sender receiver : PhyId)
    (hsqrt : ∀ q, 0 ≤ env.sqrt q) : 0 ≤ w.propagationDelay env sender receiver := by
  unfold World.propagationDelay Location.distance SPEED_OF_LIGHT
  exact div_nonneg (hsqrt _) (by norm_num)

/-- One pass through the body of the listener loop, for a listener that is not
the sender. -/
theorem sendSignalToListener_spec (env : Medium) (w : World) (sender : PhyId)
    (signal : SignalId) (channel : ChannelPtr) (t : SimTime) (listener : PhyId)
    (hne : listener ≠ sender) (hs : w.Sound)
    (hdelay : 0 ≤ t + w.propagationDelay env sender listener) :
    ∃ w', w.sendSignalToListener env sender signal channel t listener = .ok w' ∧
      World.Scheduled env sender signal t w w' [listener] := by
  unfold World.sendSignalToListener
  rw [if_pos hne]
  obtain ⟨L', e, hL', hloc⟩ := listenerUpdate_sound (w.layers listener)
    (fun sinr pending => env.signalHasError channel sinr (w.signals pending)) signal
    (env.getRecvdStrength channel (w.signals signal) listener (w.layers listener)
      w.sim.currentTime) (hs listener)
  simp only [e]
  have hlocs : ∀ L, (setAt w.layers listener L' L).location = (w.layers L).location := by
    intro L
    by_cases hL : L = listener
    · subst hL; rw [setAt_same]; exact hloc
    · rw [setAt_other _ _ hL]
  have hpd : ∀ (wx : World), wx.layers = setAt w.layers listener L' →
      wx.propagationDelay env sender listener = w.propagationDelay env sender listener := by
    intro wx hwx
    apply propagationDelay_congr
    intro L
    rw [hwx]; exact hlocs L
  simp only [World.newSignalEndEvent]
  rw [hpd _ rfl]
  have hflag : ((setEvent w.sim.events w.nextEventPtr Event.create) w.nextEventPtr).m_inEventQueue
      = false := by
    rw [setEvent_same]; rfl
  obtain ⟨sim', hsim⟩ := scheduleEvent_isOk
    ({ w.sim with events := setEvent w.sim.events w.nextEventPtr Event.create } : Simulator)
    w.nextEventPtr (t + w.propagationDelay env sender listener) hflag hdelay
  obtain ⟨-, p2, -, p4, p5, p6⟩ := scheduleEvent_props hsim
  simp only [hsim]
  refine ⟨_, rfl, ?_⟩
  refine ⟨rfl, ?_, ?_, ?_, p2, rfl, rfl, fun _ => rfl, ?_, hlocs, ?_⟩
  · simp only [List.length_singleton, List.range'_one, List.map_cons, List.map_nil,
      setAt_same, p4]
  · intro e' he'
    have hne' : e' ≠ w.nextEventPtr := ne_of_lt he'
    refine ⟨setAt_other _ _ hne', ?_⟩
    rw [p5 e' hne']
    exact setEvent_other _ _ hne'
  · simp only [List.length_singleton, List.range'_one]
    rw [p6]
    exact multisetInsert_perm.trans (List.perm_append_singleton _ _).symm
  · exact setAt_other _ _ (fun h => hne h.symm)
  · intro L
    by_cases hL : L = listener
    · subst hL
      show (setAt w.layers L L' L).Sound
      rw [setAt_same]; exact hL'
    · show (setAt w.layers listener L' L).Sound
      rw [setAt_other _ _ hL]; exact hs L

theorem scheduled_refl (env : Medium) (sender : PhyId) (signal : SignalId) (t : SimTime)
    (w : World) (hs : w.Sound) : World.Scheduled env sender signal t w w [] :=
  ⟨rfl, rfl, fun _ _ => ⟨rfl, rfl⟩, by simp, rfl, rfl, rfl, fun _ => rfl, rfl,
    fun _ => rfl, hs⟩

theorem scheduled_trans (env : Medium) (sender : PhyId) (signal : SignalId) (t : SimTime)
    (w w1 w2 : World) (ts1 ts2 : List PhyId)
    (h1 : World.Scheduled env sender signal t w w1 ts1)
    (h2 : World.Scheduled env sender signal t w1 w2 ts2) :
    World.Scheduled env sender signal t w w2 (ts1 ++ ts2) := by
  have hsplit : List.range' w.nextEventPtr (ts1 ++ ts2).length
      = List.range' w.nextEventPtr ts1.length
        ++ List.range' w1.nextEventPtr ts2.length := by
    rw [List.length_append, h1.next, Nat.add_comm ts1.length ts2.length,
      ← List.range'_append_1]
  refine ⟨?_, ?_, ?_, ?_, h2.clock.trans h1.clock, h2.manager.trans h1.manager,
    h2.sentUpward.trans h1.sentUpward, fun i => (h2.duration i).trans (h1.duration i),
    h2.sender_eq.trans h1.sender_eq, fun L => (h2.locations L).trans (h1.locations L),
    h2.sound⟩
  · rw [h2.next, h1.next, List.length_append, Nat.add_assoc]
  · rw [hsplit, List.map_append, List.map_append]
    congr 1
    · rw [← h1.records]
      apply List.map_congr_left
      intro e he
      have hlt : e < w1.nextEventPtr := by
        rw [h1.next]
        have := (List.mem_range'_1.1 he).2
        exact this
      rw [(h2.below e hlt).1, (h2.below e hlt).2]
    · rw [h2.records]
      apply List.map_congr_left
      intro L _
      rw [h1.clock, propagationDelay_congr env w w1 sender L h1.locations]
  · intro e he
    have hlt : e < w1.nextEventPtr := by
      rw [h1.next]; exact Nat.lt_of_lt_of_le he (Nat.le_add_right _ _)
    exact ⟨(h2.below e hlt).1.trans (h1.below e he).1,
      (h2.below e hlt).2.trans (h1.below e he).2⟩
  · rw [hsplit, ← List.append_assoc]
    exact h2.queue.trans (List.Perm.append_right _ h1.queue)

/-- The listener loop of `sendSignalOnChannel`: one event for each listener
that is not the sender. -/
theorem sendSignalToListeners_spec (env : Medium) (sender : PhyId) (signal : SignalId)
    (channel : ChannelPtr) (t : SimTime) (ht : 0 ≤ t) (hsqrt : ∀ q, 0 ≤ env.sqrt q) :
    ∀ (listeners : List PhyId) (w : World), w.Sound →
      ∃ w', World.sendSignalToListeners env sender signal channel t listeners w = .ok w' ∧
        World.Scheduled env sender signal t w w'
          (listeners.filter (fun L => L ≠ sender)) := by
  intro listeners
  induction listeners with
  | nil =>
    intro w hs
    exact ⟨w, rfl, scheduled_refl env sender signal t w hs⟩
  | cons listener rest ih =>
    intro w hs
    unfold World.sendSignalToListeners
    by_cases hne : listener ≠ sender
    · obtain ⟨w1, e1, s1⟩ := sendSignalToListener_spec env w sender signal channel t
        listener hne hs (add_nonneg ht (propagationDelay_nonneg env w sender listener hsqrt))
      obtain ⟨w2, e2, s2⟩ := ih w1 s1.sound
      simp only [e1, e2]
      refine ⟨w2, rfl, ?_⟩
      have := scheduled_trans env sender signal t w w1 w2 _ _ s1 s2
      simpa [List.filter_cons, hne] using this
    · have heq : listener = sender := by simpa using hne
      have e1 : w.sendSignalToListener env sender signal channel t listener = .ok w := by
        unfold World.sendSignalToListener
        rw [if_neg hne]
      obtain ⟨w2, e2, s2⟩ := ih w hs
      simp only [e1, e2]
      refine ⟨w2, rfl, ?_⟩
      simpa [List.filter_cons, heq] using s2

/-- The method `sendSignalOnChannel` for a channel that the manager knows under
exactly one id. -/
theorem sendSignalOnChannel_spec (env : Medium) (w : World) (sender : PhyId)
    (signal : SignalId) (channel : ChannelPtr) (t : SimTime)
    (ht : (w.signals signal).getDuration = t) (ht0 : 0 ≤ t)
    (hsqrt : ∀ q, 0 ≤ env.sqrt q) (hs : w.Sound)
    (hid : ∃ channelId, w.manager.getChannelId channel = .ok channelId) :
    ∃ w', w.sendSignalOnChannel env sender signal channel = .ok w' ∧
      World.Scheduled env sender signal t w w'
        ((w.manager.listenersOf channel).filter (fun L => L ≠ sender)) := by
  obtain ⟨channelId, hid⟩ := hid
  unfold World.sendSignalOnChannel
  simp only [hid, ht]
  obtain ⟨w', e, h⟩ := sendSignalToListeners_spec env sender signal channel t ht0 hsqrt
    (w.manager.listenersOf channel)
    ({ w with signals := setAt w.signals signal ((w.signals signal).setChannelId channelId) } :
      World) hs
  refine ⟨w', e, ?_⟩
  refine ⟨h.next, h.records, h.below, h.queue, h.clock, h.manager, h.sentUpward, ?_,
    h.sender_eq, h.locations, h.sound⟩
  intro i
  rw [h.duration i]
  by_cases hi : i = signal
  · subst hi
    show (setAt w.signals i ((w.signals i).setChannelId channelId) i).getDuration = _
    rw [setAt_same]
    rfl
  · show (setAt w.signals signal ((w.signals signal).setChannelId channelId) i).getDuration = _
    rw [setAt_other _ _ hi]

/-- The channel loop of `recvSignal`. -/
theorem sendSignalOnChannels_spec (env : Medium) (sender : PhyId) (signal : SignalId)
    (t : SimTime) (ht0 : 0 ≤ t) (hsqrt : ∀ q, 0 ≤ env.sqrt q) :
    ∀ (channels : List ChannelPtr) (w : World), w.Sound →
      (w.signals signal).getDuration = t →
      (∀ channel ∈ channels, ∃ channelId, w.manager.getChannelId channel = .ok channelId) →
      ∃ w', World.sendSignalOnChannels env sender signal channels w = .ok w' ∧
        World.Scheduled env sender signal t w w'
          (channels.flatMap
            (fun channel => (w.manager.listenersOf channel).filter (fun L => L ≠ sender))) := by
  intro channels
  induction channels with
  | nil =>
    intro w hs _ _
    exact ⟨w, rfl, scheduled_refl env sender signal t w hs⟩
  | cons channel rest ih =>
    intro w hs ht hid
    unfold World.sendSignalOnChannels
    obtain ⟨w1, e1, s1⟩ := sendSignalOnChannel_spec env w sender signal channel t ht ht0
      hsqrt hs (hid channel (List.mem_cons_self _ _))
    have hid' : ∀ c ∈ rest, ∃ channelId, w1.manager.getChannelId c = .ok channelId := by
      intro c hc
      rw [s1.manager]
      exact hid c (List.mem_cons_of_mem _ hc)
    obtain ⟨w2, e2, s2⟩ := ih w1 s1.sound ((s1.duration signal).trans ht) hid'
    simp only [e1, e2]
    refine ⟨w2, rfl, ?_⟩
    have := scheduled_trans env sender signal t w w1 w2 _ _ s1 s2
    rw [s1.manager] at this
    simpa [List.flatMap_cons] using this

theorem scheduleEvent_error_cases {s : Simulator} {e : EventId} {d : SimTime} {f : Fault}
    (h : s.scheduleEvent e d = .error f) :
    f = .scheduleQueuedEvent ∨ f = .scheduleNegativeDelay := by
  have : s.call (.scheduleEvent e d) = .error f := by
    simp [Simulator.call, h, Except.map]
  exact call_error_cases this

theorem getChannelIdLoop_error (channel : ChannelPtr) :
    ∀ (l : List (ℕ × ChannelPtr)) (b : Bool) (n : ℕ) (f : Fault),
      getChannelIdLoop channel l b n = .error f → f = .channelIdNotUnique := by
  intro l
  induction l with
  | nil => intro b n f h; simp [getChannelIdLoop] at h
  | cons p rest ih =>
    intro b n f h
    unfold getChannelIdLoop at h
    split at h
    · split at h
      · simpa using h.symm
      · exact ih _ _ _ h
    · exact ih _ _ _ h

theorem getChannelId_error (m : WirelessChannelManager) (channel : ChannelPtr) (f : Fault)
    (h : m.getChannelId channel = .error f) : f = .channelIdNotUnique := by
  unfold WirelessChannelManager.getChannelId at h
  cases hl : getChannelIdLoop channel m.m_channels false 0 with
  | error g =>
    rw [hl] at h
    have : g = f := by simpa using h
    rw [← this]
    exact getChannelIdLoop_error channel _ _ _ _ hl
  | ok r =>
    rw [hl] at h
    obtain ⟨b, n⟩ := r
    simp only at h
    split at h
    · cases h
    · simpa using h.symm

theorem sendSignalToListener_sound (env : Medium) (w : World) (sender : PhyId)
    (signal : SignalId) (channel : ChannelPtr) (t : SimTime) (listener : PhyId)
    (hs : w.Sound) :
    FoundOr World.Sound (w.sendSignalToListener env sender signal channel t listener) := by
  by_cases hne : listener ≠ sender
  · unfold World.sendSignalToListener
    rw [if_pos hne]
    obtain ⟨L', e, hL', -⟩ := listenerUpdate_sound (w.layers listener)
      (fun sinr pending => env.signalHasError channel sinr (w.signals pending)) signal
      (env.getRecvdStrength channel (w.signals signal) listener (w.layers listener)
        w.sim.currentTime) (hs listener)
    simp only [e]
    split
    · rename_i f hf
      rcases scheduleEvent_error_cases hf with rfl | rfl <;> simp [FoundOr]
    · intro L
      by_cases hL : L = listener
      · subst hL
        show (setAt w.layers L L' L).Sound
        rw [setAt_same]; exact hL'
      · show (setAt w.layers listener L' L).Sound
        rw [setAt_other _ _ hL]; exact hs L
  · unfold World.sendSignalToListener
    rw [if_neg hne]
    exact hs

theorem sendSignalToListeners_sound (env : Medium) (sender : PhyId) (signal : SignalId)
    (channel : ChannelPtr) (t : SimTime) :
    ∀ (listeners : List PhyId) (w : World), w.Sound →
      FoundOr World.Sound
        (World.sendSignalToListeners env sender signal channel t listeners w) := by
  intro listeners
  induction listeners with
  | nil => intro w hs; exact hs
  | cons listener rest ih =>
    intro w hs
    unfold World.sendSignalToListeners
    have h1 := sendSignalToListener_sound env w sender signal channel t listener hs
    cases e1 : w.sendSignalToListener env sender signal channel t listener with
    | error f => rw [e1] at h1; exact h1
    | ok w1 => rw [e1] at h1; exact ih w1 h1

theorem sendSignalOnChannel_sound (env : Medium) (w : World) (sender : PhyId)
    (signal : SignalId) (channel : ChannelPtr) (hs : w.Sound) :
    FoundOr World.Sound (w.sendSignalOnChannel env sender signal channel) := by
  unfold World.sendSignalOnChannel
  cases hid : w.manager.getChannelId channel with
  | error f =>
    have := getChannelId_error _ _ _ hid
    simp [FoundOr, this]
  | ok channelId =>
    exact sendSignalToListeners_sound env sender signal channel _ _ _ hs

theorem recvSignal_sound (env : Medium) (sender : PhyId) (signal : SignalId)
    (w : World) (hs : w.Sound) : FoundOr World.Sound (w.recvSignal env sender signal) := by
  unfold World.recvSignal
  generalize w.manager.channelsOf sender = channels
  induction channels generalizing w with
  | nil => exact hs
  | cons channel rest ih =>
    unfold World.sendSignalOnChannels
    have h1 := sendSignalOnChannel_sound env w sender signal channel hs
    cases e1 : w.sendSignalOnChannel env sender signal channel with
    | error f => rw [e1] at h1; exact h1
    | ok w1 => rw [e1] at h1; exact ih w1 h1

theorem passSignalToReceiver_sound (w : World) (receiver : PhyId) (signal : SignalId)
    (indeterminate : Bool) (hs : w.Sound) :
    ∃ w', w.passSignalToReceiver receiver signal indeterminate = .ok w' ∧ w'.Sound := by
  have hpos : ∀ x, mapFind (w.layers receiver).m_signalStrengths signal = some x → 0 < x :=
    fun x hx => lt_trans (hs receiver).minimum_pos ((hs receiver).above signal x hx)
  obtain ⟨w', e, -, h2, h3, -, h5, h6⟩ :=
    passSignalToReceiver_spec w receiver signal indeterminate (hs receiver).found hpos
  refine ⟨w', e, ?_⟩
  intro L
  by_cases hL : L = receiver
  · subst hL
    refine ⟨?_, ?_, ?_, ?_⟩
    · intro p hp
      rw [h3] at hp
      by_cases hpend : (w.layers L).m_pendingRecvSignal = some signal
      · rw [if_pos hpend] at hp; cases hp
      · rw [if_neg hpend] at hp
        have hne : p ≠ signal := fun e => hpend (e ▸ hp)
        rw [h2, mapFind_mapErase, if_neg hne]
        exact (hs L).found p hp
    · rw [(h5 L).2]; exact (hs L).minimum_pos
    · rw [(h5 L).2, (h5 L).1]; exact (hs L).minimum_le
    · intro k y hy
      rw [h2, mapFind_mapErase] at hy
      rw [(h5 L).2]
      split at hy
      · cases hy
      · exact (hs L).above k y hy
  · obtain ⟨m1, m2, -⟩ := h6 L hL
    refine ⟨?_, ?_, ?_, ?_⟩
    · intro p hp
      rw [m2] at hp
      rw [m1]
      exact (hs L).found p hp
    · rw [(h5 L).2]; exact (hs L).minimum_pos
    · rw [(h5 L).2, (h5 L).1]; exact (hs L).minimum_le
    · intro k y hy
      rw [m1] at hy
      rw [(h5 L).2]
      exact (hs L).above k y hy

theorem reachable_sound (env : Medium) (w0 w : World) (h0 : w0.Sound)
    (hreach : World.Reachable env w0 w) : w.Sound := by
  induction hreach with
  | start => exact h0
  | recvSignal sender signal _ hstep ih =>
    have := recvSignal_sound env sender signal _ ih
    rw [hstep] at this
    exact this
  | passSignalToReceiver receiver signal indeterminate _ hstep ih =>
    obtain ⟨w', e, hs⟩ := passSignalToReceiver_sound _ receiver signal indeterminate ih
    rw [hstep] at e
    cases e
    exact hs

end WorldLemmas

/-- How `assert(wasFound)` comes to fail: a signal that `captureSignal` accepts
but whose strength does not exceed the minimum becomes the pending signal without
being stored. -/
theorem listenerUpdate_not_found (L : PhysicalLayer) (hasError : ℚ → SignalId → Bool)
    (signal : SignalId) (x : ℚ) (hcap : L.captureSignal x = true)
    (hmin : ¬ (x > L.m_minimumSignalStrength))
    (hnone : mapFind L.m_signalStrengths signal = none)
    (herr : L.m_pendingRecvSignalError = false) :
    L.listenerUpdate hasError signal x = .error .pendingSignalNotFound := by
  have hadd : (L.setPendingSignal signal).addSignal signal x = L.setPendingSignal signal := by
    unfold PhysicalLayer.addSignal
    have : ¬ (x > (L.setPendingSignal signal).getMinimumSignalStrength) := hmin
    rw [if_neg this]
  unfold PhysicalLayer.listenerUpdate
  simp only [hcap, if_true, hadd]
  have hp : (L.setPendingSignal signal).getPendingSignal = some signal := rfl
  have he : (L.setPendingSignal signal).getPendingSignalError = false := herr
  have hs : (L.setPendingSignal signal).getPendingSignalSinr
      = .error .pendingSignalNotFound := by
    unfold PhysicalLayer.getPendingSignalSinr PhysicalLayer.getPendingSignalStrength
    have h1 : (L.setPendingSignal signal).m_pendingRecvSignal = some signal := rfl
    have h2 : mapFind (L.setPendingSignal signal).m_signalStrengths signal = none := hnone
    simp only [h1, h2]
  simp only [hp, ne_eq, not_true_eq_false, if_false, he, Bool.not_false, if_true, hs]

/-- C8, evaluated on a tag whose thresholds are all positive, as the setters
`setRxThreshold` and `setMinimumSignalStrength` assert, with the receive
threshold (1) below the minimum signal strength (5), before any signal has been
received.  A signal of strength 3 is captured and becomes the pending signal,
`addSignal` does not store it, so the pending signal is not a key of the
interference set, and `recvSignal` fails on the assertion `wasFound` of
`getPendingSignalStrength`. -/
theorem pending_signal_not_found :
    (∀ L, 0 < (lowThresholdWorld.layers L).m_rxThreshold ∧
      0 < (lowThresholdWorld.layers L).m_captureThreshold ∧
      0 < (lowThresholdWorld.layers L).m_minimumSignalStrength ∧
      (lowThresholdWorld.layers L).m_signalStrengths = [] ∧
      (lowThresholdWorld.layers L).m_pendingRecvSignal = none) ∧
    (lowThresholdWorld.layers 1).captureSignal 3 = true ∧
    ((((lowThresholdWorld.layers 1).setPendingSignal 7).addSignal 7 3).m_pendingRecvSignal
      = some 7) ∧
    7 ∉ mapKeys
      (((lowThresholdWorld.layers 1).setPendingSignal 7).addSignal 7 3).m_signalStrengths ∧
    lowThresholdWorld.recvSignal (constantMedium 3) 0 7
      = .error .pendingSignalNotFound := by
  refine ⟨?_, ?_, ?_, ?_, ?_⟩
  · intro L
    by_cases hL : L = 1
    · subst hL
      norm_num [lowThresholdWorld, PhysicalLayer.create]
    · norm_num [lowThresholdWorld, PhysicalLayer.create, hL]
  · norm_num [lowThresholdWorld, PhysicalLayer.create, PhysicalLayer.captureSignal,
      PhysicalLayer.getRxThreshold, PhysicalLayer.getCulmulativeSignalStrength,
      PhysicalLayer.getNoiseFloor, PhysicalLayer.getBandwidth,
      PhysicalLayer.getCaptureThreshold, m_RADIO_NOISE_FACTOR, m_BOLTZMANNS_CONSTANT,
      m_RADIO_TEMPERATURE]
  · norm_num [lowThresholdWorld, PhysicalLayer.create, PhysicalLayer.addSignal,
      PhysicalLayer.setPendingSignal, PhysicalLayer.getMinimumSignalStrength]
  · norm_num [lowThresholdWorld, PhysicalLayer.create, PhysicalLayer.addSignal,
      PhysicalLayer.setPendingSignal, PhysicalLayer.getMinimumSignalStrength, mapKeys]
  · have hch : lowThresholdWorld.manager.channelsOf 0 = [10, 11] := by decide
    have hls : lowThresholdWorld.manager.listenersOf 10 = [1] := by decide
    have hid : lowThresholdWorld.manager.getChannelId 10 = .ok 0 := rfl
    have hcap : (lowThresholdWorld.layers 1).captureSignal 3 = true := by
      norm_num [lowThresholdWorld, PhysicalLayer.create, PhysicalLayer.captureSignal,
        PhysicalLayer.getRxThreshold, PhysicalLayer.getCulmulativeSignalStrength,
        PhysicalLayer.getNoiseFloor, PhysicalLayer.getBandwidth,
        PhysicalLayer.getCaptureThreshold, m_RADIO_NOISE_FACTOR, m_BOLTZMANNS_CONSTANT,
        m_RADIO_TEMPERATURE]
    have hmin : ¬ ((3 : ℚ) > (lowThresholdWorld.layers 1).m_minimumSignalStrength) := by
      norm_num [lowThresholdWorld, PhysicalLayer.create]
    have hlayer : ∀ h : ℚ → SignalId → Bool,
        (lowThresholdWorld.layers 1).listenerUpdate h 7 3 = .error .pendingSignalNotFound :=
      fun h => listenerUpdate_not_found _ h 7 3 hcap hmin rfl rfl
    have h1 : lowThresholdWorld.sendSignalOnChannel (constantMedium 3) 0 7 10
        = .error .pendingSignalNotFound := by
      unfold World.sendSignalOnChannel
      simp only [hid, hls, World.sendSignalToListeners, World.sendSignalToListener]
      rw [if_pos (by decide)]
      exact (by rw [show ∀ (a : ChannelPtr) (b : WirelessCommSignal) (c : PhyId)
        (d : PhysicalLayer) (e : SimTime), (constantMedium 3).getRecvdStrength a b c d e = 3
        from fun _ _ _ _ _ => rfl]; rw [hlayer])
    unfold World.recvSignal
    rw [hch]
    simp only [World.sendSignalOnChannels, h1]

/-- The pending signal where the receive threshold is not below the minimum
strength, as with the thresholds of the constructor: let every layer start with
an empty interference set and no pending signal, a positive minimum strength and
such a receive threshold.  Then in every world reachable through `recvSignal`
and `passSignalToReceiver` the pending signal of every layer, if present, is a
key of the interference set, neither operation fails on `assert(wasFound)`, and
whenever the update of a listener makes a signal the pending one, the strength
of that signal exceeds the receive threshold and its ratio to cumulative
strength plus noise floor exceeds the capture threshold. -/
theorem pending_signal_found (env : Medium) (w0 w : World)
    (hstart : ∀ L, (w0.layers L).m_signalStrengths = [] ∧
      (w0.layers L).m_pendingRecvSignal = none)
    (hthresholds : ∀ L, 0 < (w0.layers L).m_minimumSignalStrength ∧
      (w0.layers L).m_minimumSignalStrength ≤ (w0.layers L).m_rxThreshold)
    (hreach : World.Reachable env w0 w) :
    (∀ L p, (w.layers L).m_pendingRecvSignal = some p →
      p ∈ mapKeys (w.layers L).m_signalStrengths) ∧
    (∀ sender signal, w.recvSignal env sender signal ≠ .error .pendingSignalNotFound) ∧
    (∀ receiver signal indeterminate,
      w.passSignalToReceiver receiver signal indeterminate ≠ .error .pendingSignalNotFound) ∧
    (∀ L hasError signal x, ∃ L', (w.layers L).listenerUpdate hasError signal x = .ok L' ∧
      (L'.m_pendingRecvSignal = some signal →
        (w.layers L).m_pendingRecvSignal ≠ some signal →
        x > (w.layers L).getRxThreshold ∧
        x / ((w.layers L).getCulmulativeSignalStrength + (w.layers L).getNoiseFloor)
          > (w.layers L).getCaptureThreshold)) := by
  have h0 : w0.Sound := by
    intro L
    refine ⟨?_, (hthresholds L).1, (hthresholds L).2, ?_⟩
    · intro p hp
      rw [(hstart L).2] at hp
      cases hp
    · intro k y hy
      rw [(hstart L).1] at hy
      cases hy
  have hs : w.Sound := reachable_sound env w0 w h0 hreach
  refine ⟨?_, ?_, ?_, ?_⟩
  · intro L p hp
    have := (hs L).found p hp
    by_contra hn
    rw [(mapFind_eq_none_iff _ _).2 hn] at this
    cases this
  · intro sender signal he
    have := recvSignal_sound env sender signal w hs
    rw [he] at this
    exact this rfl
  · intro receiver signal indeterminate he
    obtain ⟨w', e, -⟩ := passSignalToReceiver_sound w receiver signal indeterminate hs
    rw [he] at e
    cases e
  · intro L hasError signal x
    obtain ⟨L', e, -, -, -, -, -, hcap⟩ :=
      listenerUpdate_ok (w.layers L) hasError signal x (hs L).found (hs L).minimum_le
    exact ⟨L', e, fun h1 h2 => (captureSignal_iff (w.layers L) x).1.1 (hcap h1 h2)⟩

/-- An instance of `pending_signal_found`: the example scenario with the
thresholds of the constructor, before any signal. -/
theorem pending_signal_found_witness :
    (∀ L, (idleWorld.layers L).m_signalStrengths = [] ∧
      (idleWorld.layers L).m_pendingRecvSignal = none) ∧
    (∀ L, 0 < (idleWorld.layers L).m_minimumSignalStrength ∧
      (idleWorld.layers L).m_minimumSignalStrength ≤ (idleWorld.layers L).m_rxThreshold) ∧
    (∀ sender signal,
      idleWorld.recvSignal (constantMedium (1 / 1000)) sender signal
        ≠ .error .pendingSignalNotFound) :=
  have h1 : ∀ L, (idleWorld.layers L).m_signalStrengths = [] ∧
      (idleWorld.layers L).m_pendingRecvSignal = none := fun _ => ⟨rfl, rfl⟩
  have h2 : ∀ L, 0 < (idleWorld.layers L).m_minimumSignalStrength ∧
      (idleWorld.layers L).m_minimumSignalStrength ≤ (idleWorld.layers L).m_rxThreshold := by
    intro L
    by_cases hL : L = 1
    · subst hL
      norm_num [idleWorld, exampleWorld, PhysicalLayer.create]
    · norm_num [idleWorld, exampleWorld, PhysicalLayer.create, hL]
  ⟨h1, h2, (pending_signal_found (constantMedium (1 / 1000)) idleWorld idleWorld h1 h2
    World.Reachable.start).2.1⟩

/-- C9: `passSignalToReceiver(L, s)`, called on a layer whose pending signal is
in its interference set with a positive strength, forwards a deep copy of the
packet of `s` upward (error flag cleared, physical-layer data stripped) exactly
when `s` is the pending signal of `L` and the pending-error flag is false; if `s`
is the pending signal, pending signal and pending-error flag are cleared,
otherwise both are left as they are; and in every case `s` is absent from the
interference set of `L` afterwards, the other entries being untouched. -/
theorem passSignalToReceiver_forwards (w : World) (L : PhyId) (s : SignalId)
    (indeterminate : Bool) (hfound : (w.layers L).PendingFound)
    (hpositive : ∀ x, mapFind (w.layers L).m_signalStrengths s = some x → 0 < x) :
    ∃ w', w.passSignalToReceiver L s indeterminate = .ok w' ∧
      w'.sentUpward = w.sentUpward ++
        (if (w.layers L).m_pendingRecvSignal = some s ∧
            (w.layers L).m_pendingRecvSignalError = false
          then [(L, (((w.signals s).m_packetPtr.copy indeterminate).setHasError
            false).removeData .Physical)]
          else []) ∧
      ((w.layers L).m_pendingRecvSignal = some s →
        (w'.layers L).m_pendingRecvSignal = none ∧
        (w'.layers L).m_pendingRecvSignalError = false) ∧
      ((w.layers L).m_pendingRecvSignal ≠ some s →
        (w'.layers L).m_pendingRecvSignal = (w.layers L).m_pendingRecvSignal ∧
        (w'.layers L).m_pendingRecvSignalError = (w.layers L).m_pendingRecvSignalError) ∧
      s ∉ mapKeys (w'.layers L).m_signalStrengths ∧
      (∀ k, k ≠ s → mapFind (w'.layers L).m_signalStrengths k
        = mapFind (w.layers L).m_signalStrengths k) := by
  obtain ⟨w', e, h1, h2, h3, h4, -, -⟩ :=
    passSignalToReceiver_spec w L s indeterminate hfound hpositive
  refine ⟨w', e, h1, ?_, ?_, ?_, ?_⟩
  · intro hp
    rw [h3, h4, if_pos hp, if_pos hp]
    exact ⟨rfl, rfl⟩
  · intro hp
    rw [h3, h4, if_neg hp, if_neg hp]
    exact ⟨rfl, rfl⟩
  · rw [h2]; exact not_mem_mapKeys_mapErase _ _
  · intro k hk
    rw [h2, mapFind_mapErase, if_neg hk]

theorem exampleWorld_found : (exampleWorld.layers 1).PendingFound := by
  intro p hp
  have : p = 5 := by
    have h5 : (exampleWorld.layers 1).m_pendingRecvSignal = some 5 := rfl
    rw [h5] at hp
    exact (Option.some.inj hp).symm
  subst this
  rfl

theorem exampleWorld_positive :
    ∀ x : ℚ, mapFind (exampleWorld.layers 1).m_signalStrengths 5 = some x → 0 < x := by
  intro x hx
  have h5 : mapFind (exampleWorld.layers 1).m_signalStrengths 5 = some (1 / 1000) := rfl
  rw [h5] at hx
  rw [← Option.some.inj hx]
  norm_num

/-- Witness for C9: the end of signal 5 at the tag of the example scenario. -/
theorem passSignalToReceiver_forwards_witness :
    (exampleWorld.layers 1).PendingFound ∧
    (∀ x : ℚ, mapFind (exampleWorld.layers 1).m_signalStrengths 5 = some x → 0 < x) ∧
    ∃ w', exampleWorld.passSignalToReceiver 1 5 false = .ok w' ∧
      w'.sentUpward = exampleWorld.sentUpward ++
        (if (exampleWorld.layers 1).m_pendingRecvSignal = some 5 ∧
            (exampleWorld.layers 1).m_pendingRecvSignalError = false
          then [(1, (((exampleWorld.signals 5).m_packetPtr.copy false).setHasError
            false).removeData .Physical)]
          else []) ∧
      5 ∉ mapKeys (w'.layers 1).m_signalStrengths :=
  ⟨exampleWorld_found, exampleWorld_positive,
    (passSignalToReceiver_forwards exampleWorld 1 5 false exampleWorld_found
      exampleWorld_positive).imp (fun _ h => ⟨h.1, h.2.1, h.2.2.2.2.1⟩)⟩

/-- C10: on a world whose layers keep their bookkeeping sound, for a signal
whose duration is not negative and channels that the manager knows under one id
each, `recvSignal(sender, signal)` returns and has scheduled exactly one
`SignalEndEvent` for every channel entry of the sender and every listener entry
of that channel other than the sender, in that order: the new events are those
with the next free addresses, each carries its listener and the signal, is queued,
and fires at now + duration + distance(sender, listener) / speed of light.  No
event is for the sender, whose layer is unchanged, and the events that existed
before are untouched. -/
theorem recvSignal_schedules_signal_ends (env : Medium) (w : World) (sender : PhyId)
    (signal : SignalId) (hsound : w.Sound)
    (hduration : 0 ≤ (w.signals signal).getDuration)
    (hsqrt : ∀ q, 0 ≤ env.sqrt q)
    (hchannels : ∀ channel ∈ w.manager.channelsOf sender,
      ∃ channelId, w.manager.getChannelId channel = .ok channelId) :
    ∃ w', w.recvSignal env sender signal = .ok w' ∧
      w'.nextEventPtr = w.nextEventPtr + (w.signalEndTargets sender).length ∧
      (List.range' w.nextEventPtr (w.signalEndTargets sender).length).map
          (fun e => (w'.signalEndEvents e, (w'.sim.events e).getFireTime,
            (w'.sim.events e).inEventQueue))
        = (w.signalEndTargets sender).map (fun L => (some (L, signal),
            w.sim.currentTime + (w.signals signal).getDuration
              + Location.distance env.sqrt (w.layers sender).location (w.layers L).location
                / SPEED_OF_LIGHT,
            true)) ∧
      w'.sim.m_eventPtrQueue.Perm (w.sim.m_eventPtrQueue
        ++ List.range' w.nextEventPtr (w.signalEndTargets sender).length) ∧
      (∀ e, e < w.nextEventPtr →
        w'.signalEndEvents e = w.signalEndEvents e ∧ w'.sim.events e = w.sim.events e) ∧
      sender ∉ w.signalEndTargets sender ∧
      w'.layers sender = w.layers sender ∧
      w'.sim.currentTime = w.sim.currentTime := by
  obtain ⟨w', e, h⟩ := sendSignalOnChannels_spec env sender signal
    (w.signals signal).getDuration hduration hsqrt (w.manager.channelsOf sender) w hsound rfl
    hchannels
  refine ⟨w', e, h.next, ?_, h.queue, h.below, ?_, h.sender_eq, h.clock⟩
  · have hrec := congrArg (List.map (fun (p : Option (PhyId × SignalId) × Event) =>
      (p.1, p.2.getFireTime, p.2.inEventQueue))) h.records
    simp only [List.map_map] at hrec
    have hl : (fun e => (w'.signalEndEvents e, (w'.sim.events e).getFireTime,
        (w'.sim.events e).inEventQueue))
        = ((fun (p : Option (PhyId × SignalId) × Event) =>
            (p.1, p.2.getFireTime, p.2.inEventQueue)) ∘
          fun e => (w'.signalEndEvents e, w'.sim.events e)) := rfl
    unfold World.signalEndTargets
    rw [hl, hrec]
    apply List.map_congr_left
    intro L _
    simp only [Function.comp, Event.getFireTime, Event.inEventQueue, World.propagationDelay,
      Simulator.currentTime, add_assoc]
  · unfold World.signalEndTargets
    simp only [List.mem_flatMap, List.mem_filter, not_exists, not_and]
    intro channel _ _
    simp

theorem exampleWorld_sound : exampleWorld.Sound := by
  intro L
  by_cases hL : L = 1
  · subst hL
    refine ⟨exampleWorld_found, ?_, ?_, ?_⟩
    · norm_num [exampleWorld, PhysicalLayer.create]
    · norm_num [exampleWorld, PhysicalLayer.create]
    · intro k y hy
      have hm : (exampleWorld.layers 1).m_signalStrengths = [(5, 1 / 1000)] := rfl
      have hmin : (exampleWorld.layers 1).m_minimumSignalStrength = 794 / 10 ^ 14 := rfl
      rw [hm] at hy
      rw [hmin]
      unfold mapFind at hy
      split at hy
      · rw [← Option.some.inj hy]; norm_num
      · simp [mapFind] at hy
  · have hlayer : exampleWorld.layers L = PhysicalLayer.create
        { m_xCoordinate := 0, m_yCoordinate := 0, m_zCoordinate := 0 }
        (PhySubclass.reader true 1 true 0) := by
      simp [exampleWorld, hL]
    rw [hlayer]
    refine ⟨?_, ?_, ?_, ?_⟩
    · intro p hp
      simp [PhysicalLayer.create] at hp
    · norm_num [PhysicalLayer.create]
    · norm_num [PhysicalLayer.create]
    · intro k y hy
      simp [PhysicalLayer.create, mapFind] at hy

theorem constantMedium_sqrt_nonneg (x : ℚ) : ∀ q, 0 ≤ (constantMedium x).sqrt q :=
  fun _ => Nat.cast_nonneg _

theorem exampleWorld_duration (signal : SignalId) :
    0 ≤ (exampleWorld.signals signal).getDuration := by
  unfold WirelessCommSignal.getDuration Packet.getDuration
  exact div_nonneg (Nat.cast_nonneg _) (by norm_num [exampleWorld, exampleSignal, examplePacket])

theorem exampleWorld_channels :
    ∀ channel ∈ exampleWorld.manager.channelsOf 0,
      ∃ channelId, exampleWorld.manager.getChannelId channel = .ok channelId := by
  intro channel hc
  have : exampleWorld.manager.channelsOf 0 = [10, 11] := by decide
  rw [this] at hc
  simp only [List.mem_cons, List.mem_singleton, List.not_mem_nil, or_false] at hc
  rcases hc with rfl | rfl
  · exact ⟨0, rfl⟩
  · exact ⟨1, rfl⟩

/-- Witness for C10: the reader of the example scenario sends a signal; one
signal end is scheduled, for the tag. -/
theorem recvSignal_schedules_signal_ends_witness :
    exampleWorld.Sound ∧ 0 ≤ (exampleWorld.signals 7).getDuration ∧
    (∀ q, 0 ≤ (constantMedium (1 / 1000)).sqrt q) ∧
    (∀ channel ∈ exampleWorld.manager.channelsOf 0,
      ∃ channelId, exampleWorld.manager.getChannelId channel = .ok channelId) ∧
    exampleWorld.signalEndTargets 0 = [1] ∧
    ∃ w', exampleWorld.recvSignal (constantMedium (1 / 1000)) 0 7 = .ok w' ∧
      w'.nextEventPtr
        = exampleWorld.nextEventPtr + (exampleWorld.signalEndTargets 0).length ∧
      w'.layers 0 = exampleWorld.layers 0 :=
  ⟨exampleWorld_sound, exampleWorld_duration 7, constantMedium_sqrt_nonneg _,
    exampleWorld_channels, by decide,
    (recvSignal_schedules_signal_ends (constantMedium (1 / 1000)) exampleWorld 0 7
      exampleWorld_sound (exampleWorld_duration 7) (constantMedium_sqrt_nonneg _)
      exampleWorld_channels).imp (fun _ h => ⟨h.1, h.2.1, h.2.2.2.2.2.2.1⟩)⟩

/-! ## The in-queue flag on the paths other than `reset` -/

section FlagLemmas

theorem flagsExact_scheduleEvent {s s' : Simulator} {e : EventId} {d : SimTime} {b : Bool}
    (hf : s.FlagsExact) (hs : s.scheduleEvent e d = .ok (b, s')) : s'.FlagsExact := by
  obtain ⟨-, -, -, -, hoth, hqueue⟩ := scheduleEvent_props hs
  intro i hi
  rw [hqueue]
  by_cases hie : i = e
  · exact mem_multisetInsert.2 (Or.inl hie)
  · rw [hoth i hie] at hi
    exact mem_multisetInsert.2 (Or.inr (hf i hi))

theorem flagsExact_cancelEvent {s : Simulator} (h : s.WF) (hf : s.FlagsExact)
    (e : EventId) : (s.cancelEvent e).2.FlagsExact := by
  by_cases he : e ∈ s.m_eventPtrQueue
  · obtain ⟨-, -, -, h4, h5, h6⟩ := cancelEvent_spec_mem s e h he
    intro i hi
    rw [h6]
    by_cases hie : i = e
    · rw [hie, h4] at hi
      cases hi
    · rw [h5 i hie] at hi
      exact (List.mem_erase_of_ne hie).2 (hf i hi)
  · rw [cancelEvent_spec_not_mem s e he]
    exact hf

theorem flagsExact_getNextEvent {s : Simulator} (hf : s.FlagsExact) {e : EventId}
    {rest : List EventId} (hq : s.m_eventPtrQueue = e :: rest) :
    (s.getNextEvent e rest).2.FlagsExact := by
  intro i hi
  by_cases hie : i = e
  · subst hie
    simp [Simulator.getNextEvent, setEvent, Event.setInEventQueue] at hi
  · have hi' : (s.events i).m_inEventQueue = true := by
      simpa [Simulator.getNextEvent, setEvent, hie] using hi
    have := hf i hi'
    rw [hq] at this
    rcases List.mem_cons.1 this with h | h
    · exact absurd h hie
    · exact h

theorem calls_flagsExact {cs : List KernelCall} : ∀ {s s' : Simulator}, s.WF →
    s.FlagsExact → s.calls cs = .ok s' → s'.FlagsExact := by
  induction cs with
  | nil =>
    intro s s' _ hf hc
    simp only [Simulator.calls] at hc
    cases hc
    exact hf
  | cons c cs ih =>
    intro s s' h hf hc
    simp only [Simulator.calls] at hc
    cases h1 : s.call c with
    | error f => rw [h1] at hc; cases hc
    | ok s1 =>
      rw [h1] at hc
      have hw1 : s1.WF ∧ s1.FlagsExact := by
        rcases call_ok_cases h1 with ⟨e, d, b, -, hs⟩ | ⟨e, -, rfl⟩
        · exact ⟨wf_scheduleEvent h hs, flagsExact_scheduleEvent hf hs⟩
        · exact ⟨wf_cancelEvent h e, flagsExact_cancelEvent h hf e⟩
      exact ih hw1.1 hw1.2 hc

/-- Without `reset`, the flag is exact: after any run of the loop from a state in
which exactly the queued events carry the flag, the same holds again. -/
theorem runLoop_flagsExact {σ : Type} (exec : Execute σ) (stop : SimTime) :
    ∀ (fuel : ℕ) (s : Simulator) (w : σ), s.WF → s.FlagsExact →
      (Simulator.runLoop exec stop fuel s w).2.Holds
        (fun s' => s'.WF ∧ s'.FlagsExact) := by
  intro fuel
  induction fuel with
  | zero => intro s w h hf; exact ⟨h, hf⟩
  | succ fuel ih =>
    intro s w h hf
    cases hq : s.m_eventPtrQueue with
    | nil =>
      rw [runLoop_nil exec stop fuel s w hq]
      exact ⟨h, hf⟩
    | cons e rest =>
      by_cases hlate : s.fire e > stop
      · rw [runLoop_notDue exec stop fuel s w e rest hq hlate]
        exact ⟨wf_getNextEvent h hq, flagsExact_getNextEvent hf hq⟩
      · by_cases hle : s.m_clock ≤ s.fire e
        · rw [runLoop_step exec stop fuel s w e rest hq hlate hle]
          have hw1 := (dispatch_state_inv h hq).1
          have hf1 : ({ (s.getNextEvent e rest).2 with m_clock := s.fire e } :
              Simulator).FlagsExact := flagsExact_getNextEvent hf hq
          cases hc : (({ (s.getNextEvent e rest).2 with m_clock := s.fire e } :
              Simulator).calls
              (exec e { (s.getNextEvent e rest).2 with m_clock := s.fire e } w).2) with
          | error f => trivial
          | ok s2 => exact ih s2 _ (calls_WF hw1 hc) (calls_flagsExact hw1 hf1 hc)
        · rw [runLoop_clockFault exec stop fuel s w e rest hq hlate hle]
          trivial

/-- The flag of an event is true exactly when the event is queued, and no event
is queued twice, in every state that `scheduleEvent`, `cancelEvent` and
`runSimulation` lead to from the simulator as constructed. -/
theorem flags_exact_without_reset {σ : Type} (exec : Execute σ) (before : List KernelCall)
    (s1 : Simulator) (h1 : Simulator.instance.calls before = .ok s1)
    (stopTime : SimTime) (fuel : ℕ) (w : σ) :
    (Simulator.runSimulation exec stopTime fuel s1 w).2.Holds
      (fun s' => s'.m_eventPtrQueue.Nodup ∧
        ∀ e, (s'.events e).inEventQueue = true ↔ e ∈ s'.m_eventPtrQueue) := by
  have hw0 : Simulator.instance.WF :=
    ⟨List.Pairwise.nil, List.nodup_nil, fun e he => by cases he⟩
  have hf0 : Simulator.instance.FlagsExact := fun e he => by cases he
  have hw1 := calls_WF hw0 h1
  have hf1 := calls_flagsExact hw0 hf0 h1
  have := runLoop_flagsExact exec stopTime fuel s1 w hw1 hf1
  unfold Simulator.runSimulation
  rcases hr : Simulator.runLoop exec stopTime fuel s1 w with ⟨ds, o⟩
  rw [hr] at this
  cases o with
  | returned s2 w2 n =>
    obtain ⟨hw, hf⟩ := this
    exact ⟨hw.nodup, fun e => ⟨hf e, hw.flagged e⟩⟩
  | aborted f => trivial
  | running s2 w2 =>
    obtain ⟨hw, hf⟩ := this
    exact ⟨hw.nodup, fun e => ⟨hf e, hw.flagged e⟩⟩

end FlagLemmas

/-! ## The unit test of the event queue -/

section UnitTest

/-- With handlers that do nothing, a run with enough fuel dispatches the whole
queue, front to back, if every queued event is due. -/
theorem runLoop_dummy (stop : SimTime) :
    ∀ (fuel : ℕ) (s : Simulator), s.WF → s.Future →
      (∀ e ∈ s.m_eventPtrQueue, s.fire e ≤ stop) → s.m_eventPtrQueue.length < fuel →
      dispatched (Simulator.runLoop dummyExecute stop fuel s ()).1 = s.m_eventPtrQueue := by
  intro fuel
  induction fuel with
  | zero => intro s _ _ _ hlen; exact absurd hlen (Nat.not_lt_zero _)
  | succ fuel ih =>
    intro s h hf hdue hlen
    cases hq : s.m_eventPtrQueue with
    | nil => rw [runLoop_nil dummyExecute stop fuel s () hq]; rfl
    | cons e rest =>
      have hmem : e ∈ s.m_eventPtrQueue := by rw [hq]; exact List.mem_cons_self _ _
      have hlate : ¬ (s.fire e > stop) := not_lt.2 (hdue e hmem)
      rw [runLoop_step dummyExecute stop fuel s () e rest hq hlate (hf e hmem)]
      obtain ⟨hw1, hf1⟩ := dispatch_state_inv h hq
      have hcalls : ({ (s.getNextEvent e rest).2 with m_clock := s.fire e } : Simulator).calls
          (dummyExecute e { (s.getNextEvent e rest).2 with m_clock := s.fire e } ()).2
          = .ok { (s.getNextEvent e rest).2 with m_clock := s.fire e } := rfl
      rw [hcalls]
      have hrest := ih { (s.getNextEvent e rest).2 with m_clock := s.fire e } hw1 hf1
        (by
          intro i hi
          have : ({ (s.getNextEvent e rest).2 with m_clock := s.fire e } : Simulator).fire i
              = s.fire i := getNextEvent_fire s e i rest
          rw [this]
          exact hdue i (by rw [hq]; exact List.mem_cons_of_mem _ hi))
        (by
          rw [hq] at hlen
          exact Nat.lt_of_succ_lt_succ hlen)
      show e :: dispatched _ = e :: rest
      rw [hrest]
      rfl

theorem scheduleAll_inv : ∀ (ts : List SimTime) (e : EventId) (s s' : Simulator),
    s.WF → s.Future → scheduleAll ts e s = .ok s' →
    s'.WF ∧ s'.Future ∧ s'.m_clock = s.m_clock := by
  intro ts
  induction ts with
  | nil =>
    intro e s s' h hf hs
    simp only [scheduleAll] at hs
    cases hs
    exact ⟨h, hf, rfl⟩
  | cons t ts ih =>
    intro e s s' h hf hs
    simp only [scheduleAll] at hs
    cases h1 : s.scheduleEvent e t with
    | error f => rw [h1] at hs; cases hs
    | ok r =>
      obtain ⟨b, s1⟩ := r
      rw [h1] at hs
      simp only at hs
      have hb := (scheduleEvent_props h1).1
      rw [hb] at hs
      simp only [if_true] at hs
      obtain ⟨a1, a2, a3⟩ := ih (e + 1) s1 s' (wf_scheduleEvent h h1)
        (future_scheduleEvent h hf h1) hs
      exact ⟨a1, a2, a3.trans (scheduleEvent_props h1).2.1⟩

/-- The queue of the unit test after its nine `scheduleEvent` calls, with the
fire times. -/
theorem scheduleAll_timeVals :
    (scheduleAll timeVals 0 Simulator.instance).map
        (fun s => s.m_eventPtrQueue.map (fun e => (e, s.fire e)))
      = .ok [(0, 0), (8, 1), (3, 3 / 2), (4, 3 / 2), (5, 3 / 2), (1, 2), (2, 5), (6, 5),
          (7, 10)] := by
  norm_num [scheduleAll, timeVals, Simulator.scheduleEvent, Simulator.instance, Event.create,
    Event.inEventQueue, setEvent, Event.setFireTime, Event.setInEventQueue, multisetInsert,
    Simulator.eventPtrLt, Event.lt, Simulator.currentTime, Simulator.fire, Except.map]

end UnitTest

section UnitTestRun

/-- The function `unitTestEventQueue` dispatches the events that it did not
cancel in the order of their fire times, and the three events of time 1.5
(the events 3, 4 and 5) in the order in which they were scheduled. -/
theorem unitTestEventQueue_order (i j : EventId) (hi : i < 9) (hj : j < 9) (hij : i ≠ j) :
    unitTestEventQueue i j 10 = .ok ((([0, 8, 3, 4, 5, 1, 2, 6, 7] : List EventId).erase i).erase j) := by
  have hw0 : Simulator.instance.WF :=
    ⟨List.Pairwise.nil, List.nodup_nil, fun _ h => by cases h⟩
  have hf0 : Simulator.instance.Future := fun _ h => by cases h
  have hmap := scheduleAll_timeVals
  cases hs : scheduleAll timeVals 0 Simulator.instance with
  | error f => rw [hs] at hmap; cases hmap
  | ok s =>
    rw [hs] at hmap
    have hmap1 : s.m_eventPtrQueue.map (fun e => (e, s.fire e))
        = [(0, 0), (8, 1), (3, 3 / 2), (4, 3 / 2), (5, 3 / 2), (1, 2), (2, 5), (6, 5),
          (7, 10)] := by
      simpa [Except.map] using hmap
    obtain ⟨hw, hf, _⟩ := scheduleAll_inv timeVals 0 Simulator.instance s hw0 hf0 hs
    have hq : s.m_eventPtrQueue = [0, 8, 3, 4, 5, 1, 2, 6, 7] := by
      have := congrArg (List.map Prod.fst) hmap1
      simpa [List.map_map, Function.comp_def] using this
    have hdue : ∀ e ∈ s.m_eventPtrQueue, s.fire e ≤ 100 := by
      intro e he
      have hmem : (e, s.fire e) ∈ s.m_eventPtrQueue.map (fun e => (e, s.fire e)) :=
        List.mem_map.2 ⟨e, he, rfl⟩
      rw [hmap1] at hmem
      simp only [List.mem_cons, Prod.mk.injEq, List.mem_singleton, List.not_mem_nil,
        or_false] at hmem
      rcases hmem with h | h | h | h | h | h | h | h | h <;> rw [h.2] <;> norm_num
    have hi1 : i ∈ s.m_eventPtrQueue := by
      rw [hq]; interval_cases i <;> simp
    have hc1 := cancelEvent_spec_mem s i hw hi1
    have hw1 := wf_cancelEvent hw i
    have hf1 := future_cancelEvent hw hf i
    have hj1 : j ∈ (s.cancelEvent i).2.m_eventPtrQueue := by
      rw [hc1.2.2.2.2.2]
      refine (List.mem_erase_of_ne (Ne.symm hij)).2 ?_
      rw [hq]; interval_cases j <;> simp
    have hc2 := cancelEvent_spec_mem (s.cancelEvent i).2 j hw1 hj1
    have hw2 := wf_cancelEvent hw1 j
    have hf2 := future_cancelEvent hw1 hf1 j
    have hq2 : ((s.cancelEvent i).2.cancelEvent j).2.m_eventPtrQueue
        = (([0, 8, 3, 4, 5, 1, 2, 6, 7] : List EventId).erase i).erase j := by
      rw [hc2.2.2.2.2.2, hc1.2.2.2.2.2, hq]
    have hdue2 : ∀ e ∈ ((s.cancelEvent i).2.cancelEvent j).2.m_eventPtrQueue,
        ((s.cancelEvent i).2.cancelEvent j).2.fire e ≤ 100 := by
      intro e he
      rw [cancelEvent_fire, cancelEvent_fire]
      rw [hc2.2.2.2.2.2, hc1.2.2.2.2.2] at he
      exact hdue e (List.mem_of_mem_erase (List.mem_of_mem_erase he))
    have hlen : ((s.cancelEvent i).2.cancelEvent j).2.m_eventPtrQueue.length < 10 := by
      rw [hc2.2.2.2.2.2, hc1.2.2.2.2.2, hq]
      exact lt_of_le_of_lt (List.length_erase_le _ _)
        (lt_of_le_of_lt (List.length_erase_le _ _) (by decide))
    have hrun := runLoop_dummy 100 10 _ hw2 hf2 hdue2 hlen
    unfold unitTestEventQueue
    rw [hs]
    simp only [hc1.1, hc2.1, Bool.not_true, Bool.false_eq_true, if_false]
    rw [runSimulation_trace, hrun, hq2]

end UnitTestRun

/-! ## The reader MAC -/

section ReaderMacLemmas

theorem timeRemaining_ok (t : Timer) (s : Simulator)
    (hvalid : t.isRunning s = true → s.m_clock ≤ s.fire t.m_eventOnFire) :
    t.timeRemaining s
      = .ok (if t.isRunning s = true then s.fire t.m_eventOnFire - s.m_clock else 0) := by
  unfold Timer.timeRemaining
  by_cases h : t.isRunning s = true
  · have hge : (s.events t.m_eventOnFire).getFireTime - s.currentTime ≥ 0 :=
      sub_nonneg.2 (hvalid h)
    simp only [h, if_true, hge]
    rfl
  · simp only [h]
    rfl

end ReaderMacLemmas

/-- Claim C16: `isEnoughTimeForContentionCycle` returns true exactly when
`(next_cycle_number_of_slots + 1) * slot_duration` is less than the time
remaining of the cycle timer, which is `fire_time - now` if the timer runs and
`0` otherwise; so it returns false whenever the cycle timer is not running. -/
theorem isEnoughTimeForContentionCycle_iff (mac : RfidReaderMac) (w : MacWorld)
    (hvalid : mac.m_cycleTimer.isRunning w.sim = true →
      w.sim.m_clock ≤ w.sim.fire mac.m_cycleTimer.m_eventOnFire)
    (hslots : mac.m_nextCycleNumberOfSlots + 1 < 2 ^ 32)
    (hslot : mac.getSlotTime = m_DEFAULT_SLOT_TIME) :
    ∃ timeRemaining : SimTime,
      mac.m_cycleTimer.timeRemaining w.sim = .ok timeRemaining ∧
      timeRemaining = (if mac.m_cycleTimer.isRunning w.sim = true
        then w.sim.fire mac.m_cycleTimer.m_eventOnFire - w.sim.currentTime else 0) ∧
      mac.isEnoughTimeForContentionCycle w
        = .ok (decide (((mac.m_nextCycleNumberOfSlots : ℚ) + 1) * mac.getSlotTime
            < timeRemaining)) ∧
      (mac.m_cycleTimer.isRunning w.sim = false →
        mac.isEnoughTimeForContentionCycle w = .ok false) := by
  have htime := timeRemaining_ok mac.m_cycleTimer w.sim hvalid
  have hmod : (mac.m_nextCycleNumberOfSlots + 1) % 2 ^ 32 = mac.m_nextCycleNumberOfSlots + 1 :=
    Nat.mod_eq_of_lt hslots
  have henough : ∀ t, mac.m_cycleTimer.timeRemaining w.sim = .ok t →
      mac.isEnoughTimeForContentionCycle w
        = .ok (decide (((mac.m_nextCycleNumberOfSlots : ℚ) + 1) * mac.getSlotTime < t)) := by
    intro t ht
    unfold RfidReaderMac.isEnoughTimeForContentionCycle
    rw [ht, hmod, hslot]
    simp only [Nat.cast_add, Nat.cast_one]
  refine ⟨_, htime, rfl, henough _ htime, ?_⟩
  intro hstop
  rw [henough _ htime]
  have hnn : (0 : ℚ) ≤ ((mac.m_nextCycleNumberOfSlots : ℚ) + 1) * mac.getSlotTime := by
    rw [hslot]
    unfold m_DEFAULT_SLOT_TIME
    positivity
  simp only [hstop, Bool.false_eq_true, if_false, not_lt.2 hnn, decide_False]

theorem isEnoughTimeForContentionCycle_iff_witness :
    exampleReaderMac.isEnoughTimeForContentionCycle exampleReaderWorld = .ok true ∧
    exampleReaderMac.isEnoughTimeForContentionCycle
      { exampleReaderWorld with sim := Simulator.instance } = .ok false := by
  have hslots : exampleReaderMac.m_nextCycleNumberOfSlots + 1 < 2 ^ 32 := by decide
  have hrun : exampleReaderMac.m_cycleTimer.isRunning exampleReaderWorld.sim = true := rfl
  have hstop : exampleReaderMac.m_cycleTimer.isRunning Simulator.instance = false := rfl
  obtain ⟨t, -, ht, h1, -⟩ := isEnoughTimeForContentionCycle_iff exampleReaderMac
    exampleReaderWorld
    (fun _ => by norm_num [exampleReaderWorld, exampleMacSim, exampleReaderMac,
      RfidReaderMac.create, Simulator.fire])
    hslots rfl
  obtain ⟨-, -, -, -, h2⟩ := isEnoughTimeForContentionCycle_iff exampleReaderMac
    { exampleReaderWorld with sim := Simulator.instance }
    (fun h => by rw [hstop] at h; cases h) hslots rfl
  refine ⟨?_, h2 hstop⟩
  rw [h1, ht, if_pos hrun]
  norm_num [exampleReaderWorld, exampleMacSim, exampleReaderMac, RfidReaderMac.create,
    Simulator.fire, Simulator.currentTime, SlottedMac.getSlotTime, m_DEFAULT_SLOT_TIME,
    m_DEFAULT_NUMBER_OF_SLOTS]

section TimerLemmas

theorem cancelEvent_events_other (s : Simulator) {e i : EventId} (h : i ≠ e) :
    (s.cancelEvent e).2.events i = s.events i := by
  unfold Simulator.cancelEvent
  simp only
  split
  · exact setEvent_other _ _ h
  · rfl

theorem timer_stop_events_other (t : Timer) (s : Simulator) {i : EventId}
    (h : i ≠ t.m_eventOnFire) : (t.stop s).2.events i = s.events i := by
  unfold Timer.stop
  split
  · exact cancelEvent_events_other s h
  · rfl

theorem timer_stop_clock (t : Timer) (s : Simulator) : (t.stop s).2.m_clock = s.m_clock := by
  unfold Timer.stop
  split
  · exact cancelEvent_clock s _
  · rfl

/-- Stopping a timer whose event is queued clears its flag. -/
theorem timer_stop_running (t : Timer) (s : Simulator) (hwf : s.WF)
    (hmem : t.m_eventOnFire ∈ s.m_eventPtrQueue) :
    t.isRunning (t.stop s).2 = false := by
  have hflag : t.isRunning s = true := hwf.flagged _ hmem
  unfold Timer.stop
  rw [if_pos hflag]
  unfold Timer.isRunning Event.inEventQueue
  rw [(cancelEvent_spec_mem s _ hwf hmem).2.2.2.1]

/-- A timer restarted with a non-negative delay: the call returns, and the
clock and every other event are as before. -/
theorem timer_reschedule_ok (t : Timer) (s : Simulator) (delay : SimTime) (hd : 0 ≤ delay) :
    ∃ b s', t.reschedule s delay = .ok (b, s') ∧ s'.m_clock = s.m_clock ∧
      ∀ i, i ≠ t.m_eventOnFire → s'.events i = s.events i := by
  unfold Timer.reschedule
  simp only
  generalize hr1 : (if t.isRunning s = true then t.stop s else (true, s)) = r1
  have hclock : r1.2.m_clock = s.m_clock := by
    rw [← hr1]; split
    · exact timer_stop_clock t s
    · rfl
  have hother : ∀ i, i ≠ t.m_eventOnFire → r1.2.events i = s.events i := by
    intro i hi
    rw [← hr1]; split
    · exact timer_stop_events_other t s hi
    · rfl
  unfold Timer.start
  by_cases hrun : t.isRunning r1.2 = true
  · simp only [hrun, Bool.not_true, Bool.false_eq_true, if_false]
    exact ⟨_, _, rfl, hclock, hother⟩
  · have hflag : (r1.2.events t.m_eventOnFire).m_inEventQueue = false := by
      simpa [Timer.isRunning, Event.inEventQueue] using hrun
    obtain ⟨s', hs'⟩ := scheduleEvent_isOk r1.2 t.m_eventOnFire delay hflag hd
    have hp := scheduleEvent_props hs'
    simp only [hrun, Bool.not_false, if_true, hs']
    exact ⟨_, _, rfl, hp.2.1.trans hclock, fun i hi => (hp.2.2.2.2.1 i hi).trans (hother i hi)⟩

end TimerLemmas

section ReaderMacCycle

theorem timer_valid (t : Timer) (s : Simulator) (hfuture : s.Future) (hexact : s.FlagsExact)
    (hrun : t.isRunning s = true) : s.m_clock ≤ s.fire t.m_eventOnFire :=
  hfuture _ (hexact _ hrun)

theorem isEnoughTimeForContentionCycle_ok (mac : RfidReaderMac) (w : MacWorld)
    (hvalid : mac.m_cycleTimer.isRunning w.sim = true →
      w.sim.m_clock ≤ w.sim.fire mac.m_cycleTimer.m_eventOnFire) :
    ∃ enough, mac.isEnoughTimeForContentionCycle w = .ok enough := by
  unfold RfidReaderMac.isEnoughTimeForContentionCycle
  rw [timeRemaining_ok _ _ hvalid]
  exact ⟨_, rfl⟩

/-- The verdict depends on the cycle timer, the number of slots and the kernel
only. -/
theorem isEnoughTimeForContentionCycle_congr (mac mac' : RfidReaderMac) (w w' : MacWorld)
    (h1 : mac'.m_cycleTimer = mac.m_cycleTimer)
    (h2 : mac'.m_nextCycleNumberOfSlots = mac.m_nextCycleNumberOfSlots)
    (h3 : w'.sim = w.sim) :
    mac'.isEnoughTimeForContentionCycle w' = mac.isEnoughTimeForContentionCycle w := by
  unfold RfidReaderMac.isEnoughTimeForContentionCycle
  rw [h1, h2, h3]

theorem endOfContentionCycle_threshold (mac : RfidReaderMac) (w : MacWorld)
    (hentire : mac.m_doEntireReadCycle = false)
    (hrun : mac.m_cycleTimer.isRunning w.sim = true)
    (hvalid : w.sim.m_clock ≤ w.sim.fire mac.m_cycleTimer.m_eventOnFire)
    (hnone : mac.m_packetToTransmit = none)
    (hcount : mac.m_missedReadCount = 2) :
    mac.endOfContentionCycle w = .ok
      ({ mac with
          m_missedReads := mac.m_missedReads ++ [mac.m_currentSlotNumber]
          m_missedReadCount := 3
          m_doResetSlot := false
          m_currentSlotNumber := 0
          m_numberOfSlots := 0
          m_currentAppReadPacket := none },
        { w with
          sim := (mac.m_cycleTimer.stop w.sim).2
          calls := w.calls ++ [.unblockUpperQueues] ++ [.signalReadEnd] }) := by
  obtain ⟨enough, henough⟩ := isEnoughTimeForContentionCycle_ok mac w (fun _ => hvalid)
  unfold RfidReaderMac.endOfContentionCycle
  simp only [hnone, ne_eq, not_true_eq_false, if_false, henough, hentire, hrun,
    Bool.not_false, Bool.and_self, if_true, hcount, SlottedMac.stopContentionCycle,
    m_MISSED_READ_THRESHOLD, Bool.true_and, decide_True, Bool.not_true, Bool.false_eq_true]
  norm_num [RfidReaderMac.endRequestCycleEvent, SlottedMac.inContentionCycle,
    MacWorld.unblockUpperQueues, MacWorld.call]

end ReaderMacCycle

section ReaderMacRequest

/-- The REQUEST header that a reader MAC writes. -/
theorem createRequestPacket_ok (mac : RfidReaderMac) (w : MacWorld) (appPacket : PacketPtr)
    (happ : mac.m_currentAppReadPacket = some appPacket)
    (halloc : appPacket < w.nextPacketPtr)
    (hpower : 0 ≤ (w.packets appPacket).getTxPower)
    (hslots : 4 ≤ mac.m_nextCycleNumberOfSlots) :
    ∃ w1, mac.createRequestPacket w = .ok (w.nextPacketPtr, w1) ∧
      w1.sim = w.sim ∧ w1.calls = w.calls ∧ w1.nextPacketPtr = w.nextPacketPtr + 1 ∧
      (∀ q, q ≠ w.nextPacketPtr → w1.packets q = w.packets q) ∧
      (w1.packets w.nextPacketPtr).getData .Link
        = some (RfidReaderMacData.toPacketData
            { m_senderId := mac.nodeId, m_receiverId := NodeId.broadcastDestination,
              m_numberOfSlots := mac.m_nextCycleNumberOfSlots % 256, m_type := .Request }) ∧
      (w1.packets w.nextPacketPtr).getTxPower = (w.packets appPacket).getTxPower ∧
      (w1.packets w.nextPacketPtr).getDoMaxTxPower = false := by
  have hne : appPacket ≠ w.nextPacketPtr := Nat.ne_of_lt halloc
  unfold RfidReaderMac.createRequestPacket
  simp only [ge_iff_le, hslots, not_true_eq_false, if_false, happ, MacWorld.newPacket,
    setAt, hne, Packet.setTxPower, hpower, if_true, MacWorld.setPacket]
  refine ⟨_, rfl, rfl, rfl, rfl, ?_, ?_, ?_, ?_⟩
  · intro q hq
    simp [setAt, hq]
  · simp [setAt, Packet.addData, dataInsert, Packet.getData, Packet.create,
      RfidReaderMacData.setNumberOfSlots, RfidReaderMacData.create]
  · simp [setAt, Packet.addData, Packet.getTxPower]
  · simp [setAt, Packet.addData, Packet.getDoMaxTxPower, Packet.create]

end ReaderMacRequest

section ReaderMacCycleBelow

theorem endOfContentionCycle_below (mac : RfidReaderMac) (w : MacWorld)
    (hentire : mac.m_doEntireReadCycle = false)
    (hrun : mac.m_cycleTimer.isRunning w.sim = true)
    (hvalid : w.sim.m_clock ≤ w.sim.fire mac.m_cycleTimer.m_eventOnFire)
    (hnone : mac.m_packetToTransmit = none)
    (hcount : mac.m_missedReadCount < 2)
    (appPacket : PacketPtr)
    (happ : mac.m_currentAppReadPacket = some appPacket)
    (halloc : appPacket < w.nextPacketPtr)
    (hpower : 0 ≤ (w.packets appPacket).getTxPower)
    (hslots : 4 ≤ mac.m_nextCycleNumberOfSlots) :
    ∃ enough w1, mac.isEnoughTimeForContentionCycle w = .ok enough ∧
      mac.createRequestPacket w = .ok (w.nextPacketPtr, w1) ∧
      mac.endOfContentionCycle w = .ok
        ({ mac with
            m_missedReads := mac.m_missedReads ++ [mac.m_currentSlotNumber]
            m_missedReadCount := mac.m_missedReadCount + 1
            m_doResetSlot := false
            m_currentSlotNumber := 0
            m_numberOfSlots := 0
            m_packetToTransmit := if enough then some w.nextPacketPtr else none
            m_txSlotNumber := if enough then 1 else mac.m_txSlotNumber },
          if enough then w1 else w) := by
  obtain ⟨enough, henough⟩ := isEnoughTimeForContentionCycle_ok mac w (fun _ => hvalid)
  obtain ⟨w1, hw1, -⟩ := createRequestPacket_ok mac w appPacket happ halloc hpower hslots
  refine ⟨enough, w1, henough, hw1, ?_⟩
  have hmod : (mac.m_missedReadCount + 1) % 2 ^ 32 = mac.m_missedReadCount + 1 :=
    Nat.mod_eq_of_lt (by omega)
  have hne : ¬ (mac.m_missedReadCount + 1 = 3) := by omega
  have hreq : ∀ mac3 : RfidReaderMac, mac3.nodeId = mac.nodeId →
      mac3.m_nextCycleNumberOfSlots = mac.m_nextCycleNumberOfSlots →
      mac3.m_currentAppReadPacket = mac.m_currentAppReadPacket →
      mac3.createRequestPacket w = mac.createRequestPacket w := fun mac3 h1 h2 h3 => by
    unfold RfidReaderMac.createRequestPacket
    rw [h1, h2, h3]
  unfold RfidReaderMac.endOfContentionCycle
  simp only [hnone, ne_eq, not_true_eq_false, if_false, henough, hentire, hrun,
    Bool.not_false, Bool.and_self, if_true, hmod, SlottedMac.stopContentionCycle,
    m_MISSED_READ_THRESHOLD, Bool.true_and, hne, decide_False, Bool.false_eq_true]
  rw [isEnoughTimeForContentionCycle_congr mac, henough]
  rotate_left
  · rfl
  · rfl
  · rfl
  cases enough
  · simp [hrun]
  · simp only []
    rw [hreq, hw1]
    rotate_left
    · rfl
    · rfl
    · rfl
    simp

end ReaderMacCycleBelow

/-- Claim C11: with `do_entire_read_cycle = false` and the cycle timer running,
an end-of-contention-cycle `beginSlotEvent` records the missed read and raises
`missed_read_count` by one.  Entered with the count 2 it stops the cycle timer,
clears `current_app_read_packet`, calls `unblockUpperQueues` and then
`signalReadEnd` once, and prepares no REQUEST.  Entered with the count 0 or 1 it
calls nothing, leaves the timer running, and prepares a REQUEST for slot 1
exactly if there is enough time. -/
theorem beginSlotEvent_missed_reads (mac : RfidReaderMac) (w : MacWorld)
    (hentire : mac.m_doEntireReadCycle = false)
    (hrun : mac.m_cycleTimer.isRunning w.sim = true)
    (hwf : w.sim.WF) (hfuture : w.sim.Future) (hexact : w.sim.FlagsExact)
    (hdistinct : mac.m_cycleTimer.m_eventOnFire ≠ mac.m_slotTimer.m_eventOnFire)
    (hslot : 0 ≤ mac.getSlotTime)
    (htx : mac.m_currentSlotNumber ≠ mac.m_txSlotNumber)
    (hend : mac.m_numberOfSlots = 0 ∨ mac.m_currentSlotNumber ≥ mac.m_numberOfSlots
      ∨ (mac.m_doResetSlot = true ∧ mac.m_currentSlotNumber = mac.m_resetSlotNumber))
    (hnone : mac.m_packetToTransmit = none)
    (appPacket : PacketPtr)
    (happ : mac.m_currentAppReadPacket = some appPacket)
    (halloc : appPacket < w.nextPacketPtr)
    (hpower : 0 ≤ (w.packets appPacket).getTxPower)
    (hslots : 4 ≤ mac.m_nextCycleNumberOfSlots)
    (hcount : mac.m_missedReadCount ≤ 2) :
    ∃ mac' w', mac.beginSlotEvent w = .ok (mac', w') ∧
      mac'.m_missedReads = mac.m_missedReads ++ [mac.m_currentSlotNumber] ∧
      mac'.m_missedReadCount = mac.m_missedReadCount + 1 ∧
      mac'.m_currentSlotNumber = 1 ∧ mac'.m_numberOfSlots = 0 ∧
      (mac.m_missedReadCount = 2 →
        mac'.m_cycleTimer.isRunning w'.sim = false ∧
        mac'.m_currentAppReadPacket = none ∧
        w'.calls = w.calls ++ [MacCall.unblockUpperQueues, MacCall.signalReadEnd] ∧
        mac'.m_packetToTransmit = none ∧
        w'.nextPacketPtr = w.nextPacketPtr) ∧
      (mac.m_missedReadCount < 2 →
        mac'.m_cycleTimer.isRunning w'.sim = true ∧
        mac'.m_currentAppReadPacket = some appPacket ∧
        w'.calls = w.calls ∧
        ∃ enough, mac.isEnoughTimeForContentionCycle w = .ok enough ∧
          (enough = true →
            mac'.m_packetToTransmit = some w.nextPacketPtr ∧ mac'.m_txSlotNumber = 1 ∧
            RfidReaderMac.isPacketType w' w.nextPacketPtr .Request = true) ∧
          (enough = false →
            mac'.m_packetToTransmit = none ∧ w'.nextPacketPtr = w.nextPacketPtr)) := by
  have hmem : mac.m_cycleTimer.m_eventOnFire ∈ w.sim.m_eventPtrQueue := hexact _ hrun
  have hvalid : w.sim.m_clock ≤ w.sim.fire mac.m_cycleTimer.m_eventOnFire := hfuture _ hmem
  have hone : (0 + 1) % 2 ^ 32 = 1 := by norm_num
  unfold RfidReaderMac.beginSlotEvent
  simp only [htx, if_false, hend, if_true]
  rcases Nat.lt_or_eq_of_le hcount with hlt | heq
  · obtain ⟨enough, w1, henough, hreq, hcycle⟩ := endOfContentionCycle_below mac w hentire
      hrun hvalid hnone hlt appPacket happ halloc hpower hslots
    obtain ⟨w1', hreq', hsim, hcalls, hnext, -, hlink, -, -⟩ :=
      createRequestPacket_ok mac w appPacket happ halloc hpower hslots
    have hw1 : w1' = w1 := by
      have := hreq'.symm.trans hreq
      exact (Prod.mk.inj (Except.ok.inj this)).2
    subst hw1
    rw [hcycle]
    have hkeep : ∀ s' : Simulator,
        (∀ i, i ≠ mac.m_slotTimer.m_eventOnFire → s'.events i = w.sim.events i) →
        mac.m_cycleTimer.isRunning s' = true := by
      intro s' hoth
      unfold Timer.isRunning at hrun ⊢
      rw [hoth _ hdistinct]
      exact hrun
    cases enough
    · obtain ⟨b, s', hres, -, hoth⟩ := timer_reschedule_ok mac.m_slotTimer w.sim
        mac.getSlotTime hslot
      simp only [hone, SlottedMac.getSlotTime, Bool.false_eq_true, if_false] at hres ⊢
      rw [hres]
      refine ⟨_, _, rfl, rfl, rfl, rfl, rfl, fun h => (by omega), fun _ => ?_⟩
      refine ⟨hkeep s' hoth, happ, rfl, false, henough, fun h => (by cases h), fun _ => ?_⟩
      exact ⟨rfl, rfl⟩
    · obtain ⟨b, s', hres, -, hoth⟩ := timer_reschedule_ok mac.m_slotTimer w1'.sim
        mac.getSlotTime hslot
      rw [hsim] at hoth
      simp only [hone, SlottedMac.getSlotTime, if_true] at hres ⊢
      rw [hres]
      refine ⟨_, _, rfl, rfl, rfl, rfl, rfl, fun h => (by omega), fun _ => ?_⟩
      refine ⟨hkeep s' hoth, happ, hcalls, true, henough, fun _ => ?_, fun h => (by cases h)⟩
      refine ⟨rfl, rfl, ?_⟩
      unfold RfidReaderMac.isPacketType
      simp only []
      rw [hlink]
      rfl
  · rw [endOfContentionCycle_threshold mac w hentire hrun hvalid hnone heq]
    obtain ⟨b, s', hres, -, hoth⟩ := timer_reschedule_ok mac.m_slotTimer
      (mac.m_cycleTimer.stop w.sim).2 mac.getSlotTime hslot
    simp only [hone, SlottedMac.getSlotTime] at hres ⊢
    rw [hres]
    refine ⟨_, _, rfl, rfl, by rw [heq], rfl, rfl, ?_, ?_⟩
    · intro _
      refine ⟨?_, rfl, by simp, hnone, rfl⟩
      have h1 := timer_stop_running mac.m_cycleTimer w.sim hwf hmem
      unfold Timer.isRunning at h1 ⊢
      simp only []
      rw [hoth _ hdistinct]
      exact h1
    · intro h
      omega

theorem exampleSlotSim_WF : exampleSlotSim.WF := by
  refine ⟨?_, ?_, ?_⟩
  · simp [exampleSlotSim]
  · simp [exampleSlotSim]
  · intro e he
    simp only [exampleSlotSim, List.mem_singleton] at he
    subst he
    rfl

theorem exampleSlotSim_Future : exampleSlotSim.Future := by
  intro e he
  simp only [exampleSlotSim, List.mem_singleton] at he
  subst he
  norm_num [exampleSlotSim, Simulator.fire]

theorem exampleSlotSim_FlagsExact : exampleSlotSim.FlagsExact := by
  intro e he
  by_cases h : e = 1
  · subst h
    simp [exampleSlotSim]
  · simp [exampleSlotSim, h] at he

theorem beginSlotEvent_missed_reads_witness :
    ∃ mac' w', (exampleMissMac 2).beginSlotEvent exampleSlotWorld = .ok (mac', w') ∧
      mac'.m_missedReadCount = 3 ∧
      mac'.m_cycleTimer.isRunning w'.sim = false ∧
      w'.calls = [MacCall.unblockUpperQueues, MacCall.signalReadEnd] ∧
      mac'.m_packetToTransmit = none := by
  obtain ⟨mac', w', h, -, h3, -, -, h2, -⟩ := beginSlotEvent_missed_reads (exampleMissMac 2)
    exampleSlotWorld rfl rfl exampleSlotSim_WF exampleSlotSim_Future exampleSlotSim_FlagsExact
    (by decide) (by norm_num [exampleMissMac, exampleReaderMac, RfidReaderMac.create,
      SlottedMac.getSlotTime, m_DEFAULT_SLOT_TIME])
    (by decide) (Or.inr (Or.inl (by decide))) rfl 0 rfl (by decide)
    (by norm_num [exampleSlotWorld, exampleReaderWorld, exampleReadPacket, Packet.getTxPower,
      Packet.addData])
    (by decide) (by decide)
  exact ⟨mac', w', h, h3, (h2 rfl).1, (h2 rfl).2.2.1, (h2 rfl).2.2.2.1⟩

/-- Claim C14: a REPLY addressed to the reader MAC (or to broadcast).  If the
cycle timer runs and no packet is pending, the MAC puts a SELECT header for the
REPLY's sender and the force-max flag on `current_app_read_packet`, makes that
packet `packet_to_transmit` and sets `tx_slot := current_slot`; nothing else
changes.  If the cycle timer does not run or a packet is pending, MAC and
surroundings are unchanged.  The handler returns true in both cases. -/
theorem handleRecvdMacPacket_reply (mac : RfidReaderMac) (w : MacWorld) (packet : PacketPtr)
    (size : ℕ) (macData : RfidTagMacData)
    (hdata : (w.packets packet).getData .Link
      = some { sizeInBytes := size, header := .tagMac macData })
    (htype : macData.m_type = .Reply)
    (hforMe : macData.m_receiverId = mac.nodeId
      ∨ macData.m_receiverId = NodeId.broadcastDestination)
    :
    (mac.m_cycleTimer.isRunning w.sim = true → mac.m_packetToTransmit = none →
      ∀ appPacket, mac.m_currentAppReadPacket = some appPacket →
      mac.m_slotTimer.isRunning w.sim = true →
      mac.handleRecvdMacPacket w packet = .ok (true,
        { mac with
          m_packetToTransmit := some appPacket
          m_txSlotNumber := mac.m_currentSlotNumber },
        { w with
          packets := setAt w.packets appPacket
            (((w.packets appPacket).setDoMaxTxPower true).addData .Link
              (RfidReaderMacData.toPacketData
                { m_senderId := mac.nodeId, m_receiverId := macData.m_senderId,
                  m_numberOfSlots := 0, m_type := .Select })) })) ∧
    (mac.m_cycleTimer.isRunning w.sim = false ∨ mac.m_packetToTransmit ≠ none →
      mac.handleRecvdMacPacket w packet = .ok (true, mac, w)) := by
  have hme : mac.packetIsForMe macData = true := by
    unfold RfidReaderMac.packetIsForMe
    rcases hforMe with h | h <;> simp [h]
  constructor
  · intro hrun hnone appPacket happ hslot
    unfold RfidReaderMac.handleRecvdMacPacket
    simp only [hdata, hme, if_true, htype, hrun, hnone, happ, RfidReaderMac.addSelectHeader,
      MacWorld.setPacket, hslot, Bool.not_true, Bool.false_eq_true, if_false]
    rfl
  · intro h
    unfold RfidReaderMac.handleRecvdMacPacket
    simp only [hdata, hme, if_true, htype]
    rcases h with h | h
    · simp only [h, Bool.false_eq_true, if_false]
    · by_cases hrun : mac.m_cycleTimer.isRunning w.sim = true
      · simp only [hrun, if_true]
        cases hp : mac.m_packetToTransmit with
        | none => exact absurd hp h
        | some p => rfl
      · have hrun' : mac.m_cycleTimer.isRunning w.sim = false := by simpa using hrun
        simp only [hrun', Bool.false_eq_true, if_false]

theorem handleRecvdMacPacket_reply_witness :
    ∃ mac' w', exampleReaderMac.handleRecvdMacPacket exampleReplyWorld 1 = .ok (true, mac', w') ∧
      mac'.m_packetToTransmit = some 0 ∧ mac'.m_txSlotNumber = 0 ∧
      RfidReaderMac.isPacketType w' 0 .Select = true ∧
      (w'.packets 0).getDoMaxTxPower = true ∧
      exampleIdleReaderMac.handleRecvdMacPacket exampleReplyWorld 1
        = .ok (true, exampleIdleReaderMac, exampleReplyWorld) := by
  have hdata : (exampleReplyWorld.packets 1).getData .Link
      = some { sizeInBytes := 17, header := (Header.tagMac ⟨9, 7, .Reply⟩) } := by
    simp [exampleReplyWorld, exampleReplyPacket, Packet.getData, Packet.addData, dataInsert,
      Packet.create, RfidTagMacData.toPacketData, RfidTagMacData.getSizeInBytes,
      RfidTagMacData.create]
  have h1 := (handleRecvdMacPacket_reply exampleReaderMac exampleReplyWorld 1 17 _ hdata rfl
    (Or.inl rfl)).1 rfl rfl 0 rfl rfl
  have h2 := (handleRecvdMacPacket_reply exampleIdleReaderMac exampleReplyWorld 1 17 _
    hdata rfl (Or.inl rfl)).2 (Or.inl rfl)
  refine ⟨_, _, h1, rfl, rfl, ?_, ?_, h2⟩
  · simp [RfidReaderMac.isPacketType, setAt, Packet.getData, Packet.addData, dataInsert,
      Packet.setDoMaxTxPower, exampleReplyWorld, exampleReadPacket, Packet.create,
      RfidReaderMacData.toPacketData, DataTypes.toNat]
  · simp [setAt, Packet.addData, Packet.setDoMaxTxPower, Packet.getDoMaxTxPower]

section ReaderMacGeneric

/-- A frame with a tag header is of no reader type. -/
theorem isPacketType_tagMac (w : MacWorld) (packet : PacketPtr) (size : ℕ)
    (macData : RfidTagMacData)
    (hdata : (w.packets packet).getData .Link
      = some { sizeInBytes := size, header := (Header.tagMac macData) })
    (type : RfidReaderMacData.Types) : RfidReaderMac.isPacketType w packet type = false := by
  unfold RfidReaderMac.isPacketType
  rw [hdata]

/-- What the reader MAC does with an identity frame addressed to it, whatever
the current slot is. -/
theorem handleRecvdMacPacket_generic_eq (mac : RfidReaderMac) (w : MacWorld)
    (packet : PacketPtr) (size : ℕ) (macData : RfidTagMacData)
    (hdata : (w.packets packet).getData .Link
      = some { sizeInBytes := size, header := (Header.tagMac macData) })
    (htype : macData.m_type = .Generic)
    (hforMe : macData.m_receiverId = mac.nodeId
      ∨ macData.m_receiverId = NodeId.broadcastDestination)
    (hslot : mac.m_slotTimer.isRunning w.sim = true) :
    ∃ w', mac.handleRecvdMacPacket w packet = .ok (true,
        { mac with
          m_winningSlotNumbers := mac.m_winningSlotNumbers ++
            [(macData.m_senderId, (mac.m_currentSlotNumber + (2 ^ 32 - 3)) % 2 ^ 32)]
          m_packetToTransmit := some w.nextPacketPtr
          m_txSlotNumber := mac.m_currentSlotNumber }, w') ∧
      w'.calls = w.calls ++
        [MacCall.unblockUpperQueues, MacCall.recvFromMacProtocol .Upper packet] ∧
      w'.sim = w.sim ∧
      (∀ q, q ≠ w.nextPacketPtr → w'.packets q = w.packets q) ∧
      (w'.packets w.nextPacketPtr).getData .Link
        = some (RfidReaderMacData.toPacketData
            { m_senderId := mac.nodeId, m_receiverId := macData.m_senderId,
              m_numberOfSlots := 0, m_type := .Ack }) ∧
      (w'.packets w.nextPacketPtr).getDoMaxTxPower = true := by
  have hme : mac.packetIsForMe macData = true := by
    unfold RfidReaderMac.packetIsForMe
    rcases hforMe with h | h <;> simp [h]
  unfold RfidReaderMac.handleRecvdMacPacket
  simp only [hdata, hme, if_true, htype, RfidReaderMac.sendToLinkLayer,
    MacProtocol.sendToLinkLayer, reduceCtorEq, false_and, if_false,
    RfidReaderMac.handlePacketSent, isPacketType_tagMac w packet size macData hdata,
    Bool.false_eq_true, MacWorld.recvFromMacProtocol, MacWorld.unblockUpperQueues,
    MacWorld.call, RfidReaderMac.createAckPacket, MacWorld.newPacket, MacWorld.setPacket,
    hslot, Bool.not_true]
  refine ⟨_, rfl, by simp, rfl, ?_, ?_, ?_⟩
  · intro q hq
    simp [setAt, hq]
  · simp [setAt, Packet.addData, dataInsert, Packet.getData, Packet.create,
      Packet.setDoMaxTxPower, RfidReaderMacData.create]
  · simp [setAt, Packet.addData, Packet.getDoMaxTxPower, Packet.setDoMaxTxPower]

end ReaderMacGeneric

/-- Claim C15, counterexample: an identity frame that reaches the reader MAC in
slot 0 is recorded with the winning slot 4294967293, which is not the integer
`current_slot - 3`. -/
theorem winning_slot_wraps :
    ∃ mac' w', exampleReaderMac.handleRecvdMacPacket exampleGenericWorld 1
        = .ok (true, mac', w') ∧
      mac'.m_winningSlotNumbers = [(9, 4294967293)] ∧
      ∀ p ∈ mac'.m_winningSlotNumbers,
        (p.2 : ℤ) ≠ (exampleReaderMac.m_currentSlotNumber : ℤ) - 3 := by
  have hdata : (exampleGenericWorld.packets 1).getData .Link
      = some { sizeInBytes := 17, header := (Header.tagMac ⟨9, 7, .Generic⟩) } := by
    simp [exampleGenericWorld, exampleGenericPacket, Packet.getData, Packet.addData,
      dataInsert, Packet.create, RfidTagMacData.toPacketData, RfidTagMacData.getSizeInBytes,
      RfidTagMacData.create, DataTypes.toNat]
  obtain ⟨w', h, -⟩ := handleRecvdMacPacket_generic_eq exampleReaderMac exampleGenericWorld 1
    17 _ hdata rfl (Or.inl rfl) rfl
  refine ⟨_, w', h, ?_, ?_⟩
  · simp [exampleReaderMac, RfidReaderMac.create]
  · intro p hp
    simp [exampleReaderMac, RfidReaderMac.create] at hp
    subst hp
    simp [exampleReaderMac, RfidReaderMac.create]

/-- Claim C15, amended: an identity (GENERIC) frame of a tag, addressed to the
reader MAC or to broadcast, that arrives while `current_slot >= 3`: the MAC
appends `(sender, current_slot - 3)` to the winning slots, hands the frame
upward (after `handlePacketSent`, which unblocks the upper queues), makes a new
ACK for the sender with the force-max flag its `packet_to_transmit`, and sets
`tx_slot := current_slot`. -/
theorem handleRecvdMacPacket_generic (mac : RfidReaderMac) (w : MacWorld)
    (packet : PacketPtr) (size : ℕ) (macData : RfidTagMacData)
    (hdata : (w.packets packet).getData .Link
      = some { sizeInBytes := size, header := (Header.tagMac macData) })
    (htype : macData.m_type = .Generic)
    (hforMe : macData.m_receiverId = mac.nodeId
      ∨ macData.m_receiverId = NodeId.broadcastDestination)
    (hslot : mac.m_slotTimer.isRunning w.sim = true)
    (hcur : 3 ≤ mac.m_currentSlotNumber) (huint : mac.m_currentSlotNumber < 2 ^ 32) :
    ∃ mac' w', mac.handleRecvdMacPacket w packet = .ok (true, mac', w') ∧
      mac'.m_winningSlotNumbers = mac.m_winningSlotNumbers ++
        [(macData.m_senderId, mac.m_currentSlotNumber - 3)] ∧
      w'.calls = w.calls ++
        [MacCall.unblockUpperQueues, MacCall.recvFromMacProtocol .Upper packet] ∧
      mac'.m_packetToTransmit = some w.nextPacketPtr ∧
      (w'.packets w.nextPacketPtr).getData .Link
        = some (RfidReaderMacData.toPacketData
            { m_senderId := mac.nodeId, m_receiverId := macData.m_senderId,
              m_numberOfSlots := 0, m_type := .Ack }) ∧
      (w'.packets w.nextPacketPtr).getDoMaxTxPower = true ∧
      mac'.m_txSlotNumber = mac.m_currentSlotNumber ∧
      mac'.m_currentSlotNumber = mac.m_currentSlotNumber ∧
      (∀ q, q ≠ w.nextPacketPtr → w'.packets q = w.packets q) := by
  obtain ⟨w', h, hcalls, -, hothers, hlink, hmax⟩ :=
    handleRecvdMacPacket_generic_eq mac w packet size macData hdata htype hforMe hslot
  have hpow : (2 : ℕ) ^ 32 = 4294967296 := by norm_num
  have hsub : (mac.m_currentSlotNumber + (2 ^ 32 - 3)) % 2 ^ 32 = mac.m_currentSlotNumber - 3 := by
    rw [hpow] at huint ⊢
    omega
  refine ⟨_, w', h, ?_, hcalls, rfl, hlink, hmax, rfl, rfl, hothers⟩
  simp only [hsub]

theorem handleRecvdMacPacket_generic_witness :
    ∃ mac' w', exampleSelectedMac.handleRecvdMacPacket exampleGenericWorld 1
        = .ok (true, mac', w') ∧
      mac'.m_winningSlotNumbers = [(9, 0)] ∧
      mac'.m_packetToTransmit = some 2 ∧ mac'.m_txSlotNumber = 3 ∧
      RfidReaderMac.isPacketType w' 2 .Ack = true := by
  have hdata : (exampleGenericWorld.packets 1).getData .Link
      = some { sizeInBytes := 17, header := (Header.tagMac ⟨9, 7, .Generic⟩) } := by
    simp [exampleGenericWorld, exampleGenericPacket, Packet.getData, Packet.addData,
      dataInsert, Packet.create, RfidTagMacData.toPacketData, RfidTagMacData.getSizeInBytes,
      RfidTagMacData.create, DataTypes.toNat]
  obtain ⟨mac', w', h, h1, -, h2, h3, -, h4, -, -⟩ := handleRecvdMacPacket_generic
    exampleSelectedMac exampleGenericWorld 1 17 _ hdata rfl (Or.inl rfl) rfl
    (by decide) (by decide)
  refine ⟨mac', w', h, h1, h2, h4, ?_⟩
  unfold RfidReaderMac.isPacketType
  have h3' : (w'.packets 2).getData .Link = _ := h3
  simp only [h3']
  rfl

/-- Claim C17: `MacProtocol::sendToLinkLayer(Lower, p)` runs exactly one of the
two handlers.  If the cumulative signal strength of the physical layer exceeds
`cs_threshold`, the outcome is that of `handleChannelBusy(p)` with the result
false, and the link layer is not called; otherwise it is that of
`handlePacketSent(p)` followed by the hand-over of `p` to the link layer, with
the result true.  So a call that returns gives false exactly if the channel was
busy. -/
theorem sendToLinkLayer_carrier_sense {μ : Type}
    (handleChannelBusy handlePacketSent : PacketPtr → μ → MacWorld → Except Fault (μ × MacWorld))
    (mac : μ) (w : MacWorld) (p : PacketPtr) :
    MacProtocol.sendToLinkLayer handleChannelBusy handlePacketSent mac w .Lower p
      = (if w.phy.getCulmulativeSignalStrength > w.phy.getCsThreshold then
          (handleChannelBusy p mac w).map (fun r => (false, r.1, r.2))
        else
          (handlePacketSent p mac w).map
            (fun r => (true, r.1, r.2.call (MacCall.recvFromMacProtocol .Lower p)))) ∧
    ∀ b mac' w',
      MacProtocol.sendToLinkLayer handleChannelBusy handlePacketSent mac w .Lower p
        = .ok (b, mac', w') →
      (b = false ↔ w.phy.getCulmulativeSignalStrength > w.phy.getCsThreshold) := by
  have heq : MacProtocol.sendToLinkLayer handleChannelBusy handlePacketSent mac w .Lower p
      = (if w.phy.getCulmulativeSignalStrength > w.phy.getCsThreshold then
          (handleChannelBusy p mac w).map (fun r => (false, r.1, r.2))
        else
          (handlePacketSent p mac w).map
            (fun r => (true, r.1, r.2.call (MacCall.recvFromMacProtocol .Lower p)))) := by
    unfold MacProtocol.sendToLinkLayer MacWorld.channelIsBusy
      PhysicalLayer.channelCarrierSensedBusy
    by_cases hbusy : w.phy.getCulmulativeSignalStrength > w.phy.getCsThreshold
    · simp only [hbusy, decide_True, and_self, if_true]
      cases handleChannelBusy p mac w <;> rfl
    · simp only [hbusy, decide_False, Bool.false_eq_true, and_false, if_false]
      cases handlePacketSent p mac w <;> rfl
  refine ⟨heq, ?_⟩
  intro b mac' w' h
  rw [heq] at h
  by_cases hbusy : w.phy.getCulmulativeSignalStrength > w.phy.getCsThreshold
  · rw [if_pos hbusy] at h
    cases hr : handleChannelBusy p mac w with
    | error f => rw [hr] at h; cases h
    | ok r =>
      rw [hr] at h
      have := (Prod.mk.inj (Except.ok.inj h)).1
      exact ⟨fun _ => hbusy, fun _ => this.symm⟩
  · rw [if_neg hbusy] at h
    cases hr : handlePacketSent p mac w with
    | error f => rw [hr] at h; cases h
    | ok r =>
      rw [hr] at h
      have hb : true = b := (Prod.mk.inj (Except.ok.inj h)).1
      subst hb
      exact ⟨fun h' => (by cases h'), fun h' => absurd h' hbusy⟩

/-- The reader MAC sending packet 1 on a busy and on an idle channel. -/
theorem sendToLinkLayer_carrier_sense_witness :
    exampleReaderMac.sendToLinkLayer exampleBusyWorld .Lower 1
      = (RfidReaderMac.handleChannelBusy 1 exampleReaderMac exampleBusyWorld).map
          (fun r => (false, r.1, r.2)) ∧
    exampleReaderMac.sendToLinkLayer exampleReplyWorld .Lower 1
      = (RfidReaderMac.handlePacketSent 1 exampleReaderMac exampleReplyWorld).map
          (fun r => (true, r.1, r.2.call (MacCall.recvFromMacProtocol .Lower 1))) := by
  have h1 := (sendToLinkLayer_carrier_sense RfidReaderMac.handleChannelBusy
    RfidReaderMac.handlePacketSent exampleReaderMac exampleBusyWorld 1).1
  have h2 := (sendToLinkLayer_carrier_sense RfidReaderMac.handleChannelBusy
    RfidReaderMac.handlePacketSent exampleReaderMac exampleReplyWorld 1).1
  have hbusy : exampleBusyWorld.phy.getCulmulativeSignalStrength
      > exampleBusyWorld.phy.getCsThreshold := by
    norm_num [exampleBusyWorld, exampleReplyWorld, exampleReaderWorld,
      PhysicalLayer.getCulmulativeSignalStrength, PhysicalLayer.getCsThreshold,
      PhysicalLayer.create]
  have hidle : ¬ (exampleReplyWorld.phy.getCulmulativeSignalStrength
      > exampleReplyWorld.phy.getCsThreshold) := by
    norm_num [exampleReplyWorld, exampleReaderWorld,
      PhysicalLayer.getCulmulativeSignalStrength, PhysicalLayer.getCsThreshold,
      PhysicalLayer.create]
  rw [if_pos hbusy] at h1
  rw [if_neg hidle] at h2
  exact ⟨h1, h2⟩

/-- Claim C18: a packet handed down to a physical layer.  The call returns; the
packet then carries the data rate of the layer, and the signal emitted for it
has the transmit power (converted to decibels) `max_tx_power` if the force-max
flag of the packet is set, else the tx-power override of the packet if that is
positive, else the `current_tx_power` of the layer. -/
theorem recvFromLayer_tx_power (L : PhysicalLayer) (log10 : ℚ → ℚ) (s : Simulator)
    (recvEvent : EventId) (packet : Packet)
    (hrate : 0 < L.getDataRate) (hband : 0 < L.getBandwidth)
    (hmax : 0 < L.getMaxTxPower) (hcur : 0 < L.getCurrentTxPower)
    (hdelay : 0 ≤ L.getSignalSendingDelay) :
    ∃ signal s', L.recvFromLayer log10 s recvEvent .Upper packet
        = .ok (true, { packet with m_dataRate := L.getDataRate }, signal, s') ∧
      signal.m_packetPtr = { packet with m_dataRate := L.getDataRate } ∧
      signal.m_packetPtr.getDataRate = L.getDataRate ∧
      (packet.getDoMaxTxPower = true →
        powerToDecibels log10 L.getMaxTxPower = .ok signal.m_dbStrength) ∧
      (packet.getDoMaxTxPower = false → packet.getTxPower > 0 →
        powerToDecibels log10 packet.getTxPower = .ok signal.m_dbStrength) ∧
      (packet.getDoMaxTxPower = false → ¬ (packet.getTxPower > 0) →
        powerToDecibels log10 L.getCurrentTxPower = .ok signal.m_dbStrength) := by
  have hpower : L.signalTxPower { packet with m_dataRate := L.getDataRate } ≠ 0 := by
    unfold PhysicalLayer.signalTxPower Packet.getDoMaxTxPower Packet.getTxPower
    simp only
    split
    · exact ne_of_gt hmax
    · split
      · rename_i h; exact ne_of_gt h
      · exact ne_of_gt hcur
  have hwave : L.getWavelength > 0 ∧ L.getGain > 0 := by
    refine ⟨div_pos (by norm_num [SPEED_OF_LIGHT]) hband, ?_⟩
    norm_num [PhysicalLayer.getGain]
  obtain ⟨s', hs'⟩ := scheduleEvent_isOk
    { s with events := setEvent s.events recvEvent Event.create } recvEvent
    L.getSignalSendingDelay (by simp [setEvent, Event.create]) hdelay
  unfold PhysicalLayer.recvFromLayer
  simp only [ne_eq, not_true_eq_false, if_false, Packet.setDataRate, gt_iff_lt, hrate, if_true,
    powerToDecibels, hpower, not_false_eq_true, WirelessCommSignal.create]
  have hwave' : 0 < L.getWavelength ∧ 0 < L.getGain := hwave
  simp only [hwave', and_self, if_true, hs']
  have hsame : L.signalTxPower { packet with m_dataRate := L.getDataRate }
      = L.signalTxPower packet := rfl
  have hdb : powerToDecibels log10 (L.signalTxPower packet)
      = .ok (10 * log10 (L.signalTxPower { packet with m_dataRate := L.getDataRate } / 1)) := by
    rw [hsame] at hpower ⊢
    simp only [powerToDecibels, ne_eq, hpower, not_false_eq_true, if_true]
  refine ⟨_, _, rfl, rfl, rfl, ?_, ?_, ?_⟩
  · intro h
    have hp : L.signalTxPower packet = L.getMaxTxPower := by
      simp only [PhysicalLayer.signalTxPower, h, if_true, PhysicalLayer.getMaxTxPower]
    rw [← hp]
    exact hdb
  · intro h h2
    have hp : L.signalTxPower packet = packet.getTxPower := by
      simp only [PhysicalLayer.signalTxPower, h, Bool.false_eq_true, if_false, h2, if_true]
    rw [← hp]
    exact hdb
  · intro h h2
    have hp : L.signalTxPower packet = L.getCurrentTxPower := by
      simp only [PhysicalLayer.signalTxPower, h, Bool.false_eq_true, if_false, h2,
        PhysicalLayer.getCurrentTxPower]
    rw [← hp]
    exact hdb

theorem recvFromLayer_tx_power_witness :
    ∃ signal s', exampleReaderPhy.recvFromLayer exampleLog10 Simulator.instance 0 .Upper
        exampleReadPacket
        = .ok (true, { exampleReadPacket with m_dataRate := 128000 }, signal, s') ∧
      signal.m_dbStrength = 0 := by
  obtain ⟨signal, s', h, -, -, -, h2, -⟩ := recvFromLayer_tx_power exampleReaderPhy
    exampleLog10 Simulator.instance 0 exampleReadPacket
    (by norm_num [exampleReaderPhy, PhysicalLayer.create, PhysicalLayer.getDataRate])
    (by norm_num [exampleReaderPhy, PhysicalLayer.create, PhysicalLayer.getBandwidth])
    (by norm_num [exampleReaderPhy, PhysicalLayer.create, PhysicalLayer.getMaxTxPower])
    (by norm_num [exampleReaderPhy, PhysicalLayer.create, PhysicalLayer.getCurrentTxPower])
    (by norm_num [exampleReaderPhy, PhysicalLayer.create, PhysicalLayer.getSignalSendingDelay])
  refine ⟨signal, s', h, ?_⟩
  have h3 := h2 rfl (by norm_num [exampleReadPacket, Packet.getTxPower, Packet.addData])
  have h4 : powerToDecibels exampleLog10 exampleReadPacket.getTxPower = .ok 0 := by
    norm_num [powerToDecibels, exampleLog10, exampleReadPacket, Packet.getTxPower,
      Packet.addData]
  rw [h4] at h3
  exact (Except.ok.inj h3).symm

section ReaderAppLemmas

theorem ramp_eq_max_iff (maxTxPower : ℚ) (i N : ℕ) (hmax : 0 < maxTxPower) (hN : 0 < N) :
    maxTxPower * (((i + 1 : ℕ) : ℚ) / (N : ℚ)) ^ 2 = maxTxPower ↔ i + 1 = N := by
  have hNq : (0 : ℚ) < (N : ℚ) := by exact_mod_cast hN
  have hiq : (0 : ℚ) ≤ ((i + 1 : ℕ) : ℚ) / (N : ℚ) := by positivity
  constructor
  · intro h
    have h1 : (((i + 1 : ℕ) : ℚ) / (N : ℚ)) ^ 2 = 1 := by
      have := mul_left_cancel₀ (ne_of_gt hmax) (h.trans (mul_one maxTxPower).symm)
      exact this
    have h2 : ((i + 1 : ℕ) : ℚ) / (N : ℚ) = 1 := by
      rcases sq_eq_one_iff.1 h1 with h3 | h3
      · exact h3
      · linarith
    have h3 : ((i + 1 : ℕ) : ℚ) = (N : ℚ) := by
      rw [div_eq_one_iff_eq (ne_of_gt hNq)] at h2
      exact h2
    exact_mod_cast h3
  · intro h
    rw [h, div_self (ne_of_gt hNq)]
    ring

theorem ramp_strictMono (maxTxPower : ℚ) (N : ℕ) (hmax : 0 < maxTxPower) (hN : 0 < N)
    (i j : ℕ) (hij : i < j) :
    maxTxPower * (((i + 1 : ℕ) : ℚ) / (N : ℚ)) ^ 2
      < maxTxPower * (((j + 1 : ℕ) : ℚ) / (N : ℚ)) ^ 2 := by
  have hNq : (0 : ℚ) < (N : ℚ) := by exact_mod_cast hN
  have hi : (0 : ℚ) ≤ ((i + 1 : ℕ) : ℚ) / (N : ℚ) := by positivity
  have hlt : ((i + 1 : ℕ) : ℚ) / (N : ℚ) < ((j + 1 : ℕ) : ℚ) / (N : ℚ) := by
    apply div_lt_div_of_pos_right _ hNq
    exact_mod_cast Nat.succ_lt_succ hij
  exact mul_lt_mul_of_pos_left (pow_lt_pow_left₀ hlt hi (by norm_num)) hmax

end ReaderAppLemmas

/-- Claim C20: with `N >= 1` power levels and `max_tx_power > 0`, `doNextRead`
at level `i < N` hands one new READ packet to `sendToQueue`: broadcast
destination, tx power `max_tx_power * ((i+1)/N)^2`, which is positive, strictly
increasing in the level and equal to `max_tx_power` at `i = N-1`; its
`do_entire_read_cycle` flag is set exactly if `i = N-1`. -/
theorem doNextRead_power_ramp (app : RfidReaderApp) (w : AppWorld)
    (hN : 1 ≤ app.m_numPowerControlLevels) (huint : app.m_numPowerControlLevels < 2 ^ 32)
    (hmax : 0 < app.m_maxTxPower)
    (hi : app.m_currentTxPowerLevel < app.m_numPowerControlLevels) :
    ∃ app' w', app.doNextRead w = .ok (app', w') ∧
      w'.sentToQueue = w.sentToQueue ++ [w.nextPacketPtr] ∧
      (w'.packets w.nextPacketPtr).getTxPower
        = app.m_maxTxPower * (((app.m_currentTxPowerLevel : ℚ) + 1)
            / (app.m_numPowerControlLevels : ℚ)) ^ 2 ∧
      0 < (w'.packets w.nextPacketPtr).getTxPower ∧
      (w'.packets w.nextPacketPtr).getDestination = NodeId.broadcastDestination ∧
      (w'.packets w.nextPacketPtr).getData .Application
        = some (RfidReaderAppData.toPacketData
            { m_nodeId := app.nodeId, m_type := .Read,
              m_doEntireReadCycle :=
                decide (app.m_currentTxPowerLevel = app.m_numPowerControlLevels - 1) }) ∧
      (app.m_currentTxPowerLevel = app.m_numPowerControlLevels - 1 →
        (w'.packets w.nextPacketPtr).getTxPower = app.m_maxTxPower) ∧
      (∀ i j : ℕ, i < j →
        app.m_maxTxPower * (((i : ℚ) + 1) / (app.m_numPowerControlLevels : ℚ)) ^ 2
          < app.m_maxTxPower * (((j : ℚ) + 1) / (app.m_numPowerControlLevels : ℚ)) ^ 2) := by
  have hNpos : 0 < app.m_numPowerControlLevels := hN
  have hmod : (app.m_currentTxPowerLevel + 1) % 2 ^ 32 = app.m_currentTxPowerLevel + 1 :=
    Nat.mod_eq_of_lt (by omega)
  have hcast : ∀ k : ℕ, ((k + 1 : ℕ) : ℚ) = (k : ℚ) + 1 := fun k => by push_cast; rfl
  have hlast : app.m_currentTxPowerLevel = app.m_numPowerControlLevels - 1
      ↔ app.m_currentTxPowerLevel + 1 = app.m_numPowerControlLevels := by omega
  have hramp := ramp_eq_max_iff app.m_maxTxPower app.m_currentTxPowerLevel
    app.m_numPowerControlLevels hmax hNpos
  have hpos : 0 < app.m_maxTxPower * (((app.m_currentTxPowerLevel + 1 : ℕ) : ℚ)
      / (app.m_numPowerControlLevels : ℚ)) ^ 2 := by
    have hNq : (0 : ℚ) < (app.m_numPowerControlLevels : ℚ) := by exact_mod_cast hNpos
    have : (0 : ℚ) < ((app.m_currentTxPowerLevel + 1 : ℕ) : ℚ) := by
      exact_mod_cast Nat.succ_pos _
    positivity
  unfold RfidReaderApp.doNextRead
  simp only [hi, if_true, hmod, RfidReaderApp.sendReadPacket, AppWorld.newPacket,
    Packet.setTxPower, ge_iff_le, le_of_lt hpos, setAt, AppWorld.sendToQueue]
  refine ⟨_, _, rfl, rfl, ?_, ?_, ?_, ?_, ?_, ?_⟩
  · simp [setAt_same, Packet.getTxPower, Packet.addData, Packet.setDestination, hcast]
  · simpa [setAt_same, Packet.getTxPower, Packet.addData, Packet.setDestination] using hpos
  · simp [setAt_same, Packet.getDestination, Packet.addData, Packet.setDestination]
  · by_cases hl : app.m_currentTxPowerLevel + 1 = app.m_numPowerControlLevels
    · have hq := hramp.2 hl
      rw [hcast] at hq
      have hd : decide (app.m_currentTxPowerLevel = app.m_numPowerControlLevels - 1) = true :=
        decide_eq_true (hlast.2 hl)
      rw [hd]
      simp [setAt_same, Packet.getData, Packet.addData, dataInsert, Packet.setDestination,
        Packet.getTxPower, Packet.create, RfidReaderAppData.create, hq]
    · have hne : ¬ (app.m_maxTxPower * (((app.m_currentTxPowerLevel : ℚ) + 1)
          / (app.m_numPowerControlLevels : ℚ)) ^ 2 = app.m_maxTxPower) := by
        intro h
        rw [← hcast] at h
        exact hl (hramp.1 h)
      have hnl : ¬ (app.m_currentTxPowerLevel = app.m_numPowerControlLevels - 1) :=
        fun h => hl (hlast.1 h)
      have hd : decide (app.m_currentTxPowerLevel = app.m_numPowerControlLevels - 1) = false :=
        decide_eq_false hnl
      rw [hd]
      simp [setAt_same, Packet.getData, Packet.addData, dataInsert, Packet.setDestination,
        Packet.getTxPower, Packet.create, RfidReaderAppData.create, hne]
  · intro hl
    have := hramp.2 (hlast.1 hl)
    simpa [setAt_same, Packet.getTxPower, Packet.addData, Packet.setDestination] using this
  · intro i j hij
    have := ramp_strictMono app.m_maxTxPower app.m_numPowerControlLevels hmax hNpos i j hij
    rwa [hcast, hcast] at this

theorem doNextRead_power_ramp_witness :
    (∃ app' w', (exampleReaderApp 0).doNextRead exampleAppWorld = .ok (app', w') ∧
      w'.sentToQueue = [0] ∧ (w'.packets 0).getTxPower = 1 / 4 ∧
      (w'.packets 0).getData .Application
        = some (RfidReaderAppData.toPacketData
            { m_nodeId := 7, m_type := .Read, m_doEntireReadCycle := false })) ∧
    (∃ app' w', (exampleReaderApp 1).doNextRead exampleAppWorld = .ok (app', w') ∧
      w'.sentToQueue = [0] ∧ (w'.packets 0).getTxPower = 1 ∧
      (w'.packets 0).getData .Application
        = some (RfidReaderAppData.toPacketData
            { m_nodeId := 7, m_type := .Read, m_doEntireReadCycle := true })) := by
  constructor
  · obtain ⟨app', w', h, h1, h2, -, -, h3, -, -⟩ := doNextRead_power_ramp (exampleReaderApp 0)
      exampleAppWorld (by decide) (by decide)
      (by norm_num [exampleReaderApp, RfidReaderApp.create]) (by decide)
    refine ⟨app', w', h, h1, ?_, h3⟩
    rw [show exampleAppWorld.nextPacketPtr = 0 from rfl] at h2
    rw [h2]
    norm_num [exampleReaderApp, RfidReaderApp.create]
  · obtain ⟨app', w', h, h1, h2, -, -, h3, -, -⟩ := doNextRead_power_ramp (exampleReaderApp 1)
      exampleAppWorld (by decide) (by decide)
      (by norm_num [exampleReaderApp, RfidReaderApp.create]) (by decide)
    refine ⟨app', w', h, h1, ?_, h3⟩
    rw [show exampleAppWorld.nextPacketPtr = 0 from rfl] at h2
    rw [h2]
    norm_num [exampleReaderApp, RfidReaderApp.create]

section ChannelIdLemmas

theorem sendSignalToListener_signals {env : Medium} {w w' : World} {sender : PhyId}
    {signal : SignalId} {channel : ChannelPtr} {t : SimTime} {listener : PhyId}
    (h : w.sendSignalToListener env sender signal channel t listener = .ok w') :
    w'.signals = w.signals ∧ w'.manager = w.manager := by
  unfold World.sendSignalToListener at h
  by_cases hne : listener ≠ sender
  · rw [if_pos hne] at h
    simp only [World.newSignalEndEvent] at h
    generalize (w.layers listener).listenerUpdate _ signal _ = r at h
    cases r with
    | error f => cases h
    | ok L =>
      simp only at h
      generalize Simulator.scheduleEvent _ _ _ = r2 at h
      cases r2 with
      | error f => cases h
      | ok p =>
        simp only at h
        cases h
        exact ⟨rfl, rfl⟩
  · rw [if_neg hne] at h
    cases h
    exact ⟨rfl, rfl⟩

theorem sendSignalToListeners_signals {env : Medium} {sender : PhyId} {signal : SignalId}
    {channel : ChannelPtr} {t : SimTime} :
    ∀ (listeners : List PhyId) (w w' : World),
      World.sendSignalToListeners env sender signal channel t listeners w = .ok w' →
      w'.signals = w.signals ∧ w'.manager = w.manager := by
  intro listeners
  induction listeners with
  | nil =>
    intro w w' h
    cases h
    exact ⟨rfl, rfl⟩
  | cons listener rest ih =>
    intro w w' h
    unfold World.sendSignalToListeners at h
    cases h1 : w.sendSignalToListener env sender signal channel t listener with
    | error f => rw [h1] at h; cases h
    | ok w1 =>
      rw [h1] at h
      obtain ⟨a1, a2⟩ := sendSignalToListener_signals h1
      obtain ⟨b1, b2⟩ := ih w1 w' h
      exact ⟨b1.trans a1, b2.trans a2⟩

/-- The method `sendSignalOnChannel` stamps the id of the channel on the signal
object and leaves the other signals and the manager alone. -/
theorem sendSignalOnChannel_channelId {env : Medium} {w w' : World} {sender : PhyId}
    {signal : SignalId} {channel : ChannelPtr}
    (h : w.sendSignalOnChannel env sender signal channel = .ok w') :
    ∃ channelId, w.manager.getChannelId channel = .ok channelId ∧
      w'.signals signal = (w.signals signal).setChannelId channelId ∧
      (∀ i, i ≠ signal → w'.signals i = w.signals i) ∧ w'.manager = w.manager := by
  unfold World.sendSignalOnChannel at h
  simp only at h
  cases hid : w.manager.getChannelId channel with
  | error f => rw [hid] at h; cases h
  | ok channelId =>
    rw [hid] at h
    obtain ⟨a1, a2⟩ := sendSignalToListeners_signals _ _ _ h
    refine ⟨channelId, rfl, ?_, ?_, a2⟩
    · rw [a1]; exact setAt_same _ _ _
    · intro i hi
      rw [a1]; exact setAt_other _ _ hi

/-- After `recvSignal` the signal object carries the id of the channel that
comes last among the sender's channels. -/
theorem sendSignalOnChannels_channelId {env : Medium} {sender : PhyId} {signal : SignalId} :
    ∀ (channels : List ChannelPtr) (w w' : World) (last : ChannelPtr),
      World.sendSignalOnChannels env sender signal (channels ++ [last]) w = .ok w' →
      w'.manager = w.manager ∧
      ∃ channelId, w.manager.getChannelId last = .ok channelId ∧
        (w'.signals signal).m_channelId = channelId := by
  intro channels
  induction channels with
  | nil =>
    intro w w' last h
    simp only [List.nil_append, World.sendSignalOnChannels] at h
    cases h1 : w.sendSignalOnChannel env sender signal last with
    | error f => rw [h1] at h; cases h
    | ok w1 =>
      rw [h1] at h
      cases h
      obtain ⟨channelId, hid, hs, -, hm⟩ := sendSignalOnChannel_channelId h1
      exact ⟨hm, channelId, hid, by rw [hs]; rfl⟩
  | cons channel rest ih =>
    intro w w' last h
    simp only [List.cons_append, World.sendSignalOnChannels] at h
    cases h1 : w.sendSignalOnChannel env sender signal channel with
    | error f => rw [h1] at h; cases h
    | ok w1 =>
      rw [h1] at h
      obtain ⟨-, -, -, -, hm⟩ := sendSignalOnChannel_channelId h1
      obtain ⟨hm2, channelId, hid, hs⟩ := ih w1 w' last h
      rw [hm] at hid
      exact ⟨hm2.trans hm, channelId, hid, hs⟩

end ChannelIdLemmas

section TagLockLemmas

/-- A tag that has not chosen a sending channel yet and receives its pending
signal free of error: it becomes a sender on the channel whose id the signal
object carries, and takes the received strength as its transmit power. -/
theorem passSignalToReceiver_tag_lock (w : World) (tag : PhyId) (signal : SignalId)
    (indeterminate : Bool) (sendingChannel : ℕ) (lv : Bool) (lc : ℕ)
    (hsub : (w.layers tag).subclass = .tag false sendingChannel lv lc)
    (hpending : (w.layers tag).m_pendingRecvSignal = some signal)
    (herr : (w.layers tag).m_pendingRecvSignalError = false)
    (x : ℚ) (hx : mapFind (w.layers tag).m_signalStrengths signal = some x) (hpos : 0 < x)
    (c : ChannelPtr)
    (hfind : w.manager.findChannel (w.signals signal).m_channelId = some c) :
    ∃ w', w.passSignalToReceiver tag signal indeterminate = .ok w' ∧
      w'.manager.m_senders = multimapInsert tag c w.manager.m_senders ∧
      w'.manager.m_channels = w.manager.m_channels ∧
      (w'.layers tag).subclass = .tag true (w.signals signal).m_channelId lv lc ∧
      (w'.layers tag).m_currentTxPower = x := by
  have hp' : some signal = (w.layers tag).getPendingSignal := hpending.symm
  have hstrength : (w.layers tag).getPendingSignalStrength = .ok x := by
    unfold PhysicalLayer.getPendingSignalStrength
    simp only [hpending, hx]
  have hcopy : ((w.signals signal).copy indeterminate).m_channelId
      = (w.signals signal).m_channelId := rfl
  unfold World.passSignalToReceiver
  simp only [hp', if_true, hstrength, World.recvPendingSignal, Packet.setHasError,
    Packet.getHasError, herr, Bool.not_false, World.recvdErrorFreeSignal, hsub,
    World.setSendingChannel, Bool.false_eq_true, if_false, hcopy,
    WirelessChannelManager.attachAsSender, hfind, gt_iff_lt, hpos, not_true_eq_false]
  refine ⟨_, rfl, rfl, rfl, ?_, ?_⟩
  · simp [setAt, PhysicalLayer.removeSignal, PhysicalLayer.resetPendingSignal]
  · simp [setAt, PhysicalLayer.removeSignal, PhysicalLayer.resetPendingSignal]

end TagLockLemmas

section ListenerLemmas

/-- The listener loop body changes the layer of the listener only, by
`listenerUpdate`. -/
theorem sendSignalToListener_layers {env : Medium} {w w' : World} {sender : PhyId}
    {signal : SignalId} {channel : ChannelPtr} {t : SimTime} {listener : PhyId}
    (hne : listener ≠ sender)
    (h : w.sendSignalToListener env sender signal channel t listener = .ok w') :
    ∃ L', (w.layers listener).listenerUpdate
        (fun sinr pending => env.signalHasError channel sinr (w.signals pending)) signal
        (env.getRecvdStrength channel (w.signals signal) listener (w.layers listener)
          w.sim.currentTime) = .ok L' ∧
      w'.layers = setAt w.layers listener L' := by
  unfold World.sendSignalToListener at h
  rw [if_pos hne] at h
  simp only [World.newSignalEndEvent] at h
  cases hL : (w.layers listener).listenerUpdate
      (fun sinr pending => env.signalHasError channel sinr (w.signals pending)) signal
      (env.getRecvdStrength channel (w.signals signal) listener (w.layers listener)
        w.sim.currentTime) with
  | error f => rw [hL] at h; cases h
  | ok L =>
    rw [hL] at h
    simp only at h
    generalize Simulator.scheduleEvent _ _ _ = r2 at h
    cases r2 with
    | error f => cases h
    | ok p =>
      simp only at h
      cases h
      exact ⟨L, rfl, rfl⟩

/-- A channel whose only listener is the sender: nothing happens to the layers. -/
theorem sendSignalOnChannel_own {env : Medium} {w w' : World} {sender : PhyId}
    {signal : SignalId} {channel : ChannelPtr}
    (hls : w.manager.listenersOf channel = [sender])
    (h : w.sendSignalOnChannel env sender signal channel = .ok w') :
    w'.layers = w.layers := by
  unfold World.sendSignalOnChannel at h
  simp only [hls] at h
  cases hid : w.manager.getChannelId channel with
  | error f => rw [hid] at h; cases h
  | ok channelId =>
    rw [hid] at h
    simp only [World.sendSignalToListeners, World.sendSignalToListener, ne_eq,
      not_true_eq_false, if_false] at h
    cases h
    rfl

/-- A channel with one listener other than the sender. -/
theorem sendSignalOnChannel_single {env : Medium} {w w' : World} {sender : PhyId}
    {signal : SignalId} {channel : ChannelPtr} {listener : PhyId} {channelId : ℕ}
    (hls : w.manager.listenersOf channel = [listener]) (hne : listener ≠ sender)
    (hid : w.manager.getChannelId channel = .ok channelId)
    (h : w.sendSignalOnChannel env sender signal channel = .ok w') :
    ∃ L', (w.layers listener).listenerUpdate
        (fun sinr pending => env.signalHasError channel sinr
          (setAt w.signals signal ((w.signals signal).setChannelId channelId) pending)) signal
        (env.getRecvdStrength channel ((w.signals signal).setChannelId channelId) listener
          (w.layers listener) w.sim.currentTime) = .ok L' ∧
      w'.layers = setAt w.layers listener L' := by
  unfold World.sendSignalOnChannel at h
  simp only [hls, hid, World.sendSignalToListeners] at h
  cases h1 : World.sendSignalToListener env
      { w with signals := setAt w.signals signal ((w.signals signal).setChannelId channelId) }
      sender signal channel (w.signals signal).getDuration listener with
  | error f => rw [h1] at h; cases h
  | ok w1 =>
    rw [h1] at h
    cases h
    obtain ⟨L', e, hl⟩ := sendSignalToListener_layers hne h1
    refine ⟨L', ?_, hl⟩
    simpa [setAt_same] using e

/-- A layer that receives nothing yet captures a signal that is strong enough,
if the channel reports no error. -/
theorem listenerUpdate_first_capture (L : PhysicalLayer) (hasError : ℚ → SignalId → Bool)
    (signal : SignalId) (x : ℚ) (hempty : L.m_signalStrengths = [])
    (hcap : L.captureSignal x = true) (hmin : x > L.m_minimumSignalStrength)
    (herr : L.m_pendingRecvSignalError = false) (hno : ∀ sinr p, hasError sinr p = false) :
    L.listenerUpdate hasError signal x = .ok
      { L with m_pendingRecvSignal := some signal, m_signalStrengths := [(signal, x)],
               m_pendingRecvSignalError := false } := by
  have hadd : (L.setPendingSignal signal).addSignal signal x
      = { L with m_pendingRecvSignal := some signal, m_signalStrengths := [(signal, x)] } := by
    unfold PhysicalLayer.addSignal
    have : x > (L.setPendingSignal signal).getMinimumSignalStrength := hmin
    rw [if_pos this]
    simp [PhysicalLayer.setPendingSignal, hempty, mapInsert]
  unfold PhysicalLayer.listenerUpdate
  simp only [hcap, if_true, hadd, PhysicalLayer.getPendingSignal, ne_eq, not_true_eq_false,
    if_false, PhysicalLayer.getPendingSignalError, herr, Bool.not_false,
    PhysicalLayer.getPendingSignalSinr, PhysicalLayer.getPendingSignalStrength, mapFind,
    PhysicalLayer.setPendingSignalError, hno]

end ListenerLemmas

section ChannelExamples

theorem idleWorld_sound : idleWorld.Sound := by
  intro L
  refine ⟨fun p hp => (by cases hp), ?_, ?_, fun k y hy => (by cases hy)⟩
  · by_cases hL : L = 1
    · subst hL
      norm_num [idleWorld, exampleWorld, PhysicalLayer.create]
    · norm_num [idleWorld, exampleWorld, PhysicalLayer.create, hL]
  · by_cases hL : L = 1
    · subst hL
      norm_num [idleWorld, exampleWorld, PhysicalLayer.create]
    · norm_num [idleWorld, exampleWorld, PhysicalLayer.create, hL]

theorem idleWorld_tag_captures : (idleWorld.layers 1).captureSignal (1 / 1000) = true := by
  norm_num [idleWorld, exampleWorld, PhysicalLayer.create, PhysicalLayer.captureSignal,
    PhysicalLayer.getRxThreshold, PhysicalLayer.getCulmulativeSignalStrength,
    PhysicalLayer.getNoiseFloor, PhysicalLayer.getBandwidth,
    PhysicalLayer.getCaptureThreshold, m_RADIO_NOISE_FACTOR, m_BOLTZMANNS_CONSTANT,
    m_RADIO_TEMPERATURE]

/-- The tag of the idle scenario after the reader has sent signal 5 over the
channels `first` and then `master` (object 10), when the tag is the only
listener of `master` and the reader the only listener of `first`. -/
theorem idle_tag_after_recvSignal (manager : WirelessChannelManager) (first : ChannelPtr)
    (w1 : World)
    (hl1 : manager.listenersOf first = [0]) (hl2 : manager.listenersOf 10 = [1])
    (hid : manager.getChannelId 10 = .ok 0)
    (h : World.sendSignalOnChannels (constantMedium (1 / 1000)) 0 5 [first, 10]
      { idleWorld with manager := manager } = .ok w1) :
    w1.layers 1 = { idleWorld.layers 1 with
      m_pendingRecvSignal := some 5, m_signalStrengths := [(5, 1 / 1000)],
      m_pendingRecvSignalError := false } := by
  simp only [World.sendSignalOnChannels] at h
  cases ha : World.sendSignalOnChannel (constantMedium (1 / 1000))
      { idleWorld with manager := manager } 0 5 first with
  | error f => rw [ha] at h; cases h
  | ok wa =>
    rw [ha] at h
    simp only at h
    cases hb : World.sendSignalOnChannel (constantMedium (1 / 1000)) wa 0 5 10 with
    | error f => rw [hb] at h; cases h
    | ok wb =>
      rw [hb] at h
      simp only at h
      cases h
      have hla : wa.layers = idleWorld.layers :=
        sendSignalOnChannel_own (w := { idleWorld with manager := manager }) hl1 ha
      obtain ⟨-, -, -, -, hma⟩ :=
        sendSignalOnChannel_channelId (w := { idleWorld with manager := manager }) ha
      have hma' : wa.manager = manager := hma
      rw [← hma'] at hl2 hid
      obtain ⟨L', e, hl⟩ := sendSignalOnChannel_single hl2 (by decide) hid hb
      rw [hla] at e hl
      have hcap := idleWorld_tag_captures
      have hfirst := listenerUpdate_first_capture (idleWorld.layers 1)
        (fun sinr pending => (constantMedium (1 / 1000)).signalHasError 10 sinr
          (setAt wa.signals 5 ((wa.signals 5).setChannelId 0) pending)) 5 (1 / 1000) rfl hcap
        (by norm_num [idleWorld, exampleWorld, PhysicalLayer.create]) rfl (fun _ _ => rfl)
      have e' : (idleWorld.layers 1).listenerUpdate
          (fun sinr pending => (constantMedium (1 / 1000)).signalHasError 10 sinr
            (setAt wa.signals 5 ((wa.signals 5).setChannelId 0) pending)) 5 (1 / 1000)
          = .ok L' := e
      rw [hfirst] at e'
      rw [hl, setAt_same]
      exact (Except.ok.inj e').symm

/-- The same when the reader sends over `master` first and then over `second`. -/
theorem idle_tag_after_recvSignal_main (manager : WirelessChannelManager)
    (second : ChannelPtr) (w1 : World)
    (hl1 : manager.listenersOf 10 = [1]) (hl2 : manager.listenersOf second = [0])
    (hid : manager.getChannelId 10 = .ok 0)
    (h : World.sendSignalOnChannels (constantMedium (1 / 1000)) 0 5 [10, second]
      { idleWorld with manager := manager } = .ok w1) :
    w1.layers 1 = { idleWorld.layers 1 with
      m_pendingRecvSignal := some 5, m_signalStrengths := [(5, 1 / 1000)],
      m_pendingRecvSignalError := false } := by
  simp only [World.sendSignalOnChannels] at h
  cases ha : World.sendSignalOnChannel (constantMedium (1 / 1000))
      { idleWorld with manager := manager } 0 5 10 with
  | error f => rw [ha] at h; cases h
  | ok wa =>
    rw [ha] at h
    simp only at h
    cases hb : World.sendSignalOnChannel (constantMedium (1 / 1000)) wa 0 5 second with
    | error f => rw [hb] at h; cases h
    | ok wb =>
      rw [hb] at h
      simp only at h
      have hw : wb = w1 := Except.ok.inj h
      subst hw
      obtain ⟨-, -, -, -, hma⟩ :=
        sendSignalOnChannel_channelId (w := { idleWorld with manager := manager }) ha
      have hma' : wa.manager = manager := hma
      rw [← hma'] at hl2
      have hlb : wb.layers = wa.layers := sendSignalOnChannel_own hl2 hb
      obtain ⟨L', e, hl⟩ := sendSignalOnChannel_single
        (w := { idleWorld with manager := manager }) hl1 (by decide) hid ha
      have hcap := idleWorld_tag_captures
      have hfirst := listenerUpdate_first_capture (idleWorld.layers 1)
        (fun sinr pending => (constantMedium (1 / 1000)).signalHasError 10 sinr
          (setAt idleWorld.signals 5 ((idleWorld.signals 5).setChannelId 0) pending)) 5
        (1 / 1000) rfl hcap
        (by norm_num [idleWorld, exampleWorld, PhysicalLayer.create]) rfl (fun _ _ => rfl)
      have e' : (idleWorld.layers 1).listenerUpdate
          (fun sinr pending => (constantMedium (1 / 1000)).signalHasError 10 sinr
            (setAt idleWorld.signals 5 ((idleWorld.signals 5).setChannelId 0) pending)) 5
          (1 / 1000) = .ok L' := e
      rw [hfirst] at e'
      rw [hlb, hl]
      have : setAt idleWorld.layers 1 L' 1 = L' := setAt_same _ _ _
      exact this.trans (Except.ok.inj e').symm

end ChannelExamples

section ChannelOrder

/-- The tag of the idle scenario locks onto the channel that the reader's
`equal_range` lists last: after `recvSignal` and `passSignalToReceiver` the tag is
attached as sender to that channel only, with the received strength as power. -/
theorem idle_tag_locks_onto_last (manager : WirelessChannelManager)
    (channels : List ChannelPtr) (lastId : ℕ) (last : ChannelPtr)
    (hch : manager.channelsOf 0 = channels ++ [last])
    (hids : ∀ channel ∈ manager.channelsOf 0,
      ∃ channelId, manager.getChannelId channel = .ok channelId)
    (hlast : manager.getChannelId last = .ok lastId)
    (hfind : manager.findChannel lastId = some last)
    (htag : ∀ w1, World.sendSignalOnChannels (constantMedium (1 / 1000)) 0 5
        (manager.channelsOf 0) { idleWorld with manager := manager } = .ok w1 →
      w1.layers 1 = { idleWorld.layers 1 with
        m_pendingRecvSignal := some 5, m_signalStrengths := [(5, 1 / 1000)],
        m_pendingRecvSignalError := false }) :
    ∃ w1 w2,
      World.recvSignal (constantMedium (1 / 1000)) { idleWorld with manager := manager } 0 5
        = .ok w1 ∧
      (w1.layers 1).m_pendingRecvSignal = some 5 ∧
      (w1.layers 1).m_pendingRecvSignalError = false ∧
      w1.passSignalToReceiver 1 5 false = .ok w2 ∧
      w2.manager.m_senders = multimapInsert 1 last manager.m_senders ∧
      (w2.layers 1).subclass = .tag true lastId true 0 ∧
      (w2.layers 1).m_currentTxPower = 1 / 1000 := by
  have hsound : World.Sound { idleWorld with manager := manager } := idleWorld_sound
  obtain ⟨w1, e1, -⟩ := sendSignalOnChannels_spec (constantMedium (1 / 1000)) 0 5
    ((idleWorld.signals 5).getDuration) (exampleWorld_duration 5)
    (constantMedium_sqrt_nonneg _) (manager.channelsOf 0)
    { idleWorld with manager := manager } hsound rfl hids
  have hl := htag w1 e1
  have e1' := e1
  rw [hch] at e1'
  obtain ⟨hm, channelId, hid, hsig⟩ := sendSignalOnChannels_channelId channels _ w1 last e1'
  have hm' : w1.manager = manager := hm
  have hid' : manager.getChannelId last = .ok channelId := hid
  rw [hlast] at hid'
  have hc : channelId = lastId := (Except.ok.inj hid').symm
  rw [hc] at hsig
  obtain ⟨w2, e2, hs2, -, hsub, hpow⟩ := passSignalToReceiver_tag_lock w1 1 5 false 0 true 0
    (by rw [hl]; rfl) (by rw [hl]) (by rw [hl]) (1 / 1000)
    (by rw [hl]; simp [mapFind]) (by norm_num) last (by rw [hm', hsig]; exact hfind)
  refine ⟨w1, w2, e1, by rw [hl], by rw [hl], e2, ?_, ?_, hpow⟩
  · rw [hs2, hm']
  · rw [hsub, hsig]

/-- With the attachments made in the order of main.cpp (channel of all readers
first, regular channel second) the tag ends up attached as sender to exactly the
reader's regular channel (id 1, object 11). -/
theorem tag_locks_onto_regular_channel :
    mainOrderWorld.manager.channelsOf 0 = [10, 11] ∧
    mainOrderWorld.manager.listenersOf 10 = [1] ∧
    ∃ w1 w2,
      mainOrderWorld.recvSignal (constantMedium (1 / 1000)) 0 5 = .ok w1 ∧
      (w1.layers 1).m_pendingRecvSignal = some 5 ∧
      (w1.layers 1).m_pendingRecvSignalError = false ∧
      w1.passSignalToReceiver 1 5 false = .ok w2 ∧
      w2.manager.channelsOf 1 = [11] ∧
      (w2.layers 1).subclass = .tag true 1 true 0 ∧
      (w2.layers 1).m_currentTxPower = 1 / 1000 := by
  refine ⟨by decide, by decide, ?_⟩
  obtain ⟨w1, w2, e1, hp, he, e2, hs, hsub, hpow⟩ :=
    idle_tag_locks_onto_last mainOrderManager [10] 1 11 (by decide)
      (by
        intro channel hc
        have hch : mainOrderManager.channelsOf 0 = [10, 11] := by decide
        rw [hch] at hc
        simp only [List.mem_cons, List.mem_singleton, List.not_mem_nil, or_false] at hc
        rcases hc with rfl | rfl
        · exact ⟨0, rfl⟩
        · exact ⟨1, rfl⟩)
      rfl (by decide)
      (fun w1 h => idle_tag_after_recvSignal_main mainOrderManager 11 w1 (by decide)
        (by decide) rfl h)
  refine ⟨w1, w2, e1, hp, he, e2, ?_, hsub, hpow⟩
  unfold WirelessChannelManager.channelsOf
  rw [hs]
  decide

/-- C19 (attachments in the other order): reader 0 calls `setRegularChannel(1)`
and then `setAllSendersChannel(0)`, tag 1 listens on channel 0, the channel of
all readers. The reader sends signal 5, the tag receives it free of error with
strength 1/1000, and afterwards the tag is attached as sender to exactly one
channel, which is the channel of all readers (id 0, object 10) and not the
reader's regular channel (id 1, object 11); its transmit power is the received
strength. -/
theorem tag_locks_onto_master_channel :
    reverseOrderWorld.manager.channelsOf 0 = [11, 10] ∧
    reverseOrderWorld.manager.listenersOf 10 = [1] ∧
    reverseOrderWorld.manager.listenersOf 11 = [0] ∧
    reverseOrderWorld.manager.findChannel 0 = some 10 ∧
    reverseOrderWorld.manager.findChannel 1 = some 11 ∧
    ∃ w1 w2,
      reverseOrderWorld.recvSignal (constantMedium (1 / 1000)) 0 5 = .ok w1 ∧
      (w1.layers 1).m_pendingRecvSignal = some 5 ∧
      (w1.layers 1).m_pendingRecvSignalError = false ∧
      w1.passSignalToReceiver 1 5 false = .ok w2 ∧
      w2.manager.channelsOf 1 = [10] ∧
      (w2.layers 1).subclass = .tag true 0 true 0 ∧
      (w2.layers 1).m_currentTxPower = 1 / 1000 := by
  refine ⟨by decide, by decide, by decide, by decide, by decide, ?_⟩
  obtain ⟨w1, w2, e1, hp, he, e2, hs, hsub, hpow⟩ :=
    idle_tag_locks_onto_last reverseOrderManager [11] 0 10 (by decide)
      (by
        intro channel hc
        have hch : reverseOrderManager.channelsOf 0 = [11, 10] := by decide
        rw [hch] at hc
        simp only [List.mem_cons, List.mem_singleton, List.not_mem_nil, or_false] at hc
        rcases hc with rfl | rfl
        · exact ⟨1, rfl⟩
        · exact ⟨0, rfl⟩)
      rfl (by decide)
      (fun w1 h => idle_tag_after_recvSignal reverseOrderManager 11 w1 (by decide)
        (by decide) rfl h)
  refine ⟨w1, w2, e1, hp, he, e2, ?_, hsub, hpow⟩
  unfold WirelessChannelManager.channelsOf
  rw [hs]
  decide

end ChannelOrder

/-! ## The kernel: cancelling what is not queued, the end of a run -/

/-- C29: `cancelEvent` on an event that is not in the queue returns false and
returns the simulator as it was: the queue, the clock, the listeners, and the
fire time and in-queue flag of every event are unchanged, whatever the fire
times of the queued events are. -/
theorem cancelEvent_not_queued (s : Simulator) (e : EventId)
    (he : e ∉ s.m_eventPtrQueue) :
    (s.cancelEvent e).1 = false ∧
      (s.cancelEvent e).2 = s ∧
      (s.cancelEvent e).2.m_eventPtrQueue = s.m_eventPtrQueue ∧
      (s.cancelEvent e).2.currentTime = s.currentTime ∧
      ∀ i, ((s.cancelEvent e).2.events i).getFireTime = (s.events i).getFireTime ∧
        ((s.cancelEvent e).2.events i).inEventQueue = (s.events i).inEventQueue := by
  rw [cancelEvent_spec_not_mem s e he]
  exact ⟨rfl, rfl, rfl, rfl, fun _ => ⟨rfl, rfl⟩⟩

/-- Witness for C29: event 4 was never scheduled; its fire time, 0, is that of
the queued event 0. -/
theorem cancelEvent_not_queued_witness :
    4 ∉ unitTestPrefix.m_eventPtrQueue ∧ 0 ∈ unitTestPrefix.m_eventPtrQueue ∧
      (unitTestPrefix.events 4).getFireTime = (unitTestPrefix.events 0).getFireTime ∧
      (unitTestPrefix.cancelEvent 4).1 = false ∧
      (unitTestPrefix.cancelEvent 4).2 = unitTestPrefix :=
  have h : 4 ∉ unitTestPrefix.m_eventPtrQueue := by decide
  ⟨h, by decide, by simp [unitTestPrefix, Event.getFireTime, Event.create],
    (cancelEvent_not_queued unitTestPrefix 4 h).1,
    (cancelEvent_not_queued unitTestPrefix 4 h).2.1⟩

section RunEnd

theorem call_listeners {s s' : Simulator} {c : KernelCall} (hc : s.call c = .ok s') :
    s'.m_simulationEndListeners = s.m_simulationEndListeners := by
  rcases call_ok_cases hc with ⟨e, d, b, -, hs⟩ | ⟨e, rfl, rfl⟩
  · exact (scheduleEvent_props hs).2.2.1
  · unfold Simulator.cancelEvent
    simp only
    split <;> rfl

theorem calls_listeners {cs : List KernelCall} : ∀ {s s' : Simulator},
    s.calls cs = .ok s' → s'.m_simulationEndListeners = s.m_simulationEndListeners := by
  induction cs with
  | nil =>
    intro s s' h
    simp only [Simulator.calls] at h
    cases h
    rfl
  | cons c cs ih =>
    intro s s' h
    simp only [Simulator.calls] at h
    cases hc : s.call c with
    | error f => rw [hc] at h; cases h
    | ok s1 =>
      rw [hc] at h
      exact (ih h).trans (call_listeners hc)

/-- What the loop of `runSimulation` leaves behind when it is left: every
dispatched event was due, the listeners are the registered ones, and on a
well-formed queue whatever is still queued lies behind the stop time. -/
theorem runLoop_returned {σ : Type} (exec : Execute σ) (stop : SimTime) :
    ∀ (fuel : ℕ) (s : Simulator) (w : σ),
      (∀ d ∈ (Simulator.runLoop exec stop fuel s w).1, d.fireTime ≤ stop) ∧
      ∀ s1 w1 n, (Simulator.runLoop exec stop fuel s w).2 = .returned s1 w1 n →
        n = [] ∧ s1.m_simulationEndListeners = s.m_simulationEndListeners ∧
        (s.WF → s1.WF ∧ ∀ e ∈ s1.m_eventPtrQueue, stop < s1.fire e) := by
  intro fuel
  induction fuel with
  | zero =>
    intro s w
    refine ⟨fun d hd => (by simp [Simulator.runLoop] at hd), ?_⟩
    intro s1 w1 n h
    simp [Simulator.runLoop] at h
  | succ fuel ih =>
    intro s w
    cases hq : s.m_eventPtrQueue with
    | nil =>
      rw [runLoop_nil exec stop fuel s w hq]
      refine ⟨fun d hd => (by cases hd), ?_⟩
      intro s1 w1 n h
      simp only [Outcome.returned.injEq] at h
      obtain ⟨rfl, -, rfl⟩ := h
      exact ⟨rfl, rfl, fun hwf => ⟨hwf, fun e he => by rw [hq] at he; cases he⟩⟩
    | cons e rest =>
      by_cases hlate : s.fire e > stop
      · rw [runLoop_notDue exec stop fuel s w e rest hq hlate]
        refine ⟨fun d hd => (by cases hd), ?_⟩
        intro s1 w1 n h
        simp only [Outcome.returned.injEq] at h
        obtain ⟨rfl, -, rfl⟩ := h
        refine ⟨rfl, rfl, fun hwf => ⟨wf_getNextEvent hwf hq, ?_⟩⟩
        intro i hi
        rw [getNextEvent_fire]
        have hs := hwf.sorted
        rw [hq, List.pairwise_cons] at hs
        exact lt_of_lt_of_le hlate (hs.1 i hi)
      · by_cases hle : s.m_clock ≤ s.fire e
        · rw [runLoop_step exec stop fuel s w e rest hq hlate hle]
          cases hc : (({ (s.getNextEvent e rest).2 with m_clock := s.fire e } :
              Simulator).calls
              (exec e { (s.getNextEvent e rest).2 with m_clock := s.fire e } w).2) with
          | error f =>
            refine ⟨?_, ?_⟩
            · intro d hd
              simp only [List.mem_singleton] at hd
              rw [hd]
              exact not_lt.1 hlate
            · intro s1 w1 n h
              simp at h
          | ok s2 =>
            obtain ⟨i1, i2⟩ :=
              ih s2 (exec e { (s.getNextEvent e rest).2 with m_clock := s.fire e } w).1
            refine ⟨?_, ?_⟩
            · intro d hd
              rcases List.mem_cons.1 hd with rfl | hd
              · exact not_lt.1 hlate
              · exact i1 d hd
            · intro s1 w1 n h
              obtain ⟨j1, j2, j3⟩ := i2 s1 w1 n h
              have hl : s2.m_simulationEndListeners = s.m_simulationEndListeners :=
                @calls_listeners _ { (s.getNextEvent e rest).2 with m_clock := s.fire e } s2 hc
              refine ⟨j1, j2.trans hl, fun hwf => ?_⟩
              exact j3 (calls_WF (dispatch_state_inv hwf hq).1 hc)
        · rw [runLoop_clockFault exec stop fuel s w e rest hq hlate hle]
          refine ⟨fun d hd => (by cases hd), ?_⟩
          intro s1 w1 n h
          simp at h

/-- The outcome of `runSimulation` when it returns, in terms of its loop. -/
theorem runSimulation_returned_iff {σ : Type} (exec : Execute σ) (stop : SimTime) (fuel : ℕ)
    (s : Simulator) (w : σ) (s' : Simulator) (w' : σ) (notified : List ListenerId)
    (h : (Simulator.runSimulation exec stop fuel s w).2 = .returned s' w' notified) :
    ∃ s1 n, (Simulator.runLoop exec stop fuel s w).2 = .returned s1 w' n ∧
      s' = { s1 with m_clock := stop } ∧ notified = s1.m_simulationEndListeners := by
  unfold Simulator.runSimulation at h
  rcases hr : Simulator.runLoop exec stop fuel s w with ⟨ds, o⟩
  rw [hr] at h
  cases o with
  | returned s1 w1 n =>
    simp only [Outcome.returned.injEq] at h
    obtain ⟨rfl, rfl, rfl⟩ := h
    exact ⟨s1, n, rfl, rfl, rfl⟩
  | aborted f => simp at h
  | running s1 w1 => simp at h

/-- With handlers that make no kernel calls, the loop is left after at most one
iteration per queued event. -/
theorem runLoop_dummy_returns (stop : SimTime) :
    ∀ (fuel : ℕ) (s : Simulator), s.WF → s.Future → s.m_eventPtrQueue.length < fuel →
      ∃ s1, (Simulator.runLoop dummyExecute stop fuel s ()).2 = .returned s1 () [] := by
  intro fuel
  induction fuel with
  | zero => intro s _ _ hlen; exact absurd hlen (Nat.not_lt_zero _)
  | succ fuel ih =>
    intro s h hf hlen
    cases hq : s.m_eventPtrQueue with
    | nil => rw [runLoop_nil dummyExecute stop fuel s () hq]; exact ⟨s, rfl⟩
    | cons e rest =>
      by_cases hlate : s.fire e > stop
      · rw [runLoop_notDue dummyExecute stop fuel s () e rest hq hlate]
        exact ⟨_, rfl⟩
      · have hmem : e ∈ s.m_eventPtrQueue := by rw [hq]; exact List.mem_cons_self _ _
        rw [runLoop_step dummyExecute stop fuel s () e rest hq hlate (hf e hmem)]
        obtain ⟨hw1, hf1⟩ := dispatch_state_inv h hq
        have hcalls : ({ (s.getNextEvent e rest).2 with m_clock := s.fire e } :
            Simulator).calls
            (dummyExecute e { (s.getNextEvent e rest).2 with m_clock := s.fire e } ()).2
            = .ok { (s.getNextEvent e rest).2 with m_clock := s.fire e } := rfl
        rw [hcalls]
        exact ih { (s.getNextEvent e rest).2 with m_clock := s.fire e } hw1 hf1
          (by
            rw [hq] at hlen
            exact Nat.lt_of_succ_lt_succ hlen)

theorem runSimulation_dummy_returns (stop : SimTime) (fuel : ℕ) (s : Simulator)
    (h : s.WF) (hf : s.Future) (hlen : s.m_eventPtrQueue.length < fuel) :
    ∃ s', (Simulator.runSimulation dummyExecute stop fuel s ()).2
      = .returned s' () s.m_simulationEndListeners := by
  obtain ⟨s1, h1⟩ := runLoop_dummy_returns stop fuel s h hf hlen
  have hl := ((runLoop_returned dummyExecute stop fuel s ()).2 s1 () [] h1).2.1
  unfold Simulator.runSimulation
  rcases hr : Simulator.runLoop dummyExecute stop fuel s () with ⟨ds, o⟩
  rw [hr] at h1
  simp only at h1
  subst h1
  refine ⟨{ s1 with m_clock := stop }, ?_⟩
  simp only
  rw [hl]

/-- C27: when `runSimulation(stopTime)` returns, the clock is the stop time,
every event that was dispatched during the call had a fire time that is not
behind the stop time (so no later event was executed), and the listeners that
were registered before the call have been notified, each once per registration
and in the order of registration, each finding the clock at the stop time. -/
theorem runSimulation_stop {σ : Type} (exec : Execute σ) (stopTime : SimTime) (fuel : ℕ)
    (s : Simulator) (w : σ) (s' : Simulator) (w' : σ) (notified : List ListenerId)
    (h : (Simulator.runSimulation exec stopTime fuel s w).2 = .returned s' w' notified) :
    s'.currentTime = stopTime ∧
      (∀ d ∈ (Simulator.runSimulation exec stopTime fuel s w).1, d.fireTime ≤ stopTime) ∧
      notified = s.m_simulationEndListeners ∧
      (∀ listener, notified.count listener = s.m_simulationEndListeners.count listener) ∧
      ∃ s1 n, (Simulator.runLoop exec stopTime fuel s w).2 = .returned s1 w' n ∧
        (s', notified.map (fun listener => (listener, stopTime)))
          = s1.endSimulation stopTime := by
  obtain ⟨s1, n, h1, rfl, rfl⟩ := runSimulation_returned_iff exec stopTime fuel s w s' w' _ h
  obtain ⟨hdue, hret⟩ := runLoop_returned exec stopTime fuel s w
  obtain ⟨-, hl, -⟩ := hret s1 w' n h1
  refine ⟨rfl, ?_, hl, fun listener => by rw [hl], s1, n, h1, rfl⟩
  rw [runSimulation_trace]
  exact hdue

theorem exampleListenerSim_WF : exampleListenerSim.WF :=
  ⟨unitTestPrefix_WF.sorted, unitTestPrefix_WF.nodup, unitTestPrefix_WF.flagged⟩

theorem exampleListenerSim_Future : exampleListenerSim.Future := unitTestPrefix_Future

/-- Witness for C27: the unit-test queue with the listeners 7 and 3, run up to
time 2 with handlers that do nothing. -/
theorem runSimulation_stop_witness :
    ∃ s', (Simulator.runSimulation dummyExecute 2 10 exampleListenerSim ()).2
        = .returned s' () [7, 3] ∧
      s'.currentTime = 2 ∧
      (∀ d ∈ (Simulator.runSimulation dummyExecute 2 10 exampleListenerSim ()).1,
        d.fireTime ≤ 2) :=
  (runSimulation_dummy_returns 2 10 exampleListenerSim exampleListenerSim_WF
    exampleListenerSim_Future (by decide)).imp
    (fun s' h => ⟨h,
      (runSimulation_stop dummyExecute 2 10 exampleListenerSim () s' () [7, 3] h).1,
      (runSimulation_stop dummyExecute 2 10 exampleListenerSim () s' () [7, 3] h).2.1⟩)

end RunEnd

section ClockTrace

/-- C28 as stated fails: on the simulator as constructed, `runSimulation(10)`
followed by `runSimulation(5)` leaves the clock at 5, below the value 10 that it
had before the second call. -/
theorem runSimulation_clock_goes_back :
    Simulator.clockTrace dummyExecute [.runSimulation 10 1, .runSimulation 5 1]
        Simulator.instance () = [0, 10, 5] ∧
      ¬ (Simulator.clockTrace dummyExecute [.runSimulation 10 1, .runSimulation 5 1]
        Simulator.instance ()).Pairwise (fun a b => a ≤ b) := by
  have h : Simulator.clockTrace dummyExecute [.runSimulation 10 1, .runSimulation 5 1]
      Simulator.instance () = [0, 10, 5] := by
    simp [Simulator.clockTrace, Simulator.clientCall, Simulator.runSimulation,
      Simulator.runLoop, Simulator.instance, Simulator.currentTime]
  refine ⟨h, ?_⟩
  rw [h]
  norm_num

/-- The clock values of the dispatches of one run, from a well-formed queue with
no event in the past: they do not decrease, and lie between the clock at the
call and the stop time. -/
theorem runSimulation_clocks {σ : Type} (exec : Execute σ) (stop : SimTime) (fuel : ℕ)
    (s : Simulator) (w : σ) (hwf : s.WF) (hfuture : s.Future) :
    ((Simulator.runSimulation exec stop fuel s w).1.map Dispatch.clock).Pairwise
        (fun a b => a ≤ b) ∧
      ∀ x ∈ (Simulator.runSimulation exec stop fuel s w).1.map Dispatch.clock,
        s.currentTime ≤ x ∧ x ≤ stop := by
  obtain ⟨h1, h2, -, -⟩ := runLoop_inv exec stop fuel s w hwf hfuture
  have h3 := (runLoop_returned exec stop fuel s w).1
  rw [runSimulation_trace]
  refine ⟨?_, ?_⟩
  · rw [List.pairwise_map]
    refine h1.imp_of_mem ?_
    intro a b ha hb hab
    rw [(h2 a ha).1, (h2 b hb).1]
    exact hab
  · intro x hx
    obtain ⟨d, hd, rfl⟩ := List.mem_map.1 hx
    rw [(h2 d hd).1]
    exact ⟨(h2 d hd).2, h3 d hd⟩

/-- A run that returns leaves a well-formed queue with no event in the past. -/
theorem runSimulation_returned_inv {σ : Type} (exec : Execute σ) (stop : SimTime) (fuel : ℕ)
    (s : Simulator) (w : σ) (hwf : s.WF) (s' : Simulator) (w' : σ)
    (notified : List ListenerId)
    (h : (Simulator.runSimulation exec stop fuel s w).2 = .returned s' w' notified) :
    s'.WF ∧ s'.Future ∧ s'.currentTime = stop := by
  obtain ⟨s1, n, h1, rfl, -⟩ := runSimulation_returned_iff exec stop fuel s w s' w' _ h
  obtain ⟨hw1, hlate⟩ := ((runLoop_returned exec stop fuel s w).2 s1 w' n h1).2.2 hwf
  exact ⟨wf_setClock hw1 stop, fun e he => le_of_lt (hlate e he), rfl⟩

theorem clockTrace_inv {σ : Type} (exec : Execute σ) :
    ∀ (calls : List ClientCall) (s : Simulator) (w : σ), s.WF → s.Future →
      Simulator.StopsAhead exec calls s w →
      (Simulator.clockTrace exec calls s w).Pairwise (fun a b => a ≤ b) ∧
      ∀ x ∈ Simulator.clockTrace exec calls s w, s.currentTime ≤ x := by
  intro calls
  induction calls with
  | nil =>
    intro s w _ _ _
    simp [Simulator.clockTrace]
  | cons c cs ih =>
    intro s w hwf hfuture hstops
    obtain ⟨hstop, hrest⟩ := hstops
    -- the values found during the call, and those of the rest of the sequence
    have key : ((s.clientCall exec w c).1).Pairwise (fun a b => a ≤ b) ∧
        (∀ x ∈ (s.clientCall exec w c).1, s.currentTime ≤ x) ∧
        ∀ r, (s.clientCall exec w c).2 = some r →
          r.1.WF ∧ r.1.Future ∧ s.currentTime ≤ r.1.currentTime ∧
          ∀ x ∈ (s.clientCall exec w c).1, x ≤ r.1.currentTime := by
      cases c with
      | scheduleEvent e d =>
        refine ⟨List.Pairwise.nil, fun x hx => (by cases hx), ?_⟩
        intro r hr
        simp only [Simulator.clientCall] at hr
        cases hs : s.scheduleEvent e d with
        | error f => rw [hs] at hr; cases hr
        | ok p =>
          obtain ⟨b, s1⟩ := p
          rw [hs] at hr
          simp only [Option.some.injEq] at hr
          subst hr
          refine ⟨wf_scheduleEvent hwf hs, future_scheduleEvent hwf hfuture hs, ?_,
            fun x hx => (by cases hx)⟩
          exact le_of_eq (scheduleEvent_props hs).2.1.symm
      | cancelEvent e =>
        refine ⟨List.Pairwise.nil, fun x hx => (by cases hx), ?_⟩
        intro r hr
        simp only [Simulator.clientCall, Option.some.injEq] at hr
        subst hr
        refine ⟨wf_cancelEvent hwf e, future_cancelEvent hwf hfuture e, ?_,
          fun x hx => (by cases hx)⟩
        exact le_of_eq (cancelEvent_clock s e).symm
      | runSimulation stop fuel =>
        have hstop' : s.currentTime ≤ stop := hstop
        obtain ⟨k1, k2⟩ := runSimulation_clocks exec stop fuel s w hwf hfuture
        refine ⟨k1, fun x hx => (k2 x hx).1, ?_⟩
        intro r hr
        simp only [Simulator.clientCall] at hr
        cases ho : (Simulator.runSimulation exec stop fuel s w).2 with
        | returned s1 w1 n =>
          rw [ho] at hr
          simp only [Option.some.injEq] at hr
          subst hr
          obtain ⟨j1, j2, j3⟩ := runSimulation_returned_inv exec stop fuel s w hwf s1 w1 n ho
          refine ⟨j1, j2, ?_, ?_⟩
          · rw [j3]; exact hstop'
          · intro x hx
            rw [j3]
            exact (k2 x hx).2
        | aborted f => rw [ho] at hr; cases hr
        | running s1 w1 => rw [ho] at hr; cases hr
    obtain ⟨kp, kge, kret⟩ := key
    unfold Simulator.clockTrace
    cases hr : (s.clientCall exec w c).2 with
    | none =>
      simp only [List.append_nil]
      refine ⟨List.Pairwise.cons kge kp, ?_⟩
      intro x hx
      rcases List.mem_cons.1 hx with rfl | hx
      · exact le_refl _
      · exact kge x hx
    | some r =>
      rw [hr] at hrest
      obtain ⟨rw1, rf1, rle, rbelow⟩ := kret r hr
      obtain ⟨ip, ige⟩ := ih r.1 r.2 rw1 rf1 hrest
      have hall : ∀ x ∈ (s.clientCall exec w c).1 ++ Simulator.clockTrace exec cs r.1 r.2,
          s.currentTime ≤ x := by
        intro x hx
        rcases List.mem_append.1 hx with hx | hx
        · exact kge x hx
        · exact le_trans rle (ige x hx)
      refine ⟨List.Pairwise.cons hall ?_, ?_⟩
      · rw [List.pairwise_append]
        exact ⟨kp, ip, fun a ha b hb => le_trans (rbelow a ha) (ige b hb)⟩
      · intro x hx
        rcases List.mem_cons.1 hx with rfl | hx
        · exact le_refl _
        · exact hall x hx

/-- C28 (amended): from a well-formed queue with no event in the past, along
every sequence of `scheduleEvent`, `cancelEvent` and `runSimulation` calls in
which every `runSimulation` is given a stop time that is not before the clock
at the call, the clock never decreases: of any two clock values in the sequence
(before a call, found by a handler during a run, after a call) the later one is
at least the earlier one. -/
theorem clockTrace_monotone {σ : Type} (exec : Execute σ) (calls : List ClientCall)
    (s : Simulator) (w : σ) (hwf : s.WF) (hfuture : s.Future)
    (hstops : Simulator.StopsAhead exec calls s w) :
    (Simulator.clockTrace exec calls s w).Pairwise (fun a b => a ≤ b) :=
  (clockTrace_inv exec calls s w hwf hfuture hstops).1

theorem unitTestPrefix_stopsAhead :
    Simulator.StopsAhead dummyExecute [.runSimulation 2 10, .runSimulation 7 10]
      unitTestPrefix () := by
  norm_num [Simulator.StopsAhead, Simulator.clientCall, Simulator.runSimulation,
    Simulator.runLoop, unitTestPrefix, Simulator.currentTime, Simulator.getNextEvent,
    Simulator.dispatchEvent, dummyExecute, Simulator.calls, setEvent, Event.getFireTime,
    Event.setInEventQueue, Except.map]

theorem unitTestPrefix_clockTrace :
    Simulator.clockTrace dummyExecute [.runSimulation 2 10, .runSimulation 7 10]
      unitTestPrefix () = [0, 0, 3 / 2, 2, 2, 7] := by
  norm_num [Simulator.clockTrace, Simulator.clientCall, Simulator.runSimulation,
    Simulator.runLoop, unitTestPrefix, Simulator.currentTime, Simulator.getNextEvent,
    Simulator.dispatchEvent, dummyExecute, Simulator.calls, setEvent, Event.getFireTime,
    Event.setInEventQueue, Except.map]

/-- Witness for C28 (amended): the unit-test queue run up to time 2 and then up
to time 7. -/
theorem clockTrace_monotone_witness :
    unitTestPrefix.WF ∧ unitTestPrefix.Future ∧
      Simulator.StopsAhead dummyExecute [.runSimulation 2 10, .runSimulation 7 10]
        unitTestPrefix () ∧
      Simulator.clockTrace dummyExecute [.runSimulation 2 10, .runSimulation 7 10]
        unitTestPrefix () = [0, 0, 3 / 2, 2, 2, 7] ∧
      (Simulator.clockTrace dummyExecute [.runSimulation 2 10, .runSimulation 7 10]
        unitTestPrefix ()).Pairwise (fun a b => a ≤ b) :=
  ⟨unitTestPrefix_WF, unitTestPrefix_Future, unitTestPrefix_stopsAhead,
    unitTestPrefix_clockTrace,
    clockTrace_monotone dummyExecute [.runSimulation 2 10, .runSimulation 7 10]
      unitTestPrefix () unitTestPrefix_WF unitTestPrefix_Future unitTestPrefix_stopsAhead⟩

end ClockTrace

section Reschedule

/-- The state that `reset` leaves behind (stale in-queue flags) is outside the
premise of the theorem on `reschedule`: there the timer of event 1 counts as running
although the queue is empty, and `reschedule` returns false. -/
theorem reschedule_after_reset :
    unitTestPrefix.reset.m_eventPtrQueue = [] ∧
      Timer.isRunning ⟨1⟩ unitTestPrefix.reset = true ∧
      (Timer.reschedule ⟨1⟩ unitTestPrefix.reset 3).map Prod.fst = .ok false := by
  refine ⟨rfl, by simp [Timer.isRunning, unitTestPrefix, Simulator.reset, Event.inEventQueue],
    ?_⟩
  simp [Timer.reschedule, Timer.start, Timer.stop, Timer.isRunning, unitTestPrefix,
    Simulator.reset, Event.inEventQueue, Simulator.cancelEvent, equalRange, Except.map]

end Reschedule

/-! ## Node identifiers as byte arrays -/

section NodeIdBytes

theorem getD_set_eq (l : List ℕ) (i j v : ℕ) (hi : i < l.length) :
    (l.set i v).getD j 0 = if j = i then v else l.getD j 0 := by
  simp only [List.getD_eq_getElem?_getD, List.getElem?_set]
  by_cases h : i = j
  · subst h
    simp [hi]
  · have h' : ¬ j = i := fun e => h e.symm
    simp [h, h']

/-- The loop of `writeToByteArray` on an array whose bytes from `i` on are zero:
it returns, and has written the base-256 digits of `id` from index `i` on. -/
theorem writeLoop_spec (k : ℕ) : ∀ (id i : ℕ) (arr : List ℕ), i ≤ k → k ≤ arr.length →
    id < 256 ^ (k - i) → (∀ j, i ≤ j → j < k → arr.getD j 0 = 0) →
    ∃ out, NodeId.writeLoop k id i arr = .ok out ∧ out.length = arr.length ∧
      ∀ j, out.getD j 0
        = if i ≤ j ∧ j < k then (id / 256 ^ (j - i)) % 256 else arr.getD j 0 := by
  intro id
  induction id using Nat.strong_induction_on with
  | _ id ih =>
    intro i arr hik hlen hid hzero
    rw [NodeId.writeLoop]
    by_cases hpos : id > 0
    · have hlt : i < k := by
        by_contra hge
        have : k - i = 0 := by omega
        rw [this] at hid
        simp at hid
        omega
      simp only [hpos, hlt, if_true, dite_true]
      have hdiv : id / 256 < 256 ^ (k - (i + 1)) := by
        apply Nat.div_lt_of_lt_mul
        have : 256 ^ (k - i) = 256 * 256 ^ (k - (i + 1)) := by
          have : k - i = (k - (i + 1)) + 1 := by omega
          rw [this, pow_succ]
          ring
        rw [← this]
        exact hid
      have hi_len : i < arr.length := lt_of_lt_of_le hlt hlen
      obtain ⟨out, e, hl, hget⟩ := ih (id / 256) (Nat.div_lt_self hpos (by decide)) (i + 1)
        (arr.set i (id % 256)) hlt (by rw [List.length_set]; exact hlen) hdiv
        (by
          intro j hj hjk
          rw [getD_set_eq arr i j _ hi_len]
          have : ¬ j = i := by omega
          rw [if_neg this]
          exact hzero j (by omega) hjk)
      refine ⟨out, e, by rw [hl, List.length_set], ?_⟩
      intro j
      rw [hget j, getD_set_eq arr i j _ hi_len]
      by_cases hj : i + 1 ≤ j ∧ j < k
      · have hj' : i ≤ j ∧ j < k := ⟨by omega, hj.2⟩
        rw [if_pos hj, if_pos hj']
        have : j - i = (j - (i + 1)) + 1 := by omega
        rw [this, pow_succ, Nat.div_div_eq_div_mul, mul_comm]
      · rw [if_neg hj]
        by_cases hji : j = i
        · subst hji
          rw [if_pos rfl, if_pos ⟨le_refl _, hlt⟩]
          simp
        · rw [if_neg hji]
          have : ¬ (i ≤ j ∧ j < k) := by
            intro h
            exact hj ⟨by omega, h.2⟩
          rw [if_neg this]
    · have h0 : id = 0 := by omega
      subst h0
      simp only [gt_iff_lt, lt_self_iff_false, dite_false]
      refine ⟨arr, rfl, rfl, ?_⟩
      intro j
      by_cases hj : i ≤ j ∧ j < k
      · rw [if_pos hj, hzero j hj.1 hj.2]
        simp
      · rw [if_neg hj]

/-- Reading over bytes that are zero adds nothing, whatever the wide shift does
with a zero byte as long as it yields zero. -/
theorem readLoop_zeros (wideShift : ℕ → ℕ → ℕ) (hshift : ∀ count, wideShift 0 count = 0)
    (bytes : List ℕ) : ∀ (m i value : ℕ), value < 2 ^ 32 →
    (∀ j, i ≤ j → j < i + m → bytes.getD j 0 = 0) →
    NodeId.readLoop wideShift bytes m i value = .ok value := by
  intro m
  induction m with
  | zero => intro i value _ _; rfl
  | succ m ih =>
    intro i value hv hz
    have h0 : bytes.getD i 0 = 0 := hz i (le_refl _) (by omega)
    have hs : NodeId.shiftByte wideShift 0 i = 0 := by
      unfold NodeId.shiftByte
      split
      · simp
      · rw [hshift]; rfl
    simp only [NodeId.readLoop, h0, ne_eq, not_true_eq_false, and_false, if_false, hs,
      add_zero, Nat.mod_eq_of_lt hv]
    exact ih (i + 1) value hv (fun j hj hjm => hz j (by omega) (by omega))

/-- The constructor from a byte array whose bytes from index 4 on are zero. -/
theorem ofByteArray_spec (wideShift : ℕ → ℕ → ℕ) (hshift : ∀ count, wideShift 0 count = 0)
    (bytes : List ℕ) (k : ℕ) (hk : 4 ≤ k)
    (hbyte : ∀ j, j < 4 → bytes.getD j 0 < 256)
    (hz : ∀ j, 4 ≤ j → j < k → bytes.getD j 0 = 0) :
    NodeId.ofByteArray wideShift bytes k
      = .ok (bytes.getD 0 0 + bytes.getD 1 0 * 256 + bytes.getD 2 0 * 65536
          + bytes.getD 3 0 * 16777216) := by
  obtain ⟨m, rfl⟩ : ∃ m, k = m + 4 := ⟨k - 4, by omega⟩
  have h0 := hbyte 0 (by decide)
  have h1 := hbyte 1 (by decide)
  have h2 := hbyte 2 (by decide)
  have h3 := hbyte 3 (by decide)
  have hrest := fun v hv => readLoop_zeros wideShift hshift bytes m 4 v hv
    (fun j hj hjm => hz j hj (by omega))
  unfold NodeId.ofByteArray
  simp only [NodeId.readLoop, NodeId.shiftByte]
  norm_num [-List.getD_eq_getElem?_getD]
  generalize bytes.getD 0 0 = b0 at *
  generalize bytes.getD 1 0 = b1 at *
  generalize bytes.getD 2 0 = b2 at *
  generalize bytes.getD 3 0 = b3 at *
  have f3 : (b0 + b1 * 256 + b2 * 65536 + b3 * 16777216) % 4294967296
      = b0 + b1 * 256 + b2 * 65536 + b3 * 16777216 := Nat.mod_eq_of_lt (by omega)
  rw [f3]
  exact hrest _ (by omega)

theorem filled_getD (byteArray : List ℕ) (k : ℕ) (hlen : k ≤ byteArray.length) (j : ℕ) :
    (List.replicate (min k byteArray.length) 0 ++ byteArray.drop k).getD j 0
      = if j < k then 0 else byteArray.getD j 0 := by
  rw [Nat.min_eq_left hlen]
  simp only [List.getD_eq_getElem?_getD]
  by_cases hj : j < k
  · rw [if_pos hj, List.getElem?_append_left (by simpa using hj)]
    simp [List.getElem?_replicate, hj]
  · rw [if_neg hj, List.getElem?_append_right (by simpa using hj)]
    simp only [List.length_replicate, List.getElem?_drop]
    congr 2
    omega

/-- C26: for every 32-bit identifier `n` and every byte count `k >= 4`,
`writeToByteArray` on an array of at least `k` bytes returns (the loop ends and
neither assertion fails), writes the little-endian bytes of `n` into the first
`k` bytes and nothing behind them, and the constructor from that byte array
yields `n` again.  The shifts by 32 bits and more that the constructor performs
on the bytes from index 4 on only ever meet zero bytes here; the round trip
holds for every behaviour of those shifts that maps zero to zero. -/
theorem nodeId_round_trip (wideShift : ℕ → ℕ → ℕ) (hshift : ∀ count, wideShift 0 count = 0)
    (n : ℕ) (k : ℕ) (byteArray : List ℕ) (hn : n < 2 ^ 32) (hk : 4 ≤ k)
    (hlen : k ≤ byteArray.length) :
    ∃ bytes, NodeId.writeToByteArray n byteArray k = .ok bytes ∧
      bytes.length = byteArray.length ∧
      (∀ j, j < k → bytes.getD j 0 = (n / 256 ^ j) % 256) ∧
      (∀ j, k ≤ j → bytes.getD j 0 = byteArray.getD j 0) ∧
      NodeId.ofByteArray wideShift bytes k = .ok n := by
  have hn' : n < 4294967296 := hn
  have hpow : n < 256 ^ (k - 0) := by
    have h1 : (2 : ℕ) ^ 32 = 256 ^ 4 := by norm_num
    have h2 : (256 : ℕ) ^ 4 ≤ 256 ^ k := Nat.pow_le_pow_right (by decide) hk
    rw [Nat.sub_zero]
    omega
  have harr : (List.replicate (min k byteArray.length) 0 ++ byteArray.drop k).length
      = byteArray.length := by
    rw [Nat.min_eq_left hlen, List.length_append, List.length_replicate, List.length_drop]
    omega
  obtain ⟨bytes, e, hl, hget⟩ := writeLoop_spec k n 0
    (List.replicate (min k byteArray.length) 0 ++ byteArray.drop k) (Nat.zero_le _)
    (by rw [harr]; exact hlen) hpow
    (by
      intro j _ hjk
      rw [filled_getD byteArray k hlen j, if_pos hjk])
  have hin : ∀ j, j < k → bytes.getD j 0 = (n / 256 ^ j) % 256 := by
    intro j hj
    rw [hget j, if_pos ⟨Nat.zero_le _, hj⟩, Nat.sub_zero]
  refine ⟨bytes, ?_, hl.trans harr, hin, ?_, ?_⟩
  · unfold NodeId.writeToByteArray
    rw [if_neg (not_not.2 hk)]
    exact e
  · intro j hj
    have hnot : ¬ (0 ≤ j ∧ j < k) := fun h => absurd h.2 (by omega)
    rw [hget j, if_neg hnot, filled_getD byteArray k hlen j, if_neg (by omega)]
  · rw [ofByteArray_spec wideShift hshift bytes k hk
      (fun j hj => by rw [hin j (by omega)]; exact Nat.mod_lt _ (by decide))
      (fun j hj hjk => by
        rw [hin j hjk]
        have h4 : (256 : ℕ) ^ 4 ≤ 256 ^ j := Nat.pow_le_pow_right (by decide) hj
        have : n / 256 ^ j = 0 := Nat.div_eq_of_lt (by
          have h1 : (2 : ℕ) ^ 32 = 256 ^ 4 := by norm_num
          omega)
        rw [this])]
    rw [hin 0 (by omega), hin 1 (by omega), hin 2 (by omega), hin 3 (by omega)]
    congr 1
    norm_num
    have key : n % 256 + n / 256 % 256 * 256 + n / 65536 % 256 * 65536
        + n / 16777216 % 256 * 16777216 = n := by omega
    exact key

/-- Witness for C26: the identifier 1460502 of `randomTest` in an array of 12
bytes, and the broadcast identifier in an array of 4 bytes, read back on a
machine that takes wide shift counts modulo 32. -/
theorem nodeId_round_trip_witness :
    (∀ count, maskedShift 0 count = 0) ∧
      (∃ bytes, NodeId.writeToByteArray 1460502 (List.replicate 12 255) 12 = .ok bytes ∧
        bytes.length = 12 ∧
        NodeId.ofByteArray maskedShift bytes 12 = .ok 1460502) ∧
      (∃ bytes, NodeId.writeToByteArray NodeId.broadcastDestination [7, 7, 7, 7, 9] 4
          = .ok bytes ∧
        bytes.getD 4 0 = 9 ∧
        NodeId.ofByteArray maskedShift bytes 4 = .ok NodeId.broadcastDestination) :=
  have hs : ∀ count, maskedShift 0 count = 0 := fun count => by simp [maskedShift]
  ⟨hs,
    (nodeId_round_trip maskedShift hs 1460502 12 (List.replicate 12 255) (by norm_num)
      (by decide) (by decide)).imp (fun _ h => ⟨h.1, h.2.1, h.2.2.2.2⟩),
    (nodeId_round_trip maskedShift hs NodeId.broadcastDestination 4 [7, 7, 7, 7, 9]
      (by norm_num [NodeId.broadcastDestination]) (by decide) (by decide)).imp
      (fun _ h => ⟨h.1, h.2.2.2.1 4 (le_refl _), h.2.2.2.2⟩)⟩

end NodeIdBytes

/-! ## Packets: size and duration -/

section PacketSize

theorem foldl_size (l : List (DataTypes × PacketData)) : ∀ acc : ℕ,
    acc + (l.map (fun kv => kv.2.sizeInBytes)).sum < 2 ^ 32 →
    l.foldl (fun acc d => (acc + d.2.sizeInBytes) % 2 ^ 32) acc
      = acc + (l.map (fun kv => kv.2.sizeInBytes)).sum := by
  induction l with
  | nil => intro acc _; simp
  | cons kv rest ih =>
    intro acc h
    simp only [List.map_cons, List.sum_cons] at h
    simp only [List.foldl_cons, List.map_cons, List.sum_cons]
    rw [Nat.mod_eq_of_lt (by omega), ih _ (by omega)]
    omega

/-- On a map (no key twice) the sizes of the entries add up to the sizes of the
payloads found for the five layer kinds. -/
theorem sum_payloadSize (l : List (DataTypes × PacketData))
    (hkeys : (l.map Prod.fst).Nodup) :
    (DataTypes.all.map (fun dataType =>
        (((l.find? (fun kv => kv.1 = dataType)).map Prod.snd).map
          PacketData.sizeInBytes).getD 0)).sum
      = (l.map (fun kv => kv.2.sizeInBytes)).sum := by
  induction l with
  | nil => simp [DataTypes.all]
  | cons kv rest ih =>
    simp only [List.map_cons, List.nodup_cons] at hkeys
    have hrest := ih hkeys.2
    have hnot : rest.find? (fun x => x.1 = kv.1) = none := by
      rw [List.find?_eq_none]
      intro x hx hxk
      exact hkeys.1 (List.mem_map.2 ⟨x, hx, by simpa using hxk⟩)
    simp only [List.map_cons, List.sum_cons, ← hrest]
    obtain ⟨k, d⟩ := kv
    simp only at hnot
    cases k <;>
      simp [DataTypes.all, List.find?_cons, hnot] <;> omega

/-- C25: `getSizeInBytes` is the sum of the sizes of the payloads that the packet
holds, one per layer kind that has a payload, or 512 if it holds none;
`getSizeInBits` is 8 times that, and `getDuration` is the size in bits divided
by the data rate.  The sizes are `unsigned int`: the statement is for packets
whose size in bits fits that type, which the payload classes of the sources (5
to 32 bytes each, at most one per layer kind) always do. -/
theorem packet_size_duration (p : Packet)
    (hkeys : (p.m_data.map Prod.fst).Nodup)
    (hfit : (p.m_data.map (fun kv => kv.2.sizeInBytes)).sum * 8 < 2 ^ 32) :
    p.getSizeInBytes
        = (if p.m_data = [] then 512 else (DataTypes.all.map p.payloadSize).sum) ∧
      (DataTypes.all.map p.payloadSize).sum
        = (p.m_data.map (fun kv => kv.2.sizeInBytes)).sum ∧
      p.getSizeInBits = 8 * p.getSizeInBytes ∧
      p.getDuration = (p.getSizeInBits : ℚ) / p.getDataRate := by
  have hsum : (DataTypes.all.map p.payloadSize).sum
      = (p.m_data.map (fun kv => kv.2.sizeInBytes)).sum :=
    sum_payloadSize p.m_data hkeys
  have hbytes : p.getSizeInBytes
      = (if p.m_data = [] then 512 else (DataTypes.all.map p.payloadSize).sum) := by
    rw [hsum]
    unfold Packet.getSizeInBytes
    cases hd : p.m_data with
    | nil => simp
    | cons kv rest =>
      rw [hd] at hfit
      simp only [reduceCtorEq, if_false]
      rw [foldl_size _ 0 (by omega)]
      omega
  refine ⟨hbytes, hsum, ?_, rfl⟩
  unfold Packet.getSizeInBits
  have hlt : p.getSizeInBytes * 8 < 2 ^ 32 := by
    rw [hbytes, hsum]
    split
    · norm_num
    · exact hfit
  rw [Nat.mod_eq_of_lt hlt, mul_comm]

/-- Witness for C25: an 18-byte REQUEST at 128000 bit/s lasts 1.125 ms, and a
packet without payload has 512 bytes. -/
theorem packet_size_duration_witness :
    exampleRequestPacket.getSizeInBytes = 18 ∧
      exampleRequestPacket.getSizeInBits = 144 ∧
      exampleRequestPacket.getDuration = 1125 / 1000000 ∧
      (Packet.create 1).getSizeInBytes = 512 ∧
      exampleRequestPacket.getSizeInBytes
        = (if exampleRequestPacket.m_data = [] then 512
            else (DataTypes.all.map exampleRequestPacket.payloadSize).sum) ∧
      exampleRequestPacket.getSizeInBits = 8 * exampleRequestPacket.getSizeInBytes :=
  have h := packet_size_duration exampleRequestPacket (by decide) (by decide)
  ⟨by decide, by decide,
    by norm_num [Packet.getDuration, Packet.getSizeInBits, Packet.getSizeInBytes,
      exampleRequestPacket, Packet.addData, dataInsert, Packet.create,
      RfidReaderMacData.toPacketData, RfidReaderMacData.getSizeInBytes],
    by decide, h.1, h.2.2.1⟩

end PacketSize

/-! ## Packets and their payloads as objects -/

section PacketHeapLemmas

theorem mapAssign_behind {β : Type} (dataType : DataTypes) (value : β) :
    ∀ data : List (DataTypes × β), (∀ a ∈ data, a.1.toNat < dataType.toNat) →
      mapAssign dataType value data = data ++ [(dataType, value)] := by
  intro data
  induction data with
  | nil => intro _; rfl
  | cons kv rest ih =>
    intro h
    have hkv := h kv (List.mem_cons_self _ _)
    have hne : ¬ kv.1 = dataType := fun e => by rw [e] at hkv; exact lt_irrefl _ hkv
    have hnlt : ¬ dataType.toNat < kv.1.toNat := not_lt.2 (le_of_lt hkv)
    simp only [mapAssign, hne, hnlt, if_false, List.cons_append]
    rw [ih (fun a ha => h a (List.mem_cons_of_mem _ ha))]

theorem value_congr (h1 h2 : PacketHeap) (p : PacketPtr)
    (hobj : h1.packets p = h2.packets p)
    (hdata : ∀ kv ∈ (h2.packets p).m_data, h1.payloads kv.2 = h2.payloads kv.2) :
    h1.value p = h2.value p := by
  unfold PacketHeap.value
  rw [hobj]
  congr 1
  exact List.map_congr_left (fun kv hkv => by rw [hdata kv hkv])

theorem getSizeInBytes_value (h : PacketHeap) (p : PacketPtr) :
    h.getSizeInBytes p = (h.value p).getSizeInBytes := by
  unfold PacketHeap.getSizeInBytes Packet.getSizeInBytes PacketHeap.value
  cases hd : (h.packets p).m_data with
  | nil => rfl
  | cons kv rest =>
    simp only [List.map_cons]
    show _ = List.foldl _ 0 (List.map (fun kv => (kv.1, h.payloads kv.2)) (kv :: rest))
    rw [List.foldl_map]

theorem getData_value (h : PacketHeap) (p : PacketPtr) (dataType : DataTypes) :
    (h.getData p dataType).map h.payloads = (h.value p).getData dataType := by
  unfold PacketHeap.getData Packet.getData PacketHeap.value
  simp only
  induction (h.packets p).m_data with
  | nil => rfl
  | cons kv rest ih =>
    simp only [List.map_cons, List.find?_cons]
    by_cases hk : kv.1 = dataType
    · simp [hk]
    · simp only [hk, decide_False]
      exact ih

/-- The loop of the copy constructor: the new entries carry the keys of the
entries copied, point to new objects, and these hold what the objects copied
hold; nothing that existed before is changed. -/
theorem copyData_spec : ∀ (rest data : List (DataTypes × PacketDataPtr)) (h : PacketHeap),
    (∀ a ∈ data, ∀ b ∈ rest, a.1.toNat < b.1.toNat) → KeyOrdered rest →
    (∀ kv ∈ rest, kv.2 < h.nextPacketDataPtr) →
    (PacketHeap.copyData rest data h).2.packets = h.packets ∧
    (PacketHeap.copyData rest data h).2.nextPacketPtr = h.nextPacketPtr ∧
    (PacketHeap.copyData rest data h).2.m_nextUniqueId = h.m_nextUniqueId ∧
    (PacketHeap.copyData rest data h).2.nextPacketDataPtr
      = h.nextPacketDataPtr + rest.length ∧
    (∀ ptr, ptr < h.nextPacketDataPtr →
      (PacketHeap.copyData rest data h).2.payloads ptr = h.payloads ptr) ∧
    ∃ fresh, (PacketHeap.copyData rest data h).1 = data ++ fresh ∧
      (∀ kv ∈ fresh, h.nextPacketDataPtr ≤ kv.2) ∧
      fresh.map (fun kv => (kv.1, (PacketHeap.copyData rest data h).2.payloads kv.2))
        = rest.map (fun kv => (kv.1, h.payloads kv.2)) := by
  intro rest
  induction rest with
  | nil =>
    intro data h _ _ _
    exact ⟨rfl, rfl, rfl, rfl, fun _ _ => rfl, [], by simp [PacketHeap.copyData],
      fun kv hkv => (by cases hkv), rfl⟩
  | cons kv rest ih =>
    intro data h hkeys hord halloc
    have hord' := List.pairwise_cons.1 hord
    have hassign : mapAssign kv.1 h.nextPacketDataPtr data
        = data ++ [(kv.1, h.nextPacketDataPtr)] :=
      mapAssign_behind kv.1 _ data (fun a ha => hkeys a ha kv (List.mem_cons_self _ _))
    have hkv : kv.2 < h.nextPacketDataPtr := halloc kv (List.mem_cons_self _ _)
    simp only [PacketHeap.copyData, PacketHeap.clone]
    rw [hassign]
    obtain ⟨i1, i2, i3, i4, i5, fresh, i6, i7, i8⟩ := ih (data ++ [(kv.1, h.nextPacketDataPtr)])
      { h with
        payloads := setAt h.payloads h.nextPacketDataPtr (h.payloads kv.2)
        nextPacketDataPtr := h.nextPacketDataPtr + 1 }
      (by
        intro a ha b hb
        rcases List.mem_append.1 ha with ha | ha
        · exact hkeys a ha b (List.mem_cons_of_mem _ hb)
        · simp only [List.mem_singleton] at ha
          rw [ha]
          exact hord'.1 b hb)
      hord'.2
      (fun b hb => Nat.lt_succ_of_lt (halloc b (List.mem_cons_of_mem _ hb)))
    refine ⟨i1, i2, i3, ?_, ?_, (kv.1, h.nextPacketDataPtr) :: fresh, ?_, ?_, ?_⟩
    · rw [i4]
      show h.nextPacketDataPtr + 1 + rest.length = h.nextPacketDataPtr + (rest.length + 1)
      rw [Nat.add_assoc, Nat.add_comm 1]
    · intro ptr hptr
      rw [i5 ptr (Nat.lt_succ_of_lt hptr)]
      exact setAt_other _ _ (Nat.ne_of_lt hptr)
    · rw [i6, List.append_assoc]
      rfl
    · intro x hx
      rcases List.mem_cons.1 hx with rfl | hx
      · exact le_refl _
      · exact le_trans (Nat.le_succ _) (i7 x hx)
    · simp only [List.map_cons]
      rw [i5 h.nextPacketDataPtr (Nat.lt_succ_self _), i8]
      simp only [setAt_same]
      congr 1
      refine List.map_congr_left (fun b hb => ?_)
      have : b.2 ≠ h.nextPacketDataPtr :=
        Nat.ne_of_lt (halloc b (List.mem_cons_of_mem _ hb))
      simp only [setAt_other _ _ this]

/-- C24: `Packet::create(p)` returns a new packet with the unique id of `p`, the
size in bytes of `p`, and for every layer kind no payload if `p` has none and
else a payload equal to that of `p`; as a value it is `p` with an indeterminate
`m_doMaxTxPower`.  The payloads of the copy are objects of their own: no payload
pointer of the copy is one of `p`, so `addData` and `removeData` on the copy and
writes through the copy's payload pointers leave `p` with its payloads and its
size, and writes through the payload pointers of `p` leave the copy. -/
theorem createCopy_deep (h : PacketHeap) (p : PacketPtr) (indeterminate : Bool)
    (halloc : h.Allocated) (hp : p < h.nextPacketPtr)
    (hord : KeyOrdered (h.packets p).m_data) :
    ∃ q h', h.createCopy p indeterminate = (q, h') ∧ q ≠ p ∧
      h'.getUniqueId q = h.getUniqueId p ∧
      h'.getSizeInBytes q = h.getSizeInBytes p ∧
      (∀ dataType, (h'.getData q dataType).map h'.payloads
        = (h.getData p dataType).map h.payloads) ∧
      h'.value q = (h.value p).copy indeterminate ∧
      h'.value p = h.value p ∧
      (∀ kv ∈ (h'.packets q).m_data, ∀ kv' ∈ (h'.packets p).m_data, kv.2 ≠ kv'.2) ∧
      (∀ dataType data, (h'.addData q dataType data).value p = h.value p ∧
        (h'.addData q dataType data).getSizeInBytes p = h.getSizeInBytes p) ∧
      (∀ dataType, (h'.removeData q dataType).2.value p = h.value p ∧
        (h'.removeData q dataType).2.getSizeInBytes p = h.getSizeInBytes p) ∧
      (∀ kv ∈ (h'.packets q).m_data, ∀ v, (h'.writePayload kv.2 v).value p = h.value p) ∧
      (∀ kv ∈ (h.packets p).m_data, ∀ v, (h'.writePayload kv.2 v).value q = h'.value q) := by
  obtain ⟨c1, c2, -, c4, c5, fresh, c6, c7, c8⟩ := copyData_spec (h.packets p).m_data [] h
    (fun a ha => (by cases ha)) hord (halloc p)
  rw [List.nil_append] at c6
  have hq1 : (h.createCopy p indeterminate).1 = h.nextPacketPtr := c2
  have hq : (h.createCopy p indeterminate).1 ≠ p := by rw [hq1]; exact Nat.ne_of_gt hp
  have hobjq : (h.createCopy p indeterminate).2.packets (h.createCopy p indeterminate).1
      = { m_dataRate := (h.packets p).m_dataRate
          m_txPower := (h.packets p).m_txPower
          m_doMaxTxPower := indeterminate
          m_hasError := (h.packets p).m_hasError
          m_data := fresh
          m_destination := (h.packets p).m_destination
          m_uniqueId := (h.packets p).m_uniqueId } := by
    simp only [PacketHeap.createCopy, setAt_same]
    rw [c6]
  have hobjp : (h.createCopy p indeterminate).2.packets p = h.packets p := by
    have hne : p ≠ (PacketHeap.copyData (h.packets p).m_data [] h).2.nextPacketPtr :=
      Ne.symm hq
    simp only [PacketHeap.createCopy]
    rw [setAt_other _ _ hne, c1]
  have hpay : (h.createCopy p indeterminate).2.payloads = (PacketHeap.copyData (h.packets p).m_data [] h).2.payloads := rfl
  have hnext : (h.createCopy p indeterminate).2.nextPacketDataPtr
      = h.nextPacketDataPtr + (h.packets p).m_data.length := c4
  have hold : ∀ kv ∈ (h.packets p).m_data, (h.createCopy p indeterminate).2.payloads kv.2 = h.payloads kv.2 :=
    fun kv hkv => by rw [hpay]; exact c5 kv.2 (halloc p kv hkv)
  have hvq : (h.createCopy p indeterminate).2.value (h.createCopy p indeterminate).1 = (h.value p).copy indeterminate := by
    unfold PacketHeap.value Packet.copy
    rw [hobjq]
    simp only
    rw [hpay, c8]
  have hvp : (h.createCopy p indeterminate).2.value p = h.value p :=
    value_congr (h.createCopy p indeterminate).2 h p hobjp (fun kv hkv => hold kv hkv)
  have hfresh : ∀ kv ∈ fresh, ∀ kv' ∈ (h.packets p).m_data, kv.2 ≠ kv'.2 :=
    fun kv hkv kv' hkv' => Nat.ne_of_gt (lt_of_lt_of_le (halloc p kv' hkv') (c7 kv hkv))
  refine ⟨(h.createCopy p indeterminate).1, (h.createCopy p indeterminate).2, rfl, hq, ?_, ?_, ?_, hvq, hvp, ?_, ?_, ?_, ?_, ?_⟩
  · unfold PacketHeap.getUniqueId
    rw [hobjq]
  · rw [getSizeInBytes_value, getSizeInBytes_value, hvq]
    rfl
  · intro dataType
    rw [getData_value, getData_value, hvq]
    rfl
  · rw [hobjq, hobjp]
    exact hfresh
  · intro dataType data
    have hv : ((h.createCopy p indeterminate).2.addData (h.createCopy p indeterminate).1 dataType data).value p = h.value p := by
      refine (value_congr _ (h.createCopy p indeterminate).2 p ?_ ?_).trans hvp
      · simp only [PacketHeap.addData, PacketHeap.clone]
        exact setAt_other _ _ (Ne.symm hq)
      · intro kv hkv
        rw [hobjp] at hkv
        simp only [PacketHeap.addData, PacketHeap.clone]
        refine setAt_other _ _ (Nat.ne_of_lt ?_)
        rw [hnext]
        exact lt_of_lt_of_le (halloc p kv hkv) (Nat.le_add_right _ _)
    exact ⟨hv, by rw [getSizeInBytes_value, getSizeInBytes_value, hv]⟩
  · intro dataType
    have hv : ((h.createCopy p indeterminate).2.removeData (h.createCopy p indeterminate).1 dataType).2.value p = h.value p := by
      refine (value_congr _ (h.createCopy p indeterminate).2 p ?_ ?_).trans hvp
      · simp only [PacketHeap.removeData]
        exact setAt_other _ _ (Ne.symm hq)
      · intro kv _
        rfl
    exact ⟨hv, by rw [getSizeInBytes_value, getSizeInBytes_value, hv]⟩
  · intro kv hkv v
    rw [hobjq] at hkv
    refine (value_congr ((h.createCopy p indeterminate).2.writePayload kv.2 v)
      (h.createCopy p indeterminate).2 p rfl ?_).trans hvp
    intro kv' hkv'
    rw [hobjp] at hkv'
    simp only [PacketHeap.writePayload]
    exact setAt_other _ _ (Ne.symm (hfresh kv hkv kv' hkv'))
  · intro kv hkv v
    refine value_congr ((h.createCopy p indeterminate).2.writePayload kv.2 v)
      (h.createCopy p indeterminate).2 _ rfl ?_
    intro kv' hkv'
    rw [hobjq] at hkv'
    simp only [PacketHeap.writePayload]
    exact setAt_other _ _ (hfresh kv' hkv' kv hkv)

theorem exampleHeap_allocated : exampleHeap.Allocated := by
  intro packet kv hkv
  by_cases hp : packet = 0
  · subst hp
    have hd : (exampleHeap.packets 0).m_data = [(DataTypes.Link, 0)] := rfl
    rw [hd] at hkv
    simp only [List.mem_singleton] at hkv
    rw [hkv]
    exact Nat.zero_lt_one
  · have hd : (exampleHeap.packets packet).m_data = [] := by
      simp [exampleHeap, PacketHeap.addData, PacketHeap.clone, PacketHeap.create, setAt, hp]
    rw [hd] at hkv
    cases hkv

/-- Witness for C24: the copy of the REQUEST packet (unique id 1, 18 bytes). -/
theorem createCopy_deep_witness :
    exampleHeap.Allocated ∧ 0 < exampleHeap.nextPacketPtr ∧
      KeyOrdered (exampleHeap.packets 0).m_data ∧
      exampleHeap.getUniqueId 0 = 1 ∧ exampleHeap.getSizeInBytes 0 = 18 ∧
      ∃ q h', exampleHeap.createCopy 0 true = (q, h') ∧ q ≠ 0 ∧
        h'.getUniqueId q = exampleHeap.getUniqueId 0 ∧
        h'.getSizeInBytes q = exampleHeap.getSizeInBytes 0 ∧
        h'.value 0 = exampleHeap.value 0 :=
  have hord : KeyOrdered (exampleHeap.packets 0).m_data := by
    have hd : (exampleHeap.packets 0).m_data = [(DataTypes.Link, 0)] := rfl
    rw [hd]
    exact List.pairwise_singleton _ _
  ⟨exampleHeap_allocated, Nat.zero_lt_one, hord, rfl, rfl,
    (createCopy_deep exampleHeap 0 true exampleHeap_allocated Nat.zero_lt_one hord).imp
      (fun _ hq => hq.imp (fun _ h => ⟨h.1, h.2.1, h.2.2.1, h.2.2.2.1, h.2.2.2.2.2.2.1⟩))⟩

end PacketHeapLemmas

/-! ## The reader application: the table of the tags read -/

section ReadTags

theorem setInsert_new (x : NodeId) : ∀ l : List NodeId, x ∉ l →
    (setInsert x l).2 = true ∧ (setInsert x l).1.Perm (x :: l) := by
  intro l
  induction l with
  | nil => intro _; exact ⟨rfl, List.Perm.refl _⟩
  | cons y ys ih =>
    intro hx
    have hxy : ¬ x = y := fun e => hx (by rw [e]; exact List.mem_cons_self _ _)
    have hys : x ∉ ys := fun hm => hx (List.mem_cons_of_mem _ hm)
    obtain ⟨i1, i2⟩ := ih hys
    unfold setInsert
    rw [if_neg hxy]
    by_cases hlt : x < y
    · rw [if_pos hlt]
      exact ⟨rfl, List.Perm.refl _⟩
    · rw [if_neg hlt]
      exact ⟨i1, ((List.Perm.cons y i2).trans (List.Perm.swap x y ys))⟩

theorem multimapInsert_perm {β : Type} (k : ℕ) (v : β) : ∀ l : List (ℕ × β),
    (multimapInsert k v l).Perm ((k, v) :: l) := by
  intro l
  induction l with
  | nil => exact List.Perm.refl _
  | cons p rest ih =>
    unfold multimapInsert
    split
    · exact List.Perm.refl _
    · exact (List.Perm.cons p ih).trans (List.Perm.swap (k, v) p rest)

/-- One delivery to a running application whose tables agree. -/
theorem handleRecvdPacket_step (app : RfidReaderApp) (w : AppWorld) (packet : PacketPtr)
    (hrun : app.m_isRunning = true) (hinv : app.TablesAgree) :
    ∃ b app', app.handleRecvdPacket w packet = .ok (b, app') ∧
      app'.m_isRunning = true ∧ app'.TablesAgree ∧
      (∀ tagId, Delivery.tagId ⟨w, packet, 0, 0⟩ = some tagId →
        b = true ∧
        (tagId ∈ app.m_readTagIds → app' = app) ∧
        (tagId ∉ app.m_readTagIds →
          app'.m_lastTagRead = (app.m_currentTxPowerLevel,
            { m_readTagId := tagId, m_timeRead := w.sim.currentTime,
              m_timeReadSent := app.m_previousReadSentTime }) ∧
          app'.m_readTags.Perm (app'.m_lastTagRead :: app.m_readTags) ∧
          app'.m_readTagIds.Perm (tagId :: app.m_readTagIds))) ∧
      (Delivery.tagId ⟨w, packet, 0, 0⟩ = none → app' = app) ∧
      (∀ id, id ∈ app'.m_readTagIds ↔
        id ∈ app.m_readTagIds ∨ Delivery.tagId ⟨w, packet, 0, 0⟩ = some id) := by
  unfold RfidReaderApp.handleRecvdPacket Delivery.tagId
  simp only [hrun, Bool.not_true, Bool.false_eq_true, if_false]
  cases hd : ((w.packets packet).getData .Application).map PacketData.header with
  | none =>
    exact ⟨false, app, rfl, hrun, hinv, fun _ h => (by cases h), fun _ => rfl,
      fun id => (by simp)⟩
  | some header =>
    cases header with
    | tagApp tagData =>
      simp only
      by_cases hnew : tagData.m_nodeId ∈ app.m_readTagIds
      · simp only [hnew, not_true_eq_false, decide_False, Bool.false_eq_true, if_false]
        refine ⟨true, app, rfl, hrun, hinv, ?_, fun h => (by cases h), ?_⟩
        · intro tagId ht
          simp only [Option.some.injEq] at ht
          subst ht
          exact ⟨rfl, fun _ => rfl, fun h => absurd hnew h⟩
        · intro id
          constructor
          · exact fun h => Or.inl h
          · rintro (h | h)
            · exact h
            · simp only [Option.some.injEq] at h
              rw [← h]; exact hnew
      · obtain ⟨s1, s2⟩ := setInsert_new tagData.m_nodeId app.m_readTagIds hnew
        simp only [hnew, not_false_eq_true, decide_True, if_true, s1]
        refine ⟨true, _, rfl, rfl, ?_, ?_, fun h => (by cases h), ?_⟩
        · refine ⟨?_, ?_⟩
          · simp only
            refine ((multimapInsert_perm _ _ _).map _).trans ?_
            simp only [List.map_cons]
            exact (List.Perm.cons _ hinv.1).trans s2.symm
          · simp only
            rw [s2.nodup_iff]
            exact List.nodup_cons.2 ⟨hnew, hinv.2⟩
        · intro tagId ht
          simp only [Option.some.injEq] at ht
          subst ht
          exact ⟨rfl, fun h => absurd h hnew,
            fun _ => ⟨rfl, multimapInsert_perm _ _ _, s2⟩⟩
        · intro id
          simp only
          rw [s2.mem_iff, List.mem_cons, Option.some.injEq]
          constructor
          · rintro (h | h)
            · exact Or.inr h.symm
            · exact Or.inl h
          · rintro (h | h)
            · exact Or.inr h
            · exact Or.inl h.symm
    | plain =>
      exact ⟨false, app, rfl, hrun, hinv, fun _ h => (by cases h), fun _ => rfl,
        fun id => (by simp)⟩
    | readerMac d =>
      exact ⟨false, app, rfl, hrun, hinv, fun _ h => (by cases h), fun _ => rfl,
        fun id => (by simp)⟩
    | tagMac d =>
      exact ⟨false, app, rfl, hrun, hinv, fun _ h => (by cases h), fun _ => rfl,
        fun id => (by simp)⟩
    | readerApp d =>
      exact ⟨true, app, rfl, hrun, hinv, fun _ h => (by cases h), fun _ => rfl,
        fun id => (by simp)⟩

/-- A sequence of deliveries to a running application whose tables agree: no
assertion fails, the tables agree afterwards, and the set holds the identifiers
that it held before and those that were delivered. -/
theorem deliver_spec : ∀ (ds : List Delivery) (app : RfidReaderApp),
    app.m_isRunning = true → app.TablesAgree →
    ∃ bs app', app.deliver ds = .ok (bs, app') ∧ bs.length = ds.length ∧
      app'.m_isRunning = true ∧ app'.TablesAgree ∧
      ∀ id, id ∈ app'.m_readTagIds ↔
        id ∈ app.m_readTagIds ∨ some id ∈ ds.map Delivery.tagId := by
  intro ds
  induction ds with
  | nil =>
    intro app hrun hinv
    exact ⟨[], app, rfl, rfl, hrun, hinv, fun id => (by simp)⟩
  | cons d ds ih =>
    intro app hrun hinv
    obtain ⟨b, app1, e1, hrun1, hinv1, -, -, hmem1⟩ := handleRecvdPacket_step
      { app with m_currentTxPowerLevel := d.level, m_previousReadSentTime := d.readSentTime }
      d.world d.packet hrun hinv
    obtain ⟨bs, app2, e2, hlen, hrun2, hinv2, hmem2⟩ := ih app1 hrun1 hinv1
    refine ⟨b :: bs, app2, ?_, by rw [List.length_cons, hlen, List.length_cons], hrun2,
      hinv2, ?_⟩
    · simp only [RfidReaderApp.deliver, e1, e2]
    · intro id
      rw [hmem2 id, hmem1 id, List.map_cons, List.mem_cons]
      have ht : Delivery.tagId ⟨d.world, d.packet, 0, 0⟩ = d.tagId := rfl
      rw [ht]
      constructor
      · rintro ((h | h) | h)
        · exact Or.inl h
        · exact Or.inr (Or.inl h.symm)
        · exact Or.inr (Or.inr h)
      · rintro (h | h | h)
        · exact Or.inl (Or.inl h)
        · exact Or.inl (Or.inr h.symm)
        · exact Or.inr h

/-- C21: for a reader application whose two tables agree (as they do when it is
constructed), a packet received while it is not running changes nothing and
returns false; while it is running, the first identity packet of a tag
identifier adds the record (current power level, identifier, current time, time
the current READ was sent) and the identifier, an identity packet of an
identifier that is already in the set changes nothing, and both return true;
along every sequence of deliveries the assertion `p.second` never fails, the
table of records is as long as the set of identifiers, and it holds exactly one
record for every identifier that was in the set or has been received and none
for any other. -/
theorem readTags_one_record_per_tag (app : RfidReaderApp) (hinv : app.TablesAgree) :
    (∀ w packet, app.m_isRunning = false →
      app.handleRecvdPacket w packet = .ok (false, app)) ∧
    (∀ w packet, app.m_isRunning = true →
      ∃ b app', app.handleRecvdPacket w packet = .ok (b, app') ∧
        ∀ tagId, Delivery.tagId ⟨w, packet, 0, 0⟩ = some tagId →
          b = true ∧
          (tagId ∈ app.m_readTagIds → app' = app) ∧
          (tagId ∉ app.m_readTagIds →
            app'.m_lastTagRead = (app.m_currentTxPowerLevel,
              { m_readTagId := tagId, m_timeRead := w.sim.currentTime,
                m_timeReadSent := app.m_previousReadSentTime }) ∧
            app'.m_readTags.Perm (app'.m_lastTagRead :: app.m_readTags) ∧
            app'.m_readTagIds.Perm (tagId :: app.m_readTagIds))) ∧
    (∀ ds : List Delivery, app.m_isRunning = true →
      ∃ bs app', app.deliver ds = .ok (bs, app') ∧
        app'.m_readTags.length = app'.m_readTagIds.length ∧
        (∀ id, id ∈ app'.m_readTagIds ↔
          id ∈ app.m_readTagIds ∨ some id ∈ ds.map Delivery.tagId) ∧
        ∀ id, (app'.m_readTags.map (fun r => r.2.m_readTagId)).count id
          = if id ∈ app'.m_readTagIds then 1 else 0) := by
  refine ⟨?_, ?_, ?_⟩
  · intro w packet hrun
    unfold RfidReaderApp.handleRecvdPacket
    simp only [hrun, Bool.not_false, if_true]
  · intro w packet hrun
    obtain ⟨b, app', e, -, -, h, -, -⟩ := handleRecvdPacket_step app w packet hrun hinv
    exact ⟨b, app', e, h⟩
  · intro ds hrun
    obtain ⟨bs, app', e, -, -, hinv', hmem⟩ := deliver_spec ds app hrun hinv
    refine ⟨bs, app', e, ?_, hmem, ?_⟩
    · have := hinv'.1.length_eq
      rwa [List.length_map] at this
    · intro id
      rw [hinv'.1.count_eq, List.count_eq_of_nodup hinv'.2]

theorem exampleReaderApp_tablesAgree : (exampleReaderApp 0).TablesAgree :=
  ⟨List.Perm.refl _, List.nodup_nil⟩

theorem exampleDeliveries_result :
    ((exampleReaderApp 0).deliver exampleDeliveries).map
        (fun r => (r.1, r.2.m_readTagIds, r.2.m_readTags))
      = .ok ([true, true, true], [5, 6],
          [(0, { m_readTagId := 5, m_timeRead := 1, m_timeReadSent := 1 / 2 }),
           (0, { m_readTagId := 6, m_timeRead := 2, m_timeReadSent := 1 / 2 })]) := by
  simp [RfidReaderApp.deliver, exampleDeliveries, RfidReaderApp.handleRecvdPacket,
    exampleReaderApp, RfidReaderApp.create, exampleIdWorld, exampleIdPacket, Packet.getData,
    Packet.addData, dataInsert, Packet.create, RfidTagAppData.toPacketData, setInsert,
    multimapInsert, Except.map, Simulator.currentTime]

/-- Witness for C21: the identity packets of the tags 5, 6 and 5 again leave two
records. -/
theorem readTags_one_record_per_tag_witness :
    (exampleReaderApp 0).TablesAgree ∧ (exampleReaderApp 0).m_isRunning = true ∧
      ((exampleReaderApp 0).deliver exampleDeliveries).map
          (fun r => (r.1, r.2.m_readTagIds, r.2.m_readTags))
        = .ok ([true, true, true], [5, 6],
            [(0, { m_readTagId := 5, m_timeRead := 1, m_timeReadSent := 1 / 2 }),
             (0, { m_readTagId := 6, m_timeRead := 2, m_timeReadSent := 1 / 2 })]) ∧
      ∃ bs app', (exampleReaderApp 0).deliver exampleDeliveries = .ok (bs, app') ∧
        app'.m_readTags.length = app'.m_readTagIds.length :=
  ⟨exampleReaderApp_tablesAgree, rfl, exampleDeliveries_result,
    ((readTags_one_record_per_tag (exampleReaderApp 0) exampleReaderApp_tablesAgree).2.2
      exampleDeliveries rfl).imp (fun _ h => h.imp (fun _ h' => ⟨h'.1, h'.2.1⟩))⟩

end ReadTags

/-! ## The packet queue of a communication layer -/

section LayerQueue

theorem queueIsFull_ok (L : CommunicationLayer) (h : L.QueueBounded) :
    L.queueIsFull = .ok (decide (L.m_packetQueue.length = L.m_maxQueueLength)) := by
  have h' : L.m_packetQueue.length ≤ L.m_maxQueueLength := h
  unfold CommunicationLayer.queueIsFull
  rw [if_neg (not_not.2 h')]

/-- The loop of `unblockUpperQueues` on a bounded queue returns and changes only
the record of the calls on upper layers. -/
theorem unblockUpperLoop_spec : ∀ (remaining i : ℕ) (L : CommunicationLayer),
    L.QueueBounded →
    ∃ calls, L.unblockUpperLoop remaining i
      = .ok { L with upperCalls := L.upperCalls ++ calls } := by
  intro remaining
  induction remaining with
  | zero =>
    intro i L h
    refine ⟨[], ?_⟩
    simp only [CommunicationLayer.unblockUpperLoop, queueIsFull_ok L h, Except.map,
      List.append_nil]
  | succ remaining ih =>
    intro i L h
    simp only [CommunicationLayer.unblockUpperLoop, queueIsFull_ok L h]
    by_cases hfull : L.m_packetQueue.length = L.m_maxQueueLength
    · refine ⟨[], ?_⟩
      simp only [hfull, decide_True, Bool.not_true, Bool.false_eq_true, if_false,
        List.append_nil]
    · simp only [hfull, decide_False, Bool.not_false, if_true]
      obtain ⟨calls, e⟩ := ih (i + 1)
        { L with upperCalls := L.upperCalls ++ [UpperCall.unblockQueue i] } h
      refine ⟨UpperCall.unblockQueue i :: calls, ?_⟩
      rw [e]
      simp only [List.append_assoc, List.singleton_append]

/-- The outcome of the loop of `sendFromQueue`: a fault only from an assertion
of `sendToLayer` that the queued packets or the delay violate; otherwise what
has been sent down followed by what is still queued is what had been sent down
followed by the queue, and the rest of the layer but the pending flag is as
before. -/
theorem sendFromQueueLoop_spec : ∀ (queue : List (PacketPtr × ℕ)) (L : CommunicationLayer),
    match L.sendFromQueueLoop queue with
    | .error f => (f = .noSuchLayer ∨ f = .scheduleNegativeDelay) ∧
        ¬ (0 ≤ L.m_lowerLayerDelay ∧ ∀ e ∈ queue, e.2 < L.numberOfLowerLayers)
    | .ok L1 => L1.sentLower ++ L1.m_packetQueue = L.sentLower ++ queue ∧
        L1.m_packetQueue.length ≤ queue.length ∧
        (∀ e ∈ L1.m_packetQueue, e ∈ queue) ∧
        L1.m_maxQueueLength = L.m_maxQueueLength ∧
        L1.numberOfLowerLayers = L.numberOfLowerLayers ∧
        L1.numberOfUpperLayers = L.numberOfUpperLayers ∧
        L1.m_lowerLayerDelay = L.m_lowerLayerDelay ∧
        L1.m_queueIsBlocked = L.m_queueIsBlocked ∧
        L1.upperCalls = L.upperCalls := by
  intro queue
  induction queue with
  | nil =>
    intro L
    simp [CommunicationLayer.sendFromQueueLoop]
  | cons e rest ih =>
    intro L
    unfold CommunicationLayer.sendFromQueueLoop
    by_cases hc : (!L.m_lowerLayerRecvEventPending && !L.m_queueIsBlocked) = true
    · rw [if_pos hc]
      unfold CommunicationLayer.sendToLayer
      simp only [CommunicationLayer.numberOfLayers, CommunicationLayer.getLayerDelay]
      by_cases hidx : e.2 < L.numberOfLowerLayers
      · by_cases hdelay : L.m_lowerLayerDelay ≥ 0
        · rw [if_neg (not_not.2 hidx), if_neg (not_not.2 hdelay)]
          simp only
          have := ih { L with
            m_packetQueue := rest
            sentLower := L.sentLower ++ [(e.1, e.2)]
            m_lowerLayerRecvEventPending := true }
          revert this
          cases CommunicationLayer.sendFromQueueLoop { L with
            m_packetQueue := rest
            sentLower := L.sentLower ++ [(e.1, e.2)]
            m_lowerLayerRecvEventPending := true } rest with
          | error f =>
            intro this
            exact ⟨this.1, fun hv => this.2 ⟨hv.1, fun x hx =>
              hv.2 x (List.mem_cons_of_mem _ hx)⟩⟩
          | ok L1 =>
            intro this
            obtain ⟨t1, t2, t3, t4, t5, t6, t7, t8, t9⟩ := this
            refine ⟨?_, Nat.le_succ_of_le t2, fun x hx => List.mem_cons_of_mem _ (t3 x hx),
              t4, t5, t6, t7, t8, t9⟩
            rw [t1]
            simp only [List.append_assoc, List.singleton_append]
        · rw [if_neg (not_not.2 hidx), if_pos hdelay]
          exact ⟨Or.inr rfl, fun hv => hdelay hv.1⟩
      · rw [if_pos hidx]
        exact ⟨Or.inl rfl, fun hv => hidx (hv.2 e (List.mem_cons_self _ _))⟩
    · rw [if_neg hc]
      exact ⟨rfl, le_refl _, fun x hx => hx, rfl, rfl, rfl, rfl, rfl, rfl⟩

/-- The method `sendFromQueue` on a bounded queue. -/
theorem sendFromQueue_spec (L : CommunicationLayer) (hb : L.QueueBounded) :
    match L.sendFromQueue with
    | .error f => (f = .noSuchLayer ∨ f = .scheduleNegativeDelay) ∧ ¬ L.QueueValid
    | .ok L1 => L1.sentLower ++ L1.m_packetQueue = L.sentLower ++ L.m_packetQueue ∧
        L1.m_packetQueue.length ≤ L.m_packetQueue.length ∧
        (∀ e ∈ L1.m_packetQueue, e ∈ L.m_packetQueue) ∧
        L1.m_maxQueueLength = L.m_maxQueueLength ∧
        L1.numberOfLowerLayers = L.numberOfLowerLayers ∧
        L1.numberOfUpperLayers = L.numberOfUpperLayers ∧
        L1.m_lowerLayerDelay = L.m_lowerLayerDelay ∧
        L1.m_queueIsBlocked = L.m_queueIsBlocked := by
  have hloop := sendFromQueueLoop_spec L.m_packetQueue L
  unfold CommunicationLayer.sendFromQueue
  revert hloop
  cases L.sendFromQueueLoop L.m_packetQueue with
  | error f => exact fun h => h
  | ok L1 =>
    intro h
    obtain ⟨t1, t2, t3, t4, t5, t6, t7, t8, -⟩ := h
    have hb1 : L1.QueueBounded := by
      unfold CommunicationLayer.QueueBounded
      rw [t4]
      exact le_trans t2 hb
    simp only [queueIsFull_ok L1 hb1]
    by_cases hfull : L1.m_packetQueue.length = L1.m_maxQueueLength
    · rw [decide_eq_true hfull]
      simp only [Bool.not_true, Bool.false_eq_true, if_false]
      exact ⟨t1, t2, t3, t4, t5, t6, t7, t8⟩
    · rw [decide_eq_false hfull]
      simp only [Bool.not_false, if_true]
      obtain ⟨calls, e⟩ := unblockUpperLoop_spec L1.numberOfUpperLayers 0 L1 hb1
      unfold CommunicationLayer.unblockUpperQueues
      rw [e]
      exact ⟨t1, t2, t3, t4, t5, t6, t7, t8⟩

/-- The method `sendToQueue` on a bounded queue. -/
theorem sendToQueue_spec (L : CommunicationLayer) (packet : PacketPtr) (lowerLayerIdx : ℕ)
    (hb : L.QueueBounded) :
    match L.sendToQueue packet lowerLayerIdx with
    | .error f => (f = .noSuchLayer ∨ f = .scheduleNegativeDelay) ∧
        ¬ (L.QueueValid ∧ lowerLayerIdx < L.numberOfLowerLayers)
    | .ok r => (r.1 = false ↔ L.m_packetQueue.length = L.m_maxQueueLength) ∧
        r.2.QueueBounded ∧
        r.2.m_maxQueueLength = L.m_maxQueueLength ∧
        r.2.numberOfLowerLayers = L.numberOfLowerLayers ∧
        r.2.m_lowerLayerDelay = L.m_lowerLayerDelay ∧
        (r.1 = false → r.2.m_packetQueue = L.m_packetQueue ∧
          r.2.m_lowerLayerRecvEventPending = L.m_lowerLayerRecvEventPending ∧
          r.2.sentLower = L.sentLower) ∧
        (r.1 = true → r.2.sentLower ++ r.2.m_packetQueue
          = L.sentLower ++ L.m_packetQueue ++ [(packet, lowerLayerIdx)]) ∧
        (∀ e ∈ r.2.m_packetQueue, e ∈ L.m_packetQueue ∨ e = (packet, lowerLayerIdx)) := by
  have hb' : L.m_packetQueue.length ≤ L.m_maxQueueLength := hb
  unfold CommunicationLayer.sendToQueue
  simp only [queueIsFull_ok L hb]
  by_cases hfull : L.m_packetQueue.length = L.m_maxQueueLength
  · rw [decide_eq_true hfull]
    simp only [Bool.not_true, Bool.false_eq_true, if_false]
    have hq : L.queueIsFull = .ok true := by
      rw [queueIsFull_ok L hb, decide_eq_true hfull]
    simp only [hq, if_true]
    refine ⟨⟨fun _ => hfull, fun _ => trivial⟩, hb, rfl, rfl, rfl, fun _ => ⟨rfl, rfl, rfl⟩, fun h => (by cases h),
      fun e he => Or.inl he⟩
  · rw [decide_eq_false hfull]
    simp only [Bool.not_false, if_true]
    have hlt : L.m_packetQueue.length < L.m_maxQueueLength := lt_of_le_of_ne hb' hfull
    have hb1 : CommunicationLayer.QueueBounded
        { L with m_packetQueue := L.m_packetQueue ++ [(packet, lowerLayerIdx)] } := by
      unfold CommunicationLayer.QueueBounded
      simp only [List.length_append, List.length_singleton]
      exact hlt
    have hs := sendFromQueue_spec
      { L with m_packetQueue := L.m_packetQueue ++ [(packet, lowerLayerIdx)] } hb1
    revert hs
    cases CommunicationLayer.sendFromQueue
      { L with m_packetQueue := L.m_packetQueue ++ [(packet, lowerLayerIdx)] } with
    | error f =>
      intro hs
      simp only [Except.map]
      refine ⟨hs.1, fun hv => hs.2 ⟨hv.1.1, ?_⟩⟩
      intro e he
      rcases List.mem_append.1 he with h | h
      · exact hv.1.2 e h
      · simp only [List.mem_singleton] at h
        rw [h]; exact hv.2
    | ok L1 =>
      intro hs
      obtain ⟨t1, t2, t3, t4, t5, -, t7, -⟩ := hs
      simp only [List.length_append, List.length_singleton] at t2
      have hb2 : L1.QueueBounded := by
        unfold CommunicationLayer.QueueBounded
        rw [t4]
        exact le_trans t2 hlt
      simp only [Except.map, queueIsFull_ok L1 hb2]
      have hmem : ∀ e ∈ L1.m_packetQueue, e ∈ L.m_packetQueue ∨ e = (packet, lowerLayerIdx) := by
        intro e he
        rcases List.mem_append.1 (t3 e he) with h | h
        · exact Or.inl h
        · exact Or.inr (by simpa using h)
      have hfifo : L1.sentLower ++ L1.m_packetQueue
          = L.sentLower ++ L.m_packetQueue ++ [(packet, lowerLayerIdx)] := by
        rw [t1, List.append_assoc]
      have hiff : (true = false ↔ L.m_packetQueue.length = L.m_maxQueueLength) :=
        ⟨fun h => (by cases h), fun h => absurd h hfull⟩
      by_cases hfull1 : L1.m_packetQueue.length = L1.m_maxQueueLength
      · rw [decide_eq_true hfull1]
        simp only [if_true]
        exact ⟨hiff, hb2, t4, t5, t7, fun h => (by cases h), fun _ => hfifo, hmem⟩
      · rw [decide_eq_false hfull1]
        simp only [Bool.false_eq_true, if_false]
        exact ⟨hiff, hb2, t4, t5, t7, fun h => (by cases h), fun _ => hfifo, hmem⟩

theorem queueOp_valid_congr (L L1 : CommunicationLayer)
    (h : L1.numberOfLowerLayers = L.numberOfLowerLayers) (op : QueueOp) :
    op.Valid L1 ↔ op.Valid L := by
  cases op <;> simp [QueueOp.Valid, h]

/-- One operation on a bounded queue. -/
theorem queueOp_spec (L : CommunicationLayer) (op : QueueOp) (hb : L.QueueBounded) :
    match L.queueOp op with
    | .error f => (f = .noSuchLayer ∨ f = .scheduleNegativeDelay) ∧
        ¬ (L.QueueValid ∧ op.Valid L)
    | .ok r => r.2.QueueBounded ∧
        r.2.m_maxQueueLength = L.m_maxQueueLength ∧
        r.2.numberOfLowerLayers = L.numberOfLowerLayers ∧
        r.2.m_lowerLayerDelay = L.m_lowerLayerDelay ∧
        r.2.sentLower ++ r.2.m_packetQueue = L.sentLower ++ L.m_packetQueue ++ r.1 ∧
        (∀ e ∈ r.2.m_packetQueue, e ∈ L.m_packetQueue ∨ e ∈ r.1) ∧
        (∀ e ∈ r.1, op = .sendToQueue e.1 e.2) := by
  have hb' : L.m_packetQueue.length ≤ L.m_maxQueueLength := hb
  -- what `sendFromQueue` gives for a layer with the queue, the bound and the setup of `L`
  have hsend : ∀ L0 : CommunicationLayer, L0.m_packetQueue = L.m_packetQueue →
      L0.m_maxQueueLength = L.m_maxQueueLength → L0.sentLower = L.sentLower →
      L0.numberOfLowerLayers = L.numberOfLowerLayers →
      L0.m_lowerLayerDelay = L.m_lowerLayerDelay →
      match (L0.sendFromQueue).map (fun L1 => (([] : List (PacketPtr × ℕ)), L1)) with
      | .error f => (f = .noSuchLayer ∨ f = .scheduleNegativeDelay) ∧
          ¬ (L.QueueValid ∧ True)
      | .ok r => r.2.QueueBounded ∧
          r.2.m_maxQueueLength = L.m_maxQueueLength ∧
          r.2.numberOfLowerLayers = L.numberOfLowerLayers ∧
          r.2.m_lowerLayerDelay = L.m_lowerLayerDelay ∧
          r.2.sentLower ++ r.2.m_packetQueue = L.sentLower ++ L.m_packetQueue ++ r.1 ∧
          (∀ e ∈ r.2.m_packetQueue, e ∈ L.m_packetQueue ∨ e ∈ r.1) ∧
          (∀ e ∈ r.1, op = .sendToQueue e.1 e.2) := by
    intro L0 h1 h2 h3 h4 h5
    have hb0 : L0.QueueBounded := by
      unfold CommunicationLayer.QueueBounded
      rw [h1, h2]; exact hb'
    have hs := sendFromQueue_spec L0 hb0
    revert hs
    cases L0.sendFromQueue with
    | error f =>
      intro hs
      refine ⟨hs.1, fun hv => hs.2 ?_⟩
      have hv1 : 0 ≤ L.m_lowerLayerDelay ∧
          ∀ e ∈ L.m_packetQueue, e.2 < L.numberOfLowerLayers := hv.1
      show 0 ≤ L0.m_lowerLayerDelay ∧ ∀ e ∈ L0.m_packetQueue, e.2 < L0.numberOfLowerLayers
      rw [h1, h4, h5]
      exact hv1
    | ok L1 =>
      intro hs
      obtain ⟨t1, t2, t3, t4, t5, -, t7, -⟩ := hs
      refine ⟨?_, t4.trans h2, t5.trans h4, t7.trans h5, ?_, ?_, fun e he => (by cases he)⟩
      · show L1.m_packetQueue.length ≤ L1.m_maxQueueLength
        rw [t4, h2]
        exact le_trans (by rw [← h1]; exact t2) hb'
      · show L1.sentLower ++ L1.m_packetQueue = L.sentLower ++ L.m_packetQueue ++ []
        rw [t1, h1, h3, List.append_nil]
      · intro e he
        exact Or.inl (by rw [← h1]; exact t3 e he)
  cases op with
  | sendToQueue packet lowerLayerIdx =>
    have hs := sendToQueue_spec L packet lowerLayerIdx hb
    simp only [CommunicationLayer.queueOp]
    revert hs
    cases L.sendToQueue packet lowerLayerIdx with
    | error f => exact fun hs => hs
    | ok r =>
      intro hs
      obtain ⟨t1, t2, t3, t4, t5, t6, t7, t8⟩ := hs
      simp only [Except.map]
      refine ⟨t2, t3, t4, t5, ?_, ?_, ?_⟩
      · cases hr : r.1 with
        | true => simp only [if_true]; exact t7 hr
        | false =>
          simp only [Bool.false_eq_true, if_false, List.append_nil]
          rw [(t6 hr).1, (t6 hr).2.2]
      · intro e he
        rcases t8 e he with h | h
        · exact Or.inl h
        · cases hr : r.1 with
          | true => right; simp only [if_true, List.mem_singleton]; exact h
          | false =>
            left
            rw [(t6 hr).1] at he
            exact he
      · intro e he
        cases hr : r.1 with
        | true =>
          rw [hr] at he
          simp only [if_true, List.mem_singleton] at he
          rw [he]
        | false =>
          rw [hr] at he
          simp only [Bool.false_eq_true, if_false, List.not_mem_nil] at he
  | blockQueue =>
    exact ⟨hb, rfl, rfl, rfl, (List.append_nil _).symm, fun e he => Or.inl he,
      fun e he => (by cases he)⟩
  | unblockQueue =>
    exact hsend { L with m_queueIsBlocked := false } rfl rfl rfl rfl rfl
  | layerRecvDone =>
    simp only [CommunicationLayer.queueOp, CommunicationLayer.setLowerLayerRecvEventPending]
    by_cases hp : L.m_lowerLayerRecvEventPending = true
    · simp only [hp, Bool.not_false, Bool.and_self, if_true]
      exact hsend _ rfl rfl rfl rfl rfl
    · have hp' : L.m_lowerLayerRecvEventPending = false := by simpa using hp
      rw [hp']
      exact ⟨hb, rfl, rfl, rfl, (List.append_nil _).symm, fun e he => Or.inl he,
        fun e he => (by cases he)⟩

/-- A sequence of operations on a bounded queue: a fault only from an assertion
of `sendToLayer` that the operations violate; otherwise the queue is bounded,
and what has been sent down followed by the queue has grown by the accepted
queue elements, in order. -/
theorem queueOps_spec : ∀ (ops : List QueueOp) (L : CommunicationLayer), L.QueueBounded →
    match L.queueOps ops with
    | .error f => (f = .noSuchLayer ∨ f = .scheduleNegativeDelay) ∧
        ¬ (L.QueueValid ∧ ∀ op ∈ ops, op.Valid L)
    | .ok r => r.2.QueueBounded ∧
        r.2.m_maxQueueLength = L.m_maxQueueLength ∧
        r.2.numberOfLowerLayers = L.numberOfLowerLayers ∧
        r.2.m_lowerLayerDelay = L.m_lowerLayerDelay ∧
        r.2.sentLower ++ r.2.m_packetQueue = L.sentLower ++ L.m_packetQueue ++ r.1 ∧
        (∀ e ∈ r.2.m_packetQueue, e ∈ L.m_packetQueue ∨ e ∈ r.1) ∧
        (∀ e ∈ r.1, QueueOp.sendToQueue e.1 e.2 ∈ ops) := by
  intro ops
  induction ops with
  | nil =>
    intro L hb
    exact ⟨hb, rfl, rfl, rfl, (List.append_nil _).symm, fun e he => Or.inl he,
      fun e he => (by cases he)⟩
  | cons op ops ih =>
    intro L hb
    have h1 := queueOp_spec L op hb
    simp only [CommunicationLayer.queueOps]
    revert h1
    cases L.queueOp op with
    | error f =>
      intro h1
      exact ⟨h1.1, fun hv => h1.2 ⟨hv.1, hv.2 op (List.mem_cons_self _ _)⟩⟩
    | ok r1 =>
      intro h1
      obtain ⟨a1, a2, a3, a4, a5, a6, a7⟩ := h1
      have h2 := ih r1.2 a1
      dsimp only
      revert h2
      cases CommunicationLayer.queueOps ops r1.2 with
      | error f =>
        intro h2
        refine ⟨h2.1, fun hv => h2.2 ⟨⟨?_, ?_⟩, ?_⟩⟩
        · rw [a4]; exact hv.1.1
        · intro e he
          rw [a3]
          rcases a6 e he with h | h
          · exact hv.1.2 e h
          · have hop := hv.2 op (List.mem_cons_self _ _)
            rw [a7 e h] at hop
            exact hop
        · intro op' hop'
          exact (queueOp_valid_congr L r1.2 a3 op').2 (hv.2 op' (List.mem_cons_of_mem _ hop'))
      | ok r2 =>
        intro h2
        obtain ⟨b1, b2, b3, b4, b5, b6, b7⟩ := h2
        refine ⟨b1, b2.trans a2, b3.trans a3, b4.trans a4, ?_, ?_, ?_⟩
        · rw [b5, a5]
          simp only [List.append_assoc]
        · intro e he
          rcases b6 e he with h | h
          · rcases a6 e h with h' | h'
            · exact Or.inl h'
            · exact Or.inr (List.mem_append_left _ h')
          · exact Or.inr (List.mem_append_right _ h)
        · intro e he
          rcases List.mem_append.1 he with h | h
          · rw [← a7 e h]; exact List.mem_cons_self _ _
          · exact List.mem_cons_of_mem _ (b7 e h)

theorem exampleLayer_bounded : exampleLayer.QueueBounded := by
  show (0 : ℕ) ≤ 2
  decide

theorem exampleLayer_valid : exampleLayer.QueueValid :=
  ⟨le_refl _, fun e he => (by cases he)⟩

theorem exampleQueueOps_valid : ∀ op ∈ exampleQueueOps, op.Valid exampleLayer := by
  intro op hop
  simp only [exampleQueueOps, List.mem_cons, List.mem_singleton, List.not_mem_nil,
    or_false] at hop
  rcases hop with rfl | rfl | rfl | rfl | rfl | rfl <;>
    first
      | exact Nat.zero_lt_one
      | trivial

theorem exampleQueueOps_result :
    (exampleLayer.queueOps exampleQueueOps).map
        (fun r => (r.1, r.2.sentLower, r.2.m_packetQueue))
      = .ok ([(1, 0), (2, 0), (3, 0), (5, 0)], [(1, 0), (2, 0)], [(3, 0), (5, 0)]) := by
  simp [CommunicationLayer.queueOps, exampleQueueOps, CommunicationLayer.queueOp,
    CommunicationLayer.sendToQueue, CommunicationLayer.queueIsFull,
    CommunicationLayer.sendFromQueue, CommunicationLayer.sendFromQueueLoop,
    CommunicationLayer.sendToLayer, CommunicationLayer.unblockUpperQueues,
    CommunicationLayer.unblockUpperLoop, CommunicationLayer.blockUpperQueues,
    CommunicationLayer.setLowerLayerRecvEventPending, CommunicationLayer.numberOfLayers,
    CommunicationLayer.getLayerDelay, exampleLayer, CommunicationLayer.create, Except.map,
    m_DEFAULT_MAX_QUEUE_LENGTH]

/-- C22: from a layer whose queue is not longer than `m_maxQueueLength`, as it
is after construction, every sequence of `sendToQueue`, `blockQueue`,
`unblockQueue` and completions of layer-receive events leaves the queue not
longer than the maximum, which stays what it was, and the assertion of
`queueIsFull` never fails; the sequence runs to its end whenever the assertions
of `sendToLayer` hold (lower layers exist, the delay is not negative). -/
theorem queue_length_bounded (L : CommunicationLayer) (ops : List QueueOp)
    (hb : L.QueueBounded) :
    L.queueOps ops ≠ .error .queueTooLong ∧
      (∀ r, L.queueOps ops = .ok r →
        r.2.m_packetQueue.length ≤ r.2.m_maxQueueLength ∧
        r.2.m_maxQueueLength = L.m_maxQueueLength) ∧
      (L.QueueValid → (∀ op ∈ ops, op.Valid L) → ∃ r, L.queueOps ops = .ok r) := by
  have h := queueOps_spec ops L hb
  revert h
  cases L.queueOps ops with
  | error f =>
    intro h
    refine ⟨?_, fun r hr => (by cases hr), fun hv hops => absurd ⟨hv, hops⟩ h.2⟩
    intro hf
    rcases h.1 with h1 | h1 <;> rw [h1] at hf <;> cases hf
  | ok r =>
    intro h
    refine ⟨fun hf => (by cases hf), ?_, fun _ _ => ⟨r, rfl⟩⟩
    intro r' hr'
    cases hr'
    exact ⟨h.1, h.2.1⟩

/-- Witness for C22: the layer with room for two packets receives five. -/
theorem queue_length_bounded_witness :
    exampleLayer.QueueBounded ∧
      (exampleLayer.queueOps exampleQueueOps).map
          (fun r => (r.1, r.2.sentLower, r.2.m_packetQueue))
        = .ok ([(1, 0), (2, 0), (3, 0), (5, 0)], [(1, 0), (2, 0)], [(3, 0), (5, 0)]) ∧
      exampleLayer.queueOps exampleQueueOps ≠ .error .queueTooLong ∧
      ∃ r, exampleLayer.queueOps exampleQueueOps = .ok r :=
  ⟨exampleLayer_bounded, exampleQueueOps_result,
    (queue_length_bounded exampleLayer exampleQueueOps exampleLayer_bounded).1,
    (queue_length_bounded exampleLayer exampleQueueOps exampleLayer_bounded).2.2
      exampleLayer_valid exampleQueueOps_valid⟩

/-- C23: on a layer with a bounded queue whose `sendToLayer` assertions hold,
`sendToQueue(packet, idx)` returns false exactly if the queue holds
`m_maxQueueLength` packets at the call; then the queue, the pending flag and
what has been sent down are unchanged (the packet is dropped).  Otherwise it
returns true and the packet stands behind everything enqueued before: what has
been sent down followed by the queue is what it was, followed by the packet.
Along every further sequence of operations this list only grows at its end, by
the accepted packets in order, so packets reach the lower layer in the order in
which they were enqueued. -/
theorem sendToQueue_fifo (L : CommunicationLayer) (packet : PacketPtr) (lowerLayerIdx : ℕ)
    (hb : L.QueueBounded) (hv : L.QueueValid) (hidx : lowerLayerIdx < L.numberOfLowerLayers) :
    ∃ b L', L.sendToQueue packet lowerLayerIdx = .ok (b, L') ∧
      (b = false ↔ L.m_packetQueue.length = L.m_maxQueueLength) ∧
      (b = false → L'.m_packetQueue = L.m_packetQueue ∧
        L'.m_lowerLayerRecvEventPending = L.m_lowerLayerRecvEventPending ∧
        L'.sentLower = L.sentLower) ∧
      (b = true → L'.sentLower ++ L'.m_packetQueue
        = L.sentLower ++ L.m_packetQueue ++ [(packet, lowerLayerIdx)]) ∧
      ∀ ops : List QueueOp, (∀ op ∈ ops, op.Valid L) →
        ∃ accepted L'', L'.queueOps ops = .ok (accepted, L'') ∧
          L''.sentLower ++ L''.m_packetQueue
            = L'.sentLower ++ L'.m_packetQueue ++ accepted := by
  have h := sendToQueue_spec L packet lowerLayerIdx hb
  revert h
  cases L.sendToQueue packet lowerLayerIdx with
  | error f => exact fun h => absurd ⟨hv, hidx⟩ h.2
  | ok r =>
    intro h
    obtain ⟨t1, t2, -, t4, t5, t6, t7, t8⟩ := h
    refine ⟨r.1, r.2, rfl, t1, t6, t7, ?_⟩
    intro ops hops
    have hv' : r.2.QueueValid := by
      refine ⟨by rw [t5]; exact hv.1, ?_⟩
      intro e he
      rw [t4]
      rcases t8 e he with h | h
      · exact hv.2 e h
      · rw [h]; exact hidx
    have hops' : ∀ op ∈ ops, op.Valid r.2 :=
      fun op hop => (queueOp_valid_congr L r.2 t4 op).2 (hops op hop)
    have hs := queueOps_spec ops r.2 t2
    revert hs
    cases CommunicationLayer.queueOps ops r.2 with
    | error f => exact fun hs => absurd ⟨hv', hops'⟩ hs.2
    | ok r' => exact fun hs => ⟨r'.1, r'.2, rfl, hs.2.2.2.2.1⟩

theorem exampleFullLayer_bounded : exampleFullLayer.QueueBounded := by
  show (2 : ℕ) ≤ 2
  decide

theorem exampleFullLayer_valid : exampleFullLayer.QueueValid := by
  refine ⟨le_refl _, ?_⟩
  intro e he
  have hq : exampleFullLayer.m_packetQueue = [(1, 0), (2, 0)] := rfl
  rw [hq] at he
  simp only [List.mem_cons, List.mem_singleton, List.not_mem_nil, or_false] at he
  rcases he with rfl | rfl <;> exact Nat.zero_lt_one

/-- Witness for C23: packet 7 is accepted by the empty layer and dropped by the
full one. -/
theorem sendToQueue_fifo_witness :
    exampleLayer.QueueBounded ∧ exampleLayer.QueueValid ∧
      exampleFullLayer.QueueBounded ∧ exampleFullLayer.QueueValid ∧
      (∃ b L', exampleLayer.sendToQueue 7 0 = .ok (b, L') ∧
        (b = false ↔ exampleLayer.m_packetQueue.length = exampleLayer.m_maxQueueLength) ∧
        (b = true → L'.sentLower ++ L'.m_packetQueue
          = exampleLayer.sentLower ++ exampleLayer.m_packetQueue ++ [(7, 0)])) ∧
      (∃ b L', exampleFullLayer.sendToQueue 7 0 = .ok (b, L') ∧
        (b = false ↔
          exampleFullLayer.m_packetQueue.length = exampleFullLayer.m_maxQueueLength) ∧
        (b = false → L'.m_packetQueue = exampleFullLayer.m_packetQueue ∧
          L'.m_lowerLayerRecvEventPending = exampleFullLayer.m_lowerLayerRecvEventPending ∧
          L'.sentLower = exampleFullLayer.sentLower)) ∧
      exampleFullLayer.m_packetQueue.length = exampleFullLayer.m_maxQueueLength ∧
      exampleLayer.m_packetQueue.length ≠ exampleLayer.m_maxQueueLength :=
  ⟨exampleLayer_bounded, exampleLayer_valid, exampleFullLayer_bounded, exampleFullLayer_valid,
    (sendToQueue_fifo exampleLayer 7 0 exampleLayer_bounded exampleLayer_valid
      Nat.zero_lt_one).imp (fun _ h => h.imp (fun _ h' => ⟨h'.1, h'.2.1, h'.2.2.2.1⟩)),
    (sendToQueue_fifo exampleFullLayer 7 0 exampleFullLayer_bounded exampleFullLayer_valid
      Nat.zero_lt_one).imp (fun _ h => h.imp (fun _ h' => ⟨h'.1, h'.2.1, h'.2.2.1⟩)),
    rfl, by decide⟩

end LayerQueue

section TagRequest

/-- A broadcast REQUEST is handed to `handleRequestPacket`. -/
theorem handleRecvdMacPacket_request (uniformInt : ℕ → ℕ → ℕ) (mac : RfidTagMac)
    (w : MacWorld) (packet : PacketPtr) (macData : RfidReaderMacData)
    (hdata : ((w.packets packet).getData .Link).map PacketData.header
      = some (.readerMac macData))
    (htype : macData.m_type = .Request)
    (hbroadcast : macData.m_receiverId = NodeId.broadcastDestination) :
    mac.handleRecvdMacPacket uniformInt w packet
      = mac.handleRequestPacket uniformInt w macData := by
  unfold RfidTagMac.handleRecvdMacPacket
  rw [hdata]
  simp only [htype]
  rw [if_neg (not_not.2 hbroadcast)]

/-- Claim C12: a REQUEST whose header carries n >= 4 slots, handled by a tag MAC
that is not in a contention cycle, has no packet pending (the handler asserts
it) and whose application allows replies.  Whatever the random number generator
draws inside the range it is asked for, the handler returns true and afterwards
current_slot = 0, number_of_slots = n, tx_slot <= n - 4 (so that
tx_slot + 3 <= n - 1), packet_to_transmit is a newly created packet whose link
header is a REPLY from this tag to the sender of the REQUEST, and for n = 4 the
slot chosen is 0. -/
theorem handleRequestPacket_reply (uniformInt : ℕ → ℕ → ℕ)
    (hrange : ∀ lo hi, lo ≤ hi → lo ≤ uniformInt lo hi ∧ uniformInt lo hi ≤ hi)
    (mac : RfidTagMac) (w : MacWorld) (macData : RfidReaderMacData)
    (hn : 4 ≤ macData.m_numberOfSlots)
    (hcycle : mac.inContentionCycle = false)
    (hreply : mac.m_tagApp.getReplyToReads = true)
    (hnone : mac.m_packetToTransmit = none) :
    ∃ mac' w',
      mac.handleRequestPacket uniformInt w macData = .ok (true, mac', w') ∧
      mac'.m_currentSlotNumber = 0 ∧
      mac'.m_numberOfSlots = macData.m_numberOfSlots ∧
      mac'.m_txSlotNumber ≤ macData.m_numberOfSlots - 4 ∧
      mac'.m_txSlotNumber + 3 ≤ macData.m_numberOfSlots - 1 ∧
      mac'.m_packetToTransmit = some w.nextPacketPtr ∧
      w'.nextPacketPtr = w.nextPacketPtr + 1 ∧
      ((w'.packets w.nextPacketPtr).getData .Link).map PacketData.header
        = some (.tagMac
            { m_senderId := mac.nodeId, m_receiverId := macData.m_senderId, m_type := .Reply }) ∧
      mac'.m_tagApp = mac.m_tagApp ∧
      (macData.m_numberOfSlots = 4 → mac'.m_txSlotNumber = 0) := by
  have hdraw := (hrange 0 (macData.m_numberOfSlots - 4) (Nat.zero_le _)).2
  have hmod : uniformInt 0 (macData.m_numberOfSlots - 4) % 2 ^ 32
      ≤ macData.m_numberOfSlots - 4 := le_trans (Nat.mod_le _ _) hdraw
  have hpos : macData.m_numberOfSlots > 0 := by omega
  unfold RfidTagMac.handleRequestPacket
  simp only [hcycle, Bool.not_false, if_true]
  rw [if_neg (not_not.2 hn), if_pos hpos, if_neg (not_not.2 hnone), if_pos hreply]
  refine ⟨_, _, rfl, rfl, rfl, hmod, ?_, rfl, rfl, ?_, rfl, ?_⟩
  · show uniformInt 0 (macData.m_numberOfSlots - 4) % 2 ^ 32 + 3 ≤ macData.m_numberOfSlots - 1
    omega
  · simp [RfidTagMac.createReplyPacket, MacWorld.newPacket, MacWorld.setPacket, setAt,
      Packet.getData, Packet.addData, dataInsert, Packet.create,
      RfidTagMacData.toPacketData, RfidTagMacData.create]
  · intro h4
    show uniformInt 0 (macData.m_numberOfSlots - 4) % 2 ^ 32 = 0
    omega

/-- Witness for C12: the idle tag 12 hears the REQUEST of reader 9 for 10 slots;
the draw is the middle of the range. -/
theorem handleRequestPacket_reply_witness :
    ∃ mac' w',
      exampleTagMac.handleRequestPacket exampleUniformInt exampleTagWorld
        { m_senderId := 9, m_receiverId := NodeId.broadcastDestination,
          m_numberOfSlots := 10, m_type := .Request } = .ok (true, mac', w') ∧
      mac'.m_currentSlotNumber = 0 ∧ mac'.m_numberOfSlots = 10 ∧
      mac'.m_txSlotNumber = 3 ∧ mac'.m_packetToTransmit = some 4 ∧
      ((w'.packets 4).getData .Link).map PacketData.header
        = some (.tagMac { m_senderId := 12, m_receiverId := 9, m_type := .Reply }) := by
  obtain ⟨mac', w', h, h1, h2, _, _, h5, _, h7, _, _⟩ :=
    handleRequestPacket_reply exampleUniformInt
      (fun lo hi h => by unfold exampleUniformInt; omega)
      exampleTagMac exampleTagWorld
      { m_senderId := 9, m_receiverId := NodeId.broadcastDestination,
        m_numberOfSlots := 10, m_type := .Request }
      (by decide) rfl rfl rfl
  refine ⟨mac', w', h, h1, h2, ?_, h5, h7⟩
  have h' := h
  unfold RfidTagMac.handleRequestPacket at h'
  simp [exampleTagMac, RfidTagMac.create, SlottedMac.inContentionCycle, RfidTagApp.getReplyToReads,
    RfidTagApp.create, exampleUniformInt] at h'
  rw [← h'.1]

end TagRequest

section TagInhibit

/-- The tag MAC's `sendToLinkLayer` returns, leaves the application alone and
creates no packet. -/
theorem tag_sendToLinkLayer_spec (mac : RfidTagMac) (w : MacWorld) (direction : Directions)
    (packet : PacketPtr) :
    ∃ b mac1 w1, mac.sendToLinkLayer w direction packet = .ok (b, mac1, w1) ∧
      mac1.m_tagApp = mac.m_tagApp ∧ w1.nextPacketPtr = w.nextPacketPtr := by
  unfold RfidTagMac.sendToLinkLayer MacProtocol.sendToLinkLayer
  by_cases hbusy : direction = .Lower ∧ w.channelIsBusy = true
  · rw [if_pos hbusy]
    unfold RfidTagMac.handleChannelBusy
    by_cases hty : RfidTagMac.isPacketType w packet .Reply = true
    · simp only [hty, if_true]
      exact ⟨_, _, _, rfl, rfl, rfl⟩
    · simp only [hty, if_false]
      exact ⟨_, _, _, rfl, rfl, rfl⟩
  · rw [if_neg hbusy]
    unfold RfidTagMac.handlePacketSent
    by_cases hty : RfidTagMac.isPacketType w packet .Generic = true
    · simp only [hty, if_true]
      exact ⟨_, _, _, rfl, rfl, rfl⟩
    · simp only [hty, if_false]
      exact ⟨_, _, _, rfl, rfl, rfl⟩

/-- An ACK for this tag (or for everyone) clears `m_replyToReads` and does
nothing else. -/
theorem handleRecvdMacPacket_ack (uniformInt : ℕ → ℕ → ℕ) (mac : RfidTagMac) (w : MacWorld)
    (packet : PacketPtr) (macData : RfidReaderMacData)
    (hdata : ((w.packets packet).getData .Link).map PacketData.header
      = some (.readerMac macData))
    (htype : macData.m_type = .Ack) (hme : mac.packetIsForMe macData = true) :
    mac.handleRecvdMacPacket uniformInt w packet
      = .ok (true, { mac with m_tagApp := mac.m_tagApp.setReplyToReads false }, w) := by
  unfold RfidTagMac.handleRecvdMacPacket
  rw [hdata]
  simp only [htype, hme, if_true]

/-- While `m_replyToReads` is false, a REQUEST creates no packet. -/
theorem handleRequestPacket_inhibited (uniformInt : ℕ → ℕ → ℕ) (mac : RfidTagMac)
    (w : MacWorld) (macData : RfidReaderMacData)
    (hflag : mac.m_tagApp.m_replyToReads = false) :
    ∀ r, mac.handleRequestPacket uniformInt w macData = .ok r →
      r.2.1.m_tagApp = mac.m_tagApp ∧ r.2.2 = w ∧ r.2.1.m_packetToTransmit = none
        ∨ r.2.1 = mac ∧ r.2.2 = w := by
  intro r hr
  unfold RfidTagMac.handleRequestPacket at hr
  by_cases hcycle : mac.inContentionCycle = true
  · simp only [hcycle, Bool.not_true, Bool.false_eq_true, if_false] at hr
    cases hr
    exact Or.inr ⟨rfl, rfl⟩
  · have hcycle' : mac.inContentionCycle = false := by simpa using hcycle
    simp only [hcycle', Bool.not_false, if_true] at hr
    by_cases hn : macData.m_numberOfSlots ≥ 4
    · have hpos : macData.m_numberOfSlots > 0 := by omega
      rw [if_neg (not_not.2 hn), if_pos hpos] at hr
      by_cases hp : mac.m_packetToTransmit = none
      · rw [if_neg (not_not.2 hp)] at hr
        have hget : (mac.m_tagApp.getReplyToReads = true) = False := by
          simp [RfidTagApp.getReplyToReads, hflag]
        simp only [hget, if_false] at hr
        cases hr
        exact Or.inl ⟨rfl, rfl, hp⟩
      · rw [if_pos hp] at hr
        cases hr
    · rw [if_pos hn] at hr
      cases hr

/-- The method `startSendTimer` creates no packet. -/
theorem startSendTimer_nextPacketPtr (mac : SlottedMac) (w : MacWorld) (direction : Directions)
    (packet : PacketPtr) (delay : SimTime) :
    ∀ r, mac.startSendTimer w direction packet delay = .ok r →
      r.2.2.nextPacketPtr = w.nextPacketPtr := by
  intro r hr
  unfold SlottedMac.startSendTimer at hr
  dsimp only at hr
  split at hr
  · cases hr
  · cases ht : Timer.start { m_eventOnFire := (w.newSendEvent direction packet).1 }
        (w.newSendEvent direction packet).2.sim delay with
    | error f =>
      simp only [ht] at hr
      cases hr
    | ok p =>
      simp only [ht] at hr
      cases hr
      rfl

/-- The slot event of the tag MAC leaves the application alone and creates no
packet. -/
theorem beginSlotEvent_app (mac : RfidTagMac) (w : MacWorld) :
    ∀ r, mac.beginSlotEvent w = .ok r →
      r.1.m_tagApp = mac.m_tagApp ∧ r.2.nextPacketPtr = w.nextPacketPtr := by
  intro r hr
  unfold RfidTagMac.beginSlotEvent at hr
  dsimp only at hr
  by_cases hc : mac.m_currentSlotNumber = mac.m_txSlotNumber
  · rw [if_pos hc] at hr
    cases hp : mac.m_packetToTransmit with
    | none =>
      rw [hp] at hr
      dsimp only at hr
      split at hr
      · cases hr
      · cases hr
        exact ⟨rfl, rfl⟩
    | some p =>
      rw [hp] at hr
      dsimp only at hr
      cases hs : mac.startSendTimer w .Lower p
          (if RfidTagMac.isPacketType w p .Reply = true then m_TAG_REPLY_IFS
            else m_TAG_GENERIC_IFS) with
      | error f =>
        rw [hs] at hr
        cases hr
      | ok q =>
        have hq := startSendTimer_nextPacketPtr _ _ _ _ _ q hs
        rw [hs] at hr
        dsimp only at hr
        split at hr
        · cases hr
        · cases hr
          exact ⟨rfl, hq⟩
  · rw [if_neg hc] at hr
    by_cases hlast : mac.m_numberOfSlots = 0 ∨ mac.m_currentSlotNumber ≥ mac.m_numberOfSlots - 1
    · rw [if_pos hlast] at hr
      by_cases hp : mac.m_packetToTransmit ≠ none
      · rw [if_pos hp] at hr
        cases hr
      · rw [if_neg hp] at hr
        dsimp only at hr
        split at hr
        · cases hr
        · cases hr
          exact ⟨rfl, rfl⟩
    · rw [if_neg hlast] at hr
      dsimp only at hr
      split at hr
      · cases hr
      · cases hr
        exact ⟨rfl, rfl⟩

/-- While `m_replyToReads` is false, an operation that is not a RESET processed by
the running application leaves the flag false, creates no packet (if it is a
step of the tag) and hands nothing to the application's queue. -/
theorem tagOp_inhibited (uniformInt : ℕ → ℕ → ℕ) (mac : RfidTagMac) (w : MacWorld)
    (op : TagOp) (hflag : mac.m_tagApp.m_replyToReads = false) (hno : ¬ op.IsReset mac w) :
    ∀ r, mac.tagOp uniformInt w op = .ok r →
      r.1.m_tagApp.m_replyToReads = false ∧
      (op.isTagStep = true → r.2.nextPacketPtr = w.nextPacketPtr) ∧
      r.1.m_tagApp.sentToQueue = mac.m_tagApp.sentToQueue := by
  intro r hr
  cases op with
  | macPacket packet =>
    simp only [RfidTagMac.tagOp] at hr
    cases hh : mac.handleRecvdMacPacket uniformInt w packet with
    | error f => rw [hh] at hr; cases hr
    | ok r0 =>
      rw [hh] at hr
      have hr' : r0.2 = r := Except.ok.inj hr
      subst hr'
      unfold RfidTagMac.handleRecvdMacPacket at hh
      cases hd : ((w.packets packet).getData .Link).map PacketData.header with
      | none =>
        rw [hd] at hh
        cases hh
        exact ⟨hflag, fun _ => rfl, rfl⟩
      | some hdr =>
        rw [hd] at hh
        cases hdr with
        | plain => cases hh; exact ⟨hflag, fun _ => rfl, rfl⟩
        | tagMac d => cases hh; exact ⟨hflag, fun _ => rfl, rfl⟩
        | readerApp d => cases hh; exact ⟨hflag, fun _ => rfl, rfl⟩
        | tagApp d => cases hh; exact ⟨hflag, fun _ => rfl, rfl⟩
        | readerMac macData =>
          simp only at hh
          cases hty : macData.m_type with
          | Request =>
            simp only [hty] at hh
            by_cases hb : macData.m_receiverId = NodeId.broadcastDestination
            · rw [if_neg (not_not.2 hb)] at hh
              rcases handleRequestPacket_inhibited uniformInt mac w macData hflag r0 hh with
                ⟨h1, h2, _⟩ | ⟨h1, h2⟩
              · rw [h1, h2]; exact ⟨hflag, fun _ => rfl, rfl⟩
              · rw [h1, h2]; exact ⟨hflag, fun _ => rfl, rfl⟩
            · rw [if_pos hb] at hh
              cases hh
          | Select =>
            simp only [hty] at hh
            by_cases hm : macData.m_receiverId = mac.nodeId
            · rw [if_pos hm] at hh
              obtain ⟨b, mac1, w1, hs, h1, h2⟩ := tag_sendToLinkLayer_spec mac w .Upper packet
              rw [hs] at hh
              cases hh
              exact ⟨by rw [h1]; exact hflag, fun _ => h2, by rw [h1]⟩
            · rw [if_neg hm] at hh
              cases hh
              exact ⟨hflag, fun _ => rfl, rfl⟩
          | Generic =>
            simp only [hty] at hh
            by_cases hm : mac.packetIsForMe macData = true
            · rw [if_pos hm] at hh
              obtain ⟨b, mac1, w1, hs, h1, h2⟩ := tag_sendToLinkLayer_spec mac w .Upper packet
              rw [hs] at hh
              cases hh
              exact ⟨by rw [h1]; exact hflag, fun _ => h2, by rw [h1]⟩
            · rw [if_neg hm] at hh
              cases hh
              exact ⟨hflag, fun _ => rfl, rfl⟩
          | Ack =>
            simp only [hty] at hh
            by_cases hm : mac.packetIsForMe macData = true
            · rw [if_pos hm] at hh
              cases hh
              exact ⟨rfl, fun _ => rfl, rfl⟩
            · rw [if_neg hm] at hh
              cases hh
              exact ⟨hflag, fun _ => rfl, rfl⟩
  | upperLayerPacket packet =>
    simp only [RfidTagMac.tagOp] at hr
    cases hh : mac.handleRecvdUpperLayerPacket w packet with
    | error f => rw [hh] at hr; cases hr
    | ok r0 =>
      rw [hh] at hr
      have hr' : r0.2 = r := Except.ok.inj hr
      subst hr'
      unfold RfidTagMac.handleRecvdUpperLayerPacket at hh
      split at hh
      · split at hh
        · cases hh
        · dsimp only at hh
          split at hh
          · cases hh
          · cases hh
            exact ⟨hflag, fun _ => rfl, rfl⟩
      · cases hh
        exact ⟨hflag, fun _ => rfl, rfl⟩
  | beginSlot =>
    simp only [RfidTagMac.tagOp] at hr
    obtain ⟨h1, h2⟩ := beginSlotEvent_app mac w r hr
    exact ⟨by rw [h1]; exact hflag, fun _ => h2, by rw [h1]⟩
  | sendEvent direction packet =>
    simp only [RfidTagMac.tagOp] at hr
    obtain ⟨b, mac1, w1, hs, h1, h2⟩ := tag_sendToLinkLayer_spec mac w direction packet
    rw [hs] at hr
    cases hr
    exact ⟨by rw [h1]; exact hflag, fun _ => h2, by rw [h1]⟩
  | appPacket packet =>
    simp only [RfidTagMac.tagOp] at hr
    cases hr
    unfold RfidTagApp.handleRecvdPacket
    by_cases hrun : mac.m_tagApp.m_isRunning = true
    · simp only [hrun, Bool.not_true, Bool.false_eq_true, if_false]
      cases hd : ((w.packets packet).getData .Application).map PacketData.header with
      | none => exact ⟨hflag, fun _ => rfl, rfl⟩
      | some hdr =>
        cases hdr with
        | plain => exact ⟨hflag, fun _ => rfl, rfl⟩
        | readerMac d => exact ⟨hflag, fun _ => rfl, rfl⟩
        | tagMac d => exact ⟨hflag, fun _ => rfl, rfl⟩
        | tagApp d => exact ⟨hflag, fun _ => rfl, rfl⟩
        | readerApp readerData =>
          dsimp only
          cases hty : readerData.m_type with
          | NoType => exact ⟨hflag, fun _ => rfl, rfl⟩
          | Read =>
            dsimp only
            have hne : ¬ mac.m_tagApp.m_replyToReads = true := by
              rw [hflag]
              exact Bool.false_ne_true
            rw [if_neg hne]
            exact ⟨hflag, fun _ => rfl, rfl⟩
          | Reset => exact absurd ⟨hrun, readerData, hd, hty⟩ hno
    · have hrun' : mac.m_tagApp.m_isRunning = false := by simpa using hrun
      have hc : (!mac.m_tagApp.m_isRunning) = true := by
        rw [hrun']
        rfl
      rw [if_pos hc]
      exact ⟨hflag, fun _ => rfl, rfl⟩
  | setRunning isRunning =>
    simp only [RfidTagMac.tagOp] at hr
    cases hr
    exact ⟨hflag, fun _ => rfl, rfl⟩
  | environment w1 =>
    simp only [RfidTagMac.tagOp] at hr
    cases hr
    exact ⟨hflag, (fun h => Bool.noConfusion h), rfl⟩

/-- From a state in which `m_replyToReads` is false, along operations none of
which is a RESET processed by the running application, the tag stays inhibited. -/
theorem inhibited_of_noReset (uniformInt : ℕ → ℕ → ℕ) :
    ∀ (ops : List TagOp) (mac : RfidTagMac) (w : MacWorld),
      mac.m_tagApp.m_replyToReads = false → RfidTagMac.NoReset uniformInt ops mac w →
      RfidTagMac.Inhibited uniformInt ops mac w := by
  intro ops
  induction ops with
  | nil =>
    intro mac w hflag _
    simp only [RfidTagMac.Inhibited]
    exact hflag
  | cons op ops ih =>
    intro mac w hflag hno
    simp only [RfidTagMac.NoReset] at hno
    simp only [RfidTagMac.Inhibited]
    refine ⟨hflag, ?_⟩
    cases h : mac.tagOp uniformInt w op with
    | error f => trivial
    | ok r =>
      have hrest := hno.2
      rw [h] at hrest
      obtain ⟨h1, h2, h3⟩ := tagOp_inhibited uniformInt mac w op hflag hno.1 r h
      exact ⟨h2, h3, ih r.1 r.2 h1 hrest⟩

/-- A RESET processed by the running application sets `m_replyToReads` and
changes nothing else. -/
theorem tagOp_reset (uniformInt : ℕ → ℕ → ℕ) (mac : RfidTagMac) (w : MacWorld)
    (packet : PacketPtr) (h : (TagOp.appPacket packet).IsReset mac w) :
    mac.tagOp uniformInt w (.appPacket packet)
      = .ok ({ mac with m_tagApp := { mac.m_tagApp with m_replyToReads := true } }, w) := by
  obtain ⟨hrun, readerData, hd, hty⟩ := h
  simp only [RfidTagMac.tagOp, RfidTagApp.handleRecvdPacket, hrun, Bool.not_true,
    Bool.false_eq_true, if_false, hd, hty]

/-- While `m_replyToReads` is true, the running application answers a READ with
a new packet for the reader that carries the tag's id, and hands it to its
queue. -/
theorem handleRecvdPacket_read (app : RfidTagApp) (w : MacWorld) (packet : PacketPtr)
    (readerData : RfidReaderAppData) (hrun : app.m_isRunning = true)
    (hflag : app.m_replyToReads = true)
    (hdata : ((w.packets packet).getData .Application).map PacketData.header
      = some (.readerApp readerData))
    (htype : readerData.m_type = .Read) :
    ∃ app1 w1, app.handleRecvdPacket w packet = (true, app1, w1) ∧
      app1.sentToQueue = app.sentToQueue ++ [w.nextPacketPtr] ∧
      app1.m_replyToReads = true ∧
      w1.nextPacketPtr = w.nextPacketPtr + 1 ∧
      (w1.packets w.nextPacketPtr).getDestination = readerData.m_nodeId ∧
      ((w1.packets w.nextPacketPtr).getData .Application).map PacketData.header
        = some (.tagApp { m_nodeId := app.nodeId, m_type := .NoType }) := by
  unfold RfidTagApp.handleRecvdPacket
  simp only [hrun, Bool.not_true, Bool.false_eq_true, if_false, hdata, htype, hflag, if_true]
  refine ⟨_, _, rfl, rfl, hflag, rfl, ?_, ?_⟩
  · simp [RfidTagApp.sendIdPacket, MacWorld.newPacket, MacWorld.setPacket, setAt,
      Packet.getDestination, Packet.setDestination, Packet.addData]
  · simp [RfidTagApp.sendIdPacket, MacWorld.newPacket, MacWorld.setPacket, setAt,
      Packet.getData, Packet.setDestination, Packet.addData, dataInsert, Packet.create,
      RfidTagAppData.toPacketData, RfidTagAppData.create]

/-- Claim C13: a tag MAC processes an ACK addressed to it (or to everyone): the
handler returns true and `m_replyToReads` is false.  Along every sequence of
operations that follows (packets from the physical layer, among them REQUESTs;
packets handed to the application, among them READs; packets from the
application; slot and send events; starting and stopping the application; steps
of the surroundings) in which no RESET is processed by the running application,
for as long as the sequence runs: `m_replyToReads` is false in every state, no
step of the tag creates a packet (so neither a REPLY nor an identity packet),
and the application hands no packet to its queue.  In every state, a RESET
processed by the running application sets `m_replyToReads` to true again. -/
theorem tag_inhibited_until_reset (uniformInt : ℕ → ℕ → ℕ) (mac : RfidTagMac) (w : MacWorld)
    (packet : PacketPtr) (macData : RfidReaderMacData) (ops : List TagOp)
    (hdata : ((w.packets packet).getData .Link).map PacketData.header
      = some (.readerMac macData))
    (htype : macData.m_type = .Ack) (hme : mac.packetIsForMe macData = true)
    (hno : RfidTagMac.NoReset uniformInt (.macPacket packet :: ops) mac w) :
    ∃ mac1, mac.handleRecvdMacPacket uniformInt w packet = .ok (true, mac1, w) ∧
      mac1.m_tagApp.getReplyToReads = false ∧
      RfidTagMac.Inhibited uniformInt ops mac1 w ∧
      ∀ (mac2 : RfidTagMac) (w2 : MacWorld) (reset : PacketPtr),
        (TagOp.appPacket reset).IsReset mac2 w2 →
        ∃ mac3, mac2.tagOp uniformInt w2 (.appPacket reset) = .ok (mac3, w2) ∧
          mac3.m_tagApp.getReplyToReads = true ∧
          mac3.toSlottedMac = mac2.toSlottedMac := by
  have hack := handleRecvdMacPacket_ack uniformInt mac w packet macData hdata htype hme
  refine ⟨_, hack, rfl, ?_, ?_⟩
  · simp only [RfidTagMac.NoReset, RfidTagMac.tagOp, hack, Except.map] at hno
    exact inhibited_of_noReset uniformInt ops _ w rfl hno.2
  · intro mac2 w2 reset hreset
    exact ⟨_, tagOp_reset uniformInt mac2 w2 reset hreset, rfl, rfl⟩

theorem exampleTagWorld_ack :
    ((exampleTagWorld.packets 1).getData .Link).map PacketData.header
      = some (.readerMac
          { m_senderId := 9, m_receiverId := 12, m_numberOfSlots := 0, m_type := .Ack }) := by
  simp [exampleTagWorld, exampleAckPacket, Packet.getData, Packet.addData, dataInsert,
    Packet.create, RfidReaderMacData.toPacketData, RfidReaderMacData.create]

/-- The inhibited tag 12 hears the REQUEST of reader 9: it joins the cycle of 10
slots without a packet to transmit. -/
theorem exampleTagMac_request :
    RfidTagMac.handleRecvdMacPacket exampleUniformInt
        { exampleTagMac with m_tagApp := exampleTagMac.m_tagApp.setReplyToReads false }
        exampleTagWorld 0
      = .ok (true,
          { exampleTagMac with
            m_tagApp := exampleTagMac.m_tagApp.setReplyToReads false
            m_numberOfSlots := 10
            m_txSlotNumber := 3 },
          exampleTagWorld) := rfl

theorem exampleTagWorld_read :
    (exampleTagWorld.packets 2).getData .Application
      = some (RfidReaderAppData.toPacketData
          { m_nodeId := 9, m_type := .Read, m_doEntireReadCycle := false }) := rfl

theorem exampleTagOps_noReset :
    RfidTagMac.NoReset exampleUniformInt (.macPacket 1 :: exampleTagOps) exampleTagMac
      exampleTagWorld := by
  simp only [RfidTagMac.NoReset, exampleTagOps, TagOp.IsReset, RfidTagMac.tagOp,
    handleRecvdMacPacket_ack exampleUniformInt exampleTagMac exampleTagWorld 1 _
      exampleTagWorld_ack rfl rfl, Except.map, exampleTagMac_request, not_false_eq_true,
    true_and, and_true]
  rintro ⟨_, readerData, hd, hty⟩
  rw [exampleTagWorld_read] at hd
  simp only [Option.map_some', RfidReaderAppData.toPacketData, Option.some.injEq,
    Header.readerApp.injEq] at hd
  rw [← hd] at hty
  cases hty

/-- Witness for C13: tag 12 processes the ACK of reader 9, then hears a REQUEST
and is handed a READ. -/
theorem tag_inhibited_until_reset_witness :
    ∃ mac1, exampleTagMac.handleRecvdMacPacket exampleUniformInt exampleTagWorld 1
        = .ok (true, mac1, exampleTagWorld) ∧
      mac1.m_tagApp.getReplyToReads = false ∧
      RfidTagMac.Inhibited exampleUniformInt exampleTagOps mac1 exampleTagWorld := by
  obtain ⟨mac1, h1, h2, h3, _⟩ :=
    tag_inhibited_until_reset exampleUniformInt exampleTagMac exampleTagWorld 1 _
      exampleTagOps exampleTagWorld_ack rfl rfl exampleTagOps_noReset
  exact ⟨mac1, h1, h2, h3⟩

/-- The example run as a whole: ACK, REQUEST, READ leave tag 12 silent (no packet
beyond the four of the reader, nothing handed to the queue); after the RESET the
next REQUEST makes the tag prepare a REPLY (packet 4) and the next READ an
identity packet (packet 5). -/
theorem exampleTagOps_result :
    (∃ mac2 w2,
      RfidTagMac.tagOps exampleUniformInt (.macPacket 1 :: exampleTagOps) exampleTagMac
        exampleTagWorld = .ok (mac2, w2) ∧
      w2.nextPacketPtr = 4 ∧ mac2.m_tagApp.sentToQueue = [] ∧
      mac2.m_packetToTransmit = none) ∧
    ∃ mac3 w3,
      RfidTagMac.tagOps exampleUniformInt
        [.macPacket 1, .appPacket 3, .macPacket 0, .appPacket 2] exampleTagMac
        exampleTagWorld = .ok (mac3, w3) ∧
      w3.nextPacketPtr = 6 ∧ mac3.m_tagApp.sentToQueue = [5] ∧
      mac3.m_packetToTransmit = some 4 :=
  ⟨⟨_, _, rfl, rfl, rfl, rfl⟩, ⟨_, _, rfl, rfl, rfl, rfl⟩⟩

end TagInhibit

section CopyFlags

/-- What the copy constructor keeps and what it does not: every scalar member is
that of the original, except `m_doMaxTxPower`, which is whatever the memory of
the new object held. -/
theorem copy_fields (p : Packet) (indeterminate : Bool) :
    (p.copy indeterminate).getDataRate = p.getDataRate ∧
      (p.copy indeterminate).getTxPower = p.getTxPower ∧
      (p.copy indeterminate).getHasError = p.getHasError ∧
      (p.copy indeterminate).getDestination = p.getDestination ∧
      (p.copy indeterminate).getDoMaxTxPower = indeterminate :=
  ⟨rfl, rfl, rfl, rfl, rfl⟩

/-- C40 fails on the code: the ACK that reader 7 creates for tag 9 is marked to
be sent at maximum power; a copy of it whose memory held `false` is not, while
data rate, power override, error flag and destination are those of the ACK. -/
theorem copy_loses_doMaxTxPower :
    ((exampleReaderMac.createAckPacket exampleReaderWorld 9).2.packets 1).getDoMaxTxPower
        = true ∧
      (((exampleReaderMac.createAckPacket exampleReaderWorld 9).2.packets 1).copy
        false).getDoMaxTxPower = false ∧
      (((exampleReaderMac.createAckPacket exampleReaderWorld 9).2.packets 1).copy
        false).getDataRate
        = ((exampleReaderMac.createAckPacket exampleReaderWorld 9).2.packets 1).getDataRate ∧
      (((exampleReaderMac.createAckPacket exampleReaderWorld 9).2.packets 1).copy
        false).getDestination
        = ((exampleReaderMac.createAckPacket exampleReaderWorld 9).2.packets 1).getDestination :=
  ⟨rfl, rfl, rfl, rfl⟩

/-- The same on the objects behind the pointers: the copy made by
`Packet::create(p)` carries the indeterminate value as its flag. -/
theorem createCopy_doMaxTxPower (h : PacketHeap) (p : PacketPtr) (indeterminate : Bool) :
    ((h.createCopy p indeterminate).2.packets (h.createCopy p indeterminate).1).m_doMaxTxPower
      = indeterminate := by
  simp [PacketHeap.createCopy, setAt]

end CopyFlags

section LostEvent

/-- C39 fails on the code: the event that `main` schedules for time 2 on the
simulator as constructed is in the queue; `runSimulation(1)` executes nothing and
returns with the queue empty and the event's flag cleared, although the event was
neither executed nor cancelled; a later `runSimulation(3)` executes nothing. -/
theorem runSimulation_drops_event :
    ∃ s1 s2 s3 : Simulator,
      Simulator.instance.scheduleEvent 1 2 = .ok (true, s1) ∧
      s1.m_eventPtrQueue = [1] ∧ (s1.events 1).inEventQueue = true ∧
      Simulator.runSimulation dummyExecute 1 5 s1 () = ([], .returned s2 () []) ∧
      s2.m_eventPtrQueue = [] ∧ (s2.events 1).inEventQueue = false ∧
      Simulator.runSimulation dummyExecute 3 5 s2 () = ([], .returned s3 () []) := by
  norm_num [Simulator.scheduleEvent, Simulator.instance, Event.create, Event.inEventQueue,
    Simulator.runSimulation, Simulator.runLoop, Simulator.getNextEvent, Simulator.currentTime,
    Event.getFireTime, Event.setInEventQueue, Event.setFireTime, setEvent, multisetInsert,
    dummyExecute, Simulator.dispatchEvent]

end LostEvent

section ResetRecvSignals

/-- The method `resetRecvSignals` leaves the interference set as it is. -/
theorem resetRecvSignals_signalStrengths (L : PhysicalLayer) :
    L.resetRecvSignals.m_signalStrengths = L.m_signalStrengths ∧
      L.resetRecvSignals.getCulmulativeSignalStrength = L.getCulmulativeSignalStrength ∧
      L.resetRecvSignals.channelCarrierSensedBusy = L.channelCarrierSensedBusy ∧
      L.resetRecvSignals.getPendingSignal = none ∧
      L.resetRecvSignals.getPendingSignalError = false :=
  ⟨rfl, rfl, rfl, rfl, rfl⟩

/-- C32 fails on the code: a reader's physical layer with the default settings
is receiving signal 5 with strength 1/1000, which is its pending signal.  After
`resetRecvSignals()` no signal is pending and the error flag is false, but the
interference set still holds signal 5, the cumulative strength is 1/1000 and the
channel is carrier sensed busy. -/
theorem resetRecvSignals_keeps_interference :
    (((exampleReaderPhy.addSignal 5 (1 / 1000)).setPendingSignal 5).resetRecvSignals).getPendingSignal
        = none ∧
      (((exampleReaderPhy.addSignal 5 (1 / 1000)).setPendingSignal 5).resetRecvSignals).getPendingSignalError
        = false ∧
      (((exampleReaderPhy.addSignal 5 (1 / 1000)).setPendingSignal 5).resetRecvSignals).m_signalStrengths
        = [(5, 1 / 1000)] ∧
      (((exampleReaderPhy.addSignal 5 (1 / 1000)).setPendingSignal 5).resetRecvSignals).getCulmulativeSignalStrength
        = 1 / 1000 ∧
      (((exampleReaderPhy.addSignal 5 (1 / 1000)).setPendingSignal 5).resetRecvSignals).channelCarrierSensedBusy
        = true := by
  norm_num [exampleReaderPhy, PhysicalLayer.create, PhysicalLayer.addSignal,
    PhysicalLayer.setPendingSignal, PhysicalLayer.resetRecvSignals,
    PhysicalLayer.resetPendingSignal, PhysicalLayer.getPendingSignal,
    PhysicalLayer.getPendingSignalError, PhysicalLayer.getCulmulativeSignalStrength,
    PhysicalLayer.channelCarrierSensedBusy, PhysicalLayer.getCsThreshold,
    PhysicalLayer.getMinimumSignalStrength, mapFind, mapInsert, mapErase]

end ResetRecvSignals

section TagUpperLayerPacket

/-- Whenever `RfidTagMac::handleRecvdUpperLayerPacket` returns, it returns
false. -/
theorem tag_handleRecvdUpperLayerPacket_false (mac : RfidTagMac) (w : MacWorld)
    (packet : PacketPtr) :
    ∀ r, mac.handleRecvdUpperLayerPacket w packet = .ok r → r.1 = false := by
  intro r hr
  unfold RfidTagMac.handleRecvdUpperLayerPacket at hr
  split at hr
  · split at hr
    · cases hr
    · dsimp only at hr
      split at hr
      · cases hr
      · cases hr
        rfl
  · cases hr
    rfl

/-- C31 fails on the code: tag 12 is in slot 4 of a contention cycle of 10
slots, its slot timer runs, no packet is pending; its application hands it the
identity packet for reader 9 (packet 4).  The MAC blocks the upper queues, puts
a GENERIC header for the packet's destination on the packet, stores it as
packet_to_transmit with tx_slot = current_slot = 4, and returns false. -/
theorem tag_handleRecvdUpperLayerPacket_identity :
    ∃ mac1 w1,
      RfidTagMac.handleRecvdUpperLayerPacket
        { exampleTagMac with m_numberOfSlots := 10, m_currentSlotNumber := 4 }
        (exampleTagMac.m_tagApp.sendIdPacket exampleTagWorld 9).2 4 = .ok (false, mac1, w1) ∧
      mac1.m_packetToTransmit = some 4 ∧ mac1.m_txSlotNumber = 4 ∧
      w1.calls = [.blockUpperQueues] ∧
      ((w1.packets 4).getData .Link).map PacketData.header
        = some (.tagMac { m_senderId := 12, m_receiverId := 9, m_type := .Generic }) ∧
      ((w1.packets 4).getData .Application).map PacketData.header
        = some (.tagApp { m_nodeId := 12, m_type := .NoType }) :=
  ⟨_, _, rfl, rfl, rfl, rfl, rfl, rfl⟩

end TagUpperLayerPacket

section UpperQueueUnblocked

/-- An identity frame for the reader MAC makes it call `unblockUpperQueues` on
the link layer and leaves `m_currentAppReadPacket` and the kernel as they are:
whatever the flag of the application's queue was, it is cleared. -/
theorem handleRecvdMacPacket_generic_unblocks (mac : RfidReaderMac) (w : MacWorld)
    (packet : PacketPtr) (size : ℕ) (macData : RfidTagMacData) (isBlocked : Bool)
    (hdata : (w.packets packet).getData .Link
      = some { sizeInBytes := size, header := (Header.tagMac macData) })
    (htype : macData.m_type = .Generic)
    (hforMe : macData.m_receiverId = mac.nodeId
      ∨ macData.m_receiverId = NodeId.broadcastDestination)
    (hslot : mac.m_slotTimer.isRunning w.sim = true) :
    ∃ mac1 w1, mac.handleRecvdMacPacket w packet = .ok (true, mac1, w1) ∧
      mac1.m_currentAppReadPacket = mac.m_currentAppReadPacket ∧
      mac1.m_cycleTimer.isRunning w1.sim = mac.m_cycleTimer.isRunning w.sim ∧
      upperQueueIsBlocked isBlocked w1.calls = false := by
  obtain ⟨w1, h, hcalls, hsim, -⟩ :=
    handleRecvdMacPacket_generic_eq mac w packet size macData hdata htype hforMe hslot
  refine ⟨_, w1, h, rfl, ?_, ?_⟩
  · show Timer.isRunning mac.m_cycleTimer w1.sim = _
    rw [hsim]
  · rw [hcalls]
    have key : ∀ (cs : List MacCall) (b : Bool),
        upperQueueIsBlocked b (cs ++ [MacCall.unblockUpperQueues,
          MacCall.recvFromMacProtocol .Upper packet]) = false := by
      intro cs
      induction cs with
      | nil => intro b; rfl
      | cons c cs ih =>
        intro b
        cases c <;> simp only [List.cons_append, upperQueueIsBlocked] <;> exact ih _
    exact key _ _

/-- C37 fails on the code: reader 7 is working on the READ (packet 0), its cycle
timer runs, it is in slot 3 of a contention cycle after its SELECT, and the
queue of its application is blocked.  The identity frame of tag 9 arrives: the
MAC hands it upward, which unblocks the queue of the application, while
`m_currentAppReadPacket` is still the READ and the cycle timer still runs.  A
second READ that the application hands down now reaches the MAC, where
`assert(m_currentAppReadPacket.get() == 0)` fails. -/
theorem identity_frame_unblocks_upper_queue :
    ∃ mac1 w1, exampleSelectedMac.handleRecvdMacPacket exampleGenericWorld 1
        = .ok (true, mac1, w1) ∧
      mac1.m_currentAppReadPacket = some 0 ∧
      mac1.m_cycleTimer.isRunning w1.sim = true ∧
      upperQueueIsBlocked true exampleGenericWorld.calls = true ∧
      upperQueueIsBlocked true w1.calls = false ∧
      mac1.handleRecvdUpperLayerPacket w1 0 = .error .currentAppReadPacket :=
  ⟨_, _, rfl, rfl, rfl, rfl, rfl, rfl⟩

end UpperQueueUnblocked

section CapturedStrong

end CapturedStrong

section CapturedWorld

end CapturedWorld

section ReaderInvBasics

theorem find_dataInsert (t : DataTypes) (d : PacketData) (l : List (DataTypes × PacketData)) :
    ((dataInsert t d l).find? (fun kv => kv.1 = t)).map Prod.snd = some d := by
  induction l with
  | nil => simp [dataInsert]
  | cons kv rest ih =>
    unfold dataInsert
    by_cases h1 : kv.1 = t
    · simp [h1]
    · by_cases h2 : t.toNat < kv.1.toNat
      · simp [h1, h2]
      · simp only [h1, h2, if_false]
        rw [List.find?_cons_of_neg]
        · exact ih
        · simp [h1]

theorem getData_addData (p : Packet) (t : DataTypes) (d : PacketData) :
    (p.addData t d).getData t = some d := find_dataInsert t d p.m_data

theorem requestSlots_congr {w w' : MacWorld} {q : PacketPtr}
    (h : (w'.packets q).getData .Link = (w.packets q).getData .Link) :
    w'.requestSlots q = w.requestSlots q := by
  unfold MacWorld.requestSlots
  rw [h]

theorem requestSlots_congr_packet {w w' : MacWorld} {q : PacketPtr}
    (h : w'.packets q = w.packets q) : w'.requestSlots q = w.requestSlots q := by
  unfold MacWorld.requestSlots
  rw [h]

theorem requestSlots_readerMac {w : MacWorld} {q : PacketPtr} (d : RfidReaderMacData)
    (h : (w.packets q).getData .Link = some d.toPacketData) :
    w.requestSlots q = if d.m_type = .Request then some d.m_numberOfSlots else none := by
  unfold MacWorld.requestSlots
  rw [h]
  rfl

theorem isPacketType_request_iff (w : MacWorld) (q : PacketPtr) :
    RfidReaderMac.isPacketType w q .Request = true ↔ ∃ n, w.requestSlots q = some n := by
  unfold RfidReaderMac.isPacketType MacWorld.requestSlots
  cases hd : (w.packets q).getData .Link with
  | none => simp
  | some d =>
    obtain ⟨size, header⟩ := d
    cases header <;> simp

theorem inv_of_packets_step {mac mac' : RfidReaderMac} {w w' : MacWorld}
    (h : ReaderInv mac w)
    (hsim : w'.sim = w.sim) (hsend : w'.sendEvents = w.sendEvents)
    (hev : w'.nextEventPtr = w.nextEventPtr)
    (hnp : w.nextPacketPtr ≤ w'.nextPacketPtr)
    (hreq : ∀ q, q < w.nextPacketPtr → ∀ n, w'.requestSlots q = some n →
      w.requestSlots q = some n)
    (hslot : mac'.m_slotTimer = mac.m_slotTimer)
    (hsendT : mac'.m_sendTimer = mac.m_sendTimer)
    (hcycle : mac'.m_cycleTimer = mac.m_cycleTimer)
    (hcur : mac'.m_currentSlotNumber = mac.m_currentSlotNumber)
    (hn : mac'.m_numberOfSlots = mac.m_numberOfSlots)
    (happ : mac'.m_currentAppReadPacket = mac.m_currentAppReadPacket)
    (h1 : mac'.m_nextCycleNumberOfSlots = mac.m_nextCycleNumberOfSlots)
    (h2 : mac'.m_nextCycleTime = mac.m_nextCycleTime)
    (h3 : mac'.m_slotTime = mac.m_slotTime)
    (hpend : ∀ p, mac'.m_packetToTransmit = some p → p < w'.nextPacketPtr ∧
      ((∀ n, w'.requestSlots p ≠ some n) ∨
        (mac.m_packetToTransmit = some p ∧ mac'.m_txSlotNumber = mac.m_txSlotNumber))) :
    ReaderInv mac' w' := by
  constructor
  · rw [hsim]; exact h.wf
  · rw [hsim]; exact h.future
  · rw [hsim]; exact h.flags
  · rw [hsim, hev]; exact h.queued_lt
  · rw [hslot, hcycle]; exact h.slot_ne_cycle
  · rw [hslot, hev]; exact h.slot_lt
  · rw [hcycle, hev]; exact h.cycle_lt
  · rw [hsend, hev]; exact h.send_lt
  · rw [hsend, hslot]; exact h.slot_not_send
  · rw [hsend, hcycle]; exact h.cycle_not_send
  · rw [h1]; exact h.slots_default
  · rw [h2]; exact h.cycle_default
  · rw [h3]; exact h.slot_default
  · rw [hsim, hcycle, happ]; exact h.read_iff
  · rw [hsim, hslot]; exact h.slot_running
  · rw [hsim, hslot]; exact h.slot_soon
  · rw [hsim, hsend, hslot]; exact h.send_before_slot
  · rw [hsim, hsend, hsendT]; exact h.send_timer
  · intro e d p n q hp he hr hq
    rw [hsend] at hp
    rw [hsim] at he
    have hr0 := hreq p (h.armed_lt e d p hp) n hr
    rcases (hpend q hq).2 with hno | ⟨hq0, _⟩
    · cases hx : w'.requestSlots q with
      | none => rfl
      | some m => exact absurd hx (hno m)
    · have h0 := h.armed_alone e d p n q hp he hr0 hq0
      cases hx : w'.requestSlots q with
      | none => rfl
      | some m =>
        have := hreq q (h.pending_lt q hq0) m hx
        rw [h0] at this
        cases this
  · intro p hp; exact (hpend p hp).1
  · intro e d p hp
    rw [hsend] at hp
    exact lt_of_lt_of_le (h.armed_lt e d p hp) hnp
  · intro p hp
    rw [happ] at hp
    exact lt_of_lt_of_le (h.app_lt p hp) hnp
  · intro p n hp hr
    rw [hsim, hcycle, hslot, hcur]
    rcases (hpend p hp).2 with hno | ⟨hp0, htx⟩
    · exact absurd hr (hno n)
    · rw [htx]
      exact h.pending_request p n hp0 (hreq p (h.pending_lt p hp0) n hr)
  · intro e d p n hp he hr
    rw [hsend] at hp
    rw [hsim] at he
    rw [hsim, hcycle, hslot]
    exact h.armed_request e d p n hp he (hreq p (h.armed_lt e d p hp) n hr)
  · rw [hsim, hcycle, hslot, hcur, hn]; exact h.in_cycle
  · rw [hsim, hcycle, hslot, hcur]; exact h.slot_count
  · rw [hsim, hcycle]; exact h.read_recent

end ReaderInvBasics

section ReaderInvRequest

theorem createRequestPacket_inv {mac : RfidReaderMac} {w w1 : MacWorld} {p : PacketPtr}
    (h : mac.createRequestPacket w = .ok (p, w1)) :
    p = w.nextPacketPtr ∧ w1.sim = w.sim ∧ w1.sendEvents = w.sendEvents ∧
      w1.nextEventPtr = w.nextEventPtr ∧ w1.nextPacketPtr = w.nextPacketPtr + 1 ∧
      (∀ q, q ≠ w.nextPacketPtr → w1.packets q = w.packets q) ∧
      w1.requestSlots p = some (mac.m_nextCycleNumberOfSlots % 256) := by
  unfold RfidReaderMac.createRequestPacket at h
  split at h
  · cases h
  · simp only [MacWorld.newPacket] at h
    split at h
    · cases h
    · split at h
      · cases h
      · rename_i pk hpk
        simp only [Except.ok.injEq, Prod.mk.injEq] at h
        obtain ⟨hp, hw⟩ := h
        subst hp; subst hw
        refine ⟨rfl, rfl, rfl, rfl, rfl, ?_, ?_⟩
        · intro q hq
          simp [MacWorld.setPacket, setAt, hq]
        · rw [requestSlots_readerMac
            ({ RfidReaderMacData.create with
                m_type := .Request, m_senderId := mac.nodeId,
                m_receiverId := NodeId.broadcastDestination }.setNumberOfSlots
              mac.m_nextCycleNumberOfSlots)]
          · simp [RfidReaderMacData.setNumberOfSlots]
          · simp only [MacWorld.setPacket, setAt, if_true]
            exact getData_addData _ _ _

theorem isEnough_true_inv {mac : RfidReaderMac} {w : MacWorld}
    (hdef : mac.m_nextCycleNumberOfSlots = m_DEFAULT_NUMBER_OF_SLOTS)
    (h : mac.isEnoughTimeForContentionCycle w = .ok true) :
    mac.m_cycleTimer.isRunning w.sim = true ∧
      w.sim.m_clock + 11 * m_DEFAULT_SLOT_TIME < w.sim.fire mac.m_cycleTimer.m_eventOnFire := by
  unfold RfidReaderMac.isEnoughTimeForContentionCycle Timer.timeRemaining at h
  rw [hdef] at h
  by_cases hr : mac.m_cycleTimer.isRunning w.sim = true
  · refine ⟨hr, ?_⟩
    simp only [hr, if_true] at h
    split at h
    · cases h
    · rename_i t ht
      split at ht
      · simp only [Except.ok.injEq] at ht h
        subst ht
        simp only [decide_eq_true_eq, m_DEFAULT_NUMBER_OF_SLOTS, Simulator.currentTime,
          Event.getFireTime] at h
        unfold Simulator.fire
        norm_num at h ⊢
        linarith
      · cases ht
  · simp only [hr] at h
    simp only [Bool.false_eq_true, if_false, Except.ok.injEq, decide_eq_true_eq,
      m_DEFAULT_NUMBER_OF_SLOTS, m_DEFAULT_SLOT_TIME] at h
    norm_num at h

theorem inv_startNextContentionCycle {mac mac' : RfidReaderMac} {w w' : MacWorld}
    (h : ReaderInv mac w)
    (henough : mac.isEnoughTimeForContentionCycle w = .ok true)
    (hnoarmed : ∀ e d p n, w.sendEvents e = some (d, p) → e ∈ w.sim.m_eventPtrQueue →
      w.requestSlots p ≠ some n)
    (hs : mac.startNextContentionCycle w = .ok (mac', w')) : ReaderInv mac' w' := by
  obtain ⟨hrun, htime⟩ := isEnough_true_inv h.slots_default henough
  unfold RfidReaderMac.startNextContentionCycle at hs
  split at hs
  · cases hs
  · split at hs
    · cases hs
    · rename_i p w1 hc
      obtain ⟨hp, hsim, hsend, hev, hnp, hpk, hreq⟩ := createRequestPacket_inv hc
      simp only [Except.ok.injEq, Prod.mk.injEq] at hs
      obtain ⟨hm, hw⟩ := hs
      subst hw
      subst hm
      simp only [SlottedMac.stopContentionCycle]
      have hslotq : mac.m_slotTimer.m_eventOnFire ∈ w.sim.m_eventPtrQueue :=
        h.flags _ h.slot_running
      have hslotf := h.future _ hslotq
      have hsoon := h.slot_soon
      constructor
      · rw [hsim]; exact h.wf
      · rw [hsim]; exact h.future
      · rw [hsim]; exact h.flags
      · rw [hsim, hev]; exact h.queued_lt
      · exact h.slot_ne_cycle
      · rw [hev]; exact h.slot_lt
      · rw [hev]; exact h.cycle_lt
      · rw [hsend, hev]; exact h.send_lt
      · rw [hsend]; exact h.slot_not_send
      · rw [hsend]; exact h.cycle_not_send
      · exact h.slots_default
      · exact h.cycle_default
      · exact h.slot_default
      · rw [hsim]; exact h.read_iff
      · rw [hsim]; exact h.slot_running
      · rw [hsim]; exact h.slot_soon
      · rw [hsim, hsend]; exact h.send_before_slot
      · rw [hsim, hsend]; exact h.send_timer
      · intro e d q n q' hq he hr hq'
        rw [hsend] at hq
        rw [hsim] at he
        have hlt := h.armed_lt e d q hq
        rw [requestSlots_congr_packet (hpk q (Nat.ne_of_lt hlt))] at hr
        exact absurd hr (hnoarmed e d q n hq he)
      · intro q hq
        simp only [SlottedMac.stopContentionCycle, Option.some.injEq] at hq
        subst hq
        rw [hnp, hp]
        exact Nat.lt_succ_self _
      · intro e d q hq
        rw [hsend] at hq
        rw [hnp]
        exact Nat.lt_succ_of_lt (h.armed_lt e d q hq)
      · intro q hq
        rw [hnp]
        exact Nat.lt_succ_of_lt (h.app_lt q hq)
      · intro q n hq hr
        simp only [SlottedMac.stopContentionCycle, Option.some.injEq] at hq
        subst hq
        rw [hreq, h.slots_default] at hr
        simp only [m_DEFAULT_NUMBER_OF_SLOTS, Option.some.injEq] at hr
        subst hr
        rw [hsim]
        refine ⟨hrun, rfl, rfl, ?_⟩
        simp only [m_DEFAULT_SLOT_TIME] at htime hsoon ⊢
        push_cast
        linarith
      · intro e d q n hq he hr
        rw [hsend] at hq
        rw [hsim] at he ⊢
        have hlt := h.armed_lt e d q hq
        have hne : q ≠ w.nextPacketPtr := Nat.ne_of_lt hlt
        rw [requestSlots_congr_packet (hpk q hne)] at hr
        exact h.armed_request e d q n hq he hr
      · intro _ hlt
        exact absurd hlt (lt_irrefl _)
      · intro hr
        rw [hsim]
        have := h.read_recent hrun
        simp only [SlottedMac.stopContentionCycle, Nat.cast_zero, zero_mul]
        linarith
      · rw [hsim]; exact h.read_recent

end ReaderInvRequest

section ReaderInvSend

theorem inv_call {mac : RfidReaderMac} {w : MacWorld} (h : ReaderInv mac w) (c : MacCall) :
    ReaderInv mac (w.call c) :=
  inv_of_packets_step h rfl rfl rfl (le_refl _) (fun _ _ _ hr => hr) rfl rfl rfl rfl rfl rfl
    rfl rfl rfl (fun p hp => ⟨h.pending_lt p hp, Or.inr ⟨hp, rfl⟩⟩)

theorem inv_of_mac_step {mac mac' : RfidReaderMac} {w : MacWorld}
    (h : ReaderInv mac w)
    (hslot : mac'.m_slotTimer = mac.m_slotTimer)
    (hsendT : mac'.m_sendTimer = mac.m_sendTimer)
    (hcycle : mac'.m_cycleTimer = mac.m_cycleTimer)
    (hpend : mac'.m_packetToTransmit = mac.m_packetToTransmit)
    (happ : mac'.m_currentAppReadPacket = mac.m_currentAppReadPacket)
    (h1 : mac'.m_nextCycleNumberOfSlots = mac.m_nextCycleNumberOfSlots)
    (h2 : mac'.m_nextCycleTime = mac.m_nextCycleTime)
    (h3 : mac'.m_slotTime = mac.m_slotTime)
    (hnoreq : ∀ q, mac.m_packetToTransmit = some q → w.requestSlots q = none)
    (hin : mac.m_cycleTimer.isRunning w.sim = true →
      mac'.m_currentSlotNumber < mac'.m_numberOfSlots →
      w.sim.fire mac.m_slotTimer.m_eventOnFire
          + ((mac'.m_numberOfSlots : ℚ) - (mac'.m_currentSlotNumber : ℚ) - 1)
            * m_DEFAULT_SLOT_TIME
        < w.sim.fire mac.m_cycleTimer.m_eventOnFire)
    (hcount : mac.m_cycleTimer.isRunning w.sim = true →
      (mac'.m_currentSlotNumber : ℚ) * m_DEFAULT_SLOT_TIME
        ≤ w.sim.fire mac.m_slotTimer.m_eventOnFire
          - w.sim.fire mac.m_cycleTimer.m_eventOnFire + m_DEFAULT_CYCLE_TIME) :
    ReaderInv mac' w := by
  constructor
  · exact h.wf
  · exact h.future
  · exact h.flags
  · exact h.queued_lt
  · rw [hslot, hcycle]; exact h.slot_ne_cycle
  · rw [hslot]; exact h.slot_lt
  · rw [hcycle]; exact h.cycle_lt
  · exact h.send_lt
  · rw [hslot]; exact h.slot_not_send
  · rw [hcycle]; exact h.cycle_not_send
  · rw [h1]; exact h.slots_default
  · rw [h2]; exact h.cycle_default
  · rw [h3]; exact h.slot_default
  · rw [hcycle, happ]; exact h.read_iff
  · rw [hslot]; exact h.slot_running
  · rw [hslot]; exact h.slot_soon
  · rw [hslot]; exact h.send_before_slot
  · rw [hsendT]; exact h.send_timer
  · rw [hpend]; exact h.armed_alone
  · rw [hpend]; exact h.pending_lt
  · exact h.armed_lt
  · rw [happ]; exact h.app_lt
  · intro p n hp hr
    rw [hpend] at hp
    rw [hnoreq p hp] at hr
    cases hr
  · rw [hcycle, hslot]; exact h.armed_request
  · rw [hcycle, hslot]; exact hin
  · rw [hcycle, hslot]; exact hcount
  · rw [hcycle]; exact h.read_recent

theorem inv_handleChannelBusy {mac mac' : RfidReaderMac} {w w' : MacWorld} {p : PacketPtr}
    (h : ReaderInv mac w) (hs : RfidReaderMac.handleChannelBusy p mac w = .ok (mac', w')) :
    ReaderInv mac' w' := by
  unfold RfidReaderMac.handleChannelBusy at hs
  split at hs
  · simp only [Except.ok.injEq, Prod.mk.injEq] at hs
    obtain ⟨hm, hw⟩ := hs
    subst hm; subst hw
    exact inv_call h _
  · simp only [Except.ok.injEq, Prod.mk.injEq] at hs
    obtain ⟨hm, hw⟩ := hs
    subst hm; subst hw
    exact h

theorem handlePacketSent_request {mac : RfidReaderMac} {w : MacWorld} {p : PacketPtr} {n : ℕ}
    (hr : w.requestSlots p = some n) :
    RfidReaderMac.handlePacketSent p mac w
      = .ok ({ mac with m_currentSlotNumber := 0, m_numberOfSlots := n }, w) := by
  have ht : RfidReaderMac.isPacketType w p .Request = true :=
    (isPacketType_request_iff w p).2 ⟨n, hr⟩
  unfold RfidReaderMac.handlePacketSent
  rw [if_pos ht]
  unfold MacWorld.requestSlots at hr
  cases hd : (w.packets p).getData .Link with
  | none => rw [hd] at hr; cases hr
  | some d =>
    obtain ⟨size, header⟩ := d
    rw [hd] at hr
    cases header with
    | readerMac md =>
      simp only at hr
      split at hr
      · simp only [Option.some.injEq] at hr
        subst hr
        rfl
      · cases hr
    | plain => cases hr
    | tagMac _ => cases hr
    | readerApp _ => cases hr
    | tagApp _ => cases hr

theorem inv_handlePacketSent {mac mac' : RfidReaderMac} {w w' : MacWorld} {p : PacketPtr}
    (h : ReaderInv mac w)
    (hnone : ∀ e, e ∈ w.sim.m_eventPtrQueue → w.sendEvents e = none)
    (hreq : ∀ n, w.requestSlots p = some n →
      mac.m_cycleTimer.isRunning w.sim = true ∧ n = m_DEFAULT_NUMBER_OF_SLOTS ∧
        w.sim.fire mac.m_slotTimer.m_eventOnFire + ((n : ℚ) - 1) * m_DEFAULT_SLOT_TIME
          < w.sim.fire mac.m_cycleTimer.m_eventOnFire ∧
        ∀ q, mac.m_packetToTransmit = some q → w.requestSlots q = none)
    (hs : RfidReaderMac.handlePacketSent p mac w = .ok (mac', w')) : ReaderInv mac' w' := by
  cases hr : w.requestSlots p with
  | some n =>
    rw [handlePacketSent_request hr] at hs
    simp only [Except.ok.injEq, Prod.mk.injEq] at hs
    obtain ⟨hm, hw⟩ := hs
    subst hm; subst hw
    obtain ⟨hrun, hn, htime, hno⟩ := hreq n hr
    refine inv_of_mac_step h rfl rfl rfl rfl rfl rfl rfl rfl hno ?_ ?_
    · intro _ _
      simp only [Nat.cast_zero, sub_zero]
      exact htime
    · intro hrun'
      have hq := h.flags _ h.slot_running
      have hf := h.future _ hq
      have hrec := h.read_recent hrun'
      simp only [Nat.cast_zero, zero_mul]
      linarith
  | none =>
    have ht : RfidReaderMac.isPacketType w p .Request = false := by
      cases hx : RfidReaderMac.isPacketType w p .Request with
      | false => rfl
      | true =>
        obtain ⟨n, hn⟩ := (isPacketType_request_iff w p).1 hx
        rw [hr] at hn
        cases hn
    unfold RfidReaderMac.handlePacketSent at hs
    rw [ht] at hs
    simp only [Bool.false_eq_true, if_false] at hs
    split at hs
    · simp only [Except.ok.injEq, Prod.mk.injEq] at hs
      obtain ⟨hm, hw⟩ := hs
      subst hm; subst hw
      exact inv_of_packets_step h rfl rfl rfl (le_refl _) (fun _ _ _ hr => hr) rfl rfl rfl rfl
        rfl rfl rfl rfl rfl (fun p hp => ⟨h.pending_lt p hp, Or.inr ⟨hp, rfl⟩⟩)
    · split at hs
      · split at hs
        · cases hs
        · rename_i henough
          exact inv_startNextContentionCycle h henough
            (fun e d q n hq he => by rw [hnone e he] at hq; cases hq) hs
        · simp only [Except.ok.injEq, Prod.mk.injEq] at hs
          obtain ⟨hm, hw⟩ := hs
          subst hm; subst hw
          exact h
      · simp only [Except.ok.injEq, Prod.mk.injEq] at hs
        obtain ⟨hm, hw⟩ := hs
        subst hm; subst hw
        exact inv_call h _

theorem inv_sendToLinkLayer {mac mac' : RfidReaderMac} {w w' : MacWorld} {p : PacketPtr}
    {d : Directions} {b : Bool}
    (h : ReaderInv mac w)
    (hnone : ∀ e, e ∈ w.sim.m_eventPtrQueue → w.sendEvents e = none)
    (hreq : ∀ n, w.requestSlots p = some n →
      mac.m_cycleTimer.isRunning w.sim = true ∧ n = m_DEFAULT_NUMBER_OF_SLOTS ∧
        w.sim.fire mac.m_slotTimer.m_eventOnFire + ((n : ℚ) - 1) * m_DEFAULT_SLOT_TIME
          < w.sim.fire mac.m_cycleTimer.m_eventOnFire ∧
        ∀ q, mac.m_packetToTransmit = some q → w.requestSlots q = none)
    (hs : mac.sendToLinkLayer w d p = .ok (b, mac', w')) : ReaderInv mac' w' := by
  unfold RfidReaderMac.sendToLinkLayer MacProtocol.sendToLinkLayer at hs
  split at hs
  · split at hs
    · cases hs
    · rename_i m1 w1 hb
      simp only [Except.ok.injEq, Prod.mk.injEq] at hs
      obtain ⟨_, hm, hw⟩ := hs
      subst hm; subst hw
      exact inv_handleChannelBusy h hb
  · split at hs
    · cases hs
    · rename_i m1 w1 hb
      simp only [Except.ok.injEq, Prod.mk.injEq] at hs
      obtain ⟨_, hm, hw⟩ := hs
      subst hm; subst hw
      exact inv_call (inv_handlePacketSent h hnone hreq hb) _

end ReaderInvSend

section ReaderInvRecv

theorem requestSlots_addSelectHeader (mac : RfidReaderMac) (w : MacWorld) (a : PacketPtr)
    (r : NodeId) : (mac.addSelectHeader w a r).requestSlots a = none := by
  rw [requestSlots_readerMac
    { RfidReaderMacData.create with
      m_type := .Select, m_senderId := mac.nodeId, m_receiverId := r }]
  · simp
  · simp only [RfidReaderMac.addSelectHeader, MacWorld.setPacket, setAt, if_true]
    exact getData_addData _ _ _

theorem requestSlots_addGenericHeader (mac : RfidReaderMac) (w : MacWorld) (a : PacketPtr)
    (r : NodeId) : (mac.addGenericHeader w a r).requestSlots a = none := by
  rw [requestSlots_readerMac
    { RfidReaderMacData.create with
      m_type := .Generic, m_senderId := mac.nodeId, m_receiverId := r }]
  · simp
  · simp only [RfidReaderMac.addGenericHeader, MacWorld.setPacket, setAt, if_true]
    exact getData_addData _ _ _

theorem requestSlots_createAckPacket (mac : RfidReaderMac) (w : MacWorld) (r : NodeId) :
    (mac.createAckPacket w r).2.requestSlots w.nextPacketPtr = none := by
  rw [requestSlots_readerMac
    { RfidReaderMacData.create with
      m_type := .Ack, m_senderId := mac.nodeId, m_receiverId := r }]
  · simp
  · simp only [RfidReaderMac.createAckPacket, MacWorld.newPacket, MacWorld.setPacket, setAt,
      if_true]
    exact getData_addData _ _ _

theorem sendToLinkLayer_upper_tagMac (mac : RfidReaderMac) (w : MacWorld) (p : PacketPtr)
    (size : ℕ) (macData : RfidTagMacData)
    (hdata : (w.packets p).getData .Link
      = some { sizeInBytes := size, header := (Header.tagMac macData) }) :
    mac.sendToLinkLayer w .Upper p
      = .ok (true, mac, (w.unblockUpperQueues).call (.recvFromMacProtocol .Upper p)) := by
  unfold RfidReaderMac.sendToLinkLayer MacProtocol.sendToLinkLayer
    RfidReaderMac.handlePacketSent
  simp [isPacketType_tagMac w p size macData hdata, MacWorld.recvFromMacProtocol]

theorem inv_handleRecvdMacPacket {mac mac' : RfidReaderMac} {w w' : MacWorld} {p : PacketPtr}
    {b : Bool} (h : ReaderInv mac w)
    (hs : mac.handleRecvdMacPacket w p = .ok (b, mac', w')) : ReaderInv mac' w' := by
  unfold RfidReaderMac.handleRecvdMacPacket at hs
  split at hs
  · rename_i size macData hdata
    split at hs
    · split at hs
      · -- REPLY
        split at hs
        · split at hs
          · split at hs
            · cases hs
            · rename_i a happ
              dsimp only at hs
              split at hs
              · cases hs
              · simp only [Except.ok.injEq, Prod.mk.injEq] at hs
                obtain ⟨_, hm, hw⟩ := hs
                subst hm; subst hw
                have ha := h.app_lt a happ
                refine inv_of_packets_step h rfl rfl rfl (le_refl _) ?_ rfl rfl rfl rfl rfl rfl
                  rfl rfl rfl ?_
                · intro q _ n hr
                  by_cases hq : q = a
                  · subst hq
                    rw [requestSlots_addSelectHeader] at hr
                    cases hr
                  · rw [requestSlots_congr_packet (w := w)] at hr
                    · exact hr
                    · simp [RfidReaderMac.addSelectHeader, MacWorld.setPacket, setAt, hq]
                · intro q hq
                  simp only [Option.some.injEq] at hq
                  subst hq
                  refine ⟨ha, Or.inl ?_⟩
                  intro n hn
                  rw [requestSlots_addSelectHeader] at hn
                  cases hn
          · simp only [Except.ok.injEq, Prod.mk.injEq] at hs
            obtain ⟨_, hm, hw⟩ := hs
            subst hm; subst hw
            exact h
        · simp only [Except.ok.injEq, Prod.mk.injEq] at hs
          obtain ⟨_, hm, hw⟩ := hs
          subst hm; subst hw
          exact h
      · -- GENERIC
        dsimp only at hs
        rw [sendToLinkLayer_upper_tagMac _ w p size macData hdata] at hs
        dsimp only at hs
        split at hs
        · cases hs
        · simp only [Except.ok.injEq, Prod.mk.injEq] at hs
          obtain ⟨_, hm, hw⟩ := hs
          subst hm; subst hw
          refine inv_of_packets_step h rfl rfl rfl (Nat.le_succ _) ?_ rfl rfl rfl rfl rfl rfl
            rfl rfl rfl ?_
          · intro q hlt n hr
            have hq : q ≠ w.nextPacketPtr := Nat.ne_of_lt hlt
            rw [requestSlots_congr_packet (w := w)] at hr
            · exact hr
            · simp [RfidReaderMac.createAckPacket, MacWorld.newPacket, MacWorld.setPacket,
                setAt, hq, MacWorld.unblockUpperQueues, MacWorld.call]
          · intro q hq
            simp only [Option.some.injEq] at hq
            subst hq
            refine ⟨Nat.lt_succ_self _, Or.inl ?_⟩
            intro n hn
            have := requestSlots_createAckPacket
              { mac with
                m_winningSlotNumbers := mac.m_winningSlotNumbers ++
                  [(macData.m_senderId, (mac.m_currentSlotNumber + (2 ^ 32 - 3)) % 2 ^ 32)] }
              ((w.unblockUpperQueues).call (.recvFromMacProtocol .Upper p)) macData.m_senderId
            exact Option.noConfusion (this.symm.trans hn)
    · simp only [Except.ok.injEq, Prod.mk.injEq] at hs
      obtain ⟨_, hm, hw⟩ := hs
      subst hm; subst hw
      exact h
  · simp only [Except.ok.injEq, Prod.mk.injEq] at hs
    obtain ⟨_, hm, hw⟩ := hs
    subst hm; subst hw
    exact h

end ReaderInvRecv

section ReaderInvKernel

theorem schedule_facts {s s' : Simulator} {e : EventId} {d : SimTime} {b : Bool}
    (hs : s.scheduleEvent e d = .ok (b, s')) (hwf : s.WF) (hfut : s.Future)
    (hfl : s.FlagsExact) :
    s'.WF ∧ s'.Future ∧ s'.FlagsExact ∧ s'.m_clock = s.m_clock ∧
      s'.fire e = s.m_clock + d ∧ (s'.events e).inEventQueue = true ∧
      (∀ i, i ≠ e → s'.events i = s.events i) ∧
      (∀ y, y ∈ s'.m_eventPtrQueue ↔ y = e ∨ y ∈ s.m_eventPtrQueue) ∧
      e ∉ s.m_eventPtrQueue ∧ 0 ≤ d := by
  obtain ⟨_, hclock, _, hev, hother, hq⟩ := scheduleEvent_props hs
  obtain ⟨hflag, hd⟩ := scheduleEvent_ok_inv hs
  refine ⟨wf_scheduleEvent hwf hs, future_scheduleEvent hwf hfut hs,
    flagsExact_scheduleEvent hfl hs, hclock, ?_, ?_, hother, ?_, ?_, hd⟩
  · simp [Simulator.fire, hev]
  · simp [Event.inEventQueue, hev]
  · intro y
    rw [hq]
    exact mem_multisetInsert
  · intro hmem
    have := hwf.flagged e hmem
    rw [hflag] at this
    cases this

/-- The kernel after `getNextEvent` and the assignment `m_clock = fireTime` of
`dispatchEvent`. -/
theorem pop_facts {s : Simulator} {e : EventId} {rest : List EventId}
    (hq : s.m_eventPtrQueue = e :: rest) (hwf : s.WF) (hfut : s.Future)
    (hfl : s.FlagsExact) (s' : Simulator)
    (hs' : s' = { (s.getNextEvent e rest).2 with m_clock := s.fire e }) :
    s'.WF ∧ s'.Future ∧ s'.FlagsExact ∧ s.m_clock ≤ s.fire e ∧ s'.m_clock = s.fire e ∧
      (s'.events e).inEventQueue = false ∧ (∀ i, s'.fire i = s.fire i) ∧
      (∀ i, i ≠ e → s'.events i = s.events i) ∧ s'.m_eventPtrQueue = rest ∧ e ∉ rest ∧
      (∀ y ∈ rest, s.fire e ≤ s.fire y) ∧ (∀ y ∈ rest, y ∈ s.m_eventPtrQueue) := by
  subst hs'
  have hwf1 := wf_getNextEvent hwf hq
  have hfl1 := flagsExact_getNextEvent hfl hq
  have hsorted := hwf.sorted
  have hnodup := hwf.nodup
  rw [hq] at hsorted hnodup
  rw [List.pairwise_cons] at hsorted
  rw [List.nodup_cons] at hnodup
  have hfire : ∀ i, (s.getNextEvent e rest).2.fire i = s.fire i :=
    fun i => getNextEvent_fire s e i rest
  refine ⟨⟨?_, hwf1.nodup, hwf1.flagged⟩, ?_, hfl1, ?_, rfl, ?_, hfire, ?_, rfl, hnodup.1,
    hsorted.1, ?_⟩
  · exact hwf1.sorted
  · intro y hy
    show s.fire e ≤ (s.getNextEvent e rest).2.fire y
    rw [hfire y]
    exact hsorted.1 y hy
  · exact hfut e (by rw [hq]; exact List.mem_cons_self _ _)
  · simp [Simulator.getNextEvent, setEvent, Event.setInEventQueue, Event.inEventQueue]
  · intro i hi
    simp [Simulator.getNextEvent, setEvent, hi]
  · intro y hy
    rw [hq]
    exact List.mem_cons_of_mem _ hy

theorem stop_facts {s : Simulator} (t : Timer) (hwf : s.WF) (hfut : s.Future)
    (hfl : s.FlagsExact) (hrun : t.isRunning s = true) :
    (t.stop s).2.WF ∧ (t.stop s).2.Future ∧ (t.stop s).2.FlagsExact ∧
      (t.stop s).2.m_clock = s.m_clock ∧ t.isRunning (t.stop s).2 = false ∧
      (∀ i, (t.stop s).2.fire i = s.fire i) ∧
      (∀ i, i ≠ t.m_eventOnFire → (t.stop s).2.events i = s.events i) ∧
      (∀ y, y ∈ (t.stop s).2.m_eventPtrQueue ↔ y ≠ t.m_eventOnFire ∧ y ∈ s.m_eventPtrQueue) := by
  have hmem : t.m_eventOnFire ∈ s.m_eventPtrQueue := hfl _ hrun
  obtain ⟨_, hclock, _, hev, hother, hq⟩ := cancelEvent_spec_mem s t.m_eventOnFire hwf hmem
  have hst : t.stop s = s.cancelEvent t.m_eventOnFire := by
    unfold Timer.stop
    rw [if_pos hrun]
  rw [hst]
  refine ⟨wf_cancelEvent hwf _, future_cancelEvent hwf hfut _, flagsExact_cancelEvent hwf hfl _,
    hclock, ?_, ?_, hother, ?_⟩
  · simp [Timer.isRunning, Event.inEventQueue, hev]
  · intro i
    by_cases hi : i = t.m_eventOnFire
    · subst hi
      simp [Simulator.fire, hev]
    · simp [Simulator.fire, hother i hi]
  · intro y
    rw [hq]
    constructor
    · intro hy
      exact ⟨fun h => by
        subst h
        exact (List.Nodup.not_mem_erase hwf.nodup) hy, List.mem_of_mem_erase hy⟩
    · rintro ⟨hne, hy⟩
      exact (List.mem_erase_of_ne hne).2 hy

end ReaderInvKernel

section ReaderInvUpper

theorem ne_none_of_some {α : Type} {o : Option α} {a : α} (h : o = some a) : o ≠ none := by
  rw [h]
  exact Option.some_ne_none a

theorem startNextContentionCycle_reset (mac : RfidReaderMac) (w : MacWorld) :
    RfidReaderMac.startNextContentionCycle
        { mac with m_currentSlotNumber := 0, m_numberOfSlots := 0 } w
      = mac.startNextContentionCycle w := rfl

/-- The state right after a READ has been accepted and the cycle timer started,
taken with the slot counters that `startNextContentionCycle` is about to set. -/
theorem inv_read_accepted {mac : RfidReaderMac} {w : MacWorld} {p : PacketPtr}
    {sim : Simulator} {b entire : Bool} (h : ReaderInv mac w)
    (hp : p < w.nextPacketPtr)
    (hnone : mac.m_currentAppReadPacket = none)
    (hstart : mac.m_cycleTimer.start w.sim mac.m_nextCycleTime = .ok (b, sim)) :
    ReaderInv
      { mac with
        m_currentAppReadPacket := some p, m_doEntireReadCycle := entire,
        m_currentSlotNumber := 0, m_numberOfSlots := 0 }
      { w.blockUpperQueues with sim := sim } ∧
    sim.m_clock + m_DEFAULT_CYCLE_TIME = sim.fire mac.m_cycleTimer.m_eventOnFire ∧
    mac.m_cycleTimer.isRunning sim = true ∧
    (∀ e d q n, w.sendEvents e = some (d, q) → e ∈ sim.m_eventPtrQueue →
      w.requestSlots q ≠ some n) := by
  have hnot : mac.m_cycleTimer.isRunning w.sim = false := by
    cases hx : mac.m_cycleTimer.isRunning w.sim with
    | false => rfl
    | true => exact absurd hnone (h.read_iff.1 hx)
  unfold Timer.start at hstart
  rw [hnot] at hstart
  simp only [Bool.not_false, if_true] at hstart
  obtain ⟨hwf, hfut, hfl, hclock, hfire, hflag, hother, hmem, hnotmem, _⟩ :=
    schedule_facts hstart h.wf h.future h.flags
  have hslot : sim.events mac.m_slotTimer.m_eventOnFire
      = w.sim.events mac.m_slotTimer.m_eventOnFire := hother _ h.slot_ne_cycle
  have hslotfire : sim.fire mac.m_slotTimer.m_eventOnFire
      = w.sim.fire mac.m_slotTimer.m_eventOnFire := by
    unfold Simulator.fire
    rw [hslot]
  have hsendq : ∀ e, w.sendEvents e ≠ none → e ∈ sim.m_eventPtrQueue →
      e ∈ w.sim.m_eventPtrQueue ∧ sim.fire e = w.sim.fire e := by
    intro e he hq
    have hne : e ≠ mac.m_cycleTimer.m_eventOnFire := by
      intro heq
      rw [heq] at he
      exact he h.cycle_not_send
    rcases (hmem e).1 hq with heq | hold
    · exact absurd heq hne
    · refine ⟨hold, ?_⟩
      unfold Simulator.fire
      rw [hother e hne]
  have hslotq := h.flags _ h.slot_running
  have hslotf := h.future _ hslotq
  rw [h.cycle_default] at hfire
  refine ⟨?_, ?_, hflag, ?_⟩
  rotate_left
  · rw [hfire, hclock]
  · intro e d q n he hq hr
    have := (h.armed_request e d q n he (hsendq e (ne_none_of_some he) hq).1 hr).1
    rw [hnot] at this
    cases this
  · constructor
    · exact hwf
    · exact hfut
    · exact hfl
    · intro e he
      rcases (hmem e).1 he with heq | hold
      · rw [heq]; exact h.cycle_lt
      · exact h.queued_lt e hold
    · exact h.slot_ne_cycle
    · exact h.slot_lt
    · exact h.cycle_lt
    · exact h.send_lt
    · exact h.slot_not_send
    · exact h.cycle_not_send
    · exact h.slots_default
    · exact h.cycle_default
    · exact h.slot_default
    · constructor
      · intro _ hc
        cases hc
      · intro _
        exact hflag
    · show (sim.events mac.m_slotTimer.m_eventOnFire).inEventQueue = true
      rw [hslot]
      exact h.slot_running
    · show sim.fire mac.m_slotTimer.m_eventOnFire ≤ sim.m_clock + m_DEFAULT_SLOT_TIME
      rw [hslotfire, hclock]
      exact h.slot_soon
    · intro e he hq
      obtain ⟨hold, hf⟩ := hsendq e he hq
      show sim.fire e < sim.fire mac.m_slotTimer.m_eventOnFire
      rw [hf, hslotfire]
      exact h.send_before_slot e he hold
    · intro e he hq
      exact h.send_timer e he (hsendq e he hq).1
    · intro e d q n q' he hq hr hq'
      exact h.armed_alone e d q n q' he (hsendq e (ne_none_of_some (show w.sendEvents e = some (d, q) from he)) hq).1 hr hq'
    · exact h.pending_lt
    · exact h.armed_lt
    · intro q hq
      simp only [Option.some.injEq] at hq
      subst hq
      exact hp
    · intro q n hq hr
      have := (h.pending_request q n hq hr).1
      rw [hnot] at this
      cases this
    · intro e d q n he hq hr
      have := (h.armed_request e d q n he (hsendq e (ne_none_of_some (show w.sendEvents e = some (d, q) from he)) hq).1 hr).1
      rw [hnot] at this
      cases this
    · intro _ hlt
      exact absurd hlt (lt_irrefl _)
    · intro _
      show ((0 : ℕ) : ℚ) * m_DEFAULT_SLOT_TIME
        ≤ sim.fire mac.m_slotTimer.m_eventOnFire
          - sim.fire mac.m_cycleTimer.m_eventOnFire + m_DEFAULT_CYCLE_TIME
      rw [hslotfire, hfire]
      simp only [Nat.cast_zero, zero_mul]
      linarith
    · intro _
      show sim.fire mac.m_cycleTimer.m_eventOnFire ≤ sim.m_clock + m_DEFAULT_CYCLE_TIME
      rw [hfire, hclock]

theorem inv_handleRecvdUpperLayerPacket {mac mac' : RfidReaderMac} {w w' : MacWorld}
    {p : PacketPtr} {b : Bool} (h : ReaderInv mac w) (hp : p < w.nextPacketPtr)
    (hs : mac.handleRecvdUpperLayerPacket w p = .ok (b, mac', w')) : ReaderInv mac' w' := by
  unfold RfidReaderMac.handleRecvdUpperLayerPacket at hs
  split at hs
  · rename_i size appData hdata
    dsimp only at hs
    split at hs
    · cases hs
    · rename_i ok1 mac1 w1 hr
      split at hs
      · cases hs
      · simp only [Except.ok.injEq, Prod.mk.injEq] at hs
        obtain ⟨_, hm, hw⟩ := hs
        subst hm; subst hw
        cases ht : appData.m_type with
        | Read =>
          rw [ht] at hr
          dsimp only at hr
          split at hr
          · cases hr
          · rename_i hnone
            have hnone' : mac.m_currentAppReadPacket = none := by
              cases hx : mac.m_currentAppReadPacket with
              | none => rfl
              | some a => exact absurd (by rw [hx]; simp) hnone
            split at hr
            · cases hr
            · rename_i b0 sim hstart
              obtain ⟨hinv, hfire, hrun, hnoarmed⟩ :=
                @inv_read_accepted mac w p sim b0 appData.m_doEntireReadCycle h hp hnone'
                  hstart
              have henough : RfidReaderMac.isEnoughTimeForContentionCycle
                  { mac with
                    m_currentAppReadPacket := some p,
                    m_doEntireReadCycle := appData.m_doEntireReadCycle }
                  { w.blockUpperQueues with sim := sim } = .ok true := by
                unfold RfidReaderMac.isEnoughTimeForContentionCycle
                rw [timeRemaining_ok]
                · simp only [hrun, if_true, h.slots_default]
                  rw [← hfire]
                  simp only [m_DEFAULT_NUMBER_OF_SLOTS, m_DEFAULT_SLOT_TIME, m_DEFAULT_CYCLE_TIME]
                  norm_num
                · intro _
                  rw [← hfire]
                  simp only [m_DEFAULT_CYCLE_TIME]
                  norm_num
              rw [henough] at hr
              dsimp only at hr
              split at hr
              · cases hr
              · rename_i mac2 w3 hnext
                simp only [Except.ok.injEq, Prod.mk.injEq] at hr
                obtain ⟨_, hm, hw⟩ := hr
                subst hm; subst hw
                rw [← startNextContentionCycle_reset] at hnext
                refine inv_startNextContentionCycle hinv ?_ ?_ hnext
                · exact henough
                · exact hnoarmed
        | Reset =>
          rw [ht] at hr
          dsimp only at hr
          split at hr
          · cases hr
          · simp only [Except.ok.injEq, Prod.mk.injEq] at hr
            obtain ⟨_, hm, hw⟩ := hr
            subst hm; subst hw
            refine inv_of_packets_step h rfl rfl rfl (le_refl _) ?_ rfl rfl rfl rfl rfl rfl
              rfl rfl rfl ?_
            · intro q _ n hr
              by_cases hq : q = p
              · subst hq
                rw [requestSlots_addGenericHeader] at hr
                cases hr
              · rw [requestSlots_congr_packet (w := w)] at hr
                · exact hr
                · simp [RfidReaderMac.addGenericHeader, MacWorld.setPacket, setAt, hq,
                    MacWorld.blockUpperQueues, MacWorld.call]
            · intro q hq
              simp only [Option.some.injEq] at hq
              subst hq
              refine ⟨hp, Or.inl ?_⟩
              intro n hn
              rw [requestSlots_addGenericHeader] at hn
              cases hn
        | NoType =>
          rw [ht] at hr
          simp only [Except.ok.injEq, Prod.mk.injEq] at hr
          obtain ⟨_, hm, hw⟩ := hr
          subst hm; subst hw
          exact h
  · simp only [Except.ok.injEq, Prod.mk.injEq] at hs
    obtain ⟨_, hm, hw⟩ := hs
    subst hm; subst hw
    exact h

end ReaderInvUpper

section ReaderInvDispatch

theorem inv_pop_other {mac : RfidReaderMac} {w : MacWorld} {e : EventId} {rest : List EventId}
    (h : ReaderInv mac w) (hq : w.sim.m_eventPtrQueue = e :: rest)
    (hslot : e ≠ mac.m_slotTimer.m_eventOnFire) (hcycle : e ≠ mac.m_cycleTimer.m_eventOnFire)
    (s' : Simulator)
    (hs' : s' = { (w.sim.getNextEvent e rest).2 with m_clock := w.sim.fire e }) :
    ReaderInv mac { w with sim := s' } := by
  obtain ⟨hwf, hfut, hfl, hle, hclock, hflag, hfire, hother, hqueue, hnot, hmin, hsub⟩ :=
    pop_facts hq h.wf h.future h.flags s' hs'
  have hrunS : mac.m_slotTimer.isRunning s' = mac.m_slotTimer.isRunning w.sim := by
    unfold Timer.isRunning
    rw [hother _ (Ne.symm hslot)]
  have hrunC : mac.m_cycleTimer.isRunning s' = mac.m_cycleTimer.isRunning w.sim := by
    unfold Timer.isRunning
    rw [hother _ (Ne.symm hcycle)]
  have hin : ∀ y, y ∈ s'.m_eventPtrQueue → y ∈ w.sim.m_eventPtrQueue :=
    fun y hy => hsub y (by rw [← hqueue]; exact hy)
  constructor
  · exact hwf
  · exact hfut
  · exact hfl
  · intro y hy
    exact h.queued_lt y (hin y hy)
  · exact h.slot_ne_cycle
  · exact h.slot_lt
  · exact h.cycle_lt
  · exact h.send_lt
  · exact h.slot_not_send
  · exact h.cycle_not_send
  · exact h.slots_default
  · exact h.cycle_default
  · exact h.slot_default
  · show mac.m_cycleTimer.isRunning s' = true ↔ _
    rw [hrunC]
    exact h.read_iff
  · show mac.m_slotTimer.isRunning s' = true
    rw [hrunS]
    exact h.slot_running
  · show s'.fire mac.m_slotTimer.m_eventOnFire ≤ s'.m_clock + m_DEFAULT_SLOT_TIME
    rw [hfire, hclock]
    have := h.slot_soon
    linarith
  · intro y hy hyq
    show s'.fire y < s'.fire mac.m_slotTimer.m_eventOnFire
    rw [hfire, hfire]
    exact h.send_before_slot y hy (hin y hyq)
  · intro y hy hyq
    exact h.send_timer y hy (hin y hyq)
  · intro y d p n q hy hyq hr hpq
    exact h.armed_alone y d p n q hy (hin y hyq) hr hpq
  · exact h.pending_lt
  · exact h.armed_lt
  · exact h.app_lt
  · intro p n hp hr
    show mac.m_cycleTimer.isRunning s' = true ∧ _ ∧ _ ∧
      s'.fire mac.m_slotTimer.m_eventOnFire + _ < s'.fire mac.m_cycleTimer.m_eventOnFire
    rw [hrunC, hfire, hfire]
    exact h.pending_request p n hp hr
  · intro y d p n hy hyq hr
    show mac.m_cycleTimer.isRunning s' = true ∧ _ ∧
      s'.fire mac.m_slotTimer.m_eventOnFire + _ < s'.fire mac.m_cycleTimer.m_eventOnFire
    rw [hrunC, hfire, hfire]
    exact h.armed_request y d p n hy (hin y hyq) hr
  · show mac.m_cycleTimer.isRunning s' = true → _ →
      s'.fire mac.m_slotTimer.m_eventOnFire + _ < s'.fire mac.m_cycleTimer.m_eventOnFire
    rw [hrunC, hfire, hfire]
    exact h.in_cycle
  · show mac.m_cycleTimer.isRunning s' = true → _ ≤
      s'.fire mac.m_slotTimer.m_eventOnFire - s'.fire mac.m_cycleTimer.m_eventOnFire + _
    rw [hrunC, hfire, hfire]
    exact h.slot_count
  · intro hr
    show s'.fire mac.m_cycleTimer.m_eventOnFire ≤ s'.m_clock + m_DEFAULT_CYCLE_TIME
    rw [hfire, hclock]
    have hr' : mac.m_cycleTimer.isRunning w.sim = true := by
      rw [← hrunC]
      exact hr
    have := h.read_recent hr'
    linarith

theorem inv_dispatch_send {mac mac' : RfidReaderMac} {w w' : MacWorld} {e : EventId}
    {rest : List EventId} {d : Directions} {p : PacketPtr} {b : Bool}
    (h : ReaderInv mac w) (hq : w.sim.m_eventPtrQueue = e :: rest)
    (hsend : w.sendEvents e = some (d, p)) (s' : Simulator)
    (hs' : s' = { (w.sim.getNextEvent e rest).2 with m_clock := w.sim.fire e })
    (hs : mac.sendToLinkLayer { w with sim := s' } d p = .ok (b, mac', w')) :
    ReaderInv mac' w' := by
  have hne : w.sendEvents e ≠ none := ne_none_of_some hsend
  have hslot : e ≠ mac.m_slotTimer.m_eventOnFire := by
    intro heq
    rw [heq] at hne
    exact hne h.slot_not_send
  have hcycle : e ≠ mac.m_cycleTimer.m_eventOnFire := by
    intro heq
    rw [heq] at hne
    exact hne h.cycle_not_send
  have hmem : e ∈ w.sim.m_eventPtrQueue := by
    rw [hq]
    exact List.mem_cons_self _ _
  obtain ⟨hwf, hfut, hfl, hle, hclock, hflag, hfire, hother, hqueue, hnot, hmin, hsub⟩ :=
    pop_facts hq h.wf h.future h.flags s' hs'
  have hrunC : mac.m_cycleTimer.isRunning s' = mac.m_cycleTimer.isRunning w.sim := by
    unfold Timer.isRunning
    rw [hother _ (Ne.symm hcycle)]
  refine inv_sendToLinkLayer (inv_pop_other h hq hslot hcycle s' hs') ?_ ?_ hs
  · intro y hy
    have hy' : y ∈ rest := by
      rw [← hqueue]
      exact hy
    cases hx : w.sendEvents y with
    | none => rfl
    | some v =>
      have t1 := h.send_timer y (ne_none_of_some hx) (hsub y hy')
      have t2 := h.send_timer e hne hmem
      rw [t1] at t2
      simp only [Option.some.injEq, Timer.mk.injEq] at t2
      rw [t2] at hy'
      exact absurd hy' hnot
  · intro n hr
    obtain ⟨h1, h2, h3⟩ := h.armed_request e d p n hsend hmem hr
    refine ⟨?_, h2, ?_, ?_⟩
    · show mac.m_cycleTimer.isRunning s' = true
      rw [hrunC]
      exact h1
    · show s'.fire mac.m_slotTimer.m_eventOnFire + _ < s'.fire mac.m_cycleTimer.m_eventOnFire
      rw [hfire, hfire]
      exact h3
    · intro q hpq
      exact h.armed_alone e d p n q hsend hmem hr hpq

theorem dispatch_cycle {mac : RfidReaderMac} {w : MacWorld} {rest : List EventId}
    (h : ReaderInv mac w)
    (hq : w.sim.m_eventPtrQueue = mac.m_cycleTimer.m_eventOnFire :: rest) :
    mac.inContentionCycle = false ∧
      ∀ s', s' = { (w.sim.getNextEvent mac.m_cycleTimer.m_eventOnFire rest).2 with
          m_clock := w.sim.fire mac.m_cycleTimer.m_eventOnFire } →
        ReaderInv { mac with m_currentAppReadPacket := none }
          ((({ w with sim := s' } : MacWorld).unblockUpperQueues).call .signalReadEnd) := by
  have hmem : mac.m_cycleTimer.m_eventOnFire ∈ w.sim.m_eventPtrQueue := by
    rw [hq]
    exact List.mem_cons_self _ _
  have hrun : mac.m_cycleTimer.isRunning w.sim = true := h.wf.flagged _ hmem
  have hslotq := h.flags _ h.slot_running
  have hslotrest : mac.m_slotTimer.m_eventOnFire ∈ rest := by
    rw [hq] at hslotq
    rcases List.mem_cons.1 hslotq with heq | hr
    · exact absurd heq h.slot_ne_cycle
    · exact hr
  have hsorted := h.wf.sorted
  rw [hq, List.pairwise_cons] at hsorted
  have hle := hsorted.1 _ hslotrest
  have hslotpos : (0 : ℚ) < m_DEFAULT_SLOT_TIME := by
    unfold m_DEFAULT_SLOT_TIME
    norm_num
  constructor
  · unfold SlottedMac.inContentionCycle
    rw [decide_eq_false_iff_not]
    intro hlt
    have := h.in_cycle hrun hlt
    have hc : (mac.m_currentSlotNumber : ℚ) + 1 ≤ (mac.m_numberOfSlots : ℚ) := by
      exact_mod_cast hlt
    have : 0 ≤ ((mac.m_numberOfSlots : ℚ) - (mac.m_currentSlotNumber : ℚ) - 1)
        * m_DEFAULT_SLOT_TIME := mul_nonneg (by linarith) (le_of_lt hslotpos)
    linarith
  · intro s' hs'
    obtain ⟨hwf, hfut, hfl, hle0, hclock, hflag, hfire, hother, hqueue, hnot, hmin, hsub⟩ :=
      pop_facts hq h.wf h.future h.flags s' hs'
    have hrunS : mac.m_slotTimer.isRunning s' = mac.m_slotTimer.isRunning w.sim := by
      unfold Timer.isRunning
      rw [hother _ h.slot_ne_cycle]
    have hin : ∀ y, y ∈ s'.m_eventPtrQueue → y ∈ w.sim.m_eventPtrQueue :=
      fun y hy => hsub y (by rw [← hqueue]; exact hy)
    have hstop : mac.m_cycleTimer.isRunning s' = false := hflag
    have hnoPending : ∀ p n, mac.m_packetToTransmit = some p → w.requestSlots p ≠ some n := by
      intro p n hp hr
      obtain ⟨_, _, hn, ht⟩ := h.pending_request p n hp hr
      subst hn
      simp only [m_DEFAULT_NUMBER_OF_SLOTS] at ht
      push_cast at ht
      linarith
    have hnoArmed : ∀ y d p n, w.sendEvents y = some (d, p) → y ∈ w.sim.m_eventPtrQueue →
        w.requestSlots p ≠ some n := by
      intro y d p n hy hyq hr
      obtain ⟨_, hn, ht⟩ := h.armed_request y d p n hy hyq hr
      subst hn
      simp only [m_DEFAULT_NUMBER_OF_SLOTS] at ht
      push_cast at ht
      linarith
    constructor
    · exact hwf
    · exact hfut
    · exact hfl
    · intro y hy
      exact h.queued_lt y (hin y hy)
    · exact h.slot_ne_cycle
    · exact h.slot_lt
    · exact h.cycle_lt
    · exact h.send_lt
    · exact h.slot_not_send
    · exact h.cycle_not_send
    · exact h.slots_default
    · exact h.cycle_default
    · exact h.slot_default
    · show mac.m_cycleTimer.isRunning s' = true ↔ _
      rw [hstop]
      simp
    · show mac.m_slotTimer.isRunning s' = true
      rw [hrunS]
      exact h.slot_running
    · show s'.fire mac.m_slotTimer.m_eventOnFire ≤ s'.m_clock + m_DEFAULT_SLOT_TIME
      rw [hfire, hclock]
      have := h.slot_soon
      linarith
    · intro y hy hyq
      show s'.fire y < s'.fire mac.m_slotTimer.m_eventOnFire
      rw [hfire, hfire]
      exact h.send_before_slot y hy (hin y hyq)
    · intro y hy hyq
      exact h.send_timer y hy (hin y hyq)
    · intro y d p n q hy hyq hr hpq
      exact h.armed_alone y d p n q hy (hin y hyq) hr hpq
    · exact h.pending_lt
    · exact h.armed_lt
    · intro p hp
      cases hp
    · intro p n hp hr
      exact absurd hr (hnoPending p n hp)
    · intro y d p n hy hyq hr
      exact absurd hr (hnoArmed y d p n hy (hin y hyq))
    · intro hr
      have hr' : mac.m_cycleTimer.isRunning s' = true := hr
      rw [hstop] at hr'
      cases hr'
    · intro hr
      have hr' : mac.m_cycleTimer.isRunning s' = true := hr
      rw [hstop] at hr'
      cases hr'
    · intro hr
      have hr' : mac.m_cycleTimer.isRunning s' = true := hr
      rw [hstop] at hr'
      cases hr'

theorem fresh_event_facts {s : Simulator} {e : EventId} (hwf : s.WF) (hfut : s.Future)
    (hfl : s.FlagsExact) (hnot : e ∉ s.m_eventPtrQueue) (s1 : Simulator)
    (hs1 : s1 = { s with events := setEvent s.events e Event.create }) :
    s1.WF ∧ s1.Future ∧ s1.FlagsExact ∧ s1.m_clock = s.m_clock ∧
      s1.m_eventPtrQueue = s.m_eventPtrQueue ∧ (∀ i, i ≠ e → s1.events i = s.events i) ∧
      (s1.events e).inEventQueue = false := by
  subst hs1
  have hother : ∀ i, i ≠ e → setEvent s.events e Event.create i = s.events i := by
    intro i hi
    simp [setEvent, hi]
  have hfire : ∀ i ∈ s.m_eventPtrQueue,
      Simulator.fire { s with events := setEvent s.events e Event.create } i = s.fire i := by
    intro i hi
    have hie : i ≠ e := fun heq => hnot (heq ▸ hi)
    unfold Simulator.fire
    show (setEvent s.events e Event.create i).m_timeToFire = _
    rw [hother i hie]
  refine ⟨⟨?_, hwf.nodup, ?_⟩, ?_, ?_, rfl, rfl, hother, ?_⟩
  · refine List.Pairwise.imp_of_mem ?_ hwf.sorted
    intro a b ha hb hab
    rw [hfire a ha, hfire b hb]
    exact hab
  · intro i hi
    have hie : i ≠ e := fun heq => hnot (heq ▸ hi)
    show (setEvent s.events e Event.create i).m_inEventQueue = true
    rw [hother i hie]
    exact hwf.flagged i hi
  · intro i hi
    show s.m_clock ≤ _
    rw [hfire i hi]
    exact hfut i hi
  · intro i hi
    by_cases hie : i = e
    · subst hie
      simp [setEvent, Event.create] at hi
    · have hi' : (setEvent s.events e Event.create i).m_inEventQueue = true := hi
      rw [hother i hie] at hi'
      exact hfl i hi'
  · simp [setEvent, Event.create, Event.inEventQueue]

end ReaderInvDispatch

section ReaderSlotStep

/-- The last statement of `beginSlotEvent`: rescheduling the slot timer turns the
intermediate invariant into the invariant between events. -/
theorem inv_of_slotInv {mac : RfidReaderMac} {w : MacWorld} {b : Bool} {sim : Simulator}
    (h : ReaderSlotInv mac w)
    (hs : mac.m_slotTimer.reschedule w.sim mac.getSlotTime = .ok (b, sim)) :
    ReaderInv mac { w with sim := sim } := by
  unfold Timer.reschedule Timer.start at hs
  simp only [h.slot_stopped, Bool.false_eq_true, if_false, Bool.not_false, if_true] at hs
  split at hs
  · cases hs
  · rename_i b1 s2 hsch
    simp only [Except.ok.injEq, Prod.mk.injEq] at hs
    obtain ⟨_, hsim⟩ := hs
    subst hsim
    obtain ⟨hwf, hfut, hfl, hclock, hfire, hflag, hother, hmem, hnotmem, _⟩ :=
      schedule_facts hsch h.wf h.future h.flags
    have hst : mac.getSlotTime = m_DEFAULT_SLOT_TIME := h.slot_default
    rw [hst] at hfire
    have hcyc : s2.events mac.m_cycleTimer.m_eventOnFire
        = w.sim.events mac.m_cycleTimer.m_eventOnFire := hother _ (Ne.symm h.slot_ne_cycle)
    have hcycfire : s2.fire mac.m_cycleTimer.m_eventOnFire
        = w.sim.fire mac.m_cycleTimer.m_eventOnFire := by
      unfold Simulator.fire
      rw [hcyc]
    have hrunC : mac.m_cycleTimer.isRunning s2 = mac.m_cycleTimer.isRunning w.sim := by
      unfold Timer.isRunning
      rw [hcyc]
    have hsendq : ∀ e, w.sendEvents e ≠ none → e ∈ s2.m_eventPtrQueue →
        e ∈ w.sim.m_eventPtrQueue ∧ s2.fire e = w.sim.fire e := by
      intro e he hq
      have hne : e ≠ mac.m_slotTimer.m_eventOnFire := by
        intro heq
        rw [heq] at he
        exact he h.slot_not_send
      rcases (hmem e).1 hq with heq | hold
      · exact absurd heq hne
      · refine ⟨hold, ?_⟩
        unfold Simulator.fire
        rw [hother e hne]
    constructor
    · exact hwf
    · exact hfut
    · exact hfl
    · intro e he
      rcases (hmem e).1 he with heq | hold
      · rw [heq]; exact h.slot_lt
      · exact h.queued_lt e hold
    · exact h.slot_ne_cycle
    · exact h.slot_lt
    · exact h.cycle_lt
    · exact h.send_lt
    · exact h.slot_not_send
    · exact h.cycle_not_send
    · exact h.slots_default
    · exact h.cycle_default
    · exact h.slot_default
    · show mac.m_cycleTimer.isRunning s2 = true ↔ _
      rw [hrunC]
      exact h.read_iff
    · exact hflag
    · show s2.fire mac.m_slotTimer.m_eventOnFire ≤ s2.m_clock + m_DEFAULT_SLOT_TIME
      rw [hfire, hclock]
    · intro e he hq
      obtain ⟨hold, hf⟩ := hsendq e he hq
      show s2.fire e < s2.fire mac.m_slotTimer.m_eventOnFire
      rw [hf, hfire]
      exact h.send_before_slot e he hold
    · intro e he hq
      exact h.send_timer e he (hsendq e he hq).1
    · intro e d q n q' he hq hr hq'
      exact h.armed_alone e d q n q' he (hsendq e (ne_none_of_some he) hq).1 hr hq'
    · exact h.pending_lt
    · exact h.armed_lt
    · exact h.app_lt
    · intro q n hq hr
      show mac.m_cycleTimer.isRunning s2 = true ∧ _ ∧ _ ∧
        s2.fire mac.m_slotTimer.m_eventOnFire + _ < s2.fire mac.m_cycleTimer.m_eventOnFire
      rw [hrunC, hfire, hcycfire]
      exact h.pending_request q n hq hr
    · intro e d q n he hq hr
      show mac.m_cycleTimer.isRunning s2 = true ∧ _ ∧
        s2.fire mac.m_slotTimer.m_eventOnFire + _ < s2.fire mac.m_cycleTimer.m_eventOnFire
      rw [hrunC, hfire, hcycfire]
      exact h.armed_request e d q n he (hsendq e (ne_none_of_some he) hq).1 hr
    · show mac.m_cycleTimer.isRunning s2 = true → _ →
        s2.fire mac.m_slotTimer.m_eventOnFire + _ < s2.fire mac.m_cycleTimer.m_eventOnFire
      rw [hrunC, hfire, hcycfire]
      exact h.in_cycle
    · show mac.m_cycleTimer.isRunning s2 = true → _ ≤
        s2.fire mac.m_slotTimer.m_eventOnFire - s2.fire mac.m_cycleTimer.m_eventOnFire + _
      rw [hrunC, hfire, hcycfire]
      exact h.slot_count
    · show mac.m_cycleTimer.isRunning s2 = true →
        s2.fire mac.m_cycleTimer.m_eventOnFire ≤ s2.m_clock + m_DEFAULT_CYCLE_TIME
      rw [hrunC, hcycfire, hclock]
      exact h.read_recent

/-- The slot event has been taken from the queue and the slot number incremented;
no REQUEST waits in `m_packetToTransmit`. -/
theorem slotInv_pop {mac : RfidReaderMac} {w : MacWorld} {rest : List EventId}
    (h : ReaderInv mac w)
    (hq : w.sim.m_eventPtrQueue = mac.m_slotTimer.m_eventOnFire :: rest)
    (hnoreq : ∀ q n, mac.m_packetToTransmit = some q → w.requestSlots q ≠ some n)
    (s' : Simulator)
    (hs' : s' = { (w.sim.getNextEvent mac.m_slotTimer.m_eventOnFire rest).2 with
      m_clock := w.sim.fire mac.m_slotTimer.m_eventOnFire }) :
    ReaderSlotInv
        { mac with m_currentSlotNumber := (mac.m_currentSlotNumber + 1) % 2 ^ 32 }
        { w with sim := s' } ∧
      (∀ y ∈ s'.m_eventPtrQueue, w.sendEvents y = none) := by
  obtain ⟨hwf, hfut, hfl, hle, hclock, hflag, hfire, hother, hqueue, hnot, hmin, hsub⟩ :=
    pop_facts hq h.wf h.future h.flags s' hs'
  have hrunC : mac.m_cycleTimer.isRunning s' = mac.m_cycleTimer.isRunning w.sim := by
    unfold Timer.isRunning
    rw [hother _ (Ne.symm h.slot_ne_cycle)]
  have hin : ∀ y, y ∈ s'.m_eventPtrQueue → y ∈ w.sim.m_eventPtrQueue :=
    fun y hy => hsub y (by rw [← hqueue]; exact hy)
  have hnosend : ∀ y ∈ s'.m_eventPtrQueue, w.sendEvents y = none := by
    intro y hy
    cases hx : w.sendEvents y with
    | none => rfl
    | some v =>
      have h1 := h.send_before_slot y (ne_none_of_some hx) (hin y hy)
      have h2 := hmin y (by rw [← hqueue]; exact hy)
      exact absurd h1 (not_lt.2 h2)
  have hslotpos : (0 : ℚ) < m_DEFAULT_SLOT_TIME := by
    unfold m_DEFAULT_SLOT_TIME
    norm_num
  have hnowrap : mac.m_cycleTimer.isRunning w.sim = true →
      (mac.m_currentSlotNumber + 1) % 2 ^ 32 = mac.m_currentSlotNumber + 1 := by
    intro hr
    have hcq := h.flags _ hr
    have hcrest : mac.m_cycleTimer.m_eventOnFire ∈ rest := by
      rw [hq] at hcq
      rcases List.mem_cons.1 hcq with heq | hr
      · exact absurd heq.symm h.slot_ne_cycle
      · exact hr
    have h1 := hmin _ hcrest
    have h2 := h.slot_count hr
    have h3 : (mac.m_currentSlotNumber : ℚ) ≤ 2625 := by
      simp only [m_DEFAULT_SLOT_TIME, m_DEFAULT_CYCLE_TIME] at h2
      linarith
    have h4 : mac.m_currentSlotNumber ≤ 2625 := by exact_mod_cast h3
    apply Nat.mod_eq_of_lt
    omega
  refine ⟨?_, hnosend⟩
  constructor
  · exact hwf
  · exact hfut
  · exact hfl
  · intro y hy
    exact h.queued_lt y (hin y hy)
  · exact h.slot_ne_cycle
  · exact h.slot_lt
  · exact h.cycle_lt
  · exact h.send_lt
  · exact h.slot_not_send
  · exact h.cycle_not_send
  · exact h.slots_default
  · exact h.cycle_default
  · exact h.slot_default
  · show mac.m_cycleTimer.isRunning s' = true ↔ _
    rw [hrunC]
    exact h.read_iff
  · exact hflag
  · intro y hy hyq
    exact absurd (hnosend y hyq) hy
  · intro y hy hyq
    exact absurd (hnosend y hyq) hy
  · intro y d p n q hy hyq
    exact absurd (hnosend y hyq) (ne_none_of_some hy)
  · exact h.pending_lt
  · exact h.armed_lt
  · exact h.app_lt
  · intro p n hp hr
    exact absurd hr (hnoreq p n hp)
  · intro y d p n hy hyq
    exact absurd (hnosend y hyq) (ne_none_of_some hy)
  · show mac.m_cycleTimer.isRunning s' = true →
      (mac.m_currentSlotNumber + 1) % 2 ^ 32 < mac.m_numberOfSlots →
      s'.m_clock + m_DEFAULT_SLOT_TIME
          + ((mac.m_numberOfSlots : ℚ)
              - (((mac.m_currentSlotNumber + 1) % 2 ^ 32 : ℕ) : ℚ) - 1) * m_DEFAULT_SLOT_TIME
        < s'.fire mac.m_cycleTimer.m_eventOnFire
    rw [hrunC, hfire, hclock]
    intro hr
    rw [hnowrap hr]
    intro hlt
    have := h.in_cycle hr (Nat.lt_of_succ_lt hlt)
    push_cast
    linarith
  · show mac.m_cycleTimer.isRunning s' = true →
      (((mac.m_currentSlotNumber + 1) % 2 ^ 32 : ℕ) : ℚ) * m_DEFAULT_SLOT_TIME
        ≤ s'.m_clock + m_DEFAULT_SLOT_TIME - s'.fire mac.m_cycleTimer.m_eventOnFire
          + m_DEFAULT_CYCLE_TIME
    rw [hrunC, hfire, hclock]
    intro hr
    rw [hnowrap hr]
    have := h.slot_count hr
    push_cast
    linarith
  · show mac.m_cycleTimer.isRunning s' = true →
      s'.fire mac.m_cycleTimer.m_eventOnFire ≤ s'.m_clock + m_DEFAULT_CYCLE_TIME
    rw [hrunC, hfire, hclock]
    intro hr
    have := h.read_recent hr
    linarith

end ReaderSlotStep

section ReaderSlotBranches

theorem startSendTimer_inv {mac : SlottedMac} {w w1 : MacWorld} {d : Directions}
    {p : PacketPtr} {delay : SimTime} {b : Bool} {base : SlottedMac}
    (hs : mac.startSendTimer w d p delay = .ok (b, base, w1)) :
    ∃ sim, ({ w.sim with events := setEvent w.sim.events w.nextEventPtr Event.create } :
          Simulator).scheduleEvent w.nextEventPtr delay = .ok (b, sim) ∧
      base = { mac with m_sendTimer := some { m_eventOnFire := w.nextEventPtr } } ∧
      w1 = { w with
        nextEventPtr := w.nextEventPtr + 1
        sendEvents := setAt w.sendEvents w.nextEventPtr (some (d, p))
        sim := sim } := by
  unfold SlottedMac.startSendTimer at hs
  dsimp only at hs
  split_ifs at hs with hrun
  simp only [MacWorld.newSendEvent, Timer.start, Timer.isRunning, setEvent, if_true,
    Event.create, Event.inEventQueue, Bool.not_false] at hs
  split at hs
  · cases hs
  · rename_i b1 sim hsch
    simp only [Except.ok.injEq, Prod.mk.injEq] at hs
    obtain ⟨hb, hm, hw⟩ := hs
    subst hb; subst hm; subst hw
    exact ⟨sim, hsch, rfl, rfl⟩

/-- The send timer is started inside `beginSlotEvent`. -/
theorem slotInv_arm {m : RfidReaderMac} {w : MacWorld} {d : Directions} {p : PacketPtr}
    {b : Bool} {sim : Simulator} (h : ReaderSlotInv m w)
    (hnosend : ∀ y ∈ w.sim.m_eventPtrQueue, w.sendEvents y = none)
    (hpend : m.m_packetToTransmit = none) (hp : p < w.nextPacketPtr)
    (hreq : ∀ n, w.requestSlots p = some n →
      m.m_cycleTimer.isRunning w.sim = true ∧ n = m_DEFAULT_NUMBER_OF_SLOTS ∧
        (w.sim.m_clock + m_DEFAULT_SLOT_TIME) + ((n : ℚ) - 1) * m_DEFAULT_SLOT_TIME
          < w.sim.fire m.m_cycleTimer.m_eventOnFire)
    (hs : ({ w.sim with events := setEvent w.sim.events w.nextEventPtr Event.create } :
          Simulator).scheduleEvent w.nextEventPtr m_READER_IFS = .ok (b, sim)) :
    ReaderSlotInv { m with m_sendTimer := some { m_eventOnFire := w.nextEventPtr } }
      { w with
        nextEventPtr := w.nextEventPtr + 1
        sendEvents := setAt w.sendEvents w.nextEventPtr (some (d, p))
        sim := sim } := by
  have hnotq : w.nextEventPtr ∉ w.sim.m_eventPtrQueue :=
    fun hmem => absurd (h.queued_lt _ hmem) (lt_irrefl _)
  obtain ⟨hwf1, hfut1, hfl1, hclock1, hqueue1, hother1, _⟩ :=
    fresh_event_facts h.wf h.future h.flags hnotq _ rfl
  obtain ⟨hwf, hfut, hfl, hclock, hfire, hflag, hother, hmem, _, _⟩ :=
    schedule_facts hs hwf1 hfut1 hfl1
  rw [hclock1] at hclock hfire
  have hev : ∀ i, i ≠ w.nextEventPtr → sim.events i = w.sim.events i := by
    intro i hi
    rw [hother i hi]
    exact hother1 i hi
  have hslotne : m.m_slotTimer.m_eventOnFire ≠ w.nextEventPtr := Nat.ne_of_lt h.slot_lt
  have hcycne : m.m_cycleTimer.m_eventOnFire ≠ w.nextEventPtr := Nat.ne_of_lt h.cycle_lt
  have hcycfire : sim.fire m.m_cycleTimer.m_eventOnFire
      = w.sim.fire m.m_cycleTimer.m_eventOnFire := by
    unfold Simulator.fire
    rw [hev _ hcycne]
  have hrunC : m.m_cycleTimer.isRunning sim = m.m_cycleTimer.isRunning w.sim := by
    unfold Timer.isRunning
    rw [hev _ hcycne]
  have hrunS : m.m_slotTimer.isRunning sim = m.m_slotTimer.isRunning w.sim := by
    unfold Timer.isRunning
    rw [hev _ hslotne]
  have hsendother : ∀ y, y ≠ w.nextEventPtr →
      setAt w.sendEvents w.nextEventPtr (some (d, p)) y = w.sendEvents y := by
    intro y hy
    simp [setAt, hy]
  have honly : ∀ y, setAt w.sendEvents w.nextEventPtr (some (d, p)) y ≠ none →
      y ∈ sim.m_eventPtrQueue → y = w.nextEventPtr := by
    intro y hy hyq
    by_contra hne
    rw [hsendother y hne] at hy
    rcases (hmem y).1 hyq with heq | hold
    · exact hne heq
    · rw [hqueue1] at hold
      exact hy (hnosend y hold)
  have hifs : m_READER_IFS < m_DEFAULT_SLOT_TIME := by
    unfold m_READER_IFS m_DEFAULT_SLOT_TIME
    norm_num
  constructor
  · exact hwf
  · exact hfut
  · exact hfl
  · intro y hy
    rcases (hmem y).1 hy with heq | hold
    · rw [heq]
      exact Nat.lt_succ_self _
    · rw [hqueue1] at hold
      exact Nat.lt_succ_of_lt (h.queued_lt y hold)
  · exact h.slot_ne_cycle
  · exact Nat.lt_succ_of_lt h.slot_lt
  · exact Nat.lt_succ_of_lt h.cycle_lt
  · intro y hy
    by_cases hye : y = w.nextEventPtr
    · rw [hye]
      exact Nat.lt_succ_self _
    · have hy' : setAt w.sendEvents w.nextEventPtr (some (d, p)) y ≠ none := hy
      rw [hsendother y hye] at hy'
      exact Nat.lt_succ_of_lt (h.send_lt y hy')
  · show setAt w.sendEvents w.nextEventPtr (some (d, p)) m.m_slotTimer.m_eventOnFire = none
    rw [hsendother _ hslotne]
    exact h.slot_not_send
  · show setAt w.sendEvents w.nextEventPtr (some (d, p)) m.m_cycleTimer.m_eventOnFire = none
    rw [hsendother _ hcycne]
    exact h.cycle_not_send
  · exact h.slots_default
  · exact h.cycle_default
  · exact h.slot_default
  · show m.m_cycleTimer.isRunning sim = true ↔ _
    rw [hrunC]
    exact h.read_iff
  · show m.m_slotTimer.isRunning sim = false
    rw [hrunS]
    exact h.slot_stopped
  · intro y hy hyq
    have hye := honly y hy hyq
    show sim.fire y < sim.m_clock + m_DEFAULT_SLOT_TIME
    rw [hye, hfire, hclock]
    linarith
  · intro y hy hyq
    have hye := honly y hy hyq
    rw [hye]
  · intro y d' q n q' _ _ _ hq'
    have hq'' : m.m_packetToTransmit = some q' := hq'
    rw [hpend] at hq''
    cases hq''
  · intro q hq
    have hq' : m.m_packetToTransmit = some q := hq
    rw [hpend] at hq'
    cases hq'
  · intro y d' q hy
    by_cases hye : y = w.nextEventPtr
    · have hy' : setAt w.sendEvents w.nextEventPtr (some (d, p)) y = some (d', q) := hy
      rw [hye] at hy'
      simp only [setAt, if_true, Option.some.injEq, Prod.mk.injEq] at hy'
      rw [← hy'.2]
      exact hp
    · have hy' : setAt w.sendEvents w.nextEventPtr (some (d, p)) y = some (d', q) := hy
      rw [hsendother y hye] at hy'
      exact h.armed_lt y d' q hy'
  · exact h.app_lt
  · intro q n hq
    have hq' : m.m_packetToTransmit = some q := hq
    rw [hpend] at hq'
    cases hq'
  · intro y d' q n hy hyq hr
    have hy' : setAt w.sendEvents w.nextEventPtr (some (d, p)) y = some (d', q) := hy
    have hye := honly y (ne_none_of_some hy') hyq
    rw [hye] at hy'
    simp only [setAt, if_true, Option.some.injEq, Prod.mk.injEq] at hy'
    have hr' : w.requestSlots q = some n := hr
    rw [← hy'.2] at hr'
    show m.m_cycleTimer.isRunning sim = true ∧ _ ∧
      sim.m_clock + m_DEFAULT_SLOT_TIME + _ < sim.fire m.m_cycleTimer.m_eventOnFire
    rw [hrunC, hcycfire, hclock]
    exact hreq n hr'
  · show m.m_cycleTimer.isRunning sim = true → _ →
      sim.m_clock + m_DEFAULT_SLOT_TIME + _ < sim.fire m.m_cycleTimer.m_eventOnFire
    rw [hrunC, hcycfire, hclock]
    exact h.in_cycle
  · show m.m_cycleTimer.isRunning sim = true → _ ≤
      sim.m_clock + m_DEFAULT_SLOT_TIME - sim.fire m.m_cycleTimer.m_eventOnFire + _
    rw [hrunC, hcycfire, hclock]
    exact h.slot_count
  · show m.m_cycleTimer.isRunning sim = true →
      sim.fire m.m_cycleTimer.m_eventOnFire ≤ sim.m_clock + m_DEFAULT_CYCLE_TIME
    rw [hrunC, hcycfire, hclock]
    exact h.read_recent

end ReaderSlotBranches

section ReaderSlotEnd

/-- The end-of-cycle branch of `beginSlotEvent` creates the next REQUEST. -/
theorem slotInv_request {m m' : RfidReaderMac} {w w1 : MacWorld} {pk : PacketPtr}
    (h : ReaderSlotInv m w)
    (hnosend : ∀ y ∈ w.sim.m_eventPtrQueue, w.sendEvents y = none)
    (hslots : m'.m_nextCycleNumberOfSlots = m_DEFAULT_NUMBER_OF_SLOTS)
    (hc : m'.createRequestPacket w = .ok (pk, w1))
    (hrun : m.m_cycleTimer.isRunning w.sim = true)
    (htime : w.sim.m_clock + 11 * m_DEFAULT_SLOT_TIME
      < w.sim.fire m.m_cycleTimer.m_eventOnFire) :
    ReaderSlotInv
      { m with m_packetToTransmit := some pk, m_txSlotNumber := m.m_currentSlotNumber } w1 := by
  obtain ⟨hp, hsim, hsend, hev, hnp, hpk, hreq⟩ := createRequestPacket_inv hc
  constructor
  · rw [hsim]; exact h.wf
  · rw [hsim]; exact h.future
  · rw [hsim]; exact h.flags
  · rw [hsim, hev]; exact h.queued_lt
  · exact h.slot_ne_cycle
  · rw [hev]; exact h.slot_lt
  · rw [hev]; exact h.cycle_lt
  · rw [hsend, hev]; exact h.send_lt
  · rw [hsend]; exact h.slot_not_send
  · rw [hsend]; exact h.cycle_not_send
  · exact h.slots_default
  · exact h.cycle_default
  · exact h.slot_default
  · rw [hsim]; exact h.read_iff
  · rw [hsim]; exact h.slot_stopped
  · rw [hsim, hsend]; exact h.send_before_slot
  · rw [hsim, hsend]; exact h.send_timer
  · intro e d q n q' hq he
    rw [hsend] at hq
    rw [hsim] at he
    exact absurd (hnosend e he) (ne_none_of_some hq)
  · intro q hq
    simp only [Option.some.injEq] at hq
    subst hq
    rw [hnp, hp]
    exact Nat.lt_succ_self _
  · intro e d q hq
    rw [hsend] at hq
    rw [hnp]
    exact Nat.lt_succ_of_lt (h.armed_lt e d q hq)
  · intro q hq
    rw [hnp]
    exact Nat.lt_succ_of_lt (h.app_lt q hq)
  · intro q n hq hr
    simp only [Option.some.injEq] at hq
    subst hq
    rw [hreq, hslots] at hr
    simp only [m_DEFAULT_NUMBER_OF_SLOTS, Option.some.injEq] at hr
    subst hr
    rw [hsim]
    refine ⟨hrun, rfl, rfl, ?_⟩
    simp only [m_DEFAULT_SLOT_TIME] at htime ⊢
    push_cast
    linarith
  · intro e d q n hq he
    rw [hsend] at hq
    rw [hsim] at he
    exact absurd (hnosend e he) (ne_none_of_some hq)
  · rw [hsim]; exact h.in_cycle
  · rw [hsim]; exact h.slot_count
  · rw [hsim]; exact h.read_recent

/-- The end-of-cycle branch of `beginSlotEvent` stops the cycle timer after the
third missed read and ends the read. -/
theorem slotInv_stop {m : RfidReaderMac} {w : MacWorld} (h : ReaderSlotInv m w)
    (hnosend : ∀ y ∈ w.sim.m_eventPtrQueue, w.sendEvents y = none)
    (hpend : m.m_packetToTransmit = none)
    (hrun : m.m_cycleTimer.isRunning w.sim = true) :
    ReaderSlotInv { m with m_currentAppReadPacket := none }
      ((({ w with sim := (m.m_cycleTimer.stop w.sim).2 } : MacWorld).unblockUpperQueues).call
        .signalReadEnd) := by
  obtain ⟨hwf, hfut, hfl, hclock, hstop, hfire, hother, hmem⟩ :=
    stop_facts m.m_cycleTimer h.wf h.future h.flags hrun
  have hin : ∀ y, y ∈ (m.m_cycleTimer.stop w.sim).2.m_eventPtrQueue →
      y ∈ w.sim.m_eventPtrQueue := fun y hy => ((hmem y).1 hy).2
  constructor
  · exact hwf
  · exact hfut
  · exact hfl
  · intro y hy
    exact h.queued_lt y (hin y hy)
  · exact h.slot_ne_cycle
  · exact h.slot_lt
  · exact h.cycle_lt
  · exact h.send_lt
  · exact h.slot_not_send
  · exact h.cycle_not_send
  · exact h.slots_default
  · exact h.cycle_default
  · exact h.slot_default
  · show m.m_cycleTimer.isRunning (m.m_cycleTimer.stop w.sim).2 = true ↔ _
    rw [hstop]
    simp
  · show m.m_slotTimer.isRunning (m.m_cycleTimer.stop w.sim).2 = false
    unfold Timer.isRunning
    rw [hother _ h.slot_ne_cycle]
    exact h.slot_stopped
  · intro y hy hyq
    exact absurd (hnosend y (hin y hyq)) hy
  · intro y hy hyq
    exact absurd (hnosend y (hin y hyq)) hy
  · intro y d p n q hy hyq
    exact absurd (hnosend y (hin y hyq)) (ne_none_of_some hy)
  · exact h.pending_lt
  · exact h.armed_lt
  · intro p hp
    cases hp
  · intro p n hp
    have hp' : m.m_packetToTransmit = some p := hp
    rw [hpend] at hp'
    cases hp'
  · intro y d p n hy hyq
    exact absurd (hnosend y (hin y hyq)) (ne_none_of_some hy)
  · intro hr
    have hr' : m.m_cycleTimer.isRunning (m.m_cycleTimer.stop w.sim).2 = true := hr
    rw [hstop] at hr'
    cases hr'
  · intro hr
    have hr' : m.m_cycleTimer.isRunning (m.m_cycleTimer.stop w.sim).2 = true := hr
    rw [hstop] at hr'
    cases hr'
  · intro hr
    have hr' : m.m_cycleTimer.isRunning (m.m_cycleTimer.stop w.sim).2 = true := hr
    rw [hstop] at hr'
    cases hr'

end ReaderSlotEnd

section ReaderSlotAssembly

theorem slotInv_end_tail {mac3 mac1 : RfidReaderMac} {w w1 : MacWorld} {rest : List EventId}
    (h3 : ReaderInv mac3 w)
    (hq : w.sim.m_eventPtrQueue = mac3.m_slotTimer.m_eventOnFire :: rest)
    (hpend : mac3.m_packetToTransmit = none) (s' : Simulator)
    (hs' : s' = { (w.sim.getNextEvent mac3.m_slotTimer.m_eventOnFire rest).2 with
      m_clock := w.sim.fire mac3.m_slotTimer.m_eventOnFire })
    (hs : (if !mac3.m_doEntireReadCycle && mac3.m_missedReadCount = m_MISSED_READ_THRESHOLD then
        if !mac3.m_cycleTimer.isRunning s' then .error .cycleTimerNotRunning
        else
          mac3.endRequestCycleEvent
            { ({ w with sim := s' } : MacWorld) with sim := (mac3.m_cycleTimer.stop s').2 }
      else
        match mac3.isEnoughTimeForContentionCycle { w with sim := s' } with
        | .error f => .error f
        | .ok true =>
          match mac3.createRequestPacket { w with sim := s' } with
          | .error f => .error f
          | .ok (packet, w1) =>
            .ok ({ mac3 with
              m_packetToTransmit := some packet
              m_txSlotNumber := (mac3.m_currentSlotNumber + 1) % 2 ^ 32 }, w1)
        | .ok false =>
          if !mac3.m_cycleTimer.isRunning s' && ({ w with sim := s' } : MacWorld).getQueueIsBlocked
          then .error .queueIsBlocked
          else .ok (mac3, { w with sim := s' })) = .ok (mac1, w1)) :
    ReaderSlotInv
      { mac1 with m_currentSlotNumber := (mac1.m_currentSlotNumber + 1) % 2 ^ 32 } w1 := by
  obtain ⟨hS0, hnosend⟩ := slotInv_pop h3 hq
    (fun q n hpq => by rw [hpend] at hpq; cases hpq) s' hs'
  by_cases hthr : (!mac3.m_doEntireReadCycle
      && decide (mac3.m_missedReadCount = m_MISSED_READ_THRESHOLD)) = true
  · -- the third missed read
    rw [if_pos hthr] at hs
    by_cases hnr : (!mac3.m_cycleTimer.isRunning s') = true
    · rw [if_pos hnr] at hs
      cases hs
    · rw [if_neg hnr] at hs
      have hrun : mac3.m_cycleTimer.isRunning s' = true := by
        cases hx : mac3.m_cycleTimer.isRunning s' with
        | true => rfl
        | false => rw [hx] at hnr; simp at hnr
      unfold RfidReaderMac.endRequestCycleEvent at hs
      split_ifs at hs
      simp only [Except.ok.injEq, Prod.mk.injEq] at hs
      obtain ⟨hm, hw⟩ := hs
      subst hm; subst hw
      exact slotInv_stop hS0 hnosend hpend hrun
  · rw [if_neg hthr] at hs
    cases henough : mac3.isEnoughTimeForContentionCycle { w with sim := s' } with
    | error f =>
      rw [henough] at hs
      cases hs
    | ok enough =>
      rw [henough] at hs
      cases enough with
      | true =>
        dsimp only at hs
        obtain ⟨hrun, htime⟩ := isEnough_true_inv h3.slots_default henough
        split at hs
        · cases hs
        · rename_i pk w2 hc
          simp only [Except.ok.injEq, Prod.mk.injEq] at hs
          obtain ⟨hm, hw⟩ := hs
          subst hm; subst hw
          exact slotInv_request hS0 hnosend h3.slots_default hc hrun htime
      | false =>
        dsimp only at hs
        split_ifs at hs
        simp only [Except.ok.injEq, Prod.mk.injEq] at hs
        obtain ⟨hm, hw⟩ := hs
        subst hm; subst hw
        exact hS0

end ReaderSlotAssembly

section ReaderSlotDispatch

theorem slotInv_end {mac mac1 : RfidReaderMac} {w w1 : MacWorld} {rest : List EventId}
    (h : ReaderInv mac w)
    (hq : w.sim.m_eventPtrQueue = mac.m_slotTimer.m_eventOnFire :: rest)
    (s' : Simulator)
    (hs' : s' = { (w.sim.getNextEvent mac.m_slotTimer.m_eventOnFire rest).2 with
      m_clock := w.sim.fire mac.m_slotTimer.m_eventOnFire })
    (hs : mac.endOfContentionCycle { w with sim := s' } = .ok (mac1, w1)) :
    ReaderSlotInv
      { mac1 with m_currentSlotNumber := (mac1.m_currentSlotNumber + 1) % 2 ^ 32 } w1 := by
  unfold RfidReaderMac.endOfContentionCycle at hs
  by_cases hpn : mac.m_packetToTransmit ≠ none
  · rw [if_pos hpn] at hs
    cases hs
  · rw [if_neg hpn] at hs
    have hpend : mac.m_packetToTransmit = none := not_not.1 hpn
    have hslotq := h.flags _ h.slot_running
    have hslotf := h.future _ hslotq
    have hcount : mac.m_cycleTimer.isRunning w.sim = true →
        ((0 : ℕ) : ℚ) * m_DEFAULT_SLOT_TIME
          ≤ w.sim.fire mac.m_slotTimer.m_eventOnFire
            - w.sim.fire mac.m_cycleTimer.m_eventOnFire + m_DEFAULT_CYCLE_TIME := by
      intro hr
      have := h.read_recent hr
      simp only [Nat.cast_zero, zero_mul]
      linarith
    have hnoreq : ∀ q, mac.m_packetToTransmit = some q → w.requestSlots q = none := by
      intro q hpq
      rw [hpend] at hpq
      cases hpq
    cases he : mac.isEnoughTimeForContentionCycle { w with sim := s' } with
    | error f =>
      rw [he] at hs
      cases hs
    | ok e0 =>
      rw [he] at hs
      dsimp only at hs
      by_cases hc : (!mac.m_doEntireReadCycle && mac.m_cycleTimer.isRunning s') = true
      · rw [if_pos hc] at hs
        have h3 : ReaderInv
            { ({ ({ mac with
                    m_missedReads := mac.m_missedReads ++ [mac.m_currentSlotNumber]
                    m_missedReadCount := (mac.m_missedReadCount + 1) % 2 ^ 32 } : RfidReaderMac)
                  with m_doResetSlot := false } : RfidReaderMac) with
              m_currentSlotNumber := 0, m_numberOfSlots := 0 } w :=
          inv_of_mac_step h rfl rfl rfl rfl rfl rfl rfl rfl hnoreq
            (fun _ hlt => absurd hlt (lt_irrefl _)) hcount
        exact slotInv_end_tail h3 hq hpend s' hs' hs
      · rw [if_neg hc] at hs
        have h3 : ReaderInv
            { ({ ({ mac with m_missedReadCount := 0 } : RfidReaderMac)
                  with m_doResetSlot := false } : RfidReaderMac) with
              m_currentSlotNumber := 0, m_numberOfSlots := 0 } w :=
          inv_of_mac_step h rfl rfl rfl rfl rfl rfl rfl rfl hnoreq
            (fun _ hlt => absurd hlt (lt_irrefl _)) hcount
        exact slotInv_end_tail h3 hq hpend s' hs' hs

/-- The slot event: `getNextEvent`, the clock, and `beginSlotEvent`. -/
theorem inv_dispatch_slot {mac mac' : RfidReaderMac} {w w' : MacWorld} {rest : List EventId}
    (h : ReaderInv mac w)
    (hq : w.sim.m_eventPtrQueue = mac.m_slotTimer.m_eventOnFire :: rest)
    (s' : Simulator)
    (hs' : s' = { (w.sim.getNextEvent mac.m_slotTimer.m_eventOnFire rest).2 with
      m_clock := w.sim.fire mac.m_slotTimer.m_eventOnFire })
    (hs : mac.beginSlotEvent { w with sim := s' } = .ok (mac', w')) :
    ReaderInv mac' w' := by
  have hmid : ∀ mac1 w1,
      (if mac.m_currentSlotNumber = mac.m_txSlotNumber then
        match mac.m_packetToTransmit with
        | some packet =>
          match mac.startSendTimer { w with sim := s' } .Lower packet m_READER_IFS with
          | .error f => .error f
          | .ok (_, base, w1) =>
            .ok ({ mac with toSlottedMac := { base with m_packetToTransmit := none } }, w1)
        | none => .ok (mac, { w with sim := s' })
      else if mac.m_numberOfSlots = 0 ∨ mac.m_currentSlotNumber ≥ mac.m_numberOfSlots
          ∨ (mac.m_doResetSlot = true ∧ mac.m_currentSlotNumber = mac.m_resetSlotNumber) then
        mac.endOfContentionCycle { w with sim := s' }
      else .ok (mac, { w with sim := s' })) = .ok (mac1, w1) →
      ReaderSlotInv
        { mac1 with m_currentSlotNumber := (mac1.m_currentSlotNumber + 1) % 2 ^ 32 } w1 := by
    intro mac1 w1 hr
    obtain ⟨hwf, hfut, hfl, hle, hclock, hflag, hfire, hother, hqueue, hnot, hmin, hsub⟩ :=
      pop_facts hq h.wf h.future h.flags s' hs'
    by_cases hcur : mac.m_currentSlotNumber = mac.m_txSlotNumber
    · rw [if_pos hcur] at hr
      cases hp : mac.m_packetToTransmit with
      | none =>
        rw [hp] at hr
        simp only [Except.ok.injEq, Prod.mk.injEq] at hr
        obtain ⟨hm, hw⟩ := hr
        subst hm; subst hw
        exact (slotInv_pop h hq (fun q n hpq => by rw [hp] at hpq; cases hpq) s' hs').1
      | some p =>
        rw [hp] at hr
        dsimp only at hr
        split at hr
        · cases hr
        · rename_i b0 base w2 hst
          simp only [Except.ok.injEq, Prod.mk.injEq] at hr
          obtain ⟨hm, hw⟩ := hr
          subst hm; subst hw
          obtain ⟨sim, hsch, hbase, hw2⟩ := startSendTimer_inv hst
          subst hbase; subst hw2
          have h0 : ReaderInv { mac with m_packetToTransmit := none } w :=
            inv_of_packets_step h rfl rfl rfl (le_refl _) (fun _ _ _ hr => hr) rfl rfl rfl rfl
              rfl rfl rfl rfl rfl (fun q hq => by cases hq)
          obtain ⟨hS0, hnosend⟩ := slotInv_pop h0 hq (fun q n hpq => by cases hpq) s' hs'
          have hrunC : mac.m_cycleTimer.isRunning s' = mac.m_cycleTimer.isRunning w.sim := by
            unfold Timer.isRunning
            rw [hother _ (Ne.symm h.slot_ne_cycle)]
          refine slotInv_arm hS0 hnosend rfl (h.pending_lt p hp) ?_ hsch
          intro n hn
          obtain ⟨h1, _, h2, h3⟩ := h.pending_request p n hp hn
          refine ⟨?_, h2, ?_⟩
          · show mac.m_cycleTimer.isRunning s' = true
            rw [hrunC]
            exact h1
          · show s'.m_clock + m_DEFAULT_SLOT_TIME + _ < s'.fire mac.m_cycleTimer.m_eventOnFire
            rw [hclock, hfire]
            linarith
    · rw [if_neg hcur] at hr
      by_cases hend : mac.m_numberOfSlots = 0 ∨ mac.m_currentSlotNumber ≥ mac.m_numberOfSlots
          ∨ (mac.m_doResetSlot = true ∧ mac.m_currentSlotNumber = mac.m_resetSlotNumber)
      · rw [if_pos hend] at hr
        exact slotInv_end h hq s' hs' hr
      · rw [if_neg hend] at hr
        simp only [Except.ok.injEq, Prod.mk.injEq] at hr
        obtain ⟨hm, hw⟩ := hr
        subst hm; subst hw
        refine (slotInv_pop h hq ?_ s' hs').1
        intro q n hpq hn
        exact hcur (h.pending_request q n hpq hn).2.1.symm
  unfold RfidReaderMac.beginSlotEvent at hs
  dsimp only at hs
  split at hs
  · cases hs
  · rename_i mac1 w1 hr
    split at hs
    · cases hs
    · rename_i b1 sim hre
      simp only [Except.ok.injEq, Prod.mk.injEq] at hs
      obtain ⟨hm, hw⟩ := hs
      subst hm; subst hw
      exact inv_of_slotInv (hmid mac1 w1 hr) hre

end ReaderSlotDispatch

section ReaderFaults

theorem scheduleEvent_fault {s : Simulator} {e : EventId} {d : SimTime} {f : Fault}
    (h : s.scheduleEvent e d = .error f) :
    f ≠ .inContentionCycle ∧ f ≠ .currentAppReadPacket := by
  unfold Simulator.scheduleEvent at h
  split_ifs at h <;> cases h <;> constructor <;> intro hx <;> cases hx

theorem timer_start_fault {t : Timer} {s : Simulator} {d : SimTime} {f : Fault}
    (h : t.start s d = .error f) : f ≠ .inContentionCycle ∧ f ≠ .currentAppReadPacket := by
  unfold Timer.start at h
  split_ifs at h
  exact scheduleEvent_fault h

theorem timer_reschedule_fault {t : Timer} {s : Simulator} {d : SimTime} {f : Fault}
    (h : t.reschedule s d = .error f) :
    f ≠ .inContentionCycle ∧ f ≠ .currentAppReadPacket := by
  unfold Timer.reschedule at h
  dsimp only at h
  split at h
  · rename_i f0 hst
    cases h
    exact timer_start_fault hst
  · cases h

theorem isEnough_fault {mac : RfidReaderMac} {w : MacWorld} {f : Fault}
    (h : mac.isEnoughTimeForContentionCycle w = .error f) :
    f ≠ .inContentionCycle ∧ f ≠ .currentAppReadPacket := by
  unfold RfidReaderMac.isEnoughTimeForContentionCycle Timer.timeRemaining at h
  dsimp only at h
  split at h
  · rename_i f0 ht
    cases h
    split_ifs at ht
    cases ht
    constructor <;> intro hx <;> cases hx
  · cases h

theorem createRequestPacket_fault {mac : RfidReaderMac} {w : MacWorld} {f : Fault}
    (h : mac.createRequestPacket w = .error f) :
    f ≠ .inContentionCycle ∧ (f = .currentAppReadPacket → mac.m_currentAppReadPacket = none) := by
  unfold RfidReaderMac.createRequestPacket at h
  dsimp only at h
  split_ifs at h
  · split at h
    · rename_i hnone
      cases h
      exact ⟨fun hx => Fault.noConfusion hx, fun _ => hnone⟩
    · split at h
      · rename_i f0 hp
        cases h
        unfold Packet.setTxPower at hp
        split_ifs at hp
        cases hp
        constructor <;> intro hx <;> cases hx
      · cases h
  · cases h
    constructor <;> intro hx <;> cases hx

theorem startNextContentionCycle_fault {mac : RfidReaderMac} {w : MacWorld} {f : Fault}
    (h : mac.startNextContentionCycle w = .error f) :
    f ≠ .inContentionCycle ∧ (f = .currentAppReadPacket → mac.m_currentAppReadPacket = none) := by
  unfold RfidReaderMac.startNextContentionCycle at h
  split_ifs at h
  · cases h
    constructor <;> intro hx <;> cases hx
  · split at h
    · rename_i f0 hc
      cases h
      exact createRequestPacket_fault hc
    · cases h

theorem handlePacketSent_fault {mac : RfidReaderMac} {w : MacWorld} {p : PacketPtr} {f : Fault}
    (hslots : mac.m_nextCycleNumberOfSlots = m_DEFAULT_NUMBER_OF_SLOTS)
    (hread : mac.m_cycleTimer.isRunning w.sim = true → mac.m_currentAppReadPacket ≠ none)
    (h : RfidReaderMac.handlePacketSent p mac w = .error f) :
    f ≠ .inContentionCycle ∧ f ≠ .currentAppReadPacket := by
  unfold RfidReaderMac.handlePacketSent at h
  split_ifs at h
  · split at h <;> cases h
  · split at h
    · rename_i f0 he
      cases h
      exact isEnough_fault he
    · rename_i he
      obtain ⟨h1, h2⟩ := startNextContentionCycle_fault h
      exact ⟨h1, fun hx => hread (isEnough_true_inv hslots he).1 (h2 hx)⟩
    · cases h

theorem sendToLinkLayer_fault {mac : RfidReaderMac} {w : MacWorld} {d : Directions}
    {p : PacketPtr} {f : Fault}
    (hslots : mac.m_nextCycleNumberOfSlots = m_DEFAULT_NUMBER_OF_SLOTS)
    (hread : mac.m_cycleTimer.isRunning w.sim = true → mac.m_currentAppReadPacket ≠ none)
    (h : mac.sendToLinkLayer w d p = .error f) :
    f ≠ .inContentionCycle ∧ f ≠ .currentAppReadPacket := by
  unfold RfidReaderMac.sendToLinkLayer MacProtocol.sendToLinkLayer at h
  split_ifs at h
  · split at h
    · rename_i f0 hb
      unfold RfidReaderMac.handleChannelBusy at hb
      split_ifs at hb
    · cases h
  · split at h
    · rename_i f0 hb
      cases h
      exact handlePacketSent_fault hslots hread hb
    · cases h

theorem startSendTimer_fault {mac : SlottedMac} {w : MacWorld} {d : Directions}
    {p : PacketPtr} {delay : SimTime} {f : Fault}
    (h : mac.startSendTimer w d p delay = .error f) :
    f ≠ .inContentionCycle ∧ f ≠ .currentAppReadPacket := by
  unfold SlottedMac.startSendTimer at h
  dsimp only at h
  split_ifs at h
  · cases h
    constructor <;> intro hx <;> cases hx
  · split at h
    · rename_i f0 hst
      cases h
      exact timer_start_fault hst
    · cases h

end ReaderFaults

section ReaderFaultsSlot

theorem endOfContentionCycle_tail_fault {mac3 : RfidReaderMac} {w : MacWorld} {f : Fault}
    (hslots : mac3.m_nextCycleNumberOfSlots = m_DEFAULT_NUMBER_OF_SLOTS)
    (hread : mac3.m_cycleTimer.isRunning w.sim = true → mac3.m_currentAppReadPacket ≠ none)
    (hnot : mac3.inContentionCycle = false)
    (h : (if !mac3.m_doEntireReadCycle && mac3.m_missedReadCount = m_MISSED_READ_THRESHOLD then
        if !mac3.m_cycleTimer.isRunning w.sim then .error .cycleTimerNotRunning
        else
          mac3.endRequestCycleEvent { w with sim := (mac3.m_cycleTimer.stop w.sim).2 }
      else
        match mac3.isEnoughTimeForContentionCycle w with
        | .error f => .error f
        | .ok true =>
          match mac3.createRequestPacket w with
          | .error f => .error f
          | .ok (packet, w1) =>
            .ok ({ mac3 with
              m_packetToTransmit := some packet
              m_txSlotNumber := (mac3.m_currentSlotNumber + 1) % 2 ^ 32 }, w1)
        | .ok false =>
          if !mac3.m_cycleTimer.isRunning w.sim && w.getQueueIsBlocked
          then .error .queueIsBlocked
          else .ok (mac3, w)) = (.error f : Except Fault (RfidReaderMac × MacWorld))) :
    f ≠ .inContentionCycle ∧ f ≠ .currentAppReadPacket := by
  by_cases hthr : (!mac3.m_doEntireReadCycle
      && decide (mac3.m_missedReadCount = m_MISSED_READ_THRESHOLD)) = true
  · rw [if_pos hthr] at h
    by_cases hnr : (!mac3.m_cycleTimer.isRunning w.sim) = true
    · rw [if_pos hnr] at h
      cases h
      constructor <;> intro hx <;> cases hx
    · rw [if_neg hnr] at h
      unfold RfidReaderMac.endRequestCycleEvent at h
      rw [hnot] at h
      simp at h
  · rw [if_neg hthr] at h
    cases henough : mac3.isEnoughTimeForContentionCycle w with
    | error f0 =>
      rw [henough] at h
      cases h
      exact isEnough_fault henough
    | ok enough =>
      rw [henough] at h
      cases enough with
      | true =>
        dsimp only at h
        split at h
        · rename_i f0 hc
          cases h
          obtain ⟨h1, h2⟩ := createRequestPacket_fault hc
          exact ⟨h1, fun hx => hread (isEnough_true_inv hslots henough).1 (h2 hx)⟩
        · cases h
      | false =>
        dsimp only at h
        split_ifs at h
        cases h
        constructor <;> intro hx <;> cases hx

theorem endOfContentionCycle_fault {mac : RfidReaderMac} {w : MacWorld} {f : Fault}
    (hslots : mac.m_nextCycleNumberOfSlots = m_DEFAULT_NUMBER_OF_SLOTS)
    (hread : mac.m_cycleTimer.isRunning w.sim = true → mac.m_currentAppReadPacket ≠ none)
    (h : mac.endOfContentionCycle w = .error f) :
    f ≠ .inContentionCycle ∧ f ≠ .currentAppReadPacket := by
  unfold RfidReaderMac.endOfContentionCycle at h
  by_cases hpn : mac.m_packetToTransmit ≠ none
  · rw [if_pos hpn] at h
    cases h
    constructor <;> intro hx <;> cases hx
  · rw [if_neg hpn] at h
    cases he : mac.isEnoughTimeForContentionCycle w with
    | error f0 =>
      rw [he] at h
      cases h
      exact isEnough_fault he
    | ok e0 =>
      rw [he] at h
      dsimp only at h
      by_cases hc : (!mac.m_doEntireReadCycle && mac.m_cycleTimer.isRunning w.sim) = true
      · rw [if_pos hc] at h
        exact @endOfContentionCycle_tail_fault
          { ({ ({ mac with
                    m_missedReads := mac.m_missedReads ++ [mac.m_currentSlotNumber]
                    m_missedReadCount := (mac.m_missedReadCount + 1) % 2 ^ 32 } : RfidReaderMac)
                  with m_doResetSlot := false } : RfidReaderMac) with
              m_currentSlotNumber := 0, m_numberOfSlots := 0 }
          w f hslots hread rfl h
      · rw [if_neg hc] at h
        exact @endOfContentionCycle_tail_fault
          { ({ ({ mac with m_missedReadCount := 0 } : RfidReaderMac)
                  with m_doResetSlot := false } : RfidReaderMac) with
              m_currentSlotNumber := 0, m_numberOfSlots := 0 }
          w f hslots hread rfl h

theorem beginSlotEvent_fault {mac : RfidReaderMac} {w : MacWorld} {f : Fault}
    (hslots : mac.m_nextCycleNumberOfSlots = m_DEFAULT_NUMBER_OF_SLOTS)
    (hread : mac.m_cycleTimer.isRunning w.sim = true → mac.m_currentAppReadPacket ≠ none)
    (h : mac.beginSlotEvent w = .error f) :
    f ≠ .inContentionCycle ∧ f ≠ .currentAppReadPacket := by
  unfold RfidReaderMac.beginSlotEvent at h
  dsimp only at h
  split at h
  · rename_i f0 hr
    cases h
    by_cases hcur : mac.m_currentSlotNumber = mac.m_txSlotNumber
    · rw [if_pos hcur] at hr
      split at hr
      · split at hr
        · rename_i f1 hst
          cases hr
          exact startSendTimer_fault hst
        · cases hr
      · cases hr
    · rw [if_neg hcur] at hr
      split_ifs at hr
      exact endOfContentionCycle_fault hslots hread hr
  · split at h
    · rename_i f1 hre
      cases h
      exact timer_reschedule_fault hre
    · cases h

theorem handleRecvdMacPacket_fault {mac : RfidReaderMac} {w : MacWorld} {p : PacketPtr}
    {f : Fault}
    (hread : mac.m_cycleTimer.isRunning w.sim = true → mac.m_currentAppReadPacket ≠ none)
    (h : mac.handleRecvdMacPacket w p = .error f) :
    f ≠ .inContentionCycle ∧ f ≠ .currentAppReadPacket := by
  unfold RfidReaderMac.handleRecvdMacPacket at h
  split at h
  · rename_i size macData hdata
    split at h
    · split at h
      · split at h
        · rename_i hrun
          split at h
          · split at h
            · rename_i hnone
              exact absurd hnone (hread hrun)
            · dsimp only at h
              split_ifs at h
              cases h
              constructor <;> intro hx <;> cases hx
          · cases h
        · cases h
      · dsimp only at h
        rw [sendToLinkLayer_upper_tagMac _ w p size macData hdata] at h
        dsimp only at h
        split_ifs at h
        cases h
        constructor <;> intro hx <;> cases hx
    · cases h
  · cases h

theorem handleRecvdUpperLayerPacket_fault {mac : RfidReaderMac} {w : MacWorld}
    {p : PacketPtr} {f : Fault}
    (h : mac.handleRecvdUpperLayerPacket w p = .error f) :
    f ≠ .inContentionCycle ∧
      (f = .currentAppReadPacket → mac.m_currentAppReadPacket ≠ none) := by
  unfold RfidReaderMac.handleRecvdUpperLayerPacket at h
  split at h
  · rename_i size appData hdata
    dsimp only at h
    split at h
    · rename_i f0 hr
      cases h
      cases ht : appData.m_type with
      | Read =>
        rw [ht] at hr
        dsimp only at hr
        split at hr
        · rename_i hsome
          cases hr
          exact ⟨fun hx => Fault.noConfusion hx, fun _ => hsome⟩
        · split at hr
          · rename_i f1 hst
            cases hr
            exact ⟨(timer_start_fault hst).1, fun hx => absurd hx (timer_start_fault hst).2⟩
          · split at hr
            · rename_i f1 he
              cases hr
              exact ⟨(isEnough_fault he).1, fun hx => absurd hx (isEnough_fault he).2⟩
            · split at hr
              · rename_i f1 hn
                cases hr
                obtain ⟨h1, h2⟩ := startNextContentionCycle_fault hn
                refine ⟨h1, fun hx => ?_⟩
                have := h2 hx
                cases this
              · cases hr
            · cases hr
      | Reset =>
        rw [ht] at hr
        dsimp only at hr
        split_ifs at hr
        cases hr
        constructor <;> intro hx <;> cases hx
      | NoType =>
        rw [ht] at hr
        cases hr
    · split_ifs at h
      cases h
      constructor <;> intro hx <;> cases hx
  · cases h

end ReaderFaultsSlot

section ReaderOps

/-- Another object schedules a new event. -/
theorem inv_schedule {mac : RfidReaderMac} {w : MacWorld} {delay : SimTime} {b : Bool}
    {sim : Simulator} (h : ReaderInv mac w)
    (hs : ({ w.sim with events := setEvent w.sim.events w.nextEventPtr Event.create } :
          Simulator).scheduleEvent w.nextEventPtr delay = .ok (b, sim)) :
    ReaderInv mac { w with nextEventPtr := w.nextEventPtr + 1, sim := sim } := by
  have hnotq : w.nextEventPtr ∉ w.sim.m_eventPtrQueue :=
    fun hmem => absurd (h.queued_lt _ hmem) (lt_irrefl _)
  obtain ⟨hwf1, hfut1, hfl1, hclock1, hqueue1, hother1, _⟩ :=
    fresh_event_facts h.wf h.future h.flags hnotq _ rfl
  obtain ⟨hwf, hfut, hfl, hclock, hfire, hflag, hother, hmem, _, _⟩ :=
    schedule_facts hs hwf1 hfut1 hfl1
  rw [hclock1] at hclock
  have hev : ∀ i, i ≠ w.nextEventPtr → sim.events i = w.sim.events i := by
    intro i hi
    rw [hother i hi]
    exact hother1 i hi
  have hslotne : mac.m_slotTimer.m_eventOnFire ≠ w.nextEventPtr := Nat.ne_of_lt h.slot_lt
  have hcycne : mac.m_cycleTimer.m_eventOnFire ≠ w.nextEventPtr := Nat.ne_of_lt h.cycle_lt
  have hcycfire : sim.fire mac.m_cycleTimer.m_eventOnFire
      = w.sim.fire mac.m_cycleTimer.m_eventOnFire := by
    unfold Simulator.fire
    rw [hev _ hcycne]
  have hslotfire : sim.fire mac.m_slotTimer.m_eventOnFire
      = w.sim.fire mac.m_slotTimer.m_eventOnFire := by
    unfold Simulator.fire
    rw [hev _ hslotne]
  have hrunC : mac.m_cycleTimer.isRunning sim = mac.m_cycleTimer.isRunning w.sim := by
    unfold Timer.isRunning
    rw [hev _ hcycne]
  have hrunS : mac.m_slotTimer.isRunning sim = mac.m_slotTimer.isRunning w.sim := by
    unfold Timer.isRunning
    rw [hev _ hslotne]
  have hsendq : ∀ e, w.sendEvents e ≠ none → e ∈ sim.m_eventPtrQueue →
      e ∈ w.sim.m_eventPtrQueue ∧ sim.fire e = w.sim.fire e := by
    intro e he hq
    have hne : e ≠ w.nextEventPtr := Nat.ne_of_lt (h.send_lt e he)
    rcases (hmem e).1 hq with heq | hold
    · exact absurd heq hne
    · rw [hqueue1] at hold
      refine ⟨hold, ?_⟩
      unfold Simulator.fire
      rw [hev e hne]
  constructor
  · exact hwf
  · exact hfut
  · exact hfl
  · intro y hy
    rcases (hmem y).1 hy with heq | hold
    · rw [heq]
      exact Nat.lt_succ_self _
    · rw [hqueue1] at hold
      exact Nat.lt_succ_of_lt (h.queued_lt y hold)
  · exact h.slot_ne_cycle
  · exact Nat.lt_succ_of_lt h.slot_lt
  · exact Nat.lt_succ_of_lt h.cycle_lt
  · intro y hy
    exact Nat.lt_succ_of_lt (h.send_lt y hy)
  · exact h.slot_not_send
  · exact h.cycle_not_send
  · exact h.slots_default
  · exact h.cycle_default
  · exact h.slot_default
  · show mac.m_cycleTimer.isRunning sim = true ↔ _
    rw [hrunC]
    exact h.read_iff
  · show mac.m_slotTimer.isRunning sim = true
    rw [hrunS]
    exact h.slot_running
  · show sim.fire mac.m_slotTimer.m_eventOnFire ≤ sim.m_clock + m_DEFAULT_SLOT_TIME
    rw [hslotfire, hclock]
    exact h.slot_soon
  · intro e he hq
    obtain ⟨hold, hf⟩ := hsendq e he hq
    show sim.fire e < sim.fire mac.m_slotTimer.m_eventOnFire
    rw [hf, hslotfire]
    exact h.send_before_slot e he hold
  · intro e he hq
    exact h.send_timer e he (hsendq e he hq).1
  · intro e d q n q' he hq hr hq'
    exact h.armed_alone e d q n q' he (hsendq e (ne_none_of_some he) hq).1 hr hq'
  · exact h.pending_lt
  · exact h.armed_lt
  · exact h.app_lt
  · intro q n hq hr
    show mac.m_cycleTimer.isRunning sim = true ∧ _ ∧ _ ∧
      sim.fire mac.m_slotTimer.m_eventOnFire + _ < sim.fire mac.m_cycleTimer.m_eventOnFire
    rw [hrunC, hslotfire, hcycfire]
    exact h.pending_request q n hq hr
  · intro e d q n he hq hr
    show mac.m_cycleTimer.isRunning sim = true ∧ _ ∧
      sim.fire mac.m_slotTimer.m_eventOnFire + _ < sim.fire mac.m_cycleTimer.m_eventOnFire
    rw [hrunC, hslotfire, hcycfire]
    exact h.armed_request e d q n he (hsendq e (ne_none_of_some he) hq).1 hr
  · show mac.m_cycleTimer.isRunning sim = true → _ →
      sim.fire mac.m_slotTimer.m_eventOnFire + _ < sim.fire mac.m_cycleTimer.m_eventOnFire
    rw [hrunC, hslotfire, hcycfire]
    exact h.in_cycle
  · show mac.m_cycleTimer.isRunning sim = true → _ ≤
      sim.fire mac.m_slotTimer.m_eventOnFire - sim.fire mac.m_cycleTimer.m_eventOnFire + _
    rw [hrunC, hslotfire, hcycfire]
    exact h.slot_count
  · show mac.m_cycleTimer.isRunning sim = true →
      sim.fire mac.m_cycleTimer.m_eventOnFire ≤ sim.m_clock + m_DEFAULT_CYCLE_TIME
    rw [hrunC, hcycfire, hclock]
    exact h.read_recent

/-- Another object creates a packet. -/
theorem inv_newPacket {mac : RfidReaderMac} {w : MacWorld} (h : ReaderInv mac w)
    (packet : Packet) :
    ReaderInv mac { w with
      packets := setAt w.packets w.nextPacketPtr packet
      nextPacketPtr := w.nextPacketPtr + 1
      nextUniqueId := w.nextUniqueId + 1 } := by
  refine inv_of_packets_step h rfl rfl rfl (Nat.le_succ _) ?_ rfl rfl rfl rfl rfl rfl rfl rfl
    rfl ?_
  · intro q hlt n hr
    rw [requestSlots_congr_packet (w := w)] at hr
    · exact hr
    · simp [setAt, Nat.ne_of_lt hlt]
  · intro p hp
    exact ⟨Nat.lt_succ_of_lt (h.pending_lt p hp), Or.inr ⟨hp, rfl⟩⟩

theorem inv_physicalLayer {mac : RfidReaderMac} {w : MacWorld} (h : ReaderInv mac w)
    (phy : PhysicalLayer) (blocked : Bool) :
    ReaderInv mac { w with phy := phy, linkQueueIsBlocked := blocked } :=
  inv_of_packets_step h rfl rfl rfl (le_refl _) (fun _ _ _ hr => hr) rfl rfl rfl rfl rfl rfl
    rfl rfl rfl (fun p hp => ⟨h.pending_lt p hp, Or.inr ⟨hp, rfl⟩⟩)

end ReaderOps

section ReaderOpStep

theorem pop_clock_eq (s : Simulator) (e : EventId) (rest : List EventId) :
    ({ (s.getNextEvent e rest).2 with
        m_clock := ((s.getNextEvent e rest).2.events (s.getNextEvent e rest).1).getFireTime } :
      Simulator)
      = { (s.getNextEvent e rest).2 with m_clock := s.fire e } := by
  have : ((s.getNextEvent e rest).2.events (s.getNextEvent e rest).1).getFireTime = s.fire e :=
    getNextEvent_fire s e e rest
  rw [this]

theorem inv_execute {mac mac' : RfidReaderMac} {w w' : MacWorld} {e : EventId}
    {rest : List EventId} {input : ReaderInput} (h : ReaderInv mac w)
    (hq : w.sim.m_eventPtrQueue = e :: rest)
    (hv : (ReaderOp.dispatch input).Valid w) (s' : Simulator)
    (hs' : s' = { (w.sim.getNextEvent e rest).2 with m_clock := w.sim.fire e })
    (hx : mac.execute { w with sim := s' } e input = .ok (mac', w')) : ReaderInv mac' w' := by
  unfold RfidReaderMac.execute at hx
  by_cases hslot : e = mac.m_slotTimer.m_eventOnFire
  · rw [if_pos hslot] at hx
    subst hslot
    exact inv_dispatch_slot h hq s' hs' hx
  · rw [if_neg hslot] at hx
    by_cases hcycle : e = mac.m_cycleTimer.m_eventOnFire
    · rw [if_pos hcycle] at hx
      subst hcycle
      obtain ⟨hnot, hinv⟩ := dispatch_cycle h hq
      unfold RfidReaderMac.endRequestCycleEvent at hx
      rw [hnot] at hx
      simp only [Bool.false_eq_true, if_false, Except.ok.injEq, Prod.mk.injEq] at hx
      obtain ⟨hm, hw⟩ := hx
      subst hm; subst hw
      exact hinv s' hs'
    · rw [if_neg hcycle] at hx
      cases hsend : w.sendEvents e with
      | some v =>
        obtain ⟨d, p⟩ := v
        have hsend' : ({ w with sim := s' } : MacWorld).sendEvents e = some (d, p) := hsend
        rw [hsend'] at hx
        dsimp only at hx
        cases hr : mac.sendToLinkLayer { w with sim := s' } d p with
        | error f =>
          rw [hr] at hx
          cases hx
        | ok r =>
          obtain ⟨b, m1, w1⟩ := r
          rw [hr] at hx
          simp only [Except.map, Except.ok.injEq, Prod.mk.injEq] at hx
          obtain ⟨hm, hw⟩ := hx
          subst hm; subst hw
          exact inv_dispatch_send h hq hsend s' hs' hr
      | none =>
        have hsend' : ({ w with sim := s' } : MacWorld).sendEvents e = none := hsend
        rw [hsend'] at hx
        dsimp only at hx
        have hpop := inv_pop_other h hq hslot hcycle s' hs'
        cases input with
        | upperLayerPacket p =>
          dsimp only at hx
          cases hr : mac.handleRecvdUpperLayerPacket { w with sim := s' } p with
          | error f =>
            rw [hr] at hx
            cases hx
          | ok r =>
            obtain ⟨b, m1, w1⟩ := r
            rw [hr] at hx
            simp only [Except.map, Except.ok.injEq, Prod.mk.injEq] at hx
            obtain ⟨hm, hw⟩ := hx
            subst hm; subst hw
            exact inv_handleRecvdUpperLayerPacket hpop hv hr
        | macPacket p =>
          dsimp only at hx
          cases hr : mac.handleRecvdMacPacket { w with sim := s' } p with
          | error f =>
            rw [hr] at hx
            cases hx
          | ok r =>
            obtain ⟨b, m1, w1⟩ := r
            rw [hr] at hx
            simp only [Except.map, Except.ok.injEq, Prod.mk.injEq] at hx
            obtain ⟨hm, hw⟩ := hx
            subst hm; subst hw
            exact inv_handleRecvdMacPacket hpop hr
        | nothing =>
          simp only [Except.ok.injEq, Prod.mk.injEq] at hx
          obtain ⟨hm, hw⟩ := hx
          subst hm; subst hw
          exact hpop

/-- Every step of the simulation keeps the invariant of the reader MAC. -/
theorem inv_readerOp {mac : RfidReaderMac} {w : MacWorld} {op : ReaderOp}
    {r : RfidReaderMac × MacWorld} (h : ReaderInv mac w) (hv : op.Valid w)
    (hop : mac.readerOp w op = .ok r) : ReaderInv r.1 r.2 := by
  obtain ⟨mac', w'⟩ := r
  cases op with
  | dispatch input =>
    unfold RfidReaderMac.readerOp at hop
    cases hq : w.sim.m_eventPtrQueue with
    | nil =>
      rw [hq] at hop
      simp only [Except.ok.injEq, Prod.mk.injEq] at hop
      obtain ⟨hm, hw⟩ := hop
      subst hm; subst hw
      exact h
    | cons e rest =>
      rw [hq] at hop
      dsimp only at hop
      split_ifs at hop
      exact inv_execute h hq hv _ (pop_clock_eq w.sim e rest) hop
  | schedule delay =>
    unfold RfidReaderMac.readerOp at hop
    dsimp only at hop
    split at hop
    · cases hop
    · rename_i b sim hs
      simp only [Except.ok.injEq, Prod.mk.injEq] at hop
      obtain ⟨hm, hw⟩ := hop
      subst hm; subst hw
      exact inv_schedule h hs
  | newPacket packet =>
    unfold RfidReaderMac.readerOp at hop
    simp only [Except.ok.injEq, Prod.mk.injEq] at hop
    obtain ⟨hm, hw⟩ := hop
    subst hm; subst hw
    exact inv_newPacket h packet
  | physicalLayer phy blocked =>
    unfold RfidReaderMac.readerOp at hop
    simp only [Except.ok.injEq, Prod.mk.injEq] at hop
    obtain ⟨hm, hw⟩ := hop
    subst hm; subst hw
    exact inv_physicalLayer h phy blocked

theorem execute_fault {mac : RfidReaderMac} {w : MacWorld} {e : EventId}
    {rest : List EventId} {input : ReaderInput} {f : Fault} (h : ReaderInv mac w)
    (hq : w.sim.m_eventPtrQueue = e :: rest) (s' : Simulator)
    (hs' : s' = { (w.sim.getNextEvent e rest).2 with m_clock := w.sim.fire e })
    (hx : mac.execute { w with sim := s' } e input = .error f) :
    f ≠ .inContentionCycle ∧
      (f = .currentAppReadPacket →
        (∃ p, input = .upperLayerPacket p) ∧ mac.m_currentAppReadPacket ≠ none) := by
  obtain ⟨hwf, hfut, hfl, hle, hclock, hflag, hfire, hother, hqueue, hnot, hmin, hsub⟩ :=
    pop_facts hq h.wf h.future h.flags s' hs'
  have hread : e ≠ mac.m_cycleTimer.m_eventOnFire →
      mac.m_cycleTimer.isRunning s' = true → mac.m_currentAppReadPacket ≠ none := by
    intro hne hr
    apply h.read_iff.1
    unfold Timer.isRunning at hr ⊢
    rw [hother _ (Ne.symm hne)] at hr
    exact hr
  unfold RfidReaderMac.execute at hx
  by_cases hslot : e = mac.m_slotTimer.m_eventOnFire
  · rw [if_pos hslot] at hx
    have hne : e ≠ mac.m_cycleTimer.m_eventOnFire := by
      rw [hslot]
      exact h.slot_ne_cycle
    obtain ⟨h1, h2⟩ := beginSlotEvent_fault h.slots_default (hread hne) hx
    exact ⟨h1, fun hf => absurd hf h2⟩
  · rw [if_neg hslot] at hx
    by_cases hcycle : e = mac.m_cycleTimer.m_eventOnFire
    · rw [if_pos hcycle] at hx
      subst hcycle
      obtain ⟨hnot, _⟩ := dispatch_cycle h hq
      unfold RfidReaderMac.endRequestCycleEvent at hx
      rw [hnot] at hx
      simp at hx
    · rw [if_neg hcycle] at hx
      cases hsend : w.sendEvents e with
      | some v =>
        obtain ⟨d, p⟩ := v
        have hsend' : ({ w with sim := s' } : MacWorld).sendEvents e = some (d, p) := hsend
        rw [hsend'] at hx
        dsimp only at hx
        cases hr : mac.sendToLinkLayer { w with sim := s' } d p with
        | error f0 =>
          rw [hr] at hx
          simp only [Except.map, Except.error.injEq] at hx
          subst hx
          obtain ⟨h1, h2⟩ := sendToLinkLayer_fault h.slots_default (hread hcycle) hr
          exact ⟨h1, fun hf => absurd hf h2⟩
        | ok r =>
          rw [hr] at hx
          simp [Except.map] at hx
      | none =>
        have hsend' : ({ w with sim := s' } : MacWorld).sendEvents e = none := hsend
        rw [hsend'] at hx
        dsimp only at hx
        cases input with
        | upperLayerPacket p =>
          dsimp only at hx
          cases hr : mac.handleRecvdUpperLayerPacket { w with sim := s' } p with
          | error f0 =>
            rw [hr] at hx
            simp only [Except.map, Except.error.injEq] at hx
            subst hx
            obtain ⟨h1, h2⟩ := handleRecvdUpperLayerPacket_fault hr
            exact ⟨h1, fun hf => ⟨⟨p, rfl⟩, h2 hf⟩⟩
          | ok r =>
            rw [hr] at hx
            simp [Except.map] at hx
        | macPacket p =>
          dsimp only at hx
          cases hr : mac.handleRecvdMacPacket { w with sim := s' } p with
          | error f0 =>
            rw [hr] at hx
            simp only [Except.map, Except.error.injEq] at hx
            subst hx
            obtain ⟨h1, h2⟩ := handleRecvdMacPacket_fault (hread hcycle) hr
            exact ⟨h1, fun hf => absurd hf h2⟩
          | ok r =>
            rw [hr] at hx
            simp [Except.map] at hx
        | nothing =>
          cases hx

/-- The only assertion on `m_currentAppReadPacket` that can fail is the one of a
READ handed down while a read is in progress; `assert(!inContentionCycle())`
does not fail. -/
theorem readerOp_fault {mac : RfidReaderMac} {w : MacWorld} {op : ReaderOp} {f : Fault}
    (h : ReaderInv mac w) (hop : mac.readerOp w op = .error f) :
    f ≠ .inContentionCycle ∧
      (f = .currentAppReadPacket →
        (∃ p, op = .dispatch (.upperLayerPacket p)) ∧ mac.m_currentAppReadPacket ≠ none) := by
  cases op with
  | dispatch input =>
    unfold RfidReaderMac.readerOp at hop
    cases hq : w.sim.m_eventPtrQueue with
    | nil =>
      rw [hq] at hop
      cases hop
    | cons e rest =>
      rw [hq] at hop
      dsimp only at hop
      split_ifs at hop
      · obtain ⟨h1, h2⟩ := execute_fault h hq _ (pop_clock_eq w.sim e rest) hop
        refine ⟨h1, fun hf => ?_⟩
        obtain ⟨⟨p, hp⟩, h3⟩ := h2 hf
        exact ⟨⟨p, by rw [hp]⟩, h3⟩
      · cases hop
        constructor <;> intro hx <;> cases hx
  | schedule delay =>
    unfold RfidReaderMac.readerOp at hop
    dsimp only at hop
    split at hop
    · rename_i f0 hs
      cases hop
      obtain ⟨h1, h2⟩ := scheduleEvent_fault hs
      exact ⟨h1, fun hf => absurd hf h2⟩
    · cases hop
  | newPacket packet =>
    unfold RfidReaderMac.readerOp at hop
    cases hop
  | physicalLayer phy blocked =>
    unfold RfidReaderMac.readerOp at hop
    cases hop

end ReaderOpStep

section ReaderReachable

/-- The factory `RfidReaderMac::create` establishes the invariant. -/
theorem inv_createInWorld {w0 w1 : MacWorld} {mac0 : RfidReaderMac} {nodeId : NodeId}
    {listener : ListenerId} (hw : w0.BeforeCreate)
    (hc : RfidReaderMac.createInWorld nodeId listener w0 = .ok (mac0, w1)) :
    ReaderInv mac0 w1 := by
  unfold RfidReaderMac.createInWorld at hc
  simp only [Timer.start, Timer.isRunning, setEvent, if_true, Event.create,
    Event.inEventQueue, Bool.not_false] at hc
  split at hc
  · cases hc
  · rename_i b sim hs
    simp only [Except.ok.injEq, Prod.mk.injEq] at hc
    obtain ⟨hm, hw1⟩ := hc
    subst hm; subst hw1
    have hnotq : w0.nextEventPtr ∉ w0.sim.m_eventPtrQueue :=
      fun hmem => absurd (hw.queued_lt _ hmem) (lt_irrefl _)
    obtain ⟨hwf1, hfut1, hfl1, hclock1, hqueue1, hother1, _⟩ :=
      fresh_event_facts hw.wf hw.future hw.flags hnotq _ rfl
    have hs0 : ({ w0.sim with events := setEvent w0.sim.events w0.nextEventPtr Event.create } :
        Simulator).scheduleEvent w0.nextEventPtr 0 = .ok (b, sim) := hs
    obtain ⟨hwf, hfut, hfl, hclock, hfire, hflag, hother, hmem, _, _⟩ :=
      schedule_facts hs0 hwf1 hfut1 hfl1
    have hnotq2 : w0.nextEventPtr + 1 ∉ sim.m_eventPtrQueue := by
      intro hmem2
      rcases (hmem _).1 hmem2 with heq | hold
      · exact absurd heq (Nat.succ_ne_self _)
      · rw [hqueue1] at hold
        have := hw.queued_lt _ hold
        exact absurd (Nat.lt_trans (Nat.lt_succ_self _) this) (lt_irrefl _)
    obtain ⟨hwf2, hfut2, hfl2, hclock2, hqueue2, hother2, hflag2⟩ :=
      fresh_event_facts hwf hfut hfl hnotq2 _ rfl
    have hne : w0.nextEventPtr ≠ w0.nextEventPtr + 1 := (Nat.succ_ne_self _).symm
    have hslotev := hother2 _ hne
    have hstop : (RfidReaderMac.create nodeId w0.nextEventPtr
        (w0.nextEventPtr + 1)).m_cycleTimer.isRunning
          (({ sim with events := setEvent sim.events (w0.nextEventPtr + 1) Event.create } :
            Simulator).addSimulationEndListener listener) = false := hflag2
    constructor
    · exact ⟨hwf2.sorted, hwf2.nodup, hwf2.flagged⟩
    · exact hfut2
    · exact hfl2
    · intro y hy
      have hy' : y ∈ sim.m_eventPtrQueue := by
        rw [← hqueue2]
        exact hy
      show y < w0.nextEventPtr + 1 + 1
      rcases (hmem y).1 hy' with heq | hold
      · rw [heq]
        exact Nat.lt_succ_of_lt (Nat.lt_succ_self _)
      · rw [hqueue1] at hold
        have := hw.queued_lt _ hold
        exact Nat.lt_succ_of_lt (Nat.lt_succ_of_lt this)
    · exact hne
    · show w0.nextEventPtr < w0.nextEventPtr + 1 + 1
      exact Nat.lt_succ_of_lt (Nat.lt_succ_self _)
    · show w0.nextEventPtr + 1 < w0.nextEventPtr + 1 + 1
      exact Nat.lt_succ_self _
    · intro y hy
      exact absurd (hw.no_send y) hy
    · exact hw.no_send _
    · exact hw.no_send _
    · rfl
    · rfl
    · rfl
    · constructor
      · intro hr
        exact Bool.noConfusion (hstop.symm.trans hr)
      · intro hc
        exact absurd rfl hc
    · show (({ sim with events := setEvent sim.events (w0.nextEventPtr + 1) Event.create } :
        Simulator).events w0.nextEventPtr).inEventQueue = true
      rw [hslotev]
      exact hflag
    · show Simulator.fire
          ({ sim with events := setEvent sim.events (w0.nextEventPtr + 1) Event.create } :
            Simulator) w0.nextEventPtr ≤ sim.m_clock + m_DEFAULT_SLOT_TIME
      unfold Simulator.fire
      rw [hslotev]
      have hf : (sim.events w0.nextEventPtr).m_timeToFire = sim.fire w0.nextEventPtr := rfl
      rw [hf, hfire, hclock]
      simp only [m_DEFAULT_SLOT_TIME]
      norm_num
    · intro y hy
      exact absurd (hw.no_send y) hy
    · intro y hy
      exact absurd (hw.no_send y) hy
    · intro y d p n q hy
      exact absurd (hw.no_send y) (ne_none_of_some hy)
    · intro p hp
      cases hp
    · intro y d p hy
      exact absurd (hw.no_send y) (ne_none_of_some hy)
    · intro p hp
      cases hp
    · intro p n hp
      cases hp
    · intro y d p n hy
      exact absurd (hw.no_send y) (ne_none_of_some hy)
    · intro hr
      exact Bool.noConfusion (hstop.symm.trans hr)
    · intro hr
      exact Bool.noConfusion (hstop.symm.trans hr)
    · intro hr
      exact Bool.noConfusion (hstop.symm.trans hr)

/-- The invariant holds after every run of valid steps. -/
theorem inv_readerOps (ops : List ReaderOp) :
    ∀ (mac0 : RfidReaderMac) (w1 : MacWorld) (mac : RfidReaderMac) (w : MacWorld),
      ReaderInv mac0 w1 → RfidReaderMac.ValidOps ops mac0 w1 →
      RfidReaderMac.readerOps ops mac0 w1 = .ok (mac, w) → ReaderInv mac w := by
  induction ops with
  | nil =>
    intro mac0 w1 mac w h _ hr
    simp only [RfidReaderMac.readerOps, Except.ok.injEq, Prod.mk.injEq] at hr
    obtain ⟨hm, hw⟩ := hr
    subst hm; subst hw
    exact h
  | cons op ops ih =>
    intro mac0 w1 mac w h hv hr
    unfold RfidReaderMac.readerOps at hr
    unfold RfidReaderMac.ValidOps at hv
    obtain ⟨hv1, hv2⟩ := hv
    cases hop : mac0.readerOp w1 op with
    | error f =>
      rw [hop] at hr
      cases hr
    | ok r =>
      rw [hop] at hr hv2
      exact ih r.1 r.2 mac w (inv_readerOp h hv1 hop) hv2 hr

theorem dispatch_cycle_ok {mac : RfidReaderMac} {w : MacWorld} {rest : List EventId}
    (h : ReaderInv mac w)
    (hq : w.sim.m_eventPtrQueue = mac.m_cycleTimer.m_eventOnFire :: rest)
    (input : ReaderInput) :
    ∃ w', mac.readerOp w (.dispatch input)
      = .ok ({ mac with m_currentAppReadPacket := none }, w') := by
  obtain ⟨hnot, _⟩ := dispatch_cycle h hq
  have hle : w.sim.m_clock ≤ w.sim.fire mac.m_cycleTimer.m_eventOnFire :=
    h.future _ (by rw [hq]; exact List.mem_cons_self _ _)
  have hft : ((w.sim.getNextEvent mac.m_cycleTimer.m_eventOnFire rest).2.events
      (w.sim.getNextEvent mac.m_cycleTimer.m_eventOnFire rest).1).getFireTime
        = w.sim.fire mac.m_cycleTimer.m_eventOnFire :=
    getNextEvent_fire w.sim _ _ rest
  unfold RfidReaderMac.readerOp
  rw [hq]
  dsimp only
  rw [hft]
  have hcl : (w.sim.getNextEvent mac.m_cycleTimer.m_eventOnFire rest).2.m_clock
      ≤ w.sim.fire mac.m_cycleTimer.m_eventOnFire := hle
  rw [if_neg (not_not.2 hcl)]
  unfold RfidReaderMac.execute
  have hne : ¬ (w.sim.getNextEvent mac.m_cycleTimer.m_eventOnFire rest).1
      = mac.m_slotTimer.m_eventOnFire := fun heq => h.slot_ne_cycle heq.symm
  rw [if_neg hne]
  have heq : (w.sim.getNextEvent mac.m_cycleTimer.m_eventOnFire rest).1
      = mac.m_cycleTimer.m_eventOnFire := rfl
  rw [if_pos heq]
  unfold RfidReaderMac.endRequestCycleEvent
  rw [hnot]
  exact ⟨_, rfl⟩

end ReaderReachable

section ReaderClaims

theorem exampleStartWorld_beforeCreate : exampleStartWorld.BeforeCreate := by
  constructor
  · exact ⟨List.Pairwise.nil, List.nodup_nil, fun e he => by cases he⟩
  · intro e he
    cases he
  · intro e he
    simp [exampleStartWorld, Simulator.instance, Event.create] at he
  · intro e he
    cases he
  · intro e
    rfl

set_option maxHeartbeats 8000000 in
set_option maxRecDepth 8000 in
/-- The example run succeeds and ends in a contention cycle of 10 slots of the
read of packet 0. -/
theorem exampleReaderRun :
    ∃ r0, RfidReaderMac.createInWorld 7 0 exampleStartWorld = .ok r0 ∧
      ∃ r, RfidReaderMac.readerOps exampleReaderOps r0.1 r0.2 = .ok r ∧
        RfidReaderMac.ValidOps exampleReaderOps r0.1 r0.2 ∧
        r.1.m_currentSlotNumber = 0 ∧ r.1.m_numberOfSlots = 10 ∧
        r.1.m_currentAppReadPacket = some 0 := by
  norm_num [RfidReaderMac.createInWorld, exampleStartWorld, Timer.start, Timer.isRunning,
    Simulator.scheduleEvent, Simulator.instance, setEvent, Event.create, Event.inEventQueue,
    Event.setFireTime, Event.setInEventQueue, multisetInsert, Simulator.currentTime,
    Simulator.addSimulationEndListener, exampleReaderOps, RfidReaderMac.ValidOps,
    RfidReaderMac.readerOps, RfidReaderMac.readerOp, RfidReaderMac.execute, ReaderOp.Valid,
    RfidReaderMac.create, RfidReaderMac.beginSlotEvent, SlottedMac.startSendTimer,
    MacWorld.newSendEvent, Timer.reschedule, Timer.stop, Simulator.getNextEvent,
    Event.getFireTime, Simulator.eventPtrLt, Event.lt, SlottedMac.getSlotTime,
    RfidReaderMac.handleRecvdUpperLayerPacket, RfidReaderMac.isEnoughTimeForContentionCycle,
    Timer.timeRemaining, RfidReaderMac.startNextContentionCycle,
    RfidReaderMac.createRequestPacket, MacWorld.newPacket, MacWorld.setPacket, setAt,
    Packet.create, Packet.setTxPower, Packet.getTxPower, Packet.addData, Packet.getData,
    dataInsert, DataTypes.toNat, RfidReaderMac.sendToLinkLayer, MacProtocol.sendToLinkLayer,
    RfidReaderMac.handlePacketSent, RfidReaderMac.handleChannelBusy,
    RfidReaderMac.isPacketType, MacWorld.channelIsBusy, MacWorld.recvFromMacProtocol,
    MacWorld.call, MacWorld.blockUpperQueues, MacWorld.unblockUpperQueues, exampleReadPacket,
    RfidReaderAppData.create, RfidReaderAppData.toPacketData, RfidReaderAppData.getSizeInBytes,
    RfidReaderMacData.create, RfidReaderMacData.toPacketData, RfidReaderMacData.getSizeInBytes,
    RfidReaderMacData.setNumberOfSlots, SlottedMac.stopContentionCycle,
    m_DEFAULT_SLOT_TIME, m_DEFAULT_CYCLE_TIME, m_DEFAULT_NUMBER_OF_SLOTS, m_READER_IFS,
    PhysicalLayer.channelCarrierSensedBusy, PhysicalLayer.getCulmulativeSignalStrength,
    PhysicalLayer.getCsThreshold, exampleReaderPhy, PhysicalLayer.create,
    NodeId.broadcastDestination, Except.map]

/-- C35: in every state that the reader MAC reaches from its creation by valid
steps of the simulation (with the default cycle parameters, for which the class
has no setters), the cycle timer expires outside a contention cycle: if the cycle
event is the next event of the kernel, then `number_of_slots ≤ current_slot` and
its dispatch returns, ending the read; no step fails the assertion
`!inContentionCycle()`; while the cycle timer runs, the contention cycle that
the MAC is in ends strictly before the cycle timer fires (counted in slots from
the next slot event), and a REQUEST that waits to be sent was created with time
for its whole contention cycle before the cycle timer fires. -/
theorem cycle_timer_expires_outside_contention_cycle (w0 : MacWorld) (nodeId : NodeId)
    (listener : ListenerId) (ops : List ReaderOp) (r0 r : RfidReaderMac × MacWorld)
    (hw : w0.BeforeCreate)
    (hc : RfidReaderMac.createInWorld nodeId listener w0 = .ok r0)
    (hv : RfidReaderMac.ValidOps ops r0.1 r0.2)
    (hr : RfidReaderMac.readerOps ops r0.1 r0.2 = .ok r) :
    (∀ rest input, r.2.sim.m_eventPtrQueue = r.1.m_cycleTimer.m_eventOnFire :: rest →
        r.1.m_numberOfSlots ≤ r.1.m_currentSlotNumber ∧
        ∃ w', r.1.readerOp r.2 (.dispatch input)
          = .ok ({ r.1 with m_currentAppReadPacket := none }, w')) ∧
      (∀ op, r.1.readerOp r.2 op ≠ .error .inContentionCycle) ∧
      (r.1.m_cycleTimer.isRunning r.2.sim = true →
        r.1.m_currentSlotNumber < r.1.m_numberOfSlots →
        r.2.sim.fire r.1.m_slotTimer.m_eventOnFire
            + ((r.1.m_numberOfSlots : ℚ) - (r.1.m_currentSlotNumber : ℚ) - 1)
              * m_DEFAULT_SLOT_TIME
          < r.2.sim.fire r.1.m_cycleTimer.m_eventOnFire) ∧
      (∀ p n, r.1.m_packetToTransmit = some p → r.2.requestSlots p = some n →
        r.1.m_cycleTimer.isRunning r.2.sim = true ∧
          r.2.sim.fire r.1.m_slotTimer.m_eventOnFire + (n : ℚ) * m_DEFAULT_SLOT_TIME
            < r.2.sim.fire r.1.m_cycleTimer.m_eventOnFire) := by
  obtain ⟨mac0, w1⟩ := r0
  obtain ⟨mac, w⟩ := r
  have h : ReaderInv mac w := inv_readerOps ops mac0 w1 mac w (inv_createInWorld hw hc) hv hr
  refine ⟨?_, ?_, h.in_cycle, ?_⟩
  · intro rest input hq
    refine ⟨?_, dispatch_cycle_ok h hq input⟩
    have hnot := (dispatch_cycle h hq).1
    unfold SlottedMac.inContentionCycle at hnot
    rw [decide_eq_false_iff_not] at hnot
    exact not_lt.1 hnot
  · intro op hop
    exact (readerOp_fault h hop).1 rfl
  · intro p n hp hn
    obtain ⟨h1, _, _, h4⟩ := h.pending_request p n hp hn
    exact ⟨h1, h4⟩

theorem cycle_timer_expires_outside_contention_cycle_witness :
    ∃ r0 r, exampleStartWorld.BeforeCreate ∧
      RfidReaderMac.createInWorld 7 0 exampleStartWorld = .ok r0 ∧
      RfidReaderMac.ValidOps exampleReaderOps r0.1 r0.2 ∧
      RfidReaderMac.readerOps exampleReaderOps r0.1 r0.2 = .ok r ∧
      r.1.m_currentSlotNumber = 0 ∧ r.1.m_numberOfSlots = 10 ∧
      (∀ op, r.1.readerOp r.2 op ≠ .error .inContentionCycle) ∧
      (r.1.m_cycleTimer.isRunning r.2.sim = true →
        r.1.m_currentSlotNumber < r.1.m_numberOfSlots →
        r.2.sim.fire r.1.m_slotTimer.m_eventOnFire
            + ((r.1.m_numberOfSlots : ℚ) - (r.1.m_currentSlotNumber : ℚ) - 1)
              * m_DEFAULT_SLOT_TIME
          < r.2.sim.fire r.1.m_cycleTimer.m_eventOnFire) := by
  obtain ⟨r0, hc, r, hr, hv, hcur, hn, _⟩ := exampleReaderRun
  have h := cycle_timer_expires_outside_contention_cycle exampleStartWorld 7 0
    exampleReaderOps r0 r exampleStartWorld_beforeCreate hc hv hr
  exact ⟨r0, r, exampleStartWorld_beforeCreate, hc, hv, hr, hcur, hn, h.2.1, h.2.2.1⟩

/-- C36: between events, in every state that the reader MAC reaches from its
creation by valid steps of the simulation (READ and RESET packets from the
application, frames of tags, slot events, send events, the expiry of the cycle
timer), the cycle timer is running if and only if `m_currentAppReadPacket` is
present.  Consequently the only assertion on `m_currentAppReadPacket` that a step
can fail is the one of a READ handed down while a read is in progress:
`createRequestPacket` and the REPLY handler never find the packet absent, and
when the previous read has ended (the cycle timer is not running) no step fails
such an assertion, so a READ is accepted. -/
theorem cycle_timer_running_iff_read_packet (w0 : MacWorld) (nodeId : NodeId)
    (listener : ListenerId) (ops : List ReaderOp) (r0 r : RfidReaderMac × MacWorld)
    (hw : w0.BeforeCreate)
    (hc : RfidReaderMac.createInWorld nodeId listener w0 = .ok r0)
    (hv : RfidReaderMac.ValidOps ops r0.1 r0.2)
    (hr : RfidReaderMac.readerOps ops r0.1 r0.2 = .ok r) :
    (r.1.m_cycleTimer.isRunning r.2.sim = true ↔ r.1.m_currentAppReadPacket ≠ none) ∧
      (∀ op, r.1.readerOp r.2 op = .error .currentAppReadPacket →
        (∃ p, op = .dispatch (.upperLayerPacket p)) ∧
          r.1.m_currentAppReadPacket ≠ none ∧ r.1.m_cycleTimer.isRunning r.2.sim = true) ∧
      (r.1.m_cycleTimer.isRunning r.2.sim = false →
        ∀ op, r.1.readerOp r.2 op ≠ .error .currentAppReadPacket) := by
  obtain ⟨mac0, w1⟩ := r0
  obtain ⟨mac, w⟩ := r
  have h : ReaderInv mac w := inv_readerOps ops mac0 w1 mac w (inv_createInWorld hw hc) hv hr
  refine ⟨h.read_iff, ?_, ?_⟩
  · intro op hop
    obtain ⟨h1, h2⟩ := (readerOp_fault h hop).2 rfl
    exact ⟨h1, h2, h.read_iff.2 h2⟩
  · intro hstop op hop
    obtain ⟨_, h2⟩ := (readerOp_fault h hop).2 rfl
    have hrun : mac.m_cycleTimer.isRunning w.sim = true := h.read_iff.2 h2
    have hstop' : mac.m_cycleTimer.isRunning w.sim = false := hstop
    rw [hstop'] at hrun
    cases hrun

theorem cycle_timer_running_iff_read_packet_witness :
    ∃ r0 r, exampleStartWorld.BeforeCreate ∧
      RfidReaderMac.createInWorld 7 0 exampleStartWorld = .ok r0 ∧
      RfidReaderMac.ValidOps exampleReaderOps r0.1 r0.2 ∧
      RfidReaderMac.readerOps exampleReaderOps r0.1 r0.2 = .ok r ∧
      r.1.m_currentAppReadPacket = some 0 ∧
      (r.1.m_cycleTimer.isRunning r.2.sim = true ↔ r.1.m_currentAppReadPacket ≠ none) := by
  obtain ⟨r0, hc, r, hr, hv, _, _, happ⟩ := exampleReaderRun
  have h := cycle_timer_running_iff_read_packet exampleStartWorld 7 0
    exampleReaderOps r0 r exampleStartWorld_beforeCreate hc hv hr
  exact ⟨r0, r, exampleStartWorld_beforeCreate, hc, hv, hr, happ, h.1⟩

end ReaderClaims

section ResetSlot

theorem isEnough_congr_events (mac mac' : RfidReaderMac) (w w' : MacWorld)
    (h1 : mac'.m_cycleTimer = mac.m_cycleTimer)
    (h2 : mac'.m_nextCycleNumberOfSlots = mac.m_nextCycleNumberOfSlots)
    (h3 : w'.sim.m_clock = w.sim.m_clock)
    (h4 : w'.sim.events mac.m_cycleTimer.m_eventOnFire
      = w.sim.events mac.m_cycleTimer.m_eventOnFire) :
    mac'.isEnoughTimeForContentionCycle w' = mac.isEnoughTimeForContentionCycle w := by
  unfold RfidReaderMac.isEnoughTimeForContentionCycle Timer.timeRemaining Timer.isRunning
    Simulator.currentTime
  rw [h1, h2, h3, h4]

theorem isEnough_stopped (mac : RfidReaderMac) (w : MacWorld)
    (h : mac.m_cycleTimer.isRunning w.sim = false) :
    mac.isEnoughTimeForContentionCycle w = .ok false := by
  unfold RfidReaderMac.isEnoughTimeForContentionCycle Timer.timeRemaining
  rw [h]
  simp only [Bool.false_eq_true, if_false, Except.ok.injEq, decide_eq_false_iff_not, not_lt]
  unfold m_DEFAULT_SLOT_TIME
  positivity

/-- The method `handlePacketSent` on a SELECT. -/
theorem handlePacketSent_select (mac : RfidReaderMac) (w : MacWorld) (select : PacketPtr)
    (hsel : RfidReaderMac.isPacketType w select .Select = true) :
    RfidReaderMac.handlePacketSent select mac w
      = .ok ({ mac with
          m_doResetSlot := true
          m_resetSlotNumber := (mac.m_currentSlotNumber + 1) % 2 ^ 32 }, w) := by
  have hreq : RfidReaderMac.isPacketType w select .Request = false := by
    unfold RfidReaderMac.isPacketType at hsel ⊢
    cases hd : (w.packets select).getData .Link with
    | none => rfl
    | some d =>
      obtain ⟨size, header⟩ := d
      rw [hd] at hsel
      cases header with
      | readerMac md =>
        simp only [decide_eq_true_eq] at hsel
        simp [hsel]
      | plain => rfl
      | tagMac _ => rfl
      | readerApp _ => rfl
      | tagApp _ => rfl
  unfold RfidReaderMac.handlePacketSent
  rw [hreq, hsel]
  simp

/-- The transmit branch of `beginSlotEvent`: the send timer is started for the
pending packet, and the contention cycle goes on. -/
theorem beginSlotEvent_transmit (m : RfidReaderMac) (v : MacWorld) (pk : PacketPtr)
    (hp : m.m_packetToTransmit = some pk)
    (htx : m.m_currentSlotNumber = m.m_txSlotNumber)
    (hsend : ∀ t, m.m_sendTimer = some t → t.isRunning v.sim = false)
    (halloc : m.m_slotTimer.m_eventOnFire ≠ v.nextEventPtr)
    (hslot : 0 ≤ m.getSlotTime) :
    ∃ m' v', m.beginSlotEvent v = .ok (m', v') ∧
      v'.sendEvents v.nextEventPtr = some (.Lower, pk) ∧
      m'.m_sendTimer = some { m_eventOnFire := v.nextEventPtr } ∧
      v'.sim.events v.nextEventPtr
        = { m_timeToFire := v.sim.m_clock + m_READER_IFS, m_inEventQueue := true } ∧
      m'.m_packetToTransmit = none ∧
      m'.m_numberOfSlots = m.m_numberOfSlots ∧
      m'.m_currentSlotNumber = (m.m_currentSlotNumber + 1) % 2 ^ 32 ∧
      m'.m_doResetSlot = m.m_doResetSlot ∧
      m'.m_missedReads = m.m_missedReads ∧
      m'.m_currentAppReadPacket = m.m_currentAppReadPacket := by
  have hifs : (0 : ℚ) ≤ m_READER_IFS := by
    unfold m_READER_IFS
    norm_num
  obtain ⟨s1, hs1⟩ := scheduleEvent_isOk
    ({ v.sim with events := setEvent v.sim.events v.nextEventPtr Event.create } : Simulator)
    v.nextEventPtr m_READER_IFS (by simp [setEvent, Event.create]) hifs
  obtain ⟨_, hclock1, _, hev1, _, _⟩ := scheduleEvent_props hs1
  obtain ⟨b, s2, hres, hclock2, hoth2⟩ := timer_reschedule_ok m.m_slotTimer s1 m.getSlotTime hslot
  have hstart : m.toSlottedMac.startSendTimer v .Lower pk m_READER_IFS
      = .ok (true, { m.toSlottedMac with
          m_sendTimer := some { m_eventOnFire := v.nextEventPtr } },
        { v with
          nextEventPtr := v.nextEventPtr + 1
          sendEvents := setAt v.sendEvents v.nextEventPtr (some (.Lower, pk))
          sim := s1 }) := by
    unfold SlottedMac.startSendTimer
    dsimp only
    split_ifs with hc
    · exfalso
      cases ht : m.m_sendTimer with
      | none =>
        rw [ht] at hc
        cases hc
      | some t =>
        rw [ht] at hc
        have hc' : t.isRunning v.sim = true := hc
        rw [hsend t ht] at hc'
        cases hc'
    · simp only [MacWorld.newSendEvent, Timer.start, Timer.isRunning, setEvent, if_true,
        Event.create, Event.inEventQueue, Bool.not_false]
      have hs1' := hs1
      simp only [setEvent, Event.create] at hs1'
      rw [hs1']
  refine ⟨{ m with
      m_sendTimer := some { m_eventOnFire := v.nextEventPtr }
      m_packetToTransmit := none
      m_currentSlotNumber := (m.m_currentSlotNumber + 1) % 2 ^ 32 },
    { v with
      nextEventPtr := v.nextEventPtr + 1
      sendEvents := setAt v.sendEvents v.nextEventPtr (some (.Lower, pk))
      sim := s2 }, ?_, ?_, ?_, ?_, ?_, ?_, ?_, ?_, ?_, ?_⟩
  rotate_left
  · exact setAt_same _ _ _
  · rfl
  · show s2.events v.nextEventPtr = _
    rw [hoth2 _ (Ne.symm halloc), hev1]
  · rfl
  · rfl
  · rfl
  · rfl
  · rfl
  · rfl
  · unfold RfidReaderMac.beginSlotEvent
    dsimp only
    rw [if_pos htx]
    simp only [hp]
    rw [hstart]
    simp only []
    have hres' : m.m_slotTimer.reschedule s1 m.m_slotTime = .ok (b, s2) := hres
    simp only [SlottedMac.getSlotTime]
    rw [hres']

end ResetSlot

section ResetSlotEnd

theorem isPacketType_of_getData (w : MacWorld) (p : PacketPtr) (d : RfidReaderMacData)
    (h : (w.packets p).getData .Link = some d.toPacketData) :
    RfidReaderMac.isPacketType w p d.m_type = true := by
  unfold RfidReaderMac.isPacketType
  rw [h]
  simp [RfidReaderMacData.toPacketData]

theorem endOfContentionCycle_tail_ok (mac3 : RfidReaderMac) (v : MacWorld)
    (hnot : mac3.inContentionCycle = false)
    (hthr : (!mac3.m_doEntireReadCycle
        && decide (mac3.m_missedReadCount = m_MISSED_READ_THRESHOLD)) = true →
      mac3.m_cycleTimer.isRunning v.sim = true)
    (hwf : v.sim.WF) (hexact : v.sim.FlagsExact)
    (hvalid : mac3.m_cycleTimer.isRunning v.sim = true →
      v.sim.m_clock ≤ v.sim.fire mac3.m_cycleTimer.m_eventOnFire)
    (happ : mac3.m_cycleTimer.isRunning v.sim = true →
      ∃ a, mac3.m_currentAppReadPacket = some a ∧ a < v.nextPacketPtr ∧
        0 ≤ (v.packets a).getTxPower)
    (hslots : 4 ≤ mac3.m_nextCycleNumberOfSlots)
    (hblocked : mac3.m_cycleTimer.isRunning v.sim = false → v.getQueueIsBlocked = false) :
    ∃ m1 v1,
      (if !mac3.m_doEntireReadCycle && mac3.m_missedReadCount = m_MISSED_READ_THRESHOLD then
        if !mac3.m_cycleTimer.isRunning v.sim then .error .cycleTimerNotRunning
        else
          mac3.endRequestCycleEvent { v with sim := (mac3.m_cycleTimer.stop v.sim).2 }
      else
        match mac3.isEnoughTimeForContentionCycle v with
        | .error f => .error f
        | .ok true =>
          match mac3.createRequestPacket v with
          | .error f => .error f
          | .ok (packet, w1) =>
            .ok ({ mac3 with
              m_packetToTransmit := some packet
              m_txSlotNumber := (mac3.m_currentSlotNumber + 1) % 2 ^ 32 }, w1)
        | .ok false =>
          if !mac3.m_cycleTimer.isRunning v.sim && v.getQueueIsBlocked
          then .error .queueIsBlocked
          else .ok (mac3, v)) = (.ok (m1, v1) : Except Fault (RfidReaderMac × MacWorld)) ∧
      m1.m_numberOfSlots = mac3.m_numberOfSlots ∧
      m1.m_currentSlotNumber = mac3.m_currentSlotNumber ∧
      m1.m_doResetSlot = mac3.m_doResetSlot ∧
      m1.m_missedReads = mac3.m_missedReads ∧
      m1.m_slotTimer = mac3.m_slotTimer ∧ m1.m_slotTime = mac3.m_slotTime ∧
      m1.m_cycleTimer = mac3.m_cycleTimer ∧
      m1.m_nextCycleNumberOfSlots = mac3.m_nextCycleNumberOfSlots ∧
      m1.m_sendTimer = mac3.m_sendTimer ∧
      v1.sim.m_clock = v.sim.m_clock ∧
      ((m1.m_cycleTimer.isRunning v1.sim = false ∧ m1.m_packetToTransmit = mac3.m_packetToTransmit)
        ∨ (v1.sim = v.sim ∧ ∃ enough, mac3.isEnoughTimeForContentionCycle v = .ok enough ∧
          (enough = true →
            m1.m_packetToTransmit = some v.nextPacketPtr ∧
            m1.m_txSlotNumber = (mac3.m_currentSlotNumber + 1) % 2 ^ 32 ∧
            RfidReaderMac.isPacketType v1 v.nextPacketPtr .Request = true) ∧
          (enough = false → m1.m_packetToTransmit = mac3.m_packetToTransmit))) := by
  by_cases hc : (!mac3.m_doEntireReadCycle
      && decide (mac3.m_missedReadCount = m_MISSED_READ_THRESHOLD)) = true
  · rw [if_pos hc]
    have hrun := hthr hc
    have hnr : ¬ ((!mac3.m_cycleTimer.isRunning v.sim) = true) := by
      rw [hrun]
      simp
    rw [if_neg hnr]
    unfold RfidReaderMac.endRequestCycleEvent
    rw [hnot]
    refine ⟨_, _, rfl, rfl, rfl, rfl, rfl, rfl, rfl, rfl, rfl, rfl, ?_, Or.inl ⟨?_, rfl⟩⟩
    · exact timer_stop_clock _ _
    · exact timer_stop_running mac3.m_cycleTimer v.sim hwf (hexact _ hrun)
  · rw [if_neg hc]
    obtain ⟨e0, he0⟩ := isEnoughTimeForContentionCycle_ok mac3 v hvalid
    rw [he0]
    cases e0 with
    | true =>
      have hrun : mac3.m_cycleTimer.isRunning v.sim = true := by
        cases hx : mac3.m_cycleTimer.isRunning v.sim with
        | true => rfl
        | false =>
          rw [isEnough_stopped mac3 v hx] at he0
          cases he0
      obtain ⟨a, ha, halloc, hpower⟩ := happ hrun
      obtain ⟨w1, hreq, hsim, _, _, _, hlink, _, _⟩ :=
        createRequestPacket_ok mac3 v a ha halloc hpower hslots
      dsimp only
      rw [hreq]
      refine ⟨_, _, rfl, rfl, rfl, rfl, rfl, rfl, rfl, rfl, rfl, rfl, ?_,
        Or.inr ⟨hsim, true, rfl, fun _ => ⟨rfl, rfl, ?_⟩, fun hf => Bool.noConfusion hf⟩⟩
      · rw [hsim]
      · exact isPacketType_of_getData w1 v.nextPacketPtr _ hlink
    | false =>
      dsimp only
      have hb : ¬ ((!mac3.m_cycleTimer.isRunning v.sim && v.getQueueIsBlocked) = true) := by
        cases hx : mac3.m_cycleTimer.isRunning v.sim with
        | true => simp
        | false =>
          rw [hblocked hx]
          simp
      rw [if_neg hb]
      exact ⟨_, _, rfl, rfl, rfl, rfl, rfl, rfl, rfl, rfl, rfl, rfl, rfl,
        Or.inr ⟨rfl, false, rfl, fun hf => Bool.noConfusion hf, fun _ => rfl⟩⟩

end ResetSlotEnd

section ResetSlotStep

/-- The end-of-cycle branch of `beginSlotEvent` returns: the contention cycle is
stopped, the missed read is recorded when the MAC is not reading for the entire
cycle and the cycle timer runs, and either the read is ended (third missed read)
or a REQUEST is created exactly if there is enough time. -/
theorem endOfContentionCycle_ok (m : RfidReaderMac) (v : MacWorld)
    (hnone : m.m_packetToTransmit = none)
    (hwf : v.sim.WF) (hexact : v.sim.FlagsExact)
    (hvalid : m.m_cycleTimer.isRunning v.sim = true →
      v.sim.m_clock ≤ v.sim.fire m.m_cycleTimer.m_eventOnFire)
    (happ : m.m_cycleTimer.isRunning v.sim = true →
      ∃ a, m.m_currentAppReadPacket = some a ∧ a < v.nextPacketPtr ∧
        0 ≤ (v.packets a).getTxPower)
    (hslots : 4 ≤ m.m_nextCycleNumberOfSlots)
    (hblocked : m.m_cycleTimer.isRunning v.sim = false → v.getQueueIsBlocked = false) :
    ∃ m1 v1, m.endOfContentionCycle v = .ok (m1, v1) ∧
      m1.m_numberOfSlots = 0 ∧ m1.m_currentSlotNumber = 0 ∧ m1.m_doResetSlot = false ∧
      m1.m_missedReads
        = (if (!m.m_doEntireReadCycle && m.m_cycleTimer.isRunning v.sim) = true then
            m.m_missedReads ++ [m.m_currentSlotNumber]
          else m.m_missedReads) ∧
      m1.m_slotTimer = m.m_slotTimer ∧ m1.m_slotTime = m.m_slotTime ∧
      m1.m_cycleTimer = m.m_cycleTimer ∧
      m1.m_nextCycleNumberOfSlots = m.m_nextCycleNumberOfSlots ∧
      m1.m_sendTimer = m.m_sendTimer ∧
      v1.sim.m_clock = v.sim.m_clock ∧
      ((m1.m_cycleTimer.isRunning v1.sim = false ∧ m1.m_packetToTransmit = none)
        ∨ (v1.sim = v.sim ∧ ∃ enough, m.isEnoughTimeForContentionCycle v = .ok enough ∧
          (enough = true →
            m1.m_packetToTransmit = some v.nextPacketPtr ∧ m1.m_txSlotNumber = 1 ∧
            RfidReaderMac.isPacketType v1 v.nextPacketPtr .Request = true) ∧
          (enough = false → m1.m_packetToTransmit = none))) := by
  obtain ⟨e0, he0⟩ := isEnoughTimeForContentionCycle_ok m v hvalid
  have hpn : ¬ (m.m_packetToTransmit ≠ none) := by
    rw [hnone]
    simp
  by_cases hc : (!m.m_doEntireReadCycle && m.m_cycleTimer.isRunning v.sim) = true
  · have hrun : m.m_cycleTimer.isRunning v.sim = true := by
      cases hx : m.m_cycleTimer.isRunning v.sim with
      | true => rfl
      | false => rw [hx] at hc; simp at hc
    obtain ⟨m1, v1, htail, h1, h2, h3, h4, h5, h6, h7, h8, hst, h9, h10⟩ :=
      endOfContentionCycle_tail_ok
        { ({ ({ m with
                m_missedReads := m.m_missedReads ++ [m.m_currentSlotNumber]
                m_missedReadCount := (m.m_missedReadCount + 1) % 2 ^ 32 } : RfidReaderMac)
              with m_doResetSlot := false } : RfidReaderMac) with
          m_currentSlotNumber := 0, m_numberOfSlots := 0 }
        v rfl (fun _ => hrun) hwf hexact hvalid happ hslots hblocked
    have key : m.endOfContentionCycle v = .ok (m1, v1) := by
      unfold RfidReaderMac.endOfContentionCycle
      rw [if_neg hpn, he0]
      dsimp only
      rw [if_pos hc]
      exact htail
    refine ⟨m1, v1, key, h1, h2, h3, ?_, h5, h6, h7, h8, hst, h9, ?_⟩
    · rw [if_pos hc]
      exact h4
    · rcases h10 with ⟨ha, hb⟩ | ⟨ha, enough, hb, hd, he⟩
      · exact Or.inl ⟨ha, hb.trans hnone⟩
      · refine Or.inr ⟨ha, enough, ?_, ?_, ?_⟩
        · exact hb
        · intro ht
          obtain ⟨x1, x2, x3⟩ := hd ht
          exact ⟨x1, x2, x3⟩
        · intro hf
          exact (he hf).trans hnone
  · have hthr : (!m.m_doEntireReadCycle && decide ((0 : ℕ) = m_MISSED_READ_THRESHOLD)) = true →
        m.m_cycleTimer.isRunning v.sim = true := by
      intro h
      simp [m_MISSED_READ_THRESHOLD] at h
    obtain ⟨m1, v1, htail, h1, h2, h3, h4, h5, h6, h7, h8, hst, h9, h10⟩ :=
      endOfContentionCycle_tail_ok
        { ({ ({ m with m_missedReadCount := 0 } : RfidReaderMac)
              with m_doResetSlot := false } : RfidReaderMac) with
          m_currentSlotNumber := 0, m_numberOfSlots := 0 }
        v rfl hthr hwf hexact hvalid happ hslots hblocked
    have key : m.endOfContentionCycle v = .ok (m1, v1) := by
      unfold RfidReaderMac.endOfContentionCycle
      rw [if_neg hpn, he0]
      dsimp only
      rw [if_neg hc]
      exact htail
    refine ⟨m1, v1, key, h1, h2, h3, ?_, h5, h6, h7, h8, hst, h9, ?_⟩
    · rw [if_neg hc]
      exact h4
    · rcases h10 with ⟨ha, hb⟩ | ⟨ha, enough, hb, hd, he⟩
      · exact Or.inl ⟨ha, hb.trans hnone⟩
      · refine Or.inr ⟨ha, enough, ?_, ?_, ?_⟩
        · exact hb
        · intro ht
          obtain ⟨x1, x2, x3⟩ := hd ht
          exact ⟨x1, x2, x3⟩
        · intro hf
          exact (he hf).trans hnone

/-- The slot event at the reset slot when no frame was received: the contention
cycle is stopped, and a REQUEST waits for the following slot exactly if time
remains. -/
theorem beginSlotEvent_reset_slot (m : RfidReaderMac) (v : MacWorld)
    (hend : m.m_numberOfSlots = 0 ∨ m.m_currentSlotNumber ≥ m.m_numberOfSlots
      ∨ (m.m_doResetSlot = true ∧ m.m_currentSlotNumber = m.m_resetSlotNumber))
    (htx : m.m_currentSlotNumber ≠ m.m_txSlotNumber)
    (hnone : m.m_packetToTransmit = none)
    (hwf : v.sim.WF) (hfuture : v.sim.Future) (hexact : v.sim.FlagsExact)
    (hdistinct : m.m_cycleTimer.m_eventOnFire ≠ m.m_slotTimer.m_eventOnFire)
    (hslot : 0 ≤ m.getSlotTime)
    (happ : m.m_cycleTimer.isRunning v.sim = true →
      ∃ a, m.m_currentAppReadPacket = some a ∧ a < v.nextPacketPtr ∧
        0 ≤ (v.packets a).getTxPower)
    (hslots : 4 ≤ m.m_nextCycleNumberOfSlots)
    (hblocked : m.m_cycleTimer.isRunning v.sim = false → v.getQueueIsBlocked = false) :
    ∃ m' v', m.beginSlotEvent v = .ok (m', v') ∧
      m'.m_numberOfSlots = 0 ∧ m'.m_currentSlotNumber = 1 ∧ m'.m_doResetSlot = false ∧
      m'.m_missedReads
        = (if (!m.m_doEntireReadCycle && m.m_cycleTimer.isRunning v.sim) = true then
            m.m_missedReads ++ [m.m_currentSlotNumber]
          else m.m_missedReads) ∧
      m'.m_sendTimer = m.m_sendTimer ∧ m'.m_slotTimer = m.m_slotTimer ∧
      m'.m_slotTime = m.m_slotTime ∧
      ∃ enough, m'.isEnoughTimeForContentionCycle v' = .ok enough ∧
        (enough = true →
          ∃ pk, m'.m_packetToTransmit = some pk ∧
            RfidReaderMac.isPacketType v' pk .Request = true ∧
            m'.m_txSlotNumber = m'.m_currentSlotNumber) ∧
        (enough = false → m'.m_packetToTransmit = none) := by
  have hvalid : m.m_cycleTimer.isRunning v.sim = true →
      v.sim.m_clock ≤ v.sim.fire m.m_cycleTimer.m_eventOnFire :=
    fun hr => hfuture _ (hexact _ hr)
  obtain ⟨m1, v1, key, h1, h2, h3, h4, h5, h6, h7, h8, hst, h9, h10⟩ :=
    endOfContentionCycle_ok m v hnone hwf hexact hvalid happ hslots hblocked
  have hslot1 : 0 ≤ m1.m_slotTime := by
    rw [h6]
    exact hslot
  obtain ⟨b, s2, hres, hclock2, hoth2⟩ :=
    timer_reschedule_ok m1.m_slotTimer v1.sim m1.m_slotTime hslot1
  have hcyc : s2.events m1.m_cycleTimer.m_eventOnFire
      = v1.sim.events m1.m_cycleTimer.m_eventOnFire := by
    apply hoth2
    rw [h7, h5]
    exact hdistinct
  have hone : (m1.m_currentSlotNumber + 1) % 2 ^ 32 = 1 := by
    rw [h2]
    norm_num
  refine ⟨{ m1 with m_currentSlotNumber := (m1.m_currentSlotNumber + 1) % 2 ^ 32 },
    { v1 with sim := s2 }, ?_, h1, hone, h3, h4, hst, h5, h6, ?_⟩
  · unfold RfidReaderMac.beginSlotEvent
    dsimp only
    rw [if_neg htx, if_pos hend, key]
    dsimp only
    have hres' : m1.m_slotTimer.reschedule v1.sim
        (SlottedMac.getSlotTime
          { m1.toSlottedMac with
            m_currentSlotNumber := (m1.m_currentSlotNumber + 1) % 2 ^ 32 }) = .ok (b, s2) := hres
    rw [hres']
  · rcases h10 with ⟨ha, hb⟩ | ⟨ha, enough, hb, hd, he⟩
    · refine ⟨false, ?_, fun hf => Bool.noConfusion hf, fun _ => hb⟩
      apply isEnough_stopped
      show m1.m_cycleTimer.isRunning s2 = false
      unfold Timer.isRunning at ha ⊢
      rw [hcyc]
      exact ha
    · refine ⟨enough, ?_, ?_, he⟩
      · rw [← hb]
        apply isEnough_congr_events
        · exact h7
        · exact h8
        · show s2.m_clock = v.sim.m_clock
          rw [hclock2, h9]
        · show s2.events m.m_cycleTimer.m_eventOnFire = v.sim.events m.m_cycleTimer.m_eventOnFire
          rw [← h7, hcyc, ha]
      · intro ht
        obtain ⟨x1, x2, x3⟩ := hd ht
        exact ⟨v.nextPacketPtr, x1, x3, by
          show m1.m_txSlotNumber = (m1.m_currentSlotNumber + 1) % 2 ^ 32
          rw [x2, hone]⟩

end ResetSlotStep

section ResetSlotClaim

/-- C34: when the reader MAC sends a SELECT while `current_slot = k` (slot numbers
are `t_uint`, so `k + 1` is taken modulo 2^32 and is `k + 1` unless the counter
wraps), `handlePacketSent` sets `do_reset_slot` and `reset_slot_number = k + 1`.
At the `beginSlotEvent` call with `current_slot = k + 1`: if the identity
(GENERIC) frame of the tag was received in the slot before, `handleRecvdMacPacket`
left an ACK pending with `tx_slot = k + 1`, the call takes the transmit branch and
starts the send timer for the ACK (a `SendToLinkLayerEvent` for it fires the
reader IFS later), and the contention cycle is not stopped: `number_of_slots` and
`do_reset_slot` stay, `current_slot` goes on to `k + 2`.  If no frame was
received (nothing is pending and `tx_slot` is an earlier slot), the call stops the
contention cycle (`number_of_slots = 0`, `current_slot = 1` after its increment),
records the missed read exactly if the MAC does not read for the entire cycle and
the cycle timer runs, and, exactly if there is enough time for a contention cycle
after the call, leaves a REQUEST pending for slot 1, for which the next
`beginSlotEvent` call starts the send timer. -/
theorem reset_slot_after_select (mac : RfidReaderMac) (w : MacWorld) (select : PacketPtr)
    (k : ℕ) (hk : mac.m_currentSlotNumber = k)
    (hsel : RfidReaderMac.isPacketType w select .Select = true) :
    ∃ mac1, RfidReaderMac.handlePacketSent select mac w = .ok (mac1, w) ∧
      mac1.m_doResetSlot = true ∧ mac1.m_resetSlotNumber = (k + 1) % 2 ^ 32 ∧
      (k + 1 < 2 ^ 32 → mac1.m_resetSlotNumber = k + 1) ∧
      mac1.m_currentSlotNumber = k ∧ mac1.m_numberOfSlots = mac.m_numberOfSlots ∧
      (∀ (g : RfidReaderMac) (v : MacWorld) (frame : PacketPtr) (size : ℕ)
          (macData : RfidTagMacData),
        g.m_currentSlotNumber = (k + 1) % 2 ^ 32 →
        (v.packets frame).getData .Link
          = some { sizeInBytes := size, header := (Header.tagMac macData) } →
        macData.m_type = .Generic →
        (macData.m_receiverId = g.nodeId
          ∨ macData.m_receiverId = NodeId.broadcastDestination) →
        g.m_slotTimer.isRunning v.sim = true →
        ∃ m v', g.handleRecvdMacPacket v frame = .ok (true, m, v') ∧
          m.m_packetToTransmit = some v.nextPacketPtr ∧
          RfidReaderMac.isPacketType v' v.nextPacketPtr .Ack = true ∧
          m.m_txSlotNumber = (k + 1) % 2 ^ 32 ∧
          m.m_currentSlotNumber = (k + 1) % 2 ^ 32 ∧
          ∀ v2 : MacWorld,
            (∀ t, g.m_sendTimer = some t → t.isRunning v2.sim = false) →
            g.m_slotTimer.m_eventOnFire ≠ v2.nextEventPtr → 0 ≤ g.getSlotTime →
            ∃ m' v2', m.beginSlotEvent v2 = .ok (m', v2') ∧
              v2'.sendEvents v2.nextEventPtr = some (.Lower, v.nextPacketPtr) ∧
              m'.m_sendTimer = some { m_eventOnFire := v2.nextEventPtr } ∧
              v2'.sim.events v2.nextEventPtr
                = { m_timeToFire := v2.sim.m_clock + m_READER_IFS, m_inEventQueue := true } ∧
              m'.m_packetToTransmit = none ∧
              m'.m_numberOfSlots = g.m_numberOfSlots ∧
              m'.m_currentSlotNumber = ((k + 1) % 2 ^ 32 + 1) % 2 ^ 32 ∧
              m'.m_doResetSlot = g.m_doResetSlot ∧
              m'.m_missedReads = g.m_missedReads) ∧
      (∀ (m : RfidReaderMac) (v : MacWorld),
        m.m_currentSlotNumber = (k + 1) % 2 ^ 32 →
        m.m_doResetSlot = mac1.m_doResetSlot →
        m.m_resetSlotNumber = mac1.m_resetSlotNumber →
        m.m_txSlotNumber ≠ (k + 1) % 2 ^ 32 →
        m.m_packetToTransmit = none →
        v.sim.WF → v.sim.Future → v.sim.FlagsExact →
        m.m_cycleTimer.m_eventOnFire ≠ m.m_slotTimer.m_eventOnFire →
        0 ≤ m.getSlotTime →
        (m.m_cycleTimer.isRunning v.sim = true →
          ∃ a, m.m_currentAppReadPacket = some a ∧ a < v.nextPacketPtr ∧
            0 ≤ (v.packets a).getTxPower) →
        4 ≤ m.m_nextCycleNumberOfSlots →
        (m.m_cycleTimer.isRunning v.sim = false → v.getQueueIsBlocked = false) →
        ∃ m' v', m.beginSlotEvent v = .ok (m', v') ∧
          m'.m_numberOfSlots = 0 ∧ m'.m_currentSlotNumber = 1 ∧ m'.m_doResetSlot = false ∧
          m'.m_missedReads
            = (if (!m.m_doEntireReadCycle && m.m_cycleTimer.isRunning v.sim) = true then
                m.m_missedReads ++ [(k + 1) % 2 ^ 32]
              else m.m_missedReads) ∧
          ∃ enough, m'.isEnoughTimeForContentionCycle v' = .ok enough ∧
            (enough = false → m'.m_packetToTransmit = none) ∧
            (enough = true →
              ∃ pk, m'.m_packetToTransmit = some pk ∧
                RfidReaderMac.isPacketType v' pk .Request = true ∧
                m'.m_txSlotNumber = m'.m_currentSlotNumber ∧
                ∀ v2 : MacWorld,
                  (∀ t, m.m_sendTimer = some t → t.isRunning v2.sim = false) →
                  m.m_slotTimer.m_eventOnFire ≠ v2.nextEventPtr → 0 ≤ m.getSlotTime →
                  ∃ m'' v2', m'.beginSlotEvent v2 = .ok (m'', v2') ∧
                    v2'.sendEvents v2.nextEventPtr = some (.Lower, pk) ∧
                    m''.m_sendTimer = some { m_eventOnFire := v2.nextEventPtr } ∧
                    v2'.sim.events v2.nextEventPtr
                      = { m_timeToFire := v2.sim.m_clock + m_READER_IFS,
                          m_inEventQueue := true })) := by
  refine ⟨_, handlePacketSent_select mac w select hsel, rfl, ?_, ?_, hk, rfl, ?_, ?_⟩
  · show (mac.m_currentSlotNumber + 1) % 2 ^ 32 = (k + 1) % 2 ^ 32
    rw [hk]
  · intro hlt
    show (mac.m_currentSlotNumber + 1) % 2 ^ 32 = k + 1
    rw [hk]
    exact Nat.mod_eq_of_lt hlt
  · intro g v frame size macData hcur hdata htype hforMe hslotrun
    obtain ⟨v', hrecv, _, _, _, hlink, _⟩ :=
      handleRecvdMacPacket_generic_eq g v frame size macData hdata htype hforMe hslotrun
    refine ⟨_, v', hrecv, rfl, ?_, hcur, hcur, ?_⟩
    · exact isPacketType_of_getData v' v.nextPacketPtr _ hlink
    · intro v2 hsend halloc hslot
      obtain ⟨m', v2', h1, h2, h3, h4, h5, h6, h7, h8, h9, _⟩ :=
        beginSlotEvent_transmit
          { g with
            m_winningSlotNumbers := g.m_winningSlotNumbers ++
              [(macData.m_senderId, (g.m_currentSlotNumber + (2 ^ 32 - 3)) % 2 ^ 32)]
            m_packetToTransmit := some v.nextPacketPtr
            m_txSlotNumber := g.m_currentSlotNumber }
          v2 v.nextPacketPtr rfl rfl hsend halloc hslot
      refine ⟨m', v2', h1, h2, h3, h4, h5, h6, ?_, h8, h9⟩
      rw [h7]
      show (g.m_currentSlotNumber + 1) % 2 ^ 32 = _
      rw [hcur]
  · intro m v hcur hdo hres htx hnone hwf hfuture hexact hdistinct hslot happ hslots hblocked
    have hend : m.m_numberOfSlots = 0 ∨ m.m_currentSlotNumber ≥ m.m_numberOfSlots
        ∨ (m.m_doResetSlot = true ∧ m.m_currentSlotNumber = m.m_resetSlotNumber) := by
      refine Or.inr (Or.inr ⟨hdo, ?_⟩)
      rw [hcur, hres]
      show (k + 1) % 2 ^ 32 = (mac.m_currentSlotNumber + 1) % 2 ^ 32
      rw [hk]
    have htx' : m.m_currentSlotNumber ≠ m.m_txSlotNumber := by
      rw [hcur]
      exact fun h => htx h.symm
    obtain ⟨m', v', h1, h2, h3, h4, h5, hst, hsl, hsltime, enough, h6, h7, h8⟩ :=
      beginSlotEvent_reset_slot m v hend htx' hnone hwf hfuture hexact hdistinct hslot happ
        hslots hblocked
    refine ⟨m', v', h1, h2, h3, h4, ?_, enough, h6, h8, ?_⟩
    · rw [h5, hcur]
    · intro ht
      obtain ⟨pk, hp, hreq, htxeq⟩ := h7 ht
      refine ⟨pk, hp, hreq, htxeq, ?_⟩
      intro v2 hsend halloc hslot2
      have hsend' : ∀ t, m'.m_sendTimer = some t → t.isRunning v2.sim = false := by
        rw [hst]
        exact hsend
      have halloc' : m'.m_slotTimer.m_eventOnFire ≠ v2.nextEventPtr := by
        rw [hsl]
        exact halloc
      have hslot2' : 0 ≤ m'.getSlotTime := by
        unfold SlottedMac.getSlotTime at hslot2 ⊢
        rw [hsltime]
        exact hslot2
      obtain ⟨m'', v2', g1, g2, g3, g4, _⟩ :=
        beginSlotEvent_transmit m' v2 pk hp htxeq.symm hsend' halloc' hslot2'
      exact ⟨m'', v2', g1, g2, g3, g4⟩

theorem reset_slot_after_select_witness :
    ∃ mac1, RfidReaderMac.handlePacketSent 2 exampleSelectingMac exampleTagWorld
        = .ok (mac1, exampleTagWorld) ∧
      mac1.m_doResetSlot = true ∧ mac1.m_resetSlotNumber = 3 ∧
      (∃ m v', exampleSelectedMac.handleRecvdMacPacket exampleGenericWorld 1
          = .ok (true, m, v') ∧
        m.m_packetToTransmit = some 2 ∧ m.m_txSlotNumber = 3 ∧
        ∃ m' v2', m.beginSlotEvent exampleSlotWorld = .ok (m', v2') ∧
          v2'.sendEvents 2 = some (.Lower, 2) ∧
          m'.m_numberOfSlots = 10 ∧ m'.m_currentSlotNumber = 4) ∧
      (∃ m' v', exampleSelectedMac.beginSlotEvent exampleSlotWorld = .ok (m', v') ∧
        m'.m_numberOfSlots = 0 ∧ m'.m_currentSlotNumber = 1 ∧ m'.m_missedReads = [3] ∧
        ∃ enough, m'.isEnoughTimeForContentionCycle v' = .ok enough) := by
  have hdata : (exampleGenericWorld.packets 1).getData .Link
      = some { sizeInBytes := 17, header := (Header.tagMac ⟨9, 7, .Generic⟩) } := by
    simp [exampleGenericWorld, exampleGenericPacket, Packet.getData, Packet.addData,
      dataInsert, Packet.create, RfidTagMacData.toPacketData, RfidTagMacData.getSizeInBytes,
      RfidTagMacData.create, DataTypes.toNat]
  obtain ⟨mac1, h1, h2, _, h4, _, _, hgen, hnone⟩ :=
    reset_slot_after_select exampleSelectingMac exampleTagWorld 2 2 rfl (by rfl)
  refine ⟨mac1, h1, h2, h4 (by norm_num), ?_, ?_⟩
  · obtain ⟨m, v', g1, g2, _, g4, _, g6⟩ := hgen exampleSelectedMac exampleGenericWorld 1 17 _
      (by rfl) hdata rfl (Or.inl rfl) rfl
    obtain ⟨m', v2', k1, k2, _, _, _, k6, k7, _⟩ := g6 exampleSlotWorld
      (fun t ht => by cases ht) (by decide)
      (by norm_num [exampleSelectedMac, exampleReaderMac, RfidReaderMac.create,
        SlottedMac.getSlotTime, m_DEFAULT_SLOT_TIME])
    exact ⟨m, v', g1, g2, g4, m', v2', k1, k2, k6, k7⟩
  · obtain ⟨m', v', g1, g2, g3, _, g5, enough, g6, _⟩ :=
      hnone exampleSelectedMac exampleSlotWorld (by rfl) (by rw [h2]; rfl)
        (by rw [h4 (by norm_num)]; rfl) (by decide) rfl
        exampleSlotSim_WF exampleSlotSim_Future exampleSlotSim_FlagsExact (by decide)
        (by norm_num [exampleSelectedMac, exampleReaderMac, RfidReaderMac.create,
          SlottedMac.getSlotTime, m_DEFAULT_SLOT_TIME])
        (fun _ => ⟨0, rfl, by decide, by
          norm_num [exampleSlotWorld, exampleReaderWorld, exampleReadPacket, Packet.getTxPower,
            Packet.addData]⟩)
        (by decide) (fun h => by cases h)
    exact ⟨m', v', g1, g2, g3, g5, enough, g6⟩

end ResetSlotClaim

/-! ## Frames: sizes and durations -/

section FrameSizes

theorem toNat_injective {a b : DataTypes} (h : a.toNat = b.toNat) : a = b := by
  cases a <;> cases b <;> simp [DataTypes.toNat] at h <;> rfl

/-- The keys stay in order when `dataInsert` puts a payload into the map. -/
theorem dataInsert_sorted (t : DataTypes) (d : PacketData) :
    ∀ l : List (DataTypes × PacketData),
      (l.map (fun kv => kv.1.toNat)).Pairwise (fun a b => a < b) →
      ((dataInsert t d l).map (fun kv => kv.1.toNat)).Pairwise (fun a b => a < b) ∧
        ∀ n, (∀ x ∈ l.map (fun kv => kv.1.toNat), n < x) → n < t.toNat →
          ∀ x ∈ (dataInsert t d l).map (fun kv => kv.1.toNat), n < x := by
  intro l
  induction l with
  | nil =>
    intro _
    refine ⟨by simp [dataInsert], ?_⟩
    intro n _ hn x hx
    simp [dataInsert] at hx
    omega
  | cons kv rest ih =>
    intro hs
    simp only [List.map_cons, List.pairwise_cons] at hs
    obtain ⟨hhead, hrest⟩ := hs
    unfold dataInsert
    by_cases h1 : kv.1 = t
    · rw [if_pos h1]
      refine ⟨?_, ?_⟩
      · simp only [List.map_cons, List.pairwise_cons]
        exact ⟨fun x hx => h1 ▸ hhead x hx, hrest⟩
      · intro n hall hn x hx
        simp only [List.map_cons, List.mem_cons] at hx
        rcases hx with hx | hx
        · omega
        · exact hall x (by simp only [List.map_cons, List.mem_cons]; exact Or.inr hx)
    · rw [if_neg h1]
      by_cases h2 : t.toNat < kv.1.toNat
      · rw [if_pos h2]
        refine ⟨?_, ?_⟩
        · simp only [List.map_cons, List.pairwise_cons]
          refine ⟨?_, hhead, hrest⟩
          intro x hx
          simp only [List.mem_cons] at hx
          rcases hx with hx | hx
          · omega
          · have := hhead x hx
            omega
        · intro n hall hn x hx
          simp only [List.map_cons, List.mem_cons] at hx
          rcases hx with hx | hx | hx
          · omega
          · exact hall x (by simp only [List.map_cons, List.mem_cons]; exact Or.inl hx)
          · exact hall x (by simp only [List.map_cons, List.mem_cons]; exact Or.inr hx)
      · rw [if_neg h2]
        obtain ⟨ih1, ih2⟩ := ih hrest
        have hne : kv.1.toNat ≠ t.toNat := fun h => h1 (toNat_injective h)
        have hlt : kv.1.toNat < t.toNat := by omega
        refine ⟨?_, ?_⟩
        · simp only [List.map_cons, List.pairwise_cons]
          exact ⟨ih2 kv.1.toNat hhead hlt, ih1⟩
        · intro n hall hn x hx
          simp only [List.map_cons, List.mem_cons] at hx
          rcases hx with hx | hx
          · exact hall x (by simp only [List.map_cons, List.mem_cons]; exact Or.inl hx)
          · refine ih2 n ?_ hn x hx
            intro y hy
            exact hall y (by simp only [List.map_cons, List.mem_cons]; exact Or.inr hy)

/-- A payload put into the map leaves the payloads of the other kinds as they
are. -/
theorem find_dataInsert_ne (t u : DataTypes) (d : PacketData) (hne : u ≠ t) :
    ∀ l : List (DataTypes × PacketData),
      (dataInsert t d l).find? (fun kv => kv.1 = u) = l.find? (fun kv => kv.1 = u) := by
  intro l
  induction l with
  | nil => simp [dataInsert, List.find?_cons, Ne.symm hne]
  | cons kv rest ih =>
    unfold dataInsert
    by_cases h1 : kv.1 = t
    · rw [if_pos h1]
      have hk : kv.1 ≠ u := fun h => hne (h ▸ h1 ▸ rfl)
      simp [List.find?_cons, Ne.symm hne, hk]
    · rw [if_neg h1]
      by_cases h2 : t.toNat < kv.1.toNat
      · rw [if_pos h2]
        simp [List.find?_cons, Ne.symm hne]
      · rw [if_neg h2]
        simp only [List.find?_cons]
        rw [ih]

theorem payloadSize_addData_ne (p : Packet) (t u : DataTypes) (d : PacketData) (hne : u ≠ t) :
    (p.addData t d).payloadSize u = p.payloadSize u := by
  unfold Packet.payloadSize Packet.getData Packet.addData
  simp only
  rw [find_dataInsert_ne t u d hne]

theorem payloadSize_addData (p : Packet) (t : DataTypes) (d : PacketData) :
    (p.addData t d).payloadSize t = d.sizeInBytes := by
  unfold Packet.payloadSize
  rw [getData_addData]
  rfl

/-- A link header of at most 18 bytes makes a frame of a packet with the sizes
of `Packet.Sized`. -/
theorem isFrame_of_link {p q : Packet} (d : PacketData) (hp : p.Sized)
    (hd : d.sizeInBytes ≤ 18) (hq : q.m_data = dataInsert .Link d p.m_data) : q.IsFrame := by
  have hqa : ∀ u, q.payloadSize u = (p.addData .Link d).payloadSize u := by
    intro u
    unfold Packet.payloadSize Packet.getData Packet.addData
    simp only
    rw [hq]
  have hget : q.getData .Link = some d := by
    unfold Packet.getData
    rw [hq]
    exact find_dataInsert .Link d p.m_data
  refine ⟨⟨?_, ?_, ?_⟩, ?_⟩
  · rw [hq]
    exact (dataInsert_sorted .Link d p.m_data hp.keys).1
  · rw [hqa, hqa, hqa, hqa, payloadSize_addData_ne p .Link .Physical d (by decide),
      payloadSize_addData_ne p .Link .Network d (by decide),
      payloadSize_addData_ne p .Link .Transport d (by decide),
      payloadSize_addData_ne p .Link .Application d (by decide)]
    exact hp.upper
  · rw [hqa, payloadSize_addData]
    exact hd
  · rw [hget]
    exact Option.noConfusion

theorem sized_of_data {p q : Packet} (hp : p.Sized) (hq : q.m_data = p.m_data) : q.Sized := by
  have hqa : ∀ u, q.payloadSize u = p.payloadSize u := by
    intro u
    unfold Packet.payloadSize Packet.getData
    rw [hq]
  refine ⟨?_, ?_, ?_⟩
  · rw [hq]
    exact hp.keys
  · rw [hqa, hqa, hqa, hqa]
    exact hp.upper
  · rw [hqa]
    exact hp.link

theorem isFrame_of_data {p q : Packet} (hp : p.IsFrame) (hq : q.m_data = p.m_data) :
    q.IsFrame := by
  refine ⟨sized_of_data hp.1 hq, ?_⟩
  have : q.getData .Link = p.getData .Link := by
    unfold Packet.getData
    rw [hq]
  rw [this]
  exact hp.2

theorem sized_create (uniqueId : ℕ) : (Packet.create uniqueId).Sized := by
  refine ⟨?_, ?_, ?_⟩ <;>
    simp [Packet.create, Packet.payloadSize, Packet.getData]

/-- A frame has at most 31 bytes. -/
theorem isFrame_size {p : Packet} (hp : p.IsFrame) : p.getSizeInBytes ≤ 31 := by
  obtain ⟨hs, hlink⟩ := hp
  have hkeys : (p.m_data.map Prod.fst).Nodup := by
    have h1 : (p.m_data.map (fun kv => kv.1.toNat)).Nodup :=
      hs.keys.imp (fun h => Nat.ne_of_lt h)
    have h2 : p.m_data.map (fun kv => kv.1.toNat)
        = (p.m_data.map Prod.fst).map DataTypes.toNat := by
      rw [List.map_map]
      rfl
    rw [h2] at h1
    exact List.Nodup.of_map _ h1
  have hsum : (DataTypes.all.map p.payloadSize).sum
      = (p.m_data.map (fun kv => kv.2.sizeInBytes)).sum :=
    sum_payloadSize p.m_data hkeys
  have hall : (DataTypes.all.map p.payloadSize).sum ≤ 31 := by
    have hu := hs.upper
    have hl := hs.link
    simp only [DataTypes.all, List.map_cons, List.map_nil, List.sum_cons, List.sum_nil]
    omega
  have hne : p.m_data ≠ [] := by
    intro h
    apply hlink
    unfold Packet.getData
    rw [h]
    rfl
  rw [hsum] at hall
  unfold Packet.getSizeInBytes
  cases hd : p.m_data with
  | nil => exact absurd hd hne
  | cons kv rest =>
    rw [hd] at hall
    simp only
    rw [foldl_size _ 0 (by omega)]
    omega

/-- At 128000 bit/s a frame lasts at most 1.9375 ms. -/
theorem isFrame_duration {p : Packet} (hp : p.IsFrame) (hr : p.m_dataRate = 128000) :
    0 ≤ p.getDuration ∧ p.getDuration ≤ 31 * 8 / 128000 := by
  have hsize := isFrame_size hp
  have hbits : p.getSizeInBits ≤ 248 := by
    unfold Packet.getSizeInBits
    rw [Nat.mod_eq_of_lt (by omega)]
    omega
  have hq : (p.getSizeInBits : ℚ) ≤ 248 := by exact_mod_cast hbits
  have h0 : (0 : ℚ) ≤ (p.getSizeInBits : ℚ) := by exact_mod_cast Nat.zero_le _
  unfold Packet.getDuration
  rw [hr]
  constructor
  · positivity
  · have h := div_le_div_of_nonneg_right hq (by norm_num : (0 : ℚ) ≤ 128000)
    have he : (31 * 8 / 128000 : ℚ) = 248 / 128000 := by norm_num
    rw [he]
    exact h

end FrameSizes

/-! ## Steps of the kernel that touch only the events of one object -/

section KernelSteps

theorem kernelStep_refl (own : EventId → Prop) {s : Simulator} (hwf : s.WF) (hfut : s.Future)
    (hfl : s.FlagsExact) : KernelStep own s s :=
  ⟨hwf, hfut, hfl, rfl, fun _ _ => rfl, fun _ _ => Iff.rfl⟩

theorem kernelStep_trans {own : EventId → Prop} {s s1 s2 : Simulator}
    (h1 : KernelStep own s s1) (h2 : KernelStep own s1 s2) : KernelStep own s s2 :=
  ⟨h2.wf, h2.future, h2.flags, h2.clock.trans h1.clock,
    fun x hx => (h2.events x hx).trans (h1.events x hx),
    fun x hx => (h2.queue x hx).trans (h1.queue x hx)⟩

theorem kernelStep_mono {own own' : EventId → Prop} {s s' : Simulator}
    (h : KernelStep own s s') (himp : ∀ x, own x → own' x) : KernelStep own' s s' :=
  ⟨h.wf, h.future, h.flags, h.clock, fun x hx => h.events x (fun ho => hx (himp x ho)),
    fun x hx => h.queue x (fun ho => hx (himp x ho))⟩

theorem kernelStep_fire {own : EventId → Prop} {s s' : Simulator} (h : KernelStep own s s')
    {x : EventId} (hx : ¬ own x) : s'.fire x = s.fire x := by
  unfold Simulator.fire
  rw [h.events x hx]

theorem kernelStep_running {own : EventId → Prop} {s s' : Simulator} (h : KernelStep own s s')
    (t : Timer) (hx : ¬ own t.m_eventOnFire) : t.isRunning s' = t.isRunning s := by
  unfold Timer.isRunning
  rw [h.events _ hx]

/-- The call `scheduleEvent` for an event of the object. -/
theorem kernelStep_schedule {own : EventId → Prop} {s s' : Simulator} {e : EventId}
    {d : SimTime} {b : Bool} (hs : s.scheduleEvent e d = .ok (b, s')) (ho : own e)
    (hwf : s.WF) (hfut : s.Future) (hfl : s.FlagsExact) :
    KernelStep own s s' ∧ e ∈ s'.m_eventPtrQueue ∧ s'.fire e = s.m_clock + d ∧ 0 ≤ d := by
  obtain ⟨hwf', hfut', hfl', hclock, hfire, _, hother, hmem, _, hd⟩ :=
    schedule_facts hs hwf hfut hfl
  refine ⟨⟨hwf', hfut', hfl', hclock, ?_, ?_⟩, (hmem e).2 (Or.inl rfl), hfire, hd⟩
  · intro x hx
    exact hother x (fun h => hx (h ▸ ho))
  · intro x hx
    rw [hmem x]
    constructor
    · rintro (h | h)
      · exact absurd (h ▸ ho) hx
      · exact h
    · exact Or.inr

/-- The method `Timer::stop` of a timer of the object. -/
theorem kernelStep_stop {own : EventId → Prop} {s : Simulator} (t : Timer)
    (ho : own t.m_eventOnFire) (hwf : s.WF) (hfut : s.Future) (hfl : s.FlagsExact) :
    KernelStep own s (t.stop s).2 ∧ t.isRunning (t.stop s).2 = false := by
  cases hrun : t.isRunning s with
  | false =>
    have hst : t.stop s = (false, s) := by
      unfold Timer.stop
      rw [hrun]
      rfl
    rw [hst]
    exact ⟨kernelStep_refl own hwf hfut hfl, hrun⟩
  | true =>
    obtain ⟨hwf', hfut', hfl', hclock, hstopped, _, hother, hmem⟩ :=
      stop_facts t hwf hfut hfl hrun
    refine ⟨⟨hwf', hfut', hfl', hclock, ?_, ?_⟩, hstopped⟩
    · intro x hx
      exact hother x (fun h => hx (h ▸ ho))
    · intro x hx
      rw [hmem x]
      constructor
      · exact fun h => h.2
      · exact fun h => ⟨fun heq => hx (heq ▸ ho), h⟩

/-- The method `Timer::start` of a timer of the object. -/
theorem kernelStep_start {own : EventId → Prop} {s s' : Simulator} {t : Timer} {d : SimTime}
    {b : Bool} (hs : t.start s d = .ok (b, s')) (ho : own t.m_eventOnFire)
    (hwf : s.WF) (hfut : s.Future) (hfl : s.FlagsExact) : KernelStep own s s' := by
  unfold Timer.start at hs
  cases hrun : t.isRunning s with
  | true =>
    rw [hrun] at hs
    simp only [Bool.not_true, Bool.false_eq_true, if_false, Except.ok.injEq,
      Prod.mk.injEq] at hs
    rw [← hs.2]
    exact kernelStep_refl own hwf hfut hfl
  | false =>
    rw [hrun] at hs
    simp only [Bool.not_false, if_true] at hs
    exact (kernelStep_schedule hs ho hwf hfut hfl).1

/-- The method `Timer::reschedule` of a timer of the object: the timer runs
afterwards and fires after the delay. -/
theorem kernelStep_reschedule {own : EventId → Prop} {s s' : Simulator} {t : Timer}
    {d : SimTime} {b : Bool} (hs : t.reschedule s d = .ok (b, s')) (ho : own t.m_eventOnFire)
    (hwf : s.WF) (hfut : s.Future) (hfl : s.FlagsExact) :
    KernelStep own s s' ∧ t.m_eventOnFire ∈ s'.m_eventPtrQueue ∧
      s'.fire t.m_eventOnFire = s.m_clock + d ∧ 0 ≤ d := by
  obtain ⟨hk1, hstopped⟩ := kernelStep_stop t ho hwf hfut hfl
  have hr1 : (if t.isRunning s = true then t.stop s else (true, s)).2 = (t.stop s).2 := by
    cases hrun : t.isRunning s with
    | true => simp
    | false =>
      have hst : t.stop s = (false, s) := by
        unfold Timer.stop
        rw [hrun]
        rfl
      simp [hst]
  unfold Timer.reschedule at hs
  dsimp only at hs
  rw [hr1] at hs
  cases hstart : t.start (t.stop s).2 d with
  | error f =>
    rw [hstart] at hs
    cases hs
  | ok r =>
    obtain ⟨b1, s2⟩ := r
    rw [hstart] at hs
    simp only [Except.ok.injEq, Prod.mk.injEq] at hs
    obtain ⟨_, hs2⟩ := hs
    subst hs2
    unfold Timer.start at hstart
    rw [hstopped] at hstart
    simp only [Bool.not_false, if_true] at hstart
    obtain ⟨hk2, hq, hfire, hd⟩ := kernelStep_schedule hstart ho hk1.wf hk1.future hk1.flags
    refine ⟨kernelStep_trans hk1 hk2, hq, ?_, hd⟩
    rw [hfire, hk1.clock]

/-- A new event object behind a pointer that is not queued. -/
theorem kernelStep_create {own : EventId → Prop} {s : Simulator} {e : EventId} (ho : own e)
    (hnot : e ∉ s.m_eventPtrQueue) (hwf : s.WF) (hfut : s.Future) (hfl : s.FlagsExact) :
    KernelStep own s { s with events := setEvent s.events e Event.create } := by
  obtain ⟨hwf', hfut', hfl', hclock, hq, hother, _⟩ :=
    fresh_event_facts hwf hfut hfl hnot _ rfl
  refine ⟨hwf', hfut', hfl', hclock, ?_, ?_⟩
  · intro x hx
    exact hother x (fun h => hx (h ▸ ho))
  · intro x _
    rw [hq]

/-- A new event object is created and scheduled. -/
theorem kernelStep_create_schedule {own : EventId → Prop} {s s' : Simulator} {e : EventId}
    {d : SimTime} {b : Bool}
    (hs : Simulator.scheduleEvent { s with events := setEvent s.events e Event.create } e d
      = .ok (b, s'))
    (ho : own e) (hnot : e ∉ s.m_eventPtrQueue) (hwf : s.WF) (hfut : s.Future)
    (hfl : s.FlagsExact) :
    KernelStep own s s' ∧ e ∈ s'.m_eventPtrQueue ∧ s'.fire e = s.m_clock + d ∧ 0 ≤ d := by
  have hk1 := @kernelStep_create own s e ho hnot hwf hfut hfl
  obtain ⟨hk2, hq, hfire, hd⟩ := kernelStep_schedule hs ho hk1.wf hk1.future hk1.flags
  refine ⟨kernelStep_trans hk1 hk2, hq, ?_, hd⟩
  rw [hfire, hk1.clock]

end KernelSteps

/-! ## Steps of a MAC on the packets -/

section HeapSteps

theorem heapStep_refl (w : MacWorld) : HeapStep w w :=
  ⟨Nat.le_refl _, fun h => h, fun _ _ h => h⟩

theorem heapStep_trans {w w1 w2 : MacWorld} (h1 : HeapStep w w1) (h2 : HeapStep w1 w2) :
    HeapStep w w2 :=
  ⟨Nat.le_trans h1.next h2.next, fun h => h2.sized (h1.sized h),
    fun p hp hf => h2.frame p (Nat.lt_of_lt_of_le hp h1.next) (h1.frame p hp hf)⟩

/-- The packets are as before. -/
theorem heapStep_of_eq {w w' : MacWorld} (hp : w'.packets = w.packets)
    (hn : w'.nextPacketPtr = w.nextPacketPtr) : HeapStep w w' := by
  refine ⟨Nat.le_of_eq hn.symm, ?_, ?_⟩
  · intro h p hlt
    rw [hp]
    rw [hn] at hlt
    exact h p hlt
  · intro p _ hf
    rw [hp]
    exact hf

/-- One packet is replaced by a packet with the same payloads. -/
theorem heapStep_same_data {w w' : MacWorld} {p : PacketPtr} {q : Packet}
    (hp : w'.packets = setAt w.packets p q) (hn : w'.nextPacketPtr = w.nextPacketPtr)
    (hq : q.m_data = (w.packets p).m_data) : HeapStep w w' := by
  refine ⟨Nat.le_of_eq hn.symm, ?_, ?_⟩
  · intro h x hlt
    rw [hn] at hlt
    rw [hp]
    by_cases hx : x = p
    · subst hx
      rw [setAt_same]
      exact sized_of_data (h x hlt) hq
    · rw [setAt_other _ _ hx]
      exact h x hlt
  · intro x _ hf
    rw [hp]
    by_cases hx : x = p
    · subst hx
      rw [setAt_same]
      exact isFrame_of_data hf hq
    · rw [setAt_other _ _ hx]
      exact hf

/-- One packet gets a link header of at most 18 bytes. -/
theorem heapStep_link {w w' : MacWorld} {p : PacketPtr} {q : Packet} (d : PacketData)
    (hp : w'.packets = setAt w.packets p q) (hn : w'.nextPacketPtr = w.nextPacketPtr)
    (hd : d.sizeInBytes ≤ 18) (hq : q.m_data = dataInsert .Link d (w.packets p).m_data) :
    HeapStep w w' := by
  refine ⟨Nat.le_of_eq hn.symm, ?_, ?_⟩
  · intro h x hlt
    rw [hn] at hlt
    rw [hp]
    by_cases hx : x = p
    · subst hx
      rw [setAt_same]
      exact (isFrame_of_link d (h x hlt) hd hq).1
    · rw [setAt_other _ _ hx]
      exact h x hlt
  · intro x _ hf
    rw [hp]
    by_cases hx : x = p
    · subst hx
      rw [setAt_same]
      exact isFrame_of_link d hf.1 hd hq
    · rw [setAt_other _ _ hx]
      exact hf

/-- A packet is created with a link header of at most 18 bytes as its only
payload: `Packet::create()` and `addData`. -/
theorem heapStep_new {w w' : MacWorld} {q : Packet} (d : PacketData)
    (hp : w'.packets = setAt w.packets w.nextPacketPtr q)
    (hn : w'.nextPacketPtr = w.nextPacketPtr + 1)
    (hd : d.sizeInBytes ≤ 18) (hq : q.m_data = dataInsert .Link d []) :
    HeapStep w w' ∧ (w'.packets w.nextPacketPtr).IsFrame := by
  have hframe : q.IsFrame :=
    @isFrame_of_link (Packet.create 0) q d (sized_create 0) hd hq
  refine ⟨⟨by rw [hn]; exact Nat.le_succ _, ?_, ?_⟩, ?_⟩
  · intro h x hlt
    rw [hp]
    by_cases hx : x = w.nextPacketPtr
    · rw [hx, setAt_same]
      exact hframe.1
    · rw [setAt_other _ _ hx]
      rw [hn] at hlt
      exact h x (Nat.lt_of_le_of_ne (Nat.lt_succ_iff.mp hlt) hx)
  · intro x hlt hf
    rw [hp, setAt_other _ _ (Nat.ne_of_lt hlt)]
    exact hf
  · rw [hp, setAt_same]
    exact hframe

end HeapSteps

/-! ## Steps of a MAC: how the handlers change the world -/

section MacSteps

theorem macStep_refl (own : EventId → Prop) {w : MacWorld} (hwf : w.sim.WF)
    (hfut : w.sim.Future) (hfl : w.sim.FlagsExact) : MacStep own w w :=
  ⟨kernelStep_refl own hwf hfut hfl, rfl, rfl, rfl, heapStep_refl w, fun _ _ => rfl⟩

theorem macStep_trans {own : EventId → Prop} {w w1 w2 : MacWorld} (h1 : MacStep own w w1)
    (h2 : MacStep own w1 w2) : MacStep own w w2 :=
  ⟨kernelStep_trans h1.kernel h2.kernel, h2.sendEvents.trans h1.sendEvents,
    h2.nextEventPtr.trans h1.nextEventPtr, h2.phy.trans h1.phy,
    heapStep_trans h1.heap h2.heap,
    fun p hp => (h2.rate p (Nat.lt_of_lt_of_le hp h1.heap.next)).trans (h1.rate p hp)⟩

/-- A call on the link layer or the application. -/
theorem macStep_call (own : EventId → Prop) {w : MacWorld} (c : MacCall) (hwf : w.sim.WF)
    (hfut : w.sim.Future) (hfl : w.sim.FlagsExact) : MacStep own w (w.call c) :=
  ⟨kernelStep_refl own hwf hfut hfl, rfl, rfl, rfl, heapStep_of_eq rfl rfl, fun _ _ => rfl⟩

/-- A step of the kernel on the events of the MAC. -/
theorem macStep_sim {own : EventId → Prop} {w : MacWorld} {s' : Simulator}
    (h : KernelStep own w.sim s') : MacStep own w { w with sim := s' } :=
  ⟨h, rfl, rfl, rfl, heapStep_of_eq rfl rfl, fun _ _ => rfl⟩

theorem readerMacData_size (d : RfidReaderMacData) : d.toPacketData.sizeInBytes ≤ 18 := by
  unfold RfidReaderMacData.toPacketData RfidReaderMacData.getSizeInBytes
  cases d.m_type <;> simp

theorem tagMacData_size (d : RfidTagMacData) : d.toPacketData.sizeInBytes ≤ 18 := by
  unfold RfidTagMacData.toPacketData RfidTagMacData.getSizeInBytes
  simp

/-- A packet gets a link header: the world of `addSelectHeader` and
`addGenericHeader`. -/
theorem macStep_link (own : EventId → Prop) {w : MacWorld} {p : PacketPtr} {q : Packet}
    (d : PacketData) (hwf : w.sim.WF) (hfut : w.sim.Future) (hfl : w.sim.FlagsExact)
    (hd : d.sizeInBytes ≤ 18) (hq : q.m_data = dataInsert .Link d (w.packets p).m_data)
    (hr : q.m_dataRate = (w.packets p).m_dataRate) :
    MacStep own w (w.setPacket p q) ∧
      ((w.packets p).Sized → ((w.setPacket p q).packets p).IsFrame) := by
  refine ⟨⟨kernelStep_refl own hwf hfut hfl, rfl, rfl, rfl,
    heapStep_link d rfl rfl hd hq, ?_⟩, ?_⟩
  · intro x _
    show (setAt w.packets p q x).m_dataRate = _
    by_cases hx : x = p
    · subst hx
      rw [setAt_same]
      exact hr
    · rw [setAt_other _ _ hx]
  · intro hs
    show (setAt w.packets p q p).IsFrame
    rw [setAt_same]
    exact isFrame_of_link d hs hd hq

theorem macStep_addSelectHeader (own : EventId → Prop) (mac : RfidReaderMac) {w : MacWorld}
    (p : PacketPtr) (r : NodeId) (hwf : w.sim.WF) (hfut : w.sim.Future)
    (hfl : w.sim.FlagsExact) :
    MacStep own w (mac.addSelectHeader w p r) ∧
      ((w.packets p).Sized → ((mac.addSelectHeader w p r).packets p).IsFrame) := by
  unfold RfidReaderMac.addSelectHeader
  exact macStep_link own _ hwf hfut hfl (readerMacData_size _) rfl rfl

theorem macStep_addGenericHeader (own : EventId → Prop) (mac : RfidReaderMac) {w : MacWorld}
    (p : PacketPtr) (r : NodeId) (hwf : w.sim.WF) (hfut : w.sim.Future)
    (hfl : w.sim.FlagsExact) :
    MacStep own w (mac.addGenericHeader w p r) ∧
      ((w.packets p).Sized → ((mac.addGenericHeader w p r).packets p).IsFrame) := by
  unfold RfidReaderMac.addGenericHeader
  exact macStep_link own _ hwf hfut hfl (readerMacData_size _) rfl rfl

theorem macStep_tag_addGenericHeader (own : EventId → Prop) (mac : RfidTagMac) {w : MacWorld}
    (p : PacketPtr) (r : NodeId) (hwf : w.sim.WF) (hfut : w.sim.Future)
    (hfl : w.sim.FlagsExact) :
    MacStep own w (mac.addGenericHeader w p r) ∧
      ((w.packets p).Sized → ((mac.addGenericHeader w p r).packets p).IsFrame) := by
  unfold RfidTagMac.addGenericHeader
  exact macStep_link own _ hwf hfut hfl (tagMacData_size _) rfl rfl

/-- A packet is created with a link header as its only payload: the world of
`createRequestPacket`, `createAckPacket` and `createReplyPacket`. -/
theorem macStep_new (own : EventId → Prop) {w : MacWorld} {q : Packet} (d : PacketData)
    (hwf : w.sim.WF) (hfut : w.sim.Future) (hfl : w.sim.FlagsExact)
    (hd : d.sizeInBytes ≤ 18) (hq : q.m_data = dataInsert .Link d []) :
    MacStep own w ((w.newPacket).2.setPacket w.nextPacketPtr q) ∧
      w.nextPacketPtr < ((w.newPacket).2.setPacket w.nextPacketPtr q).nextPacketPtr ∧
      (((w.newPacket).2.setPacket w.nextPacketPtr q).packets w.nextPacketPtr).IsFrame := by
  have hp : ((w.newPacket).2.setPacket w.nextPacketPtr q).packets
      = setAt w.packets w.nextPacketPtr q := by
    funext x
    show setAt (setAt w.packets w.nextPacketPtr _) w.nextPacketPtr q x = _
    by_cases hx : x = w.nextPacketPtr
    · rw [hx, setAt_same, setAt_same]
    · rw [setAt_other _ _ hx, setAt_other _ _ hx, setAt_other _ _ hx]
  have hn : ((w.newPacket).2.setPacket w.nextPacketPtr q).nextPacketPtr
      = w.nextPacketPtr + 1 := rfl
  obtain ⟨hheap, hframe⟩ := heapStep_new d hp hn hd hq
  refine ⟨⟨kernelStep_refl own hwf hfut hfl, rfl, rfl, rfl, hheap, ?_⟩, ?_, hframe⟩
  · intro x hx
    rw [hp, setAt_other _ _ (Nat.ne_of_lt hx)]
  · rw [hn]
    exact Nat.lt_succ_self _

theorem macStep_createRequestPacket (own : EventId → Prop) {mac : RfidReaderMac}
    {w w1 : MacWorld} {p : PacketPtr} (hwf : w.sim.WF) (hfut : w.sim.Future)
    (hfl : w.sim.FlagsExact) (h : mac.createRequestPacket w = .ok (p, w1)) :
    MacStep own w w1 ∧ p < w1.nextPacketPtr ∧ (w1.packets p).IsFrame := by
  unfold RfidReaderMac.createRequestPacket at h
  dsimp only at h
  split_ifs at h
  cases happ : mac.m_currentAppReadPacket with
  | none =>
    rw [happ] at h
    cases h
  | some a =>
    rw [happ] at h
    dsimp only at h
    cases hset : ((w.newPacket).2.packets (w.newPacket).1).setTxPower
        ((w.newPacket).2.packets a).getTxPower with
    | error f =>
      rw [hset] at h
      cases h
    | ok q =>
      rw [hset] at h
      simp only [Except.ok.injEq, Prod.mk.injEq] at h
      obtain ⟨hp, hw⟩ := h
      subst hp
      subst hw
      have hq : q.m_data = [] := by
        unfold Packet.setTxPower at hset
        split_ifs at hset
        simp only [Except.ok.injEq] at hset
        rw [← hset]
        show ((w.newPacket).2.packets (w.newPacket).1).m_data = []
        show (setAt w.packets w.nextPacketPtr (Packet.create w.nextUniqueId)
          w.nextPacketPtr).m_data = []
        rw [setAt_same]
        rfl
      exact macStep_new own _ hwf hfut hfl (readerMacData_size _)
        (by show dataInsert _ _ q.m_data = _; rw [hq])

theorem macStep_createAckPacket (own : EventId → Prop) (mac : RfidReaderMac) {w : MacWorld}
    (r : NodeId) (hwf : w.sim.WF) (hfut : w.sim.Future) (hfl : w.sim.FlagsExact) :
    MacStep own w (mac.createAckPacket w r).2 ∧
      (mac.createAckPacket w r).1 < (mac.createAckPacket w r).2.nextPacketPtr ∧
      ((mac.createAckPacket w r).2.packets (mac.createAckPacket w r).1).IsFrame := by
  unfold RfidReaderMac.createAckPacket
  dsimp only
  refine macStep_new own
    ({ RfidReaderMacData.create with
      m_type := .Ack, m_senderId := mac.nodeId, m_receiverId := r } :
      RfidReaderMacData).toPacketData hwf hfut hfl (readerMacData_size _) ?_
  show dataInsert _ _ (setAt w.packets w.nextPacketPtr (Packet.create w.nextUniqueId)
    w.nextPacketPtr).m_data = _
  rw [setAt_same]
  rfl

theorem macStep_createReplyPacket (own : EventId → Prop) (mac : RfidTagMac) {w : MacWorld}
    (r : NodeId) (hwf : w.sim.WF) (hfut : w.sim.Future) (hfl : w.sim.FlagsExact) :
    MacStep own w (mac.createReplyPacket w r).2 ∧
      (mac.createReplyPacket w r).1 < (mac.createReplyPacket w r).2.nextPacketPtr ∧
      ((mac.createReplyPacket w r).2.packets (mac.createReplyPacket w r).1).IsFrame := by
  unfold RfidTagMac.createReplyPacket
  dsimp only
  refine macStep_new own
    ({ RfidTagMacData.create with
      m_type := .Reply, m_senderId := mac.nodeId, m_receiverId := r } :
      RfidTagMacData).toPacketData hwf hfut hfl (tagMacData_size _) ?_
  show dataInsert _ _ (setAt w.packets w.nextPacketPtr (Packet.create w.nextUniqueId)
    w.nextPacketPtr).m_data = _
  rw [setAt_same]
  rfl

end MacSteps

/-! ## The handlers of the reader MAC as steps -/

section ReaderSteps

theorem reader_step_refl {mac : RfidReaderMac} {w : MacWorld} (hf : mac.Frames w)
    (hwf : w.sim.WF) (hfut : w.sim.Future) (hfl : w.sim.FlagsExact) : mac.Step w mac w :=
  ⟨macStep_refl _ hwf hfut hfl, hf, rfl, rfl⟩

theorem reader_step_trans {mac mac1 mac2 : RfidReaderMac} {w w1 w2 : MacWorld}
    (h1 : mac.Step w mac1 w1) (h2 : mac1.Step w1 mac2 w2) : mac.Step w mac2 w2 := by
  have hown : mac1.own = mac.own := by
    unfold RfidReaderMac.own
    rw [h1.cycleTimer]
  refine ⟨macStep_trans h1.step (hown ▸ h2.step), h2.frames, h2.slotTimer.trans h1.slotTimer,
    h2.cycleTimer.trans h1.cycleTimer⟩

/-- The MAC changes members other than its packets and timers. -/
theorem reader_step_mac {mac mac' : RfidReaderMac} {w : MacWorld} (hf : mac.Frames w)
    (hwf : w.sim.WF) (hfut : w.sim.Future) (hfl : w.sim.FlagsExact)
    (hp : mac'.m_packetToTransmit = mac.m_packetToTransmit)
    (ha : mac'.m_currentAppReadPacket = mac.m_currentAppReadPacket ∨
      mac'.m_currentAppReadPacket = none)
    (hs : mac'.m_slotTime = mac.m_slotTime) (hst : mac'.m_slotTimer = mac.m_slotTimer)
    (hct : mac'.m_cycleTimer = mac.m_cycleTimer) : mac.Step w mac' w := by
  refine ⟨macStep_refl _ hwf hfut hfl, ⟨?_, ?_, hs.trans hf.slot_time⟩, hst, hct⟩
  · intro p hq
    exact hf.pending p (hp.symm.trans hq)
  · intro p hq
    rcases ha with ha | ha
    · exact hf.app p (ha.symm.trans hq)
    · rw [ha] at hq
      cases hq

/-- The world changes by a call on the link layer or the application. -/
theorem reader_step_call {mac : RfidReaderMac} {w : MacWorld} (c : MacCall)
    (hf : mac.Frames w) (hwf : w.sim.WF) (hfut : w.sim.Future) (hfl : w.sim.FlagsExact) :
    mac.Step w mac (w.call c) :=
  ⟨macStep_call _ c hwf hfut hfl, ⟨hf.pending, hf.app, hf.slot_time⟩, rfl, rfl⟩

theorem reader_endRequestCycleEvent {mac mac' : RfidReaderMac} {w w' : MacWorld}
    (hf : mac.Frames w) (hwf : w.sim.WF) (hfut : w.sim.Future) (hfl : w.sim.FlagsExact)
    (h : mac.endRequestCycleEvent w = .ok (mac', w')) : mac.Step w mac' w' := by
  unfold RfidReaderMac.endRequestCycleEvent at h
  split_ifs at h
  simp only [Except.ok.injEq, Prod.mk.injEq] at h
  obtain ⟨hm, hw⟩ := h
  subst hm
  subst hw
  have h1 : mac.Step w mac (w.call .unblockUpperQueues) := reader_step_call _ hf hwf hfut hfl
  have h2 : mac.Step (w.call .unblockUpperQueues) mac
      ((w.call .unblockUpperQueues).call .signalReadEnd) :=
    reader_step_call _ h1.frames hwf hfut hfl
  have h3 : mac.Step ((w.call .unblockUpperQueues).call .signalReadEnd)
      { mac with m_currentAppReadPacket := none }
      ((w.call .unblockUpperQueues).call .signalReadEnd) :=
    reader_step_mac h2.frames hwf hfut hfl rfl (Or.inr rfl) rfl rfl rfl
  exact reader_step_trans h1 (reader_step_trans h2 h3)

theorem reader_startNextContentionCycle {mac mac' : RfidReaderMac} {w w' : MacWorld}
    (hf : mac.Frames w) (hwf : w.sim.WF) (hfut : w.sim.Future) (hfl : w.sim.FlagsExact)
    (h : mac.startNextContentionCycle w = .ok (mac', w')) : mac.Step w mac' w' := by
  unfold RfidReaderMac.startNextContentionCycle at h
  split_ifs at h
  cases hc : mac.createRequestPacket w with
  | error f =>
    rw [hc] at h
    cases h
  | ok r =>
    obtain ⟨packet, w1⟩ := r
    rw [hc] at h
    simp only [Except.ok.injEq, Prod.mk.injEq] at h
    obtain ⟨hm, hw⟩ := h
    subst hm
    subst hw
    obtain ⟨hstep, hlt, hframe⟩ := macStep_createRequestPacket mac.own hwf hfut hfl hc
    refine ⟨hstep, ⟨?_, ?_, hf.slot_time⟩, rfl, rfl⟩
    · intro p hq
      have hq' : some packet = some p := hq
      cases hq'
      exact ⟨hlt, hframe⟩
    · intro p hq
      exact Nat.lt_of_lt_of_le (hf.app p hq) hstep.heap.next

theorem reader_handleChannelBusy {mac mac' : RfidReaderMac} {w w' : MacWorld} {p : PacketPtr}
    (hf : mac.Frames w) (hwf : w.sim.WF) (hfut : w.sim.Future) (hfl : w.sim.FlagsExact)
    (h : RfidReaderMac.handleChannelBusy p mac w = .ok (mac', w')) : mac.Step w mac' w' := by
  unfold RfidReaderMac.handleChannelBusy at h
  split_ifs at h <;>
    (simp only [Except.ok.injEq, Prod.mk.injEq] at h
     obtain ⟨hm, hw⟩ := h
     subst hm
     subst hw)
  · exact reader_step_call _ hf hwf hfut hfl
  · exact reader_step_refl hf hwf hfut hfl

theorem reader_handlePacketSent {mac mac' : RfidReaderMac} {w w' : MacWorld} {p : PacketPtr}
    (hf : mac.Frames w) (hwf : w.sim.WF) (hfut : w.sim.Future) (hfl : w.sim.FlagsExact)
    (h : RfidReaderMac.handlePacketSent p mac w = .ok (mac', w')) : mac.Step w mac' w' := by
  unfold RfidReaderMac.handlePacketSent at h
  by_cases h1 : RfidReaderMac.isPacketType w p .Request = true
  · rw [if_pos h1] at h
    split at h <;>
      (simp only [Except.ok.injEq, Prod.mk.injEq] at h
       obtain ⟨hm, hw⟩ := h
       subst hm
       subst hw
       exact reader_step_mac hf hwf hfut hfl rfl (Or.inl rfl) rfl rfl rfl)
  · rw [if_neg h1] at h
    by_cases h2 : RfidReaderMac.isPacketType w p .Select = true
    · rw [if_pos h2] at h
      simp only [Except.ok.injEq, Prod.mk.injEq] at h
      obtain ⟨hm, hw⟩ := h
      subst hm
      subst hw
      exact reader_step_mac hf hwf hfut hfl rfl (Or.inl rfl) rfl rfl rfl
    · rw [if_neg h2] at h
      by_cases h3 : RfidReaderMac.isPacketType w p .Ack = true
      · rw [if_pos h3] at h
        cases he : mac.isEnoughTimeForContentionCycle w with
        | error f =>
          rw [he] at h
          cases h
        | ok b =>
          rw [he] at h
          cases b with
          | true => exact reader_startNextContentionCycle hf hwf hfut hfl h
          | false =>
            simp only [Except.ok.injEq, Prod.mk.injEq] at h
            obtain ⟨hm, hw⟩ := h
            subst hm
            subst hw
            exact reader_step_refl hf hwf hfut hfl
      · rw [if_neg h3] at h
        simp only [Except.ok.injEq, Prod.mk.injEq] at h
        obtain ⟨hm, hw⟩ := h
        subst hm
        subst hw
        exact reader_step_call _ hf hwf hfut hfl

theorem reader_sendToLinkLayer {mac mac' : RfidReaderMac} {w w' : MacWorld} {d : Directions}
    {p : PacketPtr} {b : Bool}
    (hf : mac.Frames w) (hwf : w.sim.WF) (hfut : w.sim.Future) (hfl : w.sim.FlagsExact)
    (h : mac.sendToLinkLayer w d p = .ok (b, mac', w')) : mac.Step w mac' w' := by
  unfold RfidReaderMac.sendToLinkLayer MacProtocol.sendToLinkLayer at h
  split_ifs at h
  · cases hb : RfidReaderMac.handleChannelBusy p mac w with
    | error f =>
      rw [hb] at h
      cases h
    | ok r =>
      obtain ⟨mac1, w1⟩ := r
      rw [hb] at h
      simp only [Except.ok.injEq, Prod.mk.injEq] at h
      obtain ⟨_, hm, hw⟩ := h
      subst hm
      subst hw
      exact reader_handleChannelBusy hf hwf hfut hfl hb
  · cases hb : RfidReaderMac.handlePacketSent p mac w with
    | error f =>
      rw [hb] at h
      cases h
    | ok r =>
      obtain ⟨mac1, w1⟩ := r
      rw [hb] at h
      simp only [Except.ok.injEq, Prod.mk.injEq] at h
      obtain ⟨_, hm, hw⟩ := h
      subst hm
      subst hw
      have h1 := reader_handlePacketSent hf hwf hfut hfl hb
      exact reader_step_trans h1
        (reader_step_call (.recvFromMacProtocol d p) h1.frames h1.step.kernel.wf
          h1.step.kernel.future h1.step.kernel.flags)

end ReaderSteps

section ReaderInputs

theorem reader_handleRecvdMacPacket {mac mac' : RfidReaderMac} {w w' : MacWorld}
    {p : PacketPtr} {b : Bool}
    (hf : mac.Frames w) (hsz : w.Sized) (hwf : w.sim.WF) (hfut : w.sim.Future)
    (hfl : w.sim.FlagsExact)
    (h : mac.handleRecvdMacPacket w p = .ok (b, mac', w')) : mac.Step w mac' w' := by
  unfold RfidReaderMac.handleRecvdMacPacket at h
  split at h
  · rename_i macData _
    by_cases hme : mac.packetIsForMe macData = true
    · rw [if_pos hme] at h
      cases hty : macData.m_type with
      | Reply =>
        rw [hty] at h
        dsimp only at h
        by_cases hrun : mac.m_cycleTimer.isRunning w.sim = true
        · rw [if_pos hrun] at h
          cases hpend : mac.m_packetToTransmit with
          | some q =>
            rw [hpend] at h
            simp only [Except.ok.injEq, Prod.mk.injEq] at h
            obtain ⟨_, hm, hw⟩ := h
            subst hm
            subst hw
            exact reader_step_refl hf hwf hfut hfl
          | none =>
            rw [hpend] at h
            dsimp only at h
            cases happ : mac.m_currentAppReadPacket with
            | none =>
              rw [happ] at h
              cases h
            | some a =>
              rw [happ] at h
              dsimp only at h
              split_ifs at h
              simp only [Except.ok.injEq, Prod.mk.injEq] at h
              obtain ⟨_, hm, hw⟩ := h
              subst hm
              subst hw
              obtain ⟨hstep, hframe⟩ :=
                macStep_addSelectHeader mac.own mac a macData.m_senderId hwf hfut hfl
              have ha := hf.app a happ
              refine ⟨hstep, ⟨?_, ?_, hf.slot_time⟩, rfl, rfl⟩
              · intro x hx
                have hx' : some a = some x := hx
                cases hx'
                exact ⟨Nat.lt_of_lt_of_le ha hstep.heap.next, hframe (hsz a ha)⟩
              · intro x hx
                have hx' : some a = some x := hx
                cases hx'
                exact Nat.lt_of_lt_of_le ha hstep.heap.next
        · rw [if_neg hrun] at h
          simp only [Except.ok.injEq, Prod.mk.injEq] at h
          obtain ⟨_, hm, hw⟩ := h
          subst hm
          subst hw
          exact reader_step_refl hf hwf hfut hfl
      | Generic =>
        rw [hty] at h
        dsimp only at h
        cases hsend : RfidReaderMac.sendToLinkLayer
            { mac with
              m_winningSlotNumbers := mac.m_winningSlotNumbers ++
                [(macData.m_senderId, (mac.m_currentSlotNumber + (2 ^ 32 - 3)) % 2 ^ 32)] }
            w .Upper p with
        | error f =>
          rw [hsend] at h
          cases h
        | ok r =>
          obtain ⟨b1, mac2, w2⟩ := r
          rw [hsend] at h
          dsimp only at h
          split_ifs at h
          simp only [Except.ok.injEq, Prod.mk.injEq] at h
          obtain ⟨_, hm, hw⟩ := h
          subst hm
          subst hw
          have h0 : mac.Step w
              { mac with
                m_winningSlotNumbers := mac.m_winningSlotNumbers ++
                  [(macData.m_senderId,
                    (mac.m_currentSlotNumber + (2 ^ 32 - 3)) % 2 ^ 32)] } w :=
            reader_step_mac hf hwf hfut hfl rfl (Or.inl rfl) rfl rfl rfl
          have h1 := reader_sendToLinkLayer h0.frames hwf hfut hfl hsend
          have h01 := reader_step_trans h0 h1
          obtain ⟨hstep, hlt, hframe⟩ :=
            macStep_createAckPacket mac2.own mac2 macData.m_senderId h01.step.kernel.wf
              h01.step.kernel.future h01.step.kernel.flags
          refine reader_step_trans h01 ⟨hstep, ⟨?_, ?_, h01.frames.slot_time⟩, rfl, rfl⟩
          · intro x hx
            have hx' : some (mac2.createAckPacket w2 macData.m_senderId).1 = some x := hx
            cases hx'
            exact ⟨hlt, hframe⟩
          · intro x hx
            exact Nat.lt_of_lt_of_le (h01.frames.app x hx) hstep.heap.next
    · rw [if_neg hme] at h
      simp only [Except.ok.injEq, Prod.mk.injEq] at h
      obtain ⟨_, hm, hw⟩ := h
      subst hm
      subst hw
      exact reader_step_refl hf hwf hfut hfl
  · simp only [Except.ok.injEq, Prod.mk.injEq] at h
    obtain ⟨_, hm, hw⟩ := h
    subst hm
    subst hw
    exact reader_step_refl hf hwf hfut hfl

theorem reader_handleRecvdUpperLayerPacket {mac mac' : RfidReaderMac} {w w' : MacWorld}
    {p : PacketPtr} {b : Bool}
    (hf : mac.Frames w) (hsz : w.Sized) (hwf : w.sim.WF) (hfut : w.sim.Future)
    (hfl : w.sim.FlagsExact) (hp : p < w.nextPacketPtr)
    (h : mac.handleRecvdUpperLayerPacket w p = .ok (b, mac', w')) : mac.Step w mac' w' := by
  unfold RfidReaderMac.handleRecvdUpperLayerPacket at h
  split at h
  · rename_i appData _
    cases hty : appData.m_type with
    | NoType =>
      rw [hty] at h
      dsimp only at h
      split_ifs at h
      simp only [Except.ok.injEq, Prod.mk.injEq] at h
      obtain ⟨_, hm, hw⟩ := h
      subst hm
      subst hw
      exact reader_step_refl hf hwf hfut hfl
    | Reset =>
      rw [hty] at h
      dsimp only at h
      by_cases hpend : mac.m_packetToTransmit ≠ none
      · rw [if_pos hpend] at h
        cases h
      · rw [if_neg hpend] at h
        dsimp only at h
        split_ifs at h
        simp only [Except.ok.injEq, Prod.mk.injEq] at h
        obtain ⟨_, hm, hw⟩ := h
        subst hm
        subst hw
        have h1 : mac.Step w mac (w.call .blockUpperQueues) :=
          reader_step_call _ hf hwf hfut hfl
        obtain ⟨hstep, hframe⟩ :=
          macStep_addGenericHeader mac.own mac (w := w.call .blockUpperQueues) p
            NodeId.broadcastDestination hwf hfut hfl
        refine reader_step_trans h1 ⟨hstep, ⟨?_, ?_, hf.slot_time⟩, rfl, rfl⟩
        · intro x hx
          have hx' : some p = some x := hx
          cases hx'
          exact ⟨Nat.lt_of_lt_of_le hp hstep.heap.next, hframe (hsz p hp)⟩
        · intro x hx
          exact Nat.lt_of_lt_of_le (hf.app x hx) hstep.heap.next
    | Read =>
      rw [hty] at h
      dsimp only at h
      by_cases happ : mac.m_currentAppReadPacket ≠ none
      · rw [if_pos happ] at h
        cases h
      · rw [if_neg happ] at h
        cases hstart : mac.m_cycleTimer.start (w.call .blockUpperQueues).sim
            mac.m_nextCycleTime with
        | error f =>
          have hstart' : mac.m_cycleTimer.start w.blockUpperQueues.sim mac.m_nextCycleTime
              = .error f := hstart
          rw [hstart'] at h
          cases h
        | ok r =>
          obtain ⟨b1, sim⟩ := r
          have hstart' : mac.m_cycleTimer.start w.blockUpperQueues.sim mac.m_nextCycleTime
              = .ok (b1, sim) := hstart
          rw [hstart'] at h
          dsimp only at h
          have h1 : mac.Step w mac (w.call .blockUpperQueues) :=
            reader_step_call _ hf hwf hfut hfl
          have hk : KernelStep mac.own (w.call .blockUpperQueues).sim sim :=
            kernelStep_start hstart rfl hwf hfut hfl
          have h2 : mac.Step (w.call .blockUpperQueues)
              { mac with
                m_currentAppReadPacket := some p
                m_doEntireReadCycle := appData.m_doEntireReadCycle }
              { w.call .blockUpperQueues with sim := sim } := by
            refine ⟨macStep_sim hk, ⟨?_, ?_, hf.slot_time⟩, rfl, rfl⟩
            · intro x hx
              exact hf.pending x hx
            · intro x hx
              have hx' : some p = some x := hx
              cases hx'
              exact hp
          have h12 := reader_step_trans h1 h2
          cases he : RfidReaderMac.isEnoughTimeForContentionCycle
              { mac with
                m_currentAppReadPacket := some p
                m_doEntireReadCycle := appData.m_doEntireReadCycle }
              { w.blockUpperQueues with sim := sim } with
          | error f =>
            rw [he] at h
            cases h
          | ok b2 =>
            rw [he] at h
            cases b2 with
            | false =>
              dsimp only at h
              split_ifs at h
              simp only [Except.ok.injEq, Prod.mk.injEq] at h
              obtain ⟨_, hm, hw⟩ := h
              subst hm
              subst hw
              exact h12
            | true =>
              dsimp only at h
              cases hn : RfidReaderMac.startNextContentionCycle
                  { mac with
                    m_currentAppReadPacket := some p
                    m_doEntireReadCycle := appData.m_doEntireReadCycle }
                  { w.blockUpperQueues with sim := sim } with
              | error f =>
                rw [hn] at h
                cases h
              | ok r2 =>
                obtain ⟨mac2, w3⟩ := r2
                rw [hn] at h
                dsimp only at h
                split_ifs at h
                simp only [Except.ok.injEq, Prod.mk.injEq] at h
                obtain ⟨_, hm, hw⟩ := h
                subst hm
                subst hw
                exact reader_step_trans h12
                  (reader_startNextContentionCycle h2.frames hk.wf hk.future hk.flags hn)
  · simp only [Except.ok.injEq, Prod.mk.injEq] at h
    obtain ⟨_, hm, hw⟩ := h
    subst hm
    subst hw
    exact reader_step_refl hf hwf hfut hfl

/-- The events of the reader other than the slot event and the send events. -/
theorem reader_otherEvent {mac mac' : RfidReaderMac} {w w' : MacWorld} {e : EventId}
    {input : NodeInput}
    (hf : mac.Frames w) (hsz : w.Sized) (hwf : w.sim.WF) (hfut : w.sim.Future)
    (hfl : w.sim.FlagsExact) (hv : input.Valid w)
    (h : RfidReaderMac.nodeEvents.otherEvent mac w e input = .ok (mac', w')) :
    mac.Step w mac' w' := by
  unfold RfidReaderMac.nodeEvents at h
  dsimp only at h
  split_ifs at h
  · exact reader_endRequestCycleEvent hf hwf hfut hfl h
  · unfold RfidReaderMac.recvFromLinkLayer at h
    cases input with
    | nothing =>
      simp only [Except.ok.injEq, Prod.mk.injEq] at h
      obtain ⟨hm, hw⟩ := h
      subst hm
      subst hw
      exact reader_step_refl hf hwf hfut hfl
    | upperLayerPacket p =>
      dsimp only at h
      cases hr : mac.handleRecvdUpperLayerPacket w p with
      | error f =>
        rw [hr] at h
        cases h
      | ok r =>
        obtain ⟨b, mac1, w1⟩ := r
        rw [hr] at h
        simp only [Except.map, Except.ok.injEq, Prod.mk.injEq] at h
        obtain ⟨hm, hw⟩ := h
        subst hm
        subst hw
        exact reader_handleRecvdUpperLayerPacket hf hsz hwf hfut hfl hv hr
    | macPacket p =>
      dsimp only at h
      cases hr : mac.handleRecvdMacPacket w p with
      | error f =>
        rw [hr] at h
        cases h
      | ok r =>
        obtain ⟨b, mac1, w1⟩ := r
        rw [hr] at h
        simp only [Except.map, Except.ok.injEq, Prod.mk.injEq] at h
        obtain ⟨hm, hw⟩ := h
        subst hm
        subst hw
        exact reader_handleRecvdMacPacket hf hsz hwf hfut hfl hr

end ReaderInputs

/-! ## The slot event as a step -/

section SlotSteps

/-- The slot timer is rescheduled after a part of `beginSlotEvent` that created
no event. -/
theorem slotStep_of_macStep {own : EventId → Prop} {slot : Timer} {w w1 : MacWorld}
    {b : Bool} {sim : Simulator} {d : SimTime}
    (hstep : MacStep own w w1) (hql : ∀ x ∈ w.sim.m_eventPtrQueue, x < w.nextEventPtr)
    (hslot : slot.m_eventOnFire < w.nextEventPtr) (hown : ∀ x, own x → x < w.nextEventPtr)
    (hd : d = m_DEFAULT_SLOT_TIME) (hs : slot.reschedule w1.sim d = .ok (b, sim)) :
    SlotStep slot.m_eventOnFire own w { w1 with sim := sim } := by
  have hk1 : KernelStep (fun x => own x ∨ x = slot.m_eventOnFire ∨ w.nextEventPtr ≤ x)
      w.sim w1.sim := kernelStep_mono hstep.kernel (fun x h => Or.inl h)
  obtain ⟨hk2, hq, hfire, _⟩ :=
    @kernelStep_reschedule (fun x => own x ∨ x = slot.m_eventOnFire ∨ w.nextEventPtr ≤ x)
      w1.sim sim slot d b hs (Or.inr (Or.inl rfl)) hk1.wf hk1.future hk1.flags
  obtain ⟨hk3, _, _, _⟩ :=
    @kernelStep_reschedule (fun x => x = slot.m_eventOnFire)
      w1.sim sim slot d b hs rfl hk1.wf hk1.future hk1.flags
  refine ⟨kernelStep_trans hk1 hk2, hq, ?_, ?_, Or.inl ⟨hstep.nextEventPtr, hstep.sendEvents⟩,
    hstep.phy, ⟨hstep.heap.next, hstep.heap.sized, hstep.heap.frame⟩, hstep.rate⟩
  · rw [hfire, hstep.kernel.clock, hd]
  · intro x hx
    show x < w1.nextEventPtr
    rw [hstep.nextEventPtr]
    by_cases hxs : x = slot.m_eventOnFire
    · rw [hxs]
      exact hslot
    · have hx1 : x ∈ w1.sim.m_eventPtrQueue := (hk3.queue x hxs).1 hx
      by_cases hxo : own x
      · exact hown x hxo
      · exact hql x ((hstep.kernel.queue x hxo).1 hx1)

/-- The slot timer is rescheduled after the send timer has been started for a
frame. -/
theorem slotStep_of_arm {own : EventId → Prop} {slot : Timer} {mac base : SlottedMac}
    {w w1 : MacWorld} {p : PacketPtr} {ifs d : SimTime} {b b' : Bool} {sim : Simulator}
    (hwf : w.sim.WF) (hfut : w.sim.Future) (hfl : w.sim.FlagsExact)
    (hql : ∀ x ∈ w.sim.m_eventPtrQueue, x < w.nextEventPtr)
    (hslot : slot.m_eventOnFire < w.nextEventPtr)
    (harm : mac.startSendTimer w .Lower p ifs = .ok (b, base, w1))
    (hifs : ifs ≤ 20 / 10 ^ 6) (hp : p < w.nextPacketPtr) (hframe : (w.packets p).IsFrame)
    (hd : d = m_DEFAULT_SLOT_TIME) (hs : slot.reschedule w1.sim d = .ok (b', sim)) :
    SlotStep slot.m_eventOnFire own w { w1 with sim := sim } ∧
      base = { mac with m_sendTimer := some { m_eventOnFire := w.nextEventPtr } } := by
  obtain ⟨sim1, hsch, hbase, hw1⟩ := startSendTimer_inv harm
  subst hw1
  have hnot : w.nextEventPtr ∉ w.sim.m_eventPtrQueue :=
    fun hmem => Nat.lt_irrefl _ (hql _ hmem)
  have hne : slot.m_eventOnFire ≠ w.nextEventPtr := Nat.ne_of_lt hslot
  obtain ⟨hk1, hq1, hfire1, hifs0⟩ :=
    @kernelStep_create_schedule
      (fun x => own x ∨ x = slot.m_eventOnFire ∨ w.nextEventPtr ≤ x) w.sim sim1
      w.nextEventPtr ifs b hsch (Or.inr (Or.inr (Nat.le_refl _))) hnot hwf hfut hfl
  obtain ⟨hk1', _, _, _⟩ :=
    @kernelStep_create_schedule (fun x => x = w.nextEventPtr) w.sim sim1
      w.nextEventPtr ifs b hsch rfl hnot hwf hfut hfl
  obtain ⟨hk2, hq, hfire, _⟩ :=
    @kernelStep_reschedule (fun x => own x ∨ x = slot.m_eventOnFire ∨ w.nextEventPtr ≤ x)
      sim1 sim slot d b' hs (Or.inr (Or.inl rfl)) hk1.wf hk1.future hk1.flags
  obtain ⟨hk3, _, _, _⟩ :=
    @kernelStep_reschedule (fun x => x = slot.m_eventOnFire)
      sim1 sim slot d b' hs rfl hk1.wf hk1.future hk1.flags
  refine ⟨⟨kernelStep_trans hk1 hk2, hq, ?_, ?_, Or.inr ⟨p, ifs, rfl, rfl, ?_, hifs0, hifs, hp,
    hframe⟩, rfl, heapStep_of_eq rfl rfl, fun _ _ => rfl⟩, hbase⟩
  · rw [hfire, hk1.clock, hd]
  · intro x hx
    show x < w.nextEventPtr + 1
    by_cases hxs : x = slot.m_eventOnFire
    · rw [hxs]
      exact Nat.lt_succ_of_lt hslot
    · have hx1 : x ∈ sim1.m_eventPtrQueue := (hk3.queue x hxs).1 hx
      by_cases hxe : x = w.nextEventPtr
      · rw [hxe]
        exact Nat.lt_succ_self _
      · exact Nat.lt_succ_of_lt (hql x ((hk1'.queue x hxe).1 hx1))
  · show sim.fire w.nextEventPtr = w.sim.m_clock + ifs
    rw [kernelStep_fire hk3 (Ne.symm hne), hfire1]

end SlotSteps

section ReaderSlot

theorem reader_endOfContentionCycle_tail {mac3 mac' : RfidReaderMac} {w w' : MacWorld}
    (hf : mac3.Frames w) (hwf : w.sim.WF) (hfut : w.sim.Future) (hfl : w.sim.FlagsExact)
    (h : (if !mac3.m_doEntireReadCycle && mac3.m_missedReadCount = m_MISSED_READ_THRESHOLD then
        if !mac3.m_cycleTimer.isRunning w.sim then .error .cycleTimerNotRunning
        else mac3.endRequestCycleEvent { w with sim := (mac3.m_cycleTimer.stop w.sim).2 }
      else
        match mac3.isEnoughTimeForContentionCycle w with
        | .error f => .error f
        | .ok true =>
          match mac3.createRequestPacket w with
          | .error f => .error f
          | .ok (packet, w1) =>
            .ok ({ mac3 with
              m_packetToTransmit := some packet
              m_txSlotNumber := (mac3.m_currentSlotNumber + 1) % 2 ^ 32 }, w1)
        | .ok false =>
          if !mac3.m_cycleTimer.isRunning w.sim && w.getQueueIsBlocked
          then .error .queueIsBlocked
          else .ok (mac3, w)) = .ok (mac', w')) : mac3.Step w mac' w' := by
  by_cases hthr : (!mac3.m_doEntireReadCycle
      && decide (mac3.m_missedReadCount = m_MISSED_READ_THRESHOLD)) = true
  · rw [if_pos hthr] at h
    by_cases hrun : (!mac3.m_cycleTimer.isRunning w.sim) = true
    · rw [if_pos hrun] at h
      cases h
    · rw [if_neg hrun] at h
      obtain ⟨hk, _⟩ := @kernelStep_stop mac3.own w.sim mac3.m_cycleTimer rfl hwf hfut hfl
      have h1 : mac3.Step w mac3 { w with sim := (mac3.m_cycleTimer.stop w.sim).2 } :=
        ⟨macStep_sim hk, ⟨hf.pending, hf.app, hf.slot_time⟩, rfl, rfl⟩
      exact reader_step_trans h1
        (reader_endRequestCycleEvent h1.frames hk.wf hk.future hk.flags h)
  · rw [if_neg hthr] at h
    cases he : mac3.isEnoughTimeForContentionCycle w with
    | error f =>
      rw [he] at h
      cases h
    | ok b =>
      rw [he] at h
      cases b with
      | true =>
        dsimp only at h
        cases hc : mac3.createRequestPacket w with
        | error f =>
          rw [hc] at h
          cases h
        | ok r =>
          obtain ⟨packet, w1⟩ := r
          rw [hc] at h
          simp only [Except.ok.injEq, Prod.mk.injEq] at h
          obtain ⟨hm, hw⟩ := h
          subst hm
          subst hw
          obtain ⟨hstep, hlt, hframe⟩ :=
            macStep_createRequestPacket mac3.own hwf hfut hfl hc
          refine ⟨hstep, ⟨?_, ?_, hf.slot_time⟩, rfl, rfl⟩
          · intro p hq
            have hq' : some packet = some p := hq
            cases hq'
            exact ⟨hlt, hframe⟩
          · intro p hq
            exact Nat.lt_of_lt_of_le (hf.app p hq) hstep.heap.next
      | false =>
        dsimp only at h
        split_ifs at h
        simp only [Except.ok.injEq, Prod.mk.injEq] at h
        obtain ⟨hm, hw⟩ := h
        subst hm
        subst hw
        exact reader_step_refl hf hwf hfut hfl

theorem reader_endOfContentionCycle {mac mac' : RfidReaderMac} {w w' : MacWorld}
    (hf : mac.Frames w) (hwf : w.sim.WF) (hfut : w.sim.Future) (hfl : w.sim.FlagsExact)
    (h : mac.endOfContentionCycle w = .ok (mac', w')) : mac.Step w mac' w' := by
  unfold RfidReaderMac.endOfContentionCycle at h
  by_cases hpend : mac.m_packetToTransmit ≠ none
  · rw [if_pos hpend] at h
    cases h
  · rw [if_neg hpend] at h
    cases he : mac.isEnoughTimeForContentionCycle w with
    | error f =>
      rw [he] at h
      cases h
    | ok b0 =>
      rw [he] at h
      dsimp only at h
      by_cases hc : (!mac.m_doEntireReadCycle && mac.m_cycleTimer.isRunning w.sim) = true
      · rw [if_pos hc] at h
        have h3 : mac.Step w
            { ({ ({ mac with
                    m_missedReads := mac.m_missedReads ++ [mac.m_currentSlotNumber]
                    m_missedReadCount := (mac.m_missedReadCount + 1) % 2 ^ 32 } : RfidReaderMac)
                  with m_doResetSlot := false } : RfidReaderMac) with
              m_currentSlotNumber := 0, m_numberOfSlots := 0 } w :=
          reader_step_mac hf hwf hfut hfl rfl (Or.inl rfl) rfl rfl rfl
        exact reader_step_trans h3 (reader_endOfContentionCycle_tail h3.frames hwf hfut hfl h)
      · rw [if_neg hc] at h
        have h3 : mac.Step w
            { ({ ({ mac with m_missedReadCount := 0 } : RfidReaderMac)
                  with m_doResetSlot := false } : RfidReaderMac) with
              m_currentSlotNumber := 0, m_numberOfSlots := 0 } w :=
          reader_step_mac hf hwf hfut hfl rfl (Or.inl rfl) rfl rfl rfl
        exact reader_step_trans h3 (reader_endOfContentionCycle_tail h3.frames hwf hfut hfl h)

/-- The method `RfidReaderMac::beginSlotEvent` is a slot step. -/
theorem reader_beginSlotEvent {mac mac' : RfidReaderMac} {w w' : MacWorld}
    (hf : mac.Frames w) (hwf : w.sim.WF) (hfut : w.sim.Future) (hfl : w.sim.FlagsExact)
    (hql : ∀ x ∈ w.sim.m_eventPtrQueue, x < w.nextEventPtr)
    (hslot : mac.m_slotTimer.m_eventOnFire < w.nextEventPtr)
    (hown : ∀ x, mac.own x → x < w.nextEventPtr)
    (h : mac.beginSlotEvent w = .ok (mac', w')) :
    SlotStep mac.m_slotTimer.m_eventOnFire mac.own w w' ∧ mac'.Frames w' ∧
      mac'.m_slotTimer = mac.m_slotTimer ∧ mac'.m_cycleTimer = mac.m_cycleTimer := by
  have hfin : ∀ {mac1 : RfidReaderMac} {w1 : MacWorld}, mac.Step w mac1 w1 →
      (match ({ mac1 with m_currentSlotNumber := (mac1.m_currentSlotNumber + 1) % 2 ^ 32 } :
          RfidReaderMac).m_slotTimer.reschedule w1.sim
          ({ mac1 with m_currentSlotNumber := (mac1.m_currentSlotNumber + 1) % 2 ^ 32 } :
            RfidReaderMac).getSlotTime with
        | .error f => .error f
        | .ok (_, sim) =>
          .ok (({ mac1 with m_currentSlotNumber := (mac1.m_currentSlotNumber + 1) % 2 ^ 32 } :
            RfidReaderMac), { w1 with sim := sim })) = Except.ok (mac', w') →
      SlotStep mac.m_slotTimer.m_eventOnFire mac.own w w' ∧ mac'.Frames w' ∧
        mac'.m_slotTimer = mac.m_slotTimer ∧ mac'.m_cycleTimer = mac.m_cycleTimer := by
    intro mac1 w1 hst hres
    cases hr : mac1.m_slotTimer.reschedule w1.sim mac1.m_slotTime with
    | error f =>
      have hr' : ({ mac1 with
          m_currentSlotNumber := (mac1.m_currentSlotNumber + 1) % 2 ^ 32 } :
          RfidReaderMac).m_slotTimer.reschedule w1.sim
          ({ mac1 with m_currentSlotNumber := (mac1.m_currentSlotNumber + 1) % 2 ^ 32 } :
            RfidReaderMac).getSlotTime = .error f := hr
      rw [hr'] at hres
      cases hres
    | ok r =>
      obtain ⟨b, sim⟩ := r
      have hr' : ({ mac1 with
          m_currentSlotNumber := (mac1.m_currentSlotNumber + 1) % 2 ^ 32 } :
          RfidReaderMac).m_slotTimer.reschedule w1.sim
          ({ mac1 with m_currentSlotNumber := (mac1.m_currentSlotNumber + 1) % 2 ^ 32 } :
            RfidReaderMac).getSlotTime = .ok (b, sim) := hr
      rw [hr'] at hres
      simp only [Except.ok.injEq, Prod.mk.injEq] at hres
      obtain ⟨hm, hw⟩ := hres
      subst hm
      subst hw
      rw [hst.slotTimer] at hr
      refine ⟨slotStep_of_macStep hst.step hql hslot hown hst.frames.slot_time hr, ?_,
        hst.slotTimer, hst.cycleTimer⟩
      exact ⟨hst.frames.pending, hst.frames.app, hst.frames.slot_time⟩
  unfold RfidReaderMac.beginSlotEvent at h
  dsimp only at h
  by_cases htx : mac.m_currentSlotNumber = mac.m_txSlotNumber
  · rw [if_pos htx] at h
    cases hpend : mac.m_packetToTransmit with
    | none =>
      rw [hpend] at h
      exact hfin (reader_step_refl hf hwf hfut hfl) h
    | some p =>
      rw [hpend] at h
      dsimp only at h
      cases harm : mac.startSendTimer w .Lower p m_READER_IFS with
      | error f =>
        rw [harm] at h
        cases h
      | ok r =>
        obtain ⟨b, base, w1⟩ := r
        rw [harm] at h
        dsimp only at h
        cases hr : base.m_slotTimer.reschedule w1.sim base.m_slotTime with
        | error f =>
          have hr' : ({ ({ mac with toSlottedMac := { base with m_packetToTransmit := none } } :
              RfidReaderMac) with
              m_currentSlotNumber := (base.m_currentSlotNumber + 1) % 2 ^ 32 } :
              RfidReaderMac).m_slotTimer.reschedule w1.sim
              ({ ({ mac with toSlottedMac := { base with m_packetToTransmit := none } } :
                RfidReaderMac) with
                m_currentSlotNumber := (base.m_currentSlotNumber + 1) % 2 ^ 32 } :
                RfidReaderMac).getSlotTime = .error f := hr
          rw [hr'] at h
          cases h
        | ok r2 =>
          obtain ⟨b2, sim⟩ := r2
          have hr' : ({ ({ mac with toSlottedMac := { base with m_packetToTransmit := none } } :
              RfidReaderMac) with
              m_currentSlotNumber := (base.m_currentSlotNumber + 1) % 2 ^ 32 } :
              RfidReaderMac).m_slotTimer.reschedule w1.sim
              ({ ({ mac with toSlottedMac := { base with m_packetToTransmit := none } } :
                RfidReaderMac) with
                m_currentSlotNumber := (base.m_currentSlotNumber + 1) % 2 ^ 32 } :
                RfidReaderMac).getSlotTime = .ok (b2, sim) := hr
          rw [hr'] at h
          simp only [Except.ok.injEq, Prod.mk.injEq] at h
          obtain ⟨hm, hw⟩ := h
          subst hm
          subst hw
          obtain ⟨hp, hframe⟩ := hf.pending p hpend
          have hbase := (startSendTimer_inv harm).choose_spec.2.1
          have hbt : base.m_slotTimer = mac.m_slotTimer := by rw [hbase]
          have hbs : base.m_slotTime = m_DEFAULT_SLOT_TIME := by
            rw [hbase]
            exact hf.slot_time
          rw [hbt] at hr
          obtain ⟨hss, _⟩ :=
            @slotStep_of_arm mac.own mac.m_slotTimer mac.toSlottedMac base w w1 p m_READER_IFS
              base.m_slotTime b b2 sim hwf hfut hfl hql hslot harm
              (by unfold m_READER_IFS; norm_num) hp hframe hbs hr
          refine ⟨hss, ⟨?_, ?_, hbs⟩, hbt, rfl⟩
          · intro x hx
            cases hx
          · intro x hx
            exact Nat.lt_of_lt_of_le (hf.app x hx) hss.heap.next
  · rw [if_neg htx] at h
    split_ifs at h
    · cases hend : mac.endOfContentionCycle w with
      | error f =>
        rw [hend] at h
        cases h
      | ok r =>
        obtain ⟨mac1, w1⟩ := r
        rw [hend] at h
        exact hfin (reader_endOfContentionCycle hf hwf hfut hfl hend) h
    · exact hfin (reader_step_refl hf hwf hfut hfl) h

/-- The handlers of the reader MAC are what the sending path needs. -/
theorem reader_macSpec :
    MacSpec RfidReaderMac.nodeEvents RfidReaderMac.own RfidReaderMac.Frames := by
  have hown : ∀ {mac mac' : RfidReaderMac}, mac'.m_cycleTimer = mac.m_cycleTimer →
      mac'.own = mac.own := by
    intro mac mac' h
    unfold RfidReaderMac.own
    rw [h]
  refine ⟨?_, ?_, ?_, ?_⟩
  · intro mac w w' hf hh
    exact ⟨fun p hq => ⟨Nat.lt_of_lt_of_le (hf.pending p hq).1 hh.next,
      hh.frame p (hf.pending p hq).1 (hf.pending p hq).2⟩,
      fun p hq => Nat.lt_of_lt_of_le (hf.app p hq) hh.next, hf.slot_time⟩
  · intro mac w e input mac' w' hf hsz hwf hfut hfl hv h
    have hs := reader_otherEvent hf hsz hwf hfut hfl hv h
    exact ⟨hs.step, hs.frames, hs.slotTimer, hown hs.cycleTimer⟩
  · intro mac w d p b mac' w' hf _ hwf hfut hfl h
    have hs := @reader_sendToLinkLayer mac mac' w w' d p b hf hwf hfut hfl h
    exact ⟨hs.step, hs.frames, hs.slotTimer, hown hs.cycleTimer⟩
  · intro mac w mac' w' hf _ hwf hfut hfl hql _ hslot hownlt _ h
    obtain ⟨h1, h2, h3, h4⟩ :=
      @reader_beginSlotEvent mac mac' w w' hf hwf hfut hfl hql hslot hownlt h
    exact ⟨h1, h2, h3, hown h4⟩

end ReaderSlot

/-! ## The handlers of the tag MAC as steps -/

section TagSteps

theorem tag_step_refl {mac : RfidTagMac} {w : MacWorld} (hf : mac.Frames w)
    (hwf : w.sim.WF) (hfut : w.sim.Future) (hfl : w.sim.FlagsExact) : mac.Step w mac w :=
  ⟨macStep_refl _ hwf hfut hfl, hf, rfl⟩

theorem tag_step_trans {mac mac1 mac2 : RfidTagMac} {w w1 w2 : MacWorld}
    (h1 : mac.Step w mac1 w1) (h2 : mac1.Step w1 mac2 w2) : mac.Step w mac2 w2 :=
  ⟨macStep_trans h1.step h2.step, h2.frames, h2.slotTimer.trans h1.slotTimer⟩

/-- The MAC changes members other than its packet to transmit and its timers, or
drops the packet to transmit. -/
theorem tag_step_mac {mac mac' : RfidTagMac} {w : MacWorld} (hf : mac.Frames w)
    (hwf : w.sim.WF) (hfut : w.sim.Future) (hfl : w.sim.FlagsExact)
    (hp : mac'.m_packetToTransmit = mac.m_packetToTransmit ∨ mac'.m_packetToTransmit = none)
    (hs : mac'.m_slotTime = mac.m_slotTime) (hst : mac'.m_slotTimer = mac.m_slotTimer) :
    mac.Step w mac' w := by
  refine ⟨macStep_refl _ hwf hfut hfl, ⟨?_, hs.trans hf.slot_time⟩, hst⟩
  intro p hq
  rcases hp with hp | hp
  · exact hf.pending p (hp.symm.trans hq)
  · rw [hp] at hq
    cases hq

theorem tag_step_call {mac : RfidTagMac} {w : MacWorld} (c : MacCall)
    (hf : mac.Frames w) (hwf : w.sim.WF) (hfut : w.sim.Future) (hfl : w.sim.FlagsExact) :
    mac.Step w mac (w.call c) :=
  ⟨macStep_call _ c hwf hfut hfl, ⟨hf.pending, hf.slot_time⟩, rfl⟩

theorem tag_handleChannelBusy {mac mac' : RfidTagMac} {w w' : MacWorld} {p : PacketPtr}
    (hf : mac.Frames w) (hwf : w.sim.WF) (hfut : w.sim.Future) (hfl : w.sim.FlagsExact)
    (h : RfidTagMac.handleChannelBusy p mac w = .ok (mac', w')) : mac.Step w mac' w' := by
  unfold RfidTagMac.handleChannelBusy at h
  simp only [Except.ok.injEq, Prod.mk.injEq] at h
  obtain ⟨hm, hw⟩ := h
  subst hm
  subst hw
  have h1 : mac.Step w mac (w.call .unblockUpperQueues) := tag_step_call _ hf hwf hfut hfl
  refine tag_step_trans h1 ?_
  split_ifs
  · exact tag_step_mac h1.frames hwf hfut hfl (Or.inl rfl) rfl rfl
  · exact tag_step_refl h1.frames hwf hfut hfl

theorem tag_handlePacketSent {mac mac' : RfidTagMac} {w w' : MacWorld} {p : PacketPtr}
    (hf : mac.Frames w) (hwf : w.sim.WF) (hfut : w.sim.Future) (hfl : w.sim.FlagsExact)
    (h : RfidTagMac.handlePacketSent p mac w = .ok (mac', w')) : mac.Step w mac' w' := by
  unfold RfidTagMac.handlePacketSent at h
  split_ifs at h <;>
    (simp only [Except.ok.injEq, Prod.mk.injEq] at h
     obtain ⟨hm, hw⟩ := h
     subst hm
     subst hw)
  · have h1 : mac.Step w mac (w.call .unblockUpperQueues) := tag_step_call _ hf hwf hfut hfl
    exact tag_step_trans h1 (tag_step_mac h1.frames hwf hfut hfl (Or.inl rfl) rfl rfl)
  · exact tag_step_refl hf hwf hfut hfl

theorem tag_sendToLinkLayer {mac mac' : RfidTagMac} {w w' : MacWorld} {d : Directions}
    {p : PacketPtr} {b : Bool}
    (hf : mac.Frames w) (hwf : w.sim.WF) (hfut : w.sim.Future) (hfl : w.sim.FlagsExact)
    (h : mac.sendToLinkLayer w d p = .ok (b, mac', w')) : mac.Step w mac' w' := by
  unfold RfidTagMac.sendToLinkLayer MacProtocol.sendToLinkLayer at h
  split_ifs at h
  · cases hb : RfidTagMac.handleChannelBusy p mac w with
    | error f =>
      rw [hb] at h
      cases h
    | ok r =>
      obtain ⟨mac1, w1⟩ := r
      rw [hb] at h
      simp only [Except.ok.injEq, Prod.mk.injEq] at h
      obtain ⟨_, hm, hw⟩ := h
      subst hm
      subst hw
      exact tag_handleChannelBusy hf hwf hfut hfl hb
  · cases hb : RfidTagMac.handlePacketSent p mac w with
    | error f =>
      rw [hb] at h
      cases h
    | ok r =>
      obtain ⟨mac1, w1⟩ := r
      rw [hb] at h
      simp only [Except.ok.injEq, Prod.mk.injEq] at h
      obtain ⟨_, hm, hw⟩ := h
      subst hm
      subst hw
      have h1 := tag_handlePacketSent hf hwf hfut hfl hb
      exact tag_step_trans h1
        (tag_step_call (.recvFromMacProtocol d p) h1.frames h1.step.kernel.wf
          h1.step.kernel.future h1.step.kernel.flags)

theorem tag_handleRequestPacket {uniformInt : ℕ → ℕ → ℕ} {mac mac' : RfidTagMac}
    {w w' : MacWorld} {macData : RfidReaderMacData} {b : Bool}
    (hf : mac.Frames w) (hwf : w.sim.WF) (hfut : w.sim.Future) (hfl : w.sim.FlagsExact)
    (h : mac.handleRequestPacket uniformInt w macData = .ok (b, mac', w')) :
    mac.Step w mac' w' := by
  unfold RfidTagMac.handleRequestPacket at h
  dsimp only at h
  by_cases hin : (!mac.inContentionCycle) = true
  · rw [if_pos hin] at h
    split_ifs at h with h4 h0 hpend hreply
    · simp only [Except.ok.injEq, Prod.mk.injEq] at h
      obtain ⟨_, hm, hw⟩ := h
      subst hm
      subst hw
      have hnone : mac.m_packetToTransmit = none := not_not.1 hpend
      obtain ⟨hstep, hlt, hframe⟩ :=
        macStep_createReplyPacket (fun _ => False)
          ({ mac with
            m_currentSlotNumber := 0, m_numberOfSlots := macData.m_numberOfSlots,
            m_txSlotNumber := uniformInt 0 (macData.m_numberOfSlots - 4) % 2 ^ 32 } :
            RfidTagMac)
          macData.m_senderId hwf hfut hfl
      refine ⟨hstep, ⟨?_, hf.slot_time⟩, rfl⟩
      intro x hx
      have hx' : some (RfidTagMac.createReplyPacket
          ({ mac with
            m_currentSlotNumber := 0, m_numberOfSlots := macData.m_numberOfSlots,
            m_txSlotNumber := uniformInt 0 (macData.m_numberOfSlots - 4) % 2 ^ 32 } :
            RfidTagMac) w macData.m_senderId).1 = some x := hx
      cases hx'
      exact ⟨hlt, hframe⟩
    · simp only [Except.ok.injEq, Prod.mk.injEq] at h
      obtain ⟨_, hm, hw⟩ := h
      subst hm
      subst hw
      exact tag_step_mac hf hwf hfut hfl (Or.inl rfl) rfl rfl
    · simp only [Except.ok.injEq, Prod.mk.injEq] at h
      obtain ⟨_, hm, hw⟩ := h
      subst hm
      subst hw
      exact tag_step_mac hf hwf hfut hfl (Or.inl rfl) rfl rfl
  · rw [if_neg hin] at h
    simp only [Except.ok.injEq, Prod.mk.injEq] at h
    obtain ⟨_, hm, hw⟩ := h
    subst hm
    subst hw
    exact tag_step_refl hf hwf hfut hfl

theorem tag_handleRecvdMacPacket {uniformInt : ℕ → ℕ → ℕ} {mac mac' : RfidTagMac}
    {w w' : MacWorld} {p : PacketPtr} {b : Bool}
    (hf : mac.Frames w) (hwf : w.sim.WF) (hfut : w.sim.Future) (hfl : w.sim.FlagsExact)
    (h : mac.handleRecvdMacPacket uniformInt w p = .ok (b, mac', w')) :
    mac.Step w mac' w' := by
  unfold RfidTagMac.handleRecvdMacPacket at h
  split at h
  · rename_i macData _
    cases hty : macData.m_type with
    | Request =>
      rw [hty] at h
      dsimp only at h
      split_ifs at h
      exact tag_handleRequestPacket hf hwf hfut hfl h
    | Select =>
      rw [hty] at h
      dsimp only at h
      split_ifs at h
      · exact tag_sendToLinkLayer hf hwf hfut hfl h
      · simp only [Except.ok.injEq, Prod.mk.injEq] at h
        obtain ⟨_, hm, hw⟩ := h
        subst hm
        subst hw
        have h1 : mac.Step w mac (w.call .unblockUpperQueues) :=
          tag_step_call _ hf hwf hfut hfl
        exact tag_step_trans h1 (tag_step_mac h1.frames hwf hfut hfl (Or.inr rfl) rfl rfl)
    | Generic =>
      rw [hty] at h
      dsimp only at h
      split_ifs at h
      · exact tag_sendToLinkLayer hf hwf hfut hfl h
      · simp only [Except.ok.injEq, Prod.mk.injEq] at h
        obtain ⟨_, hm, hw⟩ := h
        subst hm
        subst hw
        exact tag_step_refl hf hwf hfut hfl
    | Ack =>
      rw [hty] at h
      dsimp only at h
      split_ifs at h <;>
        (simp only [Except.ok.injEq, Prod.mk.injEq] at h
         obtain ⟨_, hm, hw⟩ := h
         subst hm
         subst hw)
      · exact tag_step_mac hf hwf hfut hfl (Or.inl rfl) rfl rfl
      · exact tag_step_refl hf hwf hfut hfl
  · simp only [Except.ok.injEq, Prod.mk.injEq] at h
    obtain ⟨_, hm, hw⟩ := h
    subst hm
    subst hw
    exact tag_step_refl hf hwf hfut hfl

theorem tag_handleRecvdUpperLayerPacket {mac mac' : RfidTagMac} {w w' : MacWorld}
    {p : PacketPtr} {b : Bool}
    (hf : mac.Frames w) (hsz : w.Sized) (hwf : w.sim.WF) (hfut : w.sim.Future)
    (hfl : w.sim.FlagsExact) (hp : p < w.nextPacketPtr)
    (h : mac.handleRecvdUpperLayerPacket w p = .ok (b, mac', w')) : mac.Step w mac' w' := by
  unfold RfidTagMac.handleRecvdUpperLayerPacket at h
  split at h
  · dsimp only at h
    split_ifs at h
    simp only [Except.ok.injEq, Prod.mk.injEq] at h
    obtain ⟨_, hm, hw⟩ := h
    subst hm
    subst hw
    have h1 : mac.Step w mac (w.call .blockUpperQueues) := tag_step_call _ hf hwf hfut hfl
    obtain ⟨hstep, hframe⟩ :=
      macStep_tag_addGenericHeader (fun _ => False) mac (w := w.call .blockUpperQueues) p
        ((w.call .blockUpperQueues).packets p).getDestination hwf hfut hfl
    refine tag_step_trans h1 ⟨hstep, ⟨?_, hf.slot_time⟩, rfl⟩
    intro x hx
    have hx' : some p = some x := hx
    cases hx'
    exact ⟨Nat.lt_of_lt_of_le hp hstep.heap.next, hframe (hsz p hp)⟩
  · simp only [Except.ok.injEq, Prod.mk.injEq] at h
    obtain ⟨_, hm, hw⟩ := h
    subst hm
    subst hw
    exact tag_step_refl hf hwf hfut hfl

/-- The events of the tag other than the slot event and the send events. -/
theorem tag_otherEvent {uniformInt : ℕ → ℕ → ℕ} {mac mac' : RfidTagMac} {w w' : MacWorld}
    {e : EventId} {input : NodeInput}
    (hf : mac.Frames w) (hsz : w.Sized) (hwf : w.sim.WF) (hfut : w.sim.Future)
    (hfl : w.sim.FlagsExact) (hv : input.Valid w)
    (h : (RfidTagMac.nodeEvents uniformInt).otherEvent mac w e input = .ok (mac', w')) :
    mac.Step w mac' w' := by
  unfold RfidTagMac.nodeEvents at h
  dsimp only at h
  unfold RfidTagMac.recvFromLinkLayer at h
  cases input with
  | nothing =>
    simp only [Except.ok.injEq, Prod.mk.injEq] at h
    obtain ⟨hm, hw⟩ := h
    subst hm
    subst hw
    exact tag_step_refl hf hwf hfut hfl
  | upperLayerPacket p =>
    dsimp only at h
    cases hr : mac.handleRecvdUpperLayerPacket w p with
    | error f =>
      rw [hr] at h
      cases h
    | ok r =>
      obtain ⟨b, mac1, w1⟩ := r
      rw [hr] at h
      simp only [Except.map, Except.ok.injEq, Prod.mk.injEq] at h
      obtain ⟨hm, hw⟩ := h
      subst hm
      subst hw
      exact tag_handleRecvdUpperLayerPacket hf hsz hwf hfut hfl hv hr
  | macPacket p =>
    dsimp only at h
    cases hr : mac.handleRecvdMacPacket uniformInt w p with
    | error f =>
      rw [hr] at h
      cases h
    | ok r =>
      obtain ⟨b, mac1, w1⟩ := r
      rw [hr] at h
      simp only [Except.map, Except.ok.injEq, Prod.mk.injEq] at h
      obtain ⟨hm, hw⟩ := h
      subst hm
      subst hw
      exact tag_handleRecvdMacPacket hf hwf hfut hfl hr

/-- The method `RfidTagMac::beginSlotEvent` is a slot step. -/
theorem tag_beginSlotEvent {mac mac' : RfidTagMac} {w w' : MacWorld}
    (hf : mac.Frames w) (hwf : w.sim.WF) (hfut : w.sim.Future) (hfl : w.sim.FlagsExact)
    (hql : ∀ x ∈ w.sim.m_eventPtrQueue, x < w.nextEventPtr)
    (hslot : mac.m_slotTimer.m_eventOnFire < w.nextEventPtr)
    (h : mac.beginSlotEvent w = .ok (mac', w')) :
    SlotStep mac.m_slotTimer.m_eventOnFire mac.own w w' ∧ mac'.Frames w' ∧
      mac'.m_slotTimer = mac.m_slotTimer := by
  have hfin : ∀ {mac1 : RfidTagMac} {w1 : MacWorld}, mac.Step w mac1 w1 →
      (match ({ mac1 with m_currentSlotNumber := (mac1.m_currentSlotNumber + 1) % 2 ^ 32 } :
          RfidTagMac).m_slotTimer.reschedule w1.sim
          ({ mac1 with m_currentSlotNumber := (mac1.m_currentSlotNumber + 1) % 2 ^ 32 } :
            RfidTagMac).getSlotTime with
        | .error f => .error f
        | .ok (_, sim) =>
          .ok (({ mac1 with m_currentSlotNumber := (mac1.m_currentSlotNumber + 1) % 2 ^ 32 } :
            RfidTagMac), { w1 with sim := sim })) = Except.ok (mac', w') →
      SlotStep mac.m_slotTimer.m_eventOnFire mac.own w w' ∧ mac'.Frames w' ∧
        mac'.m_slotTimer = mac.m_slotTimer := by
    intro mac1 w1 hst hres
    cases hr : mac1.m_slotTimer.reschedule w1.sim mac1.m_slotTime with
    | error f =>
      have hr' : ({ mac1 with
          m_currentSlotNumber := (mac1.m_currentSlotNumber + 1) % 2 ^ 32 } :
          RfidTagMac).m_slotTimer.reschedule w1.sim
          ({ mac1 with m_currentSlotNumber := (mac1.m_currentSlotNumber + 1) % 2 ^ 32 } :
            RfidTagMac).getSlotTime = .error f := hr
      rw [hr'] at hres
      cases hres
    | ok r =>
      obtain ⟨b, sim⟩ := r
      have hr' : ({ mac1 with
          m_currentSlotNumber := (mac1.m_currentSlotNumber + 1) % 2 ^ 32 } :
          RfidTagMac).m_slotTimer.reschedule w1.sim
          ({ mac1 with m_currentSlotNumber := (mac1.m_currentSlotNumber + 1) % 2 ^ 32 } :
            RfidTagMac).getSlotTime = .ok (b, sim) := hr
      rw [hr'] at hres
      simp only [Except.ok.injEq, Prod.mk.injEq] at hres
      obtain ⟨hm, hw⟩ := hres
      subst hm
      subst hw
      rw [hst.slotTimer] at hr
      refine ⟨slotStep_of_macStep hst.step hql hslot (fun _ hx => False.elim hx)
        hst.frames.slot_time hr, ?_, hst.slotTimer⟩
      exact ⟨hst.frames.pending, hst.frames.slot_time⟩
  unfold RfidTagMac.beginSlotEvent at h
  dsimp only at h
  by_cases htx : mac.m_currentSlotNumber = mac.m_txSlotNumber
  · rw [if_pos htx] at h
    cases hpend : mac.m_packetToTransmit with
    | none =>
      rw [hpend] at h
      exact hfin (tag_step_refl hf hwf hfut hfl) h
    | some p =>
      rw [hpend] at h
      dsimp only at h
      cases harm : mac.startSendTimer w .Lower p
          (if RfidTagMac.isPacketType w p .Reply = true then m_TAG_REPLY_IFS
            else m_TAG_GENERIC_IFS) with
      | error f =>
        rw [harm] at h
        cases h
      | ok r =>
        obtain ⟨b, base, w1⟩ := r
        rw [harm] at h
        dsimp only at h
        cases hr : base.m_slotTimer.reschedule w1.sim base.m_slotTime with
        | error f =>
          have hr' : ({ ({ mac with toSlottedMac := { base with m_packetToTransmit := none } } :
              RfidTagMac) with
              m_currentSlotNumber := (base.m_currentSlotNumber + 1) % 2 ^ 32 } :
              RfidTagMac).m_slotTimer.reschedule w1.sim
              ({ ({ mac with toSlottedMac := { base with m_packetToTransmit := none } } :
                RfidTagMac) with
                m_currentSlotNumber := (base.m_currentSlotNumber + 1) % 2 ^ 32 } :
                RfidTagMac).getSlotTime = .error f := hr
          rw [hr'] at h
          cases h
        | ok r2 =>
          obtain ⟨b2, sim⟩ := r2
          have hr' : ({ ({ mac with toSlottedMac := { base with m_packetToTransmit := none } } :
              RfidTagMac) with
              m_currentSlotNumber := (base.m_currentSlotNumber + 1) % 2 ^ 32 } :
              RfidTagMac).m_slotTimer.reschedule w1.sim
              ({ ({ mac with toSlottedMac := { base with m_packetToTransmit := none } } :
                RfidTagMac) with
                m_currentSlotNumber := (base.m_currentSlotNumber + 1) % 2 ^ 32 } :
                RfidTagMac).getSlotTime = .ok (b2, sim) := hr
          rw [hr'] at h
          simp only [Except.ok.injEq, Prod.mk.injEq] at h
          obtain ⟨hm, hw⟩ := h
          subst hm
          subst hw
          obtain ⟨hp, hframe⟩ := hf.pending p hpend
          have hbase := (startSendTimer_inv harm).choose_spec.2.1
          have hbt : base.m_slotTimer = mac.m_slotTimer := by rw [hbase]
          have hbs : base.m_slotTime = m_DEFAULT_SLOT_TIME := by
            rw [hbase]
            exact hf.slot_time
          rw [hbt] at hr
          have hifs : (if RfidTagMac.isPacketType w p .Reply = true then m_TAG_REPLY_IFS
              else m_TAG_GENERIC_IFS) ≤ 20 / 10 ^ 6 := by
            split_ifs
            · unfold m_TAG_REPLY_IFS
              norm_num
            · unfold m_TAG_GENERIC_IFS
              norm_num
          obtain ⟨hss, _⟩ :=
            @slotStep_of_arm mac.own mac.m_slotTimer mac.toSlottedMac base w w1 p _
              base.m_slotTime b b2 sim hwf hfut hfl hql hslot harm hifs hp hframe hbs hr
          refine ⟨hss, ⟨?_, hbs⟩, hbt⟩
          intro x hx
          cases hx
  · rw [if_neg htx] at h
    split_ifs at h with hend hpend
    · exact hfin (tag_step_trans
        (tag_step_mac hf hwf hfut hfl (Or.inl rfl) rfl rfl :
          mac.Step w { mac with toSlottedMac := mac.stopContentionCycle } w)
        (tag_step_call .unblockUpperQueues
          (tag_step_mac hf hwf hfut hfl (Or.inl rfl) rfl rfl :
            mac.Step w { mac with toSlottedMac := mac.stopContentionCycle } w).frames
          hwf hfut hfl)) h
    · exact hfin (tag_step_refl hf hwf hfut hfl) h

/-- The handlers of the tag MAC are what the sending path needs. -/
theorem tag_macSpec (uniformInt : ℕ → ℕ → ℕ) :
    MacSpec (RfidTagMac.nodeEvents uniformInt) RfidTagMac.own RfidTagMac.Frames := by
  refine ⟨?_, ?_, ?_, ?_⟩
  · intro mac w w' hf hh
    exact ⟨fun p hq => ⟨Nat.lt_of_lt_of_le (hf.pending p hq).1 hh.next,
      hh.frame p (hf.pending p hq).1 (hf.pending p hq).2⟩, hf.slot_time⟩
  · intro mac w e input mac' w' hf hsz hwf hfut hfl hv h
    have hs := tag_otherEvent hf hsz hwf hfut hfl hv h
    exact ⟨hs.step, hs.frames, hs.slotTimer, rfl⟩
  · intro mac w d p b mac' w' hf _ hwf hfut hfl h
    have hs := @tag_sendToLinkLayer mac mac' w w' d p b hf hwf hfut hfl h
    exact ⟨hs.step, hs.frames, hs.slotTimer, rfl⟩
  · intro mac w mac' w' hf _ hwf hfut hfl hql _ hslot _ _ h
    obtain ⟨h1, h2, h3⟩ := @tag_beginSlotEvent mac mac' w w' hf hwf hfut hfl hql hslot h
    exact ⟨h1, h2, h3, rfl⟩

end TagSteps

/-! ## The sending path: what the steps of a node keep -/

section NodeSteps

theorem inFlight_signal {tx : SendPath} {w : MacWorld} {e : EventId} {p : PacketPtr}
    (h : tx.signalEvents e = some p) : tx.inFlight w e = some p := by
  unfold SendPath.inFlight
  rw [h]

theorem inFlight_layer {tx : SendPath} {w : MacWorld} {e : EventId} {p : PacketPtr}
    (hs : tx.signalEvents e = none) (h : tx.layerEvents e = some p) :
    tx.inFlight w e = some p := by
  unfold SendPath.inFlight
  rw [hs, h]

theorem inFlight_send {tx : SendPath} {w : MacWorld} {e : EventId} {d : Directions}
    {p : PacketPtr} (hs : tx.signalEvents e = none) (hl : tx.layerEvents e = none)
    (h : w.sendEvents e = some (d, p)) : tx.inFlight w e = some p := by
  unfold SendPath.inFlight
  rw [hs, hl, h]
  rfl

theorem inFlight_none {tx : SendPath} {w : MacWorld} {e : EventId}
    (h : tx.inFlight w e = none) :
    tx.signalEvents e = none ∧ tx.layerEvents e = none ∧ w.sendEvents e = none := by
  unfold SendPath.inFlight at h
  cases hs : tx.signalEvents e with
  | some p =>
    rw [hs] at h
    cases h
  | none =>
    rw [hs] at h
    cases hl : tx.layerEvents e with
    | some p =>
      rw [hl] at h
      cases h
    | none =>
      rw [hl] at h
      cases hse : w.sendEvents e with
      | some dp =>
        rw [hse] at h
        cases h
      | none => exact ⟨rfl, rfl, rfl⟩

theorem inFlight_congr {tx : SendPath} {w w' : MacWorld} (h : w'.sendEvents = w.sendEvents)
    (e : EventId) : tx.inFlight w' e = tx.inFlight w e := by
  unfold SendPath.inFlight
  rw [h]

theorem frame_duration_pos : (0 : ℚ) < 31 * 8 / 128000 := by norm_num

/-- The event at the head of the queue has been taken from it and the clock is
at its fire time. -/
theorem node_pop {slot : Timer} {own : EventId → Prop} {tx : SendPath} {w : MacWorld}
    {e : EventId} {rest : List EventId} (h : NodeInv slot own tx w)
    (hq : w.sim.m_eventPtrQueue = e :: rest) (s' : Simulator)
    (hs' : s' = { (w.sim.getNextEvent e rest).2 with m_clock := w.sim.fire e }) :
    NodeBase slot own tx { w with sim := s' } ∧
      s'.m_clock = w.sim.fire e ∧ (∀ i, s'.fire i = w.sim.fire i) ∧
      s'.m_eventPtrQueue = rest ∧
      (e ≠ slot.m_eventOnFire → NodeInv slot own tx { w with sim := s' }) ∧
      (∀ p, tx.inFlight w e = some p →
        tx.Quiet { w with sim := s' } ∧ p < w.nextPacketPtr ∧ (w.packets p).IsFrame ∧
          s'.m_clock + 31 * 8 / 128000 < s'.fire slot.m_eventOnFire) ∧
      (e = slot.m_eventOnFire →
        tx.Quiet { w with sim := s' } ∧ slot.m_eventOnFire ∉ s'.m_eventPtrQueue) ∧
      (∀ p, tx.signalEvents e = some p → (w.packets p).m_dataRate = 128000) := by
  obtain ⟨hwf, hfut, hfl, _, hclock, hflag, hfire, hother, hrest, hnotin, hle, hsub⟩ :=
    pop_facts hq h.wf h.future h.flags s' hs'
  have hemem : e ∈ w.sim.m_eventPtrQueue := by
    rw [hq]
    exact List.mem_cons_self _ _
  have hmem : ∀ y, y ∈ s'.m_eventPtrQueue → y ∈ w.sim.m_eventPtrQueue := by
    intro y hy
    rw [hrest] at hy
    exact hsub y hy
  have hrun : ∀ t : Timer, t.m_eventOnFire ≠ e → t.isRunning s' = t.isRunning w.sim := by
    intro t ht
    unfold Timer.isRunning
    rw [hother _ ht]
  have hrune : ∀ t : Timer, t.m_eventOnFire = e → t.isRunning s' = false := by
    intro t ht
    unfold Timer.isRunning
    rw [ht]
    exact hflag
  have hbase : NodeBase slot own tx { w with sim := s' } :=
    ⟨hwf, hfut, hfl, fun x hx => h.queued_lt x (hmem x hx), h.slot_lt, h.own_lt, h.timer_lt,
      h.flight_lt, h.slot_not_own, h.timer_not_own, h.flight_not_own, h.slot_ne_timer,
      h.slot_not_flight, h.timer_not_flight, h.layer_delay, h.signal_delay, h.data_rate,
      h.sized⟩
  refine ⟨hbase, hclock, hfire, hrest, ?_, ?_, ?_, ?_⟩
  · intro hne
    refine ⟨hbase, ?_, ?_, ?_, ?_, ?_, ?_, ?_⟩
    · show slot.m_eventOnFire ∈ s'.m_eventPtrQueue
      rw [hrest]
      have := h.slot_running
      rw [hq] at this
      rcases List.mem_cons.1 this with heq | hin
      · exact absurd heq.symm hne
      · exact hin
    · intro x hx p hp
      exact h.flight_frame x (hmem x hx) p hp
    · intro x hx hp
      show s'.fire x + _ < s'.fire _
      rw [hfire, hfire]
      exact h.flight_time x (hmem x hx) hp
    · intro x hx hp
      show tx.m_transmittingTimer.isRunning s' = false
      by_cases ht : tx.m_transmittingTimer.m_eventOnFire = e
      · exact hrune _ ht
      · rw [hrun _ ht]
        exact h.flight_idle x (hmem x hx) hp
    · intro x hx y hy hpx hpy
      exact h.flight_alone x (hmem x hx) y (hmem y hy) hpx hpy
    · intro x hx p hp
      exact h.signal_rate x (hmem x hx) p hp
    · intro hr
      show s'.fire _ < s'.fire _
      rw [hfire, hfire]
      have ht : tx.m_transmittingTimer.m_eventOnFire ≠ e := by
        intro heq
        rw [hrune _ heq] at hr
        cases hr
      rw [hrun _ ht] at hr
      exact h.timer_time hr
  · intro p hp
    have hpn : tx.inFlight w e ≠ none := by
      rw [hp]
      exact Option.noConfusion
    have hte : tx.m_transmittingTimer.m_eventOnFire ≠ e := by
      intro heq
      rw [← heq, h.timer_not_flight] at hp
      cases hp
    refine ⟨⟨?_, ?_⟩, (h.flight_frame e hemem p hp).1, (h.flight_frame e hemem p hp).2, ?_⟩
    · intro x hx
      by_contra hxn
      have hxe : x = e := h.flight_alone x (hmem x hx) e hemem hxn hpn
      rw [hrest, hxe] at hx
      exact hnotin hx
    · show tx.m_transmittingTimer.isRunning s' = false
      rw [hrun _ hte]
      exact h.flight_idle e hemem hpn
    · rw [hclock, hfire]
      exact h.flight_time e hemem hpn
  · intro hes
    refine ⟨⟨?_, ?_⟩, ?_⟩
    · intro x hx
      by_contra hxn
      have h1 := h.flight_time x (hmem x hx) hxn
      rw [hrest] at hx
      have h2 := hle x hx
      rw [← hes] at h1
      have := frame_duration_pos
      linarith
    · show tx.m_transmittingTimer.isRunning s' = false
      cases hr : tx.m_transmittingTimer.isRunning s' with
      | false => rfl
      | true =>
        have hin : tx.m_transmittingTimer.m_eventOnFire ∈ s'.m_eventPtrQueue := hfl _ hr
        rw [hrest] at hin
        have h2 := hle _ hin
        have hte : tx.m_transmittingTimer.m_eventOnFire ≠ e := by
          rw [hes]
          exact Ne.symm h.slot_ne_timer
        rw [hrun _ hte] at hr
        have h1 := h.timer_time hr
        rw [← hes] at h1
        linarith
    · rw [hrest, ← hes]
      exact hnotin
  · intro p hp
    exact h.signal_rate e hemem p hp

/-- A step that leaves the slot event, the transmitting timer, the events of the
sending path and their packets alone. -/
theorem node_foreign {slot : Timer} {own : EventId → Prop} {tx : SendPath} {w w' : MacWorld}
    (h : NodeInv slot own tx w) (chg : EventId → Prop) (hk : KernelStep chg w.sim w'.sim)
    (hslot : ¬ chg slot.m_eventOnFire) (htimer : ¬ chg tx.m_transmittingTimer.m_eventOnFire)
    (hflight : ∀ x, tx.inFlight w x ≠ none → ¬ chg x)
    (hql : ∀ x ∈ w'.sim.m_eventPtrQueue, x < w'.nextEventPtr)
    (hnext : w.nextEventPtr ≤ w'.nextEventPtr) (hsend : w'.sendEvents = w.sendEvents)
    (hdelay : w'.phy.m_signalSendingDelay = w.phy.m_signalSendingDelay)
    (hrate : w'.phy.m_dataRate = w.phy.m_dataRate) (hheap : HeapStep w w')
    (hr : ∀ p, p < w.nextPacketPtr → (w'.packets p).m_dataRate = (w.packets p).m_dataRate) :
    NodeInv slot own tx w' ∧ (tx.Quiet w → tx.Quiet w') := by
  have hfl : ∀ x, tx.inFlight w' x = tx.inFlight w x := inFlight_congr hsend
  have hback : ∀ x ∈ w'.sim.m_eventPtrQueue, tx.inFlight w x ≠ none →
      x ∈ w.sim.m_eventPtrQueue ∧ w'.sim.fire x = w.sim.fire x := by
    intro x hx hp
    exact ⟨(hk.queue x (hflight x hp)).1 hx, kernelStep_fire hk (hflight x hp)⟩
  have hrunT : tx.m_transmittingTimer.isRunning w'.sim = tx.m_transmittingTimer.isRunning w.sim :=
    kernelStep_running hk _ htimer
  refine ⟨⟨⟨hk.wf, hk.future, hk.flags, hql, Nat.lt_of_lt_of_le h.slot_lt hnext,
    fun x hx => Nat.lt_of_lt_of_le (h.own_lt x hx) hnext,
    Nat.lt_of_lt_of_le h.timer_lt hnext, ?_, h.slot_not_own, h.timer_not_own, ?_,
    h.slot_ne_timer, ?_, ?_, h.layer_delay, hdelay.trans h.signal_delay,
    hrate.trans h.data_rate, hheap.sized h.sized⟩, ?_, ?_, ?_, ?_, ?_, ?_, ?_⟩, ?_⟩
  · intro x hx
    rw [hfl] at hx
    exact Nat.lt_of_lt_of_le (h.flight_lt x hx) hnext
  · intro x hx
    rw [hfl] at hx
    exact h.flight_not_own x hx
  · rw [hfl]
    exact h.slot_not_flight
  · rw [hfl]
    exact h.timer_not_flight
  · exact (hk.queue _ hslot).2 h.slot_running
  · intro x hx p hp
    rw [hfl] at hp
    have hpn : tx.inFlight w x ≠ none := by
      rw [hp]
      exact Option.noConfusion
    obtain ⟨hlt, hframe⟩ := h.flight_frame x (hback x hx hpn).1 p hp
    exact ⟨Nat.lt_of_lt_of_le hlt hheap.next, hheap.frame p hlt hframe⟩
  · intro x hx hp
    rw [hfl] at hp
    rw [(hback x hx hp).2, kernelStep_fire hk hslot]
    exact h.flight_time x (hback x hx hp).1 hp
  · intro x hx hp
    rw [hfl] at hp
    rw [hrunT]
    exact h.flight_idle x (hback x hx hp).1 hp
  · intro x hx y hy hpx hpy
    rw [hfl] at hpx hpy
    exact h.flight_alone x (hback x hx hpx).1 y (hback y hy hpy).1 hpx hpy
  · intro x hx p hp
    have hpf : tx.inFlight w x = some p := inFlight_signal hp
    have hpn : tx.inFlight w x ≠ none := by
      rw [hpf]
      exact Option.noConfusion
    have hxq := (hback x hx hpn).1
    rw [hr p (h.flight_frame x hxq p hpf).1]
    exact h.signal_rate x hxq p hp
  · intro hrun
    rw [hrunT] at hrun
    rw [kernelStep_fire hk htimer, kernelStep_fire hk hslot]
    exact h.timer_time hrun
  · rintro ⟨hq1, hq2⟩
    refine ⟨?_, hrunT.trans hq2⟩
    intro x hx
    rw [hfl]
    by_contra hxn
    exact hxn (hq1 x (hback x hx hxn).1)

/-- The transmitting timer is rescheduled when no event of the sending path is
queued: `SignalRecvEvent::execute` on a frame. -/
theorem node_transmit {slot : Timer} {own : EventId → Prop} {tx : SendPath} {w : MacWorld}
    {d : SimTime} {b : Bool} {sim : Simulator}
    (h : NodeInv slot own tx w) (hquiet : tx.Quiet w) (hd : d ≤ 31 * 8 / 128000)
    (htime : w.sim.m_clock + 31 * 8 / 128000 < w.sim.fire slot.m_eventOnFire)
    (hs : tx.m_transmittingTimer.reschedule w.sim d = .ok (b, sim)) :
    NodeInv slot own tx { w with sim := sim } := by
  obtain ⟨hk, hq, hfire, _⟩ :=
    @kernelStep_reschedule (fun x => x = tx.m_transmittingTimer.m_eventOnFire) w.sim sim
      tx.m_transmittingTimer d b hs rfl h.wf h.future h.flags
  have hnone : ∀ x ∈ sim.m_eventPtrQueue, tx.inFlight w x = none := by
    intro x hx
    by_cases hx' : x = tx.m_transmittingTimer.m_eventOnFire
    · rw [hx']
      exact h.timer_not_flight
    · exact hquiet.1 x ((hk.queue x hx').1 hx)
  refine ⟨⟨hk.wf, hk.future, hk.flags, ?_, h.slot_lt, h.own_lt, h.timer_lt, h.flight_lt,
    h.slot_not_own, h.timer_not_own, h.flight_not_own, h.slot_ne_timer, h.slot_not_flight,
    h.timer_not_flight, h.layer_delay, h.signal_delay, h.data_rate, h.sized⟩,
    ?_, ?_, ?_, ?_, ?_, ?_, ?_⟩
  · intro x hx
    by_cases hx' : x = tx.m_transmittingTimer.m_eventOnFire
    · rw [hx']
      exact h.timer_lt
    · exact h.queued_lt x ((hk.queue x hx').1 hx)
  · exact (hk.queue _ h.slot_ne_timer).2 h.slot_running
  · intro x hx p hp
    have hp' : tx.inFlight w x = some p := hp
    rw [hnone x hx] at hp'
    cases hp'
  · intro x hx hp
    exact absurd (hnone x hx) hp
  · intro x hx hp
    exact absurd (hnone x hx) hp
  · intro x hx y _ hp
    exact absurd (hnone x hx) hp
  · intro x hx p hp
    have hp' : tx.inFlight w x = some p := inFlight_signal hp
    rw [hnone x hx] at hp'
    cases hp'
  · intro _
    show sim.fire _ < sim.fire _
    rw [hfire, kernelStep_fire hk h.slot_ne_timer]
    linarith

/-- A new event of the sending path is scheduled without delay for a frame, when
no other is queued and the transmitting timer is not running: the
`LayerRecvEvent` of the link layer and the `SignalRecvEvent` of the physical
layer. -/
theorem node_launch {slot : Timer} {own : EventId → Prop} {tx tx' : SendPath}
    {w w' : MacWorld} {p : PacketPtr} {b : Bool}
    (h : NodeInv slot own tx w) (hquiet : tx.Quiet w)
    (hsch : Simulator.scheduleEvent
      { w.sim with events := setEvent w.sim.events w.nextEventPtr Event.create }
      w.nextEventPtr 0 = .ok (b, w'.sim))
    (hnext : w'.nextEventPtr = w.nextEventPtr + 1)
    (hdelay : w'.phy.m_signalSendingDelay = w.phy.m_signalSendingDelay)
    (hrate : w'.phy.m_dataRate = w.phy.m_dataRate) (hheap : HeapStep w w')
    (htimer : tx'.m_transmittingTimer = tx.m_transmittingTimer)
    (hdel : tx'.m_lowerLayerDelay = tx.m_lowerLayerDelay)
    (hnew : tx'.inFlight w' w.nextEventPtr = some p)
    (hold : ∀ x, x ≠ w.nextEventPtr → tx'.inFlight w' x = tx.inFlight w x)
    (hsig : ∀ q, tx'.signalEvents w.nextEventPtr = some q →
      (w'.packets q).m_dataRate = 128000)
    (hsigold : ∀ x q, x ≠ w.nextEventPtr → tx'.signalEvents x = some q →
      tx.signalEvents x = some q)
    (hp : p < w'.nextPacketPtr) (hframe : (w'.packets p).IsFrame)
    (htime : w.sim.m_clock + 31 * 8 / 128000 < w.sim.fire slot.m_eventOnFire) :
    NodeInv slot own tx' w' := by
  have hnot : w.nextEventPtr ∉ w.sim.m_eventPtrQueue :=
    fun hmem => Nat.lt_irrefl _ (h.queued_lt _ hmem)
  obtain ⟨hk, hq1, hfire1, _⟩ :=
    @kernelStep_create_schedule (fun x => x = w.nextEventPtr) w.sim w'.sim
      w.nextEventPtr 0 b hsch rfl hnot h.wf h.future h.flags
  have hslotne : slot.m_eventOnFire ≠ w.nextEventPtr := Nat.ne_of_lt h.slot_lt
  have htimerne : tx.m_transmittingTimer.m_eventOnFire ≠ w.nextEventPtr :=
    Nat.ne_of_lt h.timer_lt
  have hlt : ∀ {x : EventId}, x < w.nextEventPtr → x < w'.nextEventPtr := by
    intro x hx
    rw [hnext]
    exact Nat.lt_succ_of_lt hx
  have honly : ∀ x ∈ w'.sim.m_eventPtrQueue, tx'.inFlight w' x ≠ none →
      x = w.nextEventPtr := by
    intro x hx hpx
    by_contra hne
    rw [hold x hne] at hpx
    exact hpx (hquiet.1 x ((hk.queue x hne).1 hx))
  have hidle : tx.m_transmittingTimer.isRunning w'.sim = false := by
    rw [kernelStep_running hk _ htimerne]
    exact hquiet.2
  rw [← htimer] at hidle
  refine ⟨⟨hk.wf, hk.future, hk.flags, ?_, hlt h.slot_lt, fun x hx => hlt (h.own_lt x hx),
    ?_, ?_, h.slot_not_own, ?_, ?_, ?_, ?_, ?_, hdel.trans h.layer_delay,
    hdelay.trans h.signal_delay, hrate.trans h.data_rate, hheap.sized h.sized⟩,
    ?_, ?_, ?_, ?_, ?_, ?_, ?_⟩
  · intro x hx
    by_cases hx' : x = w.nextEventPtr
    · rw [hx', hnext]
      exact Nat.lt_succ_self _
    · exact hlt (h.queued_lt x ((hk.queue x hx').1 hx))
  · rw [htimer]
    exact hlt h.timer_lt
  · intro x hx
    by_cases hx' : x = w.nextEventPtr
    · rw [hx', hnext]
      exact Nat.lt_succ_self _
    · rw [hold x hx'] at hx
      exact hlt (h.flight_lt x hx)
  · rw [htimer]
    exact h.timer_not_own
  · intro x hx
    by_cases hx' : x = w.nextEventPtr
    · rw [hx']
      intro ho
      exact Nat.lt_irrefl _ (h.own_lt _ ho)
    · rw [hold x hx'] at hx
      exact h.flight_not_own x hx
  · rw [htimer]
    exact h.slot_ne_timer
  · rw [hold _ hslotne]
    exact h.slot_not_flight
  · rw [htimer, hold _ htimerne]
    exact h.timer_not_flight
  · exact (hk.queue _ hslotne).2 h.slot_running
  · intro x hx q hq
    have hxe : x = w.nextEventPtr := honly x hx (by rw [hq]; exact Option.noConfusion)
    rw [hxe, hnew] at hq
    cases hq
    exact ⟨hp, hframe⟩
  · intro x hx hpx
    have hxe : x = w.nextEventPtr := honly x hx hpx
    rw [hxe, hfire1, kernelStep_fire hk hslotne]
    linarith
  · intro x _ _
    exact hidle
  · intro x hx y hy hpx hpy
    rw [honly x hx hpx, honly y hy hpy]
  · intro x hx q hq
    by_cases hx' : x = w.nextEventPtr
    · rw [hx'] at hq
      exact hsig q hq
    · have hq' := hsigold x q hx' hq
      have hf : tx.inFlight w x = some q := inFlight_signal hq'
      rw [hquiet.1 x ((hk.queue x hx').1 hx)] at hf
      cases hf
  · intro hr
    rw [hidle] at hr
    cases hr

theorem slot_time_fits {ifs : SimTime} (h : ifs ≤ 20 / 10 ^ 6) :
    ifs + 31 * 8 / 128000 < m_DEFAULT_SLOT_TIME := by
  unfold m_DEFAULT_SLOT_TIME
  have : (20 / 10 ^ 6 + 31 * 8 / 128000 : ℚ) < 2 / 1000 := by norm_num
  linarith

/-- The slot event: `beginSlotEvent` when no event of the sending path is queued
and the transmitting timer is not running. -/
theorem node_slot {slot : Timer} {own : EventId → Prop} {tx : SendPath} {w w' : MacWorld}
    (hb : NodeBase slot own tx w) (hquiet : tx.Quiet w)
    (hss : SlotStep slot.m_eventOnFire own w w') : NodeInv slot own tx w' := by
  have hk := hss.kernel
  have hnext : w.nextEventPtr ≤ w'.nextEventPtr := by
    rcases hss.armed with ⟨hn, _⟩ | ⟨_, _, hn, _⟩
    · exact Nat.le_of_eq hn.symm
    · rw [hn]
      exact Nat.le_succ _
  have hfresh : tx.inFlight w w.nextEventPtr = none := by
    by_contra hne
    exact Nat.lt_irrefl _ (hb.flight_lt _ hne)
  have hkeep : ∀ x, tx.inFlight w x ≠ none →
      ¬ (own x ∨ x = slot.m_eventOnFire ∨ w.nextEventPtr ≤ x) := by
    intro x hx hc
    rcases hc with hc | hc | hc
    · exact hb.flight_not_own x hx hc
    · rw [hc] at hx
      exact hx hb.slot_not_flight
    · exact Nat.lt_irrefl _ (Nat.lt_of_lt_of_le (hb.flight_lt x hx) hc)
  have htimer : ¬ (own tx.m_transmittingTimer.m_eventOnFire
      ∨ tx.m_transmittingTimer.m_eventOnFire = slot.m_eventOnFire
      ∨ w.nextEventPtr ≤ tx.m_transmittingTimer.m_eventOnFire) := by
    intro hc
    rcases hc with hc | hc | hc
    · exact hb.timer_not_own hc
    · exact hb.slot_ne_timer hc.symm
    · exact Nat.lt_irrefl _ (Nat.lt_of_lt_of_le hb.timer_lt hc)
  have hidle : tx.m_transmittingTimer.isRunning w'.sim = false := by
    rw [kernelStep_running hk _ htimer]
    exact hquiet.2
  have hold : ∀ x ∈ w'.sim.m_eventPtrQueue, tx.inFlight w x = none := by
    intro x hx
    by_contra hne
    exact hne (hquiet.1 x ((hk.queue x (hkeep x hne)).1 hx))
  have hfl : ∀ x, x ≠ w.nextEventPtr → tx.inFlight w' x = tx.inFlight w x := by
    intro x hx
    unfold SendPath.inFlight
    rcases hss.armed with ⟨_, hse⟩ | ⟨_, _, _, hse, _⟩
    · rw [hse]
    · rw [hse, setAt_other _ _ hx]
  have honly : ∀ x ∈ w'.sim.m_eventPtrQueue, tx.inFlight w' x ≠ none →
      x = w.nextEventPtr := by
    intro x hx hpx
    by_contra hne
    rw [hfl x hne] at hpx
    exact hpx (hold x hx)
  have hbase : NodeBase slot own tx w' := by
    refine ⟨hk.wf, hk.future, hk.flags, hss.queued_lt, Nat.lt_of_lt_of_le hb.slot_lt hnext,
      fun x hx => Nat.lt_of_lt_of_le (hb.own_lt x hx) hnext,
      Nat.lt_of_lt_of_le hb.timer_lt hnext, ?_, hb.slot_not_own, hb.timer_not_own, ?_,
      hb.slot_ne_timer, ?_, ?_, hb.layer_delay, ?_, ?_, hss.heap.sized hb.sized⟩
    · intro x hx
      by_cases hx' : x = w.nextEventPtr
      · rcases hss.armed with ⟨_, hse⟩ | ⟨_, _, hn, _⟩
        · exfalso
          apply hx
          rw [inFlight_congr hse, hx']
          exact hfresh
        · rw [hx', hn]
          exact Nat.lt_succ_self _
      · rw [hfl x hx'] at hx
        exact Nat.lt_of_lt_of_le (hb.flight_lt x hx) hnext
    · intro x hx
      by_cases hx' : x = w.nextEventPtr
      · rw [hx']
        intro ho
        exact Nat.lt_irrefl _ (hb.own_lt _ ho)
      · rw [hfl x hx'] at hx
        exact hb.flight_not_own x hx
    · rw [hfl _ (Nat.ne_of_lt hb.slot_lt)]
      exact hb.slot_not_flight
    · rw [hfl _ (Nat.ne_of_lt hb.timer_lt)]
      exact hb.timer_not_flight
    · rw [hss.phy]
      exact hb.signal_delay
    · rw [hss.phy]
      exact hb.data_rate
  refine ⟨hbase, hss.slot_queued, ?_, ?_, ?_, ?_, ?_, ?_⟩
  · intro x hx q hq
    have hxe : x = w.nextEventPtr := honly x hx (by rw [hq]; exact Option.noConfusion)
    rcases hss.armed with ⟨_, hse⟩ | ⟨p, ifs, _, hse, _, _, _, hp, hframe⟩
    · rw [hxe, inFlight_congr hse, hfresh] at hq
      cases hq
    · obtain ⟨hs1, hs2, _⟩ := inFlight_none hfresh
      have hq' : tx.inFlight w' w.nextEventPtr = some p :=
        inFlight_send hs1 hs2 (by rw [hse, setAt_same])
      rw [hxe, hq'] at hq
      cases hq
      exact ⟨Nat.lt_of_lt_of_le hp hss.heap.next, hframe⟩
  · intro x hx hpx
    have hxe : x = w.nextEventPtr := honly x hx hpx
    rcases hss.armed with ⟨_, hse⟩ | ⟨p, ifs, _, _, hfire, _, hifs, _, _⟩
    · rw [hxe, inFlight_congr hse, hfresh] at hpx
      exact absurd rfl hpx
    · rw [hxe, hfire, hss.slot_fire]
      have := slot_time_fits hifs
      linarith
  · intro x _ _
    exact hidle
  · intro x hx y hy hpx hpy
    rw [honly x hx hpx, honly y hy hpy]
  · intro x hx q hq
    have hf : tx.inFlight w x = some q := inFlight_signal hq
    rw [hold x hx] at hf
    cases hf
  · intro hr
    rw [hidle] at hr
    cases hr

end NodeSteps

/-! ## The sending path: the invariant along a run -/

section NodeRun

/-- What `PhysicalLayer::recvFromLayer` does to the packet and to the kernel
when it returns. -/
theorem recvFromLayer_sent {L : PhysicalLayer} {log10 : ℚ → ℚ} {s sim : Simulator}
    {recvEvent : EventId} {d : Directions} {packet packet1 : Packet} {b : Bool}
    {signal : WirelessCommSignal}
    (h : L.recvFromLayer log10 s recvEvent d packet = .ok (b, packet1, signal, sim)) :
    packet1.m_data = packet.m_data ∧ packet1.m_dataRate = L.m_dataRate ∧
      Simulator.scheduleEvent { s with events := setEvent s.events recvEvent Event.create }
        recvEvent L.m_signalSendingDelay = .ok (b, sim) := by
  unfold PhysicalLayer.recvFromLayer at h
  split_ifs at h
  cases hset : packet.setDataRate L.getDataRate with
  | error f =>
    rw [hset] at h
    cases h
  | ok p1 =>
    rw [hset] at h
    dsimp only at h
    cases hdb : powerToDecibels log10 (L.signalTxPower p1) with
    | error f =>
      rw [hdb] at h
      cases h
    | ok db =>
      rw [hdb] at h
      dsimp only at h
      cases hsig : WirelessCommSignal.create L.location db L.getWavelength L.getGain p1 with
      | error f =>
        rw [hsig] at h
        cases h
      | ok sg =>
        rw [hsig] at h
        dsimp only at h
        cases hsch : Simulator.scheduleEvent
            { s with events := setEvent s.events recvEvent Event.create } recvEvent
            L.getSignalSendingDelay with
        | error f =>
          rw [hsch] at h
          cases h
        | ok r =>
          obtain ⟨b1, s2⟩ := r
          rw [hsch] at h
          simp only [Except.ok.injEq, Prod.mk.injEq] at h
          obtain ⟨hb, hp, _, hs⟩ := h
          subst hb
          subst hp
          subst hs
          unfold Packet.setDataRate at hset
          split_ifs at hset
          simp only [Except.ok.injEq] at hset
          subst hset
          exact ⟨rfl, rfl, hsch⟩

/-- The invariant of the sending path after an event of the node. -/
theorem node_execute {μ : Type} {m : SlottedMacEvents μ} {own : μ → EventId → Prop}
    {RP : μ → MacWorld → Prop} (hspec : MacSpec m own RP) {log10 : ℚ → ℚ} {mac mac' : μ}
    {tx tx' : SendPath} {w w' : MacWorld} {e : EventId} {rest : List EventId}
    {input : NodeInput}
    (h : NodeInv (m.slotTimer mac) (own mac) tx w) (hrp : RP mac w) (hv : input.Valid w)
    (hq : w.sim.m_eventPtrQueue = e :: rest) (s' : Simulator)
    (hs' : s' = { (w.sim.getNextEvent e rest).2 with m_clock := w.sim.fire e })
    (hx : SendPath.execute m log10 mac tx { w with sim := s' } e input
      = .ok (mac', tx', w')) :
    NodeInv (m.slotTimer mac') (own mac') tx' w' ∧ RP mac' w' := by
  obtain ⟨hbase, hclock, hfire, hrest, hother, hflight, hslotpop, hsigrate⟩ :=
    node_pop h hq s' hs'
  have hrp0 : RP mac { w with sim := s' } := hspec.stable mac w _ hrp (heapStep_of_eq rfl rfl)
  have hv0 : input.Valid { w with sim := s' } := by
    cases input <;> exact hv
  unfold SendPath.execute at hx
  by_cases ht : e = tx.m_transmittingTimer.m_eventOnFire
  · rw [if_pos ht] at hx
    simp only [Except.ok.injEq, Prod.mk.injEq] at hx
    obtain ⟨hm, htx, hw⟩ := hx
    subst hm
    subst htx
    subst hw
    exact ⟨hother (fun he => h.slot_ne_timer (he.symm.trans ht)), hrp0⟩
  · rw [if_neg ht] at hx
    cases hsig : tx.signalEvents e with
    | some p =>
      rw [hsig] at hx
      dsimp only at hx
      have hfl : tx.inFlight w e = some p := inFlight_signal hsig
      obtain ⟨hquiet, hp, hframe, htime⟩ := hflight p hfl
      have hne : e ≠ (m.slotTimer mac).m_eventOnFire := by
        intro he
        rw [he, h.slot_not_flight] at hfl
        cases hfl
      have h0 := hother hne
      unfold SendPath.signalRecvEvent at hx
      have hidle : tx.m_transmittingTimer.isRunning s' = false := hquiet.2
      rw [if_neg (by rw [hidle]; exact Bool.false_ne_true)] at hx
      cases hr : tx.m_transmittingTimer.reschedule s' (w.packets p).getDuration with
      | error f =>
        have hr' : tx.m_transmittingTimer.reschedule ({ w with sim := s' } : MacWorld).sim
            (({ w with sim := s' } : MacWorld).packets p).getDuration = .error f := hr
        rw [hr'] at hx
        cases hx
      | ok r =>
        obtain ⟨b, sim⟩ := r
        have hr' : tx.m_transmittingTimer.reschedule ({ w with sim := s' } : MacWorld).sim
            (({ w with sim := s' } : MacWorld).packets p).getDuration = .ok (b, sim) := hr
        rw [hr'] at hx
        simp only [Except.ok.injEq, Prod.mk.injEq] at hx
        obtain ⟨hm, htx, hw⟩ := hx
        subst hm
        subst htx
        subst hw
        have hdur := (isFrame_duration hframe (hsigrate p hsig)).2
        have hinv := node_transmit h0 hquiet hdur htime hr
        exact ⟨hinv, hspec.stable mac w _ hrp (heapStep_of_eq rfl rfl)⟩
    | none =>
      rw [hsig] at hx
      dsimp only at hx
      cases hlay : tx.layerEvents e with
      | some p =>
        rw [hlay] at hx
        dsimp only at hx
        have hfl : tx.inFlight w e = some p := inFlight_layer hsig hlay
        obtain ⟨hquiet, hp, hframe, htime⟩ := hflight p hfl
        have hne : e ≠ (m.slotTimer mac).m_eventOnFire := by
          intro he
          rw [he, h.slot_not_flight] at hfl
          cases hfl
        have h0 := hother hne
        unfold SendPath.layerRecvEvent at hx
        dsimp only at hx
        cases hrecv : w.phy.recvFromLayer log10 s' w.nextEventPtr .Upper (w.packets p) with
        | error f =>
          rw [hrecv] at hx
          cases hx
        | ok r =>
          obtain ⟨b, packet1, signal, sim⟩ := r
          rw [hrecv] at hx
          simp only [Except.ok.injEq, Prod.mk.injEq] at hx
          obtain ⟨hm, htx, hw⟩ := hx
          subst hm
          subst htx
          subst hw
          obtain ⟨hdata, hrate, hsch⟩ := recvFromLayer_sent hrecv
          rw [h.signal_delay] at hsch
          have hfresh : tx.inFlight w w.nextEventPtr = none := by
            by_contra hcon
            exact Nat.lt_irrefl _ (h.flight_lt _ hcon)
          have hheap : HeapStep ({ w with sim := s' } : MacWorld)
              { w with
                packets := setAt w.packets p packet1
                nextEventPtr := w.nextEventPtr + 1
                sim := sim } :=
            heapStep_same_data (p := p) (q := packet1) rfl rfl hdata
          have hinv : NodeInv (m.slotTimer mac) (own mac)
              { tx with signalEvents := setAt tx.signalEvents w.nextEventPtr (some p) }
              { w with
                packets := setAt w.packets p packet1
                nextEventPtr := w.nextEventPtr + 1
                sim := sim } := by
            refine node_launch (p := p) h0 hquiet hsch rfl rfl rfl hheap rfl rfl ?_ ?_ ?_ ?_
              hp ?_ htime
            · unfold SendPath.inFlight
              simp only [setAt_same]
            · intro x hxne
              unfold SendPath.inFlight
              simp only [setAt_other _ _ hxne]
            · intro q hq
              simp only [setAt_same, Option.some.injEq] at hq
              subst hq
              simp only [setAt_same]
              rw [hrate]
              exact h.data_rate
            · intro x q hxne hq
              simp only [setAt_other _ _ hxne] at hq
              exact hq
            · simp only [setAt_same]
              exact isFrame_of_data hframe hdata
          exact ⟨hinv, hspec.stable mac _ _ hrp0 hheap⟩
      | none =>
        rw [hlay] at hx
        dsimp only at hx
        by_cases hslot : e = (m.slotTimer mac).m_eventOnFire
        · rw [if_pos hslot] at hx
          cases hb : m.beginSlotEvent mac { w with sim := s' } with
          | error f =>
            rw [hb] at hx
            cases hx
          | ok r =>
            obtain ⟨mac1, w1⟩ := r
            rw [hb] at hx
            simp only [Except.ok.injEq, Prod.mk.injEq] at hx
            obtain ⟨hm, htx, hw⟩ := hx
            subst hm
            subst htx
            subst hw
            obtain ⟨hquiet, hnotq⟩ := hslotpop hslot
            obtain ⟨hss, hrp1, hst, hown⟩ :=
              hspec.slot mac _ mac1 w1 hrp0 hbase.sized hbase.wf hbase.future hbase.flags
                hbase.queued_lt hnotq hbase.slot_lt hbase.own_lt hbase.slot_not_own hb
            have hinv := node_slot hbase hquiet hss
            rw [hst, hown]
            exact ⟨hinv, hrp1⟩
        · rw [if_neg hslot] at hx
          have h0 := hother hslot
          have hstep : ∀ {w1 : MacWorld},
              MacStep (own mac) ({ w with sim := s' } : MacWorld) w1 →
              NodeInv (m.slotTimer mac) (own mac) tx w1 ∧
                (tx.Quiet { w with sim := s' } → tx.Quiet w1) := by
            intro w1 hms
            refine node_foreign h0 (own mac) hms.kernel h.slot_not_own h.timer_not_own
              h.flight_not_own ?_ (Nat.le_of_eq hms.nextEventPtr.symm) hms.sendEvents
              (by rw [hms.phy]) (by rw [hms.phy]) hms.heap hms.rate
            intro x hxq
            rw [hms.nextEventPtr]
            by_cases hxo : own mac x
            · exact h.own_lt x hxo
            · exact hbase.queued_lt x ((hms.kernel.queue x hxo).1 hxq)
          cases hse : w.sendEvents e with
          | some dp =>
            obtain ⟨d, p⟩ := dp
            have hse' : ({ w with sim := s' } : MacWorld).sendEvents e = some (d, p) := hse
            rw [hse'] at hx
            dsimp only at hx
            have hfl : tx.inFlight w e = some p := inFlight_send hsig hlay hse
            obtain ⟨hquiet, hp, hframe, htime⟩ := hflight p hfl
            cases hsend : m.sendToLinkLayer mac { w with sim := s' } d p with
            | error f =>
              rw [hsend] at hx
              cases hx
            | ok r =>
              obtain ⟨ok, mac1, w1⟩ := r
              rw [hsend] at hx
              dsimp only at hx
              obtain ⟨hms, hrp1, hst, hown⟩ :=
                hspec.send mac _ d p ok mac1 w1 hrp0 hbase.sized hbase.wf hbase.future
                  hbase.flags hsend
              obtain ⟨h1, hq1⟩ := hstep hms
              have hquiet1 := hq1 hquiet
              by_cases hdown : d = .Lower ∧ ok = true
              · rw [if_pos hdown] at hx
                unfold SendPath.sendToLayer at hx
                dsimp only at hx
                cases hsch : Simulator.scheduleEvent
                    { w1.sim with events := setEvent w1.sim.events w1.nextEventPtr Event.create }
                    w1.nextEventPtr tx.m_lowerLayerDelay with
                | error f =>
                  rw [hsch] at hx
                  cases hx
                | ok r2 =>
                  obtain ⟨b2, sim⟩ := r2
                  rw [hsch] at hx
                  simp only [Except.ok.injEq, Prod.mk.injEq] at hx
                  obtain ⟨hm, htx, hw⟩ := hx
                  subst hm
                  subst htx
                  subst hw
                  rw [h.layer_delay] at hsch
                  have hfresh : tx.inFlight w1 w1.nextEventPtr = none := by
                    by_contra hcon
                    exact Nat.lt_irrefl _ (h1.flight_lt _ hcon)
                  obtain ⟨hs1, _, _⟩ := inFlight_none hfresh
                  have htime1 : w1.sim.m_clock + 31 * 8 / 128000
                      < w1.sim.fire (m.slotTimer mac).m_eventOnFire := by
                    rw [hms.kernel.clock, kernelStep_fire hms.kernel h.slot_not_own]
                    exact htime
                  have hinv : NodeInv (m.slotTimer mac) (own mac)
                      { tx with layerEvents := setAt tx.layerEvents w1.nextEventPtr (some p) }
                      { w1 with nextEventPtr := w1.nextEventPtr + 1, sim := sim } := by
                    refine node_launch (p := p) h1 hquiet1 hsch rfl rfl rfl
                      (heapStep_of_eq rfl rfl) rfl rfl ?_ ?_ ?_ ?_
                      (Nat.lt_of_lt_of_le hp hms.heap.next) (hms.heap.frame p hp hframe) htime1
                    · unfold SendPath.inFlight
                      simp only [hs1, setAt_same]
                    · intro x hxne
                      unfold SendPath.inFlight
                      simp only [setAt_other _ _ hxne]
                    · intro q hq
                      rw [hs1] at hq
                      cases hq
                    · intro x q _ hq
                      exact hq
                  rw [hst, hown]
                  exact ⟨hinv, hspec.stable mac1 _ _ hrp1 (heapStep_of_eq rfl rfl)⟩
              · rw [if_neg hdown] at hx
                simp only [Except.ok.injEq, Prod.mk.injEq] at hx
                obtain ⟨hm, htx, hw⟩ := hx
                subst hm
                subst htx
                subst hw
                rw [hst, hown]
                exact ⟨h1, hrp1⟩
          | none =>
            have hse' : ({ w with sim := s' } : MacWorld).sendEvents e = none := hse
            rw [hse'] at hx
            dsimp only at hx
            cases hoth : m.otherEvent mac { w with sim := s' } e input with
            | error f =>
              rw [hoth] at hx
              cases hx
            | ok r =>
              obtain ⟨mac1, w1⟩ := r
              rw [hoth] at hx
              simp only [Except.ok.injEq, Prod.mk.injEq] at hx
              obtain ⟨hm, htx, hw⟩ := hx
              subst hm
              subst htx
              subst hw
              obtain ⟨hms, hrp1, hst, hown⟩ :=
                hspec.other mac _ e input mac1 w1 hrp0 hbase.sized hbase.wf hbase.future
                  hbase.flags hv0 hoth
              rw [hst, hown]
              exact ⟨(hstep hms).1, hrp1⟩

end NodeRun

section NodeRunOps

/-- The invariant of the sending path after a step of the simulation. -/
theorem node_nodeOp {μ : Type} {m : SlottedMacEvents μ} {own : μ → EventId → Prop}
    {RP : μ → MacWorld → Prop} (hspec : MacSpec m own RP) {log10 : ℚ → ℚ} {mac : μ}
    {tx : SendPath} {w : MacWorld} {op : NodeOp} {r : μ × SendPath × MacWorld}
    (h : NodeInv (m.slotTimer mac) (own mac) tx w) (hrp : RP mac w) (hv : op.Valid w)
    (hop : SendPath.nodeOp m log10 mac tx w op = .ok r) :
    NodeInv (m.slotTimer r.1) (own r.1) r.2.1 r.2.2 ∧ RP r.1 r.2.2 := by
  obtain ⟨mac', tx', w'⟩ := r
  cases op with
  | dispatch input =>
    unfold SendPath.nodeOp at hop
    cases hq : w.sim.m_eventPtrQueue with
    | nil =>
      rw [hq] at hop
      simp only [Except.ok.injEq, Prod.mk.injEq] at hop
      obtain ⟨hm, htx, hw⟩ := hop
      subst hm
      subst htx
      subst hw
      exact ⟨h, hrp⟩
    | cons e rest =>
      rw [hq] at hop
      dsimp only at hop
      split_ifs at hop
      exact node_execute hspec h hrp hv hq _ (pop_clock_eq w.sim e rest) hop
  | schedule delay =>
    unfold SendPath.nodeOp at hop
    dsimp only at hop
    cases hs : Simulator.scheduleEvent
        { w.sim with events := setEvent w.sim.events w.nextEventPtr Event.create }
        w.nextEventPtr delay with
    | error f =>
      rw [hs] at hop
      cases hop
    | ok r2 =>
      obtain ⟨b, sim⟩ := r2
      rw [hs] at hop
      simp only [Except.ok.injEq, Prod.mk.injEq] at hop
      obtain ⟨hm, htx, hw⟩ := hop
      subst hm
      subst htx
      subst hw
      have hnot : w.nextEventPtr ∉ w.sim.m_eventPtrQueue :=
        fun hmem => Nat.lt_irrefl _ (h.queued_lt _ hmem)
      obtain ⟨hk, _, _, _⟩ :=
        @kernelStep_create_schedule (fun x => x = w.nextEventPtr) w.sim sim
          w.nextEventPtr delay b hs rfl hnot h.wf h.future h.flags
      have hql : ∀ x ∈ sim.m_eventPtrQueue, x < w.nextEventPtr + 1 := by
        intro x hx
        by_cases hxe : x = w.nextEventPtr
        · rw [hxe]
          exact Nat.lt_succ_self _
        · exact Nat.lt_succ_of_lt (h.queued_lt x ((hk.queue x hxe).1 hx))
      have key : NodeInv (m.slotTimer mac) (own mac) tx
          { w with nextEventPtr := w.nextEventPtr + 1, sim := sim } ∧
          (tx.Quiet w → tx.Quiet { w with nextEventPtr := w.nextEventPtr + 1, sim := sim }) :=
        node_foreign h (fun x => x = w.nextEventPtr) hk (Nat.ne_of_lt h.slot_lt)
          (Nat.ne_of_lt h.timer_lt) (fun x hx => Nat.ne_of_lt (h.flight_lt x hx)) hql
          (Nat.le_succ _) rfl rfl rfl (heapStep_of_eq rfl rfl) (fun _ _ => rfl)
      exact ⟨key.1, hspec.stable mac w _ hrp (heapStep_of_eq rfl rfl)⟩
  | newPacket packet =>
    unfold SendPath.nodeOp at hop
    simp only [Except.ok.injEq, Prod.mk.injEq] at hop
    obtain ⟨hm, htx, hw⟩ := hop
    subst hm
    subst htx
    subst hw
    have hpk : packet.Sized := hv
    have hheap : HeapStep w
        { w with
          packets := setAt w.packets w.nextPacketPtr packet
          nextPacketPtr := w.nextPacketPtr + 1
          nextUniqueId := w.nextUniqueId + 1 } := by
      refine ⟨Nat.le_succ _, ?_, ?_⟩
      · intro hsz x hx
        show (setAt w.packets w.nextPacketPtr packet x).Sized
        by_cases hxe : x = w.nextPacketPtr
        · rw [hxe, setAt_same]
          exact hpk
        · rw [setAt_other _ _ hxe]
          exact hsz x (Nat.lt_of_le_of_ne (Nat.lt_succ_iff.mp hx) hxe)
      · intro x hx hf
        show (setAt w.packets w.nextPacketPtr packet x).IsFrame
        rw [setAt_other _ _ (Nat.ne_of_lt hx)]
        exact hf
    have hr : ∀ x, x < w.nextPacketPtr →
        (setAt w.packets w.nextPacketPtr packet x).m_dataRate = (w.packets x).m_dataRate := by
      intro x hx
      rw [setAt_other _ _ (Nat.ne_of_lt hx)]
    have key : NodeInv (m.slotTimer mac) (own mac) tx
        { w with
          packets := setAt w.packets w.nextPacketPtr packet
          nextPacketPtr := w.nextPacketPtr + 1
          nextUniqueId := w.nextUniqueId + 1 } ∧
        (tx.Quiet w → tx.Quiet
          { w with
            packets := setAt w.packets w.nextPacketPtr packet
            nextPacketPtr := w.nextPacketPtr + 1
            nextUniqueId := w.nextUniqueId + 1 }) :=
      node_foreign h (fun _ => False) (kernelStep_refl _ h.wf h.future h.flags)
        (fun hf => hf) (fun hf => hf) (fun _ _ hf => hf) h.queued_lt (Nat.le_refl _) rfl rfl
        rfl hheap hr
    exact ⟨key.1, hspec.stable mac w _ hrp hheap⟩
  | physicalLayer phy blocked =>
    unfold SendPath.nodeOp at hop
    simp only [Except.ok.injEq, Prod.mk.injEq] at hop
    obtain ⟨hm, htx, hw⟩ := hop
    subst hm
    subst htx
    subst hw
    have hphy : phy.m_dataRate = w.phy.m_dataRate ∧
        phy.m_signalSendingDelay = w.phy.m_signalSendingDelay := hv
    have key : NodeInv (m.slotTimer mac) (own mac) tx
        { w with phy := phy, linkQueueIsBlocked := blocked } ∧
        (tx.Quiet w → tx.Quiet { w with phy := phy, linkQueueIsBlocked := blocked }) :=
      node_foreign h (fun _ => False) (kernelStep_refl _ h.wf h.future h.flags)
        (fun hf => hf) (fun hf => hf) (fun _ _ hf => hf) h.queued_lt (Nat.le_refl _) rfl
        hphy.2 hphy.1 (heapStep_of_eq rfl rfl) (fun _ _ => rfl)
    exact ⟨key.1, hspec.stable mac w _ hrp (heapStep_of_eq rfl rfl)⟩

/-- The invariant of the sending path along a run. -/
theorem node_nodeOps {μ : Type} {m : SlottedMacEvents μ} {own : μ → EventId → Prop}
    {RP : μ → MacWorld → Prop} (hspec : MacSpec m own RP) {log10 : ℚ → ℚ}
    (ops : List NodeOp) :
    ∀ {mac : μ} {tx : SendPath} {w : MacWorld} {r : μ × SendPath × MacWorld},
      NodeInv (m.slotTimer mac) (own mac) tx w → RP mac w →
      SendPath.ValidOps m log10 ops mac tx w →
      SendPath.nodeOps m log10 ops mac tx w = .ok r →
      NodeInv (m.slotTimer r.1) (own r.1) r.2.1 r.2.2 ∧ RP r.1 r.2.2 := by
  induction ops with
  | nil =>
    intro mac tx w r h hrp _ hr
    unfold SendPath.nodeOps at hr
    simp only [Except.ok.injEq] at hr
    subst hr
    exact ⟨h, hrp⟩
  | cons op ops ih =>
    intro mac tx w r h hrp hv hr
    unfold SendPath.nodeOps at hr
    unfold SendPath.ValidOps at hv
    obtain ⟨hv1, hv2⟩ := hv
    cases hop : SendPath.nodeOp m log10 mac tx w op with
    | error f =>
      rw [hop] at hr
      cases hr
    | ok r1 =>
      rw [hop] at hr hv2
      dsimp only at hr hv2
      obtain ⟨h1, hrp1⟩ := node_nodeOp hspec h hrp hv1 hop
      exact ih h1 hrp1 hv2 hr

end NodeRunOps

/-! ## The sending path of a new node -/

section NodeCreate

/-- The invariant of the sending path holds when no event of the sending path
exists, the slot timer runs and the transmitting timer does not. -/
theorem node_init {slot : Timer} {own : EventId → Prop} {tx : SendPath} {w : MacWorld}
    (hwf : w.sim.WF) (hfut : w.sim.Future) (hfl : w.sim.FlagsExact)
    (hql : ∀ e ∈ w.sim.m_eventPtrQueue, e < w.nextEventPtr)
    (hslot : slot.m_eventOnFire < w.nextEventPtr) (hown : ∀ x, own x → x < w.nextEventPtr)
    (htimer : tx.m_transmittingTimer.m_eventOnFire < w.nextEventPtr)
    (hsend : ∀ e, w.sendEvents e = none) (hsig : ∀ e, tx.signalEvents e = none)
    (hlay : ∀ e, tx.layerEvents e = none) (hso : ¬ own slot.m_eventOnFire)
    (hto : ¬ own tx.m_transmittingTimer.m_eventOnFire)
    (hst : slot.m_eventOnFire ≠ tx.m_transmittingTimer.m_eventOnFire)
    (hdel : tx.m_lowerLayerDelay = 0) (hsd : w.phy.m_signalSendingDelay = 0)
    (hrate : w.phy.m_dataRate = 128000) (hsz : w.Sized)
    (hrun : slot.m_eventOnFire ∈ w.sim.m_eventPtrQueue)
    (hidle : tx.m_transmittingTimer.isRunning w.sim = false) : NodeInv slot own tx w := by
  have hnone : ∀ e, tx.inFlight w e = none := by
    intro e
    unfold SendPath.inFlight
    rw [hsig, hlay, hsend]
    rfl
  refine ⟨⟨hwf, hfut, hfl, hql, hslot, hown, htimer, ?_, hso, hto, ?_, hst, hnone _, hnone _,
    hdel, hsd, hrate, hsz⟩, hrun, ?_, ?_, ?_, ?_, ?_, ?_⟩
  · intro e he
    exact absurd (hnone e) he
  · intro e he
    exact absurd (hnone e) he
  · intro e _ p hp
    rw [hnone e] at hp
    cases hp
  · intro e _ he
    exact absurd (hnone e) he
  · intro e _ he
    exact absurd (hnone e) he
  · intro e _ _ _ he
    exact absurd (hnone e) he
  · intro e _ p hp
    rw [hsig e] at hp
    cases hp
  · intro hr
    rw [hidle] at hr
    cases hr

/-- The world after the constructors of the layers of the sending path. -/
theorem sendPath_createInWorld {w : MacWorld} (hw : w.BeforeNode) :
    (SendPath.createInWorld w).2.BeforeNode ∧
      ((SendPath.createInWorld w).2.sim.events w.nextEventPtr).inEventQueue = false ∧
      (SendPath.createInWorld w).2.nextEventPtr = w.nextEventPtr + 1 := by
  have hnotq : w.nextEventPtr ∉ w.sim.m_eventPtrQueue :=
    fun hmem => Nat.lt_irrefl _ (hw.before.queued_lt _ hmem)
  obtain ⟨hwf1, hfut1, hfl1, _, hqueue1, _, hflag1⟩ :=
    fresh_event_facts hw.before.wf hw.before.future hw.before.flags hnotq _ rfl
  refine ⟨⟨⟨hwf1, hfut1, hfl1, ?_, hw.before.no_send⟩, hw.signal_delay, hw.data_rate,
    hw.sized⟩, hflag1, rfl⟩
  intro e he
  show e < w.nextEventPtr + 1
  have he' : e ∈ w.sim.m_eventPtrQueue := by
    rw [← hqueue1]
    exact he
  exact Nat.lt_succ_of_lt (hw.before.queued_lt e he')

/-- The invariant of the sending path holds of a new reader. -/
theorem reader_createNode {w0 : MacWorld} {nodeId : NodeId} {listener : ListenerId}
    {r : RfidReaderMac × SendPath × MacWorld} (hw : w0.BeforeNode)
    (hc : RfidReaderMac.createNode nodeId listener w0 = .ok r) :
    NodeInv r.1.m_slotTimer r.1.own r.2.1 r.2.2 ∧ r.1.Frames r.2.2 := by
  obtain ⟨mac, tx, w⟩ := r
  unfold RfidReaderMac.createNode at hc
  dsimp only at hc
  obtain ⟨hw1, hflagT, hnext1⟩ := sendPath_createInWorld hw
  generalize hw1e : (SendPath.createInWorld w0).2 = w1 at hc hw1 hflagT hnext1
  have htx : (SendPath.createInWorld w0).1
      = { layerEvents := fun _ => none, signalEvents := fun _ => none,
          m_transmittingTimer := { m_eventOnFire := w0.nextEventPtr },
          m_lowerLayerDelay := 0 } := rfl
  rw [htx] at hc
  cases hcr : RfidReaderMac.createInWorld nodeId listener w1 with
  | error f =>
    rw [hcr] at hc
    cases hc
  | ok r1 =>
    obtain ⟨mac1, w2⟩ := r1
    rw [hcr] at hc
    simp only [Except.ok.injEq, Prod.mk.injEq] at hc
    obtain ⟨hm, htxe, hwe⟩ := hc
    subst hm
    subst htxe
    subst hwe
    unfold RfidReaderMac.createInWorld at hcr
    simp only [Timer.start, Timer.isRunning, setEvent, if_true, Event.create,
      Event.inEventQueue, Bool.not_false] at hcr
    split at hcr
    · cases hcr
    · rename_i b sim hs
      simp only [Except.ok.injEq, Prod.mk.injEq] at hcr
      obtain ⟨hm, hw2⟩ := hcr
      subst hm
      subst hw2
      have hnotq : w1.nextEventPtr ∉ w1.sim.m_eventPtrQueue :=
        fun hmem => Nat.lt_irrefl _ (hw1.before.queued_lt _ hmem)
      obtain ⟨hwfa, hfuta, hfla, _, hqueuea, hothera, _⟩ :=
        fresh_event_facts hw1.before.wf hw1.before.future hw1.before.flags hnotq _ rfl
      have hs0 : ({ w1.sim with
          events := setEvent w1.sim.events w1.nextEventPtr Event.create } :
          Simulator).scheduleEvent w1.nextEventPtr 0 = .ok (b, sim) := hs
      obtain ⟨hwf, hfut, hfl, _, _, hflag, hother, hmem, _, _⟩ :=
        schedule_facts hs0 hwfa hfuta hfla
      have hnotq2 : w1.nextEventPtr + 1 ∉ sim.m_eventPtrQueue := by
        intro hmem2
        rcases (hmem _).1 hmem2 with heq | hold
        · exact absurd heq (Nat.succ_ne_self _)
        · rw [hqueuea] at hold
          have := hw1.before.queued_lt _ hold
          exact Nat.lt_irrefl _ (Nat.lt_trans (Nat.lt_succ_self _) this)
      obtain ⟨hwf2, hfut2, hfl2, _, hqueue2, hother2, _⟩ :=
        fresh_event_facts hwf hfut hfl hnotq2 _ rfl
      have hne : w1.nextEventPtr ≠ w1.nextEventPtr + 1 := (Nat.succ_ne_self _).symm
      have hT1 : w0.nextEventPtr ≠ w1.nextEventPtr := by
        rw [hnext1]
        exact (Nat.succ_ne_self _).symm
      have hT2 : w0.nextEventPtr ≠ w1.nextEventPtr + 1 := by
        rw [hnext1]
        exact Nat.ne_of_lt (Nat.lt_succ_of_lt (Nat.lt_succ_self _))
      have hTlt : w0.nextEventPtr < w1.nextEventPtr + 1 + 1 := by
        rw [hnext1]
        exact Nat.lt_succ_of_lt (Nat.lt_succ_of_lt (Nat.lt_succ_self _))
      refine ⟨@node_init
        (RfidReaderMac.create nodeId w1.nextEventPtr (w1.nextEventPtr + 1)).m_slotTimer
        (RfidReaderMac.create nodeId w1.nextEventPtr (w1.nextEventPtr + 1)).own _ _
        ⟨hwf2.sorted, hwf2.nodup, hwf2.flagged⟩ hfut2 hfl2 ?_ ?_ ?_ hTlt hw1.before.no_send
        (fun _ => rfl) (fun _ => rfl) ?_ ?_ ?_ rfl hw1.signal_delay hw1.data_rate hw1.sized
        ?_ ?_, ?_⟩
      · intro y hy
        have hy' : y ∈ sim.m_eventPtrQueue := by
          rw [← hqueue2]
          exact hy
        show y < w1.nextEventPtr + 1 + 1
        rcases (hmem y).1 hy' with heq | hold
        · rw [heq]
          exact Nat.lt_succ_of_lt (Nat.lt_succ_self _)
        · rw [hqueuea] at hold
          exact Nat.lt_succ_of_lt (Nat.lt_succ_of_lt (hw1.before.queued_lt _ hold))
      · show w1.nextEventPtr < w1.nextEventPtr + 1 + 1
        exact Nat.lt_succ_of_lt (Nat.lt_succ_self _)
      · intro x hx
        have hx' : x = w1.nextEventPtr + 1 := hx
        rw [hx']
        exact Nat.lt_succ_self _
      · intro hx
        exact hne hx
      · intro hx
        exact hT2 hx
      · intro hx
        exact hT1 hx.symm
      · show w1.nextEventPtr ∈ (({ sim with
            events := setEvent sim.events (w1.nextEventPtr + 1) Event.create } :
            Simulator).addSimulationEndListener listener).m_eventPtrQueue
        have : w1.nextEventPtr ∈ sim.m_eventPtrQueue := (hmem _).2 (Or.inl rfl)
        rw [← hqueue2] at this
        exact this
      · show (({ sim with
            events := setEvent sim.events (w1.nextEventPtr + 1) Event.create } :
            Simulator).events w0.nextEventPtr).inEventQueue = false
        rw [hother2 _ hT2, hother _ hT1, hothera _ hT1]
        exact hflagT
      · exact ⟨fun p hp => (by cases hp), fun p hp => (by cases hp), rfl⟩

/-- The invariant of the sending path holds of a new tag. -/
theorem tag_createNode {w0 : MacWorld} {nodeId : NodeId} {tagApp : RfidTagApp}
    {listener : ListenerId} {r : RfidTagMac × SendPath × MacWorld} (hw : w0.BeforeNode)
    (hc : RfidTagMac.createNode nodeId tagApp listener w0 = .ok r) :
    NodeInv r.1.m_slotTimer r.1.own r.2.1 r.2.2 ∧ r.1.Frames r.2.2 := by
  obtain ⟨mac, tx, w⟩ := r
  unfold RfidTagMac.createNode at hc
  dsimp only at hc
  obtain ⟨hw1, hflagT, hnext1⟩ := sendPath_createInWorld hw
  generalize hw1e : (SendPath.createInWorld w0).2 = w1 at hc hw1 hflagT hnext1
  have htx : (SendPath.createInWorld w0).1
      = { layerEvents := fun _ => none, signalEvents := fun _ => none,
          m_transmittingTimer := { m_eventOnFire := w0.nextEventPtr },
          m_lowerLayerDelay := 0 } := rfl
  rw [htx] at hc
  cases hcr : RfidTagMac.createInWorld nodeId tagApp listener w1 with
  | error f =>
    rw [hcr] at hc
    cases hc
  | ok r1 =>
    obtain ⟨mac1, w2⟩ := r1
    rw [hcr] at hc
    simp only [Except.ok.injEq, Prod.mk.injEq] at hc
    obtain ⟨hm, htxe, hwe⟩ := hc
    subst hm
    subst htxe
    subst hwe
    unfold RfidTagMac.createInWorld at hcr
    simp only [Timer.start, Timer.isRunning, setEvent, if_true, Event.create,
      Event.inEventQueue, Bool.not_false] at hcr
    split at hcr
    · cases hcr
    · rename_i b sim hs
      simp only [Except.ok.injEq, Prod.mk.injEq] at hcr
      obtain ⟨hm, hw2⟩ := hcr
      subst hm
      subst hw2
      have hnotq : w1.nextEventPtr ∉ w1.sim.m_eventPtrQueue :=
        fun hmem => Nat.lt_irrefl _ (hw1.before.queued_lt _ hmem)
      obtain ⟨hwfa, hfuta, hfla, _, hqueuea, hothera, _⟩ :=
        fresh_event_facts hw1.before.wf hw1.before.future hw1.before.flags hnotq _ rfl
      have hs0 : ({ w1.sim with
          events := setEvent w1.sim.events w1.nextEventPtr Event.create } :
          Simulator).scheduleEvent w1.nextEventPtr 0 = .ok (b, sim) := hs
      obtain ⟨hwf, hfut, hfl, _, _, hflag, hother, hmem, _, _⟩ :=
        schedule_facts hs0 hwfa hfuta hfla
      have hT1 : w0.nextEventPtr ≠ w1.nextEventPtr := by
        rw [hnext1]
        exact (Nat.succ_ne_self _).symm
      have hTlt : w0.nextEventPtr < w1.nextEventPtr + 1 := by
        rw [hnext1]
        exact Nat.lt_succ_of_lt (Nat.lt_succ_self _)
      refine ⟨@node_init (RfidTagMac.create nodeId w1.nextEventPtr tagApp).m_slotTimer
        (RfidTagMac.create nodeId w1.nextEventPtr tagApp).own _ _
        ⟨hwf.sorted, hwf.nodup, hwf.flagged⟩ hfut hfl ?_ ?_ ?_ hTlt hw1.before.no_send
        (fun _ => rfl) (fun _ => rfl) ?_ ?_ ?_ rfl hw1.signal_delay hw1.data_rate hw1.sized
        ?_ ?_, ?_⟩
      · intro y hy
        show y < w1.nextEventPtr + 1
        rcases (hmem y).1 hy with heq | hold
        · rw [heq]
          exact Nat.lt_succ_self _
        · rw [hqueuea] at hold
          exact Nat.lt_succ_of_lt (hw1.before.queued_lt _ hold)
      · show w1.nextEventPtr < w1.nextEventPtr + 1
        exact Nat.lt_succ_self _
      · intro x hx
        exact False.elim hx
      · intro hx
        exact hx
      · intro hx
        exact hx
      · intro hx
        exact hT1 hx.symm
      · show w1.nextEventPtr ∈ (sim.addSimulationEndListener listener).m_eventPtrQueue
        exact (hmem _).2 (Or.inl rfl)
      · show (sim.events w0.nextEventPtr).inEventQueue = false
        rw [hother _ hT1, hothera _ hT1]
        exact hflagT
      · exact ⟨fun p hp => (by cases hp), rfl⟩

end NodeCreate

/-! ## The assertion of `SignalRecvEvent::execute` is in no other method -/

section TransmitFaults

theorem scheduleEvent_transmit {s : Simulator} {e : EventId} {d : SimTime} :
    s.scheduleEvent e d ≠ .error .transmittingTimerRunning := by
  intro h
  unfold Simulator.scheduleEvent at h
  split_ifs at h <;> cases h

theorem timer_start_transmit {t : Timer} {s : Simulator} {d : SimTime} :
    t.start s d ≠ .error .transmittingTimerRunning := by
  intro h
  unfold Timer.start at h
  split_ifs at h
  exact scheduleEvent_transmit h

theorem timer_reschedule_transmit {t : Timer} {s : Simulator} {d : SimTime} :
    t.reschedule s d ≠ .error .transmittingTimerRunning := by
  intro h
  unfold Timer.reschedule at h
  dsimp only at h
  split at h
  · cases h
    exact timer_start_transmit ‹_›
  · cases h

theorem timeRemaining_transmit {t : Timer} {s : Simulator} :
    t.timeRemaining s ≠ .error .transmittingTimerRunning := by
  intro h
  unfold Timer.timeRemaining at h
  dsimp only at h
  split_ifs at h
  cases h

theorem recvFromLayer_transmit {L : PhysicalLayer} {log10 : ℚ → ℚ} {s : Simulator}
    {recvEvent : EventId} {d : Directions} {packet : Packet} :
    L.recvFromLayer log10 s recvEvent d packet ≠ .error .transmittingTimerRunning := by
  intro h
  unfold PhysicalLayer.recvFromLayer at h
  split_ifs at h
  · cases h
  · split at h
    · cases h
      rename_i hx
      unfold Packet.setDataRate at hx
      split_ifs at hx
      cases hx
    · split at h
      · cases h
        rename_i hx
        unfold powerToDecibels at hx
        split_ifs at hx
        cases hx
      · split at h
        · cases h
          rename_i hx
          unfold WirelessCommSignal.create at hx
          split_ifs at hx
          cases hx
        · dsimp only at h
          split at h
          · cases h
            exact scheduleEvent_transmit ‹_›
          · cases h

theorem sendToLayer_transmit {tx : SendPath} {w : MacWorld} {p : PacketPtr} :
    tx.sendToLayer w p ≠ .error .transmittingTimerRunning := by
  intro h
  unfold SendPath.sendToLayer at h
  dsimp only at h
  split at h
  · cases h
    exact scheduleEvent_transmit ‹_›
  · cases h

theorem layerRecvEvent_transmit {tx : SendPath} {log10 : ℚ → ℚ} {w : MacWorld}
    {p : PacketPtr} : tx.layerRecvEvent log10 w p ≠ .error .transmittingTimerRunning := by
  intro h
  unfold SendPath.layerRecvEvent at h
  dsimp only at h
  split at h
  · cases h
    exact recvFromLayer_transmit ‹_›
  · cases h

/-- The method `SignalRecvEvent::execute` fails with its first assertion only if
the transmitting timer is running. -/
theorem signalRecvEvent_transmit {tx : SendPath} {w : MacWorld} {p : PacketPtr}
    (hidle : tx.m_transmittingTimer.isRunning w.sim = false) :
    tx.signalRecvEvent w p ≠ .error .transmittingTimerRunning := by
  intro h
  unfold SendPath.signalRecvEvent at h
  rw [hidle] at h
  simp only [Bool.false_eq_true, if_false] at h
  split at h
  · cases h
    exact timer_reschedule_transmit ‹_›
  · cases h

end TransmitFaults

section NodeFaults

/-- The event that a node executes does not fail with the assertion of
`SignalRecvEvent::execute`. -/
theorem node_execute_transmit {μ : Type} {m : SlottedMacEvents μ} {own : μ → EventId → Prop}
    (hf : MacFaults m) {log10 : ℚ → ℚ} {mac : μ} {tx : SendPath} {w : MacWorld} {e : EventId}
    {rest : List EventId} {input : NodeInput}
    (h : NodeInv (m.slotTimer mac) (own mac) tx w)
    (hq : w.sim.m_eventPtrQueue = e :: rest) (s' : Simulator)
    (hs' : s' = { (w.sim.getNextEvent e rest).2 with m_clock := w.sim.fire e }) :
    SendPath.execute m log10 mac tx { w with sim := s' } e input
      ≠ .error .transmittingTimerRunning := by
  obtain ⟨_, _, _, _, _, hflight, _, _⟩ := node_pop h hq s' hs'
  intro hx
  unfold SendPath.execute at hx
  by_cases ht : e = tx.m_transmittingTimer.m_eventOnFire
  · rw [if_pos ht] at hx
    cases hx
  · rw [if_neg ht] at hx
    cases hsig : tx.signalEvents e with
    | some p =>
      rw [hsig] at hx
      dsimp only at hx
      obtain ⟨hquiet, _⟩ := hflight p (inFlight_signal hsig)
      split at hx
      · cases hx
        exact signalRecvEvent_transmit hquiet.2 ‹_›
      · cases hx
    | none =>
      rw [hsig] at hx
      dsimp only at hx
      cases hlay : tx.layerEvents e with
      | some p =>
        rw [hlay] at hx
        dsimp only at hx
        split at hx
        · cases hx
          exact layerRecvEvent_transmit ‹_›
        · cases hx
      | none =>
        rw [hlay] at hx
        dsimp only at hx
        split_ifs at hx
        · split at hx
          · cases hx
            exact hf.slot _ _ ‹_›
          · cases hx
        · split at hx
          · split at hx
            · cases hx
              exact hf.send _ _ _ _ ‹_›
            · split_ifs at hx
              split at hx
              · cases hx
                exact sendToLayer_transmit ‹_›
              · cases hx
          · split at hx
            · cases hx
              exact hf.other _ _ _ _ ‹_›
            · cases hx

/-- A step of the simulation around a node does not fail with the assertion of
`SignalRecvEvent::execute`. -/
theorem node_nodeOp_transmit {μ : Type} {m : SlottedMacEvents μ} {own : μ → EventId → Prop}
    (hf : MacFaults m) {log10 : ℚ → ℚ} {mac : μ} {tx : SendPath} {w : MacWorld} {op : NodeOp}
    (h : NodeInv (m.slotTimer mac) (own mac) tx w) :
    SendPath.nodeOp m log10 mac tx w op ≠ .error .transmittingTimerRunning := by
  intro hop
  cases op with
  | dispatch input =>
    unfold SendPath.nodeOp at hop
    cases hq : w.sim.m_eventPtrQueue with
    | nil =>
      rw [hq] at hop
      cases hop
    | cons e rest =>
      rw [hq] at hop
      dsimp only at hop
      split_ifs at hop
      · exact node_execute_transmit hf h hq _ (pop_clock_eq w.sim e rest) hop
      · cases hop
  | schedule delay =>
    unfold SendPath.nodeOp at hop
    dsimp only at hop
    split at hop
    · cases hop
      exact scheduleEvent_transmit ‹_›
    · cases hop
  | newPacket packet =>
    unfold SendPath.nodeOp at hop
    cases hop
  | physicalLayer phy blocked =>
    unfold SendPath.nodeOp at hop
    cases hop

/-- A run of the simulation around a node does not fail with the assertion of
`SignalRecvEvent::execute`. -/
theorem node_nodeOps_transmit {μ : Type} {m : SlottedMacEvents μ} {own : μ → EventId → Prop}
    {RP : μ → MacWorld → Prop} (hspec : MacSpec m own RP) (hf : MacFaults m) {log10 : ℚ → ℚ}
    (ops : List NodeOp) :
    ∀ {mac : μ} {tx : SendPath} {w : MacWorld},
      NodeInv (m.slotTimer mac) (own mac) tx w → RP mac w →
      SendPath.ValidOps m log10 ops mac tx w →
      SendPath.nodeOps m log10 ops mac tx w ≠ .error .transmittingTimerRunning := by
  induction ops with
  | nil =>
    intro mac tx w _ _ _ hr
    unfold SendPath.nodeOps at hr
    cases hr
  | cons op ops ih =>
    intro mac tx w h hrp hv hr
    unfold SendPath.nodeOps at hr
    unfold SendPath.ValidOps at hv
    obtain ⟨hv1, hv2⟩ := hv
    cases hop : SendPath.nodeOp m log10 mac tx w op with
    | error f =>
      rw [hop] at hr
      cases hr
      exact node_nodeOp_transmit hf h hop
    | ok r1 =>
      rw [hop] at hr hv2
      dsimp only at hr hv2
      obtain ⟨h1, hrp1⟩ := node_nodeOp hspec h hrp hv1 hop
      exact ih h1 hrp1 hv2 hr

end NodeFaults

/-! ## The reader MAC and the assertion of `SignalRecvEvent::execute` -/

section ReaderTransmitFaults

theorem except_map_error {α β : Type} {g : α → β} {x : Except Fault α} {f : Fault}
    (h : x.map g = .error f) : x = .error f := by
  cases x with
  | error f0 =>
    have h' : (Except.error f0 : Except Fault β) = .error f := h
    cases h'
    rfl
  | ok a =>
    have h' : (Except.ok (g a) : Except Fault β) = .error f := h
    cases h'

theorem setTxPower_transmit {p : Packet} {txPower : ℚ} :
    p.setTxPower txPower ≠ .error .transmittingTimerRunning := by
  intro h
  unfold Packet.setTxPower at h
  split_ifs at h
  cases h

theorem reader_isEnough_transmit {mac : RfidReaderMac} {w : MacWorld} :
    mac.isEnoughTimeForContentionCycle w ≠ .error .transmittingTimerRunning := by
  intro h
  unfold RfidReaderMac.isEnoughTimeForContentionCycle at h
  dsimp only at h
  split at h
  · cases h
    exact timeRemaining_transmit ‹_›
  · cases h

theorem reader_createRequestPacket_transmit {mac : RfidReaderMac} {w : MacWorld} :
    mac.createRequestPacket w ≠ .error .transmittingTimerRunning := by
  intro h
  unfold RfidReaderMac.createRequestPacket at h
  dsimp only at h
  split_ifs at h
  · split at h
    · cases h
    · split at h
      · cases h
        exact setTxPower_transmit ‹_›
      · cases h
  · cases h

theorem reader_startNextContentionCycle_transmit {mac : RfidReaderMac} {w : MacWorld} :
    mac.startNextContentionCycle w ≠ .error .transmittingTimerRunning := by
  intro h
  unfold RfidReaderMac.startNextContentionCycle at h
  split_ifs at h
  · cases h
  · split at h
    · cases h
      exact reader_createRequestPacket_transmit ‹_›
    · cases h

theorem reader_handlePacketSent_transmit {mac : RfidReaderMac} {w : MacWorld}
    {p : PacketPtr} :
    RfidReaderMac.handlePacketSent p mac w ≠ .error .transmittingTimerRunning := by
  intro h
  unfold RfidReaderMac.handlePacketSent at h
  split_ifs at h
  · split at h <;> cases h
  · split at h
    · cases h
      exact reader_isEnough_transmit ‹_›
    · exact reader_startNextContentionCycle_transmit h
    · cases h

theorem reader_sendToLinkLayer_transmit {mac : RfidReaderMac} {w : MacWorld}
    {d : Directions} {p : PacketPtr} :
    mac.sendToLinkLayer w d p ≠ .error .transmittingTimerRunning := by
  intro h
  unfold RfidReaderMac.sendToLinkLayer MacProtocol.sendToLinkLayer at h
  split_ifs at h
  · split at h
    · rename_i f0 hb
      unfold RfidReaderMac.handleChannelBusy at hb
      split_ifs at hb
    · cases h
  · split at h
    · cases h
      exact reader_handlePacketSent_transmit ‹_›
    · cases h

theorem startSendTimer_transmit {mac : SlottedMac} {w : MacWorld} {d : Directions}
    {p : PacketPtr} {delay : SimTime} :
    mac.startSendTimer w d p delay ≠ .error .transmittingTimerRunning := by
  intro h
  unfold SlottedMac.startSendTimer at h
  dsimp only at h
  split_ifs at h
  · cases h
  · split at h
    · cases h
      exact timer_start_transmit ‹_›
    · cases h

theorem reader_endRequestCycleEvent_transmit {mac : RfidReaderMac} {w : MacWorld} :
    mac.endRequestCycleEvent w ≠ .error .transmittingTimerRunning := by
  intro h
  unfold RfidReaderMac.endRequestCycleEvent at h
  split_ifs at h
  cases h

theorem reader_endOfContentionCycle_tail_transmit {mac3 : RfidReaderMac} {w : MacWorld}
    (h : (if !mac3.m_doEntireReadCycle && mac3.m_missedReadCount = m_MISSED_READ_THRESHOLD then
        if !mac3.m_cycleTimer.isRunning w.sim then .error .cycleTimerNotRunning
        else
          mac3.endRequestCycleEvent { w with sim := (mac3.m_cycleTimer.stop w.sim).2 }
      else
        match mac3.isEnoughTimeForContentionCycle w with
        | .error f => .error f
        | .ok true =>
          match mac3.createRequestPacket w with
          | .error f => .error f
          | .ok (packet, w1) =>
            .ok ({ mac3 with
              m_packetToTransmit := some packet
              m_txSlotNumber := (mac3.m_currentSlotNumber + 1) % 2 ^ 32 }, w1)
        | .ok false =>
          if !mac3.m_cycleTimer.isRunning w.sim && w.getQueueIsBlocked
          then .error .queueIsBlocked
          else .ok (mac3, w))
      = (.error .transmittingTimerRunning : Except Fault (RfidReaderMac × MacWorld))) :
    False := by
  by_cases hthr : (!mac3.m_doEntireReadCycle
      && decide (mac3.m_missedReadCount = m_MISSED_READ_THRESHOLD)) = true
  · rw [if_pos hthr] at h
    by_cases hnr : (!mac3.m_cycleTimer.isRunning w.sim) = true
    · rw [if_pos hnr] at h
      cases h
    · rw [if_neg hnr] at h
      exact reader_endRequestCycleEvent_transmit h
  · rw [if_neg hthr] at h
    cases henough : mac3.isEnoughTimeForContentionCycle w with
    | error f0 =>
      rw [henough] at h
      cases h
      exact reader_isEnough_transmit henough
    | ok enough =>
      rw [henough] at h
      cases enough with
      | true =>
        dsimp only at h
        split at h
        · cases h
          exact reader_createRequestPacket_transmit ‹_›
        · cases h
      | false =>
        dsimp only at h
        split_ifs at h
        cases h

theorem reader_endOfContentionCycle_transmit {mac : RfidReaderMac} {w : MacWorld} :
    mac.endOfContentionCycle w ≠ .error .transmittingTimerRunning := by
  intro h
  unfold RfidReaderMac.endOfContentionCycle at h
  by_cases hpn : mac.m_packetToTransmit ≠ none
  · rw [if_pos hpn] at h
    cases h
  · rw [if_neg hpn] at h
    cases he : mac.isEnoughTimeForContentionCycle w with
    | error f0 =>
      rw [he] at h
      cases h
      exact reader_isEnough_transmit he
    | ok e0 =>
      rw [he] at h
      dsimp only at h
      by_cases hc : (!mac.m_doEntireReadCycle && mac.m_cycleTimer.isRunning w.sim) = true
      · rw [if_pos hc] at h
        exact @reader_endOfContentionCycle_tail_transmit
          { ({ ({ mac with
                    m_missedReads := mac.m_missedReads ++ [mac.m_currentSlotNumber]
                    m_missedReadCount := (mac.m_missedReadCount + 1) % 2 ^ 32 } : RfidReaderMac)
                  with m_doResetSlot := false } : RfidReaderMac) with
              m_currentSlotNumber := 0, m_numberOfSlots := 0 }
          w h
      · rw [if_neg hc] at h
        exact @reader_endOfContentionCycle_tail_transmit
          { ({ ({ mac with m_missedReadCount := 0 } : RfidReaderMac)
                  with m_doResetSlot := false } : RfidReaderMac) with
              m_currentSlotNumber := 0, m_numberOfSlots := 0 }
          w h

theorem reader_beginSlotEvent_transmit {mac : RfidReaderMac} {w : MacWorld} :
    mac.beginSlotEvent w ≠ .error .transmittingTimerRunning := by
  intro h
  unfold RfidReaderMac.beginSlotEvent at h
  dsimp only at h
  split at h
  · rename_i f0 hr
    cases h
    by_cases hcur : mac.m_currentSlotNumber = mac.m_txSlotNumber
    · rw [if_pos hcur] at hr
      split at hr
      · split at hr
        · cases hr
          exact startSendTimer_transmit ‹_›
        · cases hr
      · cases hr
    · rw [if_neg hcur] at hr
      split_ifs at hr
      exact reader_endOfContentionCycle_transmit hr
  · split at h
    · cases h
      exact timer_reschedule_transmit ‹_›
    · cases h

theorem reader_handleRecvdMacPacket_transmit {mac : RfidReaderMac} {w : MacWorld}
    {p : PacketPtr} : mac.handleRecvdMacPacket w p ≠ .error .transmittingTimerRunning := by
  intro h
  unfold RfidReaderMac.handleRecvdMacPacket at h
  split at h
  · split at h
    · split at h
      · split at h
        · split at h
          · split at h
            · cases h
            · dsimp only at h
              split_ifs at h
              cases h
          · cases h
        · cases h
      · dsimp only at h
        split at h
        · cases h
          exact reader_sendToLinkLayer_transmit ‹_›
        · split_ifs at h
          cases h
    · cases h
  · cases h

theorem reader_handleRecvdUpperLayerPacket_transmit {mac : RfidReaderMac} {w : MacWorld}
    {p : PacketPtr} :
    mac.handleRecvdUpperLayerPacket w p ≠ .error .transmittingTimerRunning := by
  intro h
  unfold RfidReaderMac.handleRecvdUpperLayerPacket at h
  split at h
  · rename_i size appData hdata
    dsimp only at h
    split at h
    · rename_i f0 hr
      cases h
      cases ht : appData.m_type with
      | Read =>
        rw [ht] at hr
        dsimp only at hr
        split at hr
        · cases hr
        · split at hr
          · cases hr
            exact timer_start_transmit ‹_›
          · split at hr
            · cases hr
              exact reader_isEnough_transmit ‹_›
            · split at hr
              · cases hr
                exact reader_startNextContentionCycle_transmit ‹_›
              · cases hr
            · cases hr
      | Reset =>
        rw [ht] at hr
        dsimp only at hr
        split_ifs at hr
        cases hr
      | NoType =>
        rw [ht] at hr
        cases hr
    · split_ifs at h
      cases h
  · cases h

/-- The methods of the reader MAC do not fail with the assertion of
`SignalRecvEvent::execute`. -/
theorem reader_macFaults : MacFaults RfidReaderMac.nodeEvents := by
  refine ⟨?_, ?_, ?_⟩
  · intro mac w e input h
    have h' : (if e = mac.m_cycleTimer.m_eventOnFire then mac.endRequestCycleEvent w
        else mac.recvFromLinkLayer w input) = .error .transmittingTimerRunning := h
    split_ifs at h'
    · exact reader_endRequestCycleEvent_transmit h'
    · cases input with
      | upperLayerPacket packet =>
        exact reader_handleRecvdUpperLayerPacket_transmit (except_map_error h')
      | macPacket packet =>
        exact reader_handleRecvdMacPacket_transmit (except_map_error h')
      | nothing => cases h'
  · intro mac w d p h
    exact reader_sendToLinkLayer_transmit h
  · intro mac w h
    exact reader_beginSlotEvent_transmit h

end ReaderTransmitFaults

/-! ## The tag MAC and the assertion of `SignalRecvEvent::execute` -/

section TagTransmitFaults

theorem tag_handleRequestPacket_transmit {uniformInt : ℕ → ℕ → ℕ} {mac : RfidTagMac}
    {w : MacWorld} {macData : RfidReaderMacData} :
    mac.handleRequestPacket uniformInt w macData ≠ .error .transmittingTimerRunning := by
  intro h
  unfold RfidTagMac.handleRequestPacket at h
  dsimp only at h
  split_ifs at h <;> cases h

theorem tag_sendToLinkLayer_transmit {mac : RfidTagMac} {w : MacWorld}
    {d : Directions} {p : PacketPtr} :
    mac.sendToLinkLayer w d p ≠ .error .transmittingTimerRunning := by
  intro h
  unfold RfidTagMac.sendToLinkLayer MacProtocol.sendToLinkLayer at h
  split_ifs at h
  · split at h
    · rename_i f0 hb
      unfold RfidTagMac.handleChannelBusy at hb
      cases hb
    · cases h
  · split at h
    · rename_i f0 hb
      unfold RfidTagMac.handlePacketSent at hb
      split_ifs at hb
    · cases h

theorem tag_handleRecvdMacPacket_transmit {uniformInt : ℕ → ℕ → ℕ} {mac : RfidTagMac}
    {w : MacWorld} {p : PacketPtr} :
    mac.handleRecvdMacPacket uniformInt w p ≠ .error .transmittingTimerRunning := by
  intro h
  unfold RfidTagMac.handleRecvdMacPacket at h
  split at h
  · split at h
    · split_ifs at h
      · exact tag_handleRequestPacket_transmit h
      · cases h
    · split_ifs at h
      exact tag_sendToLinkLayer_transmit h
    · split_ifs at h
      exact tag_sendToLinkLayer_transmit h
    · split_ifs at h
  · cases h

theorem tag_handleRecvdUpperLayerPacket_transmit {mac : RfidTagMac} {w : MacWorld}
    {p : PacketPtr} :
    mac.handleRecvdUpperLayerPacket w p ≠ .error .transmittingTimerRunning := by
  intro h
  unfold RfidTagMac.handleRecvdUpperLayerPacket at h
  split at h
  · dsimp only at h
    split_ifs at h <;> cases h
  · cases h

theorem tag_beginSlotEvent_transmit {mac : RfidTagMac} {w : MacWorld} :
    mac.beginSlotEvent w ≠ .error .transmittingTimerRunning := by
  intro h
  unfold RfidTagMac.beginSlotEvent at h
  dsimp only at h
  split at h
  · rename_i f0 hr
    cases h
    by_cases hcur : mac.m_currentSlotNumber = mac.m_txSlotNumber
    · rw [if_pos hcur] at hr
      split at hr
      · split at hr
        · cases hr
          exact startSendTimer_transmit ‹_›
        · cases hr
      · cases hr
    · rw [if_neg hcur] at hr
      split_ifs at hr
      cases hr
  · split at h
    · cases h
      exact timer_reschedule_transmit ‹_›
    · cases h

/-- The methods of the tag MAC do not fail with the assertion of
`SignalRecvEvent::execute`. -/
theorem tag_macFaults (uniformInt : ℕ → ℕ → ℕ) :
    MacFaults (RfidTagMac.nodeEvents uniformInt) := by
  refine ⟨?_, ?_, ?_⟩
  · intro mac w e input h
    have h' : mac.recvFromLinkLayer uniformInt w input = .error .transmittingTimerRunning := h
    cases input with
    | upperLayerPacket packet =>
      exact tag_handleRecvdUpperLayerPacket_transmit (except_map_error h')
    | macPacket packet =>
      exact tag_handleRecvdMacPacket_transmit (except_map_error h')
    | nothing => cases h'
  · intro mac w d p h
    exact tag_sendToLinkLayer_transmit h
  · intro mac w h
    exact tag_beginSlotEvent_transmit h

end TagTransmitFaults

/-! ## Frames fit into a slot -/

section SlotFit

/-- What the invariant of the sending path says of the signals of a node: a
queued `SignalRecvEvent` finds the transmitting timer idle and holds a frame of
at most 31 bytes that, after the longest interframe space, ends within the slot
time; at most one event of the sending path is queued; a running transmitting
timer fires before the next slot event. -/
theorem node_signals_fit {slot : Timer} {own : EventId → Prop} {tx : SendPath} {w : MacWorld}
    (h : NodeInv slot own tx w) :
    (∀ e ∈ w.sim.m_eventPtrQueue, ∀ p, tx.signalEvents e = some p →
      tx.m_transmittingTimer.isRunning w.sim = false ∧
      (w.packets p).getSizeInBytes ≤ 31 ∧
      m_TAG_REPLY_IFS + (w.packets p).getDuration < m_DEFAULT_SLOT_TIME) ∧
    (∀ e ∈ w.sim.m_eventPtrQueue, ∀ e' ∈ w.sim.m_eventPtrQueue,
      tx.inFlight w e ≠ none → tx.inFlight w e' ≠ none → e = e') ∧
    (tx.m_transmittingTimer.isRunning w.sim = true →
      w.sim.fire tx.m_transmittingTimer.m_eventOnFire < w.sim.fire slot.m_eventOnFire) := by
  refine ⟨?_, h.flight_alone, h.timer_time⟩
  intro e he p hp
  have hfl : tx.inFlight w e = some p := inFlight_signal hp
  have hne : tx.inFlight w e ≠ none := by
    rw [hfl]
    exact Option.some_ne_none p
  have hframe : (w.packets p).IsFrame := (h.flight_frame e he p hfl).2
  have hrate : (w.packets p).m_dataRate = 128000 := h.signal_rate e he p hp
  obtain ⟨_, hd⟩ := isFrame_duration hframe hrate
  refine ⟨h.flight_idle e he hne, isFrame_size hframe, ?_⟩
  have hc : m_TAG_REPLY_IFS + (31 * 8 / 128000 : ℚ) < m_DEFAULT_SLOT_TIME := by
    norm_num [m_TAG_REPLY_IFS, m_DEFAULT_SLOT_TIME]
  linarith

/-- The sizes of the six frames of the MACs, with their interframe spaces, at
the data rate of the constructor of the physical layer. -/
theorem frame_sizes_fit (d : RfidReaderMacData) (a : RfidReaderAppData) (t : RfidTagMacData)
    (b : RfidTagAppData) (location : Location) (subclass : PhySubclass) :
    (PhysicalLayer.create location subclass).getDataRate = 128000 ∧
    m_DEFAULT_SLOT_TIME = 2 / 1000 ∧
    m_READER_IFS = 10 / 10 ^ 6 ∧ m_TAG_REPLY_IFS = 20 / 10 ^ 6 ∧
    m_TAG_GENERIC_IFS = 15 / 10 ^ 6 ∧
    (d.m_type = .Request → d.getSizeInBytes = 18 ∧
      m_READER_IFS + 8 * (d.getSizeInBytes : ℚ)
          / (PhysicalLayer.create location subclass).getDataRate < m_DEFAULT_SLOT_TIME) ∧
    (d.m_type = .Select → a.getSizeInBytes + d.getSizeInBytes = 22 ∧
      m_READER_IFS + 8 * ((a.getSizeInBytes + d.getSizeInBytes : ℕ) : ℚ)
          / (PhysicalLayer.create location subclass).getDataRate < m_DEFAULT_SLOT_TIME) ∧
    (d.m_type = .Ack → d.getSizeInBytes = 17 ∧
      m_READER_IFS + 8 * (d.getSizeInBytes : ℚ)
          / (PhysicalLayer.create location subclass).getDataRate < m_DEFAULT_SLOT_TIME) ∧
    (d.m_type = .Generic → a.getSizeInBytes + d.getSizeInBytes = 22 ∧
      m_READER_IFS + 8 * ((a.getSizeInBytes + d.getSizeInBytes : ℕ) : ℚ)
          / (PhysicalLayer.create location subclass).getDataRate < m_DEFAULT_SLOT_TIME) ∧
    (t.getSizeInBytes = 17 ∧
      m_TAG_REPLY_IFS + 8 * (t.getSizeInBytes : ℚ)
          / (PhysicalLayer.create location subclass).getDataRate < m_DEFAULT_SLOT_TIME) ∧
    (b.getSizeInBytes + t.getSizeInBytes = 30 ∧
      m_TAG_GENERIC_IFS + 8 * ((b.getSizeInBytes + t.getSizeInBytes : ℕ) : ℚ)
          / (PhysicalLayer.create location subclass).getDataRate < m_DEFAULT_SLOT_TIME) := by
  refine ⟨rfl, rfl, rfl, rfl, rfl, ?_, ?_, ?_, ?_, ?_, ?_⟩
  · intro hd
    norm_num [RfidReaderMacData.getSizeInBytes, hd, m_READER_IFS, m_DEFAULT_SLOT_TIME,
      PhysicalLayer.create, PhysicalLayer.getDataRate]
  · intro hd
    norm_num [RfidReaderMacData.getSizeInBytes, RfidReaderAppData.getSizeInBytes, hd,
      m_READER_IFS, m_DEFAULT_SLOT_TIME, PhysicalLayer.create, PhysicalLayer.getDataRate]
  · intro hd
    norm_num [RfidReaderMacData.getSizeInBytes, hd, m_READER_IFS, m_DEFAULT_SLOT_TIME,
      PhysicalLayer.create, PhysicalLayer.getDataRate]
  · intro hd
    norm_num [RfidReaderMacData.getSizeInBytes, RfidReaderAppData.getSizeInBytes, hd,
      m_READER_IFS, m_DEFAULT_SLOT_TIME, PhysicalLayer.create, PhysicalLayer.getDataRate]
  · norm_num [RfidTagMacData.getSizeInBytes, m_TAG_REPLY_IFS, m_DEFAULT_SLOT_TIME,
      PhysicalLayer.create, PhysicalLayer.getDataRate]
  · norm_num [RfidTagMacData.getSizeInBytes, RfidTagAppData.getSizeInBytes,
      m_TAG_GENERIC_IFS, m_DEFAULT_SLOT_TIME, PhysicalLayer.create, PhysicalLayer.getDataRate]

end SlotFit

/-! ## The example runs of the nodes and the claim on the transmitting timer -/

section NodeClaims

theorem packet_sized_iff (p : Packet) :
    p.Sized ↔ (p.m_data.map (fun kv => kv.1.toNat)).Pairwise (fun a b => a < b) ∧
      p.payloadSize .Physical + p.payloadSize .Network + p.payloadSize .Transport
        + p.payloadSize .Application ≤ 13 ∧ p.payloadSize .Link ≤ 18 :=
  ⟨fun h => ⟨h.keys, h.upper, h.link⟩, fun h => ⟨h.1, h.2.1, h.2.2⟩⟩

theorem dataTypes_eq_iff (a b : DataTypes) : a = b ↔ a.toNat = b.toNat := by
  cases a <;> cases b <;> decide

theorem exampleStartWorld_beforeNode : exampleStartWorld.BeforeNode :=
  ⟨exampleStartWorld_beforeCreate, rfl, rfl, fun p hp => absurd hp (Nat.not_lt_zero p)⟩

theorem exampleTagStartWorld_beforeNode : exampleTagStartWorld.BeforeNode :=
  ⟨⟨exampleStartWorld_beforeCreate.wf, exampleStartWorld_beforeCreate.future,
      exampleStartWorld_beforeCreate.flags, exampleStartWorld_beforeCreate.queued_lt,
      exampleStartWorld_beforeCreate.no_send⟩,
    rfl, rfl, fun p hp => absurd hp (Nat.not_lt_zero p)⟩

set_option maxHeartbeats 16000000 in
set_option maxRecDepth 16000 in
/-- The example run of the reader succeeds and ends with the `SignalRecvEvent`
of the REQUEST (packet 1) as the next event; when the event is dispatched, the
transmitting timer runs for the 1.125 ms of the 18 bytes from 2.01 ms on. -/
theorem exampleReaderNodeRun :
    ∃ r0, RfidReaderMac.createNode 7 0 exampleStartWorld = .ok r0 ∧
      ∃ r, SendPath.nodeOps RfidReaderMac.nodeEvents exampleLog10 exampleReaderNodeOps
            r0.1 r0.2.1 r0.2.2 = .ok r ∧
        SendPath.ValidOps RfidReaderMac.nodeEvents exampleLog10 exampleReaderNodeOps
            r0.1 r0.2.1 r0.2.2 ∧
        r.2.2.sim.m_eventPtrQueue = [6, 1, 2] ∧ r.2.1.signalEvents 6 = some 1 ∧
        ∃ r1, SendPath.nodeOp RfidReaderMac.nodeEvents exampleLog10 r.1 r.2.1 r.2.2
            (.dispatch .nothing) = .ok r1 ∧
          r1.2.1.m_transmittingTimer.isRunning r1.2.2.sim = true ∧
          r1.2.2.sim.fire 0 = 201 / 100000 + 18 * 8 / 128000 := by
  norm_num [and_assoc, SendPath.signalRecvEvent, Packet.getDuration, Packet.getSizeInBits,
    Packet.getSizeInBytes, Simulator.fire, RfidReaderMac.createNode,
    SendPath.createInWorld, SendPath.nodeOps,
    SendPath.nodeOp, SendPath.execute, SendPath.sendToLayer, SendPath.layerRecvEvent,
    RfidReaderMac.nodeEvents, RfidReaderMac.recvFromLinkLayer, SendPath.ValidOps,
    NodeOp.Valid, NodeInput.Valid, exampleReaderNodeOps, packet_sized_iff,
    Packet.payloadSize, PhysicalLayer.recvFromLayer, Packet.setDataRate,
    PhysicalLayer.getDataRate, powerToDecibels, exampleLog10, PhysicalLayer.signalTxPower,
    Packet.getDoMaxTxPower, WirelessCommSignal.create, PhysicalLayer.getWavelength,
    PhysicalLayer.getGain, SPEED_OF_LIGHT, PhysicalLayer.getSignalSendingDelay,
    RfidReaderMac.createInWorld, exampleStartWorld, Timer.start, Timer.isRunning,
    Simulator.scheduleEvent, Simulator.instance, setEvent, Event.create, Event.inEventQueue,
    Event.setFireTime, Event.setInEventQueue, multisetInsert, Simulator.currentTime,
    Simulator.addSimulationEndListener,
    RfidReaderMac.create, RfidReaderMac.beginSlotEvent, SlottedMac.startSendTimer,
    MacWorld.newSendEvent, Timer.reschedule, Timer.stop, Simulator.getNextEvent,
    Event.getFireTime, Simulator.eventPtrLt, Event.lt, SlottedMac.getSlotTime,
    RfidReaderMac.handleRecvdUpperLayerPacket, RfidReaderMac.isEnoughTimeForContentionCycle,
    Timer.timeRemaining, RfidReaderMac.startNextContentionCycle,
    RfidReaderMac.createRequestPacket, MacWorld.newPacket, MacWorld.setPacket, setAt,
    Packet.create, Packet.setTxPower, Packet.getTxPower, Packet.addData, Packet.getData,
    dataInsert, DataTypes.toNat, RfidReaderMac.sendToLinkLayer, MacProtocol.sendToLinkLayer,
    RfidReaderMac.handlePacketSent, RfidReaderMac.handleChannelBusy,
    RfidReaderMac.isPacketType, MacWorld.channelIsBusy, MacWorld.recvFromMacProtocol,
    MacWorld.call, MacWorld.blockUpperQueues, MacWorld.unblockUpperQueues, exampleReadPacket,
    RfidReaderAppData.create, RfidReaderAppData.toPacketData, RfidReaderAppData.getSizeInBytes,
    RfidReaderMacData.create, RfidReaderMacData.toPacketData, RfidReaderMacData.getSizeInBytes,
    RfidReaderMacData.setNumberOfSlots, SlottedMac.stopContentionCycle,
    m_DEFAULT_SLOT_TIME, m_DEFAULT_CYCLE_TIME, m_DEFAULT_NUMBER_OF_SLOTS, m_READER_IFS,
    PhysicalLayer.channelCarrierSensedBusy, PhysicalLayer.getCulmulativeSignalStrength,
    PhysicalLayer.getCsThreshold, exampleReaderPhy, PhysicalLayer.create,
    NodeId.broadcastDestination, Except.map, dataTypes_eq_iff]

set_option maxHeartbeats 16000000 in
set_option maxRecDepth 16000 in
/-- The example run of the tag succeeds and ends with the `SignalRecvEvent` of
the REPLY (packet 1) as the next event; when the event is dispatched, the
transmitting timer runs for the 1.0625 ms of the 17 bytes from 2.02 ms on. -/
theorem exampleTagNodeRun :
    ∃ r0, RfidTagMac.createNode 12 (RfidTagApp.create 12) 0 exampleTagStartWorld = .ok r0 ∧
      ∃ r, SendPath.nodeOps (RfidTagMac.nodeEvents exampleFirstSlot) exampleLog10
            exampleTagNodeOps r0.1 r0.2.1 r0.2.2 = .ok r ∧
        SendPath.ValidOps (RfidTagMac.nodeEvents exampleFirstSlot) exampleLog10
            exampleTagNodeOps r0.1 r0.2.1 r0.2.2 ∧
        r.2.2.sim.m_eventPtrQueue = [5, 1] ∧ r.2.1.signalEvents 5 = some 1 ∧
        ∃ r1, SendPath.nodeOp (RfidTagMac.nodeEvents exampleFirstSlot) exampleLog10
            r.1 r.2.1 r.2.2 (.dispatch .nothing) = .ok r1 ∧
          r1.2.1.m_transmittingTimer.isRunning r1.2.2.sim = true ∧
          r1.2.2.sim.fire 0 = 101 / 50000 + 17 * 8 / 128000 := by
  norm_num [and_assoc, SendPath.signalRecvEvent, Packet.getDuration, Packet.getSizeInBits,
    Packet.getSizeInBytes, Simulator.fire, RfidTagMac.createNode,
    SendPath.createInWorld, SendPath.nodeOps,
    SendPath.nodeOp, SendPath.execute, SendPath.sendToLayer, SendPath.layerRecvEvent,
    RfidTagMac.nodeEvents, RfidTagMac.recvFromLinkLayer, SendPath.ValidOps,
    NodeOp.Valid, NodeInput.Valid, exampleTagNodeOps, packet_sized_iff,
    Packet.payloadSize, PhysicalLayer.recvFromLayer, Packet.setDataRate,
    PhysicalLayer.getDataRate, powerToDecibels, exampleLog10, PhysicalLayer.signalTxPower,
    Packet.getDoMaxTxPower, WirelessCommSignal.create, PhysicalLayer.getWavelength,
    PhysicalLayer.getGain, SPEED_OF_LIGHT, PhysicalLayer.getSignalSendingDelay,
    RfidTagMac.createInWorld, exampleTagStartWorld, exampleStartWorld, Timer.start,
    Timer.isRunning, Simulator.scheduleEvent, Simulator.instance, setEvent, Event.create,
    Event.inEventQueue, Event.setFireTime, Event.setInEventQueue, multisetInsert,
    Simulator.currentTime, Simulator.addSimulationEndListener,
    RfidTagMac.create, RfidTagMac.beginSlotEvent, SlottedMac.startSendTimer,
    MacWorld.newSendEvent, Timer.reschedule, Timer.stop, Simulator.getNextEvent,
    Event.getFireTime, Simulator.eventPtrLt, Event.lt, SlottedMac.getSlotTime,
    RfidTagMac.handleRecvdMacPacket, RfidTagMac.handleRequestPacket,
    SlottedMac.inContentionCycle, RfidTagMac.createReplyPacket, exampleFirstSlot,
    RfidTagApp.create, RfidTagApp.getReplyToReads, MacWorld.newPacket, MacWorld.setPacket,
    setAt, Packet.create, Packet.getTxPower, Packet.addData, Packet.getData,
    dataInsert, DataTypes.toNat, RfidTagMac.sendToLinkLayer, MacProtocol.sendToLinkLayer,
    RfidTagMac.handlePacketSent, RfidTagMac.handleChannelBusy,
    RfidTagMac.isPacketType, MacWorld.channelIsBusy, MacWorld.recvFromMacProtocol,
    MacWorld.call, MacWorld.blockUpperQueues, MacWorld.unblockUpperQueues,
    exampleRequestPacket, RfidReaderMacData.create, RfidReaderMacData.toPacketData,
    RfidReaderMacData.getSizeInBytes, RfidTagMacData.create, RfidTagMacData.toPacketData,
    RfidTagMacData.getSizeInBytes, SlottedMac.stopContentionCycle,
    m_DEFAULT_SLOT_TIME, m_TAG_REPLY_IFS, m_TAG_GENERIC_IFS,
    PhysicalLayer.channelCarrierSensedBusy, PhysicalLayer.getCulmulativeSignalStrength,
    PhysicalLayer.getCsThreshold, PhysicalLayer.create,
    NodeId.broadcastDestination, Except.map, dataTypes_eq_iff,
    (by decide : ¬ RfidTagMacData.Types.Reply = RfidTagMacData.Types.Generic)]

/-- C33: every frame a reader or tag MAC can emit fits inside one slot, and the
assertion of `SignalRecvEvent::execute` that the transmitting timer is not
running never fails.  First, at the data rate of the constructor of the
physical layer (128000 bit/s) and with the slot time of 2 ms, interframe space
plus `8 * size / rate` is less than the slot time for REQUEST (18 bytes, 10 us),
SELECT (22 bytes, 10 us), ACK (17 bytes, 10 us), RESET (22 bytes, 10 us), REPLY
(17 bytes, 20 us) and the identity frame of a tag (30 bytes, 15 us).  Second,
for the node of a reader and for the node of a tag alike, created in a world
whose physical layer has the data rate and the sending delay of its constructor
(no setter of them, of the layer delays or of the slot time is called in the
sources) and run through any valid steps of the simulation: the run does not
fail with that assertion, and in every state that it reaches no step fails with
it, a queued `SignalRecvEvent` finds the transmitting timer not running and
holds a frame of at most 31 bytes whose duration, after the longest interframe
space, is less than the slot time, at most one event of the sending path (a
`SendToLinkLayerEvent` of the send timer, a `LayerRecvEvent`, a
`SignalRecvEvent`) is queued, and a running transmitting timer fires before the
next slot event. -/
theorem frames_fit_in_slot (uniformInt : ℕ → ℕ → ℕ) (log10 : ℚ → ℚ) :
    (∀ (d : RfidReaderMacData) (a : RfidReaderAppData) (t : RfidTagMacData)
        (b : RfidTagAppData) (location : Location) (subclass : PhySubclass),
      (PhysicalLayer.create location subclass).getDataRate = 128000 ∧
      m_DEFAULT_SLOT_TIME = 2 / 1000 ∧
      m_READER_IFS = 10 / 10 ^ 6 ∧ m_TAG_REPLY_IFS = 20 / 10 ^ 6 ∧
      m_TAG_GENERIC_IFS = 15 / 10 ^ 6 ∧
      (d.m_type = .Request → d.getSizeInBytes = 18 ∧
        m_READER_IFS + 8 * (d.getSizeInBytes : ℚ)
            / (PhysicalLayer.create location subclass).getDataRate < m_DEFAULT_SLOT_TIME) ∧
      (d.m_type = .Select → a.getSizeInBytes + d.getSizeInBytes = 22 ∧
        m_READER_IFS + 8 * ((a.getSizeInBytes + d.getSizeInBytes : ℕ) : ℚ)
            / (PhysicalLayer.create location subclass).getDataRate < m_DEFAULT_SLOT_TIME) ∧
      (d.m_type = .Ack → d.getSizeInBytes = 17 ∧
        m_READER_IFS + 8 * (d.getSizeInBytes : ℚ)
            / (PhysicalLayer.create location subclass).getDataRate < m_DEFAULT_SLOT_TIME) ∧
      (d.m_type = .Generic → a.getSizeInBytes + d.getSizeInBytes = 22 ∧
        m_READER_IFS + 8 * ((a.getSizeInBytes + d.getSizeInBytes : ℕ) : ℚ)
            / (PhysicalLayer.create location subclass).getDataRate < m_DEFAULT_SLOT_TIME) ∧
      (t.getSizeInBytes = 17 ∧
        m_TAG_REPLY_IFS + 8 * (t.getSizeInBytes : ℚ)
            / (PhysicalLayer.create location subclass).getDataRate < m_DEFAULT_SLOT_TIME) ∧
      (b.getSizeInBytes + t.getSizeInBytes = 30 ∧
        m_TAG_GENERIC_IFS + 8 * ((b.getSizeInBytes + t.getSizeInBytes : ℕ) : ℚ)
            / (PhysicalLayer.create location subclass).getDataRate < m_DEFAULT_SLOT_TIME)) ∧
    (∀ (w0 : MacWorld) (nodeId : NodeId) (listener : ListenerId) (ops : List NodeOp)
        (r0 : RfidReaderMac × SendPath × MacWorld),
      w0.BeforeNode → RfidReaderMac.createNode nodeId listener w0 = .ok r0 →
      SendPath.ValidOps RfidReaderMac.nodeEvents log10 ops r0.1 r0.2.1 r0.2.2 →
      SendPath.nodeOps RfidReaderMac.nodeEvents log10 ops r0.1 r0.2.1 r0.2.2
        ≠ .error .transmittingTimerRunning ∧
      ∀ r, SendPath.nodeOps RfidReaderMac.nodeEvents log10 ops r0.1 r0.2.1 r0.2.2 = .ok r →
        (∀ op, SendPath.nodeOp RfidReaderMac.nodeEvents log10 r.1 r.2.1 r.2.2 op
          ≠ .error .transmittingTimerRunning) ∧
        (∀ e ∈ r.2.2.sim.m_eventPtrQueue, ∀ p, r.2.1.signalEvents e = some p →
          r.2.1.m_transmittingTimer.isRunning r.2.2.sim = false ∧
          (r.2.2.packets p).getSizeInBytes ≤ 31 ∧
          m_TAG_REPLY_IFS + (r.2.2.packets p).getDuration < m_DEFAULT_SLOT_TIME) ∧
        (∀ e ∈ r.2.2.sim.m_eventPtrQueue, ∀ e' ∈ r.2.2.sim.m_eventPtrQueue,
          r.2.1.inFlight r.2.2 e ≠ none → r.2.1.inFlight r.2.2 e' ≠ none → e = e') ∧
        (r.2.1.m_transmittingTimer.isRunning r.2.2.sim = true →
          r.2.2.sim.fire r.2.1.m_transmittingTimer.m_eventOnFire
            < r.2.2.sim.fire r.1.m_slotTimer.m_eventOnFire)) ∧
    (∀ (w0 : MacWorld) (nodeId : NodeId) (tagApp : RfidTagApp) (listener : ListenerId)
        (ops : List NodeOp) (r0 : RfidTagMac × SendPath × MacWorld),
      w0.BeforeNode → RfidTagMac.createNode nodeId tagApp listener w0 = .ok r0 →
      SendPath.ValidOps (RfidTagMac.nodeEvents uniformInt) log10 ops r0.1 r0.2.1 r0.2.2 →
      SendPath.nodeOps (RfidTagMac.nodeEvents uniformInt) log10 ops r0.1 r0.2.1 r0.2.2
        ≠ .error .transmittingTimerRunning ∧
      ∀ r, SendPath.nodeOps (RfidTagMac.nodeEvents uniformInt) log10 ops r0.1 r0.2.1 r0.2.2
          = .ok r →
        (∀ op, SendPath.nodeOp (RfidTagMac.nodeEvents uniformInt) log10 r.1 r.2.1 r.2.2 op
          ≠ .error .transmittingTimerRunning) ∧
        (∀ e ∈ r.2.2.sim.m_eventPtrQueue, ∀ p, r.2.1.signalEvents e = some p →
          r.2.1.m_transmittingTimer.isRunning r.2.2.sim = false ∧
          (r.2.2.packets p).getSizeInBytes ≤ 31 ∧
          m_TAG_REPLY_IFS + (r.2.2.packets p).getDuration < m_DEFAULT_SLOT_TIME) ∧
        (∀ e ∈ r.2.2.sim.m_eventPtrQueue, ∀ e' ∈ r.2.2.sim.m_eventPtrQueue,
          r.2.1.inFlight r.2.2 e ≠ none → r.2.1.inFlight r.2.2 e' ≠ none → e = e') ∧
        (r.2.1.m_transmittingTimer.isRunning r.2.2.sim = true →
          r.2.2.sim.fire r.2.1.m_transmittingTimer.m_eventOnFire
            < r.2.2.sim.fire r.1.m_slotTimer.m_eventOnFire)) := by
  refine ⟨frame_sizes_fit, ?_, ?_⟩
  · intro w0 nodeId listener ops r0 hw hc hv
    obtain ⟨hinv0, hfr0⟩ := reader_createNode hw hc
    refine ⟨node_nodeOps_transmit reader_macSpec reader_macFaults ops hinv0 hfr0 hv, ?_⟩
    intro r hr
    obtain ⟨hinv, _⟩ := node_nodeOps reader_macSpec ops hinv0 hfr0 hv hr
    obtain ⟨h1, h2, h3⟩ := node_signals_fit hinv
    exact ⟨fun op => node_nodeOp_transmit reader_macFaults hinv, h1, h2, h3⟩
  · intro w0 nodeId tagApp listener ops r0 hw hc hv
    obtain ⟨hinv0, hfr0⟩ := tag_createNode hw hc
    refine ⟨node_nodeOps_transmit (tag_macSpec uniformInt) (tag_macFaults uniformInt) ops
      hinv0 hfr0 hv, ?_⟩
    intro r hr
    obtain ⟨hinv, _⟩ := node_nodeOps (tag_macSpec uniformInt) ops hinv0 hfr0 hv hr
    obtain ⟨h1, h2, h3⟩ := node_signals_fit hinv
    exact ⟨fun op => node_nodeOp_transmit (tag_macFaults uniformInt) hinv, h1, h2, h3⟩

/-- The example runs of reader 7 and of tag 12: each ends with the
`SignalRecvEvent` of its frame as the next event, which finds the transmitting
timer not running, and its dispatch starts the timer. -/
theorem frames_fit_in_slot_witness :
    ∃ r0 r r1 t0 t t1,
      exampleStartWorld.BeforeNode ∧
      RfidReaderMac.createNode 7 0 exampleStartWorld = .ok r0 ∧
      SendPath.ValidOps RfidReaderMac.nodeEvents exampleLog10 exampleReaderNodeOps
        r0.1 r0.2.1 r0.2.2 ∧
      SendPath.nodeOps RfidReaderMac.nodeEvents exampleLog10 exampleReaderNodeOps
        r0.1 r0.2.1 r0.2.2 = .ok r ∧
      r.2.2.sim.m_eventPtrQueue = [6, 1, 2] ∧ r.2.1.signalEvents 6 = some 1 ∧
      r.2.1.m_transmittingTimer.isRunning r.2.2.sim = false ∧
      m_TAG_REPLY_IFS + (r.2.2.packets 1).getDuration < m_DEFAULT_SLOT_TIME ∧
      SendPath.nodeOp RfidReaderMac.nodeEvents exampleLog10 r.1 r.2.1 r.2.2
        (.dispatch .nothing) = .ok r1 ∧
      r1.2.1.m_transmittingTimer.isRunning r1.2.2.sim = true ∧
      exampleTagStartWorld.BeforeNode ∧
      RfidTagMac.createNode 12 (RfidTagApp.create 12) 0 exampleTagStartWorld = .ok t0 ∧
      SendPath.ValidOps (RfidTagMac.nodeEvents exampleFirstSlot) exampleLog10
        exampleTagNodeOps t0.1 t0.2.1 t0.2.2 ∧
      SendPath.nodeOps (RfidTagMac.nodeEvents exampleFirstSlot) exampleLog10
        exampleTagNodeOps t0.1 t0.2.1 t0.2.2 = .ok t ∧
      t.2.2.sim.m_eventPtrQueue = [5, 1] ∧ t.2.1.signalEvents 5 = some 1 ∧
      t.2.1.m_transmittingTimer.isRunning t.2.2.sim = false ∧
      m_TAG_REPLY_IFS + (t.2.2.packets 1).getDuration < m_DEFAULT_SLOT_TIME ∧
      SendPath.nodeOp (RfidTagMac.nodeEvents exampleFirstSlot) exampleLog10 t.1 t.2.1 t.2.2
        (.dispatch .nothing) = .ok t1 ∧
      t1.2.1.m_transmittingTimer.isRunning t1.2.2.sim = true := by
  obtain ⟨r0, hrc, r, hrr, hrv, hrq, hrs, r1, hr1, hrun1, _⟩ := exampleReaderNodeRun
  obtain ⟨t0, htc, t, htr, htv, htq, hts, t1, ht1, htun1, _⟩ := exampleTagNodeRun
  have h := frames_fit_in_slot exampleFirstSlot exampleLog10
  have hr := ((h.2.1 exampleStartWorld 7 0 exampleReaderNodeOps r0
    exampleStartWorld_beforeNode hrc hrv).2 r hrr).2.1 6
    (by rw [hrq]; exact List.mem_cons_self _ _) 1 hrs
  have ht := ((h.2.2 exampleTagStartWorld 12 (RfidTagApp.create 12) 0 exampleTagNodeOps t0
    exampleTagStartWorld_beforeNode htc htv).2 t htr).2.1 5
    (by rw [htq]; exact List.mem_cons_self _ _) 1 hts
  exact ⟨r0, r, r1, t0, t, t1, exampleStartWorld_beforeNode, hrc, hrv, hrr, hrq, hrs,
    hr.1, hr.2.2, hr1, hrun1, exampleTagStartWorld_beforeNode, htc, htv, htr, htq, hts,
    ht.1, ht.2.2, ht1, htun1⟩

end NodeClaims

end RFIDSIM
